import Mathlib

/-!
# VisualSort: value proxies and sorting routines

A shallow embedding of `Counter.h`, `Strip.h`, the parts of `Fraction.h` that
`Strip` uses, and of the sorting routines of `Sort.h`, followed by the properties
proved about them.

Conventions of the embedding.

* `int` values are mathematical integers; `+`, `-`, `*` are wrapped to 32 bits
  (`wrapInt`), `/` and `%` truncate toward zero and are undefined for a zero
  divisor and for `INT_MIN / -1`.
* The process-wide state (`ActualStepNum`, the four `Strip` counters, the static
  members of `Strip`, the thread-local members of the running thread, and a log
  of the calls made to the drawing backend and to the injected callbacks) is the
  record `World`; one thread of execution is modelled.
* The counters are `std::atomic<size_t>`; they are reset at the start of each pass
  and are modelled as natural numbers.
* A C++ exception, a call of `std::terminate` and an undefined operation are the
  constructors of `Fault`; a function that can raise one returns its outcome
  together with the state it leaves behind.
-/

namespace NVisualSort

/-! ## Outcomes -/

/-- The message carried by a `WideError`. -/
structure WideError where
  m_wideMessage : String
  deriving DecidableEq, Repr

/-- Ways in which a call can end other than by returning. -/
inductive Fault where
  /-- `throw WideError(msg)`. -/
  | wideError (e : WideError)
  /-- Built-in `/` or `%` with a zero divisor or an unrepresentable quotient. -/
  | intDivide
  /-- An exception left a `noexcept` function: `std::terminate`. -/
  | terminate
  /-- `operator[]` of a `std::vector` with an index outside `[0, size)`. -/
  | outOfRange
  /-- The pause flag is set and nothing will clear it: the polling loop spins. -/
  | pausedForever
  /-- The iteration bound given to `loop` was used up. -/
  | outOfFuel
  deriving DecidableEq, Repr

/-- Bounded iteration of a loop body. `step` performs one test-and-body round and
either continues with a new state (`Sum.inl`) or leaves the loop (`Sum.inr`). -/
def loop {σ ρ : Type} (step : σ → Except Fault (σ ⊕ ρ)) : Nat → σ → Except Fault ρ
  | 0, _ => .error .outOfFuel
  | fuel + 1, s =>
    match step s with
    | .error e => .error e
    | .ok (.inl s') => loop step fuel s'
    | .ok (.inr r) => .ok r

/-! ## Built-in `int` -/

/-- Reduction of an integer to the range of a 32-bit `int`. -/
def wrapInt (x : Int) : Int := (x + 2147483648) % 4294967296 - 2147483648

/-- The six built-in comparison operators. -/
inductive CmpOp where
  | gt | lt | eq | ge | le | ne
  deriving DecidableEq, Repr

/-- The built-in comparison `a ⋄ b` on `int`. -/
def CmpOp.eval : CmpOp → Int → Int → Bool
  | .gt, a, b => decide (a > b)
  | .lt, a, b => decide (a < b)
  | .eq, a, b => decide (a = b)
  | .ge, a, b => decide (a ≥ b)
  | .le, a, b => decide (a ≤ b)
  | .ne, a, b => decide (a ≠ b)

/-- The five built-in binary arithmetic operators. -/
inductive ArithOp where
  | add | sub | mul | div | mod
  deriving DecidableEq, Repr

/-- The built-in arithmetic `a ⋄ b` on `int`. -/
def ArithOp.eval : ArithOp → Int → Int → Except Fault Int
  | .add, a, b => .ok (wrapInt (a + b))
  | .sub, a, b => .ok (wrapInt (a - b))
  | .mul, a, b => .ok (wrapInt (a * b))
  | .div, a, b =>
    if b = 0 ∨ wrapInt (a.tdiv b) ≠ a.tdiv b then .error .intDivide else .ok (a.tdiv b)
  | .mod, a, b =>
    if b = 0 ∨ wrapInt (a.tdiv b) ≠ a.tdiv b then .error .intDivide else .ok (a.tmod b)

/-! ## Process-wide state -/

/-- A Windows `COLORREF` (`0x00bbggrr`). -/
abbrev COLORREF := Nat

/-- The `RGB` macro of `wingdi.h`: each component is cut to a byte. -/
def RGB (r g b : Nat) : COLORREF := r % 256 + (g % 256) * 256 + (b % 256) * 65536

/-- EasyX colour constant `BLACK`. -/
def BLACK : COLORREF := 0x000000
/-- EasyX colour constant `RED`. -/
def RED : COLORREF := 0x0000AA
/-- EasyX colour constant `LIGHTBLUE`. -/
def LIGHTBLUE : COLORREF := 0xFF5555
/-- EasyX colour constant `WHITE`. -/
def WHITE : COLORREF := 0xFFFFFF

/-- Source: `constexpr COLORREF StripCopyColor = LIGHTBLUE`. -/
def StripCopyColor : COLORREF := LIGHTBLUE
/-- Source: `constexpr COLORREF StripChangeColor = RED`. -/
def StripChangeColor : COLORREF := RED
/-- Source: `constexpr COLORREF StripFirstColor = RGB(0x88, 0x88, 0x88)`. -/
def StripFirstColor : COLORREF := RGB 0x88 0x88 0x88
/-- Source: `constexpr COLORREF StripLastColor = WHITE`. -/
def StripLastColor : COLORREF := WHITE

/-- The message of the cancellation failure. -/
def SortEndsPrematurely : String := "排序提前结束"

/-- A Windows `RECT`. -/
structure RECT where
  left : Int
  top : Int
  right : Int
  bottom : Int
  deriving DecidableEq, Repr

/-- Source: `Strip::Interval`. -/
structure Interval where
  left : Int := 0
  right : Int := 0
  deriving DecidableEq, Repr

/-- A call made to the drawing backend or to one of the injected callbacks. -/
inductive Event where
  /-- `GetDrawingTool().ClearRectangle(left, top, right, bottom)`. -/
  | ClearRectangle (left top right bottom : Int)
  /-- `Strip::s_drawFunc(rect, color)`. -/
  | drawFunc (rect : RECT) (color : COLORREF)
  /-- `GetDrawingTool().FlushBatchDraw(left, top, right, bottom)`. -/
  | FlushBatchDraw (left top right bottom : Int)
  /-- `Strip::s_updateMessageFunc()`. -/
  | updateMessageFunc
  /-- `Strip::s_sleepFunc()`. -/
  | sleepFunc
  deriving DecidableEq, Repr

/-- The globals of `Counter.h` and `Strip.h`, the configuration read by `Strip`,
the thread-local members of the running thread and its surroundings. -/
structure World where
  /-- `ActualStepNum` of `Counter.h`. -/
  ActualStepNum : Nat := 0
  StripCompareNum : Nat := 0
  StripCopyNum : Nat := 0
  StripChangeNum : Nat := 0
  AnimationStepNum : Nat := 0
  /-- `Strip::s_stripSortStopTime`, in milliseconds. -/
  s_stripSortStopTime : Nat := 0
  s_stopStripSort : Bool := false
  s_exitStripSort : Bool := false
  s_isMulThreadSort : Bool := false
  s_maxValue : Int := 0
  s_minValue : Int := 0
  st_lastOperationNum : Nat := 0
  st_lastInterval1 : Interval := {}
  st_lastInterval2 : Interval × Interval := ({}, {})
  /-- `Strip::s_threads`, a `std::set` of thread identifiers. -/
  s_threads : List Nat := []
  s_mainThreadId : Nat := 0
  /-- `std::this_thread::get_id()` of the running thread. -/
  thisThread : Nat := 0
  /-- Whether `Strip::st_scopeGuard` of the running thread is still active. -/
  st_scopeGuardActive : Bool := true
  /-- Whether the function-local `static thread_local temp` of `DrawStrip1` has
  been initialised on the running thread. -/
  st_temp1 : Bool := false
  /-- The same for the `temp` of `DrawStrip2`. -/
  st_temp2 : Bool := false
  /-- `GetConfigManager().m_width`. -/
  m_width : Nat := 800
  /-- `GetConfigManager().m_height`. -/
  m_height : Nat := 600
  /-- `std::chrono::steady_clock::now()`, in milliseconds. -/
  clock : Nat := 0
  /-- The calls made so far, oldest first. -/
  events : List Event := []
  /-- What the interface thread does to the pause and exit flags while the running
  thread sleeps in `StopSort`: entry `k` gives the values of `s_stopStripSort`
  and `s_exitStripSort` at the end of the `k`-th 10 ms sleep from now. Once the
  list is used up the flags keep their values. -/
  uiSchedule : List (Bool × Bool) := []
  deriving DecidableEq, Repr

/-- Append a call to the log. -/
def World.emit (w : World) (e : Event) : World := { w with events := w.events ++ [e] }

/-- Source: `std::this_thread::sleep_for(std::chrono::milliseconds(10))` inside `StopSort`. -/
def World.sleep10 (w : World) : World :=
  match w.uiSchedule with
  | [] => { w with clock := w.clock + 10 }
  | (stop, exit) :: rest =>
    { w with clock := w.clock + 10, s_stopStripSort := stop, s_exitStripSort := exit,
             uiSchedule := rest }

/-! ## `Counter.h` -/

/-- Source: `class Counter`. -/
structure Counter where
  m_value : Int := 0
  m_notTemp : Bool := false
  deriving DecidableEq, Repr

/-- Source: `++ActualStepNum`. -/
def World.incActualStepNum (w : World) : World := { w with ActualStepNum := w.ActualStepNum + 1 }

namespace Counter

/-- Source: `void IncrementIfNeeded() const`. -/
def IncrementIfNeeded (self : Counter) (w : World) : World :=
  if self.m_notTemp then w.incActualStepNum else w

/-- Source: `void IncrementIfNeeded(const Counter& other_) const`. -/
def IncrementIfNeeded2 (self other_ : Counter) (w : World) : World :=
  if self.m_notTemp || other_.m_notTemp then w.incActualStepNum else w

/-- Source: `Counter(int value_ = 0, bool not_temp_ = false)`. -/
def ctor (value_ : Int := 0) (not_temp_ : Bool := false) (w : World) : Counter × World :=
  (⟨value_, not_temp_⟩, w)

/-- Source: `Counter(const Counter& other_)`. -/
def copy (other_ : Counter) (w : World) : Counter × World :=
  (⟨other_.m_value, false⟩, other_.IncrementIfNeeded w)

/-- Source: `void SetCounter(int value_, bool not_temp_)`. -/
def SetCounter (_self : Counter) (value_ : Int) (not_temp_ : Bool) : Counter :=
  ⟨value_, not_temp_⟩

/-- Source: `static void SetCounters(const std::vector<int>&, std::vector<Counter>&)`. -/
def SetCounters (data_ : List Int) : List Counter := data_.map fun v => ⟨v, true⟩

/-- The member comparisons `bool operator⋄(int value_) const`. -/
def compareInt (op : CmpOp) (self : Counter) (value_ : Int) (w : World) : Bool × World :=
  (op.eval self.m_value value_, self.IncrementIfNeeded w)

/-- The member comparisons `bool operator⋄(const Counter& counter_) const`. -/
def compare (op : CmpOp) (self counter_ : Counter) (w : World) : Bool × World :=
  (op.eval self.m_value counter_.m_value, self.IncrementIfNeeded2 counter_ w)

/-- The friend comparisons `bool operator⋄(int value_, const Counter& counter_)`. -/
def intCompare (op : CmpOp) (value_ : Int) (counter_ : Counter) (w : World) : Bool × World :=
  (op.eval value_ counter_.m_value, if counter_.m_notTemp then w.incActualStepNum else w)

/-- Source: `Counter& operator=(int value_)`. -/
def assignInt (self : Counter) (value_ : Int) (w : World) : Counter × World :=
  ({ self with m_value := value_ }, self.IncrementIfNeeded w)

/-- Source: `Counter& operator=(const Counter& counter_)`. -/
def assign (self counter_ : Counter) (w : World) : Counter × World :=
  ({ self with m_value := counter_.m_value }, self.IncrementIfNeeded2 counter_ w)

/-- Source: `operator int() const`. -/
def toInt (self : Counter) (w : World) : Int × World :=
  (self.m_value, self.IncrementIfNeeded w)

/-- The compound assignments `Counter& operator⋄=(int value_)`. The operation is
counted before the built-in operator is applied; when that faults nothing is
stored. -/
def compoundInt (op : ArithOp) (self : Counter) (value_ : Int) (w : World) :
    Except Fault Unit × Counter × World :=
  let w := self.IncrementIfNeeded w
  match op.eval self.m_value value_ with
  | .error e => (.error e, self, w)
  | .ok v => (.ok (), { self with m_value := v }, w)

/-- The compound assignments `Counter& operator⋄=(const Counter& counter_)`. -/
def compound (op : ArithOp) (self counter_ : Counter) (w : World) :
    Except Fault Unit × Counter × World :=
  let w := self.IncrementIfNeeded2 counter_ w
  match op.eval self.m_value counter_.m_value with
  | .error e => (.error e, self, w)
  | .ok v => (.ok (), { self with m_value := v }, w)

/-- Source: `Counter& operator++()`. -/
def preIncrement (self : Counter) (w : World) : Counter × World :=
  ({ self with m_value := wrapInt (self.m_value + 1) }, self.IncrementIfNeeded w)

/-- Source: `int operator++(int)`: returns the old value. -/
def postIncrement (self : Counter) (w : World) : Int × Counter × World :=
  (self.m_value, { self with m_value := wrapInt (self.m_value + 1) }, self.IncrementIfNeeded w)

/-- Source: `Counter& operator--()`. -/
def preDecrement (self : Counter) (w : World) : Counter × World :=
  ({ self with m_value := wrapInt (self.m_value - 1) }, self.IncrementIfNeeded w)

/-- Source: `int operator--(int)`: returns the old value. -/
def postDecrement (self : Counter) (w : World) : Int × Counter × World :=
  (self.m_value, { self with m_value := wrapInt (self.m_value - 1) }, self.IncrementIfNeeded w)

/-- The binary operators `int operator⋄(int value_) const`. -/
def arithInt (op : ArithOp) (self : Counter) (value_ : Int) (w : World) :
    Except Fault Int × World :=
  (op.eval self.m_value value_, self.IncrementIfNeeded w)

/-- The binary operators `int operator⋄(const Counter& counter_) const`. -/
def arith (op : ArithOp) (self counter_ : Counter) (w : World) : Except Fault Int × World :=
  (op.eval self.m_value counter_.m_value, self.IncrementIfNeeded2 counter_ w)

/-- Source: `void swap(Counter& counter1_, Counter& counter2_)`. -/
def swap (counter1_ counter2_ : Counter) (w : World) : (Counter × Counter) × World :=
  (({ counter1_ with m_value := counter2_.m_value }, { counter2_ with m_value := counter1_.m_value }),
    if counter1_.m_notTemp || counter2_.m_notTemp then w.incActualStepNum else w)

/-- Source: `void swap(Counter& counter_, int& value_)`. -/
def swapCounterInt (counter_ : Counter) (value_ : Int) (w : World) : (Counter × Int) × World :=
  (({ counter_ with m_value := value_ }, counter_.m_value),
    if counter_.m_notTemp then w.incActualStepNum else w)

/-- Source: `void swap(int& value_, Counter& counter_)`. -/
def swapIntCounter (value_ : Int) (counter_ : Counter) (w : World) : (Int × Counter) × World :=
  ((counter_.m_value, { counter_ with m_value := value_ }),
    if counter_.m_notTemp then w.incActualStepNum else w)

end Counter

/-! ## `Fraction.h` (the part used by `Strip`)

`long long` arithmetic is modelled on unbounded integers. -/

/-- Source: `class Fraction`. -/
structure Fraction where
  m_numerator : Int := 0
  m_denominator : Int := 1
  deriving DecidableEq, Repr

namespace Fraction

/-- Source: `constexpr void Reduce() noexcept`. -/
def Reduce (self : Fraction) : Fraction :=
  if self.m_numerator = 0 then { self with m_denominator := 1 }
  else
    let self : Fraction :=
      if self.m_denominator < 0 then ⟨-self.m_numerator, -self.m_denominator⟩ else self
    let divisor : Int := (Int.gcd self.m_numerator self.m_denominator : Nat)
    if divisor ≠ 0 then
      ⟨self.m_numerator.tdiv divisor, self.m_denominator.tdiv divisor⟩
    else self

/-- Source: `constexpr Fraction(T num_ = 0) noexcept`. -/
def ofInt (num_ : Int) : Fraction := ⟨num_, 1⟩

/-- Source: `Fraction& operator+=(const Fraction& other_) noexcept`. -/
def addAssign (self other_ : Fraction) : Fraction :=
  let lcm : Int := (Int.lcm self.m_denominator other_.m_denominator : Nat)
  Reduce ⟨self.m_numerator * lcm.tdiv self.m_denominator +
      other_.m_numerator * lcm.tdiv other_.m_denominator, lcm⟩

/-- Source: `Fraction& operator*=(const Fraction& other_) noexcept`. -/
def mulAssign (self other_ : Fraction) : Fraction :=
  Reduce ⟨self.m_numerator * other_.m_numerator, self.m_denominator * other_.m_denominator⟩

/-- Source: `Fraction& operator/=(const Fraction& other_)`. -/
def divAssign (self other_ : Fraction) : Except Fault Fraction :=
  if other_.m_numerator = 0 then .error (.wideError ⟨"除以0"⟩)
  else .ok (Reduce ⟨self.m_numerator * other_.m_denominator,
    self.m_denominator * other_.m_numerator⟩)

/-- Source: `template<std::integral T> constexpr operator T() const noexcept` at `T = int`. -/
def toInt (self : Fraction) : Except Fault Int :=
  if self.m_denominator = 0 then .error .intDivide
  else .ok (wrapInt (self.m_numerator.tdiv self.m_denominator))

/-- Source: `template<std::integral T> constexpr bool operator>(T value_) const noexcept`. -/
def gtInt (self : Fraction) (value_ : Int) : Bool :=
  decide (self.m_numerator > self.m_denominator * value_)

end Fraction

/-! ## `Strip.h` -/

/-- Source: `class Strip`. -/
structure Strip where
  m_value : Int := 0
  m_left : Int := -1
  m_right : Int := -1
  m_top : Int := 0
  m_color : COLORREF := BLACK
  m_notTemp : Bool := false
  deriving DecidableEq, Repr

/-- Source: `GetConfigManager().GetHeight()`. -/
def World.GetHeight (w : World) : Fraction := Fraction.ofInt w.m_height

/-- Source: `GetConfigManager().GetHeight()` converted to `int` or `LONG`. -/
def World.heightInt (w : World) : Int := wrapInt w.m_height

namespace Strip

/-- Source: `static Fraction StripMaxTop() noexcept`: `GetHeight() * 2 / 9`. The divisor is
the constant 9, so the division of fractions cannot raise. -/
def StripMaxTop (w : World) : Fraction :=
  Fraction.Reduce ⟨(w.GetHeight.mulAssign (.ofInt 2)).m_numerator * 1,
    (w.GetHeight.mulAssign (.ofInt 2)).m_denominator * 9⟩

/-- Source: `StripMaxTop()` passed where an `int` is expected. -/
def maxTopInt (w : World) : Int :=
  wrapInt ((StripMaxTop w).m_numerator.tdiv (StripMaxTop w).m_denominator)

/-- Source: `Strip& SetTopAuto() noexcept`. The division of the fraction by `s_maxValue`
raises a `WideError` when `s_maxValue` is zero; the function is `noexcept`, so
the process is terminated. -/
def SetTopAuto (self : Strip) (w : World) : Except Fault Strip :=
  let sum := (w.GetHeight.mulAssign (.ofInt (wrapInt (w.s_maxValue - self.m_value)))).addAssign
    ((Fraction.ofInt self.m_value).mulAssign (StripMaxTop w))
  match sum.divAssign (.ofInt w.s_maxValue) with
  | .error _ => .error .terminate
  | .ok q =>
    match q.toInt with
    | .error e => .error e
    | .ok top =>
      if (StripMaxTop w).gtInt top then .ok { self with m_top := maxTopInt w }
      else .ok { self with m_top := top }

/-- Source: `Strip& SetColorAuto() noexcept`, for a 64-bit `size_t` and a 32-bit `COLORREF`. -/
def SetColorAuto (self : Strip) (w : World) : Except Fault Strip :=
  let maxValue : Nat := (w.s_maxValue % 18446744073709551616).toNat
  if maxValue = 0 then .error .intDivide
  else
    let tempColor : Nat :=
      ((StripLastColor - StripFirstColor) / RGB 1 1 1 *
          (self.m_value % 18446744073709551616).toNat % 18446744073709551616 / maxValue)
        % 4294967296
    .ok { self with m_color := (RGB tempColor tempColor tempColor + StripFirstColor) % 4294967296 }

/-- Source: `Strip& SetTopAndColorAuto() noexcept`. -/
def SetTopAndColorAuto (self : Strip) (w : World) : Except Fault Strip :=
  match self.SetTopAuto w with
  | .error e => .error e
  | .ok self => self.SetColorAuto w

/-- Source: `static void DrawRemainingStrip()`. -/
def DrawRemainingStrip (w : World) : World :=
  let top := maxTopInt w
  let bottom := w.heightInt
  if w.st_lastOperationNum = 1 then
    w.emit (.FlushBatchDraw w.st_lastInterval1.left top w.st_lastInterval1.right bottom)
  else if w.st_lastOperationNum = 2 then
    (w.emit (.FlushBatchDraw w.st_lastInterval2.1.left top w.st_lastInterval2.1.right bottom)).emit
      (.FlushBatchDraw w.st_lastInterval2.2.left top w.st_lastInterval2.2.right bottom)
  else w

/-- Source: `throw WideError(SortEndsPrematurely)`. -/
def cancelled : Fault := .wideError ⟨SortEndsPrematurely⟩

/-- The polling loop of `StopSort` on a thread other than the main one:
`while (s_stopStripSort) sleep_for(10ms);`. The bound is the number of entries
left in the schedule of the interface thread. -/
def StopSort.waitWorker : Nat → World → Except Fault Unit × World
  | 0, w => if w.s_stopStripSort then (.error .pausedForever, w) else (.ok (), w)
  | n + 1, w => if w.s_stopStripSort then waitWorker n w.sleep10 else (.ok (), w)

/-- The polling loop of `StopSort` on the main thread. The Boolean carried along
says whether `stopBeginTime` has been given a value. -/
def StopSort.waitMain : Nat → Bool → World → Except Fault Bool × World
  | 0, began, w =>
    if w.s_stopStripSort then
      if w.s_exitStripSort && !w.s_isMulThreadSort then (.error cancelled, w)
      else (.error .pausedForever, w)
    else (.ok began, w)
  | n + 1, began, w =>
    if w.s_stopStripSort then
      if w.s_exitStripSort && !w.s_isMulThreadSort then (.error cancelled, w)
      else waitMain n true w.sleep10
    else (.ok began, w)

/-- Source: `static void StopSort()`. -/
def StopSort (w : World) : Except Fault Unit × World :=
  if w.thisThread ≠ w.s_mainThreadId then
    StopSort.waitWorker w.uiSchedule.length w
  else
    let stopBeginTime1 := w.clock
    match StopSort.waitMain w.uiSchedule.length false w with
    | (.error e, w) => (.error e, w)
    | (.ok began, w) =>
      let w : World :=
        if began then
          { w with s_stripSortStopTime := w.s_stripSortStopTime + (w.clock - stopBeginTime1) }
        else w
      if w.s_exitStripSort && !w.s_isMulThreadSort then (.error cancelled, w)
      else (.ok (), w)

/-- Source: `static void RegisterCurrentThread()`. -/
def RegisterCurrentThread (w : World) : World :=
  let w : World :=
    if w.thisThread = w.s_mainThreadId then { w with st_scopeGuardActive := false } else w
  { w with s_threads := if w.thisThread ∈ w.s_threads then w.s_threads
                        else w.thisThread :: w.s_threads }

/-- The part of `DrawStrip1` that precedes its call of `StopSort`: registration of
the thread on the first call, clear, highlight, flush, telemetry, flush of the
previous operation, pacing. The configuration is not changed by any of these
calls, so the height and `StripMaxTop()` are read once. -/
def DrawStrip1.highlight (strip_ : Strip) (color_ : COLORREF) (w : World) : World :=
  let top := maxTopInt w
  let bottom := w.heightInt
  let w : World := if w.st_temp1 then w else { RegisterCurrentThread w with st_temp1 := true }
  let w := w.emit (.ClearRectangle strip_.m_left top strip_.m_right bottom)
  let w := w.emit (.drawFunc ⟨strip_.m_left, strip_.m_top, strip_.m_right, bottom⟩ color_)
  let w := w.emit (.FlushBatchDraw strip_.m_left top strip_.m_right bottom)
  let w := w.emit .updateMessageFunc
  let w := DrawRemainingStrip w
  w.emit .sleepFunc

/-- The part of `DrawStrip1` that follows its call of `StopSort`: the strip is drawn
in its own colour and remembered as the last operation. -/
def DrawStrip1.restore (strip_ : Strip) (w : World) : World :=
  let w := w.emit
    (.drawFunc ⟨strip_.m_left, strip_.m_top, strip_.m_right, w.heightInt⟩ strip_.m_color)
  { w with st_lastOperationNum := 1, st_lastInterval1 := ⟨strip_.m_left, strip_.m_right⟩ }

/-- Source: `static void DrawStrip1(const Strip& strip_, COLORREF color_)`. -/
def DrawStrip1 (strip_ : Strip) (color_ : COLORREF) (w : World) : Except Fault Unit × World :=
  match StopSort (DrawStrip1.highlight strip_ color_ w) with
  | (.error e, w) => (.error e, w)
  | (.ok _, w) => (.ok (), DrawStrip1.restore strip_ w)

/-- The part of `DrawStrip2` that precedes its call of `StopSort`. -/
def DrawStrip2.highlight (strip1_ : Strip) (color1_ : COLORREF) (strip2_ : Strip)
    (color2_ : COLORREF) (w : World) : World :=
  let top := maxTopInt w
  let bottom := w.heightInt
  let w : World := if w.st_temp2 then w else { RegisterCurrentThread w with st_temp2 := true }
  let w := w.emit (.ClearRectangle strip1_.m_left top strip1_.m_right bottom)
  let w := w.emit (.ClearRectangle strip2_.m_left top strip2_.m_right bottom)
  let w := w.emit (.drawFunc ⟨strip1_.m_left, strip1_.m_top, strip1_.m_right, bottom⟩ color1_)
  let w := w.emit (.drawFunc ⟨strip2_.m_left, strip2_.m_top, strip2_.m_right, bottom⟩ color2_)
  let w := w.emit (.FlushBatchDraw strip1_.m_left top strip1_.m_right bottom)
  let w := w.emit (.FlushBatchDraw strip2_.m_left top strip2_.m_right bottom)
  let w := w.emit .updateMessageFunc
  let w := DrawRemainingStrip w
  w.emit .sleepFunc

/-- The part of `DrawStrip2` that follows its call of `StopSort`. -/
def DrawStrip2.restore (strip1_ strip2_ : Strip) (w : World) : World :=
  let bottom := w.heightInt
  let w := w.emit
    (.drawFunc ⟨strip1_.m_left, strip1_.m_top, strip1_.m_right, bottom⟩ strip1_.m_color)
  let w := w.emit
    (.drawFunc ⟨strip2_.m_left, strip2_.m_top, strip2_.m_right, bottom⟩ strip2_.m_color)
  { w with st_lastOperationNum := 2,
           st_lastInterval2 := (⟨strip1_.m_left, strip1_.m_right⟩,
                                ⟨strip2_.m_left, strip2_.m_right⟩) }

/-- Source: `static void DrawStrip2(const Strip&, COLORREF, const Strip&, COLORREF)`. -/
def DrawStrip2 (strip1_ : Strip) (color1_ : COLORREF) (strip2_ : Strip) (color2_ : COLORREF)
    (w : World) : Except Fault Unit × World :=
  match StopSort (DrawStrip2.highlight strip1_ color1_ strip2_ color2_ w) with
  | (.error e, w) => (.error e, w)
  | (.ok _, w) => (.ok (), DrawStrip2.restore strip1_ strip2_ w)

/-- Source: `static void AddNumCompare1()`. -/
def AddNumCompare1 (w : World) : World :=
  { w with StripCopyNum := w.StripCopyNum + 1, StripCompareNum := w.StripCompareNum + 1,
           AnimationStepNum := w.AnimationStepNum + 1 }

/-- Source: `static void AddNumCompare2()`. -/
def AddNumCompare2 (w : World) : World :=
  { w with StripCopyNum := w.StripCopyNum + 2, StripCompareNum := w.StripCompareNum + 1,
           AnimationStepNum := w.AnimationStepNum + 1 }

/-- Source: `static void AddNumCopy1_IntToStrip()`. -/
def AddNumCopy1_IntToStrip (w : World) : World :=
  { w with StripCopyNum := w.StripCopyNum + 1, StripChangeNum := w.StripChangeNum + 1,
           AnimationStepNum := w.AnimationStepNum + 1 }

/-- Source: `static void AddNumCopy1_StripToInt()`. -/
def AddNumCopy1_StripToInt (w : World) : World :=
  { w with StripCopyNum := w.StripCopyNum + 1, AnimationStepNum := w.AnimationStepNum + 1 }

/-- Source: `static void AddNumCopy2()`. -/
def AddNumCopy2 (w : World) : World :=
  { w with StripCopyNum := w.StripCopyNum + 2, StripChangeNum := w.StripChangeNum + 1,
           AnimationStepNum := w.AnimationStepNum + 1 }

/-- Source: `static void AddNumCopy2_StripToInt()`. -/
def AddNumCopy2_StripToInt (w : World) : World :=
  { w with StripCopyNum := w.StripCopyNum + 2, AnimationStepNum := w.AnimationStepNum + 1 }

/-- Source: `static void AddNumSwap2()`. -/
def AddNumSwap2 (w : World) : World :=
  { w with StripCopyNum := w.StripCopyNum + 4, StripChangeNum := w.StripChangeNum + 2,
           AnimationStepNum := w.AnimationStepNum + 1 }

/-- Source: `constexpr Strip(int value_ = 0, bool not_temp_ = false)`. -/
def ctor (value_ : Int := 0) (not_temp_ : Bool := false) (w : World) : Strip × World :=
  ({ m_value := value_, m_notTemp := not_temp_, m_left := -1, m_right := -1, m_top := 0,
     m_color := BLACK }, w)

/-- Source: `Strip(int value_, int left_, int right_)`. -/
def ctor3 (value_ left_ right_ : Int) (w : World) : Except Fault Strip × World :=
  (SetTopAndColorAuto { m_value := value_, m_left := left_, m_right := right_, m_notTemp := true } w,
    w)

/-- Source: `Strip(const Strip& strip_)`. The counters are advanced first (left operand of
the comma expression), then the source is drawn. -/
def copy (strip_ : Strip) (w : World) : Except Fault Strip × World :=
  let self : Strip := { m_value := strip_.m_value, m_left := -1, m_right := -1, m_top := 0,
                        m_color := BLACK, m_notTemp := false }
  if strip_.m_notTemp then
    match DrawStrip1 strip_ StripCopyColor (AddNumCopy1_StripToInt w) with
    | (.error e, w) => (.error e, w)
    | (.ok _, w) => (.ok self, w)
  else (.ok self, w)

/-- Source: `Strip& SetStrip(int value_, int left_, int right_)`. -/
def SetStrip (self : Strip) (value_ left_ right_ : Int) (w : World) : Except Fault Strip :=
  SetTopAndColorAuto { self with m_value := value_, m_left := left_, m_right := right_,
                                 m_notTemp := true } w

/-- The member comparisons `bool operator⋄(const int value_) const`. -/
def compareInt (op : CmpOp) (self : Strip) (value_ : Int) (w : World) :
    Except Fault Bool × World :=
  if self.m_notTemp then
    match DrawStrip1 self StripCopyColor w with
    | (.error e, w) => (.error e, w)
    | (.ok _, w) => (.ok (op.eval self.m_value value_), AddNumCompare1 w)
  else (.ok (op.eval self.m_value value_), w)

/-- The member comparisons `bool operator⋄(const Strip& strip_) const`. -/
def compare (op : CmpOp) (self strip_ : Strip) (w : World) : Except Fault Bool × World :=
  if self.m_notTemp != strip_.m_notTemp then
    match DrawStrip1 (if self.m_notTemp then self else strip_) StripCopyColor w with
    | (.error e, w) => (.error e, w)
    | (.ok _, w) => (.ok (op.eval self.m_value strip_.m_value), AddNumCompare1 w)
  else if self.m_notTemp then
    match DrawStrip2 self StripCopyColor strip_ StripCopyColor w with
    | (.error e, w) => (.error e, w)
    | (.ok _, w) => (.ok (op.eval self.m_value strip_.m_value), AddNumCompare2 w)
  else (.ok (op.eval self.m_value strip_.m_value), w)

/-- The friend comparisons `bool operator⋄(const int value_, const Strip& strip_)`. -/
def intCompare (op : CmpOp) (value_ : Int) (strip_ : Strip) (w : World) :
    Except Fault Bool × World :=
  if strip_.m_notTemp then
    match DrawStrip1 strip_ StripCopyColor w with
    | (.error e, w) => (.error e, w)
    | (.ok _, w) => (.ok (op.eval value_ strip_.m_value), AddNumCompare1 w)
  else (.ok (op.eval value_ strip_.m_value), w)

/-- What `operator=(int)` and the compound assignments from an `int` do once
`m_value` has been changed: a live strip is rescaled, drawn in `color_` and
counted. -/
def storedInt (self : Strip) (color_ : COLORREF) (w : World) :
    Except Fault Unit × Strip × World :=
  if self.m_notTemp then
    match self.SetTopAndColorAuto w with
    | .error e => (.error e, self, w)
    | .ok self =>
      match DrawStrip1 self color_ w with
      | (.error e, w) => (.error e, self, w)
      | (.ok _, w) => (.ok (), self, AddNumCopy1_IntToStrip w)
  else (.ok (), self, w)

/-- What `operator=(const Strip&)` and the compound assignments from a `Strip` do
once `m_value` has been changed. The two operands are distinct objects. -/
def storedStrip (self strip_ : Strip) (w : World) : Except Fault Unit × Strip × World :=
  if self.m_notTemp != strip_.m_notTemp then
    if self.m_notTemp then
      match self.SetTopAndColorAuto w with
      | .error e => (.error e, self, w)
      | .ok self =>
        match DrawStrip1 self StripChangeColor w with
        | (.error e, w) => (.error e, self, w)
        | (.ok _, w) => (.ok (), self, AddNumCopy1_IntToStrip w)
    else
      match DrawStrip1 strip_ StripCopyColor w with
      | (.error e, w) => (.error e, self, w)
      | (.ok _, w) => (.ok (), self, AddNumCopy1_StripToInt w)
  else if self.m_notTemp then
    match self.SetTopAndColorAuto w with
    | .error e => (.error e, self, w)
    | .ok self =>
      match DrawStrip2 self StripChangeColor strip_ StripCopyColor w with
      | (.error e, w) => (.error e, self, w)
      | (.ok _, w) => (.ok (), self, AddNumCopy2 w)
  else (.ok (), self, w)

/-- Source: `Strip& operator=(const int value_)`: the outcome, the strip and the globals
it leaves behind. -/
def assignInt (self : Strip) (value_ : Int) (w : World) : Except Fault Unit × Strip × World :=
  storedInt { self with m_value := value_ } StripCopyColor w

/-- Source: `Strip& operator=(const Strip& strip_)`. -/
def assign (self strip_ : Strip) (w : World) : Except Fault Unit × Strip × World :=
  storedStrip { self with m_value := strip_.m_value } strip_ w

/-- Source: `operator int() const`. -/
def toInt (self : Strip) (w : World) : Except Fault Int × World :=
  if self.m_notTemp then
    match DrawStrip1 self StripCopyColor w with
    | (.error e, w) => (.error e, w)
    | (.ok _, w) => (.ok self.m_value, AddNumCopy1_StripToInt w)
  else (.ok self.m_value, w)

/-- The compound assignments `Strip& operator⋄=(const int value_)`: the built-in
operator is applied to `m_value` first. -/
def compoundInt (op : ArithOp) (self : Strip) (value_ : Int) (w : World) :
    Except Fault Unit × Strip × World :=
  match op.eval self.m_value value_ with
  | .error e => (.error e, self, w)
  | .ok v => storedInt { self with m_value := v } StripChangeColor w

/-- The compound assignments `Strip& operator⋄=(const Strip& strip_)`. -/
def compound (op : ArithOp) (self strip_ : Strip) (w : World) :
    Except Fault Unit × Strip × World :=
  match op.eval self.m_value strip_.m_value with
  | .error e => (.error e, self, w)
  | .ok v => storedStrip { self with m_value := v } strip_ w

/-- The binary operators `const int operator⋄(const int value_) const`. -/
def arithInt (op : ArithOp) (self : Strip) (value_ : Int) (w : World) :
    Except Fault Int × World :=
  if self.m_notTemp then
    match DrawStrip1 self StripCopyColor w with
    | (.error e, w) => (.error e, w)
    | (.ok _, w) => (op.eval self.m_value value_, AddNumCopy1_StripToInt w)
  else (op.eval self.m_value value_, w)

/-- The binary operators `const int operator⋄(const Strip& strip_) const`. With two
live operands both `AddNumCompare2` and `AddNumCopy2_StripToInt` are called. -/
def arith (op : ArithOp) (self strip_ : Strip) (w : World) : Except Fault Int × World :=
  if self.m_notTemp != strip_.m_notTemp then
    match DrawStrip1 (if self.m_notTemp then self else strip_) StripCopyColor w with
    | (.error e, w) => (.error e, w)
    | (.ok _, w) => (op.eval self.m_value strip_.m_value, AddNumCopy1_StripToInt w)
  else if self.m_notTemp then
    match DrawStrip2 self StripCopyColor strip_ StripCopyColor w with
    | (.error e, w) => (.error e, w)
    | (.ok _, w) =>
      (op.eval self.m_value strip_.m_value, AddNumCopy2_StripToInt (AddNumCompare2 w))
  else (op.eval self.m_value strip_.m_value, w)

end Strip

/-! ## Harness for the liveness-suppression property -/

/-- Copy-construct `n` times in a row, each copy taken from the previous one. -/
def Counter.copyChain : Nat → Counter → World → Counter × World
  | 0, c, w => (c, w)
  | n + 1, c, w => Counter.copyChain n (Counter.copy c w).1 (Counter.copy c w).2

/-- Copy-construct `n` times in a row, each copy taken from the previous one; the
chain stops at the first copy that raises. -/
def Strip.copyChain : Nat → Strip → World → Except Fault Strip × World
  | 0, s, w => (.ok s, w)
  | n + 1, s, w =>
    match Strip.copy s w with
    | (.error e, w) => (.error e, w)
    | (.ok s, w) => Strip.copyChain n s w

/-- No cancellation is requested: the exit flag is clear and the interface thread
does not set it. -/
def World.NoCancel (w : World) : Prop :=
  w.s_exitStripSort = false ∧ ∀ p ∈ w.uiSchedule, p.2 = false

/-- A pause ends: the pause flag is clear, or the interface thread clears it at some
point and leaves it clear. -/
def World.PauseEnds (w : World) : Prop :=
  (w.s_stopStripSort :: w.uiSchedule.map Prod.fst).getLast? = some false

instance (w : World) : Decidable w.NoCancel := by unfold World.NoCancel; infer_instance
instance (w : World) : Decidable w.PauseEnds := by unfold World.PauseEnds; infer_instance

/-- The five global counters agree in two states. -/
def SameCounters (w w' : World) : Prop :=
  w'.ActualStepNum = w.ActualStepNum ∧ w'.StripCompareNum = w.StripCompareNum ∧
  w'.StripCopyNum = w.StripCopyNum ∧ w'.StripChangeNum = w.StripChangeNum ∧
  w'.AnimationStepNum = w.AnimationStepNum

/-- The pause flag, the exit flag and the schedule of the interface thread agree. -/
def SameFlags (w w' : World) : Prop :=
  w'.s_stopStripSort = w.s_stopStripSort ∧ w'.s_exitStripSort = w.s_exitStripSort ∧
  w'.uiSchedule = w.uiSchedule

/-- The four `Strip` counters of `w'` are those of `w` advanced by the given
amounts (comparisons, references, writes, animation steps). -/
def CountersAdvance (w w' : World) (compare copy change step : Nat) : Prop :=
  w'.StripCompareNum = w.StripCompareNum + compare ∧ w'.StripCopyNum = w.StripCopyNum + copy ∧
  w'.StripChangeNum = w.StripChangeNum + change ∧ w'.AnimationStepNum = w.AnimationStepNum + step

/-! ## `Sort.h`: the routines instantiated at `T = int`

`data_` is a `std::vector<int>`, modelled as a list; indices are `ptrdiff_t`,
modelled as integers. Every element access is checked against the size of the
vector. Each `while` and `for` loop is run by `loop` with a bound computed from
the size of the vector. -/

/-- Source: `data_[i]` as an rvalue. -/
def vecGet (data_ : List Int) (i : Int) : Except Fault Int :=
  if 0 ≤ i ∧ i < data_.length then .ok (data_.getD i.toNat 0) else .error .outOfRange

/-- Source: `data_[i] = v`. -/
def vecSet (data_ : List Int) (i : Int) (v : Int) : Except Fault (List Int) :=
  if 0 ≤ i ∧ i < data_.length then .ok (data_.set i.toNat v) else .error .outOfRange

/-- Source: `std::swap(data_[i], data_[j])`. -/
def vecSwap (data_ : List Int) (i j : Int) : Except Fault (List Int) := do
  let a ← vecGet data_ i
  let b ← vecGet data_ j
  let d ← vecSet data_ i b
  vecSet d j a

namespace NSortAlgorithms

/-- One round of `for (i = ...; i < dataSizeSub1; i += 2) if (data_[i] > data_[i + 1])
{ std::swap(data_[i], data_[i + 1]); flag = true; }` of `OddEvenSort`. The state is
`(i, data_, flag)`. -/
def OddEvenSort.sweep (dataSizeSub1 : Int) (s : Int × List Int × Bool) :
    Except Fault ((Int × List Int × Bool) ⊕ (List Int × Bool)) :=
  let (i, data_, flag) := s
  if i < dataSizeSub1 then do
    let a ← vecGet data_ i
    let b ← vecGet data_ (i + 1)
    if a > b then do
      let d ← vecSwap data_ i (i + 1)
      pure (.inl (i + 2, d, true))
    else pure (.inl (i + 2, data_, flag))
  else pure (.inr (data_, flag))

/-- One round of `while (odd && even) { ... }` of `OddEvenSort`. The state is
`(data_, odd, even)`. -/
def OddEvenSort.round (dataSizeSub1 : Int) (fuel : Nat) (s : List Int × Bool × Bool) :
    Except Fault ((List Int × Bool × Bool) ⊕ List Int) :=
  let (data_, odd, even) := s
  if odd && even then do
    let (d, odd) ← loop (OddEvenSort.sweep dataSizeSub1) fuel (0, data_, false)
    let (d, even) ← loop (OddEvenSort.sweep dataSizeSub1) fuel (1, d, false)
    pure (.inl (d, odd, even))
  else pure (.inr data_)

/-- Source: `template<class T = int> void OddEvenSort(std::vector<T>& data_)`. -/
def OddEvenSort (data_ : List Int) : Except Fault (List Int) :=
  if data_.length < 2 then .ok data_
  else
    loop (OddEvenSort.round ((data_.length : Int) - 1) (data_.length + 1))
      (data_.length * data_.length + 1) (data_, true, true)

/-- One round of the `while (leftIndex < heap_size_)` loop of the lambda `sortFunc`
of `HeapSort`. The state is `(leftIndex, rightIndex, index, data_)`. Both
`data_[leftIndex]` and `data_[rightIndex]` are read before `rightIndex` is
compared with `heap_size_`. -/
def HeapSort.siftDown (heap_size_ : Int) (s : Int × Int × Int × List Int) :
    Except Fault ((Int × Int × Int × List Int) ⊕ List Int) :=
  let (leftIndex, rightIndex, index, data_) := s
  if leftIndex < heap_size_ then do
    let l ← vecGet data_ leftIndex
    let r ← vecGet data_ rightIndex
    let largestIndex := if l < r && rightIndex < heap_size_ then rightIndex else leftIndex
    let x ← vecGet data_ index
    let y ← vecGet data_ largestIndex
    let largestIndex := if x > y then index else largestIndex
    if index = largestIndex then pure (.inr data_)
    else do
      let d ← vecSwap data_ index largestIndex
      pure (.inl (2 * largestIndex + 1, 2 * largestIndex + 1 + 1, largestIndex, d))
  else pure (.inr data_)

/-- The lambda `sortFunc` of `HeapSort`. -/
def HeapSort.sortFunc (data_ : List Int) (heap_size_ : Int) : Except Fault (List Int) :=
  loop (HeapSort.siftDown heap_size_) (data_.length + 1) (1, 2, 0, data_)

/-- One round of `while (data_[currentIndex] > data_[fatherIndex])` of `HeapSort`.
The state is `(currentIndex, fatherIndex, data_)`. -/
def HeapSort.siftUp (s : Int × Int × List Int) :
    Except Fault ((Int × Int × List Int) ⊕ List Int) :=
  let (currentIndex, fatherIndex, data_) := s
  do
    let c ← vecGet data_ currentIndex
    let f ← vecGet data_ fatherIndex
    if c > f then do
      let d ← vecSwap data_ currentIndex fatherIndex
      pure (.inl (fatherIndex, (fatherIndex - 1).tdiv 2, d))
    else pure (.inr data_)

/-- One round of `for (ptrdiff_t i = 0; i < dataSize; ++i)` of `HeapSort`. The
state is `(i, data_)`. -/
def HeapSort.build (dataSize : Int) (s : Int × List Int) :
    Except Fault ((Int × List Int) ⊕ List Int) :=
  let (i, data_) := s
  if i < dataSize then do
    let d ← loop HeapSort.siftUp (data_.length + 1) (i, (i - 1).tdiv 2, data_)
    pure (.inl (i + 1, d))
  else pure (.inr data_)

/-- One round of `while (heapSize > 1)` of `HeapSort`. The state is
`(heapSize, data_)`. -/
def HeapSort.extract (s : Int × List Int) : Except Fault ((Int × List Int) ⊕ List Int) :=
  let (heapSize, data_) := s
  if heapSize > 1 then do
    let d ← vecSwap data_ 0 (heapSize - 1)
    let d ← HeapSort.sortFunc d (heapSize - 1)
    pure (.inl (heapSize - 1, d))
  else pure (.inr data_)

/-- Source: `template<class T = int> void HeapSort(std::vector<T>& data_)`. -/
def HeapSort (data_ : List Int) : Except Fault (List Int) :=
  if data_.length < 2 then .ok data_
  else do
    let d ← loop (HeapSort.build data_.length) (data_.length + 1) (0, data_)
    loop HeapSort.extract (data_.length + 1) (data_.length, d)

/-- One round of `while (i < j && data_[j] >= base) --j;` of `QuickSort`. The state
is `j`. -/
def QuickSort.scanDown (data_ : List Int) (base i : Int) (j : Int) :
    Except Fault (Int ⊕ Int) :=
  if i < j then do
    let x ← vecGet data_ j
    if x ≥ base then pure (.inl (j - 1)) else pure (.inr j)
  else pure (.inr j)

/-- One round of `while (i < j && data_[i] <= base) ++i;` of `QuickSort`. The state
is `i`. -/
def QuickSort.scanUp (data_ : List Int) (base j : Int) (i : Int) :
    Except Fault (Int ⊕ Int) :=
  if i < j then do
    let x ← vecGet data_ i
    if x ≤ base then pure (.inl (i + 1)) else pure (.inr i)
  else pure (.inr i)

/-- One round of the partition loop `while (i < j)` of `QuickSort`. The state is
`(i, j, data_)`. -/
def QuickSort.partition (base : Int) (s : Int × Int × List Int) :
    Except Fault ((Int × Int × List Int) ⊕ (Int × List Int)) :=
  let (i, j, data_) := s
  if i < j then do
    let j ← loop (QuickSort.scanDown data_ base i) (data_.length + 1) j
    let i ← loop (QuickSort.scanUp data_ base j) (data_.length + 1) i
    if i < j then do
      let d ← vecSwap data_ i j
      pure (.inl (i, j, d))
    else pure (.inl (i, j, data_))
  else pure (.inr (i, data_))

/-- One round of `while (!localStack.empty())` of `QuickSort`. The state is
`(localStack, data_)`, the top of the stack first. -/
def QuickSort.step (s : List (Int × Int) × List Int) :
    Except Fault ((List (Int × Int) × List Int) ⊕ List Int) :=
  match s with
  | ([], data_) => pure (.inr data_)
  | ((leftIndex, rightIndex) :: localStack, data_) =>
    if leftIndex ≥ rightIndex then pure (.inl (localStack, data_))
    else do
      let base ← vecGet data_ leftIndex
      let (i, d) ← loop (QuickSort.partition base) (data_.length + 1)
        (leftIndex, rightIndex, data_)
      let d ← vecSwap d i leftIndex
      if i - leftIndex < rightIndex - i then
        pure (.inl ((leftIndex, i - 1) :: (i + 1, rightIndex) :: localStack, d))
      else
        pure (.inl ((i + 1, rightIndex) :: (leftIndex, i - 1) :: localStack, d))

/-- Source: `template<class T = int> void QuickSort(std::vector<T>& data_)`. -/
def QuickSort (data_ : List Int) : Except Fault (List Int) :=
  if data_.length < 2 then .ok data_
  else loop QuickSort.step (2 * data_.length + 2) ([(0, (data_.length : Int) - 1)], data_)

/-- Source: `struct stackItem` of `MergeSort`. -/
structure MergeSort.stackItem where
  m_leftIndex : Int
  m_rightIndex : Int
  m_isProcessed : Bool
  deriving DecidableEq, Repr

/-- One round of `for (i = leftIndex; i <= middleIndex; ++i) dataQueue[i - leftIndex] =
data_[i];` of `MergeSort`. The state is `(i, dataQueue)`. -/
def MergeSort.fill (data_ : List Int) (leftIndex middleIndex : Int) (s : Int × List Int) :
    Except Fault ((Int × List Int) ⊕ List Int) :=
  let (i, dataQueue) := s
  if i ≤ middleIndex then do
    let x ← vecGet data_ i
    let q ← vecSet dataQueue (i - leftIndex) x
    pure (.inl (i + 1, q))
  else pure (.inr dataQueue)

/-- One round of `while (dataIndex <= rightIndex && queueIndex <= queueSize)` of
`MergeSort`. The state is `(dataIndex, queueIndex, targetIndex, data_)`. -/
def MergeSort.merge (dataQueue : List Int) (rightIndex queueSize : Int)
    (s : Int × Int × Int × List Int) :
    Except Fault ((Int × Int × Int × List Int) ⊕ (Int × Int × List Int)) :=
  let (dataIndex, queueIndex, targetIndex, data_) := s
  if dataIndex ≤ rightIndex && queueIndex ≤ queueSize then do
    let x ← vecGet data_ dataIndex
    let y ← vecGet dataQueue queueIndex
    if x < y then do
      let d ← vecSet data_ targetIndex x
      pure (.inl (dataIndex + 1, queueIndex, targetIndex + 1, d))
    else do
      let d ← vecSet data_ targetIndex y
      pure (.inl (dataIndex, queueIndex + 1, targetIndex + 1, d))
  else pure (.inr (queueIndex, targetIndex, data_))

/-- One round of `while (queueIndex <= queueSize) data_[targetIndex++] =
dataQueue[queueIndex++];` of `MergeSort`. The state is
`(queueIndex, targetIndex, data_)`. -/
def MergeSort.drain (dataQueue : List Int) (queueSize : Int) (s : Int × Int × List Int) :
    Except Fault ((Int × Int × List Int) ⊕ List Int) :=
  let (queueIndex, targetIndex, data_) := s
  if queueIndex ≤ queueSize then do
    let y ← vecGet dataQueue queueIndex
    let d ← vecSet data_ targetIndex y
    pure (.inl (queueIndex + 1, targetIndex + 1, d))
  else pure (.inr data_)

/-- One round of `while (!localStack.empty())` of `MergeSort`. The state is
`(localStack, data_, dataQueue)`, the back of the stack first. -/
def MergeSort.step (s : List MergeSort.stackItem × List Int × List Int) :
    Except Fault ((List MergeSort.stackItem × List Int × List Int) ⊕ List Int) :=
  match s with
  | ([], data_, _) => pure (.inr data_)
  | (⟨leftIndex, rightIndex, isProcessed⟩ :: localStack, data_, dataQueue) =>
    if leftIndex ≥ rightIndex then pure (.inl (localStack, data_, dataQueue))
    else
      let middleIndex := leftIndex + (rightIndex - leftIndex).tdiv 2
      if !isProcessed then
        pure (.inl (⟨leftIndex, middleIndex, false⟩ :: ⟨middleIndex + 1, rightIndex, false⟩ ::
          ⟨leftIndex, rightIndex, true⟩ :: localStack, data_, dataQueue))
      else do
        let q ← loop (MergeSort.fill data_ leftIndex middleIndex) (data_.length + 1)
          (leftIndex, dataQueue)
        let queueSize := middleIndex - leftIndex
        let (queueIndex, targetIndex, d) ← loop (MergeSort.merge q rightIndex queueSize)
          (data_.length + 1) (middleIndex + 1, 0, leftIndex, data_)
        let d ← loop (MergeSort.drain q queueSize) (data_.length + 1)
          (queueIndex, targetIndex, d)
        pure (.inl (localStack, d, q))

/-- Source: `template<class T = int> void MergeSort(std::vector<T>& data_)`. The scratch
vector `dataQueue` has `data_.size() / 2 + 1` value-initialised elements. The call
of `localStack.reserve` only sets a capacity and has no counterpart here. -/
def MergeSort (data_ : List Int) : Except Fault (List Int) :=
  if data_.length < 2 then .ok data_
  else
    loop MergeSort.step (3 * data_.length + 1)
      ([⟨0, (data_.length : Int) - 1, false⟩], data_, List.replicate (data_.length / 2 + 1) 0)

end NSortAlgorithms

/-! ## Vocabulary of the proofs about the sorting routines -/

/-- The element of `data_` at index `i`. -/
def nth (data_ : List Int) (i : Int) : Int := data_.getD i.toNat 0

/-- The vector `data_` with the elements at `i` and `j` exchanged. -/
def swapAt (data_ : List Int) (i j : Int) : List Int :=
  (data_.set i.toNat (nth data_ j)).set j.toNat (nth data_ i)

/-- The source data stable-sorted into non-decreasing order, the reference the
animated result is compared with. -/
def sortedCopy (data_ : List Int) : List Int := data_.mergeSort (fun a b => decide (a ≤ b))

/-- The first `m` elements of `data_` form a max-heap in the array layout: no
element exceeds its parent. -/
def HeapOn (data_ : List Int) (m : Int) : Prop :=
  ∀ k : Int, 1 ≤ k → k < m → nth data_ k ≤ nth data_ ((k - 1) / 2)

/-- The vector `d'` is `d` with the elements at the indices `l .. r` rearranged:
same size, a permutation, equal outside the range, and every element found in
the range of `d'` comes from the range of `d`. -/
def Shuffled (l r : Int) (d d' : List Int) : Prop :=
  d'.length = d.length ∧ d'.Perm d ∧
  (∀ k : Int, 0 ≤ k → (k < l ∨ r < k) → nth d' k = nth d k) ∧
  (∀ k : Int, l ≤ k → k ≤ r → ∃ k' : Int, l ≤ k' ∧ k' ≤ r ∧ nth d' k = nth d k')

/-- The order used to merge: `a ≤ b` on `int`. -/
def intLe (a b : Int) : Bool := decide (a ≤ b)

/-- The vector `d` in the middle of merging the sorted runs `L` and `R` that sat
between `pre` and `post`, after `b` elements of `L` (held in the scratch vector)
and `a` elements of `R` have been placed: the elements placed so far, a gap as
long as what is left of `L`, what is left of `R`. -/
def MergeState (pre L R post : List Int) (a b : Nat) (d : List Int) : Prop :=
  ∃ M G : List Int, d = pre ++ M ++ G ++ R.drop a ++ post ∧ M.length = a + b ∧
    G.length = L.length - b ∧ M ++ List.merge (L.drop b) (R.drop a) intLe = List.merge L R intLe


/-! ## More sorting routines of `Sort.h` on `std::vector<int>`

The elements are `int`, modelled as integers; the counters `ptrdiff_t` and `int`
that run over the indices of a vector are modelled as integers as well. The one
`int` that the code multiplies on its own, `divNum` of `RadixSort`, wraps at 32
bits. -/

namespace NSortAlgorithms

/-- One round of `while (!localStack.empty())` of `StoogeSort`. The state is
`(localStack, data_)`, the top of the stack first. -/
def StoogeSort.step (s : List (Int × Int) × List Int) :
    Except Fault ((List (Int × Int) × List Int) ⊕ List Int) :=
  match s with
  | ([], data_) => pure (.inr data_)
  | ((i, j) :: localStack, data_) =>
    if i ≥ j then pure (.inl (localStack, data_))
    else do
      let a ← vecGet data_ i
      let b ← vecGet data_ j
      let d ← if a > b then vecSwap data_ i j else pure data_
      if j - i > 1 then
        let k := (j - i + 1).tdiv 3
        pure (.inl ((i, j - k) :: (i + k, j) :: (i, j - k) :: localStack, d))
      else pure (.inl (localStack, d))

/-- Source: `template<class T = int> void StoogeSort(std::vector<T>& data_)`. -/
def StoogeSort (data_ : List Int) : Except Fault (List Int) :=
  if data_.length < 2 then .ok data_
  else loop StoogeSort.step (2 * 3 ^ data_.length) ([(0, (data_.length : Int) - 1)], data_)

/-- One round of `for (i = cycleStart + 1; i < dataSize; ++i) if (data_[i] < item)
++itemPosition;` of `CycleSort`. The state is `(i, itemPosition)`. -/
def CycleSort.count (data_ : List Int) (dataSize item : Int) (s : Int × Int) :
    Except Fault ((Int × Int) ⊕ Int) :=
  let (i, itemPosition) := s
  if i < dataSize then do
    let x ← vecGet data_ i
    if x < item then pure (.inl (i + 1, itemPosition + 1))
    else pure (.inl (i + 1, itemPosition))
  else pure (.inr itemPosition)

/-- One round of `while (item == data_[itemPosition]) ++itemPosition;` of
`CycleSort`. The state is `itemPosition`. -/
def CycleSort.skip (data_ : List Int) (item : Int) (itemPosition : Int) :
    Except Fault (Int ⊕ Int) := do
  let x ← vecGet data_ itemPosition
  if item = x then pure (.inl (itemPosition + 1)) else pure (.inr itemPosition)

/-- One round of `while (itemPosition != cycleStart)` of `CycleSort`. The state is
`(item, itemPosition, data_)`. -/
def CycleSort.rotate (dataSize cycleStart : Int) (s : Int × Int × List Int) :
    Except Fault ((Int × Int × List Int) ⊕ List Int) :=
  let (item, itemPosition, data_) := s
  if itemPosition ≠ cycleStart then do
    let p ← loop (CycleSort.count data_ dataSize item) (data_.length + 1)
      (cycleStart + 1, cycleStart)
    let p ← loop (CycleSort.skip data_ item) (data_.length + 1) p
    let x ← vecGet data_ p
    if item ≠ x then do
      let d ← vecSet data_ p item
      pure (.inl (x, p, d))
    else pure (.inl (item, p, data_))
  else pure (.inr data_)

/-- One round of `for (cycleStart = 0; cycleStart < dataSize - 1; ++cycleStart)` of
`CycleSort`. The state is `(cycleStart, data_)`. -/
def CycleSort.cycle (dataSize : Int) (s : Int × List Int) :
    Except Fault ((Int × List Int) ⊕ List Int) :=
  let (cycleStart, data_) := s
  if cycleStart < dataSize - 1 then do
    let item ← vecGet data_ cycleStart
    let p ← loop (CycleSort.count data_ dataSize item) (data_.length + 1)
      (cycleStart + 1, cycleStart)
    if p = cycleStart then pure (.inl (cycleStart + 1, data_))
    else do
      let p ← loop (CycleSort.skip data_ item) (data_.length + 1) p
      let (item, d) ←
        if p ≠ cycleStart then do
          let x ← vecGet data_ p
          let d ← vecSet data_ p item
          pure (x, d)
        else pure (item, data_)
      let d ← loop (CycleSort.rotate dataSize cycleStart) (data_.length + 1) (item, p, d)
      pure (.inl (cycleStart + 1, d))
  else pure (.inr data_)

/-- Source: `template<class T = int> void CycleSort(std::vector<T>& data_)`. -/
def CycleSort (data_ : List Int) : Except Fault (List Int) :=
  if data_.length < 2 then .ok data_
  else loop (CycleSort.cycle data_.length) (data_.length + 1) (0, data_)

/-- One round of `for (int i = 1; i < dataSize; ++i) { if (data_[i] > maxValue)
maxValue = data_[i]; else if (data_[i] < minValue) minValue = data_[i]; }` of
`BeadSort`. The state is `(i, maxValue, minValue)`. -/
def BeadSort.scan (data_ : List Int) (dataSize : Int) (s : Int × Int × Int) :
    Except Fault ((Int × Int × Int) ⊕ (Int × Int)) :=
  let (i, maxValue, minValue) := s
  if i < dataSize then do
    let x ← vecGet data_ i
    if x > maxValue then pure (.inl (i + 1, x, minValue))
    else if x < minValue then pure (.inl (i + 1, maxValue, x))
    else pure (.inl (i + 1, maxValue, minValue))
  else pure (.inr (maxValue, minValue))

/-- One round of `for (int j = 0; j < data_[i] - minValue; ++j) ++beadQueue[j];`
of `BeadSort`, `limit` being `data_[i] - minValue`. The state is
`(j, beadQueue)`. -/
def BeadSort.drop (limit : Int) (s : Int × List Int) :
    Except Fault ((Int × List Int) ⊕ List Int) :=
  let (j, beadQueue) := s
  if j < limit then do
    let b ← vecGet beadQueue j
    let q ← vecSet beadQueue j (b + 1)
    pure (.inl (j + 1, q))
  else pure (.inr beadQueue)

/-- One round of `for (ptrdiff_t i = 0; i < dataSize; ++i)` around the loop that
drops the beads of `data_[i]`, of `BeadSort`. The state is `(i, beadQueue)`. -/
def BeadSort.fill (data_ : List Int) (dataSize minValue : Int) (s : Int × List Int) :
    Except Fault ((Int × List Int) ⊕ List Int) :=
  let (i, beadQueue) := s
  if i < dataSize then do
    let x ← vecGet data_ i
    let q ← loop (BeadSort.drop (x - minValue)) (beadQueue.length + 1) (0, beadQueue)
    pure (.inl (i + 1, q))
  else pure (.inr beadQueue)

/-- One round of `for (; i < dataSize - beadQueue[0]; ++i) data_[i] = minValue;` of
`BeadSort`. The state is `(i, data_)`. -/
def BeadSort.lowest (beadQueue : List Int) (dataSize minValue : Int) (s : Int × List Int) :
    Except Fault ((Int × List Int) ⊕ (Int × List Int)) :=
  let (i, data_) := s
  do
    let b ← vecGet beadQueue 0
    if i < dataSize - b then do
      let d ← vecSet data_ i minValue
      pure (.inl (i + 1, d))
    else pure (.inr (i, data_))

/-- One round of `for (j = data_[i - 1] - minValue; j < rangeSize; ++j) { if
(beadQueue[j] < dataSize - i) { data_[i] = j + minValue; break; } }` of `BeadSort`.
The state is `(j, data_)`. -/
def BeadSort.search (beadQueue : List Int) (dataSize rangeSize minValue i : Int)
    (s : Int × List Int) : Except Fault ((Int × List Int) ⊕ List Int) :=
  let (j, data_) := s
  if j < rangeSize then do
    let b ← vecGet beadQueue j
    if b < dataSize - i then do
      let d ← vecSet data_ i (j + minValue)
      pure (.inr d)
    else pure (.inl (j + 1, data_))
  else pure (.inr data_)

/-- One round of `for (; i < dataSize - *beadQueue.rbegin(); ++i)` of `BeadSort`.
The state is `(i, data_)`. -/
def BeadSort.middle (beadQueue : List Int) (dataSize rangeSize minValue : Int)
    (s : Int × List Int) : Except Fault ((Int × List Int) ⊕ (Int × List Int)) :=
  let (i, data_) := s
  do
    let b ← vecGet beadQueue ((beadQueue.length : Int) - 1)
    if i < dataSize - b then do
      let previous ← vecGet data_ (i - 1)
      let d ← loop (BeadSort.search beadQueue dataSize rangeSize minValue i)
        (beadQueue.length + 1) (previous - minValue, data_)
      pure (.inl (i + 1, d))
    else pure (.inr (i, data_))

/-- One round of `for (; i < dataSize; ++i) data_[i] = maxValue;` of `BeadSort`.
The state is `(i, data_)`. -/
def BeadSort.highest (dataSize maxValue : Int) (s : Int × List Int) :
    Except Fault ((Int × List Int) ⊕ List Int) :=
  let (i, data_) := s
  if i < dataSize then do
    let d ← vecSet data_ i maxValue
    pure (.inl (i + 1, d))
  else pure (.inr data_)

/-- Source: `template<class T = int> void BeadSort(std::vector<T>& data_)`. -/
def BeadSort (data_ : List Int) : Except Fault (List Int) :=
  if data_.length < 2 then .ok data_
  else do
    let dataSize : Int := data_.length
    let first ← vecGet data_ 0
    let (maxValue, minValue) ← loop (BeadSort.scan data_ dataSize) (data_.length + 1)
      (1, first, first)
    let rangeSize := maxValue - minValue
    if rangeSize = 0 then pure data_
    else if rangeSize > 10000000 then
      throw (.wideError ⟨"该数据最小值与最大值差距过大，不适合使用珠排序！"⟩)
    else do
      let beadQueue ← loop (BeadSort.fill data_ dataSize minValue) (data_.length + 1)
        (0, List.replicate rangeSize.toNat 0)
      let (i, d) ← loop (BeadSort.lowest beadQueue dataSize minValue) (data_.length + 1)
        (0, data_)
      let (i, d) ← loop (BeadSort.middle beadQueue dataSize rangeSize minValue)
        (data_.length + 1) (i, d)
      loop (BeadSort.highest dataSize maxValue) (data_.length + 1) (i, d)

/-- Source: `struct Range` of `BitonicSort`. -/
structure BitonicSort.Range where
  m_position : Int
  m_length : Int
  m_ascending : Bool
  m_type : Bool
  deriving DecidableEq, Repr

/-- One round of `for (i = 0; i < middleIndex; ++i) if ((data_[i + position] >
data_[i + middleIndex + position]) == ascending) std::swap(...)` of `BitonicSort`.
The state is `(i, data_)`. -/
def BitonicSort.merge (position middleIndex : Int) (ascending : Bool) (s : Int × List Int) :
    Except Fault ((Int × List Int) ⊕ List Int) :=
  let (i, data_) := s
  if i < middleIndex then do
    let a ← vecGet data_ (i + position)
    let b ← vecGet data_ (i + middleIndex + position)
    if decide (a > b) = ascending then do
      let d ← vecSwap data_ (i + position) (i + middleIndex + position)
      pure (.inl (i + 1, d))
    else pure (.inl (i + 1, data_))
  else pure (.inr data_)

/-- One round of `while (!localStack.empty())` of `BitonicSort`. The state is
`(localStack, data_)`, the top of the stack first. -/
def BitonicSort.step (s : List BitonicSort.Range × List Int) :
    Except Fault ((List BitonicSort.Range × List Int) ⊕ List Int) :=
  match s with
  | ([], data_) => pure (.inr data_)
  | (⟨position, length, ascending, type⟩ :: localStack, data_) =>
    if length ≤ 1 then pure (.inl (localStack, data_))
    else
      let middleIndex := length.tdiv 2
      if type = false then do
        let d ← loop (BitonicSort.merge position middleIndex ascending) (data_.length + 1)
          (0, data_)
        pure (.inl (⟨position, middleIndex, ascending, false⟩ ::
          ⟨position + middleIndex, middleIndex, ascending, false⟩ :: localStack, d))
      else
        pure (.inl (⟨position, middleIndex, !ascending, true⟩ ::
          ⟨position + middleIndex, length - middleIndex, ascending, true⟩ ::
          ⟨position, length, ascending, false⟩ :: localStack, data_))

/-- Source: `template<class T = int> void BitonicSort(std::vector<T>& data_)`. The
result is the outcome together with `data_` as the call leaves it; the size test
throws before anything reads or writes `data_`. A fault inside the loop leaves
`data_` unspecified, here the input. -/
def BitonicSort (data_ : List Int) : Except Fault Unit × List Int :=
  if data_.length < 2 then (.ok (), data_)
  else if data_.length &&& (data_.length - 1) ≠ 0 then
    (.error (.wideError ⟨"双调排序要求数据量为2的非负整数次幂！"⟩), data_)
  else
    match loop BitonicSort.step (2 * data_.length * data_.length + 1)
      ([⟨0, data_.length, true, true⟩], data_) with
    | .ok d => (.ok (), d)
    | .error e => (.error e, data_)

/-- Source: `bucket[index].push_back(value)` on the `std::vector<std::list<int>>`
of `RadixSort`. -/
def RadixSort.pushBack (bucket : List (List Int)) (index value : Int) :
    Except Fault (List (List Int)) :=
  if 0 ≤ index ∧ index < bucket.length then
    .ok (bucket.set index.toNat (bucket.getD index.toNat [] ++ [value]))
  else .error .outOfRange

/-- One round of the scan for `maxValue` and `minValue` of `RadixSort`. The state
is `(i, maxValue, minValue)`. -/
def RadixSort.scan (data_ : List Int) (dataSize : Int) (s : Int × Int × Int) :
    Except Fault ((Int × Int × Int) ⊕ (Int × Int)) :=
  let (i, maxValue, minValue) := s
  if i < dataSize then do
    let x ← vecGet data_ i
    if x > maxValue then pure (.inl (i + 1, x, minValue))
    else if x < minValue then pure (.inl (i + 1, maxValue, x))
    else pure (.inl (i + 1, maxValue, minValue))
  else pure (.inr (maxValue, minValue))

/-- One round of `for (i = 0; i < dataSize; ++i) { int tempValue = data_[i];
bucket[(tempValue - minValue) % base].push_back(tempValue); }` of `RadixSort`. The
state is `(i, bucket)`. -/
def RadixSort.first (data_ : List Int) (dataSize minValue base : Int)
    (s : Int × List (List Int)) : Except Fault ((Int × List (List Int)) ⊕ List (List Int)) :=
  let (i, bucket) := s
  if i < dataSize then do
    let tempValue ← vecGet data_ i
    let b ← RadixSort.pushBack bucket ((tempValue - minValue).tmod base) tempValue
    pure (.inl (i + 1, b))
  else pure (.inr bucket)

/-- One round of `for (int i = 0; i < base; ++i) dataQueue.splice(dataQueue.end(),
bucket[i]);` of `RadixSort`: the list `bucket[i]` moves to the end of `dataQueue`
and is left empty. The state is `(i, dataQueue, bucket)`. -/
def RadixSort.collect (base : Int) (s : Int × List Int × List (List Int)) :
    Except Fault ((Int × List Int × List (List Int)) ⊕ (List Int × List (List Int))) :=
  let (i, dataQueue, bucket) := s
  if i < base then
    if 0 ≤ i ∧ i < bucket.length then
      pure (.inl (i + 1, dataQueue ++ bucket.getD i.toNat [], bucket.set i.toNat []))
    else throw .outOfRange
  else pure (.inr (dataQueue, bucket))

/-- One round of `for (ptrdiff_t i = rangeSize; i > 0; i /= base) ++digit;` of
`RadixSort`. The state is `(i, digit)`. -/
def RadixSort.digits (base : Int) (s : Int × Int) : Except Fault ((Int × Int) ⊕ Int) :=
  let (i, digit) := s
  if i > 0 then pure (.inl (i.tdiv base, digit + 1)) else pure (.inr digit)

/-- One round of `while (!dataQueue.empty()) { bucketIndex = ((*dataQueue.begin() -
minValue) / divNum) % base; bucket[bucketIndex].splice(bucket[bucketIndex].end(),
dataQueue, dataQueue.begin()); }` of `RadixSort`. The state is
`(dataQueue, bucket)`. -/
def RadixSort.scatter (minValue divNum base : Int) (s : List Int × List (List Int)) :
    Except Fault ((List Int × List (List Int)) ⊕ List (List Int)) :=
  match s with
  | ([], bucket) => pure (.inr bucket)
  | (value :: dataQueue, bucket) =>
    if divNum = 0 then throw .intDivide
    else do
      let b ← RadixSort.pushBack bucket (((value - minValue).tdiv divNum).tmod base) value
      pure (.inl (dataQueue, b))

/-- One round of `for (int i = 1; i < digit; ++i)` of `RadixSort` on `int`. The
state is `(i, divNum, dataQueue, bucket)`; `divNum *= base` is a product of `int`. -/
def RadixSort.pass (minValue base digit : Int) (s : Int × Int × List Int × List (List Int)) :
    Except Fault ((Int × Int × List Int × List (List Int)) ⊕ List Int) :=
  let (i, divNum, dataQueue, bucket) := s
  if i < digit then do
    let b ← loop (RadixSort.scatter minValue divNum base) (dataQueue.length + 1)
      (dataQueue, bucket)
    let (q, b) ← loop (RadixSort.collect base) (base.toNat + 1) (0, [], b)
    pure (.inl (i + 1, wrapInt (divNum * base), q, b))
  else pure (.inr dataQueue)

/-- One round of the lambda `copyDataFromQueue` of `RadixSort`: `data_[dataIndex++]
= *it`. The state is `(dataIndex, it, data_)`, `it` being what is left of
`dataQueue`. -/
def RadixSort.copyDataFromQueue (s : Int × List Int × List Int) :
    Except Fault ((Int × List Int × List Int) ⊕ List Int) :=
  match s with
  | (_, [], data_) => pure (.inr data_)
  | (dataIndex, value :: it, data_) => do
    let d ← vecSet data_ dataIndex value
    pure (.inl (dataIndex + 1, it, d))

/-- Source: `template<class T = int> void RadixSort(std::vector<T>& data_)`, the
branches of `T = int`. -/
def RadixSort (data_ : List Int) : Except Fault (List Int) :=
  if data_.length < 2 then .ok data_
  else do
    let dataSize : Int := data_.length
    let first ← vecGet data_ 0
    let (maxValue, minValue) ← loop (RadixSort.scan data_ dataSize) (data_.length + 1)
      (1, first, first)
    let rangeSize := maxValue - minValue
    if rangeSize = 0 then pure data_
    else do
      let base : Int := 16
      let bucket ← loop (RadixSort.first data_ dataSize minValue base) (data_.length + 1)
        (0, List.replicate base.toNat [])
      let (dataQueue, bucket) ← loop (RadixSort.collect base) (base.toNat + 1) (0, [], bucket)
      let digit ← loop (RadixSort.digits base) (rangeSize.toNat + 1) (rangeSize, 0)
      let dataQueue ← loop (RadixSort.pass minValue base digit) (digit.toNat + 1)
        (1, base, dataQueue, bucket)
      loop RadixSort.copyDataFromQueue (dataQueue.length + 1) (0, dataQueue, data_)

end NSortAlgorithms

/-! ## More vocabulary of the proofs about the sorting routines -/

/-- The elements of `d` at the indices `l .. r`. -/
def slice (d : List Int) (l r : Int) : List Int := (d.drop l.toNat).take (r + 1 - l).toNat

/-- The number of elements of `data_` that lie more than `j` above `minValue`: the
beads on rod `j`. -/
def beadCount (data_ : List Int) (minValue j : Int) : Int :=
  (data_.countP (fun x => decide (j < x - minValue)) : Nat)

/-- The vector `d` has the size of `S` and agrees with it below index `i`. -/
def Placed (S : List Int) (i : Int) (d : List Int) : Prop :=
  d.length = S.length ∧ ∀ k : Int, 0 ≤ k → k < i → nth d k = nth S k

/-- The base-16 digit of weight `16 ^ k` of `value - minValue`. -/
def radixDigit (minValue : Int) (k : Nat) (value : Int) : Nat :=
  (value - minValue).toNat / 16 ^ k % 16

/-- The lowest `k` base-16 digits of `value - minValue`. -/
def radixKey (minValue : Int) (k : Nat) (value : Int) : Nat :=
  (value - minValue).toNat % 16 ^ k

/-- The sixteen buckets after the elements of `q` have been appended, each to the
bucket of its digit, in the order of `q`. -/
def radixBuckets (digit : Int → Nat) (q : List Int) : List (List Int) :=
  (List.range 16).map (fun b => q.filter (fun v => decide (digit v = b)))

/-- The number of elements of `M` smaller than `v`. -/
def below (M : List Int) (v : Int) : Int := (M.countP (fun y => decide (y < v)) : Nat)

/-- The number of elements of `M` equal to `v`. -/
def copies (M : List Int) (v : Int) : Int := (M.countP (fun y => decide (y = v)) : Nat)

/-- The index `p` is one of the places of the value `v` once the elements `M`, which
start at index `cycleStart`, are in order. -/
def CycleHome (M : List Int) (cycleStart v p : Int) : Prop :=
  cycleStart + below M v ≤ p ∧ p < cycleStart + below M v + copies M v

instance (M : List Int) (cycleStart v p : Int) : Decidable (CycleHome M cycleStart v p) := by
  unfold CycleHome; infer_instance

/-- The number of elements of `l`, which starts at index `p`, that are not at one
of their places. -/
def misplaced (M : List Int) (cycleStart : Int) : Int → List Int → Nat
  | _, [] => 0
  | p, v :: vs => (if CycleHome M cycleStart v p then 0 else 1) + misplaced M cycleStart (p + 1) vs

/-- The order of a direction: `a` comes no later than `b` when sorting upwards
(`ascending`) or downwards. -/
def dirLe (ascending : Bool) (a b : Int) : Prop := if ascending then a ≤ b else b ≤ a

/-- The `len` elements of `d` from index `l` on are in the order of the direction. -/
def SortedDir (ascending : Bool) (l len : Int) (d : List Int) : Prop :=
  ∀ i j : Int, l ≤ i → i ≤ j → j < l + len → dirLe ascending (nth d i) (nth d j)

/-- The property `I` of the indices `0 .. len - 1` holds exactly on one run of
consecutive indices, or exactly off one. -/
def Shape (I : Int → Prop) (len : Int) : Prop :=
  ∃ a b : Int, 0 ≤ a ∧ a ≤ b ∧ b ≤ len ∧
    ((∀ i : Int, 0 ≤ i → i < len → (I i ↔ (a ≤ i ∧ i < b))) ∨
      (∀ i : Int, 0 ≤ i → i < len → (I i ↔ ¬ (a ≤ i ∧ i < b))))

/-- The `len` elements of `d` from index `l` on form a bitonic sequence: against
every threshold, the elements that reach it sit on one run of consecutive indices
or off one. -/
def Bitonic (ascending : Bool) (l len : Int) (d : List Int) : Prop :=
  ∀ t : Int, Shape (fun i => dirLe ascending t (nth d (l + i))) len

/-! ## `Sort.h`: the catalog entries -/

/-- Source: `class NumRequire`, a constraint on the sample size. The defaults are
those of its default constructor. -/
structure NumRequire where
  m_requireInform : String := "无约束"
  m_checkFunc : Nat → Bool := fun _ => true

namespace NumRequire

/-- Source: `bool Check(size_t num_) const`. -/
def Check (self : NumRequire) (num_ : Nat) : Bool := self.m_checkFunc num_

/-- Source: `const std::wstring& GetRequireInform() const noexcept`. -/
def GetRequireInform (self : NumRequire) : String := self.m_requireInform

end NumRequire

/-- Source: `class Sort`, an entry of the catalog (`Sort` is a reserved word here).
The three `std::function` members are functions from the vector (and the
globals, for the two proxies) to the outcome, the vector and the globals they
leave behind. -/
structure SortDescriptor where
  m_sortName : String
  m_maxSize : Int := 0
  m_intSortFunc : List Int → Except Fault Unit × List Int
  m_counterSortFunc : List Counter → World → Except Fault Unit × List Counter × World
  m_stripSortFunc : List Strip → World → Except Fault Unit × List Strip × World
  m_numRequires : List NumRequire := []
  m_isUnpredictable : Bool := false
  m_isMulThread : Bool := false

namespace SortDescriptor

/-- Source: `int GetMaxSize() const`. -/
def GetMaxSize (self : SortDescriptor) : Int := self.m_maxSize

/-- Source: `const std::vector<NumRequire>& GetNumRequires() const`. -/
def GetNumRequires (self : SortDescriptor) : List NumRequire := self.m_numRequires

end SortDescriptor

/-! ## The element type of the templates

`VisualSort::Shuffle<T>` and `BubbleSort<T>` are instantiated at `int`, `Counter`
and `Strip`. They use `data_[j] > data_[j + 1]` and `std::swap`. Neither proxy
declares a move constructor or a move assignment, so `std::swap(a, b)` is
`T tmp(a); a = b; b = tmp;` with the copy constructor and the copy assignment. -/

/-- The operations of the element type `T` used by the templates. -/
structure ElemOps (T : Type) where
  /-- `a > b`. -/
  gt : T → T → World → Except Fault Bool × World
  /-- `std::swap(a, b)` on two distinct objects; the pair is `(a, b)` afterwards. -/
  swap : T → T → World → Except Fault Unit × (T × T) × World
  /-- `std::swap(a, a)`. -/
  swapSelf : T → World → Except Fault Unit × T × World

/-- Source: `std::swap(a, b)` at `T = Counter`, for two distinct objects. -/
def Counter.stdSwap (a b : Counter) (w : World) : (Counter × Counter) × World :=
  let (tmp, w) := Counter.copy a w
  let (a, w) := Counter.assign a b w
  let (b, w) := Counter.assign b tmp w
  ((a, b), w)

/-- Source: `std::swap(a, a)` at `T = Counter`. -/
def Counter.stdSwapSelf (a : Counter) (w : World) : Counter × World :=
  let (tmp, w) := Counter.copy a w
  let (a, w) := Counter.assign a a w
  Counter.assign a tmp w

/-- Source: `Strip& operator=(const Strip& strip_)` when `strip_` is `*this`: the value
is kept, and a live strip is rescaled and drawn as both operands. -/
def Strip.assignSelf (self : Strip) (w : World) : Except Fault Unit × Strip × World :=
  if self.m_notTemp then
    match self.SetTopAndColorAuto w with
    | .error e => (.error e, self, w)
    | .ok self =>
      match Strip.DrawStrip2 self StripChangeColor self StripCopyColor w with
      | (.error e, w) => (.error e, self, w)
      | (.ok _, w) => (.ok (), self, Strip.AddNumCopy2 w)
  else (.ok (), self, w)

/-- Source: `std::swap(a, b)` at `T = Strip`, for two distinct objects. -/
def Strip.stdSwap (a b : Strip) (w : World) : Except Fault Unit × (Strip × Strip) × World :=
  match Strip.copy a w with
  | (.error e, w) => (.error e, (a, b), w)
  | (.ok tmp, w) =>
    match Strip.assign a b w with
    | (.error e, a, w) => (.error e, (a, b), w)
    | (.ok _, a, w) =>
      match Strip.assign b tmp w with
      | (r, b, w) => (r, (a, b), w)

/-- Source: `std::swap(a, a)` at `T = Strip`. -/
def Strip.stdSwapSelf (a : Strip) (w : World) : Except Fault Unit × Strip × World :=
  match Strip.copy a w with
  | (.error e, w) => (.error e, a, w)
  | (.ok tmp, w) =>
    match Strip.assignSelf a w with
    | (.error e, a, w) => (.error e, a, w)
    | (.ok _, a, w) => Strip.assign a tmp w

/-- The element type `int`: its operations leave the globals alone. -/
def intOps : ElemOps Int where
  gt a b w := (.ok (decide (a > b)), w)
  swap a b w := (.ok (), (b, a), w)
  swapSelf a w := (.ok (), a, w)

/-- The element type `Counter`. -/
def counterOps : ElemOps Counter where
  gt a b w := let (r, w) := Counter.compare .gt a b w; (.ok r, w)
  swap a b w := let (p, w) := Counter.stdSwap a b w; (.ok (), p, w)
  swapSelf a w := let (a, w) := Counter.stdSwapSelf a w; (.ok (), a, w)

/-- The element type `Strip`. -/
def stripOps : ElemOps Strip where
  gt a b w := Strip.compare .gt a b w
  swap := Strip.stdSwap
  swapSelf := Strip.stdSwapSelf

/-- Source: `std::swap(data_[i], data_[j])` on a `std::vector<T>`. -/
def swapElems {T : Type} (ops : ElemOps T) (data_ : List T) (i j : Nat) (w : World) :
    Except Fault Unit × List T × World :=
  match data_[i]?, data_[j]? with
  | some a, some b =>
    if i = j then
      match ops.swapSelf a w with
      | (r, a, w) => (r, data_.set i a, w)
    else
      match ops.swap a b w with
      | (r, (a, b), w) => (r, (data_.set i a).set j b, w)
  | _, _ => (.error .outOfRange, data_, w)

namespace NSortAlgorithms

/-- The inner loop `for (ptrdiff_t j = 0; j < dataSize - i - 1; ++j)` of
`BubbleSort`, from index `j` on, with `bound = dataSize - i - 1`; the first
argument bounds the tests of the loop condition still to come. The result carries
`noSwapped`. -/
def BubbleSort.inner {T : Type} (ops : ElemOps T) (bound : Nat) :
    Nat → Nat → Bool → List T → World → Except Fault Bool × List T × World
  | 0, _, _, data_, w => (.error .outOfFuel, data_, w)
  | k + 1, j, noSwapped, data_, w =>
    if j < bound then
      match data_[j]?, data_[j + 1]? with
      | some a, some b =>
        match ops.gt a b w with
        | (.error e, w) => (.error e, data_, w)
        | (.ok true, w) =>
          match swapElems ops data_ j (j + 1) w with
          | (.error e, data_, w) => (.error e, data_, w)
          | (.ok _, data_, w) => BubbleSort.inner ops bound k (j + 1) false data_ w
        | (.ok false, w) => BubbleSort.inner ops bound k (j + 1) noSwapped data_ w
      | _, _ => (.error .outOfRange, data_, w)
    else (.ok noSwapped, data_, w)

/-- The outer loop `for (ptrdiff_t i = 0; i < dataSize; ++i)` of `BubbleSort`, from
index `i` on; the first argument bounds the tests of the loop condition still to
come. -/
def BubbleSort.outer {T : Type} (ops : ElemOps T) (dataSize : Nat) :
    Nat → Nat → List T → World → Except Fault Unit × List T × World
  | 0, _, data_, w => (.error .outOfFuel, data_, w)
  | k + 1, i, data_, w =>
    if i < dataSize then
      match BubbleSort.inner ops (dataSize - i - 1) (dataSize + 1) 0 true data_ w with
      | (.error e, data_, w) => (.error e, data_, w)
      | (.ok true, data_, w) => (.ok (), data_, w)
      | (.ok false, data_, w) => BubbleSort.outer ops dataSize k (i + 1) data_ w
    else (.ok (), data_, w)

/-- Source: `template<class T = int> void BubbleSort(std::vector<T>& data_)`. -/
def BubbleSort {T : Type} (ops : ElemOps T) (data_ : List T) (w : World) :
    Except Fault Unit × List T × World :=
  if data_.length < 2 then (.ok (), data_, w)
  else BubbleSort.outer ops data_.length (data_.length + 1) 0 data_ w

end NSortAlgorithms

/-! ## `Strip.h`: the routines used by the controller -/

/-- The EasyX colour constant `GREEN`. -/
def GREEN : COLORREF := 0x00AA00

/-- Source: `GetConfigManager().GetWidth()`. -/
def World.GetWidth (w : World) : Fraction := Fraction.ofInt w.m_width

namespace Strip

/-- Source: `static void InitValues()`. -/
def InitValues (w : World) : World :=
  { w with s_stripSortStopTime := 0, s_stopStripSort := false, s_exitStripSort := false,
           StripCompareNum := 0, StripCopyNum := 0, StripChangeNum := 0, AnimationStepNum := 0,
           s_mainThreadId := w.thisThread,
           s_threads := w.s_threads.filter fun id => decide (id = w.thisThread) }

/-- The loop of the six-parameter `InitValues` that finds the least and the
greatest element, started at `data_[0]`: the pair is `(tempMinValue, tempMaxValue)`. -/
def InitValuesWith.scan : Int × Int → List Int → Int × Int
  | p, [] => p
  | (tempMinValue, tempMaxValue), d :: rest =>
    if tempMinValue > d then InitValuesWith.scan (d, tempMaxValue) rest
    else if tempMaxValue < d then InitValuesWith.scan (tempMinValue, d) rest
    else InitValuesWith.scan (tempMinValue, tempMaxValue) rest

/-- Source: `stripIndex * GetConfigManager().GetWidth() / strips_.size()` converted to
`int`: the product and the quotient are fractions. -/
def InitValuesWith.edge (stripIndex size : Nat) (w : World) : Except Fault Int :=
  match ((Fraction.ofInt stripIndex).mulAssign w.GetWidth).divAssign (.ofInt size) with
  | .error e => .error e
  | .ok q => q.toInt

/-- The loop of the six-parameter `InitValues` that places the strips, from index
`stripIndex` on; the list holds the elements of `data_` from that index on. -/
def InitValuesWith.fill (size : Nat) (w : World) : Nat → List Int → Except Fault (List Strip)
  | _, [] => .ok []
  | stripIndex, v :: rest =>
    match InitValuesWith.edge stripIndex size w with
    | .error e => .error e
    | .ok tempLeft =>
      match InitValuesWith.edge (stripIndex + 1) size w with
      | .error e => .error e
      | .ok tempRight =>
        match Strip.SetStrip {} v tempLeft tempRight w with
        | .error e => .error e
        | .ok strip =>
          match InitValuesWith.fill size w (stripIndex + 1) rest with
          | .error e => .error e
          | .ok strips => .ok (strip :: strips)

/-- Source: `static void InitValues(const std::vector<int> data_, std::vector<Strip>&
strips_, ..., bool is_mul_thread_sort_)`. The three callbacks are kept by the
caller of the model: their calls are recorded as events. `data_[0]` is read
whatever the size of `data_`. -/
def InitValuesWith (data_ : List Int) (is_mul_thread_sort_ : Bool) (w : World) :
    Except Fault (List Strip) × World :=
  let w : World := { InitValues w with s_isMulThreadSort := is_mul_thread_sort_ }
  match data_ with
  | [] => (.error .outOfRange, w)
  | first :: rest =>
    let w : World := { w with s_minValue := (InitValuesWith.scan (first, first) rest).1,
                              s_maxValue := (InitValuesWith.scan (first, first) rest).2 }
    (InitValuesWith.fill data_.length w 0 data_, w)

/-- Source: `static void DrawStrips(const std::vector<Strip>& strips_)`. -/
def DrawStrips (strips_ : List Strip) (w : World) : World :=
  let top := maxTopInt w
  let bottom := w.heightInt
  let width := wrapInt w.m_width
  let w := w.emit (.ClearRectangle 0 top width bottom)
  let w := strips_.foldl
    (fun w strip => w.emit (.drawFunc ⟨strip.m_left, strip.m_top, strip.m_right, bottom⟩ strip.m_color)) w
  w.emit (.FlushBatchDraw 0 top width bottom)

/-- The part of `DrawCheckStrip` that precedes its call of `StopSort`. -/
def DrawCheckStrip.draw (strip_ : Strip) (color_ : COLORREF) (w : World) : World :=
  (w.emit (.drawFunc ⟨strip_.m_left, strip_.m_top, strip_.m_right, w.heightInt⟩ color_)).emit
    (.FlushBatchDraw strip_.m_left (maxTopInt w) strip_.m_right w.heightInt)

/-- Source: `static void DrawCheckStrip(const Strip& strip_, COLORREF color_)`. -/
def DrawCheckStrip (strip_ : Strip) (color_ : COLORREF) (w : World) : Except Fault Unit × World :=
  match StopSort (DrawCheckStrip.draw strip_ color_ w) with
  | (.error e, w) => (.error e, w)
  | (.ok _, w) => (.ok (), w.emit .sleepFunc)

/-- Source: `constexpr int GetValue() const noexcept`. -/
def GetValue (self : Strip) : Int := self.m_value

/-- Source: `constexpr COLORREF GetColor() const noexcept`. -/
def GetColor (self : Strip) : COLORREF := self.m_color

/-- Source: `Strip& SetColor(COLORREF color_) noexcept`. -/
def SetColor (self : Strip) (color_ : COLORREF) : Strip := { self with m_color := color_ }

end Strip

/-! ## `VisualSort.h`: the controller

The dialogs, the sketches, the buttons and the full-window clears and flushes
have no counterpart here, except that each dialog and each text shown is
recorded. `std::mt19937` is a parameter: `mt19937 seed k` is the `k`-th number,
counted from 0, produced by an engine constructed from `seed`. The number
returned by `GetConfigManager().GenerateRandom()` and the duration measured
around the first pass are inputs of `SortPreparation`. -/

/-- A call made by the controller to a dialog, to the data generator or to one of
the three functions of a catalog entry, or a text that it shows. -/
inductive Call where
  /-- `RunErrorWindow(error_messages_)`. -/
  | RunErrorWindow (error_messages_ : List String)
  /-- `m_initDataFunc(data_size_, m_sourceData)`. -/
  | initDataFunc (data_size_ : Nat)
  /-- `RunSort(m_intSortData)`, with the vector passed. -/
  | intSortFunc (data_ : List Int)
  /-- `RunSort(m_counterSortData)`, with the vector passed. -/
  | counterSortFunc (data_ : List Counter)
  /-- `RunSort(m_stripSortData)`, with the vector passed. -/
  | stripSortFunc (data_ : List Strip)
  /-- The texts given to `m_messages[1]` and `m_messages[2]` by `UpdateLastMessage`. -/
  | messages (text1 text2 : String)
  /-- The text of `resultSketch` in `CheckData`. -/
  | resultSketch (text : String)
  deriving DecidableEq, Repr

/-- Source: `class VisualSort`. -/
structure VisualSort where
  m_sourceData : List Int := []
  m_initDataFunc : Nat → List Int → Except Fault (List Int)
  m_intSortData : List Int := []
  m_counterSortData : List Counter := []
  m_stripSortData : List Strip := []
  m_sortIndex : Option Nat := none
  m_sorts : List SortDescriptor
  m_showShuffle : Bool := false
  m_updateMessageTime : Nat := 0
  /-- In milliseconds, as `World.clock`. -/
  m_stripSortBeginTime : Nat := 0
  /-- In microseconds. -/
  m_intSortDuration : Nat := 0
  /-- The calls made so far, oldest first. -/
  calls : List Call := []

namespace VisualSort

/-- The data generator installed by the constructor of `VisualSort`. -/
def defaultInitDataFunc (data_size_ : Nat) (_data_ : List Int) : Except Fault (List Int) :=
  .ok ((List.range data_size_).map fun (dataIndex : Nat) => wrapInt ((dataIndex : Int) + 1))

/-- Append a call to the record. -/
def record (self : VisualSort) (c : Call) : VisualSort := { self with calls := self.calls ++ [c] }

/-- Source: `this->m_sorts[this->m_sortIndex.value()]`. An empty `m_sortIndex` throws
`std::bad_optional_access`, which nothing catches. -/
def current (self : VisualSort) : Except Fault SortDescriptor :=
  match self.m_sortIndex with
  | none => .error .terminate
  | some i =>
    match self.m_sorts[i]? with
    | none => .error .outOfRange
    | some sort => .ok sort

/-- Source: `void RunErrorWindow(const std::vector<std::wstring>& error_messages_)`. -/
def RunErrorWindow (self : VisualSort) (error_messages_ : List String) : VisualSort :=
  self.record (.RunErrorWindow error_messages_)

/-- The loop of `Shuffle` from index `i` on; the first argument is the number of
rounds left, `data_.size() - i`. `rnd i` is the number produced by the `i`-th
call of `rnd()`. Both indices are in range when `i` is. -/
def Shuffle.go {T : Type} (ops : ElemOps T) (rnd : Nat → Nat) :
    Nat → Nat → List T → World → Except Fault Unit × List T × World
  | 0, _, data_, w => (.ok (), data_, w)
  | k + 1, i, data_, w =>
    match swapElems ops data_ i (rnd i % (i + 1)) w with
    | (.error e, data_, w) => (.error e, data_, w)
    | (.ok _, data_, w) => Shuffle.go ops rnd k (i + 1) data_ w

/-- Source: `template<typename T> static void Shuffle(std::vector<T>& data_, unsigned
int rand_device_)`. -/
def Shuffle {T : Type} (mt19937 : Nat → Nat → Nat) (ops : ElemOps T) (data_ : List T)
    (rand_device_ : Nat) (w : World) : Except Fault Unit × List T × World :=
  Shuffle.go ops (mt19937 rand_device_) data_.length 0 data_ w

/-- The three quotients shown by `UpdateLastMessage` and by the telemetry callback:
`AnimationStepNum * m_intSortDuration.count() / ActualStepNum`,
`AnimationStepNum * 100 / ActualStepNum` and `(AnimationStepNum * 1000 /
ActualStepNum) % 10`, on 64-bit `size_t`. -/
def progress (self : VisualSort) (w : World) : Except Fault (Nat × Nat × Nat) :=
  if w.ActualStepNum = 0 then .error .intDivide
  else .ok (w.AnimationStepNum * self.m_intSortDuration % 18446744073709551616 / w.ActualStepNum,
    w.AnimationStepNum * 100 % 18446744073709551616 / w.ActualStepNum,
    w.AnimationStepNum * 1000 % 18446744073709551616 / w.ActualStepNum % 10)

/-- The duration shown by `UpdateLastMessage`, in milliseconds: the time since the
animated pass began, less the time spent paused. -/
def stripSortTime (self : VisualSort) (w : World) : Int :=
  ((w.clock : Int) - self.m_stripSortBeginTime) - w.s_stripSortStopTime

/-- The text given to `m_messages[1]` by `UpdateLastMessage`. -/
def UpdateLastMessage.text1 (stripSortTime : Int) (notShowProgress : Bool)
    (m_intSortDuration : Nat) (p : Nat × Nat × Nat) : String :=
  "演示时间：" ++ toString (stripSortTime.tdiv 1000) ++ "." ++
    toString ((stripSortTime.tmod 1000).tdiv 100) ++
    (if notShowProgress then "s 排序时间" else "s 排序进度：") ++ toString p.1 ++
    (if notShowProgress then "us"
     else "us/" ++ toString m_intSortDuration ++ "us = " ++ toString p.2.1 ++ "." ++
       toString p.2.2 ++ "%")

/-- The text given to `m_messages[2]` by `UpdateLastMessage`. -/
def UpdateLastMessage.text2 (w : World) : String :=
  "样本比较：" ++ toString w.StripCompareNum ++ "次 " ++
    "样本引用：" ++ toString w.StripCopyNum ++ "次 " ++
    "样本修改：" ++ toString w.StripChangeNum ++ "次"

/-- Source: `void UpdateLastMessage()`. -/
def UpdateLastMessage (self : VisualSort) (w : World) : Except Fault Unit × VisualSort :=
  match self.current with
  | .error e => (.error e, self)
  | .ok sort =>
    match self.progress w with
    | .error e => (.error e, self)
    | .ok p =>
      (.ok (), self.record (.messages
        (UpdateLastMessage.text1 (self.stripSortTime w) sort.m_isUnpredictable
          self.m_intSortDuration p)
        (UpdateLastMessage.text2 w)))

/-- What `RunIntSort` does with the outcome of the first function of the entry.
`elapsed_` is the duration measured around the call, in microseconds. -/
def RunIntSort.leave (self : VisualSort) (elapsed_ : Nat) :
    Except Fault Unit × List Int → Except Fault Bool × VisualSort
  | (.ok _, data_) =>
    (.ok true, { self with m_intSortData := data_, m_intSortDuration := elapsed_ })
  | (.error (.wideError errorMessage), data_) =>
    (.ok false, RunErrorWindow { self with m_intSortData := data_ } [errorMessage.m_wideMessage])
  | (.error e, data_) => (.error e, { self with m_intSortData := data_ })

/-- Source: `bool RunIntSort()`. -/
def RunIntSort (self : VisualSort) (elapsed_ : Nat) : Except Fault Bool × VisualSort :=
  match self.current with
  | .error e => (.error e, { self with m_intSortDuration := 0 })
  | .ok sort =>
    RunIntSort.leave (record { self with m_intSortDuration := 0 } (.intSortFunc self.m_intSortData))
      elapsed_ (sort.m_intSortFunc self.m_intSortData)

/-- What `RunCounterSort` does with the outcome of the second function of the
entry. -/
def RunCounterSort.leave (self : VisualSort) :
    Except Fault Unit × List Counter × World → Except Fault Bool × VisualSort × World
  | (.ok _, data_, w) => (.ok true, { self with m_counterSortData := data_ }, w)
  | (.error (.wideError errorMessage), data_, w) =>
    (.ok false,
      RunErrorWindow { self with m_counterSortData := data_ } [errorMessage.m_wideMessage], w)
  | (.error e, data_, w) => (.error e, { self with m_counterSortData := data_ }, w)

/-- Source: `bool RunCounterSort()`. -/
def RunCounterSort (self : VisualSort) (w : World) : Except Fault Bool × VisualSort × World :=
  match self.current with
  | .error e => (.error e, self, { w with ActualStepNum := 0 })
  | .ok sort =>
    RunCounterSort.leave (self.record (.counterSortFunc self.m_counterSortData))
      (sort.m_counterSortFunc self.m_counterSortData { w with ActualStepNum := 0 })

/-- The part of `RunStripSort` that precedes its `try` block: the globals of `Strip`
are reset and, unless the shuffle was shown, the strips are drawn. -/
def RunStripSort.enter (self : VisualSort) (w : World) : World :=
  if self.m_showShuffle then Strip.InitValues w
  else Strip.DrawStrips self.m_stripSortData (Strip.InitValues w)

/-- What `RunStripSort` does with the outcome of the third function of the entry. -/
def RunStripSort.leave (self : VisualSort) :
    Except Fault Unit × List Strip × World → Except Fault Bool × VisualSort × World
  | (.error (.wideError errorMessage), data_, w) =>
    (.ok false,
      if errorMessage.m_wideMessage ≠ SortEndsPrematurely then
        RunErrorWindow { self with m_stripSortData := data_ } [errorMessage.m_wideMessage]
      else { self with m_stripSortData := data_ }, w)
  | (.error e, data_, w) => (.error e, { self with m_stripSortData := data_ }, w)
  | (.ok _, data_, w) =>
    match UpdateLastMessage { self with m_stripSortData := data_ } (Strip.DrawRemainingStrip w) with
    | (.error e, self) => (.error e, self, Strip.DrawRemainingStrip w)
    | (.ok _, self) => (.ok true, self, Strip.DrawRemainingStrip w)

/-- Source: `bool RunStripSort()`. -/
def RunStripSort (self : VisualSort) (w : World) : Except Fault Bool × VisualSort × World :=
  match self.current with
  | .error e =>
    (.error e, { self with m_updateMessageTime := 0,
                           m_stripSortBeginTime := (RunStripSort.enter self w).clock },
      RunStripSort.enter self w)
  | .ok sort =>
    RunStripSort.leave
      (record { self with m_updateMessageTime := 0,
                          m_stripSortBeginTime := (RunStripSort.enter self w).clock }
        (.stripSortFunc self.m_stripSortData))
      (sort.m_stripSortFunc self.m_stripSortData (RunStripSort.enter self w))

/-- The loop of `CheckData` over the strips and the sorted source, which have the
same size. The result carries `isCorrect`. -/
def CheckData.compare :
    List Strip → List Int → Bool → World → Except Fault Bool × List Strip × World
  | strip :: strips, v :: source, isCorrect, w =>
    if strip.GetValue = v then
      match Strip.DrawCheckStrip (strip.SetColor GREEN) GREEN w with
      | (.error e, w) => (.error e, strip.SetColor GREEN :: strips, w)
      | (.ok _, w) =>
        match CheckData.compare strips source isCorrect w with
        | (r, strips, w) => (r, strip.SetColor GREEN :: strips, w)
    else
      match Strip.DrawCheckStrip (strip.SetColor RED) RED w with
      | (.error e, w) => (.error e, strip.SetColor RED :: strips, w)
      | (.ok _, w) =>
        match CheckData.compare strips source false w with
        | (r, strips, w) => (r, strip.SetColor RED :: strips, w)
  | strips, _, isCorrect, w => (.ok isCorrect, strips, w)

/-- The text of `resultSketch` in `CheckData`. -/
def CheckData.text (sort : SortDescriptor) (isCorrect : Bool) (size : Nat) : String :=
  sort.m_sortName ++ (if isCorrect then "正确！ 样本大小：" else "错误！ 样本大小：") ++
    toString size

/-- What `CheckData` does with the outcome of its loop. -/
def CheckData.leave (self : VisualSort) :
    Except Fault Bool × List Strip × World → Except Fault Bool × VisualSort × World
  | (.error (.wideError errorMessage), strips, w) =>
    (.ok false,
      if errorMessage.m_wideMessage ≠ SortEndsPrematurely then
        RunErrorWindow { self with m_stripSortData := strips } [errorMessage.m_wideMessage]
      else { self with m_stripSortData := strips }, w)
  | (.error e, strips, w) => (.error e, { self with m_stripSortData := strips }, w)
  | (.ok isCorrect, strips, w) =>
    match self.current with
    | .error e => (.error e, { self with m_stripSortData := strips }, w)
    | .ok sort =>
      (.ok isCorrect,
        record { self with m_stripSortData := strips }
          (.resultSketch (CheckData.text sort isCorrect self.m_sourceData.length)), w)

/-- Source: `bool CheckData()`. `std::stable_sort` on a vector of `int` is the stable
merge sort of the list. -/
def CheckData (self : VisualSort) (w : World) : Except Fault Bool × VisualSort × World :=
  if self.m_sourceData.length ≠ self.m_stripSortData.length then
    (.ok false, self.RunErrorWindow ["排序结果的样本大小不正确"], w)
  else
    CheckData.leave { self with m_sourceData := sortedCopy self.m_sourceData }
      (CheckData.compare self.m_stripSortData (sortedCopy self.m_sourceData) true w)

/-- The list `errorMessages` built by `SortPreparation`. `data_size_` is a `size_t`
and `GetMaxSize()` an `int`: the comparison converts the `int` to the 64-bit
unsigned type. -/
def SortPreparation.errorMessages (sort : SortDescriptor) (data_size_ : Nat) : List String :=
  (if data_size_ > (sort.GetMaxSize % 18446744073709551616).toNat then ["数据量超过允许最大值"]
   else []) ++
  (sort.GetNumRequires.filter fun r => !r.Check data_size_).map fun r => r.GetRequireInform

/-- The loop `do { if (s_exitStripSort && !s_isMulThreadSort) throw
WideError(SortEndsPrematurely); sleep_for(10ms); } while (s_stopStripSort);` of
`SortPreparation`. The bound is the number of entries left in the schedule of the
interface thread. -/
def SortPreparation.poll : Nat → World → Except Fault Unit × World
  | 0, w =>
    if w.s_exitStripSort && !w.s_isMulThreadSort then (.error Strip.cancelled, w)
    else if w.sleep10.s_stopStripSort then (.error .pausedForever, w.sleep10)
    else (.ok (), w.sleep10)
  | n + 1, w =>
    if w.s_exitStripSort && !w.s_isMulThreadSort then (.error Strip.cancelled, w)
    else if w.sleep10.s_stopStripSort then SortPreparation.poll n w.sleep10
    else (.ok (), w.sleep10)

/-- The loop `for (size_t i = 0; i < 100; ++i) do ... while (s_stopStripSort);` of
`SortPreparation`; the first argument is the number of rounds left. -/
def SortPreparation.wait : Nat → World → Except Fault Unit × World
  | 0, w => (.ok (), w)
  | k + 1, w =>
    match SortPreparation.poll w.uiSchedule.length w with
    | (.error e, w) => (.error e, w)
    | (.ok _, w) => SortPreparation.wait k w

/-- The loop `for (it ...) Strip::DrawCheckStrip(*it, it->GetColor());` of
`SortPreparation`. -/
def SortPreparation.drawAll : List Strip → World → Except Fault Unit × World
  | [], w => (.ok (), w)
  | strip :: strips, w =>
    match Strip.DrawCheckStrip strip strip.GetColor w with
    | (.error e, w) => (.error e, w)
    | (.ok _, w) => SortPreparation.drawAll strips w

/-- Sequencing of two steps of `SortPreparation`: the second step is taken when the
first one neither returned from `SortPreparation` nor raised. The Boolean of a
step says whether the preparation goes on (`false` stands for a `return true`
of `SortPreparation`). -/
def SortPreparation.andThen (r : Except Fault Bool × VisualSort × World)
    (next : VisualSort → World → Except Fault Bool × VisualSort × World) :
    Except Fault Bool × VisualSort × World :=
  match r with
  | (.ok true, self, w) => next self w
  | r => r

/-- The call of `RunIntSort` as a step of `SortPreparation`. -/
def SortPreparation.intPass (elapsed_ : Nat) (self : VisualSort) (w : World) :
    Except Fault Bool × VisualSort × World :=
  ((self.RunIntSort elapsed_).1, (self.RunIntSort elapsed_).2, w)

/-- Without the shuffle shown: `Shuffle(m_sourceData, GenerateRandom()); m_intSortData
= m_sourceData; if (!RunIntSort()) return true;`. -/
def SortPreparation.plainFirst (mt19937 : Nat → Nat → Nat) (rand_device_ elapsed_ : Nat)
    (self : VisualSort) (w : World) : Except Fault Bool × VisualSort × World :=
  match Shuffle mt19937 intOps self.m_sourceData rand_device_ w with
  | (.error e, data_, w) => (.error e, { self with m_sourceData := data_ }, w)
  | (.ok _, data_, w) =>
    SortPreparation.intPass elapsed_ { self with m_sourceData := data_, m_intSortData := data_ } w

/-- Without the shuffle shown: `Counter::SetCounters(m_sourceData, m_counterSortData);
if (!RunCounterSort()) return true;`. -/
def SortPreparation.plainSecond (self : VisualSort) (w : World) :
    Except Fault Bool × VisualSort × World :=
  RunCounterSort { self with m_counterSortData := Counter.SetCounters self.m_sourceData } w

/-- In both branches: `Strip::InitValues(m_sourceData, m_stripSortData, ...,
m_sorts[sort_index_].GetIsMulThread());`. -/
def SortPreparation.third (sort : SortDescriptor) (self : VisualSort) (w : World) :
    Except Fault Bool × VisualSort × World :=
  match Strip.InitValuesWith self.m_sourceData sort.m_isMulThread w with
  | (.error e, w) => (.error e, self, w)
  | (.ok strips, w) => (.ok true, { self with m_stripSortData := strips }, w)

/-- The branch `if (!this->m_showShuffle)` of `SortPreparation`. -/
def SortPreparation.plain (mt19937 : Nat → Nat → Nat) (self : VisualSort)
    (sort : SortDescriptor) (rand_device_ elapsed_ : Nat) (w : World) :
    Except Fault Bool × VisualSort × World :=
  SortPreparation.andThen
    (SortPreparation.andThen (SortPreparation.plainFirst mt19937 rand_device_ elapsed_ self w)
      SortPreparation.plainSecond)
    (SortPreparation.third sort)

/-- With the shuffle shown: `m_intSortData = m_sourceData; Shuffle(m_intSortData,
randInt); if (!RunIntSort()) return true;`. -/
def SortPreparation.shownFirst (mt19937 : Nat → Nat → Nat) (randInt elapsed_ : Nat)
    (self : VisualSort) (w : World) : Except Fault Bool × VisualSort × World :=
  match Shuffle mt19937 intOps self.m_sourceData randInt w with
  | (.error e, data_, w) => (.error e, { self with m_intSortData := data_ }, w)
  | (.ok _, data_, w) => SortPreparation.intPass elapsed_ { self with m_intSortData := data_ } w

/-- With the shuffle shown: `Counter::SetCounters(m_sourceData, m_counterSortData);
Shuffle(m_counterSortData, randInt); if (!RunCounterSort()) return true;`. -/
def SortPreparation.shownSecond (mt19937 : Nat → Nat → Nat) (randInt : Nat)
    (self : VisualSort) (w : World) : Except Fault Bool × VisualSort × World :=
  match Shuffle mt19937 counterOps (Counter.SetCounters self.m_sourceData) randInt w with
  | (.error e, data_, w) => (.error e, { self with m_counterSortData := data_ }, w)
  | (.ok _, data_, w) => RunCounterSort { self with m_counterSortData := data_ } w

/-- The `try` block of the branch of `SortPreparation` that shows the shuffle. -/
def SortPreparation.animate (mt19937 : Nat → Nat → Nat) (strips : List Strip)
    (randInt : Nat) (w : World) : Except Fault Unit × List Strip × World :=
  match SortPreparation.drawAll strips w with
  | (.error e, w) => (.error e, strips, w)
  | (.ok _, w) =>
    match SortPreparation.wait 100 w with
    | (.error e, w) => (.error e, strips, w)
    | (.ok _, w) =>
      match Shuffle mt19937 stripOps strips randInt w with
      | (.error e, strips, w) => (.error e, strips, w)
      | (.ok _, strips, w) =>
        match SortPreparation.wait 100 (Strip.DrawRemainingStrip w) with
        | (r, w) => (r, strips, w)

/-- What the branch that shows the shuffle does with the outcome of its `try`
block. -/
def SortPreparation.shownLeave (self : VisualSort) :
    Except Fault Unit × List Strip × World → Except Fault Bool × VisualSort × World
  | (.error (.wideError errorMessage), strips, w) =>
    (.ok false,
      if errorMessage.m_wideMessage ≠ SortEndsPrematurely then
        RunErrorWindow { self with m_stripSortData := strips } [errorMessage.m_wideMessage]
      else { self with m_stripSortData := strips }, w)
  | (.error e, strips, w) => (.error e, { self with m_stripSortData := strips }, w)
  | (.ok _, strips, w) => (.ok true, { self with m_stripSortData := strips }, w)

/-- With the shuffle shown: `Shuffle(m_sourceData, randInt);` and the `try` block
with its handler. -/
def SortPreparation.shownFourth (mt19937 : Nat → Nat → Nat) (randInt : Nat)
    (self : VisualSort) (w : World) : Except Fault Bool × VisualSort × World :=
  match Shuffle mt19937 intOps self.m_sourceData randInt w with
  | (.error e, data_, w) => (.error e, { self with m_sourceData := data_ }, w)
  | (.ok _, data_, w) =>
    SortPreparation.shownLeave { self with m_sourceData := data_ }
      (SortPreparation.animate mt19937 self.m_stripSortData randInt w)

/-- The branch of `SortPreparation` taken when the shuffle is shown. -/
def SortPreparation.shown (mt19937 : Nat → Nat → Nat) (self : VisualSort)
    (sort : SortDescriptor) (randInt elapsed_ : Nat) (w : World) :
    Except Fault Bool × VisualSort × World :=
  SortPreparation.andThen
    (SortPreparation.andThen
      (SortPreparation.andThen (SortPreparation.shownFirst mt19937 randInt elapsed_ self w)
        (SortPreparation.shownSecond mt19937 randInt))
      (SortPreparation.third sort))
    (SortPreparation.shownFourth mt19937 randInt)

/-- The end of `SortPreparation`: `if (this->RunStripSort()) { this->CheckData(); }
return true;`, given the outcome of the steps up to the call of `RunStripSort`. -/
def SortPreparation.last : Except Fault Bool × VisualSort × World →
    Except Fault Bool × VisualSort × World
  | (.error e, self, w) => (.error e, self, w)
  | (.ok false, self, w) => (.ok true, self, w)
  | (.ok true, self, w) =>
    match self.CheckData w with
    | (.error e, self, w) => (.error e, self, w)
    | (.ok _, self, w) => (.ok true, self, w)

/-- The two branches of `SortPreparation`, from the shuffle to the call of
`Strip::InitValues` or the end of the shown shuffle. -/
def SortPreparation.branch (mt19937 : Nat → Nat → Nat) (self : VisualSort)
    (sort : SortDescriptor) (rand_device_ elapsed_ : Nat) (w : World) :
    Except Fault Bool × VisualSort × World :=
  if self.m_showShuffle then SortPreparation.shown mt19937 self sort rand_device_ elapsed_ w
  else SortPreparation.plain mt19937 self sort rand_device_ elapsed_ w

/-- The part of `SortPreparation` that follows the validation of the size. -/
def SortPreparation.run (mt19937 : Nat → Nat → Nat) (self : VisualSort)
    (sort : SortDescriptor) (data_size_ rand_device_ elapsed_ : Nat) (w : World) :
    Except Fault Bool × VisualSort × World :=
  match self.m_initDataFunc data_size_ self.m_sourceData with
  | .error e => (.error e, self.record (.initDataFunc data_size_), w)
  | .ok data_ =>
    SortPreparation.last
      (SortPreparation.andThen
        (SortPreparation.branch mt19937
          { self.record (.initDataFunc data_size_) with m_sourceData := data_ }
          sort rand_device_ elapsed_ w)
        RunStripSort)

/-- Drop the result of a step and clear `m_sortIndex`, as the scope guard of
`SortPreparation` does on every way out that follows its construction. -/
def SortPreparation.guard (r : Except Fault Bool × VisualSort × World) :
    Except Fault Bool × VisualSort × World :=
  (r.1, { r.2.1 with m_sortIndex := none }, r.2.2)

/-- Source: `bool SortPreparation(size_t sort_index_, size_t data_size_)`. `rand_device_`
is the number returned by `GetConfigManager().GenerateRandom()` and `elapsed_`
the duration measured around the first pass. -/
def SortPreparation (mt19937 : Nat → Nat → Nat) (self : VisualSort)
    (sort_index_ data_size_ rand_device_ elapsed_ : Nat) (w : World) :
    Except Fault Bool × VisualSort × World :=
  if sort_index_ ≥ self.m_sorts.length then (.error (.wideError ⟨"找不到排序"⟩), self, w)
  else
    match self.m_sorts[sort_index_]? with
    | none => (.error .outOfRange, self, w)
    | some sort =>
      if SortPreparation.errorMessages sort data_size_ ≠ [] then
        SortPreparation.guard (.ok false,
          RunErrorWindow { self with m_sortIndex := some sort_index_ }
            (SortPreparation.errorMessages sort data_size_), w)
      else
        SortPreparation.guard
          (SortPreparation.run mt19937 { self with m_sortIndex := some sort_index_ } sort
            data_size_ rand_device_ elapsed_ w)

end VisualSort

/-- Source: the entry `Sort(L"冒泡排序",256,BubbleSort<int>,BubbleSort<Counter>,
BubbleSort<Strip>)` of the catalog built by the constructor of `VisualSort`, at
index 4. The instantiation at `int` neither reads nor writes the globals. -/
def bubbleSortEntry : SortDescriptor where
  m_sortName := "冒泡排序"
  m_maxSize := 256
  m_intSortFunc data_ :=
    ((NSortAlgorithms.BubbleSort intOps data_ {}).1, (NSortAlgorithms.BubbleSort intOps data_ {}).2.1)
  m_counterSortFunc := NSortAlgorithms.BubbleSort counterOps
  m_stripSortFunc := NSortAlgorithms.BubbleSort stripOps

/-! ## Vocabulary of the statements on the controller -/

/-- The state `w'` follows `w` in a run: it keeps the absence of a cancellation,
the end of the pauses and the scale of the strips. -/
def World.Later (w w' : World) : Prop :=
  (w.NoCancel → w'.NoCancel) ∧ (w.PauseEnds → w'.PauseEnds) ∧ w'.s_maxValue = w.s_maxValue

/-- Every instrumented operation on a strip returns when started in `w`: no
cancellation is requested, the pauses end and the scale is not zero. -/
def World.Runs (w : World) : Prop :=
  w.NoCancel ∧ w.PauseEnds ∧ w.s_maxValue % 18446744073709551616 ≠ 0

instance (w : World) : Decidable w.Runs := by unfold World.Runs; infer_instance

/-- The value sequence handed to a pass, for the three calls that start a pass. -/
def Call.passInput : Call → Option (List Int)
  | .intSortFunc data_ => some data_
  | .counterSortFunc data_ => some (data_.map fun c => c.m_value)
  | .stripSortFunc data_ => some (data_.map fun s => s.m_value)
  | _ => none

/-- The controller `b` has made the calls of `a` and then further calls, among which
every pass was started on the value sequence `V`. -/
def Feeds (V : List Int) (a b : VisualSort) : Prop :=
  ∃ new : List Call, b.calls = a.calls ++ new ∧
    ∀ x ∈ new, ∀ v, Call.passInput x = some v → v = V

/-! ## Further routines of `Strip.h`, `ScopeGuard.h` and vocabulary of the later statements -/

/-- Source: `Strip& operator++()` (src/Strip.h:720-727). -/
def Strip.preIncrement (self : Strip) (w : World) : Except Fault Unit × Strip × World :=
  Strip.storedInt { self with m_value := wrapInt (self.m_value + 1) } StripChangeColor w

/-- The `return` of the two postfix operators, given the outcome of the part they
share with the prefix ones; `back` undoes the step on the new value. -/
def Strip.returnOld (back : Int) :
    Except Fault Unit × Strip × World → Except Fault Int × Strip × World
  | (.error e, self, w) => (.error e, self, w)
  | (.ok _, self, w) => (.ok (wrapInt (self.m_value + back)), self, w)

/-- Source: `int operator++(int)` (src/Strip.h:728-735): returns `m_value - 1`. -/
def Strip.postIncrement (self : Strip) (w : World) : Except Fault Int × Strip × World :=
  Strip.returnOld (-1) (self.preIncrement w)

/-- Source: `Strip& operator--()` (src/Strip.h:737-744). -/
def Strip.preDecrement (self : Strip) (w : World) : Except Fault Unit × Strip × World :=
  Strip.storedInt { self with m_value := wrapInt (self.m_value - 1) } StripChangeColor w

/-- Source: `int operator--(int)` (src/Strip.h:745-752): returns `m_value + 1`. -/
def Strip.postDecrement (self : Strip) (w : World) : Except Fault Int × Strip × World :=
  Strip.returnOld 1 (self.preDecrement w)

/-- What `CopyWithoutSetColor` and `CopyValueAndColor` do once the members have
been copied: as `operator=(const Strip&)`, with `SetTopAuto` in the place of
`SetTopAndColorAuto`. The two operands are distinct objects. -/
def Strip.copied (self strip_ : Strip) (w : World) : Except Fault Unit × Strip × World :=
  if self.m_notTemp != strip_.m_notTemp then
    if self.m_notTemp then
      match self.SetTopAuto w with
      | .error e => (.error e, self, w)
      | .ok self =>
        match Strip.DrawStrip1 self StripChangeColor w with
        | (.error e, w) => (.error e, self, w)
        | (.ok _, w) => (.ok (), self, Strip.AddNumCopy1_IntToStrip w)
    else
      match Strip.DrawStrip1 strip_ StripCopyColor w with
      | (.error e, w) => (.error e, self, w)
      | (.ok _, w) => (.ok (), self, Strip.AddNumCopy1_StripToInt w)
  else if self.m_notTemp then
    match self.SetTopAuto w with
    | .error e => (.error e, self, w)
    | .ok self =>
      match Strip.DrawStrip2 self StripChangeColor strip_ StripCopyColor w with
      | (.error e, w) => (.error e, self, w)
      | (.ok _, w) => (.ok (), self, Strip.AddNumCopy2 w)
  else (.ok (), self, w)

/-- Source: `Strip& CopyWithoutSetColor(const Strip& strip_)` (src/Strip.h:755-771). -/
def Strip.CopyWithoutSetColor (self strip_ : Strip) (w : World) :
    Except Fault Unit × Strip × World :=
  Strip.copied { self with m_value := strip_.m_value } strip_ w

/-- Source: `Strip& CopyValueAndColor(const Strip& strip_)` (src/Strip.h:773-791). -/
def Strip.CopyValueAndColor (self strip_ : Strip) (w : World) :
    Except Fault Unit × Strip × World :=
  Strip.copied { self with m_value := strip_.m_value, m_color := strip_.m_color } strip_ w

/-- What `swap(Strip&, Strip&)` and `SwapWithoutSetColor` do once the values have
been exchanged; `rescale` is `SetTopAndColorAuto` for the first and `SetTopAuto`
for the second. The two operands are distinct objects; with two live operands
the first one is rescaled first. -/
def Strip.swapped (rescale : Strip → World → Except Fault Strip) (strip1_ strip2_ : Strip)
    (w : World) : Except Fault Unit × (Strip × Strip) × World :=
  if strip1_.m_notTemp != strip2_.m_notTemp then
    if strip1_.m_notTemp then
      match rescale strip1_ w with
      | .error e => (.error e, (strip1_, strip2_), w)
      | .ok strip1_ =>
        match Strip.DrawStrip1 strip1_ StripChangeColor w with
        | (.error e, w) => (.error e, (strip1_, strip2_), w)
        | (.ok _, w) => (.ok (), (strip1_, strip2_), Strip.AddNumCopy2 w)
    else
      match rescale strip2_ w with
      | .error e => (.error e, (strip1_, strip2_), w)
      | .ok strip2_ =>
        match Strip.DrawStrip1 strip2_ StripChangeColor w with
        | (.error e, w) => (.error e, (strip1_, strip2_), w)
        | (.ok _, w) => (.ok (), (strip1_, strip2_), Strip.AddNumCopy2 w)
  else if strip1_.m_notTemp then
    match rescale strip1_ w with
    | .error e => (.error e, (strip1_, strip2_), w)
    | .ok strip1_ =>
      match rescale strip2_ w with
      | .error e => (.error e, (strip1_, strip2_), w)
      | .ok strip2_ =>
        match Strip.DrawStrip2 strip1_ StripChangeColor strip2_ StripChangeColor w with
        | (.error e, w) => (.error e, (strip1_, strip2_), w)
        | (.ok _, w) => (.ok (), (strip1_, strip2_), Strip.AddNumSwap2 w)
  else (.ok (), (strip1_, strip2_), w)

/-- Source: `void swap(Strip& strip1_, Strip& strip2_)` (src/Strip.h:850-860). -/
def Strip.swap (strip1_ strip2_ : Strip) (w : World) :
    Except Fault Unit × (Strip × Strip) × World :=
  Strip.swapped Strip.SetTopAndColorAuto { strip1_ with m_value := strip2_.m_value }
    { strip2_ with m_value := strip1_.m_value } w

/-- What the two swaps of a `Strip` with an `int` do once the values have been
exchanged. -/
def Strip.swappedInt (self : Strip) (w : World) : Except Fault Unit × Strip × World :=
  if self.m_notTemp then
    match self.SetTopAndColorAuto w with
    | .error e => (.error e, self, w)
    | .ok self =>
      match Strip.DrawStrip1 self StripChangeColor w with
      | (.error e, w) => (.error e, self, w)
      | (.ok _, w) => (.ok (), self, Strip.AddNumCopy2 w)
  else (.ok (), self, w)

/-- Source: `void swap(Strip& strip_, int& value_)` (src/Strip.h:861-867). -/
def Strip.swapStripInt (strip_ : Strip) (value_ : Int) (w : World) :
    Except Fault Unit × (Strip × Int) × World :=
  ((Strip.swappedInt { strip_ with m_value := value_ } w).1,
    ((Strip.swappedInt { strip_ with m_value := value_ } w).2.1, strip_.m_value),
    (Strip.swappedInt { strip_ with m_value := value_ } w).2.2)

/-- Source: `void swap(int& value_, Strip& strip_)` (src/Strip.h:868-874). -/
def Strip.swapIntStrip (value_ : Int) (strip_ : Strip) (w : World) :
    Except Fault Unit × (Int × Strip) × World :=
  ((Strip.swappedInt { strip_ with m_value := value_ } w).1,
    (strip_.m_value, (Strip.swappedInt { strip_ with m_value := value_ } w).2.1),
    (Strip.swappedInt { strip_ with m_value := value_ } w).2.2)

/-- Source: `void SwapWithoutSetColor(Strip& strip1_, Strip& strip2_)`
(src/Strip.h:875-885). -/
def Strip.SwapWithoutSetColor (strip1_ strip2_ : Strip) (w : World) :
    Except Fault Unit × (Strip × Strip) × World :=
  Strip.swapped Strip.SetTopAuto { strip1_ with m_value := strip2_.m_value }
    { strip2_ with m_value := strip1_.m_value } w

/-- The slot and the liveness of a strip. -/
def Strip.slot (self : Strip) : Int × Int × Bool := (self.m_left, self.m_right, self.m_notTemp)

/-- Source: `std::function<void()>` stored by a `ScopeGuard` (src/ScopeGuard.h:12),
over the state `σ` the cleanup acts on. `none` is the empty function object; a
stored function changes the state and may end with an exception. -/
abbrev CleanupFunction (σ : Type) := Option (σ → Except Fault Unit × σ)

/-- Source: the body of the `try` block of `ScopeGuard::ExecuteNow`
(src/ScopeGuard.h:87-95): an empty function object is skipped, a stored one is
called, and an exception it ends with is swallowed. -/
def CleanupFunction.call {σ : Type} : CleanupFunction σ → σ → σ
  | none, s => s
  | some func, s => (func s).2

/-- Source: `class ScopeGuard` (src/ScopeGuard.h:8-13); the head of the list is
the front of the deque. -/
structure ScopeGuard (σ : Type) where
  m_cleanupFunctions : List (CleanupFunction σ) := []
  m_active : Bool := true

/-- Source: `ScopeGuard::ScopeGuard(Func&&)` (src/ScopeGuard.h:19-22). -/
def ScopeGuard.ctor {σ : Type} (func : CleanupFunction σ) : ScopeGuard σ :=
  { m_cleanupFunctions := [func], m_active := true }

/-- Source: `ScopeGuard::AddFront` (src/ScopeGuard.h:55-61). -/
def ScopeGuard.AddFront {σ : Type} (self : ScopeGuard σ) (func_ : CleanupFunction σ) :
    ScopeGuard σ :=
  if self.m_active then { self with m_cleanupFunctions := func_ :: self.m_cleanupFunctions }
  else self

/-- Source: `ScopeGuard::AddBack` (src/ScopeGuard.h:64-70). -/
def ScopeGuard.AddBack {σ : Type} (self : ScopeGuard σ) (func_ : CleanupFunction σ) :
    ScopeGuard σ :=
  if self.m_active then { self with m_cleanupFunctions := self.m_cleanupFunctions ++ [func_] }
  else self

/-- Source: `ScopeGuard::operator+=` (src/ScopeGuard.h:73-76). -/
def ScopeGuard.addAssign {σ : Type} (self : ScopeGuard σ) (func_ : CleanupFunction σ) :
    ScopeGuard σ :=
  self.AddBack func_

/-- Source: `ScopeGuard::Add` (src/ScopeGuard.h:79-82). -/
def ScopeGuard.Add {σ : Type} (self : ScopeGuard σ) (func_ : CleanupFunction σ) :
    ScopeGuard σ :=
  self.AddBack func_

/-- Source: the `while` loop of `ScopeGuard::ExecuteNow` (src/ScopeGuard.h:86-97):
as long as the deque is not empty its back is called and popped. The first
argument bounds the number of rounds; `ExecuteNow` passes the size of the deque. -/
def ScopeGuard.ExecuteNow.loop {σ : Type} : Nat → ScopeGuard σ → σ → ScopeGuard σ × σ
  | 0, self, s => (self, s)
  | fuel + 1, self, s =>
    match self.m_cleanupFunctions.getLast? with
    | none => (self, s)
    | some func =>
      ScopeGuard.ExecuteNow.loop fuel
        { self with m_cleanupFunctions := self.m_cleanupFunctions.dropLast } (func.call s)

/-- Source: `ScopeGuard::ExecuteNow` (src/ScopeGuard.h:85-98). -/
def ScopeGuard.ExecuteNow {σ : Type} (self : ScopeGuard σ) (s : σ) : ScopeGuard σ × σ :=
  ScopeGuard.ExecuteNow.loop self.m_cleanupFunctions.length self s

/-- Source: `ScopeGuard::~ScopeGuard` (src/ScopeGuard.h:48-52); the guard is gone
afterwards, the state the cleanups acted on remains. -/
def ScopeGuard.destroy {σ : Type} (self : ScopeGuard σ) (s : σ) : σ :=
  if self.m_active then (self.ExecuteNow s).2 else s

/-- Source: `ScopeGuard::Dismiss` (src/ScopeGuard.h:101-104). -/
def ScopeGuard.Dismiss {σ : Type} (self : ScopeGuard σ) : ScopeGuard σ :=
  { self with m_active := false, m_cleanupFunctions := [] }

/-- Source: `ScopeGuard::Reactivate` (src/ScopeGuard.h:107-109). -/
def ScopeGuard.Reactivate {σ : Type} (self : ScopeGuard σ) : ScopeGuard σ :=
  { self with m_active := true }

/-- Source: `ScopeGuard::Create` (src/ScopeGuard.h:127-132). -/
def ScopeGuard.Create {σ : Type} (func_ : CleanupFunction σ) : ScopeGuard σ :=
  ({} : ScopeGuard σ).AddBack func_

/-- A cleanup function that appends its own mark to the record of the cleanups
that have run. -/
def CleanupFunction.marks (k : Nat) : CleanupFunction (List Nat) :=
  some fun record => (.ok (), record ++ [k])

/-- A catalog entry whose three functions leave the data alone and whose third
function ends with the given failure. -/
def failingEntry (e : Fault) : SortDescriptor where
  m_sortName := "失败"
  m_maxSize := 8
  m_intSortFunc data_ := (.ok (), data_)
  m_counterSortFunc data_ w := (.ok (), data_, w)
  m_stripSortFunc data_ w := (.error e, data_, w)

/-- A controller whose catalog holds `failingEntry e` alone, selected, with two
source values. -/
def failingController (e : Fault) : VisualSort where
  m_initDataFunc := VisualSort.defaultInitDataFunc
  m_sorts := [failingEntry e]
  m_sortIndex := some 0
  m_sourceData := [2, 1]

/-- The running thread is the designated main thread, exit has been requested and
the algorithm is not flagged multi-threaded. -/
def World.Cancelling (w : World) : Prop :=
  w.thisThread = w.s_mainThreadId ∧ w.s_exitStripSort = true ∧ w.s_isMulThreadSort = false

instance (w : World) : Decidable w.Cancelling := by unfold World.Cancelling; infer_instance

/-- A state of the main thread in which exit is requested while the pass is
paused, with the scale 3. -/
def cancellingWorld : World where
  s_exitStripSort := true
  s_stopStripSort := true
  s_maxValue := 3

/-- The values `1, 2, ..., n + 1`, as the constructor of `VisualSort` generates
them. -/
def ascendingData (n : Nat) : List Int :=
  1 :: (List.range n).map fun (j : Nat) => (1 : Int) + 1 + (j : Int)

/-- The template argument of `BogoSortRandomEngine::GetBogoRandom<T>`. -/
inductive ElemKind where
  | int | counter | strip
  deriving DecidableEq, Repr

/-- Source: the static members of `class BogoSortRandomEngine` (src/Sort.h:198-203).
`s_randomNumber` starts with a number drawn by `GenerateRandom()`. -/
structure BogoSortRandomEngine where
  s_isIntUsed : Bool := false
  s_isCounterUsed : Bool := false
  s_isStripUsed : Bool := false
  s_randomNumber : Int

/-- The first statement of `GetBogoRandom`: once all three instantiations have
used the number, a new one is drawn; `GenerateRandom` is what the call of
`GetConfigManager().GenerateRandom()` would return, an `unsigned int` that is
stored in an `int`. -/
def BogoSortRandomEngine.renew (GenerateRandom : Nat) (self : BogoSortRandomEngine) :
    BogoSortRandomEngine :=
  if self.s_isIntUsed && self.s_isCounterUsed && self.s_isStripUsed then
    { s_isIntUsed := false, s_isCounterUsed := false, s_isStripUsed := false,
      s_randomNumber := wrapInt GenerateRandom }
  else self

/-- The `if constexpr` chain of `GetBogoRandom`. -/
def BogoSortRandomEngine.use (T : ElemKind) (self : BogoSortRandomEngine) :
    BogoSortRandomEngine :=
  match T with
  | .int => { self with s_isIntUsed := true }
  | .counter => { self with s_isCounterUsed := true }
  | .strip => { self with s_isStripUsed := true }

/-- Source: `template<class T> static int GetBogoRandom()` (src/Sort.h:205-221). -/
def BogoSortRandomEngine.GetBogoRandom (T : ElemKind) (GenerateRandom : Nat)
    (self : BogoSortRandomEngine) : Int × BogoSortRandomEngine :=
  (((self.renew GenerateRandom).use T).s_randomNumber, (self.renew GenerateRandom).use T)

/-- The message of the failure raised by `BogoSort`. -/
def NSortAlgorithms.BogoSort.timeout : Fault := .wideError ⟨"猴子排序超时！"⟩

/-- The loop `for (; i < dataSize; ++i) std::swap(data_[i], data_[randomEngin() %
dataSize]);` of `BogoSort` from index `i` on; the first argument bounds the
tests of the loop condition still to come. `rnd k` is the number produced by
the `k`-th call of `randomEngin()`, and `calls` counts the calls made so far. -/
def NSortAlgorithms.BogoSort.shuffle (rnd : Nat → Nat) (dataSize : Int) :
    Nat → Int → Nat → List Int → Except Fault (List Int × Nat)
  | 0, _, _, _ => .error .outOfFuel
  | k + 1, i, calls, data_ =>
    if i < dataSize then
      match vecSwap data_ i ((rnd calls : Int) % dataSize) with
      | .error e => .error e
      | .ok data_ => NSortAlgorithms.BogoSort.shuffle rnd dataSize k (i + 1) (calls + 1) data_
    else .ok (data_, calls)

/-- The loop `for (i = 1; i < dataSize; ++i) if (data_[i] < data_[i - 1]) break;` of
`BogoSort` from index `i` on; the result is the value of `i` after the loop. -/
def NSortAlgorithms.BogoSort.check (dataSize : Int) : Nat → Int → List Int → Except Fault Int
  | 0, _, _ => .error .outOfFuel
  | k + 1, i, data_ =>
    if i < dataSize then
      match vecGet data_ i with
      | .error e => .error e
      | .ok a =>
        match vecGet data_ (i - 1) with
        | .error e => .error e
        | .ok b => if a < b then .ok i else NSortAlgorithms.BogoSort.check dataSize k (i + 1) data_
    else .ok i

/-- The loop `while (timeToLive--)` of `BogoSort` and the `throw` that follows it;
the first argument is the value of `timeToLive`. The result carries the vector
and the number of calls of `randomEngin()` made. -/
def NSortAlgorithms.BogoSort.rounds (rnd : Nat → Nat) (dataSize : Int) :
    Nat → Nat → List Int → Except Fault Unit × List Int × Nat
  | 0, calls, data_ => (.error BogoSort.timeout, data_, calls)
  | timeToLive + 1, calls, data_ =>
    match BogoSort.shuffle rnd dataSize (dataSize.toNat + 1) 0 calls data_ with
    | .error e => (.error e, data_, calls)
    | .ok (data_, calls) =>
      match BogoSort.check dataSize (dataSize.toNat + 1) 1 data_ with
      | .error e => (.error e, data_, calls)
      | .ok i =>
        if i = dataSize then (.ok (), data_, calls)
        else NSortAlgorithms.BogoSort.rounds rnd dataSize timeToLive calls data_

/-- Source: `template<class T = int> void BogoSort(std::vector<T>& data_)`
(src/Sort.h:224-245) at `T = int`. The engine is seeded with the `int` returned
by `GetBogoRandom`, converted to the 32-bit unsigned seed type. -/
def NSortAlgorithms.BogoSort (mt19937 : Nat → Nat → Nat) (GenerateRandom : Nat) (data_ : List Int)
    (engine : BogoSortRandomEngine) : Except Fault Unit × List Int × BogoSortRandomEngine :=
  if data_.length < 2 then (.ok (), data_, engine)
  else
    ((BogoSort.rounds
        (mt19937 ((engine.GetBogoRandom .int GenerateRandom).1 % 4294967296).toNat)
        data_.length 1000000 0 data_).1,
      (BogoSort.rounds
        (mt19937 ((engine.GetBogoRandom .int GenerateRandom).1 % 4294967296).toNat)
        data_.length 1000000 0 data_).2.1,
      (engine.GetBogoRandom .int GenerateRandom).2)

/-- The state with everything erased that a pause may change: the pause flag, what
the interface thread will do to the flags, the clock and the accumulated paused
duration. -/
def World.core (w : World) : World :=
  { w with s_stopStripSort := false, uiSchedule := [], clock := 0, s_stripSortStopTime := 0 }

/-- Two states in which no cancellation is requested and the pauses end, and which
differ at most in what a pause may change. -/
def PauseVariant (w1 w2 : World) : Prop :=
  w1.NoCancel ∧ w1.PauseEnds ∧ w2.NoCancel ∧ w2.PauseEnds ∧ w1.core = w2.core

instance (w1 w2 : World) : Decidable (PauseVariant w1 w2) := by
  unfold PauseVariant; infer_instance

/-- The operations of an element type give the same outcome and the same elements
when started in two states related by `R`, and leave the states related. -/
def ElemOps.Respects {T : Type} (ops : ElemOps T) (R : World → World → Prop) : Prop :=
  (∀ a b w1 w2, R w1 w2 → (ops.gt a b w1).1 = (ops.gt a b w2).1 ∧
    R (ops.gt a b w1).2 (ops.gt a b w2).2) ∧
  (∀ a b w1 w2, R w1 w2 → (ops.swap a b w1).1 = (ops.swap a b w2).1 ∧
    (ops.swap a b w1).2.1 = (ops.swap a b w2).2.1 ∧
    R (ops.swap a b w1).2.2 (ops.swap a b w2).2.2) ∧
  ∀ a w1 w2, R w1 w2 → (ops.swapSelf a w1).1 = (ops.swapSelf a w2).1 ∧
    (ops.swapSelf a w1).2.1 = (ops.swapSelf a w2).2.1 ∧
    R (ops.swapSelf a w1).2.2 (ops.swapSelf a w2).2.2

/-- Two runs of a reading operation agree: same outcome (the value returned or the
failure), and states that differ at most in what a pause may change. -/
def SameRead {α : Type} (r1 r2 : Except Fault α × World) : Prop :=
  r1.1 = r2.1 ∧ PauseVariant r1.2 r2.2

/-- Two runs of a writing operation agree: same outcome, same objects left behind
(value, top, colour, slot and liveness), and states that differ at most in what a
pause may change. -/
def SameWrite {α β : Type} (r1 r2 : Except Fault α × β × World) : Prop :=
  r1.1 = r2.1 ∧ r1.2.1 = r2.2.1 ∧ PauseVariant r1.2.2 r2.2.2

/-- A state in which the pass is paused; the interface thread lifts the pause
during the second sleep of the polling loop. -/
def pausedWorld : World where
  s_maxValue := 3
  s_stopStripSort := true
  uiSchedule := [(true, false), (false, false)]

/-- The state `pausedWorld` without the pause. -/
def unpausedWorld : World where
  s_maxValue := 3

/-! ## `Sort.h`: `RadixSort` instantiated at the proxies

`RadixSort<Counter>` and `RadixSort<Strip>` are written out branch by branch, as
the `if constexpr` tests select them. The loops over `data_` and over
`dataQueue` run over the elements in order. `bucket` is the vector of 16 lists;
`RadixSortBucketColor`, a global vector that may be changed, is a parameter. -/

/-- Source: `bucket[index].push_back(value)` or `bucket[index].splice(bucket[index].end(),
dataQueue, dataQueue.begin())` on a `std::vector<std::list<T>>`. -/
def NSortAlgorithms.RadixSort.pushBackOn {T : Type} (bucket : List (List T)) (index : Int)
    (value : T) : Except Fault (List (List T)) :=
  if 0 ≤ index ∧ index < bucket.length then
    .ok (bucket.set index.toNat (bucket.getD index.toNat [] ++ [value]))
  else .error .outOfRange

/-- Source: `for (int i = 0; i < base; ++i) dataQueue.splice(dataQueue.end(), bucket[i]);`
from index `i` on; the first argument is `base - i`. Each list moves to the
end of `dataQueue` and is left empty. -/
def NSortAlgorithms.RadixSort.collectOn {T : Type} :
    Nat → Nat → List T → List (List T) → Except Fault (List T × List (List T))
  | 0, _, dataQueue, bucket => .ok (dataQueue, bucket)
  | k + 1, i, dataQueue, bucket =>
    match bucket[i]? with
    | none => .error .outOfRange
    | some l => NSortAlgorithms.RadixSort.collectOn k (i + 1) (dataQueue ++ l) (bucket.set i [])

/-- The scan for `maxValue` and `minValue` at `T = Counter`, over the elements
`data_[1]`, `data_[2]`, ...: `if (data_[i] > maxValue) maxValue = data_[i]; else if
(data_[i] < minValue) minValue = data_[i];`. -/
def NSortAlgorithms.RadixSortCounter.scan :
    List Counter → Int → Int → World → (Int × Int) × World
  | [], maxValue, minValue, w => ((maxValue, minValue), w)
  | x :: rest, maxValue, minValue, w =>
    match x.compareInt .gt maxValue w with
    | (true, w) =>
      match x.toInt w with
      | (v, w) => NSortAlgorithms.RadixSortCounter.scan rest v minValue w
    | (false, w) =>
      match x.compareInt .lt minValue w with
      | (true, w) =>
        match x.toInt w with
        | (v, w) => NSortAlgorithms.RadixSortCounter.scan rest maxValue v w
      | (false, w) => NSortAlgorithms.RadixSortCounter.scan rest maxValue minValue w

/-- The first loop at `T = Counter`: `int tempValue = data_[i];
bucket[(tempValue - minValue) % base].push_back(tempValue);`. The `int` is
converted to a temporary `Counter`, which `push_back` copies. -/
def NSortAlgorithms.RadixSortCounter.first (minValue : Int) :
    List Counter → List (List Counter) → World → Except Fault (List (List Counter)) × World
  | [], bucket, w => (.ok bucket, w)
  | x :: rest, bucket, w =>
    match x.toInt w with
    | (tempValue, w) =>
      match Counter.copy (Counter.ctor tempValue false w).1 w with
      | (element, w) =>
        match RadixSort.pushBackOn bucket ((tempValue - minValue).tmod 16) element with
        | .error e => (.error e, w)
        | .ok bucket => NSortAlgorithms.RadixSortCounter.first minValue rest bucket w

/-- The lambda `copyDataFromQueue` at `T = Counter`: `data_[dataIndex++] = *it;` for
every element of `dataQueue`; the second list holds `data_` from `dataIndex` on. -/
def NSortAlgorithms.RadixSortCounter.copyDataFromQueue :
    List Counter → List Counter → World → Except Fault Unit × List Counter × World
  | [], data_, w => (.ok (), data_, w)
  | _ :: _, [], w => (.error .outOfRange, [], w)
  | it :: dataQueue, x :: data_, w =>
    match x.assign it w with
    | (x, w) =>
      match NSortAlgorithms.RadixSortCounter.copyDataFromQueue dataQueue data_ w with
      | (r, data_, w) => (r, x :: data_, w)

/-- The loop `while (!dataQueue.empty())` of a digit pass at `T = Counter`: the front
of the queue, converted to `ptrdiff_t`, selects the bucket it is spliced to. -/
def NSortAlgorithms.RadixSortCounter.scatter (minValue divNum : Int) :
    List Counter → List (List Counter) → World → Except Fault (List (List Counter)) × World
  | [], bucket, w => (.ok bucket, w)
  | front :: dataQueue, bucket, w =>
    match front.toInt w with
    | (value, w) =>
      if divNum = 0 then (.error .intDivide, w)
      else
        match RadixSort.pushBackOn bucket (((value - minValue).tdiv divNum).tmod 16) front with
        | .error e => (.error e, w)
        | .ok bucket => NSortAlgorithms.RadixSortCounter.scatter minValue divNum dataQueue bucket w

/-- The loop `for (int i = 1; i < digit; ++i)` at `T = Counter`; the first argument
is `digit - i`. After the scatter `ActualStepNum += dataSize`, then the buckets
are collected and copied back, and `divNum *= base` on `int`. -/
def NSortAlgorithms.RadixSortCounter.passes (minValue : Int) (dataSize : Nat) :
    Nat → Int → List Counter → List (List Counter) → List Counter → World →
      Except Fault Unit × List Counter × World
  | 0, _, _, _, data_, w => (.ok (), data_, w)
  | k + 1, divNum, dataQueue, bucket, data_, w =>
    match NSortAlgorithms.RadixSortCounter.scatter minValue divNum dataQueue bucket w with
    | (.error e, w) => (.error e, data_, w)
    | (.ok bucket, w) =>
      match RadixSort.collectOn 16 0 [] bucket with
      | .error e => (.error e, data_, { w with ActualStepNum := w.ActualStepNum + dataSize })
      | .ok (dataQueue, bucket) =>
        match NSortAlgorithms.RadixSortCounter.copyDataFromQueue dataQueue data_
            { w with ActualStepNum := w.ActualStepNum + dataSize } with
        | (.error e, data_, w) => (.error e, data_, w)
        | (.ok _, data_, w) =>
          NSortAlgorithms.RadixSortCounter.passes minValue dataSize k (wrapInt (divNum * 16))
            dataQueue bucket data_ w

/-- The part of `RadixSort<Counter>` that follows the test `rangeSize == 0`. -/
def NSortAlgorithms.RadixSortCounter.sort (maxValue minValue : Int) (data_ : List Counter)
    (w : World) : Except Fault Unit × List Counter × World :=
  match NSortAlgorithms.RadixSortCounter.first minValue data_ (List.replicate 16 []) w with
  | (.error e, w) => (.error e, data_, w)
  | (.ok bucket, w) =>
    match RadixSort.collectOn 16 0 [] bucket with
    | .error e => (.error e, data_, w)
    | .ok (dataQueue, bucket) =>
      match NSortAlgorithms.RadixSortCounter.copyDataFromQueue dataQueue data_ w with
      | (.error e, data_, w) => (.error e, data_, w)
      | (.ok _, data_, w) =>
        match loop (RadixSort.digits 16) ((maxValue - minValue).toNat + 1)
            (maxValue - minValue, 0) with
        | .error e => (.error e, data_, w)
        | .ok digit =>
          NSortAlgorithms.RadixSortCounter.passes minValue data_.length (digit.toNat - 1) 16
            dataQueue bucket data_ w

/-- Source: `template<class T = int> void RadixSort(std::vector<T>& data_)`
(src/Sort.h:897-990) at `T = Counter`. -/
def NSortAlgorithms.RadixSortCounter (data_ : List Counter) (w : World) :
    Except Fault Unit × List Counter × World :=
  match data_ with
  | [] => (.ok (), data_, w)
  | [_] => (.ok (), data_, w)
  | x :: rest =>
    match x.toInt w with
    | (maxValue, w) =>
      match x.toInt w with
      | (minValue, w) =>
        match NSortAlgorithms.RadixSortCounter.scan rest maxValue minValue w with
        | ((maxValue, minValue), w) =>
          if maxValue - minValue = 0 then (.ok (), data_, w)
          else NSortAlgorithms.RadixSortCounter.sort maxValue minValue data_ w

/-- Source: `RadixSortBucketColor[bucketIndex % RadixSortBucketColor.size()]`; an empty
vector makes the remainder undefined. -/
def NSortAlgorithms.RadixSortStrip.bucketColor (RadixSortBucketColor : List COLORREF)
    (bucketIndex : Int) : Except Fault COLORREF :=
  if RadixSortBucketColor.length = 0 then .error .intDivide
  else
    match RadixSortBucketColor[bucketIndex.toNat % RadixSortBucketColor.length]? with
    | none => .error .outOfRange
    | some color => .ok color

/-- The scan for `maxValue` and `minValue` at `T = Strip`. -/
def NSortAlgorithms.RadixSortStrip.scan :
    List Strip → Int → Int → World → Except Fault (Int × Int) × World
  | [], maxValue, minValue, w => (.ok (maxValue, minValue), w)
  | x :: rest, maxValue, minValue, w =>
    match x.compareInt .gt maxValue w with
    | (.error e, w) => (.error e, w)
    | (.ok true, w) =>
      match x.toInt w with
      | (.error e, w) => (.error e, w)
      | (.ok v, w) => NSortAlgorithms.RadixSortStrip.scan rest v minValue w
    | (.ok false, w) =>
      match x.compareInt .lt minValue w with
      | (.error e, w) => (.error e, w)
      | (.ok true, w) =>
        match x.toInt w with
        | (.error e, w) => (.error e, w)
        | (.ok v, w) => NSortAlgorithms.RadixSortStrip.scan rest maxValue v w
      | (.ok false, w) => NSortAlgorithms.RadixSortStrip.scan rest maxValue minValue w

/-- The drawing shared by the first loop and by the scatter at `T = Strip`:
`data_[i].SetColor(color); Strip::DrawStrip1(data_[i], StripCopyColor);
++AnimationStepNum;`. -/
def NSortAlgorithms.RadixSortStrip.mark (x : Strip) (color : COLORREF) (w : World) :
    Except Fault Unit × Strip × World :=
  match Strip.DrawStrip1 (x.SetColor color) StripCopyColor w with
  | (.error e, w) => (.error e, x.SetColor color, w)
  | (.ok _, w) =>
    (.ok (), x.SetColor color, { w with AnimationStepNum := w.AnimationStepNum + 1 })

/-- The first loop at `T = Strip`: `bucketIndex = (data_[i].GetValue() - minValue) %
base; bucket[bucketIndex].push_back(data_[i].GetValue());`, the new element and
`data_[i]` take the colour of the bucket, `data_[i]` is drawn and the step is
counted. The result carries the elements of `data_` as they are left. -/
def NSortAlgorithms.RadixSortStrip.first (RadixSortBucketColor : List COLORREF)
    (minValue : Int) :
    List Strip → List (List Strip) → World →
      Except Fault (List (List Strip)) × List Strip × World
  | [], bucket, w => (.ok bucket, [], w)
  | x :: rest, bucket, w =>
    match Strip.copy (Strip.ctor x.GetValue false w).1 w with
    | (.error e, w) => (.error e, x :: rest, w)
    | (.ok element, w) =>
      match RadixSortStrip.bucketColor RadixSortBucketColor ((x.GetValue - minValue).tmod 16) with
      | .error e => (.error e, x :: rest, w)
      | .ok color =>
        match RadixSort.pushBackOn bucket ((x.GetValue - minValue).tmod 16)
            (element.SetColor color) with
        | .error e => (.error e, x :: rest, w)
        | .ok bucket =>
          match RadixSortStrip.mark x color w with
          | (.error e, x, w) => (.error e, x :: rest, w)
          | (.ok _, x, w) =>
            match NSortAlgorithms.RadixSortStrip.first RadixSortBucketColor minValue rest
                bucket w with
            | (r, rest, w) => (r, x :: rest, w)

/-- The lambda `copyDataFromQueue` at `T = Strip`:
`data_[dataIndex++].CopyValueAndColor(*it);`. -/
def NSortAlgorithms.RadixSortStrip.copyDataFromQueue :
    List Strip → List Strip → World → Except Fault Unit × List Strip × World
  | [], data_, w => (.ok (), data_, w)
  | _ :: _, [], w => (.error .outOfRange, [], w)
  | it :: dataQueue, x :: data_, w =>
    match x.CopyValueAndColor it w with
    | (.error e, x, w) => (.error e, x :: data_, w)
    | (.ok _, x, w) =>
      match NSortAlgorithms.RadixSortStrip.copyDataFromQueue dataQueue data_ w with
      | (r, data_, w) => (r, x :: data_, w)

/-- The loop `while (!dataQueue.empty())` of a digit pass at `T = Strip`: the front of
the queue is spliced to its bucket and takes its colour, and so does
`data_[dataIndex]`, which is drawn; the step is counted. The second list holds
`data_` from `dataIndex` on. -/
def NSortAlgorithms.RadixSortStrip.scatter (RadixSortBucketColor : List COLORREF)
    (minValue divNum : Int) :
    List Strip → List Strip → List (List Strip) → World →
      Except Fault (List (List Strip)) × List Strip × World
  | [], data_, bucket, w => (.ok bucket, data_, w)
  | front :: dataQueue, data_, bucket, w =>
    match front.toInt w with
    | (.error e, w) => (.error e, data_, w)
    | (.ok value, w) =>
      if divNum = 0 then (.error .intDivide, data_, w)
      else
        match RadixSortStrip.bucketColor RadixSortBucketColor
            (((value - minValue).tdiv divNum).tmod 16) with
        | .error e => (.error e, data_, w)
        | .ok color =>
          match RadixSort.pushBackOn bucket (((value - minValue).tdiv divNum).tmod 16)
              (front.SetColor color) with
          | .error e => (.error e, data_, w)
          | .ok bucket =>
            match data_ with
            | [] => (.error .outOfRange, [], w)
            | x :: data_ =>
              match RadixSortStrip.mark x color w with
              | (.error e, x, w) => (.error e, x :: data_, w)
              | (.ok _, x, w) =>
                match NSortAlgorithms.RadixSortStrip.scatter RadixSortBucketColor minValue
                    divNum dataQueue data_ bucket w with
                | (r, data_, w) => (r, x :: data_, w)

/-- The loop `for (int i = 1; i < digit; ++i)` at `T = Strip`; the first argument is
`digit - i`. -/
def NSortAlgorithms.RadixSortStrip.passes (RadixSortBucketColor : List COLORREF)
    (minValue : Int) :
    Nat → Int → List Strip → List (List Strip) → List Strip → World →
      Except Fault Unit × List Strip × World
  | 0, _, _, _, data_, w => (.ok (), data_, w)
  | k + 1, divNum, dataQueue, bucket, data_, w =>
    match NSortAlgorithms.RadixSortStrip.scatter RadixSortBucketColor minValue divNum dataQueue
        data_ bucket w with
    | (.error e, data_, w) => (.error e, data_, w)
    | (.ok bucket, data_, w) =>
      match RadixSort.collectOn 16 0 [] bucket with
      | .error e => (.error e, data_, w)
      | .ok (dataQueue, bucket) =>
        match NSortAlgorithms.RadixSortStrip.copyDataFromQueue dataQueue data_ w with
        | (.error e, data_, w) => (.error e, data_, w)
        | (.ok _, data_, w) =>
          NSortAlgorithms.RadixSortStrip.passes RadixSortBucketColor minValue k
            (wrapInt (divNum * 16)) dataQueue bucket data_ w

/-- The part of `RadixSort<Strip>` that follows the test `rangeSize == 0`. -/
def NSortAlgorithms.RadixSortStrip.sort (RadixSortBucketColor : List COLORREF)
    (maxValue minValue : Int) (data_ : List Strip) (w : World) :
    Except Fault Unit × List Strip × World :=
  match NSortAlgorithms.RadixSortStrip.first RadixSortBucketColor minValue data_
      (List.replicate 16 []) w with
  | (.error e, data_, w) => (.error e, data_, w)
  | (.ok bucket, data_, w) =>
    match RadixSort.collectOn 16 0 [] bucket with
    | .error e => (.error e, data_, w)
    | .ok (dataQueue, bucket) =>
      match NSortAlgorithms.RadixSortStrip.copyDataFromQueue dataQueue data_ w with
      | (.error e, data_, w) => (.error e, data_, w)
      | (.ok _, data_, w) =>
        match loop (RadixSort.digits 16) ((maxValue - minValue).toNat + 1)
            (maxValue - minValue, 0) with
        | .error e => (.error e, data_, w)
        | .ok digit =>
          NSortAlgorithms.RadixSortStrip.passes RadixSortBucketColor minValue (digit.toNat - 1) 16
            dataQueue bucket data_ w

/-- Source: `template<class T = int> void RadixSort(std::vector<T>& data_)`
(src/Sort.h:897-990) at `T = Strip`. -/
def NSortAlgorithms.RadixSortStrip (RadixSortBucketColor : List COLORREF) (data_ : List Strip)
    (w : World) : Except Fault Unit × List Strip × World :=
  match data_ with
  | [] => (.ok (), data_, w)
  | [_] => (.ok (), data_, w)
  | x :: rest =>
    match x.toInt w with
    | (.error e, w) => (.error e, data_, w)
    | (.ok maxValue, w) =>
      match x.toInt w with
      | (.error e, w) => (.error e, data_, w)
      | (.ok minValue, w) =>
        match NSortAlgorithms.RadixSortStrip.scan rest maxValue minValue w with
        | (.error e, w) => (.error e, data_, w)
        | (.ok (maxValue, minValue), w) =>
          if maxValue - minValue = 0 then (.ok (), data_, w)
          else NSortAlgorithms.RadixSortStrip.sort RadixSortBucketColor maxValue minValue data_ w

/-- The pair `(maxValue, minValue)` left by the scan of `RadixSort` over the values
`rest`, started with the pair given. -/
def radixScan : List Int → Int → Int → Int × Int
  | [], maxValue, minValue => (maxValue, minValue)
  | x :: rest, maxValue, minValue =>
    if x > maxValue then radixScan rest x minValue
    else if x < minValue then radixScan rest maxValue x
    else radixScan rest maxValue minValue

/-- The number of operations on elements that the scan of `RadixSort` performs over
the values `rest`: a comparison, and then a conversion or a second comparison,
which a conversion may follow. -/
def radixScanSteps : List Int → Int → Int → Nat
  | [], _, _ => 0
  | x :: rest, maxValue, minValue =>
    if x > maxValue then 2 + radixScanSteps rest x minValue
    else if x < minValue then 3 + radixScanSteps rest maxValue x
    else 2 + radixScanSteps rest maxValue minValue

/-- The queue after the round of the digit of weight `16 ^ k`: the buckets in order. -/
def radixRound (minValue : Int) (k : Nat) (q : List Int) : List Int :=
  (radixBuckets (radixDigit minValue k) q).flatten

/-- The queue after `c` rounds, of the digits of weight `16 ^ k`, `16 ^ (k + 1)`, ... -/
def radixRounds (minValue : Int) : Nat → Nat → List Int → List Int
  | 0, _, q => q
  | c + 1, k, q => radixRounds minValue c (k + 1) (radixRound minValue k q)

/-- The number of operations on live elements that `RadixSort` performs on a vector
holding `values`: two conversions, the scan, and unless all values are equal
one step per element in the first loop and in the copy that follows it, and two
steps per element in each of the `digit - 1` further passes. -/
def radixSteps (values : List Int) : Nat :=
  match values with
  | [] => 0
  | [_] => 0
  | x :: rest =>
    2 + radixScanSteps rest x x +
      if (radixScan rest x x).1 - (radixScan rest x x).2 = 0 then 0
      else
        match loop (NSortAlgorithms.RadixSort.digits 16)
            (((radixScan rest x x).1 - (radixScan rest x x).2).toNat + 1)
            ((radixScan rest x x).1 - (radixScan rest x x).2, 0) with
        | .ok digit => 2 * values.length + (digit.toNat - 1) * (2 * values.length)
        | .error _ => 0

/-- From `w` to `w'` the animated pass went on for `k` steps: every operation
returns when started in `w'`, `AnimationStepNum` has grown by `k` and
`ActualStepNum` is as it was. -/
def World.Animates (k : Nat) (w w' : World) : Prop :=
  w'.Runs ∧ w'.AnimationStepNum = w.AnimationStepNum + k ∧ w'.ActualStepNum = w.ActualStepNum

/-- From `w` to `w'` the count of the animation steps has not gone down and the
count of the counting pass is as it was. -/
def World.Grows (w w' : World) : Prop :=
  w.AnimationStepNum ≤ w'.AnimationStepNum ∧ w'.ActualStepNum = w.ActualStepNum

/-! ## `Fraction.h` (the rest of the class), the pacing function of `VisualSort.h`, and
the calls made by `DrawStrip1` and `DrawStrip2` -/

/-- Source: `template<std::integral T1, std::integral T2> constexpr Fraction(T1 num_, T2
denom_)`. -/
def Fraction.ctor2 (num_ denom_ : Int) : Except Fault Fraction :=
  if denom_ = 0 then .error (.wideError ⟨"分母不能为0"⟩)
  else .ok (Fraction.Reduce ⟨num_, denom_⟩)

/-- Source: `Fraction(const std::pair<long long, long long>& pair_)`. -/
def Fraction.ofPair (pair_ : Int × Int) : Except Fault Fraction :=
  Fraction.ctor2 pair_.1 pair_.2

/-- Source: `Fraction& SetNumerator(T num_) noexcept`. -/
def Fraction.SetNumerator (self : Fraction) (num_ : Int) : Fraction :=
  Fraction.Reduce { self with m_numerator := num_ }

/-- Source: `Fraction& SetDenominator(T denom_)`. -/
def Fraction.SetDenominator (self : Fraction) (denom_ : Int) : Except Fault Fraction :=
  if denom_ = 0 then .error (.wideError ⟨"分母不能为0"⟩)
  else .ok (Fraction.Reduce { self with m_denominator := denom_ })

/-- Source: `template<std::integral T> constexpr operator T() const noexcept` at
`T = long long`. -/
def Fraction.toLongLong (self : Fraction) : Except Fault Int :=
  if self.m_denominator = 0 then .error .intDivide
  else .ok (self.m_numerator.tdiv self.m_denominator)

/-- Source: `Fraction operator-() const noexcept`: the pair constructor is called, and
the function is `noexcept`. -/
def Fraction.neg (self : Fraction) : Except Fault Fraction :=
  match Fraction.ctor2 (-self.m_numerator) self.m_denominator with
  | .error _ => .error .terminate
  | .ok r => .ok r

/-- Source: `Fraction& operator-=(const Fraction& other_) noexcept`. -/
def Fraction.subAssign (self other_ : Fraction) : Fraction :=
  Fraction.Reduce
    ⟨self.m_numerator *
          ((Int.lcm self.m_denominator other_.m_denominator : Nat) : Int).tdiv self.m_denominator -
        other_.m_numerator *
          ((Int.lcm self.m_denominator other_.m_denominator : Nat) : Int).tdiv
            other_.m_denominator,
      (Int.lcm self.m_denominator other_.m_denominator : Nat)⟩

/-- Source: `constexpr Fraction Reciprocal() const`. -/
def Fraction.Reciprocal (self : Fraction) : Except Fault Fraction :=
  Fraction.ctor2 self.m_denominator self.m_numerator

/-- Source: `constexpr bool operator==(const Fraction& other_) const noexcept`. -/
def Fraction.eq (self other_ : Fraction) : Bool :=
  decide (self.m_numerator = other_.m_numerator) && decide (self.m_denominator = other_.m_denominator)

/-- Source: `constexpr bool operator!=(const Fraction& other_) const noexcept`. -/
def Fraction.ne (self other_ : Fraction) : Bool := !self.eq other_

/-- Source: `template<std::integral T> constexpr bool operator>=(T value_) const noexcept`. -/
def Fraction.geInt (self : Fraction) (value_ : Int) : Bool :=
  decide (self.m_numerator ≥ self.m_denominator * value_)

/-- Source: `inline Fraction operator+(const Fraction& lhs_, const Fraction& rhs_) noexcept`. -/
def Fraction.add (lhs_ rhs_ : Fraction) : Fraction := lhs_.addAssign rhs_

/-- Source: `inline Fraction operator-(const Fraction& lhs_, const Fraction& rhs_) noexcept`. -/
def Fraction.sub (lhs_ rhs_ : Fraction) : Fraction := lhs_.subAssign rhs_

/-- Source: `inline Fraction operator*(const Fraction& lhs_, const Fraction& rhs_) noexcept`. -/
def Fraction.mul (lhs_ rhs_ : Fraction) : Fraction := lhs_.mulAssign rhs_

/-- Source: `inline Fraction operator/(const Fraction& lhs_, const Fraction& rhs_)`. -/
def Fraction.div (lhs_ rhs_ : Fraction) : Except Fault Fraction := lhs_.divAssign rhs_

/-- The rational number that a fraction denotes. -/
def Fraction.toRat (self : Fraction) : ℚ := (self.m_numerator : ℚ) / (self.m_denominator : ℚ)

/-- The canonical form: a positive denominator that has no common factor with the
numerator; zero is then `0/1`. -/
def Fraction.Canonical (self : Fraction) : Prop :=
  0 < self.m_denominator ∧ Int.gcd self.m_numerator self.m_denominator = 1

instance (f : Fraction) : Decidable f.Canonical := by unfold Fraction.Canonical; infer_instance

/-- A rational number cut toward zero. -/
def truncRat (q : ℚ) : Int := if 0 ≤ q then ⌊q⌋ else ⌈q⌉

/-- The thread-local variables of the function returned by `GetSleepFunc`, on one
thread, and what that thread asked `sleep_for` for. `lastSpeed` is empty until
the first call on the thread initialises it. -/
structure SleepState where
  accum : Fraction := Fraction.ofInt 0
  lastSpeed : Option Fraction := none
  /-- The arguments of `std::this_thread::sleep_for`, in milliseconds, oldest first. -/
  slept : List Int := []
  deriving DecidableEq, Repr

/-- The loop `while (accum >= 1) { long long ms = static_cast<long long>(accum);
sleep_for(milliseconds(ms)); accum -= ms; }` of the function returned by
`GetSleepFunc`. The first argument bounds the rounds still to come; with a
positive denominator the body runs at most once. -/
def VisualSort.GetSleepFunc.drain : Nat → SleepState → Except Fault Unit × SleepState
  | 0, st => if st.accum.geInt 1 then (.error .outOfFuel, st) else (.ok (), st)
  | k + 1, st =>
    if st.accum.geInt 1 then
      match st.accum.toLongLong with
      | .error e => (.error e, st)
      | .ok ms =>
        VisualSort.GetSleepFunc.drain k
          { st with slept := st.slept ++ [ms], accum := st.accum.subAssign (Fraction.ofInt ms) }
    else (.ok (), st)

/-- The start of the function returned by `GetSleepFunc`: `lastSpeed` is initialised
with the speed on the first call; when it differs from the speed read, `accum`
is reset and `lastSpeed` replaced. -/
def VisualSort.GetSleepFunc.enter (m_displaySpeed : Fraction) (st : SleepState) : SleepState :=
  if (st.lastSpeed.getD m_displaySpeed).ne m_displaySpeed then
    { st with accum := Fraction.ofInt 0, lastSpeed := some m_displaySpeed }
  else { st with lastSpeed := some (st.lastSpeed.getD m_displaySpeed) }

/-- Source: the function returned by `std::function<void()> GetSleepFunc()`, called on
one thread while `m_displaySpeed` has the given value. -/
def VisualSort.GetSleepFunc (m_displaySpeed : Fraction) (st : SleepState) :
    Except Fault Unit × SleepState :=
  match m_displaySpeed.Reciprocal with
  | .error e => (.error e, VisualSort.GetSleepFunc.enter m_displaySpeed st)
  | .ok r =>
    VisualSort.GetSleepFunc.drain 2
      { VisualSort.GetSleepFunc.enter m_displaySpeed st with
        accum := (VisualSort.GetSleepFunc.enter m_displaySpeed st).accum.addAssign r }

/-- Successive calls of the pacing function on one thread; the list gives the value
of `m_displaySpeed` at each call. -/
def VisualSort.GetSleepFunc.calls : List Fraction → SleepState → Except Fault Unit × SleepState
  | [], st => (.ok (), st)
  | speed :: rest, st =>
    match VisualSort.GetSleepFunc speed st with
    | (.error e, st) => (.error e, st)
    | (.ok _, st) => VisualSort.GetSleepFunc.calls rest st

/-- The main thread at the start of a pause of three polls that the interface
thread then lifts. -/
def pausedMainWorld : World where
  s_stopStripSort := true
  s_stripSortStopTime := 5
  clock := 100
  uiSchedule := [(true, false), (true, false), (false, false)]

/-- The calls of `FlushBatchDraw` that `DrawRemainingStrip` makes: one for each strip
of the previous operation of the thread. -/
def Strip.DrawRemainingStrip.flushes (w : World) : List Event :=
  if w.st_lastOperationNum = 1 then
    [.FlushBatchDraw w.st_lastInterval1.left (Strip.maxTopInt w) w.st_lastInterval1.right
      w.heightInt]
  else if w.st_lastOperationNum = 2 then
    [.FlushBatchDraw w.st_lastInterval2.1.left (Strip.maxTopInt w) w.st_lastInterval2.1.right
        w.heightInt,
      .FlushBatchDraw w.st_lastInterval2.2.left (Strip.maxTopInt w) w.st_lastInterval2.2.right
        w.heightInt]
  else []

/-- The calls that `DrawStrip1` makes before it calls `StopSort`. -/
def Strip.DrawStrip1.before (strip_ : Strip) (color_ : COLORREF) (w : World) : List Event :=
  [.ClearRectangle strip_.m_left (Strip.maxTopInt w) strip_.m_right w.heightInt,
    .drawFunc ⟨strip_.m_left, strip_.m_top, strip_.m_right, w.heightInt⟩ color_,
    .FlushBatchDraw strip_.m_left (Strip.maxTopInt w) strip_.m_right w.heightInt,
    .updateMessageFunc] ++ Strip.DrawRemainingStrip.flushes w ++ [.sleepFunc]

/-- The calls that `DrawStrip2` makes before it calls `StopSort`. -/
def Strip.DrawStrip2.before (strip1_ : Strip) (color1_ : COLORREF) (strip2_ : Strip)
    (color2_ : COLORREF) (w : World) : List Event :=
  [.ClearRectangle strip1_.m_left (Strip.maxTopInt w) strip1_.m_right w.heightInt,
    .ClearRectangle strip2_.m_left (Strip.maxTopInt w) strip2_.m_right w.heightInt,
    .drawFunc ⟨strip1_.m_left, strip1_.m_top, strip1_.m_right, w.heightInt⟩ color1_,
    .drawFunc ⟨strip2_.m_left, strip2_.m_top, strip2_.m_right, w.heightInt⟩ color2_,
    .FlushBatchDraw strip1_.m_left (Strip.maxTopInt w) strip1_.m_right w.heightInt,
    .FlushBatchDraw strip2_.m_left (Strip.maxTopInt w) strip2_.m_right w.heightInt,
    .updateMessageFunc] ++ Strip.DrawRemainingStrip.flushes w ++ [.sleepFunc]

/-- From `w` to `w'` the count of the animated steps went up by the amount by which
the count of the counting pass went up from `wc` to `wc'`. -/
def StepParity (w w' wc wc' : World) : Prop :=
  ∃ n : Nat, w'.AnimationStepNum = w.AnimationStepNum + n ∧
    wc'.ActualStepNum = wc.ActualStepNum + n

/-- Source: `Strip& SetValue(int value_) noexcept { this->m_value = value_; }`: the object
after the assignment. The function has no `return` statement, so what the
caller receives is not defined; only the object is described here. -/
def Strip.SetValue (self : Strip) (value_ : Int) : Strip := { self with m_value := value_ }

/-- The fields `m_top` and `m_color` of the strip are what `SetTopAuto` and `SetColorAuto` derive
from its `m_value` and the scale: rescaling the strip changes nothing. -/
def Strip.Derived (self : Strip) (w : World) : Prop := self.SetTopAndColorAuto w = .ok self

/-- The field `m_top` of the strip is what `SetTopAuto` derives from its `m_value` and the
scale. -/
def Strip.TopDerived (self : Strip) (w : World) : Prop := self.SetTopAuto w = .ok self

/-- The field `m_color` of the strip is what `SetColorAuto` derives from its `m_value` and the
scale. -/
def Strip.ColorDerived (self : Strip) (w : World) : Prop := self.SetColorAuto w = .ok self

/-- Source: the function returned by `std::function<void()> GetUpdateMessageFunc()`.
`Strip::s_threads` is a `std::set`, held here as a list without repetitions, so
its size is the length; the counter `m_updateMessageTime` and the product with
`UpdateMessageGap = 10` are 64-bit `size_t`. The texts computed on the
invocations that get past the test are those of `UpdateLastMessage`. -/
def VisualSort.GetUpdateMessageFunc (self : VisualSort) (w : World) :
    Except Fault Unit × VisualSort :=
  if 10 * w.s_threads.length % 18446744073709551616 = 0 then
    (.error .intDivide,
      { self with m_updateMessageTime := (self.m_updateMessageTime + 1) % 18446744073709551616 })
  else if (self.m_updateMessageTime + 1) % 18446744073709551616 %
      (10 * w.s_threads.length % 18446744073709551616) ≠ 0 then
    (.ok (),
      { self with m_updateMessageTime := (self.m_updateMessageTime + 1) % 18446744073709551616 })
  else
    VisualSort.UpdateLastMessage
      { self with m_updateMessageTime := (self.m_updateMessageTime + 1) % 18446744073709551616 } w

/-- The controller in the middle of an animated pass of the bubble sort, with the
invocation counter at 9. -/
def telemetryController : VisualSort where
  m_initDataFunc := VisualSort.defaultInitDataFunc
  m_sorts := [bubbleSortEntry]
  m_sortIndex := some 0
  m_updateMessageTime := 9
  m_intSortDuration := 7

/-- The globals in the middle of that pass: one registered thread, three of six
steps shown. -/
def telemetryWorld : World where
  s_threads := [0]
  s_maxValue := 3
  ActualStepNum := 6
  AnimationStepNum := 3
  clock := 1234

/-! ## Vocabulary for the return value of `SortPreparation` and for worker threads -/

/-- A state of a worker thread (thread 1, the main thread being thread 0) of an
algorithm that is not flagged multi-threaded, after exit has been requested, with
no pause and the scale 3. -/
def workerCancelWorld : World where
  thisThread := 1
  s_mainThreadId := 0
  s_exitStripSort := true
  s_isMulThreadSort := false
  s_maxValue := 3

theorem SameCounters.same (w : World) : SameCounters w w := ⟨rfl, rfl, rfl, rfl, rfl⟩

theorem SameCounters.andThen {a b c : World} (h : SameCounters a b) (h' : SameCounters b c) :
    SameCounters a c := by
  obtain ⟨h1, h2, h3, h4, h5⟩ := h
  obtain ⟨g1, g2, g3, g4, g5⟩ := h'
  exact ⟨g1.trans h1, g2.trans h2, g3.trans h3, g4.trans h4, g5.trans h5⟩

theorem sameCounters_emit (w : World) (e : Event) : SameCounters w (w.emit e) :=
  ⟨rfl, rfl, rfl, rfl, rfl⟩

theorem sameCounters_sleep10 (w : World) : SameCounters w w.sleep10 := by
  unfold World.sleep10
  split <;> exact ⟨rfl, rfl, rfl, rfl, rfl⟩

theorem waitWorker_sameCounters (n : Nat) (w : World) :
    SameCounters w (Strip.StopSort.waitWorker n w).2 := by
  induction n generalizing w with
  | zero => unfold Strip.StopSort.waitWorker; split <;> exact SameCounters.same w
  | succ n ih =>
    unfold Strip.StopSort.waitWorker
    split
    · exact (sameCounters_sleep10 w).andThen (ih _)
    · exact SameCounters.same w

theorem waitMain_sameCounters (n : Nat) (b : Bool) (w : World) :
    SameCounters w (Strip.StopSort.waitMain n b w).2 := by
  induction n generalizing w b with
  | zero =>
    unfold Strip.StopSort.waitMain
    split
    · split <;> exact SameCounters.same w
    · exact SameCounters.same w
  | succ n ih =>
    unfold Strip.StopSort.waitMain
    split
    · split
      · exact SameCounters.same w
      · exact (sameCounters_sleep10 w).andThen (ih _ _)
    · exact SameCounters.same w

theorem StopSort_sameCounters (w : World) : SameCounters w (Strip.StopSort w).2 := by
  unfold Strip.StopSort
  split
  · exact waitWorker_sameCounters _ w
  · have h := waitMain_sameCounters w.uiSchedule.length false w
    generalize Strip.StopSort.waitMain w.uiSchedule.length false w = r at h
    obtain ⟨r1, w1⟩ := r
    cases r1 with
    | error e => exact h
    | ok began =>
      simp only
      split <;> split <;> exact h.andThen ⟨rfl, rfl, rfl, rfl, rfl⟩

theorem sleep10_cons (w : World) (s e : Bool) (rest : List (Bool × Bool))
    (h : w.uiSchedule = (s, e) :: rest) :
    w.sleep10.uiSchedule = rest ∧ w.sleep10.s_stopStripSort = s ∧ w.sleep10.s_exitStripSort = e ∧
    w.sleep10.s_isMulThreadSort = w.s_isMulThreadSort ∧ w.sleep10.events = w.events := by
  unfold World.sleep10
  rw [h]
  exact ⟨rfl, rfl, rfl, rfl, rfl⟩

theorem noCancel_sleep10 (w : World) (h : w.NoCancel) : w.sleep10.NoCancel := by
  obtain ⟨h1, h2⟩ := h
  cases hs : w.uiSchedule with
  | nil =>
    unfold World.sleep10
    rw [hs]
    exact ⟨h1, by intro p hp; rw [hs] at h2; exact h2 p hp⟩
  | cons p rest =>
    obtain ⟨s, e⟩ := p
    obtain ⟨e1, _, e3, _, _⟩ := sleep10_cons w s e rest hs
    refine ⟨?_, ?_⟩
    · rw [e3]; exact h2 (s, e) (by rw [hs]; exact List.mem_cons_self _ _)
    · intro p hp
      rw [e1] at hp
      exact h2 p (by rw [hs]; exact List.mem_cons_of_mem _ hp)

theorem pauseEnds_sleep10 (w : World) (s e : Bool) (rest : List (Bool × Bool))
    (hs : w.uiSchedule = (s, e) :: rest) (h : w.PauseEnds) : w.sleep10.PauseEnds := by
  obtain ⟨e1, e2, _, _, _⟩ := sleep10_cons w s e rest hs
  unfold World.PauseEnds at h ⊢
  rw [e1, e2]
  rw [hs] at h
  simpa [List.getLast?_cons_cons] using h

theorem waitWorker_ok (n : Nat) (w : World) (hn : n = w.uiSchedule.length) (hp : w.PauseEnds) :
    (Strip.StopSort.waitWorker n w).1 = .ok () := by
  induction n generalizing w with
  | zero =>
    have hnil : w.uiSchedule = [] := List.length_eq_zero.mp hn.symm
    unfold World.PauseEnds at hp
    rw [hnil] at hp
    have hstop : w.s_stopStripSort = false := by simpa using hp
    unfold Strip.StopSort.waitWorker
    simp [hstop]
  | succ n ih =>
    unfold Strip.StopSort.waitWorker
    split
    · cases hs : w.uiSchedule with
      | nil => rw [hs] at hn; simp at hn
      | cons p rest =>
        obtain ⟨s, e⟩ := p
        have e1 := (sleep10_cons w s e rest hs).1
        exact ih _ (by rw [e1]; rw [hs] at hn; simpa using hn) (pauseEnds_sleep10 w s e rest hs hp)
    · rfl

theorem waitMain_ok (n : Nat) (b : Bool) (w : World) (hn : n = w.uiSchedule.length)
    (hc : w.NoCancel) (hp : w.PauseEnds) :
    ∃ b', (Strip.StopSort.waitMain n b w).1 = .ok b' ∧
      (Strip.StopSort.waitMain n b w).2.NoCancel := by
  induction n generalizing w b with
  | zero =>
    have hnil : w.uiSchedule = [] := List.length_eq_zero.mp hn.symm
    unfold World.PauseEnds at hp
    rw [hnil] at hp
    have hstop : w.s_stopStripSort = false := by simpa using hp
    unfold Strip.StopSort.waitMain
    simp [hstop, hc]
  | succ n ih =>
    unfold Strip.StopSort.waitMain
    split
    · have hexit : w.s_exitStripSort = false := hc.1
      simp only [hexit, Bool.false_and, Bool.false_eq_true, if_false]
      cases hs : w.uiSchedule with
      | nil => rw [hs] at hn; simp at hn
      | cons p rest =>
        obtain ⟨s, e⟩ := p
        have e1 := (sleep10_cons w s e rest hs).1
        exact ih true _ (by rw [e1]; rw [hs] at hn; simpa using hn) (noCancel_sleep10 w hc)
          (pauseEnds_sleep10 w s e rest hs hp)
    · exact ⟨b, rfl, hc⟩

theorem StopSort_ok (w : World) (hc : w.NoCancel) (hp : w.PauseEnds) :
    (Strip.StopSort w).1 = .ok () := by
  unfold Strip.StopSort
  split
  · exact waitWorker_ok _ w rfl hp
  · obtain ⟨b', h1, h2⟩ := waitMain_ok w.uiSchedule.length false w rfl hc hp
    generalize Strip.StopSort.waitMain w.uiSchedule.length false w = r at h1 h2
    obtain ⟨r1, w1⟩ := r
    simp only at h1 h2
    subst h1
    have hexit : w1.s_exitStripSort = false := h2.1
    simp only
    split <;> simp [hexit]


theorem SameFlags.unchanged (w : World) : SameFlags w w := ⟨rfl, rfl, rfl⟩

theorem SameFlags.followedBy {a b c : World} (h : SameFlags a b) (h' : SameFlags b c) :
    SameFlags a c := by
  obtain ⟨h1, h2, h3⟩ := h
  obtain ⟨g1, g2, g3⟩ := h'
  exact ⟨g1.trans h1, g2.trans h2, g3.trans h3⟩

theorem SameFlags.keepsNoCancel {w w' : World} (h : SameFlags w w') (hc : w.NoCancel) :
    w'.NoCancel := by
  obtain ⟨_, h2, h3⟩ := h
  unfold World.NoCancel at hc ⊢
  rw [h2, h3]; exact hc

theorem SameFlags.keepsPauseEnds {w w' : World} (h : SameFlags w w') (hp : w.PauseEnds) :
    w'.PauseEnds := by
  obtain ⟨h1, _, h3⟩ := h
  unfold World.PauseEnds at hp ⊢
  rw [h1, h3]; exact hp

theorem same_emit (w : World) (e : Event) : SameFlags w (w.emit e) ∧ SameCounters w (w.emit e) :=
  ⟨⟨rfl, rfl, rfl⟩, ⟨rfl, rfl, rfl, rfl, rfl⟩⟩

theorem same_drawRemaining (w : World) :
    SameFlags w (Strip.DrawRemainingStrip w) ∧ SameCounters w (Strip.DrawRemainingStrip w) := by
  unfold Strip.DrawRemainingStrip
  simp only
  split
  · exact same_emit _ _
  · split
    · exact ⟨⟨rfl, rfl, rfl⟩, ⟨rfl, rfl, rfl, rfl, rfl⟩⟩
    · exact ⟨SameFlags.unchanged w, SameCounters.same w⟩

theorem same_register (w : World) :
    SameFlags w (Strip.RegisterCurrentThread w) ∧ SameCounters w (Strip.RegisterCurrentThread w) := by
  unfold Strip.RegisterCurrentThread
  simp only
  split <;> exact ⟨⟨rfl, rfl, rfl⟩, ⟨rfl, rfl, rfl, rfl, rfl⟩⟩

theorem same_then_emit {w w0 : World} (e : Event) (h : SameFlags w w0 ∧ SameCounters w w0) :
    SameFlags w (w0.emit e) ∧ SameCounters w (w0.emit e) :=
  ⟨h.1.followedBy (same_emit w0 e).1, h.2.andThen (same_emit w0 e).2⟩

theorem same_then_drawRemaining {w w0 : World} (h : SameFlags w w0 ∧ SameCounters w w0) :
    SameFlags w (Strip.DrawRemainingStrip w0) ∧ SameCounters w (Strip.DrawRemainingStrip w0) :=
  ⟨h.1.followedBy (same_drawRemaining w0).1, h.2.andThen (same_drawRemaining w0).2⟩

theorem same_highlight1 (s : Strip) (c : COLORREF) (w : World) :
    SameFlags w (Strip.DrawStrip1.highlight s c w) ∧
    SameCounters w (Strip.DrawStrip1.highlight s c w) := by
  unfold Strip.DrawStrip1.highlight
  simp only
  refine same_then_emit _ (same_then_drawRemaining (same_then_emit _ (same_then_emit _
    (same_then_emit _ (same_then_emit _ ?_)))))
  split
  · exact ⟨SameFlags.unchanged w, SameCounters.same w⟩
  · have hr := same_register w
    exact ⟨hr.1.followedBy ⟨rfl, rfl, rfl⟩, hr.2.andThen ⟨rfl, rfl, rfl, rfl, rfl⟩⟩

theorem same_highlight2 (s : Strip) (c : COLORREF) (t : Strip) (c' : COLORREF) (w : World) :
    SameFlags w (Strip.DrawStrip2.highlight s c t c' w) ∧
    SameCounters w (Strip.DrawStrip2.highlight s c t c' w) := by
  unfold Strip.DrawStrip2.highlight
  simp only
  refine same_then_emit _ (same_then_drawRemaining (same_then_emit _ (same_then_emit _
    (same_then_emit _ (same_then_emit _ (same_then_emit _ (same_then_emit _
      (same_then_emit _ ?_))))))))
  split
  · exact ⟨SameFlags.unchanged w, SameCounters.same w⟩
  · have hr := same_register w
    exact ⟨hr.1.followedBy ⟨rfl, rfl, rfl⟩, hr.2.andThen ⟨rfl, rfl, rfl, rfl, rfl⟩⟩

theorem DrawStrip1_sameCounters (s : Strip) (c : COLORREF) (w : World) :
    SameCounters w (Strip.DrawStrip1 s c w).2 := by
  have h1 := (same_highlight1 s c w).2
  have h2 := StopSort_sameCounters (Strip.DrawStrip1.highlight s c w)
  unfold Strip.DrawStrip1
  generalize Strip.StopSort (Strip.DrawStrip1.highlight s c w) = r at h2
  obtain ⟨r1, w1⟩ := r
  cases r1 with
  | error e => exact h1.andThen h2
  | ok u => exact (h1.andThen h2).andThen ⟨rfl, rfl, rfl, rfl, rfl⟩

theorem DrawStrip2_sameCounters (s : Strip) (c : COLORREF) (t : Strip) (c' : COLORREF)
    (w : World) : SameCounters w (Strip.DrawStrip2 s c t c' w).2 := by
  have h1 := (same_highlight2 s c t c' w).2
  have h2 := StopSort_sameCounters (Strip.DrawStrip2.highlight s c t c' w)
  unfold Strip.DrawStrip2
  generalize Strip.StopSort (Strip.DrawStrip2.highlight s c t c' w) = r at h2
  obtain ⟨r1, w1⟩ := r
  cases r1 with
  | error e => exact h1.andThen h2
  | ok u => exact (h1.andThen h2).andThen ⟨rfl, rfl, rfl, rfl, rfl⟩

theorem DrawStrip1_ok (s : Strip) (c : COLORREF) (w : World) (hc : w.NoCancel)
    (hp : w.PauseEnds) : (Strip.DrawStrip1 s c w).1 = .ok () := by
  have h1 := (same_highlight1 s c w).1
  have h2 := StopSort_ok _ (h1.keepsNoCancel hc) (h1.keepsPauseEnds hp)
  unfold Strip.DrawStrip1
  generalize Strip.StopSort (Strip.DrawStrip1.highlight s c w) = r at h2
  obtain ⟨r1, w1⟩ := r
  simp only at h2
  subst h2
  rfl

theorem DrawStrip2_ok (s : Strip) (c : COLORREF) (t : Strip) (c' : COLORREF) (w : World)
    (hc : w.NoCancel) (hp : w.PauseEnds) : (Strip.DrawStrip2 s c t c' w).1 = .ok () := by
  have h1 := (same_highlight2 s c t c' w).1
  have h2 := StopSort_ok _ (h1.keepsNoCancel hc) (h1.keepsPauseEnds hp)
  unfold Strip.DrawStrip2
  generalize Strip.StopSort (Strip.DrawStrip2.highlight s c t c' w) = r at h2
  obtain ⟨r1, w1⟩ := r
  simp only at h2
  subst h2
  rfl

/-! ## Lemmas on the proxies -/

theorem ArithOp.eval_zero (op : ArithOp) (a : Int) (h : op = .div ∨ op = .mod) :
    op.eval a 0 = .error .intDivide := by
  rcases h with h | h <;> subst h <;> simp [ArithOp.eval]

theorem DrawStrip1_returns (s : Strip) (c : COLORREF) (w : World) (hc : w.NoCancel)
    (hp : w.PauseEnds) : Strip.DrawStrip1 s c w = (.ok (), (Strip.DrawStrip1 s c w).2) := by
  have h := DrawStrip1_ok s c w hc hp
  generalize Strip.DrawStrip1 s c w = r at h ⊢
  obtain ⟨r1, w1⟩ := r
  simp only at h
  rw [h]

theorem DrawStrip2_returns (s : Strip) (c : COLORREF) (t : Strip) (c' : COLORREF) (w : World)
    (hc : w.NoCancel) (hp : w.PauseEnds) :
    Strip.DrawStrip2 s c t c' w = (.ok (), (Strip.DrawStrip2 s c t c' w).2) := by
  have h := DrawStrip2_ok s c t c' w hc hp
  generalize Strip.DrawStrip2 s c t c' w = r at h ⊢
  obtain ⟨r1, w1⟩ := r
  simp only at h
  rw [h]

theorem SetTopAuto_value (s s' : Strip) (w : World) (h : s.SetTopAuto w = .ok s') :
    s'.m_value = s.m_value := by
  unfold Strip.SetTopAuto at h
  simp only at h
  split at h
  · cases h
  · split at h
    · cases h
    · split at h <;> · cases h; rfl

theorem SetColorAuto_value (s s' : Strip) (w : World) (h : s.SetColorAuto w = .ok s') :
    s'.m_value = s.m_value := by
  unfold Strip.SetColorAuto at h
  simp only at h
  split at h
  · cases h
  · cases h; rfl

theorem SetTopAndColorAuto_value (s s' : Strip) (w : World)
    (h : s.SetTopAndColorAuto w = .ok s') : s'.m_value = s.m_value := by
  unfold Strip.SetTopAndColorAuto at h
  split at h
  · cases h
  · rename_i s1 h1
    exact (SetColorAuto_value _ _ _ h).trans (SetTopAuto_value _ _ _ h1)

theorem storedInt_value (s : Strip) (c : COLORREF) (w : World) :
    (Strip.storedInt s c w).2.1.m_value = s.m_value := by
  unfold Strip.storedInt
  split
  · split
    · rfl
    · rename_i s1 h1
      have hv := SetTopAndColorAuto_value _ _ _ h1
      split <;> exact hv
  · rfl

theorem storedStrip_value (s t : Strip) (w : World) :
    (Strip.storedStrip s t w).2.1.m_value = s.m_value := by
  unfold Strip.storedStrip
  split
  · split
    · split
      · rfl
      · rename_i s1 h1
        have hv := SetTopAndColorAuto_value _ _ _ h1
        split <;> exact hv
    · split <;> rfl
  · split
    · split
      · rfl
      · rename_i s1 h1
        have hv := SetTopAndColorAuto_value _ _ _ h1
        split <;> exact hv
    · rfl

theorem Strip_compare_result (cmp : CmpOp) (s t : Strip) (w : World) (hc : w.NoCancel)
    (hp : w.PauseEnds) : (Strip.compare cmp s t w).1 = .ok (cmp.eval s.m_value t.m_value) := by
  unfold Strip.compare
  split
  · rw [DrawStrip1_returns _ _ _ hc hp]
  · split
    · rw [DrawStrip2_returns _ _ _ _ _ hc hp]
    · rfl

theorem Strip_compareInt_result (cmp : CmpOp) (s : Strip) (v : Int) (w : World)
    (hc : w.NoCancel) (hp : w.PauseEnds) :
    (Strip.compareInt cmp s v w).1 = .ok (cmp.eval s.m_value v) := by
  unfold Strip.compareInt
  split
  · rw [DrawStrip1_returns _ _ _ hc hp]
  · rfl

theorem Strip_intCompare_result (cmp : CmpOp) (v : Int) (s : Strip) (w : World)
    (hc : w.NoCancel) (hp : w.PauseEnds) :
    (Strip.intCompare cmp v s w).1 = .ok (cmp.eval v s.m_value) := by
  unfold Strip.intCompare
  split
  · rw [DrawStrip1_returns _ _ _ hc hp]
  · rfl

theorem Strip_arith_result (op : ArithOp) (s t : Strip) (w : World) (hc : w.NoCancel)
    (hp : w.PauseEnds) : (Strip.arith op s t w).1 = op.eval s.m_value t.m_value := by
  unfold Strip.arith
  split
  · rw [DrawStrip1_returns _ _ _ hc hp]
  · split
    · rw [DrawStrip2_returns _ _ _ _ _ hc hp]
    · rfl

theorem Strip_arithInt_result (op : ArithOp) (s : Strip) (v : Int) (w : World)
    (hc : w.NoCancel) (hp : w.PauseEnds) :
    (Strip.arithInt op s v w).1 = op.eval s.m_value v := by
  unfold Strip.arithInt
  split
  · rw [DrawStrip1_returns _ _ _ hc hp]
  · rfl


theorem Counter_copyChain_nonlive (n : Nat) (v : Int) (w : World) :
    Counter.copyChain n { m_value := v, m_notTemp := false } w
      = ({ m_value := v, m_notTemp := false }, w) := by
  induction n with
  | zero => rfl
  | succ n ih =>
    unfold Counter.copyChain
    exact ih

theorem Strip_copy_nonlive (s : Strip) (w : World) (h : s.m_notTemp = false) :
    Strip.copy s w = (.ok { m_value := s.m_value }, w) := by
  unfold Strip.copy
  simp [h]

theorem Strip_copyChain_nonlive (n : Nat) (v : Int) (w : World) :
    Strip.copyChain (n + 1) { m_value := v } w = (.ok { m_value := v }, w) := by
  induction n with
  | zero =>
    unfold Strip.copyChain
    rw [Strip_copy_nonlive _ _ rfl]
    rfl
  | succ n ih =>
    unfold Strip.copyChain
    rw [Strip_copy_nonlive _ _ rfl]
    exact ih


theorem advance_compare1 (w w' : World) (h : SameCounters w w') :
    CountersAdvance w (Strip.AddNumCompare1 w') 1 1 0 1 := by
  obtain ⟨_, h2, h3, h4, h5⟩ := h
  exact ⟨by show w'.StripCompareNum + 1 = _; rw [h2], by show w'.StripCopyNum + 1 = _; rw [h3],
    h4, by show w'.AnimationStepNum + 1 = _; rw [h5]⟩

theorem advance_compare2 (w w' : World) (h : SameCounters w w') :
    CountersAdvance w (Strip.AddNumCompare2 w') 1 2 0 1 := by
  obtain ⟨_, h2, h3, h4, h5⟩ := h
  exact ⟨by show w'.StripCompareNum + 1 = _; rw [h2], by show w'.StripCopyNum + 2 = _; rw [h3],
    h4, by show w'.AnimationStepNum + 1 = _; rw [h5]⟩


/-! ## Properties of the value proxies -/

/-- C1. Every operation of `Counter` (the comparisons in their three overloads,
assignment from an `int` or a `Counter`, the compound assignments, increment and
decrement, the binary arithmetic operators, conversion to `int` and the three
`swap` overloads) adds exactly 1 to `ActualStepNum` when at least one `Counter`
operand is live and leaves it unchanged when none is. -/
theorem Counter_operation_counts_once (w : World) (c d : Counter) (v : Int) (cmp : CmpOp)
    (op : ArithOp) :
    (Counter.compareInt cmp c v w).2.ActualStepNum
      = w.ActualStepNum + (if c.m_notTemp then 1 else 0) ∧
    (Counter.compare cmp c d w).2.ActualStepNum
      = w.ActualStepNum + (if c.m_notTemp || d.m_notTemp then 1 else 0) ∧
    (Counter.intCompare cmp v c w).2.ActualStepNum
      = w.ActualStepNum + (if c.m_notTemp then 1 else 0) ∧
    (Counter.assignInt c v w).2.ActualStepNum
      = w.ActualStepNum + (if c.m_notTemp then 1 else 0) ∧
    (Counter.assign c d w).2.ActualStepNum
      = w.ActualStepNum + (if c.m_notTemp || d.m_notTemp then 1 else 0) ∧
    (Counter.compoundInt op c v w).2.2.ActualStepNum
      = w.ActualStepNum + (if c.m_notTemp then 1 else 0) ∧
    (Counter.compound op c d w).2.2.ActualStepNum
      = w.ActualStepNum + (if c.m_notTemp || d.m_notTemp then 1 else 0) ∧
    (Counter.preIncrement c w).2.ActualStepNum
      = w.ActualStepNum + (if c.m_notTemp then 1 else 0) ∧
    (Counter.postIncrement c w).2.2.ActualStepNum
      = w.ActualStepNum + (if c.m_notTemp then 1 else 0) ∧
    (Counter.preDecrement c w).2.ActualStepNum
      = w.ActualStepNum + (if c.m_notTemp then 1 else 0) ∧
    (Counter.postDecrement c w).2.2.ActualStepNum
      = w.ActualStepNum + (if c.m_notTemp then 1 else 0) ∧
    (Counter.arithInt op c v w).2.ActualStepNum
      = w.ActualStepNum + (if c.m_notTemp then 1 else 0) ∧
    (Counter.arith op c d w).2.ActualStepNum
      = w.ActualStepNum + (if c.m_notTemp || d.m_notTemp then 1 else 0) ∧
    (Counter.toInt c w).2.ActualStepNum
      = w.ActualStepNum + (if c.m_notTemp then 1 else 0) ∧
    (Counter.swap c d w).2.ActualStepNum
      = w.ActualStepNum + (if c.m_notTemp || d.m_notTemp then 1 else 0) ∧
    (Counter.swapCounterInt c v w).2.ActualStepNum
      = w.ActualStepNum + (if c.m_notTemp then 1 else 0) ∧
    (Counter.swapIntCounter v c w).2.ActualStepNum
      = w.ActualStepNum + (if c.m_notTemp then 1 else 0) := by
  have h1 : (c.IncrementIfNeeded w).ActualStepNum
      = w.ActualStepNum + (if c.m_notTemp then 1 else 0) := by
    unfold Counter.IncrementIfNeeded
    split <;> simp [World.incActualStepNum]
  have h2 : (c.IncrementIfNeeded2 d w).ActualStepNum
      = w.ActualStepNum + (if c.m_notTemp || d.m_notTemp then 1 else 0) := by
    unfold Counter.IncrementIfNeeded2
    split <;> simp [World.incActualStepNum]
  have h3 : (if c.m_notTemp then w.incActualStepNum else w).ActualStepNum
      = w.ActualStepNum + (if c.m_notTemp then 1 else 0) := h1
  have h4 : (if c.m_notTemp || d.m_notTemp then w.incActualStepNum else w).ActualStepNum
      = w.ActualStepNum + (if c.m_notTemp || d.m_notTemp then 1 else 0) := h2
  refine ⟨h1, h2, h3, h1, h2, ?_, ?_, h1, h1, h1, h1, h1, h2, h1, h4, h3, h3⟩
  · unfold Counter.compoundInt
    simp only
    split <;> exact h1
  · unfold Counter.compound
    simp only
    split <;> exact h2

/-- C2, as stated, fails: copy-constructing from a live `Counter` while
`ActualStepNum` is 5 leaves it at 6. -/
theorem Counter_copy_live_counts :
    (Counter.copy { m_value := 7, m_notTemp := true } { ActualStepNum := 5 }).2.ActualStepNum
      ≠ 5 := by
  decide

/-- C2, amended. Copy-constructing a `Counter` from a live `Counter` adds exactly 1
to `ActualStepNum` (the copy is counted as one operation on the live source); the
copy is not live and holds the value of the source. -/
theorem Counter_copy_of_live (w : World) (v : Int) :
    (Counter.copy { m_value := v, m_notTemp := true } w).2.ActualStepNum = w.ActualStepNum + 1 ∧
    (Counter.copy { m_value := v, m_notTemp := true } w).1 = { m_value := v, m_notTemp := false } :=
  ⟨rfl, rfl⟩


/-- C3. For `Counter` and for `Strip`: constructing a proxy that is not live from an
`int`, and copy-constructing from a proxy that is not live any number of times,
leave the whole global state unchanged (so each of `ActualStepNum`,
`StripCompareNum`, `StripCopyNum`, `StripChangeNum`, `AnimationStepNum` keeps its
value and no draw callback is recorded); the object obtained is not live and
holds the source value. -/
theorem nonlive_construction_is_silent (n : Nat) (v : Int) (s : Strip) (w : World) :
    Counter.ctor v false w = ({ m_value := v, m_notTemp := false }, w) ∧
    Counter.copyChain n { m_value := v, m_notTemp := false } w
      = ({ m_value := v, m_notTemp := false }, w) ∧
    Strip.ctor v false w = ({ m_value := v, m_notTemp := false }, w) ∧
    Strip.copy { s with m_notTemp := false } w
      = (.ok { m_value := s.m_value, m_notTemp := false }, w) ∧
    Strip.copyChain (n + 1) { s with m_notTemp := false } w
      = (.ok { m_value := s.m_value, m_notTemp := false }, w) := by
  refine ⟨rfl, Counter_copyChain_nonlive n v w, rfl, Strip_copy_nonlive _ _ rfl, ?_⟩
  cases n with
  | zero =>
    unfold Strip.copyChain
    rw [Strip_copy_nonlive _ _ rfl]
    rfl
  | succ n =>
    unfold Strip.copyChain
    rw [Strip_copy_nonlive _ _ rfl]
    exact Strip_copyChain_nonlive n s.m_value w

/-- C4. Value transparency of the proxies. Each comparison and each binary
arithmetic operator applied to two `Counter`s, to two `Strip`s or to a proxy and
an `int` (in either order for the comparisons) returns what the built-in
operator returns on the two values, whatever the liveness of the operands, and
after an assignment from an `int` or from a proxy the target holds the assigned
value. The `Strip` operators are taken with no cancellation requested and a
pause that ends. -/
theorem proxy_results_are_int_results (cmp : CmpOp) (op : ArithOp) (c d : Counter)
    (s t : Strip) (v : Int) (w : World) (hc : w.NoCancel) (hp : w.PauseEnds) :
    ((Counter.compare cmp c d w).1 = cmp.eval c.m_value d.m_value ∧
     (Counter.compareInt cmp c v w).1 = cmp.eval c.m_value v ∧
     (Counter.intCompare cmp v c w).1 = cmp.eval v c.m_value ∧
     (Counter.arith op c d w).1 = op.eval c.m_value d.m_value ∧
     (Counter.arithInt op c v w).1 = op.eval c.m_value v ∧
     (Counter.assign c d w).1.m_value = d.m_value ∧
     (Counter.assignInt c v w).1.m_value = v) ∧
    ((Strip.compare cmp s t w).1 = .ok (cmp.eval s.m_value t.m_value) ∧
     (Strip.compareInt cmp s v w).1 = .ok (cmp.eval s.m_value v) ∧
     (Strip.intCompare cmp v s w).1 = .ok (cmp.eval v s.m_value) ∧
     (Strip.arith op s t w).1 = op.eval s.m_value t.m_value ∧
     (Strip.arithInt op s v w).1 = op.eval s.m_value v ∧
     (Strip.assign s t w).2.1.m_value = t.m_value ∧
     (Strip.assignInt s v w).2.1.m_value = v) := by
  exact ⟨⟨rfl, rfl, rfl, rfl, rfl, rfl, rfl⟩, Strip_compare_result cmp s t w hc hp,
    Strip_compareInt_result cmp s v w hc hp, Strip_intCompare_result cmp v s w hc hp,
    Strip_arith_result op s t w hc hp, Strip_arithInt_result op s v w hc hp,
    storedStrip_value _ _ _, storedInt_value _ _ _⟩

/-- Witness for C4: a live and a non-live strip in the initial state. -/
theorem proxy_results_are_int_results_witness :
    World.NoCancel {} ∧ World.PauseEnds {} ∧
    (Strip.compare .lt { m_value := 3, m_notTemp := true } { m_value := 5 } {}).1
      = .ok (CmpOp.lt.eval 3 5) :=
  ⟨by decide, by decide,
    (proxy_results_are_int_results .lt .add {} {} { m_value := 3, m_notTemp := true }
      { m_value := 5 } 0 {} (by decide) (by decide)).2.1⟩

/-- C5. The six `Strip` comparisons, with no cancellation requested and a pause that
ends. With exactly one live operand (two strips of different liveness, or a live
strip and an `int` on either side) the live operand is drawn by one `DrawStrip1`
in the copy colour and the counters advance by: comparisons 1, references 1,
writes 0, animation steps 1. With two live strips there is one `DrawStrip2` and
the counters advance by 1, 2, 0, 1. With no live operand the global state is
unchanged, so nothing is counted and nothing is drawn. -/
theorem Strip_comparison_counts (cmp : CmpOp) (s t : Strip) (v : Int) (w : World)
    (hc : w.NoCancel) (hp : w.PauseEnds) :
    ((Strip.compare cmp { s with m_notTemp := true } { t with m_notTemp := false } w).2
        = Strip.AddNumCompare1
            (Strip.DrawStrip1 { s with m_notTemp := true } StripCopyColor w).2 ∧
      CountersAdvance w
        (Strip.compare cmp { s with m_notTemp := true } { t with m_notTemp := false } w).2
        1 1 0 1) ∧
    ((Strip.compare cmp { s with m_notTemp := false } { t with m_notTemp := true } w).2
        = Strip.AddNumCompare1
            (Strip.DrawStrip1 { t with m_notTemp := true } StripCopyColor w).2 ∧
      CountersAdvance w
        (Strip.compare cmp { s with m_notTemp := false } { t with m_notTemp := true } w).2
        1 1 0 1) ∧
    ((Strip.compareInt cmp { s with m_notTemp := true } v w).2
        = Strip.AddNumCompare1
            (Strip.DrawStrip1 { s with m_notTemp := true } StripCopyColor w).2 ∧
      CountersAdvance w (Strip.compareInt cmp { s with m_notTemp := true } v w).2 1 1 0 1) ∧
    ((Strip.intCompare cmp v { s with m_notTemp := true } w).2
        = Strip.AddNumCompare1
            (Strip.DrawStrip1 { s with m_notTemp := true } StripCopyColor w).2 ∧
      CountersAdvance w (Strip.intCompare cmp v { s with m_notTemp := true } w).2 1 1 0 1) ∧
    ((Strip.compare cmp { s with m_notTemp := true } { t with m_notTemp := true } w).2
        = Strip.AddNumCompare2
            (Strip.DrawStrip2 { s with m_notTemp := true } StripCopyColor
              { t with m_notTemp := true } StripCopyColor w).2 ∧
      CountersAdvance w
        (Strip.compare cmp { s with m_notTemp := true } { t with m_notTemp := true } w).2
        1 2 0 1) ∧
    ((Strip.compare cmp { s with m_notTemp := false } { t with m_notTemp := false } w).2 = w ∧
      (Strip.compareInt cmp { s with m_notTemp := false } v w).2 = w ∧
      (Strip.intCompare cmp v { s with m_notTemp := false } w).2 = w) := by
  have e1 : (Strip.compare cmp { s with m_notTemp := true }
      { t with m_notTemp := false } w).2
      = Strip.AddNumCompare1 (Strip.DrawStrip1 { s with m_notTemp := true } StripCopyColor w).2 := by
    unfold Strip.compare
    simp only [bne_iff_ne, ne_eq, Bool.true_eq_false, not_false_eq_true, if_true]
    rw [DrawStrip1_returns _ _ _ hc hp]
  have e2 : (Strip.compare cmp { s with m_notTemp := false } { t with m_notTemp := true } w).2
      = Strip.AddNumCompare1 (Strip.DrawStrip1 { t with m_notTemp := true } StripCopyColor w).2 := by
    unfold Strip.compare
    simp only [bne_iff_ne, ne_eq, Bool.false_eq_true, not_false_eq_true, if_true, if_false]
    rw [DrawStrip1_returns _ _ _ hc hp]
  have e3 : (Strip.compareInt cmp { s with m_notTemp := true } v w).2
      = Strip.AddNumCompare1 (Strip.DrawStrip1 { s with m_notTemp := true } StripCopyColor w).2 := by
    unfold Strip.compareInt
    simp only [if_true]
    rw [DrawStrip1_returns _ _ _ hc hp]
  have e4 : (Strip.intCompare cmp v { s with m_notTemp := true } w).2
      = Strip.AddNumCompare1 (Strip.DrawStrip1 { s with m_notTemp := true } StripCopyColor w).2 := by
    unfold Strip.intCompare
    simp only [if_true]
    rw [DrawStrip1_returns _ _ _ hc hp]
  have e5 : (Strip.compare cmp { s with m_notTemp := true } { t with m_notTemp := true } w).2
      = Strip.AddNumCompare2 (Strip.DrawStrip2 { s with m_notTemp := true } StripCopyColor
          { t with m_notTemp := true } StripCopyColor w).2 := by
    unfold Strip.compare
    simp only [bne_self_eq_false, Bool.false_eq_true, if_false, if_true]
    rw [DrawStrip2_returns _ _ _ _ _ hc hp]
  refine ⟨⟨e1, ?_⟩, ⟨e2, ?_⟩, ⟨e3, ?_⟩, ⟨e4, ?_⟩, ⟨e5, ?_⟩, ?_, ?_, ?_⟩
  · rw [e1]; exact advance_compare1 _ _ (DrawStrip1_sameCounters _ _ _)
  · rw [e2]; exact advance_compare1 _ _ (DrawStrip1_sameCounters _ _ _)
  · rw [e3]; exact advance_compare1 _ _ (DrawStrip1_sameCounters _ _ _)
  · rw [e4]; exact advance_compare1 _ _ (DrawStrip1_sameCounters _ _ _)
  · rw [e5]; exact advance_compare2 _ _ (DrawStrip2_sameCounters _ _ _ _ _)
  · unfold Strip.compare; simp
  · unfold Strip.compareInt; simp
  · unfold Strip.intCompare; simp

/-- Witness for C5 in the initial state. -/
theorem Strip_comparison_counts_witness :
    World.NoCancel {} ∧ World.PauseEnds {} ∧
    CountersAdvance {}
      (Strip.compare .lt { m_value := 3, m_notTemp := true } { m_value := 5, m_notTemp := true }
        {}).2 1 2 0 1 :=
  ⟨by decide, by decide,
    (Strip_comparison_counts .lt { m_value := 3 } { m_value := 5 } 0 {} (by decide)
      (by decide)).2.2.2.2.1.2⟩

/-- C6, as stated, fails: dividing a live `Counter` holding 5 by the `int` 0 ends in
the undefined built-in division, not in a `WideError`. -/
theorem Counter_divide_by_zero_is_not_WideError :
    ¬ ∃ e, (Counter.arithInt .div { m_value := 5, m_notTemp := true } 0 {}).1
        = .error (.wideError e) := by
  simp [Counter.arithInt, ArithOp.eval]

/-- C6, amended. No division or modulo operator of `Counter` or `Strip` checks its
right operand: with a right operand of value zero each of them reaches the
built-in `/` or `%`, which is undefined for a zero divisor, and no value is
produced or stored. No `WideError` is raised for the zero divisor. `Counter` has
counted the operation by then; the compound assignments of `Strip` have neither
drawn nor counted; the binary operators of `Strip` (taken with no cancellation
requested and a pause that ends) have drawn and counted their live operands. -/
theorem division_by_zero_is_unchecked (op : ArithOp) (hop : op = .div ∨ op = .mod)
    (c d : Counter) (s t : Strip) (w : World) (hc : w.NoCancel) (hp : w.PauseEnds) :
    (Counter.arithInt op c 0 w = (.error .intDivide, c.IncrementIfNeeded w) ∧
     Counter.arith op c { d with m_value := 0 } w
       = (.error .intDivide, c.IncrementIfNeeded2 { d with m_value := 0 } w) ∧
     Counter.compoundInt op c 0 w = (.error .intDivide, c, c.IncrementIfNeeded w) ∧
     Counter.compound op c { d with m_value := 0 } w
       = (.error .intDivide, c, c.IncrementIfNeeded2 { d with m_value := 0 } w)) ∧
    (Strip.compoundInt op s 0 w = (.error .intDivide, s, w) ∧
     Strip.compound op s { t with m_value := 0 } w = (.error .intDivide, s, w) ∧
     (Strip.arithInt op s 0 w).1 = .error .intDivide ∧
     (Strip.arith op s { t with m_value := 0 } w).1 = .error .intDivide) := by
  have hz : ∀ a, op.eval a 0 = .error .intDivide := fun a => ArithOp.eval_zero op a hop
  refine ⟨⟨?_, ?_, ?_, ?_⟩, ?_, ?_, ?_, ?_⟩
  · unfold Counter.arithInt; rw [hz]
  · unfold Counter.arith; rw [hz]
  · unfold Counter.compoundInt; simp only [hz]
  · unfold Counter.compound; simp only [hz]
  · unfold Strip.compoundInt; simp only [hz]
  · unfold Strip.compound; simp only [hz]
  · rw [Strip_arithInt_result op s 0 w hc hp, hz]
  · rw [Strip_arith_result op s { t with m_value := 0 } w hc hp, hz]

/-- Witness for C6, amended: division of live proxies by zero in the initial state. -/
theorem division_by_zero_is_unchecked_witness :
    World.NoCancel {} ∧ World.PauseEnds {} ∧
    Counter.compoundInt .div { m_value := 5, m_notTemp := true } 0 {}
      = (.error .intDivide, { m_value := 5, m_notTemp := true },
          Counter.IncrementIfNeeded { m_value := 5, m_notTemp := true } {}) :=
  ⟨by decide, by decide,
    (division_by_zero_is_unchecked .div (Or.inl rfl) { m_value := 5, m_notTemp := true } {}
      {} {} {} (by decide) (by decide)).1.2.2.1⟩

/-! ## Lemmas on bounded loops and on vectors -/

open NSortAlgorithms

/-- Total correctness of a bounded loop from an invariant and a variant. -/
theorem loop_spec {σ ρ : Type} (step : σ → Except Fault (σ ⊕ ρ)) (Inv : σ → Prop)
    (Post : ρ → Prop) (μ : σ → Nat)
    (hstep : ∀ s, Inv s →
      (∃ s', step s = .ok (.inl s') ∧ Inv s' ∧ μ s' < μ s) ∨
      (∃ r, step s = .ok (.inr r) ∧ Post r)) :
    ∀ (fuel : Nat) (s : σ), Inv s → μ s < fuel → ∃ r, loop step fuel s = .ok r ∧ Post r := by
  intro fuel
  induction fuel with
  | zero => intro s _ h; omega
  | succ n ih =>
    intro s hs hμ
    rcases hstep s hs with ⟨s', h1, h2, h3⟩ | ⟨r, h1, h2⟩
    · obtain ⟨r, hr, hp⟩ := ih s' h2 (by omega)
      exact ⟨r, by simp only [loop, h1]; exact hr, hp⟩
    · exact ⟨r, by simp only [loop, h1], h2⟩

/-- A loop that continues from `s` to `s'` spends one unit of its bound. -/
theorem loop_continue {σ ρ : Type} (step : σ → Except Fault (σ ⊕ ρ)) (s s' : σ) (k : Nat)
    (h : step s = .ok (.inl s')) : loop step (k + 1) s = loop step k s' := by
  simp only [loop, h]

theorem vecGet_ok (d : List Int) (i : Int) (h0 : 0 ≤ i) (h1 : i < d.length) :
    vecGet d i = .ok (nth d i) := by
  unfold vecGet nth
  rw [if_pos ⟨h0, h1⟩]

theorem vecSet_ok (d : List Int) (i v : Int) (h0 : 0 ≤ i) (h1 : i < d.length) :
    vecSet d i v = .ok (d.set i.toNat v) := by
  unfold vecSet
  rw [if_pos ⟨h0, h1⟩]

theorem vecSwap_ok (d : List Int) (i j : Int) (hi0 : 0 ≤ i) (hi1 : i < d.length)
    (hj0 : 0 ≤ j) (hj1 : j < d.length) : vecSwap d i j = .ok (swapAt d i j) := by
  unfold vecSwap swapAt
  simp only [vecGet_ok d i hi0 hi1, vecGet_ok d j hj0 hj1, vecSet_ok d i _ hi0 hi1, bind,
    Except.bind]
  rw [vecSet_ok _ j _ hj0 (by simpa using hj1)]

theorem length_swapAt (d : List Int) (i j : Int) : (swapAt d i j).length = d.length := by
  simp [swapAt]

theorem nth_set (d : List Int) (i k : Int) (v : Int) (hi0 : 0 ≤ i) (hi1 : i < d.length)
    (hk0 : 0 ≤ k) : nth (d.set i.toNat v) k = if k = i then v else nth d k := by
  unfold nth
  by_cases hk : k = i
  · subst hk
    simp only [if_true]
    rw [List.getD_eq_getElem?_getD, List.getElem?_set_self (by omega)]
    rfl
  · rw [if_neg hk]
    rw [List.getD_eq_getElem?_getD, List.getD_eq_getElem?_getD,
      List.getElem?_set_ne (by omega)]

theorem nth_swapAt (d : List Int) (i j k : Int) (hi0 : 0 ≤ i) (hi1 : i < d.length)
    (hj0 : 0 ≤ j) (hj1 : j < d.length) (hk0 : 0 ≤ k) :
    nth (swapAt d i j) k = if k = j then nth d i else if k = i then nth d j else nth d k := by
  unfold swapAt
  rw [nth_set _ j k _ hj0 (by simpa using hj1) hk0, nth_set _ i k _ hi0 hi1 hk0]

theorem nth_eq_getElem (d : List Int) (n : Nat) (h : n < d.length) : nth d n = d[n] := by
  unfold nth
  simp [List.getD_eq_getElem?_getD, List.getElem?_eq_getElem h]

theorem perm_swapAt (d : List Int) (i j : Int) (hi0 : 0 ≤ i) (hi1 : i < d.length)
    (hj0 : 0 ≤ j) (hj1 : j < d.length) : (swapAt d i j).Perm d := by
  have hi : i.toNat < d.length := by omega
  have hj : j.toNat < d.length := by omega
  rw [List.perm_iff_count]
  intro a
  unfold swapAt
  rw [List.count_set _ _ _ _ (by simpa using hj), List.count_set _ _ _ _ hi]
  have e1 : nth d i = d[i.toNat] := by
    have := nth_eq_getElem d i.toNat hi
    rwa [Int.toNat_of_nonneg hi0] at this
  have e2 : nth d j = d[j.toNat] := by
    have := nth_eq_getElem d j.toNat hj
    rwa [Int.toNat_of_nonneg hj0] at this
  rw [List.getElem_set, e1, e2]
  have p1 : d[i.toNat] = a → 0 < List.count a d := fun h =>
    List.count_pos_iff.mpr (h ▸ List.getElem_mem _)
  have p2 : d[j.toNat] = a → 0 < List.count a d := fun h =>
    List.count_pos_iff.mpr (h ▸ List.getElem_mem _)
  by_cases hij : i.toNat = j.toNat
  · simp only [hij, if_true, beq_iff_eq]
    split <;> rename_i h <;> [have := p2 h; skip] <;> omega
  · simp only [hij, if_false, beq_iff_eq]
    have p3 : d[i.toNat] = a → d[j.toNat] = a → 1 < List.count a d := by
      intro h h'
      have hd : (d.set i.toNat (a + 1)).count a = d.count a - 1 := by
        rw [List.count_set _ _ _ _ hi]; simp [h]
      have hm : a ∈ d.set i.toNat (a + 1) := by
        rw [List.mem_iff_getElem]
        exact ⟨j.toNat, by simpa using hj, by rw [List.getElem_set_ne hij]; exact h'⟩
      have := List.count_pos_iff.mpr hm
      omega
    by_cases h1 : d[i.toNat] = a <;> by_cases h2 : d[j.toNat] = a <;>
      simp only [h1, h2, if_true, if_false] <;>
      [have := p3 h1 h2; have := p1 h1; have := p2 h2; skip] <;> omega

theorem sortedCopy_sorted (data_ : List Int) : List.Sorted (· ≤ ·) (sortedCopy data_) := by
  unfold List.Sorted sortedCopy
  have := @List.sorted_mergeSort Int (fun a b : Int => decide (a ≤ b))
    (by intro a b c; simp only [decide_eq_true_eq]; exact le_trans)
    (by intro a b; simp only [Bool.or_eq_true, decide_eq_true_eq]; exact le_total a b) data_
  exact this.imp (by intro a b h; simpa using h)

theorem sortedCopy_perm (data_ : List Int) : (sortedCopy data_).Perm data_ :=
  List.mergeSort_perm data_ _

/-- A vector that is a permutation of the source and is non-decreasing along its
indices is the stable-sorted copy of the source. -/
theorem eq_sortedCopy (d d0 : List Int) (hperm : d.Perm d0)
    (hsorted : ∀ a b : Int, 0 ≤ a → a ≤ b → b < d.length → nth d a ≤ nth d b) :
    d = sortedCopy d0 := by
  have h1 : List.Sorted (· ≤ ·) d := by
    unfold List.Sorted
    rw [List.pairwise_iff_getElem]
    intro i j hi hj hij
    have := hsorted i j (by omega) (by omega) (by omega)
    rw [nth_eq_getElem d i hi, nth_eq_getElem d j hj] at this
    exact this
  exact List.eq_of_perm_of_sorted (hperm.trans (sortedCopy_perm d0).symm) h1
    (sortedCopy_sorted d0)



/-! ## Lemmas on `HeapSort` -/

theorem siftUp_swap (d : List Int) (cur father : Int) (hc0 : 0 ≤ cur) (hc1 : cur < d.length)
    (hf0 : 0 ≤ father) (hf1 : father < d.length) (h : nth d cur > nth d father) :
    HeapSort.siftUp (cur, father, d)
      = .ok (.inl (father, (father - 1).tdiv 2, swapAt d cur father)) := by
  simp only [HeapSort.siftUp, vecGet_ok d cur hc0 hc1, vecGet_ok d father hf0 hf1, bind,
    Except.bind, h, if_true, vecSwap_ok d cur father hc0 hc1 hf0 hf1, pure, Except.pure]

theorem siftUp_stop (d : List Int) (cur father : Int) (hc0 : 0 ≤ cur) (hc1 : cur < d.length)
    (hf0 : 0 ≤ father) (hf1 : father < d.length) (h : ¬ nth d cur > nth d father) :
    HeapSort.siftUp (cur, father, d) = .ok (.inr d) := by
  simp only [HeapSort.siftUp, vecGet_ok d cur hc0 hc1, vecGet_ok d father hf0 hf1, bind,
    Except.bind, h, if_false, pure, Except.pure]

/-- The parent index computed by `(currentIndex - 1) / 2` in C++. -/
theorem parent_tdiv (c : Int) (h : 0 ≤ c) :
    (c - 1).tdiv 2 = if c = 0 then 0 else (c - 1) / 2 := by
  by_cases hc : c = 0
  · subst hc; rfl
  · rw [if_neg hc, Int.tdiv_eq_ediv (by omega) (by decide)]

theorem siftUp_loop (d0 : List Int) (i : Int) (hi0 : 0 ≤ i) (hi1 : i < d0.length)
    (hheap : HeapOn d0 i) :
    ∃ d, loop HeapSort.siftUp (d0.length + 1) (i, (i - 1).tdiv 2, d0) = .ok d ∧
      (HeapOn d (i + 1) ∧ d.Perm d0 ∧ d.length = d0.length) := by
  apply loop_spec HeapSort.siftUp
    (fun s => 0 ≤ s.1 ∧ s.1 ≤ i ∧ s.2.1 = (s.1 - 1).tdiv 2 ∧ s.2.2.length = d0.length ∧
      s.2.2.Perm d0 ∧
      (∀ k : Int, 1 ≤ k → k ≤ i → k ≠ s.1 → nth s.2.2 k ≤ nth s.2.2 ((k - 1) / 2)) ∧
      (1 ≤ s.1 → ∀ k : Int, 1 ≤ k → k ≤ i → (k - 1) / 2 = s.1 →
        nth s.2.2 k ≤ nth s.2.2 ((s.1 - 1) / 2)))
    (fun d => HeapOn d (i + 1) ∧ d.Perm d0 ∧ d.length = d0.length)
    (fun s => s.1.toNat)
  · rintro ⟨cur, father, d⟩ ⟨hc0, hci, hf, hlen, hperm, hheap', hgp⟩
    simp only at hc0 hci hf hlen hperm hheap' hgp
    have hfa := parent_tdiv cur hc0
    rw [← hf] at hfa
    have hc1 : cur < d.length := by omega
    have hf0 : 0 ≤ father := by split at hfa <;> omega
    have hf1 : father < d.length := by split at hfa <;> omega
    by_cases hgt : nth d cur > nth d father
    · left
      have hcpos : 1 ≤ cur := by
        by_contra hneg
        have : cur = 0 := by omega
        subst this
        simp at hfa
        subst hfa
        omega
      have hfe : father = (cur - 1) / 2 := by rw [hfa, if_neg (by omega)]
      refine ⟨_, siftUp_swap d cur father hc0 hc1 hf0 hf1 hgt, ?_, ?_⟩
      · simp only
        refine ⟨hf0, by omega, trivial, by rw [length_swapAt]; exact hlen,
          (perm_swapAt d cur father hc0 hc1 hf0 hf1).trans hperm, ?_, ?_⟩
        · intro k hk1 hki hkf
          rw [nth_swapAt d cur father k hc0 hc1 hf0 hf1 (by omega),
            nth_swapAt d cur father ((k - 1) / 2) hc0 hc1 hf0 hf1 (by omega)]
          simp only [hkf, if_false]
          by_cases hkc : k = cur
          · subst hkc
            simp only [if_true]
            rw [if_pos hfe.symm]
            omega
          · simp only [hkc, if_false]
            have hk := hheap' k hk1 hki hkc
            by_cases hq : (k - 1) / 2 = father
            · rw [if_pos hq]
              rw [hq] at hk
              omega
            · rw [if_neg hq]
              by_cases hq2 : (k - 1) / 2 = cur
              · rw [if_pos hq2]
                have := hgp hcpos k hk1 hki hq2
                rw [← hfe] at this
                exact this
              · rw [if_neg hq2]; exact hk
        · intro hfpos k hk1 hki hkp
          have hpp0 : 0 ≤ (father - 1) / 2 := by omega
          rw [nth_swapAt d cur father k hc0 hc1 hf0 hf1 (by omega),
            nth_swapAt d cur father ((father - 1) / 2) hc0 hc1 hf0 hf1 hpp0]
          have hkf : k ≠ father := by omega
          have h1 : (father - 1) / 2 ≠ father := by omega
          have h2 : (father - 1) / 2 ≠ cur := by omega
          simp only [hkf, h1, h2, if_false]
          have hfh := hheap' father hfpos (by omega) (by omega)
          by_cases hkc : k = cur
          · rw [if_pos hkc]; exact hfh
          · rw [if_neg hkc]
            have hk := hheap' k hk1 hki hkc
            rw [hkp] at hk
            omega
      · simp only
        omega
    · right
      refine ⟨d, siftUp_stop d cur father hc0 hc1 hf0 hf1 hgt, ?_, hperm, hlen⟩
      intro k hk1 hki
      by_cases hkc : k = cur
      · subst hkc
        have hfe : father = (k - 1) / 2 := by rw [hfa, if_neg (by omega)]
        rw [← hfe]
        omega
      · exact hheap' k hk1 (by omega) hkc
  · simp only
    refine ⟨hi0, le_refl i, trivial, trivial, List.Perm.refl _, ?_, ?_⟩
    · intro k hk1 hki hne
      exact hheap k hk1 (by omega)
    · intro _ k hk1 hki hkp
      omega
  · simp only
    omega

theorem build_loop (d0 : List Int) :
    ∃ d, loop (HeapSort.build d0.length) (d0.length + 1) (0, d0) = .ok d ∧
      (HeapOn d d0.length ∧ d.Perm d0 ∧ d.length = d0.length) := by
  apply loop_spec (HeapSort.build d0.length)
    (fun s => 0 ≤ s.1 ∧ s.1 ≤ d0.length ∧ s.2.length = d0.length ∧ s.2.Perm d0 ∧ HeapOn s.2 s.1)
    (fun d => HeapOn d d0.length ∧ d.Perm d0 ∧ d.length = d0.length)
    (fun s => ((d0.length : Int) - s.1).toNat)
  · rintro ⟨i, d⟩ ⟨hi0, hi1, hlen, hperm, hheap⟩
    simp only at hi0 hi1 hlen hperm hheap
    by_cases hlt : i < d0.length
    · left
      obtain ⟨d', hrun, hh, hp, hl⟩ := siftUp_loop d i hi0 (by omega) hheap
      refine ⟨(i + 1, d'), ?_, ⟨by show 0 ≤ i + 1; omega, by show i + 1 ≤ _; omega,
        by show d'.length = _; omega, hp.trans hperm, hh⟩, ?_⟩
      · simp only [HeapSort.build, hlt, if_true, hrun, bind, Except.bind, pure, Except.pure]
      · simp only
        omega
    · right
      have hie : i = d0.length := by omega
      refine ⟨d, ?_, ?_, hperm, hlen⟩
      · simp only [HeapSort.build, hlt, if_false, pure, Except.pure]
      · rw [← hie]; exact hheap
  · exact ⟨le_refl _, by omega, rfl, List.Perm.refl _, fun k h1 h2 => by omega⟩
  · simp only
    omega

/-- The child of `idx` chosen by `sortFunc`. -/
theorem siftDown_eval (m : Int) (d : List Int) (idx : Int) (h0 : 0 ≤ idx)
    (hl : 2 * idx + 1 < m) (hm : m < d.length) :
    HeapSort.siftDown m (2 * idx + 1, 2 * idx + 2, idx, d) =
      (if idx = (if nth d idx >
            nth d (if (decide (nth d (2 * idx + 1) < nth d (2 * idx + 2)) &&
                decide (2 * idx + 2 < m)) = true then 2 * idx + 2 else 2 * idx + 1)
          then idx
          else (if (decide (nth d (2 * idx + 1) < nth d (2 * idx + 2)) &&
                decide (2 * idx + 2 < m)) = true then 2 * idx + 2 else 2 * idx + 1))
       then .ok (.inr d)
       else .ok (.inl
        (2 * (if (decide (nth d (2 * idx + 1) < nth d (2 * idx + 2)) &&
                decide (2 * idx + 2 < m)) = true then 2 * idx + 2 else 2 * idx + 1) + 1,
         2 * (if (decide (nth d (2 * idx + 1) < nth d (2 * idx + 2)) &&
                decide (2 * idx + 2 < m)) = true then 2 * idx + 2 else 2 * idx + 1) + 1 + 1,
         (if (decide (nth d (2 * idx + 1) < nth d (2 * idx + 2)) &&
                decide (2 * idx + 2 < m)) = true then 2 * idx + 2 else 2 * idx + 1),
         swapAt d idx (if (decide (nth d (2 * idx + 1) < nth d (2 * idx + 2)) &&
                decide (2 * idx + 2 < m)) = true then 2 * idx + 2 else 2 * idx + 1)))) := by
  have g1 := vecGet_ok d (2 * idx + 1) (by omega) (by omega)
  have g2 := vecGet_ok d (2 * idx + 2) (by omega) (by omega)
  have g3 := vecGet_ok d idx h0 (by omega)
  simp only [HeapSort.siftDown, hl, if_true, g1, g2, g3, bind, Except.bind, pure, Except.pure]
  by_cases hb : (decide (nth d (2 * idx + 1) < nth d (2 * idx + 2)) &&
      decide (2 * idx + 2 < m)) = true
  · simp only [hb, if_true, g2]
    by_cases hx : nth d idx > nth d (2 * idx + 2)
    · simp only [if_pos hx, if_true]
    · simp only [if_neg hx]
      have hne : idx ≠ 2 * idx + 2 := by omega
      simp only [hne, if_false]
      rw [vecSwap_ok d idx (2 * idx + 2) h0 (by omega) (by omega) (by omega)]
  · rw [Bool.not_eq_true] at hb
    simp only [hb, Bool.false_eq_true, if_false, g1]
    by_cases hx : nth d idx > nth d (2 * idx + 1)
    · simp only [if_pos hx, if_true]
    · simp only [if_neg hx]
      have hne : idx ≠ 2 * idx + 1 := by omega
      simp only [hne, if_false]
      rw [vecSwap_ok d idx (2 * idx + 1) h0 (by omega) (by omega) (by omega)]

theorem siftDown_exit (m : Int) (d : List Int) (left right idx : Int) (h : ¬ left < m) :
    HeapSort.siftDown m (left, right, idx, d) = .ok (.inr d) := by
  simp only [HeapSort.siftDown, h, if_false, pure, Except.pure]

theorem sortFunc_spec (d1 : List Int) (m : Int) (hm0 : 0 ≤ m) (hm : m < d1.length)
    (hheap : ∀ k : Int, 1 ≤ k → k < m → (k - 1) / 2 ≠ 0 → nth d1 k ≤ nth d1 ((k - 1) / 2)) :
    ∃ d, HeapSort.sortFunc d1 m = .ok d ∧
      (HeapOn d m ∧ d.Perm d1 ∧ d.length = d1.length ∧ (∀ k : Int, m ≤ k → nth d k = nth d1 k) ∧
        (∀ k : Int, 0 ≤ k → k < m → ∃ k' : Int, 0 ≤ k' ∧ k' < m ∧ nth d k = nth d1 k')) := by
  unfold HeapSort.sortFunc
  apply loop_spec (HeapSort.siftDown m)
    (fun s => 0 ≤ s.2.2.1 ∧ s.1 = 2 * s.2.2.1 + 1 ∧ s.2.1 = 2 * s.2.2.1 + 2 ∧
      s.2.2.2.length = d1.length ∧ s.2.2.2.Perm d1 ∧ s.2.2.1 ≤ m ∧
      (∀ k : Int, m ≤ k → 0 ≤ k → nth s.2.2.2 k = nth d1 k) ∧
      (∀ k : Int, 0 ≤ k → k < m → ∃ k' : Int, 0 ≤ k' ∧ k' < m ∧ nth s.2.2.2 k = nth d1 k') ∧
      (∀ k : Int, 1 ≤ k → k < m → (k - 1) / 2 ≠ s.2.2.1 →
        nth s.2.2.2 k ≤ nth s.2.2.2 ((k - 1) / 2)) ∧
      (1 ≤ s.2.2.1 → ∀ k : Int, 1 ≤ k → k < m → (k - 1) / 2 = s.2.2.1 →
        nth s.2.2.2 k ≤ nth s.2.2.2 ((s.2.2.1 - 1) / 2)))
    (fun d => HeapOn d m ∧ d.Perm d1 ∧ d.length = d1.length ∧
      (∀ k : Int, m ≤ k → nth d k = nth d1 k) ∧
      (∀ k : Int, 0 ≤ k → k < m → ∃ k' : Int, 0 ≤ k' ∧ k' < m ∧ nth d k = nth d1 k'))
    (fun s => (m + 1 - s.2.2.1).toNat)
  · rintro ⟨left, right, idx, d⟩ ⟨hidx0, hleft, hright, hlen, hperm, hidxm, hframe, hvals, hhe, hgp⟩
    simp only at hidx0 hleft hright hlen hperm hidxm hframe hvals hhe hgp
    subst hleft hright
    have hframe' : ∀ k : Int, m ≤ k → nth d k = nth d1 k := by
      intro k hk
      by_cases hk0 : 0 ≤ k
      · exact hframe k hk hk0
      · have e : k.toNat = 0 := by omega
        have hm0 : m ≤ 0 := by omega
        have := hframe 0 hm0 (le_refl 0)
        unfold nth at this ⊢
        rw [e]; exact this
    by_cases hl : 2 * idx + 1 < m
    · rw [siftDown_eval m d idx hidx0 hl (by omega)]
      have key : ∃ c0 : Int,
          (if (decide (nth d (2 * idx + 1) < nth d (2 * idx + 2)) &&
              decide (2 * idx + 2 < m)) = true then 2 * idx + 2 else 2 * idx + 1) = c0 ∧
          (c0 = 2 * idx + 1 ∨ c0 = 2 * idx + 2) ∧ c0 < m ∧
          (∀ k : Int, 1 ≤ k → k < m → (k - 1) / 2 = idx → nth d k ≤ nth d c0) := by
        by_cases hb : (decide (nth d (2 * idx + 1) < nth d (2 * idx + 2)) &&
            decide (2 * idx + 2 < m)) = true
        · refine ⟨2 * idx + 2, by rw [if_pos hb], Or.inr rfl, ?_, ?_⟩
          · simp only [Bool.and_eq_true, decide_eq_true_eq] at hb; exact hb.2
          · simp only [Bool.and_eq_true, decide_eq_true_eq] at hb
            intro k hk1 hkm hkp
            have hk : k = 2 * idx + 1 ∨ k = 2 * idx + 2 := by omega
            rcases hk with hk | hk <;> subst hk <;> omega
        · refine ⟨2 * idx + 1, by rw [if_neg hb], Or.inl rfl, hl, ?_⟩
          simp only [Bool.and_eq_true, decide_eq_true_eq, not_and] at hb
          intro k hk1 hkm hkp
          have hk : k = 2 * idx + 1 ∨ k = 2 * idx + 2 := by omega
          rcases hk with hk | hk
          · subst hk; omega
          · subst hk
            have := hb
            by_cases hlr : nth d (2 * idx + 1) < nth d (2 * idx + 2)
            · exact absurd hkm (hb hlr)
            · omega
      obtain ⟨c0, hc0eq, hc0, hc0m, hsib⟩ := key
      simp only [hc0eq]
      have hc0p : (c0 - 1) / 2 = idx := by omega
      have hc0gt : idx < c0 := by omega
      by_cases hx : nth d idx > nth d c0
      · right
        refine ⟨d, by simp only [if_pos hx, if_true], ?_, hperm, hlen, hframe', hvals⟩
        intro k hk1 hkm
        by_cases hkp : (k - 1) / 2 = idx
        · have := hsib k hk1 hkm hkp
          rw [hkp]; omega
        · exact hhe k hk1 hkm hkp
      · left
        have hne : idx ≠ c0 := by omega
        have hc1 : c0 < d.length := by omega
        have hi1 : idx < d.length := by omega
        refine ⟨(2 * c0 + 1, 2 * c0 + 1 + 1, c0, swapAt d idx c0),
          by simp only [if_neg hx, if_neg hne], ?_, ?_⟩
        · refine ⟨by show 0 ≤ c0; omega, rfl, by show 2 * c0 + 1 + 1 = 2 * c0 + 2; omega,
            by show (swapAt d idx c0).length = _; rw [length_swapAt]; exact hlen,
            (perm_swapAt d idx c0 hidx0 hi1 (by omega) hc1).trans hperm,
            by show c0 ≤ m; omega, ?_, ?_, ?_, ?_⟩
          · intro k hk hk0
            show nth (swapAt d idx c0) k = _
            rw [nth_swapAt d idx c0 k hidx0 hi1 (by omega) hc1 hk0, if_neg (by omega),
              if_neg (by omega)]
            exact hframe k hk hk0
          · intro k hk0 hkm
            show ∃ k' : Int, 0 ≤ k' ∧ k' < m ∧ nth (swapAt d idx c0) k = nth d1 k'
            rw [nth_swapAt d idx c0 k hidx0 hi1 (by omega) hc1 hk0]
            by_cases h1 : k = c0
            · rw [if_pos h1]; exact hvals idx hidx0 (by omega)
            · rw [if_neg h1]
              by_cases h2 : k = idx
              · rw [if_pos h2]; exact hvals c0 (by omega) hc0m
              · rw [if_neg h2]; exact hvals k hk0 hkm
          · intro k hk1 hkm hkp
            show nth (swapAt d idx c0) k ≤ nth (swapAt d idx c0) ((k - 1) / 2)
            rw [nth_swapAt d idx c0 k hidx0 hi1 (by omega) hc1 (by omega),
              nth_swapAt d idx c0 ((k - 1) / 2) hidx0 hi1 (by omega) hc1 (by omega)]
            rw [if_neg hkp]
            by_cases hq : (k - 1) / 2 = idx
            · rw [if_pos hq]
              have hs := hsib k hk1 hkm hq
              by_cases h1 : k = c0
              · rw [if_pos h1]; omega
              · rw [if_neg h1, if_neg (by omega)]; exact hs
            · rw [if_neg hq]
              have hkc : k ≠ c0 := by omega
              rw [if_neg hkc]
              by_cases h2 : k = idx
              · rw [if_pos h2]
                subst h2
                have hk1' : 1 ≤ k := hk1
                have := hgp hk1' c0 (by omega) hc0m hc0p
                exact this
              · rw [if_neg h2]; exact hhe k hk1 hkm hq
          · intro _ k hk1 hkm hkp
            have hkp : (k - 1) / 2 = c0 := hkp
            show nth (swapAt d idx c0) k ≤ nth (swapAt d idx c0) ((c0 - 1) / 2)
            rw [hc0p, nth_swapAt d idx c0 k hidx0 hi1 (by omega) hc1 (by omega),
              nth_swapAt d idx c0 idx hidx0 hi1 (by omega) hc1 hidx0]
            rw [if_neg (by omega), if_neg (by omega), if_neg hne, if_pos rfl]
            have := hhe k hk1 hkm (by omega)
            rw [hkp] at this
            exact this
        · show (m + 1 - c0).toNat < (m + 1 - idx).toNat
          omega
    · right
      refine ⟨d, siftDown_exit m d _ _ idx hl, ?_, hperm, hlen, hframe', hvals⟩
      intro k hk1 hkm
      exact hhe k hk1 hkm (by omega)
  · refine ⟨le_refl 0, rfl, rfl, rfl, List.Perm.refl _, ?_, fun k _ _ => rfl,
      fun k hk0 hkm => ⟨k, hk0, hkm, rfl⟩, hheap, ?_⟩
    · exact hm0
    · intro h
      simp at h
  · show (m + 1 - 0).toNat < d1.length + 1
    omega

theorem heap_root_max (d : List Int) (m : Int) (h : HeapOn d m) :
    ∀ (n : Nat) (k : Int), k.toNat = n → 0 ≤ k → k < m → nth d k ≤ nth d 0 := by
  intro n
  induction n using Nat.strong_induction_on with
  | _ n ih =>
    intro k hkn hk0 hkm
    by_cases hz : k = 0
    · subst hz; exact le_refl _
    · have h1 := h k (by omega) hkm
      have h2 := ih ((k - 1) / 2).toNat (by omega) ((k - 1) / 2) rfl (by omega) (by omega)
      omega

theorem extract_step (hs : Int) (d d1 : List Int) (h : hs > 1) (hs1 : hs ≤ d.length)
    (hd1 : HeapSort.sortFunc (swapAt d 0 (hs - 1)) (hs - 1) = .ok d1) :
    HeapSort.extract (hs, d) = .ok (.inl (hs - 1, d1)) := by
  simp only [HeapSort.extract, h, if_true,
    vecSwap_ok d 0 (hs - 1) (le_refl 0) (by omega) (by omega) (by omega), bind, Except.bind, hd1,
    pure, Except.pure]

theorem extract_loop (d0 : List Int) (hn : 1 ≤ d0.length) (hheap : HeapOn d0 d0.length) :
    ∃ d, loop HeapSort.extract (d0.length + 1) (d0.length, d0) = .ok d ∧
      (d.Perm d0 ∧
        ∀ a b : Int, 0 ≤ a → a ≤ b → b < d.length → nth d a ≤ nth d b) := by
  apply loop_spec HeapSort.extract
    (fun s => 1 ≤ s.1 ∧ s.1 ≤ d0.length ∧ s.2.length = d0.length ∧ s.2.Perm d0 ∧ HeapOn s.2 s.1 ∧
      (∀ a b : Int, s.1 ≤ a → a ≤ b → b < d0.length → nth s.2 a ≤ nth s.2 b) ∧
      (∀ a b : Int, 0 ≤ a → a < s.1 → s.1 ≤ b → b < d0.length → nth s.2 a ≤ nth s.2 b))
    (fun d => d.Perm d0 ∧ ∀ a b : Int, 0 ≤ a → a ≤ b → b < d.length → nth d a ≤ nth d b)
    (fun s => s.1.toNat)
  · rintro ⟨hs, d⟩ ⟨h1, h2, hlen, hperm, hheap', hsuf, hbound⟩
    simp only at h1 h2 hlen hperm hheap' hsuf hbound
    by_cases hgt : hs > 1
    · left
      have hl0 : (0 : Int) < d.length := by omega
      have hl1 : hs - 1 < d.length := by omega
      have hsw : ∀ k : Int, 0 ≤ k → nth (swapAt d 0 (hs - 1)) k =
          if k = hs - 1 then nth d 0 else if k = 0 then nth d (hs - 1) else nth d k :=
        fun k hk => nth_swapAt d 0 (hs - 1) k (le_refl 0) hl0 (by omega) hl1 hk
      have hmax := fun k hk0 hkm => heap_root_max d hs hheap' _ k rfl hk0 hkm
      obtain ⟨d2, hrun, hh2, hp2, hl2, hf2, hv2⟩ :=
        sortFunc_spec (swapAt d 0 (hs - 1)) (hs - 1) (by omega)
          (by rw [length_swapAt]; omega)
          (by
            intro k hk1 hkm hkp
            rw [hsw k (by omega), hsw ((k - 1) / 2) (by omega), if_neg (by omega),
              if_neg (by omega), if_neg (by omega), if_neg hkp]
            exact hheap' k hk1 (by omega))
      refine ⟨(hs - 1, d2), extract_step hs d d2 hgt (by omega) hrun,
        ⟨by show 1 ≤ hs - 1; omega, by show hs - 1 ≤ _; omega,
          by show d2.length = _; rw [hl2, length_swapAt]; exact hlen,
          hp2.trans ((perm_swapAt d 0 (hs - 1) (le_refl 0) hl0 (by omega) hl1).trans hperm),
          hh2, ?_, ?_⟩, ?_⟩
      · intro a b ha hab hb
        have ha : hs - 1 ≤ a := ha
        show nth d2 a ≤ nth d2 b
        have n1 : a ≠ 0 := by omega
        have n2 : b ≠ 0 := by omega
        rw [hf2 a ha, hf2 b (by omega), hsw a (by omega), hsw b (by omega), if_neg n1, if_neg n2]
        by_cases e1 : a = hs - 1
        · rw [if_pos e1]
          by_cases e2 : b = hs - 1
          · rw [if_pos e2]
          · rw [if_neg e2]
            exact hbound 0 b (le_refl 0) (by omega) (by omega) hb
        · have e2 : b ≠ hs - 1 := by omega
          rw [if_neg e1, if_neg e2]
          exact hsuf a b (by omega) hab hb
      · intro a b ha0 ha hb hbn
        have ha : a < hs - 1 := ha
        have hb : hs - 1 ≤ b := hb
        show nth d2 a ≤ nth d2 b
        obtain ⟨k', hk0, hkm, hk⟩ := hv2 a ha0 ha
        have n1 : k' ≠ hs - 1 := by omega
        have n2 : b ≠ 0 := by omega
        rw [hk, hf2 b hb, hsw k' hk0, hsw b (by omega), if_neg n1, if_neg n2]
        by_cases e2 : b = hs - 1
        · rw [if_pos e2]
          by_cases e3 : k' = 0
          · rw [if_pos e3]; exact hmax (hs - 1) (by omega) (by omega)
          · rw [if_neg e3]; exact hmax k' hk0 (by omega)
        · rw [if_neg e2]
          by_cases e3 : k' = 0
          · rw [if_pos e3]; exact hbound (hs - 1) b (by omega) (by omega) (by omega) hbn
          · rw [if_neg e3]; exact hbound k' b hk0 (by omega) (by omega) hbn
      · show (hs - 1).toNat < hs.toNat
        omega
    · right
      refine ⟨d, by simp only [HeapSort.extract, hgt, if_false, pure, Except.pure], hperm, ?_⟩
      intro a b ha0 hab hb
      rw [hlen] at hb
      by_cases ha : a < hs
      · by_cases hb' : b < hs
        · have : a = b := by omega
          subst this; exact le_refl _
        · exact hbound a b ha0 ha (by omega) hb
      · exact hsuf a b (by omega) hab hb
  · exact ⟨by show (1 : Int) ≤ d0.length; omega, le_refl _, rfl, List.Perm.refl _, hheap,
      fun a b h1 h2 h3 => by
      have h1 : (d0.length : Int) ≤ a := h1
      omega, fun a b h1 h2 h3 h4 => by
      have h3 : (d0.length : Int) ≤ b := h3
      omega⟩
  · show (d0.length : Int).toNat < d0.length + 1
    omega


/-! ## Lemmas on `QuickSort` -/

theorem shuffled_refl (l r : Int) (d : List Int) : Shuffled l r d d :=
  ⟨rfl, List.Perm.refl _, fun _ _ _ => rfl, fun k h1 h2 => ⟨k, h1, h2, rfl⟩⟩

theorem shuffled_trans {l r : Int} {d1 d2 d3 : List Int} (h : Shuffled l r d1 d2)
    (h' : Shuffled l r d2 d3) : Shuffled l r d1 d3 := by
  obtain ⟨a1, a2, a3, a4⟩ := h
  obtain ⟨b1, b2, b3, b4⟩ := h'
  refine ⟨b1.trans a1, b2.trans a2, fun k hk0 hk => (b3 k hk0 hk).trans (a3 k hk0 hk), ?_⟩
  intro k hk1 hk2
  obtain ⟨k', h1, h2, h3⟩ := b4 k hk1 hk2
  obtain ⟨k'', g1, g2, g3⟩ := a4 k' h1 h2
  exact ⟨k'', g1, g2, h3.trans g3⟩

theorem shuffled_mono {l r l' r' : Int} {d d' : List Int} (h : Shuffled l' r' d d')
    (hl0 : 0 ≤ l) (hl : l ≤ l') (hr : r' ≤ r) : Shuffled l r d d' := by
  obtain ⟨a1, a2, a3, a4⟩ := h
  refine ⟨a1, a2, fun k hk0 hk => a3 k hk0 (by omega), ?_⟩
  intro k hk1 hk2
  by_cases hin : l' ≤ k ∧ k ≤ r'
  · obtain ⟨k', h1, h2, h3⟩ := a4 k hin.1 hin.2
    exact ⟨k', by omega, by omega, h3⟩
  · exact ⟨k, hk1, hk2, a3 k (by omega) (by omega)⟩

theorem shuffled_swapAt (l r : Int) (d : List Int) (i j : Int) (hl0 : 0 ≤ l)
    (hr : r < d.length) (hi1 : l ≤ i) (hi2 : i ≤ r) (hj1 : l ≤ j) (hj2 : j ≤ r) :
    Shuffled l r d (swapAt d i j) := by
  have hs := fun k hk => nth_swapAt d i j k (by omega) (by omega) (by omega) (by omega) hk
  refine ⟨length_swapAt d i j, perm_swapAt d i j (by omega) (by omega) (by omega) (by omega),
    ?_, ?_⟩
  · intro k hk0 hk
    rw [hs k hk0, if_neg (by omega), if_neg (by omega)]
  · intro k hk1 hk2
    rw [hs k (by omega)]
    by_cases h1 : k = j
    · rw [if_pos h1]; exact ⟨i, hi1, hi2, rfl⟩
    · rw [if_neg h1]
      by_cases h2 : k = i
      · rw [if_pos h2]; exact ⟨j, hj1, hj2, rfl⟩
      · rw [if_neg h2]; exact ⟨k, hk1, hk2, rfl⟩

theorem scanDown_loop (d : List Int) (base i j0 : Int) (hi0 : 0 ≤ i) (hij : i ≤ j0)
    (hj : j0 < d.length) :
    ∃ j, loop (QuickSort.scanDown d base i) (d.length + 1) j0 = .ok j ∧
      (i ≤ j ∧ j ≤ j0 ∧ (∀ k : Int, j < k → k ≤ j0 → nth d k ≥ base) ∧
        (i < j → nth d j < base)) := by
  apply loop_spec (QuickSort.scanDown d base i)
    (fun j => i ≤ j ∧ j ≤ j0 ∧ ∀ k : Int, j < k → k ≤ j0 → nth d k ≥ base)
    (fun j => i ≤ j ∧ j ≤ j0 ∧ (∀ k : Int, j < k → k ≤ j0 → nth d k ≥ base) ∧
      (i < j → nth d j < base))
    (fun j => (j - i).toNat)
  · rintro j ⟨h1, h2, h3⟩
    by_cases hlt : i < j
    · have hg := vecGet_ok d j (by omega) (by omega)
      by_cases hge : nth d j ≥ base
      · left
        refine ⟨j - 1, ?_, ⟨by omega, by omega, ?_⟩, by omega⟩
        · simp only [QuickSort.scanDown, hlt, if_true, hg, bind, Except.bind, if_pos hge, pure,
            Except.pure]
        · intro k hk1 hk2
          by_cases hk : k = j
          · subst hk; exact hge
          · exact h3 k (by omega) hk2
      · right
        refine ⟨j, ?_, h1, h2, h3, fun _ => by omega⟩
        simp only [QuickSort.scanDown, hlt, if_true, hg, bind, Except.bind, if_neg hge, pure,
          Except.pure]
    · right
      refine ⟨j, ?_, h1, h2, h3, fun h => absurd h hlt⟩
      simp only [QuickSort.scanDown, hlt, if_false, pure, Except.pure]
  · exact ⟨hij, le_refl _, fun k h1 h2 => by omega⟩
  · show (j0 - i).toNat < d.length + 1
    omega

theorem scanUp_loop (d : List Int) (base j i0 : Int) (hi0 : 0 ≤ i0) (hij : i0 ≤ j)
    (hj : j < d.length) :
    ∃ i, loop (QuickSort.scanUp d base j) (d.length + 1) i0 = .ok i ∧
      (i0 ≤ i ∧ i ≤ j ∧ (∀ k : Int, i0 ≤ k → k < i → nth d k ≤ base) ∧
        (i < j → nth d i > base)) := by
  apply loop_spec (QuickSort.scanUp d base j)
    (fun i => i0 ≤ i ∧ i ≤ j ∧ ∀ k : Int, i0 ≤ k → k < i → nth d k ≤ base)
    (fun i => i0 ≤ i ∧ i ≤ j ∧ (∀ k : Int, i0 ≤ k → k < i → nth d k ≤ base) ∧
      (i < j → nth d i > base))
    (fun i => (j - i).toNat)
  · rintro i ⟨h1, h2, h3⟩
    by_cases hlt : i < j
    · have hg := vecGet_ok d i (by omega) (by omega)
      by_cases hle : nth d i ≤ base
      · left
        refine ⟨i + 1, ?_, ⟨by omega, by omega, ?_⟩, by omega⟩
        · simp only [QuickSort.scanUp, hlt, if_true, hg, bind, Except.bind, if_pos hle, pure,
            Except.pure]
        · intro k hk1 hk2
          by_cases hk : k = i
          · subst hk; exact hle
          · exact h3 k hk1 (by omega)
      · right
        refine ⟨i, ?_, h1, h2, h3, fun _ => by omega⟩
        simp only [QuickSort.scanUp, hlt, if_true, hg, bind, Except.bind, if_neg hle, pure,
          Except.pure]
    · right
      refine ⟨i, ?_, h1, h2, h3, fun h => absurd h hlt⟩
      simp only [QuickSort.scanUp, hlt, if_false, pure, Except.pure]
  · exact ⟨le_refl _, hij, fun k h1 h2 => by omega⟩
  · show (j - i0).toNat < d.length + 1
    omega

theorem partition_loop (d0 : List Int) (left right : Int) (h0 : 0 ≤ left) (hlr : left < right)
    (hr : right < d0.length) :
    ∃ r, loop (QuickSort.partition (nth d0 left)) (d0.length + 1) (left, right, d0) = .ok r ∧
      (left ≤ r.1 ∧ r.1 ≤ right ∧ Shuffled left right d0 r.2 ∧ nth r.2 left = nth d0 left ∧
        (∀ k : Int, left ≤ k → k ≤ r.1 → nth r.2 k ≤ nth d0 left) ∧
        (∀ k : Int, r.1 < k → k ≤ right → nth r.2 k ≥ nth d0 left)) := by
  apply loop_spec (QuickSort.partition (nth d0 left))
    (fun s => left ≤ s.1 ∧ s.1 ≤ s.2.1 ∧ s.2.1 ≤ right ∧ Shuffled left right d0 s.2.2 ∧
      nth s.2.2 left = nth d0 left ∧
      (∀ k : Int, left ≤ k → k ≤ s.1 → nth s.2.2 k ≤ nth d0 left) ∧
      (∀ k : Int, s.2.1 < k → k ≤ right → nth s.2.2 k ≥ nth d0 left))
    (fun r => left ≤ r.1 ∧ r.1 ≤ right ∧ Shuffled left right d0 r.2 ∧
      nth r.2 left = nth d0 left ∧
      (∀ k : Int, left ≤ k → k ≤ r.1 → nth r.2 k ≤ nth d0 left) ∧
      (∀ k : Int, r.1 < k → k ≤ right → nth r.2 k ≥ nth d0 left))
    (fun s => (s.2.1 - s.1).toNat)
  · rintro ⟨i, j, d⟩ ⟨h1, h2, h3, hsh, hbase, hlo, hhi⟩
    simp only at h1 h2 h3 hsh hbase hlo hhi
    have hlen : d.length = d0.length := hsh.1
    by_cases hlt : i < j
    · left
      obtain ⟨j', hrunj, hj1, hj2, hj3, hj4⟩ :=
        scanDown_loop d (nth d0 left) i j (by omega) (by omega) (by omega)
      obtain ⟨i', hruni, hi1, hi2, hi3, hi4⟩ :=
        scanUp_loop d (nth d0 left) j' i (by omega) hj1 (by omega)
      have hprog : i < i' ∨ j' < j := by
        by_contra hcon
        have e1 : i' = i := by omega
        have e2 : j' = j := by omega
        subst e1 e2
        have := hi4 hlt
        have := hlo i' h1 (le_refl _)
        omega
      by_cases hsw : i' < j'
      · have hi'gt : nth d i' > nth d0 left := hi4 hsw
        have hj'lt : nth d j' < nth d0 left := hj4 (by omega)
        have hi'ne : i' ≠ left := by
          intro e; rw [e, hbase] at hi'gt; omega
        have hs := fun k hk =>
          nth_swapAt d i' j' k (by omega) (by omega) (by omega) (by omega) hk
        refine ⟨(i', j', swapAt d i' j'), ?_, ⟨by show left ≤ i'; omega, by show i' ≤ j'; omega,
          by show j' ≤ right; omega,
          shuffled_trans hsh (shuffled_swapAt left right d i' j' h0 (by omega) (by omega)
            (by omega) (by omega) (by omega)), ?_, ?_, ?_⟩, ?_⟩
        · simp only [QuickSort.partition, hlt, if_true, hrunj, hruni, bind, Except.bind,
            if_pos hsw, vecSwap_ok d i' j' (by omega) (by omega) (by omega) (by omega), pure,
            Except.pure]
        · show nth (swapAt d i' j') left = _
          rw [hs left h0, if_neg (by omega), if_neg (by omega)]
          exact hbase
        · intro k hk1 hk2
          have hk2 : k ≤ i' := hk2
          show nth (swapAt d i' j') k ≤ _
          rw [hs k (by omega), if_neg (by omega)]
          by_cases e : k = i'
          · rw [if_pos e]; omega
          · rw [if_neg e]
            by_cases hki : k ≤ i
            · exact hlo k hk1 hki
            · exact hi3 k (by omega) (by omega)
        · intro k hk1 hk2
          have hk1 : j' < k := hk1
          show nth (swapAt d i' j') k ≥ _
          rw [hs k (by omega), if_neg (by omega), if_neg (by omega)]
          by_cases hkj : k ≤ j
          · exact hj3 k hk1 hkj
          · exact hhi k (by omega) hk2
        · show (j' - i').toNat < (j - i).toNat
          omega
      · refine ⟨(i', j', d), ?_, ⟨by show left ≤ i'; omega, by show i' ≤ j'; omega,
          by show j' ≤ right; omega, hsh, hbase, ?_, ?_⟩, ?_⟩
        · simp only [QuickSort.partition, hlt, if_true, hrunj, hruni, bind, Except.bind,
            if_neg hsw, pure, Except.pure]
        · intro k hk1 hk2
          have hk2 : k ≤ i' := hk2
          show nth d k ≤ _
          by_cases hki : k ≤ i
          · exact hlo k hk1 hki
          · by_cases e : k = i'
            · have e' : i' = j' := by omega
              have := hj4 (by omega)
              rw [e, e']; omega
            · exact hi3 k (by omega) (by omega)
        · intro k hk1 hk2
          have hk1 : j' < k := hk1
          show nth d k ≥ _
          by_cases hkj : k ≤ j
          · exact hj3 k hk1 hkj
          · exact hhi k (by omega) hk2
        · show (j' - i').toNat < (j - i).toNat
          omega
    · right
      refine ⟨(i, d), ?_, h1, by show i ≤ right; omega, hsh, hbase, hlo, ?_⟩
      · simp only [QuickSort.partition, hlt, if_false, pure, Except.pure]
      · intro k hk1 hk2
        exact hhi k (by have : i < k := hk1; omega) hk2
  · refine ⟨le_refl _, by show left ≤ right; omega, le_refl _, shuffled_refl _ _ _, rfl, ?_,
      fun k h1 h2 => by have h1 : right < k := h1; omega⟩
    intro k hk1 hk2
    have : k = left := by have hk2 : k ≤ left := hk2; omega
    subst this; exact le_refl _
  · show (right - left).toNat < d0.length + 1
    omega

/-- Two rearrangements of disjoint index ranges, one after the other. -/
theorem disjoint_compose (l1 r1 l2 r2 : Int) (d d' d'' : List Int) (hdis : r1 < l2 ∨ r2 < l1)
    (h01 : 0 ≤ l1) (h02 : 0 ≤ l2) (h1 : Shuffled l1 r1 d d') (h2 : Shuffled l2 r2 d' d'')
    (s1 : ∀ a b : Int, l1 ≤ a → a ≤ b → b ≤ r1 → nth d' a ≤ nth d' b) :
    (∀ a b : Int, l1 ≤ a → a ≤ b → b ≤ r1 → nth d'' a ≤ nth d'' b) ∧
    (∀ k : Int, l1 ≤ k → k ≤ r1 → ∃ k' : Int, l1 ≤ k' ∧ k' ≤ r1 ∧ nth d'' k = nth d k') ∧
    (∀ k : Int, l2 ≤ k → k ≤ r2 → ∃ k' : Int, l2 ≤ k' ∧ k' ≤ r2 ∧ nth d'' k = nth d k') ∧
    (∀ k : Int, 0 ≤ k → (k < l1 ∨ r1 < k) → (k < l2 ∨ r2 < k) → nth d'' k = nth d k) ∧
    d''.Perm d ∧ d''.length = d.length := by
  obtain ⟨a1, a2, a3, a4⟩ := h1
  obtain ⟨b1, b2, b3, b4⟩ := h2
  refine ⟨?_, ?_, ?_, ?_, b2.trans a2, b1.trans a1⟩
  · intro a b ha hab hb
    rw [b3 a (by omega) (by omega), b3 b (by omega) (by omega)]
    exact s1 a b ha hab hb
  · intro k hk1 hk2
    rw [b3 k (by omega) (by omega)]
    exact a4 k hk1 hk2
  · intro k hk1 hk2
    obtain ⟨k', g1, g2, g3⟩ := b4 k hk1 hk2
    exact ⟨k', g1, g2, g3.trans (a3 k' (by omega) (by omega))⟩
  · intro k hk0 hk1 hk2
    rw [b3 k hk0 hk2, a3 k hk0 hk1]

theorem quick_step_skip (left right : Int) (rest : List (Int × Int)) (d : List Int)
    (h : left ≥ right) : QuickSort.step ((left, right) :: rest, d) = .ok (.inl (rest, d)) := by
  simp only [QuickSort.step, h, if_true, pure, Except.pure]

theorem quick_step_split (left right : Int) (rest : List (Int × Int)) (d d1 : List Int) (i : Int)
    (h : ¬ left ≥ right) (h0 : 0 ≤ left) (hr : right < d.length) (hi1 : left ≤ i)
    (hi2 : i ≤ right) (hl : d1.length = d.length)
    (hp : loop (QuickSort.partition (nth d left)) (d.length + 1) (left, right, d) = .ok (i, d1)) :
    QuickSort.step ((left, right) :: rest, d) = .ok (.inl
      (if i - left < right - i then (left, i - 1) :: (i + 1, right) :: rest
        else (i + 1, right) :: (left, i - 1) :: rest, swapAt d1 i left)) := by
  simp only [QuickSort.step, h, if_false, vecGet_ok d left h0 (by omega), bind, Except.bind, hp,
    vecSwap_ok d1 i left (by omega) (by omega) (by omega) (by omega), pure, Except.pure]
  split <;> rfl

/-- The range `left .. right` is sorted once the pivot sits at `i` between a sorted
lower part that does not exceed it and a sorted upper part that is not below it. -/
theorem quick_assemble (left right i v : Int) (d d2 d3 : List Int) (h0 : 0 ≤ left)
    (hi1 : left ≤ i) (hi2 : i ≤ right) (hsh2 : Shuffled left right d d2)
    (hd2i : nth d2 i = v) (hd2lo : ∀ k : Int, left ≤ k → k < i → nth d2 k ≤ v)
    (hd2hi : ∀ k : Int, i < k → k ≤ right → nth d2 k ≥ v)
    (sA : ∀ a b : Int, left ≤ a → a ≤ b → b ≤ i - 1 → nth d3 a ≤ nth d3 b)
    (sB : ∀ a b : Int, i + 1 ≤ a → a ≤ b → b ≤ right → nth d3 a ≤ nth d3 b)
    (vA : ∀ k : Int, left ≤ k → k ≤ i - 1 →
      ∃ k' : Int, left ≤ k' ∧ k' ≤ i - 1 ∧ nth d3 k = nth d2 k')
    (vB : ∀ k : Int, i + 1 ≤ k → k ≤ right →
      ∃ k' : Int, i + 1 ≤ k' ∧ k' ≤ right ∧ nth d3 k = nth d2 k')
    (frame : ∀ k : Int, 0 ≤ k → (k < left ∨ i - 1 < k) → (k < i + 1 ∨ right < k) →
      nth d3 k = nth d2 k)
    (perm : d3.Perm d2) (len : d3.length = d2.length) :
    Shuffled left right d d3 ∧
      ∀ a b : Int, left ≤ a → a ≤ b → b ≤ right → nth d3 a ≤ nth d3 b := by
  have hi3 : nth d3 i = v := by
    rw [frame i (by omega) (by omega) (by omega)]; exact hd2i
  have lo3 : ∀ k : Int, left ≤ k → k < i → nth d3 k ≤ v := by
    intro k hk1 hk2
    obtain ⟨k', g1, g2, g3⟩ := vA k hk1 (by omega)
    rw [g3]; exact hd2lo k' g1 (by omega)
  have hi3' : ∀ k : Int, i < k → k ≤ right → nth d3 k ≥ v := by
    intro k hk1 hk2
    obtain ⟨k', g1, g2, g3⟩ := vB k (by omega) hk2
    rw [g3]; exact hd2hi k' (by omega) g2
  constructor
  · refine shuffled_trans hsh2 ⟨len, perm, fun k hk0 hk => frame k hk0 (by omega) (by omega), ?_⟩
    intro k hk1 hk2
    by_cases c1 : k ≤ i - 1
    · obtain ⟨k', g1, g2, g3⟩ := vA k hk1 c1
      exact ⟨k', g1, by omega, g3⟩
    · by_cases c2 : k = i
      · exact ⟨i, hi1, hi2, by rw [c2]; exact frame i (by omega) (by omega) (by omega)⟩
      · obtain ⟨k', g1, g2, g3⟩ := vB k (by omega) hk2
        exact ⟨k', by omega, g2, g3⟩
  · intro a b ha hab hb
    by_cases c1 : b ≤ i - 1
    · exact sA a b ha hab c1
    · by_cases c2 : i + 1 ≤ a
      · exact sB a b c2 hab hb
      · by_cases c3 : a = i
        · by_cases c4 : b = i
          · rw [c3, c4]
          · have := hi3' b (by omega) hb
            rw [c3, hi3]; exact this
        · have h1 := lo3 a ha (by omega)
          by_cases c4 : b = i
          · rw [c4, hi3]; exact h1
          · have := hi3' b (by omega) hb
            omega

theorem quick_range : ∀ (sz : Nat) (left right : Int) (rest : List (Int × Int)) (d : List Int),
    (right - left + 1).toNat = sz → (left < right → 0 ≤ left ∧ right < d.length) →
    ∃ (c : Nat) (d' : List Int), c ≤ 2 * sz + 1 ∧
      (∀ k, loop QuickSort.step (c + k) ((left, right) :: rest, d)
        = loop QuickSort.step k (rest, d')) ∧
      Shuffled left right d d' ∧
      (∀ a b : Int, left ≤ a → a ≤ b → b ≤ right → nth d' a ≤ nth d' b) := by
  intro sz
  induction sz using Nat.strong_induction_on with
  | _ sz ih =>
    intro left right rest d hsz hrange
    by_cases h : left ≥ right
    · refine ⟨1, d, by omega, ?_, shuffled_refl _ _ _, ?_⟩
      · intro k
        rw [Nat.add_comm]
        exact loop_continue _ _ _ k (quick_step_skip left right rest d h)
      · intro a b ha hab hb
        have : a = b := by omega
        subst this; exact le_refl _
    · obtain ⟨h0, hr⟩ := hrange (by omega)
      obtain ⟨⟨i, d1⟩, hp, hi1, hi2, hsh1, hbase1, hlo1, hhi1⟩ :=
        partition_loop d left right h0 (by omega) hr
      simp only at hp hi1 hi2 hsh1 hbase1 hlo1 hhi1
      have hlen1 : d1.length = d.length := hsh1.1
      have hstep := quick_step_split left right rest d d1 i h h0 hr hi1 hi2 hlen1 hp
      have hs := fun k hk =>
        nth_swapAt d1 i left k (by omega) (by omega) h0 (by omega) hk
      have hsh2 : Shuffled left right d (swapAt d1 i left) :=
        shuffled_trans hsh1 (shuffled_swapAt left right d1 i left h0 (by omega) hi1 hi2
          (le_refl _) (by omega))
      have hlen2 : (swapAt d1 i left).length = d.length := hsh2.1
      have hd2i : nth (swapAt d1 i left) i = nth d left := by
        rw [hs i (by omega)]
        by_cases e : i = left
        · rw [if_pos e, e]; exact hbase1
        · rw [if_neg e, if_pos rfl]; exact hbase1
      have hd2lo : ∀ k : Int, left ≤ k → k < i → nth (swapAt d1 i left) k ≤ nth d left := by
        intro k hk1 hk2
        rw [hs k (by omega)]
        by_cases e : k = left
        · rw [if_pos e]; exact hlo1 i hi1 (le_refl _)
        · rw [if_neg e, if_neg (by omega)]; exact hlo1 k hk1 (by omega)
      have hd2hi : ∀ k : Int, i < k → k ≤ right → nth (swapAt d1 i left) k ≥ nth d left := by
        intro k hk1 hk2
        rw [hs k (by omega), if_neg (by omega), if_neg (by omega)]
        exact hhi1 k hk1 hk2
      by_cases hord : i - left < right - i
      · rw [if_pos hord] at hstep
        obtain ⟨cA, dA, hcA, hA, hshA, hsA⟩ :=
          ih (i - 1 - left + 1).toNat (by omega) left (i - 1) ((i + 1, right) :: rest)
            (swapAt d1 i left) rfl (fun _ => ⟨h0, by omega⟩)
        obtain ⟨cB, dB, hcB, hB, hshB, hsB⟩ :=
          ih (right - (i + 1) + 1).toNat (by omega) (i + 1) right rest dA rfl
            (fun _ => ⟨by omega, by rw [hshA.1]; omega⟩)
        obtain ⟨t1, t2, t3, t4, t5, t6⟩ :=
          disjoint_compose left (i - 1) (i + 1) right _ dA dB (Or.inl (by omega)) h0 (by omega)
            hshA hshB hsA
        obtain ⟨r1, r2⟩ := quick_assemble left right i (nth d left) d _ dB h0 hi1 hi2 hsh2 hd2i
          hd2lo hd2hi t1 hsB t2 t3 t4 t5 t6
        refine ⟨cA + cB + 1, dB, by omega, ?_, r1, r2⟩
        intro k
        have e : cA + cB + 1 + k = (cA + (cB + k)) + 1 := by omega
        rw [e, loop_continue _ _ _ _ hstep, hA, hB]
      · rw [if_neg hord] at hstep
        obtain ⟨cB, dB, hcB, hB, hshB, hsB⟩ :=
          ih (right - (i + 1) + 1).toNat (by omega) (i + 1) right ((left, i - 1) :: rest)
            (swapAt d1 i left) rfl (fun _ => ⟨by omega, by omega⟩)
        obtain ⟨cA, dA, hcA, hA, hshA, hsA⟩ :=
          ih (i - 1 - left + 1).toNat (by omega) left (i - 1) rest dB rfl
            (fun _ => ⟨h0, by rw [hshB.1]; omega⟩)
        obtain ⟨t1, t2, t3, t4, t5, t6⟩ :=
          disjoint_compose (i + 1) right left (i - 1) _ dB dA (Or.inr (by omega)) (by omega) h0
            hshB hshA hsB
        obtain ⟨r1, r2⟩ := quick_assemble left right i (nth d left) d _ dA h0 hi1 hi2 hsh2 hd2i
          hd2lo hd2hi hsA t1 t3 t2 (fun k hk0 hk1 hk2 => t4 k hk0 hk2 hk1) t5 t6
        refine ⟨cB + cA + 1, dA, by omega, ?_, r1, r2⟩
        intro k
        have e : cB + cA + 1 + k = (cB + (cA + k)) + 1 := by omega
        rw [e, loop_continue _ _ _ _ hstep, hB, hA]


/-! ## Lemmas on `MergeSort` -/

theorem vecGet_mid (A B : List Int) (x : Int) (i : Int) (hi : i = A.length) :
    vecGet (A ++ x :: B) i = .ok x := by
  subst hi
  unfold vecGet
  rw [if_pos ⟨by omega, by simp⟩]
  simp only [Int.toNat_ofNat, List.getD_eq_getElem?_getD,
    List.getElem?_append_right (le_refl A.length), Nat.sub_self, List.getElem?_cons_zero,
    Option.getD_some]

theorem vecSet_mid (A B : List Int) (x v : Int) (i : Int) (hi : i = A.length) :
    vecSet (A ++ x :: B) i v = .ok (A ++ v :: B) := by
  subst hi
  unfold vecSet
  rw [if_pos ⟨by omega, by simp⟩]
  simp

theorem take_succ_getElem (L : List Int) (t : Nat) (h : t < L.length) :
    L.take (t + 1) = L.take t ++ [L[t]] := by
  rw [List.take_succ, List.getElem?_eq_getElem h]
  rfl

theorem fill_loop (pre L post dq : List Int) (left mid : Int) (hL : L.length ≤ dq.length)
    (hleft : left = pre.length) (hmid : mid = left + L.length - 1) :
    loop (MergeSort.fill (pre ++ L ++ post) left mid) ((pre ++ L ++ post).length + 1) (left, dq)
      = .ok (L ++ dq.drop L.length) := by
  have key : ∃ r, loop (MergeSort.fill (pre ++ L ++ post) left mid)
      ((pre ++ L ++ post).length + 1) (left, dq) = .ok r ∧ r = L ++ dq.drop L.length := by
    apply loop_spec (MergeSort.fill (pre ++ L ++ post) left mid)
      (fun s => ∃ t : Nat, t ≤ L.length ∧ s.1 = left + t ∧ s.2 = L.take t ++ dq.drop t)
      (fun r => r = L ++ dq.drop L.length)
      (fun s => (mid + 1 - s.1).toNat)
    · rintro ⟨i, q⟩ ⟨t, ht, hi, hq⟩
      simp only at hi hq
      by_cases hle : i ≤ mid
      · left
        have htl : t < L.length := by omega
        have htq : t < dq.length := by omega
        have e1 : pre ++ L ++ post = (pre ++ L.take t) ++ L[t] :: (L.drop (t + 1) ++ post) := by
          have hLt : L = L.take t ++ L[t] :: L.drop (t + 1) := by
            rw [List.getElem_cons_drop, List.take_append_drop]
          conv_lhs => rw [hLt]
          simp only [List.append_assoc, List.cons_append]
        have e2 : q = L.take t ++ dq[t] :: dq.drop (t + 1) := by
          rw [hq, List.drop_eq_getElem_cons htq]
        have g1 : vecGet (pre ++ L ++ post) i = .ok L[t] := by
          rw [e1]
          exact vecGet_mid _ _ _ _ (by simp; omega)
        have g2 : vecSet q (i - left) L[t] = .ok (L.take (t + 1) ++ dq.drop (t + 1)) := by
          rw [e2, vecSet_mid _ _ _ _ _ (by simp; omega), take_succ_getElem L t htl,
            List.append_assoc]
          rfl
        refine ⟨(i + 1, L.take (t + 1) ++ dq.drop (t + 1)), ?_, ⟨t + 1, by omega, ?_, rfl⟩, ?_⟩
        · simp only [MergeSort.fill, hle, if_true, g1, bind, Except.bind, g2, pure, Except.pure]
        · show i + 1 = left + ((t + 1 : Nat) : Int)
          omega
        · show (mid + 1 - (i + 1)).toNat < (mid + 1 - i).toNat
          omega
      · right
        have htl : t = L.length := by omega
        refine ⟨q, ?_, ?_⟩
        · simp only [MergeSort.fill, hle, if_false, pure, Except.pure]
        · rw [hq, htl, List.take_length]
    · exact ⟨0, Nat.zero_le _, by simp, by simp⟩
    · show (mid + 1 - left).toNat < (pre ++ L ++ post).length + 1
      simp only [List.length_append]
      omega
  obtain ⟨r, h1, h2⟩ := key
  rw [h1, h2]

theorem mergeState_init (pre L R post : List Int) :
    MergeState pre L R post 0 0 (pre ++ L ++ R ++ post) :=
  ⟨[], L, by simp, rfl, by simp, by simp⟩

/-- Placing the next element of the right run. -/
theorem mergeState_right (pre L R post d : List Int) (a b : Nat) (left : Int)
    (hleft : left = pre.length) (h : MergeState pre L R post a b d) (ha : a < R.length)
    (hb : b < L.length) (hlt : R[a] < L[b]) :
    vecGet d (left + L.length + a) = .ok R[a] ∧
    ∃ d', vecSet d (left + a + b) R[a] = .ok d' ∧ MergeState pre L R post (a + 1) b d' := by
  obtain ⟨M, G, hd, hM, hG, hmerge⟩ := h
  have hRd : R.drop a = R[a] :: R.drop (a + 1) := List.drop_eq_getElem_cons ha
  have hLd : L.drop b = L[b] :: L.drop (b + 1) := List.drop_eq_getElem_cons hb
  obtain ⟨g, G', hGe⟩ : ∃ g G', G = g :: G' := by
    cases G with
    | nil => simp at hG; omega
    | cons g G' => exact ⟨g, G', rfl⟩
  subst hGe
  have hG' : G'.length = L.length - b - 1 := by simp at hG; omega
  have e1 : d = (pre ++ M ++ g :: G') ++ R[a] :: (R.drop (a + 1) ++ post) := by
    rw [hd, hRd]; simp only [List.append_assoc, List.cons_append]
  have e2 : d = (pre ++ M) ++ g :: (G' ++ R.drop a ++ post) := by
    rw [hd]; simp only [List.append_assoc, List.cons_append]
  refine ⟨?_, pre ++ M ++ R[a] :: (G' ++ R.drop a ++ post), ?_, M ++ [R[a]], G' ++ [R[a]], ?_, ?_,
    ?_, ?_⟩
  · rw [e1]
    exact vecGet_mid _ _ _ _ (by simp only [List.length_append, List.length_cons]; omega)
  · rw [e2]
    exact vecSet_mid _ _ _ _ _ (by simp only [List.length_append]; omega)
  · rw [hRd]; simp only [List.append_assoc, List.cons_append, List.nil_append]
  · simp only [List.length_append, List.length_singleton]; omega
  · simp only [List.length_append, List.length_singleton]; omega
  · rw [← hmerge, hLd, hRd, List.cons_merge_cons]
    have : intLe L[b] R[a] = false := by
      unfold intLe; simp only [decide_eq_false_iff_not, not_le]; exact hlt
    rw [this]
    simp only [Bool.false_eq_true, if_false, List.append_assoc, List.singleton_append]

/-- Placing the next element of the left run, read from the scratch vector. -/
theorem mergeState_left (pre L R post d : List Int) (a b : Nat) (left : Int)
    (hleft : left = pre.length) (h : MergeState pre L R post a b d) (ha : a ≤ R.length)
    (hb : b < L.length) (hge : ∀ h' : a < R.length, ¬ R[a] < L[b]) :
    ∃ d', vecSet d (left + a + b) L[b] = .ok d' ∧ MergeState pre L R post a (b + 1) d' := by
  obtain ⟨M, G, hd, hM, hG, hmerge⟩ := h
  have hLd : L.drop b = L[b] :: L.drop (b + 1) := List.drop_eq_getElem_cons hb
  obtain ⟨g, G', hGe⟩ : ∃ g G', G = g :: G' := by
    cases G with
    | nil => simp at hG; omega
    | cons g G' => exact ⟨g, G', rfl⟩
  subst hGe
  have hG' : G'.length = L.length - b - 1 := by simp at hG; omega
  have e2 : d = (pre ++ M) ++ g :: (G' ++ R.drop a ++ post) := by
    rw [hd]; simp only [List.append_assoc, List.cons_append]
  refine ⟨pre ++ M ++ L[b] :: (G' ++ R.drop a ++ post), ?_, M ++ [L[b]], G', ?_, ?_, ?_, ?_⟩
  · rw [e2]
    exact vecSet_mid _ _ _ _ _ (by simp only [List.length_append]; omega)
  · simp only [List.append_assoc, List.cons_append, List.nil_append]
  · simp only [List.length_append, List.length_singleton]; omega
  · omega
  · rw [← hmerge, hLd]
    by_cases ha' : a < R.length
    · have hRd : R.drop a = R[a] :: R.drop (a + 1) := List.drop_eq_getElem_cons ha'
      rw [hRd, List.cons_merge_cons]
      have : intLe L[b] R[a] = true := by
        unfold intLe; simp only [decide_eq_true_eq]; have := hge ha'; omega
      rw [this]
      simp only [if_true, List.append_assoc, List.singleton_append]
    · have : R.drop a = [] := List.drop_eq_nil_of_le (by omega)
      rw [this, List.merge_right, List.merge_right]
      simp only [List.append_assoc, List.singleton_append]

/-- When the left run is used up the merged range is complete. -/
theorem mergeState_done (pre L R post d : List Int) (a : Nat)
    (h : MergeState pre L R post a L.length d) : d = pre ++ List.merge L R intLe ++ post := by
  obtain ⟨M, G, hd, hM, hG, hmerge⟩ := h
  have hG0 : G = [] := List.eq_nil_of_length_eq_zero (by omega)
  rw [List.drop_length, List.nil_merge] at hmerge
  rw [hd, hG0, ← hmerge]
  simp only [List.append_assoc, List.nil_append]

theorem mergeState_length (pre L R post d : List Int) (a b : Nat)
    (h : MergeState pre L R post a b d) (ha : a ≤ R.length) (hb : b ≤ L.length) :
    d.length = (pre ++ L ++ R ++ post).length := by
  obtain ⟨M, G, hd, hM, hG, _⟩ := h
  rw [hd]
  simp only [List.length_append, List.length_drop]
  omega

theorem queue_get (L junk : List Int) (b : Nat) (hb : b < L.length) (qi : Int) (hq : qi = b) :
    vecGet (L ++ junk) qi = .ok L[b] := by
  have e : L ++ junk = L.take b ++ L[b] :: (L.drop (b + 1) ++ junk) := by
    have hLt : L = L.take b ++ L[b] :: L.drop (b + 1) := by
      rw [List.getElem_cons_drop, List.take_append_drop]
    conv_lhs => rw [hLt]
    simp only [List.append_assoc, List.cons_append]
  rw [e]
  exact vecGet_mid _ _ _ _ (by simp only [List.length_take]; omega)

theorem merge_loop (pre L R post junk : List Int) (left right queueSize di0 : Int) (fuel : Nat)
    (hleft : left = pre.length) (hright : right = left + L.length + R.length - 1)
    (hqs : queueSize = L.length - 1) (hdi : di0 = left + L.length)
    (hfuel : L.length + R.length < fuel) :
    ∃ r, loop (MergeSort.merge (L ++ junk) right queueSize) fuel
        (di0, 0, left, pre ++ L ++ R ++ post) = .ok r ∧
      (∃ a b : Nat, a ≤ R.length ∧ b ≤ L.length ∧ (a = R.length ∨ b = L.length) ∧ r.1 = b ∧
        r.2.1 = left + a + b ∧ MergeState pre L R post a b r.2.2) := by
  apply loop_spec (MergeSort.merge (L ++ junk) right queueSize)
    (fun s => ∃ a b : Nat, a ≤ R.length ∧ b ≤ L.length ∧ s.1 = left + L.length + a ∧
      s.2.1 = b ∧ s.2.2.1 = left + a + b ∧ MergeState pre L R post a b s.2.2.2)
    (fun r => ∃ a b : Nat, a ≤ R.length ∧ b ≤ L.length ∧ (a = R.length ∨ b = L.length) ∧
      r.1 = b ∧ r.2.1 = left + a + b ∧ MergeState pre L R post a b r.2.2)
    (fun s => (right + 1 - s.1).toNat + (queueSize + 1 - s.2.1).toNat)
  · rintro ⟨di, qi, ti, d⟩ ⟨a, b, ha, hb, hdi', hqi, hti, hst⟩
    simp only at hdi' hqi hti hst
    by_cases hcond : (decide (di ≤ right) && decide (qi ≤ queueSize)) = true
    · left
      have hc := hcond
      simp only [Bool.and_eq_true, decide_eq_true_eq] at hc
      have ha' : a < R.length := by omega
      have hb' : b < L.length := by omega
      have gq := queue_get L junk b hb' qi hqi
      by_cases hlt : R[a] < L[b]
      · obtain ⟨g1, d', g2, hst'⟩ := mergeState_right pre L R post d a b left hleft hst ha' hb' hlt
        rw [← hdi'] at g1
        rw [← hti] at g2
        refine ⟨(di + 1, qi, ti + 1, d'), ?_, ⟨a + 1, b, by omega, hb, ?_, hqi, ?_, hst'⟩, ?_⟩
        · simp only [MergeSort.merge, hcond, if_true, g1, gq, bind, Except.bind, if_pos hlt, g2,
            pure, Except.pure]
        · show di + 1 = left + L.length + ((a + 1 : Nat) : Int)
          omega
        · show ti + 1 = left + ((a + 1 : Nat) : Int) + b
          omega
        · show (right + 1 - (di + 1)).toNat + (queueSize + 1 - qi).toNat
            < (right + 1 - di).toNat + (queueSize + 1 - qi).toNat
          omega
      · have g1 : vecGet d di = .ok R[a] := by
          obtain ⟨M, G, hd, hM, hG, _⟩ := hst
          have hRd : R.drop a = R[a] :: R.drop (a + 1) := List.drop_eq_getElem_cons ha'
          have e1 : d = (pre ++ M ++ G) ++ R[a] :: (R.drop (a + 1) ++ post) := by
            rw [hd, hRd]; simp only [List.append_assoc, List.cons_append]
          rw [e1]
          exact vecGet_mid _ _ _ _ (by simp only [List.length_append]; omega)
        obtain ⟨d', g2, hst'⟩ := mergeState_left pre L R post d a b left hleft hst ha hb'
          (fun _ => hlt)
        rw [← hti] at g2
        refine ⟨(di, qi + 1, ti + 1, d'), ?_, ⟨a, b + 1, ha, by omega, hdi', ?_, ?_, hst'⟩, ?_⟩
        · simp only [MergeSort.merge, hcond, if_true, g1, gq, bind, Except.bind, if_neg hlt, g2,
            pure, Except.pure]
        · show qi + 1 = ((b + 1 : Nat) : Int)
          omega
        · show ti + 1 = left + a + ((b + 1 : Nat) : Int)
          omega
        · show (right + 1 - di).toNat + (queueSize + 1 - (qi + 1)).toNat
            < (right + 1 - di).toNat + (queueSize + 1 - qi).toNat
          omega
    · right
      refine ⟨(qi, ti, d), ?_, a, b, ha, hb, ?_, hqi, hti, hst⟩
      · rw [Bool.not_eq_true] at hcond
        simp only [MergeSort.merge, hcond, Bool.false_eq_true, if_false, pure, Except.pure]
      · simp only [Bool.and_eq_true, decide_eq_true_eq, not_and, not_le] at hcond
        by_cases h1 : di ≤ right
        · have := hcond h1; right; omega
        · left; omega
  · exact ⟨0, 0, Nat.zero_le _, Nat.zero_le _, by simp [hdi], rfl, by simp,
      mergeState_init pre L R post⟩
  · show (right + 1 - di0).toNat + (queueSize + 1 - 0).toNat < fuel
    omega

theorem drain_loop (pre L R post junk : List Int) (left queueSize : Int) (fuel : Nat)
    (hleft : left = pre.length) (hqs : queueSize = L.length - 1) (hfuel : L.length < fuel)
    (qi ti : Int) (d : List Int) (a b : Nat) (ha : a ≤ R.length) (hb : b ≤ L.length)
    (hab : a = R.length ∨ b = L.length) (hqi : qi = b) (hti : ti = left + a + b)
    (hst : MergeState pre L R post a b d) :
    loop (MergeSort.drain (L ++ junk) queueSize) fuel (qi, ti, d)
      = .ok (pre ++ List.merge L R intLe ++ post) := by
  have key : ∃ r, loop (MergeSort.drain (L ++ junk) queueSize) fuel (qi, ti, d) = .ok r ∧
      r = pre ++ List.merge L R intLe ++ post := by
    apply loop_spec (MergeSort.drain (L ++ junk) queueSize)
      (fun s => ∃ b' : Nat, b' ≤ L.length ∧ (a = R.length ∨ b' = L.length) ∧ s.1 = b' ∧
        s.2.1 = left + a + b' ∧ MergeState pre L R post a b' s.2.2)
      (fun r => r = pre ++ List.merge L R intLe ++ post)
      (fun s => (queueSize + 1 - s.1).toNat)
    · rintro ⟨qi', ti', d'⟩ ⟨b', hb', hab', hqi', hti', hst'⟩
      simp only at hqi' hti' hst'
      by_cases hcond : qi' ≤ queueSize
      · left
        have hbl : b' < L.length := by omega
        have haR : a = R.length := by omega
        have gq := queue_get L junk b' hbl qi' hqi'
        obtain ⟨d'', g2, hst''⟩ := mergeState_left pre L R post d' a b' left hleft hst' ha hbl
          (fun h => absurd h (by omega))
        rw [← hti'] at g2
        refine ⟨(qi' + 1, ti' + 1, d''), ?_, ⟨b' + 1, by omega, Or.inl haR, ?_, ?_, hst''⟩, ?_⟩
        · simp only [MergeSort.drain, hcond, if_true, gq, bind, Except.bind, g2, pure,
            Except.pure]
        · show qi' + 1 = ((b' + 1 : Nat) : Int)
          omega
        · show ti' + 1 = left + a + ((b' + 1 : Nat) : Int)
          omega
        · show (queueSize + 1 - (qi' + 1)).toNat < (queueSize + 1 - qi').toNat
          omega
      · right
        have hbl : b' = L.length := by omega
        subst hbl
        exact ⟨d', by simp only [MergeSort.drain, hcond, if_false, pure, Except.pure],
          mergeState_done pre L R post d' a hst'⟩
    · exact ⟨b, hb, hab, hqi, hti, hst⟩
    · show (queueSize + 1 - qi).toNat < fuel
      omega
  obtain ⟨r, h1, h2⟩ := key
  rw [h1, h2]

theorem merge_step_skip (left right : Int) (p : Bool) (rest : List MergeSort.stackItem)
    (d dq : List Int) (h : left ≥ right) :
    MergeSort.step (⟨left, right, p⟩ :: rest, d, dq) = .ok (.inl (rest, d, dq)) := by
  simp only [MergeSort.step, h, if_true, pure, Except.pure]

theorem merge_step_push (left right : Int) (rest : List MergeSort.stackItem)
    (d dq : List Int) (h : ¬ left ≥ right) :
    MergeSort.step (⟨left, right, false⟩ :: rest, d, dq) = .ok (.inl
      (⟨left, left + (right - left).tdiv 2, false⟩ ::
        ⟨left + (right - left).tdiv 2 + 1, right, false⟩ :: ⟨left, right, true⟩ :: rest, d, dq)) := by
  simp only [MergeSort.step, h, if_false, Bool.not_false, if_true, pure, Except.pure]

theorem merge_step_merge (pre L R post dq : List Int) (left right : Int)
    (rest : List MergeSort.stackItem) (hleft : left = pre.length)
    (hright : right = left + L.length + R.length - 1) (hR : 1 ≤ R.length) (hL1 : 1 ≤ L.length)
    (hL : (L.length : Int) = (right - left).tdiv 2 + 1) (hq : L.length ≤ dq.length) :
    MergeSort.step (⟨left, right, true⟩ :: rest, pre ++ L ++ R ++ post, dq) = .ok (.inl
      (rest, pre ++ List.merge L R intLe ++ post, L ++ dq.drop L.length)) := by
  have h : ¬ left ≥ right := by omega
  have hfill := fill_loop pre L (R ++ post) dq left (left + (right - left).tdiv 2) hq hleft
    (by omega)
  have e : pre ++ L ++ (R ++ post) = pre ++ L ++ R ++ post := by
    simp only [List.append_assoc]
  rw [e] at hfill
  obtain ⟨⟨qi, ti, d1⟩, hmerge, a, b, ha, hb, hab, hqi, hti, hst⟩ :=
    merge_loop pre L R post (dq.drop L.length) left right
      (left + (right - left).tdiv 2 - left) (left + (right - left).tdiv 2 + 1)
      ((pre ++ L ++ R ++ post).length + 1) hleft hright (by omega) (by omega)
      (by simp only [List.length_append]; omega)
  have hdrain := drain_loop pre L R post (dq.drop L.length) left
    (left + (right - left).tdiv 2 - left) ((pre ++ L ++ R ++ post).length + 1) hleft (by omega)
    (by simp only [List.length_append]; omega) qi ti d1 a b ha hb hab hqi hti hst
  simp only [MergeSort.step, h, if_false, Bool.not_true, Bool.false_eq_true, hfill, bind,
    Except.bind, hmerge, hdrain, pure, Except.pure]

theorem intLe_trans (a b c : Int) : intLe a b = true → intLe b c = true → intLe a c = true := by
  unfold intLe; simp only [decide_eq_true_eq]; exact le_trans

theorem intLe_total (a b : Int) : (intLe a b || intLe b a) = true := by
  unfold intLe; simp only [Bool.or_eq_true, decide_eq_true_eq]; exact le_total a b

theorem merge_range : ∀ (sz : Nat) (pre seg post : List Int) (rest : List MergeSort.stackItem)
    (dq : List Int), seg.length = sz → 1 ≤ sz → sz + 1 ≤ 2 * dq.length →
    ∃ (c : Nat) (seg' dq' : List Int), c + 2 ≤ 3 * sz ∧
      (∀ k, loop MergeSort.step (c + k)
          (⟨pre.length, (pre.length : Int) + sz - 1, false⟩ :: rest, pre ++ seg ++ post, dq)
        = loop MergeSort.step k (rest, pre ++ seg' ++ post, dq')) ∧
      seg'.Perm seg ∧ List.Pairwise (fun a b => intLe a b = true) seg' ∧
      dq'.length = dq.length := by
  intro sz
  induction sz using Nat.strong_induction_on with
  | _ sz ih =>
    intro pre seg post rest dq hsz h1 hdq
    by_cases hone : sz = 1
    · subst hone
      refine ⟨1, seg, dq, by omega, ?_, List.Perm.refl _, ?_, rfl⟩
      · intro k
        rw [Nat.add_comm]
        exact loop_continue _ _ _ k (merge_step_skip _ _ _ rest _ dq (by omega))
      · match seg, hsz with
        | [x], _ => exact List.pairwise_singleton _ _
    · have hmid : ((pre.length : Int) + sz - 1 - pre.length).tdiv 2 = (((sz - 1) / 2 : Nat) : Int) := by
        rw [Int.tdiv_eq_ediv (by omega) (by decide)]
        omega
      have hp1 : (sz - 1) / 2 + 1 < sz := by omega
      have hlenL : (seg.take ((sz - 1) / 2 + 1)).length = (sz - 1) / 2 + 1 := by
        rw [List.length_take]; omega
      have hlenR : (seg.drop ((sz - 1) / 2 + 1)).length = sz - ((sz - 1) / 2 + 1) := by
        rw [List.length_drop]; omega
      have hpush := merge_step_push pre.length ((pre.length : Int) + sz - 1) rest
        (pre ++ seg ++ post) dq (by omega)
      rw [hmid] at hpush
      obtain ⟨cL, L', dq1, hcL, hrunL, hpermL, hsortL, hdq1⟩ :=
        ih ((sz - 1) / 2 + 1) hp1 pre (seg.take ((sz - 1) / 2 + 1))
          (seg.drop ((sz - 1) / 2 + 1) ++ post)
          (⟨(pre.length : Int) + ((sz - 1) / 2 : Nat) + 1, (pre.length : Int) + sz - 1, false⟩ ::
            ⟨pre.length, (pre.length : Int) + sz - 1, true⟩ :: rest) dq hlenL (by omega) (by omega)
      have hL'len : L'.length = (sz - 1) / 2 + 1 := by rw [hpermL.length_eq, hlenL]
      obtain ⟨cR, R', dq2, hcR, hrunR, hpermR, hsortR, hdq2⟩ :=
        ih (sz - ((sz - 1) / 2 + 1)) (by omega) (pre ++ L') (seg.drop ((sz - 1) / 2 + 1)) post
          (⟨pre.length, (pre.length : Int) + sz - 1, true⟩ :: rest) dq1 hlenR (by omega)
          (by omega)
      have hR'len : R'.length = sz - ((sz - 1) / 2 + 1) := by rw [hpermR.length_eq, hlenR]
      have hmerge := merge_step_merge pre L' R' post dq2 pre.length ((pre.length : Int) + sz - 1)
        rest rfl (by rw [hL'len, hR'len]; omega) (by omega) (by omega)
        (by rw [hmid, hL'len]; omega)
        (by omega)
      refine ⟨cL + cR + 2, List.merge L' R' intLe, L' ++ dq2.drop L'.length, by omega, ?_, ?_, ?_,
        ?_⟩
      · intro k
        have e : cL + cR + 2 + k = (cL + (cR + (k + 1))) + 1 := by omega
        have d1 : pre ++ seg ++ post
            = pre ++ seg.take ((sz - 1) / 2 + 1) ++ (seg.drop ((sz - 1) / 2 + 1) ++ post) := by
          conv_lhs => rw [← List.take_append_drop ((sz - 1) / 2 + 1) seg]
          simp only [List.append_assoc]
        have i1 : (pre.length : Int) + ((sz - 1) / 2 + 1 : Nat) - 1
            = (pre.length : Int) + ((sz - 1) / 2 : Nat) := by omega
        have i2 : (((pre ++ L').length : Nat) : Int) = (pre.length : Int) + ((sz - 1) / 2 : Nat) + 1 := by
          simp only [List.length_append]; omega
        have i3 : (((pre ++ L').length : Nat) : Int) + ((sz - ((sz - 1) / 2 + 1) : Nat) : Int) - 1
            = (pre.length : Int) + sz - 1 := by
          simp only [List.length_append]; omega
        rw [i1] at hrunL
        rw [i3, i2] at hrunR
        rw [e, loop_continue _ _ _ _ hpush, d1, hrunL]
        have d2 : pre ++ L' ++ (seg.drop ((sz - 1) / 2 + 1) ++ post)
            = pre ++ L' ++ seg.drop ((sz - 1) / 2 + 1) ++ post := by
          simp only [List.append_assoc]
        rw [d2, hrunR, loop_continue _ _ _ _ hmerge]
      · refine (List.merge_perm_append intLe).trans ?_
        refine (hpermL.append hpermR).trans ?_
        rw [List.take_append_drop]
      · exact List.sorted_merge intLe_trans intLe_total L' R' hsortL hsortR
      · simp only [List.length_append, List.length_drop]
        omega

/-! ## Lemmas on `StoogeSort` -/

theorem slice_length (d : List Int) (l r : Int) (h0 : 0 ≤ l) (hr : r < d.length) :
    (slice d l r).length = (r + 1 - l).toNat := by
  unfold slice
  rw [List.length_take, List.length_drop]
  omega

theorem nth_slice (d : List Int) (l r t : Int) (h0 : 0 ≤ l) (ht0 : 0 ≤ t)
    (ht : l + t ≤ r) : nth (slice d l r) t = nth d (l + t) := by
  unfold nth slice
  rw [List.getD_eq_getElem?_getD, List.getD_eq_getElem?_getD, List.getElem?_take_of_lt (by omega),
    List.getElem?_drop]
  congr 2
  omega

theorem slice_split (d : List Int) (l r : Int) (h0 : 0 ≤ l) (hlr : l ≤ r + 1) :
    d = d.take l.toNat ++ slice d l r ++ d.drop (r + 1).toNat := by
  unfold slice
  have e : (r + 1).toNat = l.toNat + (r + 1 - l).toNat := by omega
  rw [e, ← List.drop_drop, List.append_assoc, List.take_append_drop, List.take_append_drop]

theorem shuffled_slice (l r : Int) (d d' : List Int) (h : Shuffled l r d d') (h0 : 0 ≤ l)
    (hlr : l ≤ r + 1) : (slice d' l r).Perm (slice d l r) := by
  obtain ⟨hlen, hperm, hout, -⟩ := h
  have e1 : d'.take l.toNat = d.take l.toNat := by
    apply List.ext_getElem?
    intro n
    by_cases hn : n < l.toNat
    · rw [List.getElem?_take_of_lt hn, List.getElem?_take_of_lt hn]
      have := hout n (by omega) (Or.inl (by omega))
      unfold nth at this
      simp only [Int.toNat_ofNat, List.getD_eq_getElem?_getD] at this
      by_cases hnl : n < d.length
      · rw [List.getElem?_eq_getElem hnl, List.getElem?_eq_getElem (by omega)] at this ⊢
        simpa using this
      · rw [List.getElem?_eq_none (by omega), List.getElem?_eq_none (by omega)]
    · rw [List.getElem?_eq_none (by rw [List.length_take]; omega),
        List.getElem?_eq_none (by rw [List.length_take]; omega)]
  have e2 : d'.drop (r + 1).toNat = d.drop (r + 1).toNat := by
    apply List.ext_getElem?
    intro n
    rw [List.getElem?_drop, List.getElem?_drop]
    have := hout ((r + 1).toNat + n : Nat) (by omega) (Or.inr (by omega))
    unfold nth at this
    simp only [Int.toNat_ofNat, List.getD_eq_getElem?_getD] at this
    by_cases hnl : (r + 1).toNat + n < d.length
    · rw [List.getElem?_eq_getElem hnl, List.getElem?_eq_getElem (by omega)] at this ⊢
      simpa using this
    · rw [List.getElem?_eq_none (by omega), List.getElem?_eq_none (by omega)]
  have s1 := slice_split d l r h0 hlr
  have s2 := slice_split d' l r h0 hlr
  rw [s1, s2, e1, e2] at hperm
  exact (List.perm_append_left_iff _).mp ((List.perm_append_right_iff _).mp hperm)


/-- After sorting, the last positions of a vector hold elements at least `e` when
enough elements at least `e` went in. -/
theorem top_after_sort (X Y : List Int) (e : Int) (m : Int) (hperm : Y.Perm X)
    (hsorted : ∀ a b : Int, 0 ≤ a → a ≤ b → b < Y.length → nth Y a ≤ nth Y b)
    (hX : ∀ t : Int, 0 ≤ t → t < m → e ≤ nth X t) (hm0 : 0 ≤ m) (hm : m ≤ X.length) :
    ∀ t : Int, X.length - m ≤ t → t < X.length → e ≤ nth Y t := by
  intro t ht1 ht2
  by_contra hcon
  have hlen : Y.length = X.length := hperm.length_eq
  have hY : ∀ a : Int, 0 ≤ a → a ≤ t → nth Y a < e := by
    intro a ha0 hat
    have := hsorted a t ha0 hat (by omega)
    omega
  have c1 : (t + 1).toNat ≤ Y.countP (fun x => decide (x < e)) := by
    have hsplit := List.take_append_drop (t + 1).toNat Y
    rw [← hsplit, List.countP_append]
    have : (Y.take (t + 1).toNat).countP (fun x => decide (x < e))
        = (Y.take (t + 1).toNat).length := by
      rw [List.countP_eq_length]
      intro a ha
      obtain ⟨n, hn, rfl⟩ := List.mem_iff_getElem.mp ha
      rw [List.length_take] at hn
      rw [List.getElem_take]
      have := hY n (by omega) (by omega)
      rw [nth_eq_getElem Y n (by omega)] at this
      simpa using this
    rw [this, List.length_take]
    omega
  have c2 : X.countP (fun x => decide (x < e)) ≤ X.length - m.toNat := by
    have hsplit := List.take_append_drop m.toNat X
    rw [← hsplit, List.countP_append]
    have : (X.take m.toNat).countP (fun x => decide (x < e)) = 0 := by
      rw [List.countP_eq_zero]
      intro a ha
      obtain ⟨n, hn, rfl⟩ := List.mem_iff_getElem.mp ha
      rw [List.length_take] at hn
      rw [List.getElem_take]
      have := hX n (by omega) (by omega)
      rw [nth_eq_getElem X n (by omega)] at this
      simpa using this
    rw [this, hsplit]
    have := List.countP_le_length (fun x => decide (x < e)) (l := X.drop m.toNat)
    rw [List.length_drop] at this
    omega
  have := hperm.countP_eq (fun x => decide (x < e))
  omega

theorem stooge_step_skip (i j : Int) (rest : List (Int × Int)) (d : List Int) (h : i ≥ j) :
    StoogeSort.step ((i, j) :: rest, d) = .ok (.inl (rest, d)) := by
  simp only [StoogeSort.step, h, if_true, pure, Except.pure]

theorem stooge_step_split (i j : Int) (rest : List (Int × Int)) (d : List Int) (h : ¬ i ≥ j)
    (h0 : 0 ≤ i) (hj : j < d.length) :
    StoogeSort.step ((i, j) :: rest, d) = .ok (.inl
      (if j - i > 1 then
          (i, j - (j - i + 1) / 3) :: (i + (j - i + 1) / 3, j) :: (i, j - (j - i + 1) / 3) :: rest
        else rest,
        if nth d i > nth d j then swapAt d i j else d)) := by
  have hdiv : (j - i + 1).tdiv 3 = (j - i + 1) / 3 :=
    Int.tdiv_eq_ediv (by omega) (by omega)
  simp only [StoogeSort.step, h, if_false, vecGet_ok d i h0 (by omega),
    vecGet_ok d j (by omega) hj, bind, Except.bind, hdiv]
  by_cases hgt : nth d i > nth d j
  · simp only [if_pos hgt, vecSwap_ok d i j h0 (by omega) (by omega) hj]
    split <;> rfl
  · simp only [if_neg hgt, pure, Except.pure]
    split <;> rfl

/-- The three passes of `StoogeSort` over the first two thirds, the last two thirds
and the first two thirds again leave the range sorted. -/
theorem stooge_assemble (i j k : Int) (dA dB dC : List Int) (h0 : 0 ≤ i) (hk0 : 0 ≤ k)
    (hk : 3 * k ≤ j - i + 1) (hj : j < dA.length)
    (sA : ∀ a b : Int, i ≤ a → a ≤ b → b ≤ j - k → nth dA a ≤ nth dA b)
    (hB : Shuffled (i + k) j dA dB)
    (sB : ∀ a b : Int, i + k ≤ a → a ≤ b → b ≤ j → nth dB a ≤ nth dB b)
    (hC : Shuffled i (j - k) dB dC)
    (sC : ∀ a b : Int, i ≤ a → a ≤ b → b ≤ j - k → nth dC a ≤ nth dC b) :
    ∀ a b : Int, i ≤ a → a ≤ b → b ≤ j → nth dC a ≤ nth dC b := by
  have hlenB : dB.length = dA.length := hB.1
  have key : ∀ a b : Int, i ≤ a → a ≤ j - k → j - k < b → b ≤ j → nth dB a ≤ nth dB b := by
    intro a b ha1 ha2 hb1 hb2
    by_cases hak : i + k ≤ a
    · exact sB a b hak (by omega) hb2
    · rw [hB.2.2.1 a (by omega) (Or.inl (by omega))]
      have hp := shuffled_slice (i + k) j dA dB hB (by omega) (by omega)
      have lX := slice_length dA (i + k) j (by omega) hj
      have lY := slice_length dB (i + k) j (by omega) (by omega)
      have := top_after_sort (slice dA (i + k) j) (slice dB (i + k) j) (nth dA a)
        (j - k - (i + k) + 1) hp
        (by
          intro x y hx hxy hy
          rw [nth_slice dB (i + k) j x (by omega) hx (by omega),
            nth_slice dB (i + k) j y (by omega) (by omega) (by omega)]
          exact sB _ _ (by omega) (by omega) (by omega))
        (by
          intro t ht0 ht
          rw [nth_slice dA (i + k) j t (by omega) ht0 (by omega)]
          exact sA _ _ ha1 (by omega) (by omega))
        (by omega) (by omega) (b - (i + k)) (by omega) (by omega)
      rw [nth_slice dB (i + k) j _ (by omega) (by omega) (by omega)] at this
      have e : i + k + (b - (i + k)) = b := by omega
      rw [e] at this
      exact this
  intro a b ha hab hb
  by_cases c1 : b ≤ j - k
  · exact sC a b ha hab c1
  · rw [hC.2.2.1 b (by omega) (Or.inr (by omega))]
    by_cases c2 : a ≤ j - k
    · obtain ⟨a', g1, g2, g3⟩ := hC.2.2.2 a ha c2
      rw [g3]
      exact key a' b g1 g2 (by omega) hb
    · rw [hC.2.2.1 a (by omega) (Or.inr (by omega))]
      exact sB a b (by omega) hab hb

theorem stooge_range : ∀ (sz : Nat) (i j : Int) (rest : List (Int × Int)) (d : List Int),
    (j - i + 1).toNat = sz → (i < j → 0 ≤ i ∧ j < d.length) →
    ∃ (c : Nat) (d' : List Int), c + 1 ≤ 2 * 3 ^ sz ∧
      (∀ k, loop StoogeSort.step (c + k) ((i, j) :: rest, d)
        = loop StoogeSort.step k (rest, d')) ∧
      Shuffled i j d d' ∧
      (∀ a b : Int, i ≤ a → a ≤ b → b ≤ j → nth d' a ≤ nth d' b) := by
  intro sz
  induction sz using Nat.strong_induction_on with
  | _ sz ih =>
    intro i j rest d hsz hrange
    have hpow : 1 ≤ 3 ^ sz := Nat.one_le_pow _ _ (by omega)
    by_cases h : i ≥ j
    · refine ⟨1, d, by omega, ?_, shuffled_refl _ _ _, ?_⟩
      · intro k
        rw [Nat.add_comm]
        exact loop_continue _ _ _ k (stooge_step_skip i j rest d h)
      · intro a b ha hab hb
        have : a = b := by omega
        subst this; exact le_refl _
    · obtain ⟨h0, hr⟩ := hrange (by omega)
      have hstep := stooge_step_split i j rest d h h0 hr
      have hsh1 : Shuffled i j d (if nth d i > nth d j then swapAt d i j else d) := by
        split
        · exact shuffled_swapAt i j d i j h0 hr (le_refl _) (by omega) (by omega) (le_refl _)
        · exact shuffled_refl _ _ _
      have hord : nth (if nth d i > nth d j then swapAt d i j else d) i
          ≤ nth (if nth d i > nth d j then swapAt d i j else d) j := by
        split
        · rename_i hgt
          rw [nth_swapAt d i j i h0 (by omega) (by omega) hr h0,
            nth_swapAt d i j j h0 (by omega) (by omega) hr (by omega), if_neg (by omega),
            if_pos rfl, if_pos rfl]
          omega
        · omega
      generalize (if nth d i > nth d j then swapAt d i j else d) = d1 at hstep hsh1 hord
      have hlen1 : d1.length = d.length := hsh1.1
      by_cases hbig : j - i > 1
      · rw [if_pos hbig] at hstep
        have hk1 : 1 ≤ (j - i + 1) / 3 := by omega
        have hk3 : 3 * ((j - i + 1) / 3) ≤ j - i + 1 := by omega
        generalize (j - i + 1) / 3 = k at hstep hk1 hk3
        have hsub : (j - k - i + 1).toNat < sz := by omega
        have hsub' : (j - (i + k) + 1).toNat = (j - k - i + 1).toNat := by omega
        obtain ⟨cA, dA, hcA, hA, hshA, hsA⟩ :=
          ih (j - k - i + 1).toNat hsub i (j - k) ((i + k, j) :: (i, j - k) :: rest) d1 rfl
            (fun _ => ⟨h0, by omega⟩)
        have hlenA : dA.length = d1.length := hshA.1
        obtain ⟨cB, dB, hcB, hB, hshB, hsB⟩ :=
          ih (j - k - i + 1).toNat hsub (i + k) j ((i, j - k) :: rest) dA hsub'
            (fun _ => ⟨by omega, by omega⟩)
        have hlenB : dB.length = dA.length := hshB.1
        obtain ⟨cC, dC, hcC, hC, hshC, hsC⟩ :=
          ih (j - k - i + 1).toNat hsub i (j - k) rest dB rfl (fun _ => ⟨h0, by omega⟩)
        have hpw : 3 * 3 ^ (j - k - i + 1).toNat ≤ 3 ^ sz := by
          have : 3 ^ ((j - k - i + 1).toNat + 1) ≤ 3 ^ sz :=
            Nat.pow_le_pow_right (by omega) (by omega)
          rw [Nat.pow_succ] at this
          omega
        refine ⟨cA + cB + cC + 1, dC, by omega, ?_, ?_, ?_⟩
        · intro n
          have e : cA + cB + cC + 1 + n = (cA + (cB + (cC + n))) + 1 := by omega
          rw [e, loop_continue _ _ _ _ hstep, hA, hB, hC]
        · exact shuffled_trans hsh1 (shuffled_trans (shuffled_mono hshA h0 (le_refl _) (by omega))
            (shuffled_trans (shuffled_mono hshB h0 (by omega) (le_refl _))
              (shuffled_mono hshC h0 (le_refl _) (by omega))))
        · exact stooge_assemble i j k dA dB dC h0 (by omega) hk3 (by omega) hsA hshB hsB hshC hsC
      · rw [if_neg hbig] at hstep
        refine ⟨1, d1, by omega, ?_, hsh1, ?_⟩
        · intro n
          rw [Nat.add_comm]
          exact loop_continue _ _ _ n hstep
        · intro a b ha hab hb
          by_cases e : a = b
          · subst e; exact le_refl _
          · have e1 : a = i := by omega
            have e2 : b = j := by omega
            rw [e1, e2]; exact hord

/-! ## Lemmas on `BeadSort` -/

theorem nth_mem (d : List Int) (k : Int) (h0 : 0 ≤ k) (h1 : k < d.length) : nth d k ∈ d := by
  obtain ⟨n, rfl⟩ := Int.eq_ofNat_of_zero_le h0
  rw [nth_eq_getElem d n (by omega)]
  exact List.getElem_mem _

theorem mem_nth (d : List Int) (x : Int) (h : x ∈ d) :
    ∃ k : Int, 0 ≤ k ∧ k < d.length ∧ nth d k = x := by
  obtain ⟨n, hn, rfl⟩ := List.mem_iff_getElem.mp h
  exact ⟨n, by omega, by omega, nth_eq_getElem d n hn⟩

/-- Two vectors of the same size with the same element at every index are equal. -/
theorem ext_nth (d d' : List Int) (hlen : d.length = d'.length)
    (h : ∀ k : Int, 0 ≤ k → k < d.length → nth d k = nth d' k) : d = d' := by
  apply List.ext_getElem hlen
  intro n h1 h2
  have := h n (by omega) (by omega)
  rwa [nth_eq_getElem d n h1, nth_eq_getElem d' n h2] at this

/-- The scan of `BeadSort` finds the largest and the smallest element. -/
theorem bead_scan_loop (d : List Int) (hn : 2 ≤ d.length) :
    ∃ r, loop (BeadSort.scan d d.length) (d.length + 1) (1, nth d 0, nth d 0) = .ok r ∧
      ((∀ x ∈ d, r.2 ≤ x ∧ x ≤ r.1) ∧ r.1 ∈ d ∧ r.2 ∈ d) := by
  apply loop_spec (BeadSort.scan d d.length)
    (fun s => 1 ≤ s.1 ∧ s.1 ≤ d.length ∧
      (∀ k : Int, 0 ≤ k → k < s.1 → s.2.2 ≤ nth d k ∧ nth d k ≤ s.2.1) ∧
      s.2.1 ∈ d ∧ s.2.2 ∈ d)
    (fun r => (∀ x ∈ d, r.2 ≤ x ∧ x ≤ r.1) ∧ r.1 ∈ d ∧ r.2 ∈ d)
    (fun s => ((d.length : Int) - s.1).toNat)
  · rintro ⟨i, mx, mn⟩ ⟨h1, h2, h3, h4, h5⟩
    simp only at h1 h2 h3 h4 h5
    by_cases hlt : i < d.length
    · left
      have hg := vecGet_ok d i (by omega) hlt
      have hmem := nth_mem d i (by omega) hlt
      have hle : mn ≤ mx := by
        have := h3 0 (le_refl _) (by omega)
        omega
      by_cases c1 : nth d i > mx
      · refine ⟨(i + 1, nth d i, mn), ?_, ⟨by show 1 ≤ i + 1; omega, by show i + 1 ≤ _; omega,
          ?_, hmem, h5⟩, by show ((d.length : Int) - (i + 1)).toNat < _; omega⟩
        · simp only [BeadSort.scan, hlt, if_true, hg, bind, Except.bind, if_pos c1, pure,
            Except.pure]
        · intro k hk0 hk
          have hk : k < i + 1 := hk
          show mn ≤ nth d k ∧ nth d k ≤ nth d i
          by_cases e : k = i
          · subst e; omega
          · have := h3 k hk0 (by omega); omega
      · by_cases c2 : nth d i < mn
        · refine ⟨(i + 1, mx, nth d i), ?_, ⟨by show 1 ≤ i + 1; omega, by show i + 1 ≤ _; omega,
            ?_, h4, hmem⟩, by show ((d.length : Int) - (i + 1)).toNat < _; omega⟩
          · simp only [BeadSort.scan, hlt, if_true, hg, bind, Except.bind, if_neg c1, if_pos c2,
              pure, Except.pure]
          · intro k hk0 hk
            have hk : k < i + 1 := hk
            show nth d i ≤ nth d k ∧ nth d k ≤ mx
            by_cases e : k = i
            · subst e; omega
            · have := h3 k hk0 (by omega); omega
        · refine ⟨(i + 1, mx, mn), ?_, ⟨by show 1 ≤ i + 1; omega, by show i + 1 ≤ _; omega,
            ?_, h4, h5⟩, by show ((d.length : Int) - (i + 1)).toNat < _; omega⟩
          · simp only [BeadSort.scan, hlt, if_true, hg, bind, Except.bind, if_neg c1, if_neg c2,
              pure, Except.pure]
          · intro k hk0 hk
            have hk : k < i + 1 := hk
            show mn ≤ nth d k ∧ nth d k ≤ mx
            by_cases e : k = i
            · subst e; omega
            · exact h3 k hk0 (by omega)
    · right
      refine ⟨(mx, mn), ?_, ?_, h4, h5⟩
      · simp only [BeadSort.scan, hlt, if_false, pure, Except.pure]
      · intro x hx
        obtain ⟨k, hk0, hk1, rfl⟩ := mem_nth d x hx
        exact h3 k hk0 (by omega)
  · refine ⟨le_refl _, by show (1 : Int) ≤ d.length; omega, ?_, nth_mem d 0 (le_refl _) (by omega),
      nth_mem d 0 (le_refl _) (by omega)⟩
    intro k hk0 hk
    have hk : k < 1 := hk
    have : k = 0 := by omega
    subst this
    exact ⟨le_refl _, le_refl _⟩
  · show ((d.length : Int) - 1).toNat < d.length + 1
    omega

/-- In a sorted vector the elements with an upward closed property are the last
ones, as many as there are. -/
theorem sorted_threshold (p : Int → Bool) (hp : ∀ a b : Int, a ≤ b → p a = true → p b = true) :
    ∀ (S : List Int), List.Sorted (· ≤ ·) S → ∀ i : Nat, (h : i < S.length) →
      (p S[i] = true ↔ S.length - S.countP p ≤ i) := by
  intro S
  induction S with
  | nil => intro _ i h; simp at h
  | cons x xs ih =>
    intro hs i hi
    have hs' := List.sorted_cons.mp hs
    have hc := List.countP_le_length p (l := xs)
    by_cases hx : p x = true
    · have hall : xs.countP p = xs.length := by
        rw [List.countP_eq_length]
        intro a ha
        exact hp x a (hs'.1 a ha) hx
      rw [List.countP_cons_of_pos _ _ hx, hall]
      simp only [List.length_cons, Nat.sub_self, Nat.zero_le, iff_true]
      cases i with
      | zero => simpa using hx
      | succ i =>
        simp only [List.getElem_cons_succ]
        exact hp x _ (hs'.1 _ (List.getElem_mem _)) hx
    · rw [List.countP_cons_of_neg _ _ hx]
      cases i with
      | zero =>
        simp only [List.getElem_cons_zero, List.length_cons]
        constructor
        · intro h; exact absurd h hx
        · intro h; omega
      | succ i =>
        simp only [List.getElem_cons_succ, List.length_cons]
        have := ih hs'.2 i (by simpa using hi)
        rw [this]
        omega

theorem bead_drop_loop (q : List Int) (limit : Int) (h0 : 0 ≤ limit) (hl : limit ≤ q.length) :
    ∃ q', loop (BeadSort.drop limit) (q.length + 1) (0, q) = .ok q' ∧
      (q'.length = q.length ∧
        ∀ t : Int, 0 ≤ t → t < q.length → nth q' t = nth q t + (if t < limit then 1 else 0)) := by
  apply loop_spec (BeadSort.drop limit)
    (fun s => 0 ≤ s.1 ∧ s.1 ≤ limit ∧ s.2.length = q.length ∧
      ∀ t : Int, 0 ≤ t → t < q.length → nth s.2 t = nth q t + (if t < s.1 then 1 else 0))
    (fun q' => q'.length = q.length ∧
      ∀ t : Int, 0 ≤ t → t < q.length → nth q' t = nth q t + (if t < limit then 1 else 0))
    (fun s => (limit - s.1).toNat)
  · rintro ⟨j, q1⟩ ⟨h1, h2, h3, h4⟩
    simp only at h1 h2 h3 h4
    by_cases hlt : j < limit
    · left
      refine ⟨(j + 1, q1.set j.toNat (nth q1 j + 1)), ?_, ⟨by show 0 ≤ j + 1; omega,
        by show j + 1 ≤ limit; omega, by simp [h3], ?_⟩,
        by show (limit - (j + 1)).toNat < (limit - j).toNat; omega⟩
      · simp only [BeadSort.drop, hlt, if_true, vecGet_ok q1 j h1 (by omega), bind, Except.bind,
          vecSet_ok q1 j _ h1 (by omega), pure, Except.pure]
      · intro t ht0 ht
        show nth (q1.set j.toNat (nth q1 j + 1)) t = nth q t + (if t < j + 1 then 1 else 0)
        rw [nth_set q1 j t _ h1 (by omega) ht0]
        by_cases e : t = j
        · subst e
          rw [if_pos rfl, h4 t ht0 ht, if_neg (by omega), if_pos (by omega)]
          omega
        · rw [if_neg e, h4 t ht0 ht]
          by_cases c : t < j
          · rw [if_pos c, if_pos (by omega)]
          · rw [if_neg c, if_neg (by omega)]
    · right
      refine ⟨q1, ?_, h3, ?_⟩
      · simp only [BeadSort.drop, hlt, if_false, pure, Except.pure]
      · intro t ht0 ht
        have : j = limit := by omega
        rw [h4 t ht0 ht, this]
  · refine ⟨le_refl _, h0, rfl, fun t ht0 _ => ?_⟩
    show nth q t = nth q t + (if t < 0 then 1 else 0)
    rw [if_neg (by omega)]; omega
  · show (limit - 0).toNat < q.length + 1
    omega

theorem nth_replicate_zero (R : Nat) (j : Int) : nth (List.replicate R 0) j = 0 := by
  unfold nth
  rw [List.getD_eq_getElem?_getD, List.getElem?_replicate]
  split <;> rfl

theorem bead_fill_loop (d : List Int) (mn : Int) (R : Nat)
    (hall : ∀ x ∈ d, 0 ≤ x - mn ∧ x - mn ≤ R) :
    ∃ q, loop (BeadSort.fill d d.length mn) (d.length + 1) (0, List.replicate R 0) = .ok q ∧
      (q.length = R ∧ ∀ j : Int, 0 ≤ j → j < R → nth q j = beadCount d mn j) := by
  apply loop_spec (BeadSort.fill d d.length mn)
    (fun s => 0 ≤ s.1 ∧ s.1 ≤ d.length ∧ s.2.length = R ∧
      ∀ j : Int, 0 ≤ j → j < R → nth s.2 j = beadCount (d.take s.1.toNat) mn j)
    (fun q => q.length = R ∧ ∀ j : Int, 0 ≤ j → j < R → nth q j = beadCount d mn j)
    (fun s => ((d.length : Int) - s.1).toNat)
  · rintro ⟨i, q⟩ ⟨h1, h2, h3, h4⟩
    simp only at h1 h2 h3 h4
    by_cases hlt : i < d.length
    · left
      have hx := hall _ (nth_mem d i h1 hlt)
      obtain ⟨q', hrun, hlen', hq'⟩ := bead_drop_loop q (nth d i - mn) hx.1 (by omega)
      refine ⟨(i + 1, q'), ?_, ⟨by show 0 ≤ i + 1; omega, by show i + 1 ≤ _; omega,
        by show q'.length = R; omega, ?_⟩,
        by show ((d.length : Int) - (i + 1)).toNat < ((d.length : Int) - i).toNat; omega⟩
      · simp only [BeadSort.fill, hlt, if_true, vecGet_ok d i h1 hlt, bind, Except.bind, hrun,
          pure, Except.pure]
      · intro j hj0 hj
        show nth q' j = beadCount (d.take (i + 1).toNat) mn j
        rw [hq' j hj0 (by omega), h4 j hj0 hj]
        obtain ⟨n, rfl⟩ := Int.eq_ofNat_of_zero_le h1
        have e : ((n : Int) + 1).toNat = n + 1 := by omega
        have hn := nth_eq_getElem d n (by omega)
        unfold beadCount
        rw [e, Int.toNat_ofNat, take_succ_getElem d n (by omega), List.countP_append, ← hn]
        simp only [List.countP_cons, List.countP_nil, decide_eq_true_eq, zero_add, Nat.cast_add]
        by_cases c : j < nth d n - mn
        · rw [if_pos c, if_pos c]; rfl
        · rw [if_neg c, if_neg c]; rfl
    · right
      refine ⟨q, ?_, h3, ?_⟩
      · simp only [BeadSort.fill, hlt, if_false, pure, Except.pure]
      · intro j hj0 hj
        have e : i.toNat = d.length := by omega
        have := h4 j hj0 hj
        rwa [e, List.take_length] at this
  · refine ⟨le_refl _, by show (0 : Int) ≤ d.length; omega, List.length_replicate _ _, ?_⟩
    intro j _ _
    show nth (List.replicate R 0) j = beadCount (d.take (0 : Int).toNat) mn j
    rw [nth_replicate_zero]
    rfl
  · show ((d.length : Int) - 0).toNat < d.length + 1
    omega

theorem sortedCopy_length (data_ : List Int) : (sortedCopy data_).length = data_.length :=
  (sortedCopy_perm data_).length_eq

theorem sortedCopy_mono (data_ : List Int) (a b : Int) (ha : 0 ≤ a) (hab : a ≤ b)
    (hb : b < data_.length) : nth (sortedCopy data_) a ≤ nth (sortedCopy data_) b := by
  have hs := sortedCopy_sorted data_
  have hl := sortedCopy_length data_
  obtain ⟨x, rfl⟩ := Int.eq_ofNat_of_zero_le ha
  obtain ⟨y, rfl⟩ := Int.eq_ofNat_of_zero_le (le_trans ha hab)
  rw [nth_eq_getElem _ x (by omega), nth_eq_getElem _ y (by omega)]
  by_cases e : x = y
  · subst e; exact le_refl _
  · exact (List.pairwise_iff_getElem.mp hs) x y (by omega) (by omega) (by omega)

theorem sortedCopy_mem (data_ : List Int) (i : Int) (h0 : 0 ≤ i) (h1 : i < data_.length) :
    nth (sortedCopy data_) i ∈ data_ :=
  (sortedCopy_perm data_).mem_iff.mp (nth_mem _ i h0 (by rw [sortedCopy_length]; exact h1))

/-- The element at index `i` of the sorted input lies more than `j` above
`minValue` exactly when at most `i` elements do not. -/
theorem bead_threshold (data_ : List Int) (mn j i : Int) (h0 : 0 ≤ i) (h1 : i < data_.length) :
    j < nth (sortedCopy data_) i - mn ↔ (data_.length : Int) - beadCount data_ mn j ≤ i := by
  have hl := sortedCopy_length data_
  obtain ⟨x, rfl⟩ := Int.eq_ofNat_of_zero_le h0
  have key := sorted_threshold (fun v => decide (j < v - mn))
    (by intro a b hab ha; simp only [decide_eq_true_eq] at ha ⊢; omega)
    (sortedCopy data_) (sortedCopy_sorted data_) x (by omega)
  have hc := (sortedCopy_perm data_).countP_eq (fun v => decide (j < v - mn))
  have hle := List.countP_le_length (fun v => decide (j < v - mn)) (l := data_)
  rw [nth_eq_getElem _ x (by omega)]
  simp only [decide_eq_true_eq] at key
  rw [key, hc, hl]
  unfold beadCount
  omega

theorem bead_search_loop (q d : List Int) (n R mn i v j0 : Int) (hi0 : 0 ≤ i)
    (hi : i < d.length) (hj0 : 0 ≤ j0) (hjv : j0 ≤ v - mn) (hv : v - mn < R)
    (hR : R ≤ q.length)
    (hq : ∀ j : Int, 0 ≤ j → j < R → (nth q j < n - i ↔ v - mn ≤ j)) :
    loop (BeadSort.search q n R mn i) (q.length + 1) (j0, d) = .ok (d.set i.toNat v) := by
  have key : ∃ r, loop (BeadSort.search q n R mn i) (q.length + 1) (j0, d) = .ok r ∧
      r = d.set i.toNat v := by
    apply loop_spec (BeadSort.search q n R mn i)
      (fun s => j0 ≤ s.1 ∧ s.1 ≤ v - mn ∧ s.2 = d)
      (fun r => r = d.set i.toNat v)
      (fun s => (v - mn - s.1 + 1).toNat)
    · rintro ⟨j, d1⟩ ⟨h1, h2, h3⟩
      simp only at h1 h2 h3
      subst h3
      have hlt : j < R := by omega
      have hg := vecGet_ok q j (by omega) (by omega)
      by_cases c : nth q j < n - i
      · right
        have hj : j = v - mn := by
          have := (hq j (by omega) hlt).mp c
          omega
        refine ⟨d1.set i.toNat v, ?_, rfl⟩
        simp only [BeadSort.search, hlt, if_true, hg, bind, Except.bind, if_pos c,
          vecSet_ok d1 i _ hi0 hi, pure, Except.pure]
        rw [hj]
        congr 3
        omega
      · left
        have hj : ¬ v - mn ≤ j := fun h => c ((hq j (by omega) hlt).mpr h)
        refine ⟨(j + 1, d1), ?_, ⟨by show j0 ≤ j + 1; omega, by show j + 1 ≤ v - mn; omega, rfl⟩,
          by show (v - mn - (j + 1) + 1).toNat < (v - mn - j + 1).toNat; omega⟩
        simp only [BeadSort.search, hlt, if_true, hg, bind, Except.bind, if_neg c, pure,
          Except.pure]
    · exact ⟨le_refl _, hjv, rfl⟩
    · show (v - mn - j0 + 1).toNat < q.length + 1
      omega
  obtain ⟨r, hr, rfl⟩ := key
  exact hr

theorem placed_set (S d : List Int) (i v : Int) (h : Placed S i d) (h0 : 0 ≤ i)
    (h1 : i < S.length) (hv : v = nth S i) : Placed S (i + 1) (d.set i.toNat v) := by
  obtain ⟨hl, hk⟩ := h
  refine ⟨by simp [hl], ?_⟩
  intro k hk0 hk1
  rw [nth_set d i k _ h0 (by omega) hk0]
  by_cases e : k = i
  · rw [if_pos e, e, hv]
  · rw [if_neg e]; exact hk k hk0 (by omega)

theorem placed_all (S d : List Int) (i : Int) (h : Placed S i d) (hi : (S.length : Int) ≤ i) :
    d = S :=
  ext_nth d S h.1 (fun k hk0 hk => h.2 k hk0 (by have := h.1; omega))

theorem bead_lowest_loop (data_ q : List Int) (mn : Int) (hq : 1 ≤ q.length)
    (hq0 : nth q 0 = beadCount data_ mn 0) (hmn : ∀ x ∈ data_, mn ≤ x) (hmem : mn ∈ data_) :
    ∃ r, loop (BeadSort.lowest q data_.length mn) (data_.length + 1) (0, data_) = .ok r ∧
      (1 ≤ r.1 ∧ r.1 ≤ data_.length ∧ Placed (sortedCopy data_) r.1 r.2) := by
  have hl := sortedCopy_length data_
  have hc0 : 0 ≤ beadCount data_ mn 0 := by unfold beadCount; omega
  have hg := vecGet_ok q 0 (le_refl _) (by omega)
  have hn : 0 < data_.length := List.length_pos_of_mem hmem
  apply loop_spec (BeadSort.lowest q data_.length mn)
    (fun s => 0 ≤ s.1 ∧ s.1 ≤ data_.length ∧ Placed (sortedCopy data_) s.1 s.2)
    (fun r => 1 ≤ r.1 ∧ r.1 ≤ data_.length ∧ Placed (sortedCopy data_) r.1 r.2)
    (fun s => ((data_.length : Int) - s.1).toNat)
  · rintro ⟨i, d⟩ ⟨h1, h2, h3⟩
    simp only at h1 h2 h3
    by_cases c : i < (data_.length : Int) - beadCount data_ mn 0
    · left
      have hi : i < data_.length := by omega
      have hS : nth (sortedCopy data_) i = mn := by
        have t := bead_threshold data_ mn 0 i h1 hi
        have := hmn _ (sortedCopy_mem data_ i h1 hi)
        by_contra hne
        have : (data_.length : Int) - beadCount data_ mn 0 ≤ i := t.mp (by omega)
        omega
      refine ⟨(i + 1, d.set i.toNat mn), ?_, ⟨by show 0 ≤ i + 1; omega,
        by show i + 1 ≤ _; omega, placed_set _ d i mn h3 h1 (by omega) hS.symm⟩,
        by show ((data_.length : Int) - (i + 1)).toNat < ((data_.length : Int) - i).toNat; omega⟩
      simp only [BeadSort.lowest, hg, bind, Except.bind, hq0, if_pos c,
        vecSet_ok d i _ h1 (by rw [h3.1, hl]; exact hi), pure, Except.pure]
    · right
      refine ⟨(i, d), ?_, ?_, h2, h3⟩
      · simp only [BeadSort.lowest, hg, bind, Except.bind, hq0, if_neg c, pure, Except.pure]
      · show 1 ≤ i
        have t := bead_threshold data_ mn 0 0 (le_refl _) (by omega)
        obtain ⟨k, hk0, hk1, hk⟩ := mem_nth _ _ ((sortedCopy_perm data_).mem_iff.mpr hmem)
        have m1 := sortedCopy_mono data_ 0 k (le_refl _) hk0 (by omega)
        have m2 := hmn _ (sortedCopy_mem data_ 0 (le_refl _) (by omega))
        have : ¬ (data_.length : Int) - beadCount data_ mn 0 ≤ 0 := fun h => by
          have := t.mpr h
          omega
        omega
  · exact ⟨le_refl _, by show (0 : Int) ≤ _; omega, hl.symm, fun k h0 h1 => by omega⟩
  · show ((data_.length : Int) - 0).toNat < data_.length + 1
    omega

theorem bead_middle_loop (data_ q : List Int) (mn : Int) (hq : 1 ≤ q.length)
    (hqj : ∀ j : Int, 0 ≤ j → j < q.length → nth q j = beadCount data_ mn j)
    (hmn : ∀ x ∈ data_, mn ≤ x) (i0 : Int) (d0 : List Int) (hi0 : 1 ≤ i0)
    (hi1 : i0 ≤ data_.length) (hp : Placed (sortedCopy data_) i0 d0) :
    ∃ r, loop (BeadSort.middle q data_.length q.length mn) (data_.length + 1) (i0, d0) = .ok r ∧
      ((data_.length : Int) - beadCount data_ mn ((q.length : Int) - 1) ≤ r.1 ∧
        0 ≤ r.1 ∧ r.1 ≤ data_.length ∧ Placed (sortedCopy data_) r.1 r.2) := by
  have hl := sortedCopy_length data_
  have hg := vecGet_ok q ((q.length : Int) - 1) (by omega) (by omega)
  have hqR := hqj ((q.length : Int) - 1) (by omega) (by omega)
  have hcR : 0 ≤ beadCount data_ mn ((q.length : Int) - 1) := by unfold beadCount; omega
  apply loop_spec (BeadSort.middle q data_.length q.length mn)
    (fun s => 1 ≤ s.1 ∧ s.1 ≤ data_.length ∧ Placed (sortedCopy data_) s.1 s.2)
    (fun r => (data_.length : Int) - beadCount data_ mn ((q.length : Int) - 1) ≤ r.1 ∧
        0 ≤ r.1 ∧ r.1 ≤ data_.length ∧ Placed (sortedCopy data_) r.1 r.2)
    (fun s => ((data_.length : Int) - s.1).toNat)
  · rintro ⟨i, d⟩ ⟨h1, h2, h3⟩
    simp only at h1 h2 h3
    by_cases c : i < (data_.length : Int) - beadCount data_ mn ((q.length : Int) - 1)
    · left
      have hi : i < data_.length := by omega
      have hdl : d.length = data_.length := by rw [h3.1, hl]
      have hprev : nth d (i - 1) = nth (sortedCopy data_) (i - 1) := h3.2 (i - 1) (by omega) (by omega)
      have hv : nth (sortedCopy data_) i - mn < q.length := by
        have t := bead_threshold data_ mn ((q.length : Int) - 1) i (by omega) hi
        by_contra hcon
        have := t.mp (by omega)
        omega
      have hmono := sortedCopy_mono data_ (i - 1) i (by omega) (by omega) hi
      have hlow := hmn _ (sortedCopy_mem data_ (i - 1) (by omega) (by omega))
      have hsearch := bead_search_loop q d data_.length q.length mn i (nth (sortedCopy data_) i)
        (nth (sortedCopy data_) (i - 1) - mn) (by omega) (by omega) (by omega) (by omega) hv
        (le_refl _)
        (by
          intro j hj0 hj
          rw [hqj j hj0 hj]
          have t := bead_threshold data_ mn j i (by omega) hi
          constructor
          · intro h
            by_contra hcon
            have := t.mp (by omega)
            omega
          · intro h
            by_contra hcon
            have := t.mpr (by omega)
            omega)
      refine ⟨(i + 1, d.set i.toNat (nth (sortedCopy data_) i)), ?_, ⟨by show 1 ≤ i + 1; omega,
        by show i + 1 ≤ _; omega, placed_set _ d i _ h3 (by omega) (by omega) rfl⟩,
        by show ((data_.length : Int) - (i + 1)).toNat < ((data_.length : Int) - i).toNat; omega⟩
      simp only [BeadSort.middle, hg, bind, Except.bind, hqR, if_pos c,
        vecGet_ok d (i - 1) (by omega) (by omega), hprev, hsearch, pure, Except.pure]
    · right
      refine ⟨(i, d), ?_, by show _ ≤ i; omega, by show 0 ≤ i; omega, h2, h3⟩
      simp only [BeadSort.middle, hg, bind, Except.bind, hqR, if_neg c, pure, Except.pure]
  · exact ⟨hi0, hi1, hp⟩
  · show ((data_.length : Int) - i0).toNat < data_.length + 1
    omega

theorem bead_highest_loop (data_ : List Int) (mn mx R : Int) (hR : R = mx - mn)
    (hmx : ∀ x ∈ data_, x ≤ mx) (i0 : Int) (d0 : List Int) (hi0 : 0 ≤ i0)
    (hi1 : i0 ≤ data_.length)
    (hi2 : (data_.length : Int) - beadCount data_ mn (R - 1) ≤ i0)
    (hp : Placed (sortedCopy data_) i0 d0) :
    loop (BeadSort.highest data_.length mx) (data_.length + 1) (i0, d0)
      = .ok (sortedCopy data_) := by
  have hl := sortedCopy_length data_
  have key : ∃ r, loop (BeadSort.highest data_.length mx) (data_.length + 1) (i0, d0) = .ok r ∧
      r = sortedCopy data_ := by
    apply loop_spec (BeadSort.highest data_.length mx)
      (fun s => i0 ≤ s.1 ∧ s.1 ≤ data_.length ∧ Placed (sortedCopy data_) s.1 s.2)
      (fun r => r = sortedCopy data_)
      (fun s => ((data_.length : Int) - s.1).toNat)
    · rintro ⟨i, d⟩ ⟨h1, h2, h3⟩
      simp only at h1 h2 h3
      by_cases c : i < data_.length
      · left
        have hS : nth (sortedCopy data_) i = mx := by
          have t := bead_threshold data_ mn (R - 1) i (by omega) c
          have := hmx _ (sortedCopy_mem data_ i (by omega) c)
          have := t.mpr (by omega)
          omega
        refine ⟨(i + 1, d.set i.toNat mx), ?_, ⟨by show i0 ≤ i + 1; omega,
          by show i + 1 ≤ _; omega, placed_set _ d i mx h3 (by omega) (by omega) hS.symm⟩,
          by show ((data_.length : Int) - (i + 1)).toNat < ((data_.length : Int) - i).toNat; omega⟩
        simp only [BeadSort.highest, c, if_true,
          vecSet_ok d i _ (by omega) (by rw [h3.1, hl]; exact c), bind, Except.bind, pure,
          Except.pure]
      · right
        refine ⟨d, ?_, placed_all _ d i h3 (by omega)⟩
        simp only [BeadSort.highest, c, if_false, pure, Except.pure]
    · exact ⟨le_refl _, hi1, hp⟩
    · show ((data_.length : Int) - i0).toNat < data_.length + 1
      omega
  obtain ⟨r, hr, rfl⟩ := key
  exact hr

theorem bead_within (data_ : List Int) (hn : ¬ data_.length < 2)
    (hrange : ∀ x ∈ data_, ∀ y ∈ data_, x - y ≤ 10000000) :
    NSortAlgorithms.BeadSort data_ = .ok (sortedCopy data_) := by
  unfold NSortAlgorithms.BeadSort
  rw [if_neg hn]
  obtain ⟨⟨mx, mn⟩, hscan, hall, hmx, hmn⟩ := bead_scan_loop data_ (by omega)
  simp only at hall hmx hmn
  simp only [vecGet_ok data_ 0 (le_refl _) (by omega), bind, Except.bind, hscan]
  by_cases hz : mx - mn = 0
  · rw [if_pos hz]
    show Except.ok data_ = _
    congr 1
    apply eq_sortedCopy data_ data_ (List.Perm.refl _)
    intro a b ha hab hb
    have h1 := hall _ (nth_mem data_ a ha (by omega))
    have h2 := hall _ (nth_mem data_ b (by omega) hb)
    omega
  · rw [if_neg hz, if_neg (by have := hrange mx hmx mn hmn; omega)]
    have hpos : 0 < mx - mn := by
      have := (hall mx hmx).1
      omega
    obtain ⟨q, hfill, hqlen, hq⟩ := bead_fill_loop data_ mn (mx - mn).toNat
      (fun x hx => by have := hall x hx; omega)
    have hqlen' : (q.length : Int) = mx - mn := by omega
    obtain ⟨⟨i1, d1⟩, hlow, h11, h12, h13⟩ := bead_lowest_loop data_ q mn (by omega)
      (hq 0 (le_refl _) (by omega)) (fun x hx => (hall x hx).1) hmn
    simp only at h11 h12 h13
    obtain ⟨⟨i2, d2⟩, hmid, h21, h22, h23, h24⟩ := bead_middle_loop data_ q mn (by omega)
      (fun j hj0 hj => hq j hj0 (by omega)) (fun x hx => (hall x hx).1) i1 d1 h11 h12 h13
    simp only at h21 h22 h23 h24
    rw [hqlen'] at hmid h21
    have hhigh := bead_highest_loop data_ mn mx (mx - mn) rfl (fun x hx => (hall x hx).2) i2 d2
      h22 h23 h21 h24
    simp only [hfill, hlow, hmid, hhigh]

theorem bead_beyond (data_ : List Int)
    (hrange : ∃ x ∈ data_, ∃ y ∈ data_, x - y > 10000000) :
    NSortAlgorithms.BeadSort data_
      = .error (.wideError ⟨"该数据最小值与最大值差距过大，不适合使用珠排序！"⟩) := by
  obtain ⟨x, hx, y, hy, hxy⟩ := hrange
  have hn : ¬ data_.length < 2 := by
    intro h
    match data_, hx, hy, h with
    | [a], hx, hy, _ =>
      simp only [List.mem_singleton] at hx hy
      omega
    | _ :: _ :: _, _, _, h => simp only [List.length_cons] at h; omega
  unfold NSortAlgorithms.BeadSort
  rw [if_neg hn]
  obtain ⟨⟨mx, mn⟩, hscan, hall, hmx, hmn⟩ := bead_scan_loop data_ (by omega)
  simp only at hall
  have h1 := hall x hx
  have h2 := hall y hy
  simp only [vecGet_ok data_ 0 (le_refl _) (by omega), bind, Except.bind, hscan]
  rw [if_neg (by omega), if_pos (by omega)]
  rfl

/-! ## Lemmas on `RadixSort` -/

theorem radixBuckets_length (κ : Int → Nat) (q : List Int) : (radixBuckets κ q).length = 16 := by
  simp [radixBuckets]

theorem radixBuckets_nil (κ : Int → Nat) : radixBuckets κ [] = List.replicate 16 [] := by
  simp [radixBuckets, List.range_succ, List.replicate]

theorem pushBack_buckets (κ : Int → Nat) (p : List Int) (v idx : Int) (hidx : idx = κ v)
    (h : κ v < 16) :
    RadixSort.pushBack (radixBuckets κ p) idx v = .ok (radixBuckets κ (p ++ [v])) := by
  subst hidx
  unfold RadixSort.pushBack
  rw [if_pos ⟨by omega, by rw [radixBuckets_length]; omega⟩]
  congr 1
  apply List.ext_getElem?
  intro n
  simp only [Int.toNat_ofNat, List.getElem?_set, radixBuckets_length, h, if_true]
  unfold radixBuckets
  by_cases hn : n < 16
  · simp only [List.getD_eq_getElem?_getD, List.getElem?_map, List.getElem?_range hn,
      List.getElem?_range h, Option.map_some', Option.getD_some, List.filter_append]
    by_cases e : κ v = n
    · subst e
      simp
    · rw [if_neg e]
      simp [e]
  · have e : κ v ≠ n := by omega
    rw [if_neg e]
    rw [List.getElem?_eq_none (by simp; omega), List.getElem?_eq_none (by simp; omega)]

theorem radix_index (mn v : Int) (k : Nat) (h : mn ≤ v) :
    ((v - mn).tdiv ((16 : Int) ^ k)).tmod 16 = (radixDigit mn k v : Nat) := by
  have h16 : (0 : Int) ≤ (16 : Int) ^ k := by positivity
  obtain ⟨n, hn⟩ := Int.eq_ofNat_of_zero_le (show 0 ≤ v - mn by omega)
  unfold radixDigit
  rw [hn, Int.tdiv_eq_ediv (by omega) h16,
    Int.tmod_eq_emod (Int.ediv_nonneg (by omega) h16) (by omega)]
  simp only [Int.toNat_ofNat]
  push_cast
  rfl

theorem radixDigit_lt (mn v : Int) (k : Nat) : radixDigit mn k v < 16 := by
  unfold radixDigit
  omega

theorem radix_scatter_loop (mn : Int) (k : Nat) :
    ∀ (rest p : List Int), (∀ v ∈ rest, mn ≤ v) →
      loop (RadixSort.scatter mn ((16 : Int) ^ k) 16) (rest.length + 1)
        (rest, radixBuckets (radixDigit mn k) p)
        = .ok (radixBuckets (radixDigit mn k) (p ++ rest)) := by
  intro rest
  induction rest with
  | nil =>
    intro p _
    simp only [loop, RadixSort.scatter, pure, Except.pure, List.append_nil, List.length_nil]
  | cons v rest ih =>
    intro p hq
    have hne : ¬ ((16 : Int) ^ k = 0) := by positivity
    have hpush := pushBack_buckets (radixDigit mn k) p v _
      (radix_index mn v k (hq v (List.mem_cons_self _ _))) (radixDigit_lt mn v k)
    have hstep : RadixSort.scatter mn ((16 : Int) ^ k) 16 (v :: rest, radixBuckets (radixDigit mn k) p)
        = .ok (.inl (rest, radixBuckets (radixDigit mn k) (p ++ [v]))) := by
      simp only [RadixSort.scatter, if_neg hne, hpush, bind, Except.bind, pure, Except.pure]
    rw [List.length_cons, loop_continue _ _ _ _ hstep,
      ih (p ++ [v]) (fun x hx => hq x (List.mem_cons_of_mem _ hx))]
    simp

theorem radix_first_loop (data_ : List Int) (mn : Int) (hq : ∀ v ∈ data_, mn ≤ v) :
    loop (RadixSort.first data_ data_.length mn 16) (data_.length + 1)
      (0, List.replicate 16 []) = .ok (radixBuckets (radixDigit mn 0) data_) := by
  have key : ∃ r, loop (RadixSort.first data_ data_.length mn 16) (data_.length + 1)
      (0, List.replicate 16 []) = .ok r ∧ r = radixBuckets (radixDigit mn 0) data_ := by
    apply loop_spec (RadixSort.first data_ data_.length mn 16)
      (fun s => 0 ≤ s.1 ∧ s.1 ≤ data_.length ∧
        s.2 = radixBuckets (radixDigit mn 0) (data_.take s.1.toNat))
      (fun r => r = radixBuckets (radixDigit mn 0) data_)
      (fun s => ((data_.length : Int) - s.1).toNat)
    · rintro ⟨i, b⟩ ⟨h1, h2, h3⟩
      simp only at h1 h2 h3
      subst h3
      by_cases hlt : i < data_.length
      · left
        obtain ⟨n, rfl⟩ := Int.eq_ofNat_of_zero_le h1
        have hidx : (nth data_ n - mn).tmod 16 = (radixDigit mn 0 (nth data_ n) : Nat) := by
          have := radix_index mn (nth data_ n) 0 (hq _ (nth_mem data_ n h1 hlt))
          simpa using this
        have hpush := pushBack_buckets (radixDigit mn 0) (data_.take n) (nth data_ n) _ hidx
          (radixDigit_lt mn _ 0)
        refine ⟨((n : Int) + 1, radixBuckets (radixDigit mn 0) (data_.take (n + 1))), ?_,
          ⟨by show (0 : Int) ≤ n + 1; omega, by show (n : Int) + 1 ≤ _; omega, ?_⟩,
          by show ((data_.length : Int) - (n + 1)).toNat < ((data_.length : Int) - n).toNat; omega⟩
        · simp only [RadixSort.first, hlt, if_true, vecGet_ok data_ n h1 hlt, bind, Except.bind,
            Int.toNat_ofNat, hpush, pure, Except.pure]
          rw [take_succ_getElem data_ n (by omega), nth_eq_getElem data_ n (by omega)]
        · show _ = radixBuckets (radixDigit mn 0) (data_.take ((n : Int) + 1).toNat)
          have e : ((n : Int) + 1).toNat = n + 1 := by omega
          rw [e]
      · right
        refine ⟨radixBuckets (radixDigit mn 0) (data_.take i.toNat), ?_, ?_⟩
        · simp only [RadixSort.first, hlt, if_false, pure, Except.pure]
        · have e : i.toNat = data_.length := by omega
          rw [e, List.take_length]
    · refine ⟨le_refl _, by show (0 : Int) ≤ data_.length; omega, ?_⟩
      show List.replicate 16 [] = radixBuckets (radixDigit mn 0) (data_.take (0 : Int).toNat)
      rw [Int.toNat_zero, List.take_zero, radixBuckets_nil]
    · show ((data_.length : Int) - 0).toNat < data_.length + 1
      omega
  obtain ⟨r, hr, rfl⟩ := key
  exact hr

theorem radix_collect_loop (B : List (List Int)) (hB : B.length = 16) :
    loop (RadixSort.collect 16) ((16 : Int).toNat + 1) (0, [], B)
      = .ok (B.flatten, List.replicate 16 []) := by
  have key : ∃ r, loop (RadixSort.collect 16) ((16 : Int).toNat + 1) (0, [], B) = .ok r ∧
      r = (B.flatten, List.replicate 16 []) := by
    apply loop_spec (RadixSort.collect 16)
      (fun s => ∃ m : Nat, s.1 = m ∧ m ≤ 16 ∧ s.2.1 = (B.take m).flatten ∧
        s.2.2 = List.replicate m [] ++ B.drop m)
      (fun r => r = (B.flatten, List.replicate 16 []))
      (fun s => ((16 : Int) - s.1).toNat)
    · rintro ⟨i, dq, bk⟩ ⟨m, h1, h2, h3, h4⟩
      simp only at h1 h3 h4
      subst h1 h3 h4
      by_cases hlt : (m : Int) < 16
      · left
        have hm : m < B.length := by omega
        have hlen : (List.replicate m ([] : List Int) ++ B.drop m).length = 16 := by
          rw [List.length_append, List.length_replicate, List.length_drop]; omega
        have hget : (List.replicate m ([] : List Int) ++ B.drop m).getD m [] = B[m] := by
          rw [List.getD_eq_getElem?_getD, List.getElem?_append_right
            (by rw [List.length_replicate]), List.length_replicate, Nat.sub_self,
            List.getElem?_drop, Nat.add_zero, List.getElem?_eq_getElem hm]
          rfl
        have hset : (List.replicate m ([] : List Int) ++ B.drop m).set m []
            = List.replicate (m + 1) [] ++ B.drop (m + 1) := by
          rw [List.set_append_right _ _ (by rw [List.length_replicate]), List.length_replicate,
            Nat.sub_self, List.drop_eq_getElem_cons hm, List.set_cons_zero,
            List.replicate_succ', List.append_assoc]
          rfl
        refine ⟨((m : Int) + 1, (B.take (m + 1)).flatten,
          List.replicate (m + 1) [] ++ B.drop (m + 1)), ?_,
          ⟨m + 1, by show (m : Int) + 1 = ((m + 1 : Nat) : Int); omega, by omega, rfl, rfl⟩,
          by show ((16 : Int) - (m + 1)).toNat < ((16 : Int) - m).toNat; omega⟩
        simp only [RadixSort.collect, hlt, if_true, hlen, Int.toNat_ofNat, hget, hset, pure,
          Except.pure]
        rw [if_pos ⟨by omega, by omega⟩, List.take_succ, List.getElem?_eq_getElem hm, List.flatten_append]
        simp
      · right
        have hm : m = 16 := by omega
        subst hm
        refine ⟨((B.take 16).flatten, List.replicate 16 [] ++ B.drop 16), ?_, ?_⟩
        · simp only [RadixSort.collect, hlt, if_false, pure, Except.pure]
        · rw [← hB, List.take_length, List.drop_length, List.append_nil]
    · exact ⟨0, rfl, by omega, rfl, rfl⟩
    · show ((16 : Int) - 0).toNat < (16 : Int).toNat + 1
      decide
  obtain ⟨r, hr, rfl⟩ := key
  exact hr

theorem radix_digits_loop (R : Nat) (hR : 1 ≤ R) :
    ∃ r, loop (RadixSort.digits 16) (((R : Int)).toNat + 1) ((R : Int), 0) = .ok r ∧
      ∃ g : Nat, r = g ∧ 1 ≤ g ∧ 16 ^ (g - 1) ≤ R ∧ R < 16 ^ g := by
  apply loop_spec (RadixSort.digits 16)
    (fun s => ∃ g : Nat, s.2 = g ∧ s.1 = ((R / 16 ^ g : Nat) : Int) ∧ (g = 0 ∨ 16 ^ (g - 1) ≤ R))
    (fun r => ∃ g : Nat, r = g ∧ 1 ≤ g ∧ 16 ^ (g - 1) ≤ R ∧ R < 16 ^ g)
    (fun s => s.1.toNat)
  · rintro ⟨i, digit⟩ ⟨g, h1, h2, h3⟩
    simp only at h1 h2
    subst h1 h2
    have hP : 0 < 16 ^ g := by positivity
    by_cases hpos : ((R / 16 ^ g : Nat) : Int) > 0
    · left
      have hpos' : 0 < R / 16 ^ g := by omega
      have hle : 16 ^ g ≤ R := by
        by_contra hcon
        rw [Nat.div_eq_of_lt (by omega)] at hpos'
        omega
      refine ⟨(((R / 16 ^ (g + 1) : Nat) : Int), ((g + 1 : Nat) : Int)), ?_,
        ⟨g + 1, rfl, rfl, Or.inr (by simpa using hle)⟩, ?_⟩
      · simp only [RadixSort.digits, hpos, if_true, pure, Except.pure]
        rw [Int.tdiv_eq_ediv (by omega) (by omega), pow_succ, ← Nat.div_div_eq_div_mul]
        push_cast
        rfl
      · show ((R / 16 ^ (g + 1) : Nat) : Int).toNat < ((R / 16 ^ g : Nat) : Int).toNat
        rw [Int.toNat_ofNat, Int.toNat_ofNat, pow_succ, ← Nat.div_div_eq_div_mul]
        exact Nat.div_lt_self hpos' (by omega)
    · right
      have hz : R / 16 ^ g = 0 := by
        by_contra hne
        exact hpos (by exact_mod_cast Nat.pos_of_ne_zero hne)
      have hlt : R < 16 ^ g := (Nat.div_eq_zero_iff hP).mp hz
      have hg : g ≠ 0 := by
        intro e
        rw [e, pow_zero] at hlt
        omega
      refine ⟨(g : Int), ?_, g, rfl, by omega, ?_, hlt⟩
      · simp only [RadixSort.digits, hpos, if_false, pure, Except.pure]
      · rcases h3 with h | h
        · exact absurd h hg
        · exact h
  · exact ⟨0, rfl, by simp, Or.inl rfl⟩
  · show ((R : Int)).toNat < ((R : Int)).toNat + 1
    omega

theorem radix_copy_loop : ∀ (rest pre tail : List Int), tail.length = rest.length →
    loop RadixSort.copyDataFromQueue (rest.length + 1) ((pre.length : Int), rest, pre ++ tail)
      = .ok (pre ++ rest) := by
  intro rest
  induction rest with
  | nil =>
    intro pre tail ht
    have : tail = [] := List.eq_nil_of_length_eq_zero ht
    subst this
    simp only [loop, RadixSort.copyDataFromQueue, pure, Except.pure, List.length_nil]
  | cons v it ih =>
    intro pre tail ht
    match tail, ht with
    | t :: tail', ht =>
      have hstep : RadixSort.copyDataFromQueue ((pre.length : Int), v :: it, pre ++ t :: tail')
          = .ok (.inl (((pre ++ [v]).length : Int), it, (pre ++ [v]) ++ tail')) := by
        simp only [RadixSort.copyDataFromQueue, vecSet_mid pre tail' t v _ rfl, bind, Except.bind,
          pure, Except.pure, List.length_append, List.length_singleton, Nat.cast_add,
          Nat.cast_one, List.append_assoc, List.singleton_append]
      rw [List.length_cons, loop_continue _ _ _ _ hstep,
        ih (pre ++ [v]) tail' (by simpa using ht)]
      simp

/-- Collecting the buckets of a round keeps every element. -/
theorem radixRound_perm (κ : Int → Nat) (hκ : ∀ v, κ v < 16) (q : List Int) :
    (radixBuckets κ q).flatten.Perm q := by
  have key : ∀ m : Nat, ((List.range m).map
      (fun b => q.filter (fun v => decide (κ v = b)))).flatten.Perm
        (q.filter (fun v => decide (κ v < m))) := by
    intro m
    induction m with
    | zero => simp
    | succ m ih =>
      rw [List.range_succ, List.map_append, List.flatten_append]
      have h1 := List.filter_append_perm (fun v => decide (κ v < m))
        (q.filter (fun v => decide (κ v < m + 1)))
      rw [List.filter_filter, List.filter_filter] at h1
      have e1 : (fun a => decide (κ a < m) && decide (κ a < m + 1))
          = (fun v => decide (κ v < m)) := by
        funext a
        by_cases c : κ a < m
        · simp [c]; omega
        · simp [c]
      have e2 : (fun a => (!decide (κ a < m)) && decide (κ a < m + 1))
          = (fun v => decide (κ v = m)) := by
        funext a
        by_cases c : κ a < m
        · have : κ a ≠ m := by omega
          simp [c, this]
        · by_cases c' : κ a = m
          · simp [c']
          · have : ¬ κ a < m + 1 := by omega
            simp [c, c', this]
      rw [e1, e2] at h1
      refine List.Perm.trans ?_ h1
      simp only [List.map_cons, List.map_nil, List.flatten_cons, List.flatten_nil,
        List.append_nil]
      exact List.Perm.append_right _ ih
  have := key 16
  have e : q.filter (fun v => decide (κ v < 16)) = q := by
    rw [List.filter_eq_self]
    intro a _
    simpa using hκ a
  rw [e] at this
  exact this

/-- A round on the digit of weight `16 ^ k` turns a queue ordered by its lowest `k`
digits into one ordered by its lowest `k + 1` digits. -/
theorem radixRound_sorted (mn : Int) (k : Nat) (q : List Int)
    (hs : q.Pairwise (fun a b => radixKey mn k a ≤ radixKey mn k b)) :
    (radixBuckets (radixDigit mn k) q).flatten.Pairwise
      (fun a b => radixKey mn (k + 1) a ≤ radixKey mn (k + 1) b) := by
  have hkey : ∀ v, radixKey mn (k + 1) v = radixKey mn k v + 16 ^ k * radixDigit mn k v := by
    intro v
    unfold radixKey radixDigit
    rw [pow_succ, Nat.mod_mul]
  have hlt : ∀ v, radixKey mn k v < 16 ^ k := by
    intro v
    unfold radixKey
    exact Nat.mod_lt _ (by positivity)
  unfold radixBuckets
  rw [List.pairwise_flatten]
  constructor
  · intro l hl
    obtain ⟨b, _, rfl⟩ := List.mem_map.mp hl
    refine List.Pairwise.imp_of_mem ?_ (hs.filter _)
    intro x y hx hy hxy
    have ex := (List.mem_filter.mp hx).2
    have ey := (List.mem_filter.mp hy).2
    simp only [decide_eq_true_eq] at ex ey
    rw [hkey x, hkey y, ex, ey]
    omega
  · rw [List.pairwise_map]
    refine (List.pairwise_lt_range 16).imp ?_
    intro b1 b2 hb x hx y hy
    have ex := (List.mem_filter.mp hx).2
    have ey := (List.mem_filter.mp hy).2
    simp only [decide_eq_true_eq] at ex ey
    rw [hkey x, hkey y, ex, ey]
    have h1 := hlt x
    have h2 : 16 ^ k * (b1 + 1) ≤ 16 ^ k * b2 := Nat.mul_le_mul_left _ hb
    rw [Nat.mul_succ] at h2
    omega

theorem wrapInt_small (x : Int) (h0 : -2147483648 ≤ x) (h1 : x < 2147483648) : wrapInt x = x := by
  unfold wrapInt
  omega

theorem radix_pass_loop (data_ : List Int) (mn : Int) (g : Nat) (hg1 : 1 ≤ g) (hg8 : g ≤ 8)
    (hmn : ∀ v ∈ data_, mn ≤ v) (q1 : List Int) (hp : q1.Perm data_)
    (hs : q1.Pairwise (fun a b => radixKey mn 1 a ≤ radixKey mn 1 b)) :
    ∃ r, loop (RadixSort.pass mn 16 g) (((g : Int)).toNat + 1)
        (1, 16, q1, List.replicate 16 []) = .ok r ∧
      (r.Perm data_ ∧ r.Pairwise (fun a b => radixKey mn g a ≤ radixKey mn g b)) := by
  apply loop_spec (RadixSort.pass mn 16 g)
    (fun s => ∃ k : Nat, s.1 = k ∧ 1 ≤ k ∧ k ≤ g ∧ (k < g → s.2.1 = (16 : Int) ^ k) ∧
      s.2.2.2 = List.replicate 16 [] ∧ s.2.2.1.Perm data_ ∧
      s.2.2.1.Pairwise (fun a b => radixKey mn k a ≤ radixKey mn k b))
    (fun r => r.Perm data_ ∧ r.Pairwise (fun a b => radixKey mn g a ≤ radixKey mn g b))
    (fun s => ((g : Int) - s.1).toNat)
  · rintro ⟨i, divNum, q, bucket⟩ ⟨k, h1, h2, h3, h4, h5, h6, h7⟩
    simp only at h1 h4 h5 h6 h7
    subst h1 h5
    by_cases hlt : (k : Int) < g
    · left
      have h4' := h4 (by omega)
      subst h4'
      have hsc := radix_scatter_loop mn k q [] (fun v hv => hmn v (h6.mem_iff.mp hv))
      rw [radixBuckets_nil, List.nil_append] at hsc
      have hco := radix_collect_loop (radixBuckets (radixDigit mn k) q) (radixBuckets_length _ _)
      have hpow : (16 : Int) ^ k * 16 = (16 : Int) ^ (k + 1) := by rw [pow_succ]
      have hsmall : k + 1 < g → (16 : Int) ^ (k + 1) < 2147483648 := by
        intro hk
        have h := Nat.pow_le_pow_right (show 0 < 16 by omega) (show k + 1 ≤ 7 by omega)
        have h' : ((16 ^ (k + 1) : Nat) : Int) ≤ ((16 ^ 7 : Nat) : Int) := by exact_mod_cast h
        push_cast at h'
        have : (16 : Int) ^ 7 = 268435456 := by norm_num
        omega
      have hnn : (0 : Int) ≤ (16 : Int) ^ (k + 1) := by positivity
      refine ⟨(((k + 1 : Nat) : Int), wrapInt ((16 : Int) ^ (k + 1)),
        (radixBuckets (radixDigit mn k) q).flatten, List.replicate 16 []), ?_,
        ⟨k + 1, rfl, by omega, by omega,
          fun hk => wrapInt_small _ (by omega) (hsmall hk), rfl,
          (radixRound_perm _ (fun v => radixDigit_lt mn v k) q).trans h6,
          radixRound_sorted mn k q h7⟩, ?_⟩
      · simp only [RadixSort.pass, hlt, if_true, hsc, bind, Except.bind, hco, hpow, pure,
          Except.pure]
        rfl
      · show ((g : Int) - ((k + 1 : Nat) : Int)).toNat < ((g : Int) - k).toNat
        omega
    · right
      have e : k = g := by omega
      subst e
      refine ⟨q, ?_, h6, h7⟩
      simp only [RadixSort.pass, hlt, if_false, pure, Except.pure]
  · exact ⟨1, rfl, le_refl _, hg1, fun _ => by norm_num, rfl, hp, hs⟩
  · show ((g : Int) - 1).toNat < ((g : Int)).toNat + 1
    omega

theorem radix_scan_loop (d : List Int) (hn : 2 ≤ d.length) :
    ∃ r, loop (RadixSort.scan d d.length) (d.length + 1) (1, nth d 0, nth d 0) = .ok r ∧
      ((∀ x ∈ d, r.2 ≤ x ∧ x ≤ r.1) ∧ r.1 ∈ d ∧ r.2 ∈ d) :=
  bead_scan_loop d hn

theorem radix_within (data_ : List Int) (hn : ¬ data_.length < 2)
    (hrange : ∀ x ∈ data_, ∀ y ∈ data_, x - y < 4294967296) :
    NSortAlgorithms.RadixSort data_ = .ok (sortedCopy data_) := by
  unfold NSortAlgorithms.RadixSort
  rw [if_neg hn]
  obtain ⟨⟨mx, mn⟩, hscan, hall, hmx, hmn⟩ := radix_scan_loop data_ (by omega)
  simp only at hall hmx hmn
  simp only [vecGet_ok data_ 0 (le_refl _) (by omega), bind, Except.bind, hscan]
  by_cases hz : mx - mn = 0
  · rw [if_pos hz]
    show Except.ok data_ = _
    congr 1
    apply eq_sortedCopy data_ data_ (List.Perm.refl _)
    intro a b ha hab hb
    have h1 := hall _ (nth_mem data_ a ha (by omega))
    have h2 := hall _ (nth_mem data_ b (by omega) hb)
    omega
  · rw [if_neg hz]
    have hlow : ∀ v ∈ data_, mn ≤ v := fun v hv => (hall v hv).1
    have hpos : 0 < mx - mn := by
      have := (hall mx hmx).1
      omega
    obtain ⟨R, hR⟩ := Int.eq_ofNat_of_zero_le (show 0 ≤ mx - mn by omega)
    have hfirst := radix_first_loop data_ mn hlow
    have hco := radix_collect_loop (radixBuckets (radixDigit mn 0) data_)
      (radixBuckets_length _ _)
    obtain ⟨gi, hdig, g, rfl, hg1, hglo, hghi⟩ := radix_digits_loop R (by omega)
    have hR8 : R < 16 ^ 8 := by
      have := hrange mx hmx mn hmn
      norm_num
      omega
    have hg8 : g ≤ 8 := by
      by_contra hcon
      have := Nat.pow_le_pow_right (show 0 < 16 by omega) (show 8 ≤ g - 1 by omega)
      omega
    have hs0 : data_.Pairwise (fun a b => radixKey mn 0 a ≤ radixKey mn 0 b) := by
      apply List.pairwise_of_forall
      intro x y
      unfold radixKey
      simp [Nat.mod_one]
    have hs1 := radixRound_sorted mn 0 data_ hs0
    have hp1 := radixRound_perm (radixDigit mn 0) (fun v => radixDigit_lt mn v 0) data_
    obtain ⟨r, hpass, hpr, hsr⟩ := radix_pass_loop data_ mn g hg1 hg8 hlow _ hp1 hs1
    have hsorted : List.Sorted (· ≤ ·) r := by
      unfold List.Sorted
      refine List.Pairwise.imp_of_mem ?_ hsr
      intro x y hx hy hxy
      have bx := hall x (hpr.mem_iff.mp hx)
      have y' := hall y (hpr.mem_iff.mp hy)
      unfold radixKey at hxy
      rw [Nat.mod_eq_of_lt (by omega), Nat.mod_eq_of_lt (by omega)] at hxy
      omega
    have hr : r = sortedCopy data_ :=
      List.eq_of_perm_of_sorted (hpr.trans (sortedCopy_perm data_).symm) hsorted
        (sortedCopy_sorted data_)
    have hcopy := radix_copy_loop r [] data_ hpr.length_eq.symm
    simp only [List.length_nil, Nat.cast_zero, List.nil_append] at hcopy
    subst hr
    have e16 : (16 : Int).toNat = 16 := rfl
    rw [e16] at hco
    rw [hR, e16]
    simp only [hfirst, hco, hdig, hpass, hcopy]

/-! ## Lemmas on `CycleSort` -/

theorem below_nonneg (M : List Int) (v : Int) : 0 ≤ below M v := by unfold below; omega

theorem copies_nonneg (M : List Int) (v : Int) : 0 ≤ copies M v := by unfold copies; omega

theorem below_add_copies_le (M : List Int) (w v : Int) (h : w < v) :
    below M w + copies M w ≤ below M v := by
  unfold below copies
  induction M with
  | nil => simp
  | cons y ys ih =>
    simp only [List.countP_cons, decide_eq_true_eq, Nat.cast_add, Nat.cast_ite, Nat.cast_one,
      Nat.cast_zero] at ih ⊢
    split_ifs <;> omega

theorem below_add_copies_le_length (M : List Int) (v : Int) :
    below M v + copies M v ≤ M.length := by
  unfold below copies
  induction M with
  | nil => simp
  | cons y ys ih =>
    simp only [List.countP_cons, decide_eq_true_eq, Nat.cast_add, List.length_cons,
      Nat.cast_ite, Nat.cast_one, Nat.cast_zero] at ih ⊢
    split_ifs <;> omega

theorem cycleHome_unique (M : List Int) (cs v w p : Int) (hv : CycleHome M cs v p)
    (hw : CycleHome M cs w p) : v = w := by
  unfold CycleHome at hv hw
  by_contra hne
  rcases lt_or_gt_of_ne hne with h | h
  · have := below_add_copies_le M v w h
    omega
  · have := below_add_copies_le M w v h
    omega

theorem below_perm (M M' : List Int) (h : M.Perm M') (v : Int) : below M v = below M' v := by
  unfold below
  rw [h.countP_eq]

theorem copies_perm (M M' : List Int) (h : M.Perm M') (v : Int) : copies M v = copies M' v := by
  unfold copies
  rw [h.countP_eq]

theorem below_cons (M : List Int) (y v : Int) :
    below (y :: M) v = below M v + (if y < v then 1 else 0) := by
  unfold below
  rw [List.countP_cons]
  simp only [decide_eq_true_eq, Nat.cast_add]
  split <;> rfl

theorem copies_cons (M : List Int) (y v : Int) :
    copies (y :: M) v = copies M v + (if y = v then 1 else 0) := by
  unfold copies
  rw [List.countP_cons]
  simp only [decide_eq_true_eq, Nat.cast_add]
  split <;> rfl

theorem below_append (A B : List Int) (v : Int) : below (A ++ B) v = below A v + below B v := by
  unfold below
  rw [List.countP_append]
  push_cast
  rfl

theorem copies_append (A B : List Int) (v : Int) :
    copies (A ++ B) v = copies A v + copies B v := by
  unfold copies
  rw [List.countP_append]
  push_cast
  rfl

theorem misplaced_le (M : List Int) (cs : Int) :
    ∀ (l : List Int) (p : Int), misplaced M cs p l ≤ l.length := by
  intro l
  induction l with
  | nil => intro p; simp [misplaced]
  | cons v vs ih =>
    intro p
    have := ih (p + 1)
    simp only [misplaced, List.length_cons]
    split <;> omega

theorem misplaced_set (M : List Int) (cs : Int) :
    ∀ (l : List Int) (p : Int) (i : Nat) (v : Int) (h : i < l.length),
      misplaced M cs p (l.set i v) + (if CycleHome M cs l[i] (p + i) then 0 else 1)
        = misplaced M cs p l + (if CycleHome M cs v (p + i) then 0 else 1) := by
  intro l
  induction l with
  | nil => intro p i v h; simp at h
  | cons y ys ih =>
    intro p i v h
    cases i with
    | zero =>
      simp only [List.set_cons_zero, misplaced, List.getElem_cons_zero, Nat.cast_zero, add_zero]
      omega
    | succ i =>
      have := ih (p + 1) i v (by simpa using h)
      simp only [List.set_cons_succ, misplaced, List.getElem_cons_succ, Nat.cast_add,
        Nat.cast_one]
      have e : p + (↑i + 1) = p + 1 + ↑i := by omega
      rw [e]
      omega

theorem slice_full (d : List Int) (l : Int) (h0 : 0 ≤ l) :
    slice d l ((d.length : Int) - 1) = d.drop l.toNat := by
  unfold slice
  apply List.take_of_length_le
  rw [List.length_drop]
  omega

theorem slice_succ (d : List Int) (l r : Int) (h0 : 0 ≤ l) (hlr : l ≤ r + 1)
    (hr : r + 1 < d.length) : slice d l (r + 1) = slice d l r ++ [nth d (r + 1)] := by
  unfold slice
  have e : (r + 1 + 1 - l).toNat = (r + 1 - l).toNat + 1 := by omega
  have hlt : (r + 1 - l).toNat < (d.drop l.toNat).length := by
    rw [List.length_drop]; omega
  rw [e, take_succ_getElem _ _ hlt, List.getElem_drop]
  congr 2
  have hn := nth_eq_getElem d (l.toNat + (r + 1 - l).toNat) (by omega)
  rw [← hn]
  congr 1
  omega

theorem set_nth_self (d : List Int) (i : Int) (h0 : 0 ≤ i) (h1 : i < d.length) :
    d.set i.toNat (nth d i) = d := by
  apply ext_nth _ _ (by simp)
  intro k hk0 hk
  rw [nth_set d i k _ h0 h1 hk0]
  split
  · rename_i e; rw [e]
  · rfl

/-- The elements of a rearranged range, with the element at its start held aside. -/
theorem region_perm (d0 dc : List Int) (cs item : Int) (h0 : 0 ≤ cs) (hcs : cs < d0.length)
    (hV : Shuffled cs ((d0.length : Int) - 1) d0 (dc.set cs.toNat item)) :
    (item :: dc.drop (cs + 1).toNat).Perm (d0.drop cs.toNat) := by
  have hlen : dc.length = d0.length := by
    have := hV.1
    simpa using this
  have hp := shuffled_slice cs ((d0.length : Int) - 1) d0 _ hV h0 (by omega)
  rw [slice_full d0 cs h0] at hp
  have e : slice (dc.set cs.toNat item) cs ((d0.length : Int) - 1)
      = item :: dc.drop (cs + 1).toNat := by
    have h1 := slice_full (dc.set cs.toNat item) cs h0
    rw [List.length_set, hlen] at h1
    rw [h1, List.drop_eq_getElem_cons (by rw [List.length_set]; omega), List.getElem_set_self]
    have e2 : (cs + 1).toNat = cs.toNat + 1 := by omega
    rw [e2, List.drop_set_of_lt _ _ (by omega)]
  rw [e] at hp
  exact hp

theorem run_copies (l : List Int) (item : Int) (a p : Nat) (hp : p ≤ l.length)
    (hrun : ∀ k : Nat, a ≤ k → k < p → l[k]? = some item) :
    ((p - a : Nat) : Int) ≤ copies l item := by
  unfold copies
  have hsub : ((l.take p).drop a).Sublist l :=
    (List.drop_sublist _ _).trans (List.take_sublist _ _)
  have h1 := hsub.countP_le (fun y => decide (y = item))
  have h2 : ((l.take p).drop a).countP (fun y => decide (y = item))
      = ((l.take p).drop a).length := by
    rw [List.countP_eq_length]
    intro y hy
    obtain ⟨j, hj, rfl⟩ := List.mem_iff_getElem.mp hy
    rw [List.length_drop, List.length_take] at hj
    rw [List.getElem_drop, List.getElem_take]
    have := hrun (a + j) (by omega) (by omega)
    rw [List.getElem?_eq_getElem (by omega)] at this
    simpa using this
  rw [h2, List.length_drop, List.length_take] at h1
  have : min p l.length = p := by omega
  rw [this] at h1
  exact_mod_cast h1

theorem cycle_count_loop (dc : List Int) (cs item : Int) (h0 : 0 ≤ cs) (hcs : cs < dc.length) :
    loop (CycleSort.count dc dc.length item) (dc.length + 1) (cs + 1, cs)
      = .ok (cs + below (dc.drop (cs + 1).toNat) item) := by
  have key : ∃ r, loop (CycleSort.count dc dc.length item) (dc.length + 1) (cs + 1, cs)
      = .ok r ∧ r = cs + below (dc.drop (cs + 1).toNat) item := by
    apply loop_spec (CycleSort.count dc dc.length item)
      (fun s => cs + 1 ≤ s.1 ∧ s.1 ≤ dc.length ∧
        s.2 = cs + below (slice dc (cs + 1) (s.1 - 1)) item)
      (fun r => r = cs + below (dc.drop (cs + 1).toNat) item)
      (fun s => ((dc.length : Int) - s.1).toNat)
    · rintro ⟨i, p⟩ ⟨h1, h2, h3⟩
      simp only at h1 h2 h3
      subst h3
      by_cases hlt : i < dc.length
      · left
        have hg := vecGet_ok dc i (by omega) hlt
        have hs := slice_succ dc (cs + 1) (i - 1) (by omega) (by omega) (by omega)
        have e : i - 1 + 1 = i := by omega
        rw [e] at hs
        have hb : below (slice dc (cs + 1) i) item
            = below (slice dc (cs + 1) (i - 1)) item + (if nth dc i < item then 1 else 0) := by
          rw [hs, below_append, below_cons]
          unfold below
          simp
        by_cases c : nth dc i < item
        · rw [if_pos c] at hb
          refine ⟨(i + 1, cs + below (slice dc (cs + 1) (i - 1)) item + 1), ?_,
            ⟨by show cs + 1 ≤ i + 1; omega, by show i + 1 ≤ _; omega, ?_⟩,
            by show ((dc.length : Int) - (i + 1)).toNat < ((dc.length : Int) - i).toNat; omega⟩
          · simp only [CycleSort.count, hlt, if_true, hg, bind, Except.bind, if_pos c, pure,
              Except.pure]
          · show _ = cs + below (slice dc (cs + 1) (i + 1 - 1)) item
            have e' : i + 1 - 1 = i := by omega
            rw [e', hb]; omega
        · rw [if_neg c] at hb
          refine ⟨(i + 1, cs + below (slice dc (cs + 1) (i - 1)) item), ?_,
            ⟨by show cs + 1 ≤ i + 1; omega, by show i + 1 ≤ _; omega, ?_⟩,
            by show ((dc.length : Int) - (i + 1)).toNat < ((dc.length : Int) - i).toNat; omega⟩
          · simp only [CycleSort.count, hlt, if_true, hg, bind, Except.bind, if_neg c, pure,
              Except.pure]
          · show _ = cs + below (slice dc (cs + 1) (i + 1 - 1)) item
            have e' : i + 1 - 1 = i := by omega
            rw [e', hb]; omega
      · right
        refine ⟨cs + below (slice dc (cs + 1) (i - 1)) item, ?_, ?_⟩
        · simp only [CycleSort.count, hlt, if_false, pure, Except.pure]
        · have e : i - 1 = (dc.length : Int) - 1 := by omega
          rw [e, slice_full dc (cs + 1) (by omega)]
    · refine ⟨le_refl _, by show cs + 1 ≤ (dc.length : Int); omega, ?_⟩
      show cs = cs + below (slice dc (cs + 1) (cs + 1 - 1)) item
      have : slice dc (cs + 1) (cs + 1 - 1) = [] := by
        unfold slice
        have : (cs + 1 - 1 + 1 - (cs + 1)).toNat = 0 := by omega
        rw [this, List.take_zero]
      rw [this]
      unfold below
      simp
    · show ((dc.length : Int) - (cs + 1)).toNat < dc.length + 1
      omega
  obtain ⟨r, hr, rfl⟩ := key
  exact hr

theorem cycle_skip_loop (d : List Int) (item pos0 B : Int) (h0 : 0 ≤ pos0)
    (hp0 : pos0 ≤ d.length) (hB : B ≤ d.length)
    (hrun : ∀ p : Int, pos0 ≤ p → p ≤ d.length →
      (∀ k : Int, pos0 ≤ k → k < p → nth d k = item) → p < B) :
    ∃ p, loop (CycleSort.skip d item) (d.length + 1) pos0 = .ok p ∧
      (pos0 ≤ p ∧ p < B ∧ (∀ k : Int, pos0 ≤ k → k < p → nth d k = item) ∧ nth d p ≠ item) := by
  apply loop_spec (CycleSort.skip d item)
    (fun p => pos0 ≤ p ∧ p ≤ d.length ∧ ∀ k : Int, pos0 ≤ k → k < p → nth d k = item)
    (fun p => pos0 ≤ p ∧ p < B ∧ (∀ k : Int, pos0 ≤ k → k < p → nth d k = item) ∧
      nth d p ≠ item)
    (fun p => ((d.length : Int) - p).toNat)
  · rintro p ⟨h1, h2, h3⟩
    have hpB := hrun p h1 h2 h3
    have hg := vecGet_ok d p (by omega) (by omega)
    by_cases c : item = nth d p
    · left
      refine ⟨p + 1, ?_, ⟨by omega, by omega, ?_⟩, by omega⟩
      · simp only [CycleSort.skip, hg, bind, Except.bind, if_pos c, pure, Except.pure]
      · intro k hk1 hk2
        by_cases e : k = p
        · rw [e]; exact c.symm
        · exact h3 k hk1 (by omega)
    · right
      refine ⟨p, ?_, h1, hpB, h3, fun h => c h.symm⟩
      simp only [CycleSort.skip, hg, bind, Except.bind, if_neg c, pure, Except.pure]
  · exact ⟨le_refl _, hp0, fun k h1 h2 => by omega⟩
  · show ((d.length : Int) - pos0).toNat < d.length + 1
    omega

theorem nth_drop (d : List Int) (a : Nat) (k : Nat) : (d.drop a)[k]? = some (nth d (a + k : Nat))
    ∨ d.length ≤ a + k := by
  by_cases h : a + k < d.length
  · left
    rw [List.getElem?_drop, List.getElem?_eq_getElem h, nth_eq_getElem d (a + k) h]
  · right; omega

/-- One placement of `CycleSort`: the item in hand goes to the first index, from its
first place on, that does not hold an equal element, and takes the element found
there in exchange. -/
theorem cycle_place (d0 dc : List Int) (cs item : Int) (h0 : 0 ≤ cs) (hcs : cs < d0.length)
    (hlen : dc.length = d0.length)
    (hV : Shuffled cs ((d0.length : Int) - 1) d0 (dc.set cs.toNat item))
    (hL : 1 ≤ below (d0.drop cs.toNat) item) :
    below (dc.drop (cs + 1).toNat) item = below (d0.drop cs.toNat) item ∧
    ∃ pos, loop (CycleSort.skip dc item) (dc.length + 1)
        (cs + below (dc.drop (cs + 1).toNat) item) = .ok pos ∧
      cs < pos ∧ pos < d0.length ∧ nth dc pos ≠ item ∧
      Shuffled cs ((d0.length : Int) - 1) d0 ((dc.set pos.toNat item).set cs.toNat (nth dc pos)) ∧
      misplaced (d0.drop cs.toNat) cs (cs + 1) ((dc.set pos.toNat item).drop (cs + 1).toNat) + 1
        = misplaced (d0.drop cs.toNat) cs (cs + 1) (dc.drop (cs + 1).toNat) := by
  have hperm := region_perm d0 dc cs item h0 hcs hV
  have hb : below (d0.drop cs.toNat) item = below (dc.drop (cs + 1).toNat) item := by
    rw [← below_perm _ _ hperm, below_cons, if_neg (lt_irrefl _)]
    omega
  have hc : copies (d0.drop cs.toNat) item = copies (dc.drop (cs + 1).toNat) item + 1 := by
    rw [← copies_perm _ _ hperm, copies_cons, if_pos rfl]
  have hsum := below_add_copies_le_length (d0.drop cs.toNat) item
  rw [List.length_drop] at hsum
  have hcn := copies_nonneg (dc.drop (cs + 1).toNat) item
  refine ⟨hb.symm, ?_⟩
  rw [← hb]
  obtain ⟨pos, hrun, hp1, hp2, hp3, hp4⟩ := cycle_skip_loop dc item
    (cs + below (d0.drop cs.toNat) item)
    (cs + below (d0.drop cs.toNat) item + copies (d0.drop cs.toNat) item)
    (by omega) (by omega) (by omega)
    (by
      intro p hp1 hp2 hall
      have := run_copies (dc.drop (cs + 1).toNat) item
        (cs + below (d0.drop cs.toNat) item - (cs + 1)).toNat (p - (cs + 1)).toNat
        (by rw [List.length_drop]; omega)
        (by
          intro k hk1 hk2
          rcases nth_drop dc (cs + 1).toNat k with h | h
          · rw [h, hall _ (by omega) (by omega)]
          · omega)
      omega)
  refine ⟨pos, hrun, by omega, by omega, hp4, ?_, ?_⟩
  · have hsw := shuffled_swapAt cs ((d0.length : Int) - 1) (dc.set cs.toNat item) cs pos h0
      (by simp; omega) (le_refl _) (by omega) (by omega) (by omega)
    have e : (dc.set pos.toNat item).set cs.toNat (nth dc pos)
        = swapAt (dc.set cs.toNat item) cs pos := by
      apply ext_nth _ _ (by simp [length_swapAt])
      intro k hk0 hk
      rw [nth_set _ cs k _ h0 (by simp; omega) hk0, nth_set _ pos k _ (by omega) (by omega) hk0,
        nth_swapAt _ cs pos k h0 (by simp; omega) (by omega) (by simp; omega) hk0,
        nth_set _ cs cs _ h0 (by omega) h0, nth_set _ cs pos _ h0 (by omega) (by omega),
        nth_set _ cs k _ h0 (by omega) hk0]
      by_cases e1 : k = cs
      · rw [if_pos e1, if_neg (by omega), if_pos e1, if_neg (by omega)]
      · rw [if_neg e1, if_neg e1]
        by_cases e2 : k = pos
        · rw [if_pos e2, if_pos e2, if_pos rfl]
        · rw [if_neg e2, if_neg e2, if_neg e1]
    rw [e]
    exact shuffled_trans hV hsw
  · have hset : (dc.set pos.toNat item).drop (cs + 1).toNat
        = (dc.drop (cs + 1).toNat).set (pos - (cs + 1)).toNat item := by
      rw [List.drop_set, if_neg (by omega)]
      congr 1
      omega
    have hi : (pos - (cs + 1)).toNat < (dc.drop (cs + 1).toNat).length := by
      rw [List.length_drop]; omega
    have hms := misplaced_set (d0.drop cs.toNat) cs (dc.drop (cs + 1).toNat) (cs + 1)
      (pos - (cs + 1)).toNat item hi
    have hel : (dc.drop (cs + 1).toNat)[(pos - (cs + 1)).toNat] = nth dc pos := by
      rw [List.getElem_drop]
      have := nth_eq_getElem dc ((cs + 1).toNat + (pos - (cs + 1)).toNat) (by omega)
      rw [← this]
      congr 1
      omega
    have hpp : cs + 1 + ((pos - (cs + 1)).toNat : Int) = pos := by omega
    rw [hel, hpp] at hms
    have hhome : CycleHome (d0.drop cs.toNat) cs item pos := ⟨hp1, hp2⟩
    have hnot : ¬ CycleHome (d0.drop cs.toNat) cs (nth dc pos) pos := fun h =>
      hp4 (cycleHome_unique _ cs _ _ pos h hhome)
    rw [if_pos hhome, if_neg hnot] at hms
    rw [hset]
    omega

theorem region_below (d0 dc : List Int) (cs item : Int) (h0 : 0 ≤ cs) (hcs : cs < d0.length)
    (hV : Shuffled cs ((d0.length : Int) - 1) d0 (dc.set cs.toNat item)) :
    below (dc.drop (cs + 1).toNat) item = below (d0.drop cs.toNat) item := by
  have hperm := region_perm d0 dc cs item h0 hcs hV
  rw [← below_perm _ _ hperm, below_cons, if_neg (lt_irrefl _)]
  omega

theorem nth_mem_drop (d : List Int) (cs k : Int) (h0 : 0 ≤ cs) (hk0 : cs ≤ k)
    (hk : k < d.length) : nth d k ∈ d.drop cs.toNat := by
  rw [List.mem_iff_getElem]
  refine ⟨(k - cs).toNat, by rw [List.length_drop]; omega, ?_⟩
  rw [List.getElem_drop]
  have := nth_eq_getElem d (cs.toNat + (k - cs).toNat) (by omega)
  rw [← this]
  congr 1
  omega

/-- An element with nothing smaller in the range is a least element of it. -/
theorem cycle_min (d0 d : List Int) (cs : Int) (h0 : 0 ≤ cs)
    (hsh : Shuffled cs ((d0.length : Int) - 1) d0 d)
    (hb : below (d0.drop cs.toNat) (nth d cs) = 0) :
    ∀ b : Int, cs ≤ b → b < d0.length → nth d cs ≤ nth d b := by
  intro b hb1 hb2
  obtain ⟨k', g1, g2, g3⟩ := hsh.2.2.2 b hb1 (by omega)
  have hm := nth_mem_drop d0 cs k' h0 g1 (by omega)
  unfold below at hb
  have hz : (d0.drop cs.toNat).countP (fun y => decide (y < nth d cs)) = 0 := by omega
  rw [List.countP_eq_zero] at hz
  have := hz _ hm
  simp only [decide_eq_true_eq] at this
  rw [g3]
  omega

theorem cycle_rotate_loop (d0 : List Int) (cs x : Int) (h0 : 0 ≤ cs) (hcs : cs < d0.length)
    (hx : 1 ≤ below (d0.drop cs.toNat) x) (item pos : Int) (dc : List Int)
    (hlen : dc.length = d0.length) (hpos : pos ≠ cs)
    (hV : Shuffled cs ((d0.length : Int) - 1) d0 (dc.set cs.toNat item))
    (hstale : nth dc cs = x) :
    ∃ r, loop (CycleSort.rotate d0.length cs) (d0.length + 1) (item, pos, dc) = .ok r ∧
      (Shuffled cs ((d0.length : Int) - 1) d0 r ∧
        ∀ b : Int, cs ≤ b → b < d0.length → nth r cs ≤ nth r b) := by
  apply loop_spec (CycleSort.rotate d0.length cs)
    (fun s => s.2.2.length = d0.length ∧
      ((s.2.1 ≠ cs ∧ Shuffled cs ((d0.length : Int) - 1) d0 (s.2.2.set cs.toNat s.1) ∧
          nth s.2.2 cs = x) ∨
        (s.2.1 = cs ∧ Shuffled cs ((d0.length : Int) - 1) d0 s.2.2 ∧
          ∀ b : Int, cs ≤ b → b < d0.length → nth s.2.2 cs ≤ nth s.2.2 b)))
    (fun r => Shuffled cs ((d0.length : Int) - 1) d0 r ∧
        ∀ b : Int, cs ≤ b → b < d0.length → nth r cs ≤ nth r b)
    (fun s => misplaced (d0.drop cs.toNat) cs (cs + 1) (s.2.2.drop (cs + 1).toNat)
      + (if s.2.1 ≠ cs then 1 else 0))
  · rintro ⟨it, p, d⟩ ⟨hl, hcase⟩
    simp only at hl hcase
    rcases hcase with ⟨hp, hsh, hst⟩ | ⟨hp, hsh, hmin⟩
    · left
      have hcount := cycle_count_loop d cs it h0 (by omega)
      have hbel := region_below d0 d cs it h0 hcs hsh
      rw [hl] at hcount
      by_cases hb0 : below (d0.drop cs.toNat) it = 0
      · have hne : it ≠ x := by
          intro e
          rw [e] at hb0
          omega
        obtain ⟨q, hskip, hq1, hq2, hq3, hq4⟩ := cycle_skip_loop d it cs (cs + 1) h0 (by omega)
          (by omega)
          (by
            intro q hq1 _ hall
            by_contra hcon
            have := hall cs (le_refl _) (by omega)
            rw [hst] at this
            exact hne this.symm)
        have hq : q = cs := by omega
        subst hq
        rw [hl] at hskip
        refine ⟨(x, q, d.set q.toNat it), ?_, ⟨by simp [hl], Or.inr ⟨rfl, hsh, ?_⟩⟩, ?_⟩
        · simp only [CycleSort.rotate, ne_eq, hp, not_false_eq_true, if_true, hl, hcount, hbel,
            hb0, add_zero, bind, Except.bind, hskip, vecGet_ok d q h0 (by omega), hst,
            vecSet_ok d q _ h0 (by omega), pure, Except.pure]
          rw [if_pos hne]
        · apply cycle_min d0 _ q h0 hsh
          rw [nth_set d q q _ h0 (by omega) h0, if_pos rfl]
          exact hb0
        · show misplaced _ q (q + 1) ((d.set q.toNat it).drop (q + 1).toNat)
            + (if q ≠ q then 1 else 0)
            < misplaced _ q (q + 1) (d.drop (q + 1).toNat) + (if p ≠ q then 1 else 0)
          rw [List.drop_set_of_lt _ _ (by omega), if_neg (by simp), if_pos hp]
          omega
      · have hL : 1 ≤ below (d0.drop cs.toNat) it := by
          have := below_nonneg (d0.drop cs.toNat) it
          omega
        obtain ⟨-, q, hskip, hq1, hq2, hq3, hq4, hq5⟩ := cycle_place d0 d cs it h0 hcs hl hsh hL
        rw [hl, hbel] at hskip
        refine ⟨(nth d q, q, d.set q.toNat it), ?_,
          ⟨by simp [hl], Or.inl ⟨by show q ≠ cs; omega, hq4, ?_⟩⟩, ?_⟩
        · simp only [CycleSort.rotate, ne_eq, hp, not_false_eq_true, if_true, hl, hcount, hbel,
            bind, Except.bind, hskip, vecGet_ok d q (by omega) (by omega),
            vecSet_ok d q _ (by omega) (by omega), pure, Except.pure]
          rw [if_pos (fun e => hq3 e.symm)]
        · show nth (d.set q.toNat it) cs = x
          rw [nth_set d q cs _ (by omega) (by omega) h0, if_neg (by omega)]
          exact hst
        · show misplaced _ cs (cs + 1) ((d.set q.toNat it).drop (cs + 1).toNat)
            + (if q ≠ cs then 1 else 0)
            < misplaced _ cs (cs + 1) (d.drop (cs + 1).toNat) + (if p ≠ cs then 1 else 0)
          rw [if_pos (by omega), if_pos hp]
          omega
    · right
      refine ⟨d, ?_, hsh, hmin⟩
      simp only [CycleSort.rotate, ne_eq, hp, not_true_eq_false, if_false, pure, Except.pure]
  · exact ⟨hlen, Or.inl ⟨hpos, hV, hstale⟩⟩
  · show misplaced _ cs (cs + 1) (dc.drop (cs + 1).toNat) + (if pos ≠ cs then 1 else 0)
      < d0.length + 1
    have := misplaced_le (d0.drop cs.toNat) cs (dc.drop (cs + 1).toNat) (cs + 1)
    rw [List.length_drop] at this
    split <;> omega

/-- One round of the outer loop of `CycleSort` rearranges the elements from
`cycleStart` on and leaves a least one of them at `cycleStart`. -/
theorem cycle_step (d : List Int) (cs : Int) (h0 : 0 ≤ cs) (hcs : cs < (d.length : Int) - 1) :
    ∃ d', CycleSort.cycle d.length (cs, d) = .ok (.inl (cs + 1, d')) ∧
      Shuffled cs ((d.length : Int) - 1) d d' ∧
      ∀ b : Int, cs ≤ b → b < d.length → nth d' cs ≤ nth d' b := by
  have hself := set_nth_self d cs h0 (by omega)
  have hV : Shuffled cs ((d.length : Int) - 1) d (d.set cs.toNat (nth d cs)) := by
    rw [hself]; exact shuffled_refl _ _ _
  have hcount := cycle_count_loop d cs (nth d cs) h0 (by omega)
  have hbel := region_below d d cs (nth d cs) h0 (by omega) hV
  by_cases hb0 : below (d.drop cs.toNat) (nth d cs) = 0
  · refine ⟨d, ?_, shuffled_refl _ _ _, cycle_min d d cs h0 (shuffled_refl _ _ _) hb0⟩
    simp only [CycleSort.cycle, hcs, if_true, vecGet_ok d cs h0 (by omega), bind, Except.bind,
      hcount, hbel, hb0, add_zero, pure, Except.pure]
  · have hL : 1 ≤ below (d.drop cs.toNat) (nth d cs) := by
      have := below_nonneg (d.drop cs.toNat) (nth d cs)
      omega
    obtain ⟨-, q, hskip, hq1, hq2, hq3, hq4, hq5⟩ :=
      cycle_place d d cs (nth d cs) h0 (by omega) rfl hV hL
    rw [hbel] at hskip
    obtain ⟨r, hrot, hr1, hr2⟩ := cycle_rotate_loop d cs (nth d cs) h0 (by omega) hL (nth d q) q
      (d.set q.toNat (nth d cs)) (by simp) (by omega) hq4
      (by rw [nth_set d q cs _ (by omega) (by omega) h0, if_neg (by omega)])
    refine ⟨r, ?_, hr1, hr2⟩
    have hne : ¬ (cs + below (d.drop cs.toNat) (nth d cs) = cs) := by omega
    have hqne : q ≠ cs := by omega
    simp only [CycleSort.cycle, hcs, if_true, vecGet_ok d cs h0 (by omega), bind, Except.bind,
      hcount, hbel, if_neg hne, hskip, ne_eq, hqne, not_false_eq_true,
      vecGet_ok d q (by omega) (by omega), vecSet_ok d q _ (by omega) (by omega), hrot, pure,
      Except.pure]

theorem cycle_outer_loop (data_ : List Int) (hn : 2 ≤ data_.length) :
    ∃ r, loop (CycleSort.cycle data_.length) (data_.length + 1) (0, data_) = .ok r ∧
      (r.Perm data_ ∧
        ∀ a b : Int, 0 ≤ a → a ≤ b → b < r.length → nth r a ≤ nth r b) := by
  apply loop_spec (CycleSort.cycle data_.length)
    (fun s => 0 ≤ s.1 ∧ s.1 ≤ (data_.length : Int) - 1 ∧ s.2.length = data_.length ∧
      s.2.Perm data_ ∧
      ∀ a b : Int, 0 ≤ a → a < s.1 → a ≤ b → b < data_.length → nth s.2 a ≤ nth s.2 b)
    (fun r => r.Perm data_ ∧
        ∀ a b : Int, 0 ≤ a → a ≤ b → b < r.length → nth r a ≤ nth r b)
    (fun s => ((data_.length : Int) - s.1).toNat)
  · rintro ⟨cs, d⟩ ⟨h1, h2, h3, h4, h5⟩
    simp only at h1 h2 h3 h4 h5
    by_cases hlt : cs < (data_.length : Int) - 1
    · left
      obtain ⟨d', hstep, hsh, hmin⟩ := cycle_step d cs h1 (by omega)
      rw [h3] at hstep hsh hmin
      refine ⟨(cs + 1, d'), hstep, ⟨by show 0 ≤ cs + 1; omega, by show cs + 1 ≤ _; omega,
        hsh.1.trans h3, hsh.2.1.trans h4, ?_⟩,
        by show ((data_.length : Int) - (cs + 1)).toNat < ((data_.length : Int) - cs).toNat; omega⟩
      intro a b ha0 ha hab hb
      have ha : a < cs + 1 := ha
      show nth d' a ≤ nth d' b
      by_cases e : a = cs
      · rw [e]; exact hmin b (by omega) hb
      · rw [hsh.2.2.1 a ha0 (Or.inl (by omega))]
        by_cases hbc : b < cs
        · rw [hsh.2.2.1 b (by omega) (Or.inl hbc)]
          exact h5 a b ha0 (by omega) hab hb
        · obtain ⟨k', g1, g2, g3⟩ := hsh.2.2.2 b (by omega) (by omega)
          rw [g3]
          exact h5 a k' ha0 (by omega) (by omega) (by omega)
    · right
      refine ⟨d, ?_, h4, ?_⟩
      · simp only [CycleSort.cycle, hlt, if_false, pure, Except.pure]
      · intro a b ha0 hab hb
        rw [h3] at hb
        by_cases e : a = b
        · rw [e]
        · exact h5 a b ha0 (by omega) hab hb
  · exact ⟨le_refl _, by show (0 : Int) ≤ (data_.length : Int) - 1; omega, rfl, List.Perm.refl _,
      fun a b h1 h2 => by have h2 : a < 0 := h2; omega⟩
  · show ((data_.length : Int) - 0).toNat < data_.length + 1
    omega

/-! ## Lemmas on `BitonicSort` -/

/-- The bit test `(size & (size - 1)) == 0` singles out the powers of two. -/
theorem land_pred_eq_zero : ∀ (n : Nat), 1 ≤ n → (n &&& (n - 1) = 0 ↔ ∃ k : Nat, n = 2 ^ k) := by
  intro n
  induction n using Nat.strong_induction_on with
  | _ n ih =>
    intro hn
    rcases Nat.even_or_odd' n with ⟨q, hq | hq⟩
    · have hq1 : 1 ≤ q := by omega
      have e1 : n = Nat.bit false q := by rw [Nat.bit_val]; simp; omega
      have e2 : n - 1 = Nat.bit true (q - 1) := by rw [Nat.bit_val]; simp; omega
      have hland : n &&& (n - 1) = 2 * (q &&& (q - 1)) := by
        rw [e2]
        conv_lhs => rw [e1]
        rw [Nat.land_bit, Nat.bit_val]
        simp
      rw [hland]
      have := ih q (by omega) hq1
      constructor
      · intro h
        obtain ⟨k, hk⟩ := this.mp (by omega)
        exact ⟨k + 1, by rw [pow_succ]; omega⟩
      · rintro ⟨k, hk⟩
        cases k with
        | zero => simp at hk; omega
        | succ k =>
          rw [pow_succ] at hk
          have := this.mpr ⟨k, by omega⟩
          omega
    · have e1 : n = Nat.bit true q := by rw [Nat.bit_val]; simp; omega
      have e2 : n - 1 = Nat.bit false q := by rw [Nat.bit_val]; simp; omega
      have hland : n &&& (n - 1) = 2 * q := by
        rw [e2]
        conv_lhs => rw [e1]
        rw [Nat.land_bit, Nat.bit_val]
        simp
      rw [hland]
      constructor
      · intro h
        exact ⟨0, by simp; omega⟩
      · rintro ⟨k, hk⟩
        cases k with
        | zero => simp at hk; omega
        | succ k =>
          rw [pow_succ] at hk
          omega

theorem dirLe_refl (asc : Bool) (a : Int) : dirLe asc a a := by
  unfold dirLe; split <;> exact le_refl _

theorem dirLe_trans (asc : Bool) (a b c : Int) (h1 : dirLe asc a b) (h2 : dirLe asc b c) :
    dirLe asc a c := by
  unfold dirLe at *
  split at h1 <;> simp_all <;> omega

theorem dirLe_not (asc : Bool) (a b : Int) : dirLe (!asc) a b ↔ dirLe asc b a := by
  unfold dirLe
  cases asc <;> simp

theorem shape_congr (I J : Int → Prop) (len : Int)
    (h : ∀ i : Int, 0 ≤ i → i < len → (I i ↔ J i)) (hI : Shape I len) : Shape J len := by
  obtain ⟨a, b, h0, hab, hb, hrun | hrun⟩ := hI
  · exact ⟨a, b, h0, hab, hb, Or.inl fun i hi0 hi => (h i hi0 hi).symm.trans (hrun i hi0 hi)⟩
  · exact ⟨a, b, h0, hab, hb, Or.inr fun i hi0 hi => (h i hi0 hi).symm.trans (hrun i hi0 hi)⟩

/-- The half-cleaner on a bitonic 0-1 sequence of length `2 * m`: the pairwise
minima and the pairwise maxima are bitonic again, and either all minima are 0 or
all maxima are 1. -/
theorem halfclean_shape (I : Int → Prop) (m : Int) (h : Shape I (2 * m)) :
    Shape (fun i => I i ∧ I (i + m)) m ∧ Shape (fun i => I i ∨ I (i + m)) m ∧
    ((∀ i : Int, 0 ≤ i → i < m → ¬ (I i ∧ I (i + m))) ∨
      (∀ i : Int, 0 ≤ i → i < m → (I i ∨ I (i + m)))) := by
  obtain ⟨a, b, h0, hab, hb, hrun | hrun⟩ := h
  · by_cases hlong : b - a ≥ m
    · refine ⟨⟨a, b - m, h0, by omega, by omega, Or.inl ?_⟩,
        ⟨0, 0, le_refl _, le_refl _, by omega, Or.inr ?_⟩, Or.inr ?_⟩ <;>
      · intro i hi0 hi
        beta_reduce
        rw [hrun i hi0 (by omega), hrun (i + m) (by omega) (by omega)]
        omega
    · by_cases c1 : b ≤ m
      · refine ⟨⟨0, 0, le_refl _, le_refl _, by omega, Or.inl ?_⟩,
          ⟨a, b, h0, hab, c1, Or.inl ?_⟩, Or.inl ?_⟩ <;>
        · intro i hi0 hi
          beta_reduce
          rw [hrun i hi0 (by omega), hrun (i + m) (by omega) (by omega)]
          omega
      · by_cases c2 : m ≤ a
        · refine ⟨⟨0, 0, le_refl _, le_refl _, by omega, Or.inl ?_⟩,
            ⟨a - m, b - m, by omega, by omega, by omega, Or.inl ?_⟩, Or.inl ?_⟩ <;>
          · intro i hi0 hi
            beta_reduce
            rw [hrun i hi0 (by omega), hrun (i + m) (by omega) (by omega)]
            omega
        · refine ⟨⟨0, 0, le_refl _, le_refl _, by omega, Or.inl ?_⟩,
            ⟨b - m, a, by omega, by omega, by omega, Or.inr ?_⟩, Or.inl ?_⟩ <;>
          · intro i hi0 hi
            beta_reduce
            rw [hrun i hi0 (by omega), hrun (i + m) (by omega) (by omega)]
            omega
  · by_cases hlong : b - a ≥ m
    · refine ⟨⟨0, 0, le_refl _, le_refl _, by omega, Or.inl ?_⟩,
        ⟨a, b - m, h0, by omega, by omega, Or.inr ?_⟩, Or.inl ?_⟩ <;>
      · intro i hi0 hi
        beta_reduce
        rw [hrun i hi0 (by omega), hrun (i + m) (by omega) (by omega)]
        omega
    · by_cases c1 : b ≤ m
      · refine ⟨⟨a, b, h0, hab, c1, Or.inr ?_⟩,
          ⟨0, 0, le_refl _, le_refl _, by omega, Or.inr ?_⟩, Or.inr ?_⟩ <;>
        · intro i hi0 hi
          beta_reduce
          rw [hrun i hi0 (by omega), hrun (i + m) (by omega) (by omega)]
          omega
      · by_cases c2 : m ≤ a
        · refine ⟨⟨a - m, b - m, by omega, by omega, by omega, Or.inr ?_⟩,
            ⟨0, 0, le_refl _, le_refl _, by omega, Or.inr ?_⟩, Or.inr ?_⟩ <;>
          · intro i hi0 hi
            beta_reduce
            rw [hrun i hi0 (by omega), hrun (i + m) (by omega) (by omega)]
            omega
        · refine ⟨⟨b - m, a, by omega, by omega, by omega, Or.inl ?_⟩,
            ⟨0, 0, le_refl _, le_refl _, by omega, Or.inr ?_⟩, Or.inr ?_⟩ <;>
          · intro i hi0 hi
            beta_reduce
            rw [hrun i hi0 (by omega), hrun (i + m) (by omega) (by omega)]
            omega

/-- A property of the indices below `m` that persists upwards holds from a threshold
on. -/
theorem mono_threshold (P : Int → Prop) :
    ∀ (m : Nat), (∀ i j : Int, 0 ≤ i → i ≤ j → j < m → P i → P j) →
      ∃ x : Int, 0 ≤ x ∧ x ≤ m ∧ ∀ i : Int, 0 ≤ i → i < m → (P i ↔ x ≤ i) := by
  intro m
  induction m with
  | zero => intro _; exact ⟨0, le_refl _, le_refl _, fun i h0 h1 => by simp at h1; omega⟩
  | succ m ih =>
    intro hmono
    obtain ⟨x, hx0, hxm, hx⟩ := ih (fun i j hi hij hj => hmono i j hi hij (by push_cast; omega))
    by_cases hlt : x < m
    · refine ⟨x, hx0, by push_cast; omega, ?_⟩
      intro i hi0 hi
      by_cases him : i < m
      · exact hx i hi0 him
      · have e : i = m := by push_cast at hi; omega
        have hPx : P x := (hx x hx0 hlt).mpr (le_refl _)
        have := hmono x i hx0 (by omega) hi hPx
        constructor
        · intro _; omega
        · intro _; exact this
    · by_cases hP : P m
      · refine ⟨m, by omega, by push_cast; omega, ?_⟩
        intro i hi0 hi
        by_cases him : i < m
        · rw [hx i hi0 him]; omega
        · have e : i = m := by push_cast at hi; omega
          rw [e]
          exact ⟨fun _ => le_refl _, fun _ => hP⟩
      · refine ⟨m + 1, by omega, by push_cast; omega, ?_⟩
        intro i hi0 hi
        by_cases him : i < m
        · rw [hx i hi0 him]; omega
        · have e : i = m := by push_cast at hi; omega
          rw [e]
          exact ⟨fun h => absurd h hP, fun h => by omega⟩

/-- Two adjacent runs of `m` elements, the first in the opposite order and the
second in the order of the direction, form a bitonic sequence. -/
theorem bitonic_of_sorted (asc : Bool) (l : Int) (m : Nat) (d : List Int)
    (hL : SortedDir (!asc) l m d) (hR : SortedDir asc (l + m) m d) :
    Bitonic asc l (2 * m) d := by
  intro t
  obtain ⟨x, hx0, hxm, hx⟩ := mono_threshold (fun i => ¬ dirLe asc t (nth d (l + i))) m
    (by
      intro i j hi hij hj hPi hPj
      have := hL (l + i) (l + j) (by omega) (by omega) (by omega)
      rw [dirLe_not] at this
      exact hPi (dirLe_trans asc _ _ _ hPj this))
  obtain ⟨y, hy0, hym, hy⟩ := mono_threshold (fun i => dirLe asc t (nth d (l + m + i))) m
    (by
      intro i j hi hij hj hPi
      have := hR (l + m + i) (l + m + j) (by omega) (by omega) (by omega)
      exact dirLe_trans asc _ _ _ hPi this)
  refine ⟨x, m + y, hx0, by omega, by omega, Or.inr ?_⟩
  intro i hi0 hi
  beta_reduce
  by_cases him : i < m
  · have := hx i hi0 him
    beta_reduce at this
    constructor
    · intro h hcon
      exact (this.mpr hcon.1) h
    · intro h
      by_contra hcon
      exact h ⟨this.mp hcon, by omega⟩
  · have := hy (i - m) (by omega) (by omega)
    beta_reduce at this
    have e : l + ↑m + (i - ↑m) = l + i := by omega
    rw [e] at this
    rw [this]
    omega

/-- The compare-exchange pass of `BitonicSort` over the two halves of a range: each
pair `i`, `i + middleIndex` ends in the order of the direction. -/
theorem bitonic_merge_loop (asc : Bool) (l m : Int) (d : List Int) (h0 : 0 ≤ l) (hm : 0 ≤ m)
    (hlen : l + 2 * m ≤ d.length) :
    ∃ d1, loop (BitonicSort.merge l m asc) (d.length + 1) (0, d) = .ok d1 ∧
      (Shuffled l (l + 2 * m - 1) d d1 ∧
        ∀ i : Int, 0 ≤ i → i < m →
          dirLe asc (nth d1 (l + i)) (nth d1 (l + m + i)) ∧
          ((nth d1 (l + i) = nth d (l + i) ∧ nth d1 (l + m + i) = nth d (l + m + i)) ∨
            (nth d1 (l + i) = nth d (l + m + i) ∧ nth d1 (l + m + i) = nth d (l + i)))) := by
  apply loop_spec (BitonicSort.merge l m asc)
    (fun s => 0 ≤ s.1 ∧ s.1 ≤ m ∧ Shuffled l (l + 2 * m - 1) d s.2 ∧
      (∀ i : Int, 0 ≤ i → i < s.1 →
          dirLe asc (nth s.2 (l + i)) (nth s.2 (l + m + i)) ∧
          ((nth s.2 (l + i) = nth d (l + i) ∧ nth s.2 (l + m + i) = nth d (l + m + i)) ∨
            (nth s.2 (l + i) = nth d (l + m + i) ∧ nth s.2 (l + m + i) = nth d (l + i)))) ∧
      (∀ i : Int, s.1 ≤ i → i < m →
          nth s.2 (l + i) = nth d (l + i) ∧ nth s.2 (l + m + i) = nth d (l + m + i)))
    (fun d1 => Shuffled l (l + 2 * m - 1) d d1 ∧
        ∀ i : Int, 0 ≤ i → i < m →
          dirLe asc (nth d1 (l + i)) (nth d1 (l + m + i)) ∧
          ((nth d1 (l + i) = nth d (l + i) ∧ nth d1 (l + m + i) = nth d (l + m + i)) ∨
            (nth d1 (l + i) = nth d (l + m + i) ∧ nth d1 (l + m + i) = nth d (l + i))))
    (fun s => (m - s.1).toNat)
  · rintro ⟨i, dc⟩ ⟨h1, h2, hsh, hdone, hrest⟩
    simp only at h1 h2 hsh hdone hrest
    have hl : dc.length = d.length := hsh.1
    by_cases hlt : i < m
    · left
      have hga := vecGet_ok dc (i + l) (by omega) (by omega)
      have hgb := vecGet_ok dc (i + m + l) (by omega) (by omega)
      have e1 : i + l = l + i := by omega
      have e2 : i + m + l = l + m + i := by omega
      rw [e1] at hga
      rw [e2] at hgb
      obtain ⟨ra, rb⟩ := hrest i (le_refl _) hlt
      by_cases c : decide (nth dc (l + i) > nth dc (l + m + i)) = asc
      · have hs := fun k hk => nth_swapAt dc (l + i) (l + m + i) k (by omega) (by omega)
          (by omega) (by omega) hk
        refine ⟨(i + 1, swapAt dc (l + i) (l + m + i)), ?_, ⟨by show 0 ≤ i + 1; omega,
          by show i + 1 ≤ m; omega,
          shuffled_trans hsh (shuffled_swapAt l (l + 2 * m - 1) dc _ _ h0 (by omega) (by omega)
            (by omega) (by omega) (by omega)), ?_, ?_⟩,
          by show (m - (i + 1)).toNat < (m - i).toNat; omega⟩
        · simp only [BitonicSort.merge, hlt, if_true, e1, e2, hga, hgb, bind, Except.bind,
            if_pos c, vecSwap_ok dc (l + i) (l + m + i) (by omega) (by omega) (by omega)
              (by omega), pure, Except.pure]
        · intro j hj0 hj
          have hj : j < i + 1 := hj
          show dirLe asc (nth (swapAt dc (l + i) (l + m + i)) (l + j))
              (nth (swapAt dc (l + i) (l + m + i)) (l + m + j)) ∧ _
          rw [hs (l + j) (by omega), hs (l + m + j) (by omega)]
          by_cases e : j = i
          · subst e
            rw [if_neg (by omega), if_pos rfl, if_pos rfl]
            refine ⟨?_, Or.inr ⟨rb, ra⟩⟩
            unfold dirLe
            cases asc
            · simp only [gt_iff_lt, decide_eq_false_iff_not, not_lt] at c
              simpa using c
            · simp only [gt_iff_lt, decide_eq_true_eq] at c
              simp only [if_true]
              omega
          · rw [if_neg (by omega), if_neg (by omega), if_neg (by omega), if_neg (by omega)]
            exact hdone j hj0 (by omega)
        · intro j hj1 hj
          have hj1 : i + 1 ≤ j := hj1
          show nth (swapAt dc (l + i) (l + m + i)) (l + j) = _ ∧
            nth (swapAt dc (l + i) (l + m + i)) (l + m + j) = _
          rw [hs (l + j) (by omega), hs (l + m + j) (by omega), if_neg (by omega),
            if_neg (by omega), if_neg (by omega), if_neg (by omega)]
          exact hrest j (by omega) hj
      · refine ⟨(i + 1, dc), ?_, ⟨by show 0 ≤ i + 1; omega, by show i + 1 ≤ m; omega, hsh,
          ?_, ?_⟩, by show (m - (i + 1)).toNat < (m - i).toNat; omega⟩
        · simp only [BitonicSort.merge, hlt, if_true, e1, e2, hga, hgb, bind, Except.bind,
            if_neg c, pure, Except.pure]
        · intro j hj0 hj
          have hj : j < i + 1 := hj
          show dirLe asc (nth dc (l + j)) (nth dc (l + m + j)) ∧ _
          by_cases e : j = i
          · subst e
            refine ⟨?_, Or.inl ⟨ra, rb⟩⟩
            unfold dirLe
            cases asc
            · simp only [gt_iff_lt, decide_eq_false_iff_not, not_lt, not_le] at c
              simp only [Bool.false_eq_true, if_false]
              omega
            · simp only [gt_iff_lt, decide_eq_true_eq, not_lt] at c
              simpa using c
          · exact hdone j hj0 (by omega)
        · intro j hj1 hj
          have hj1 : i + 1 ≤ j := hj1
          exact hrest j (by omega) hj
    · right
      refine ⟨dc, ?_, hsh, ?_⟩
      · simp only [BitonicSort.merge, hlt, if_false, pure, Except.pure]
      · intro j hj0 hj
        exact hdone j hj0 (by omega)
  · exact ⟨le_refl _, hm, shuffled_refl _ _ _, fun i h1 h2 => by have h2 : i < 0 := h2; omega,
      fun i _ _ => ⟨rfl, rfl⟩⟩
  · show (m - 0).toNat < d.length + 1
    omega

theorem pair_threshold (asc : Bool) (t lo hi a b : Int) (h1 : dirLe asc lo hi)
    (h2 : (lo = a ∧ hi = b) ∨ (lo = b ∧ hi = a)) :
    (dirLe asc t lo ↔ dirLe asc t a ∧ dirLe asc t b) ∧
    (dirLe asc t hi ↔ dirLe asc t a ∨ dirLe asc t b) := by
  rcases h2 with ⟨rfl, rfl⟩ | ⟨rfl, rfl⟩
  · exact ⟨⟨fun h => ⟨h, dirLe_trans asc _ _ _ h h1⟩, fun h => h.1⟩,
      ⟨fun h => Or.inr h, fun h => h.elim (fun h => dirLe_trans asc _ _ _ h h1) id⟩⟩
  · exact ⟨⟨fun h => ⟨dirLe_trans asc _ _ _ h h1, h⟩, fun h => h.2⟩,
      ⟨fun h => Or.inl h, fun h => h.elim id (fun h => dirLe_trans asc _ _ _ h h1)⟩⟩

theorem bitonic_step_skip (l len : Int) (asc type : Bool) (rest : List BitonicSort.Range)
    (d : List Int) (h : len ≤ 1) :
    BitonicSort.step (⟨l, len, asc, type⟩ :: rest, d) = .ok (.inl (rest, d)) := by
  simp only [BitonicSort.step, h, if_true, pure, Except.pure]

theorem bitonic_step_merge (l m : Int) (asc : Bool) (rest : List BitonicSort.Range)
    (d d1 : List Int) (hm : 1 ≤ m)
    (hrun : loop (BitonicSort.merge l m asc) (d.length + 1) (0, d) = .ok d1) :
    BitonicSort.step (⟨l, 2 * m, asc, false⟩ :: rest, d) = .ok (.inl
      (⟨l, m, asc, false⟩ :: ⟨l + m, m, asc, false⟩ :: rest, d1)) := by
  have hdiv : (2 * m).tdiv 2 = m := by
    rw [Int.tdiv_eq_ediv (by omega) (by omega)]; omega
  have hn : ¬ 2 * m ≤ 1 := by omega
  simp only [BitonicSort.step, hn, if_false, hdiv, if_true, hrun, bind, Except.bind, pure,
    Except.pure]

theorem bitonic_step_split (l m : Int) (asc : Bool) (rest : List BitonicSort.Range)
    (d : List Int) (hm : 1 ≤ m) :
    BitonicSort.step (⟨l, 2 * m, asc, true⟩ :: rest, d) = .ok (.inl
      (⟨l, m, !asc, true⟩ :: ⟨l + m, m, asc, true⟩ :: ⟨l, 2 * m, asc, false⟩ :: rest, d)) := by
  have hdiv : (2 * m).tdiv 2 = m := by
    rw [Int.tdiv_eq_ediv (by omega) (by omega)]; omega
  have hn : ¬ 2 * m ≤ 1 := by omega
  have hsub : 2 * m - m = m := by omega
  simp only [BitonicSort.step, hn, if_false, hdiv, Bool.true_eq_false, hsub, pure, Except.pure]

/-- A merge task of `BitonicSort` on a bitonic range of `2 ^ k` elements leaves the
range in the order of its direction. -/
theorem bitonic_merge_range : ∀ (k : Nat) (asc : Bool) (l : Int)
    (rest : List BitonicSort.Range) (d : List Int),
    0 ≤ l → l + (2 : Int) ^ k ≤ d.length → Bitonic asc l ((2 : Int) ^ k) d →
    ∃ (c : Nat) (d' : List Int), c + 1 ≤ 2 * 2 ^ k ∧
      (∀ n, loop BitonicSort.step (c + n) (⟨l, (2 : Int) ^ k, asc, false⟩ :: rest, d)
        = loop BitonicSort.step n (rest, d')) ∧
      Shuffled l (l + (2 : Int) ^ k - 1) d d' ∧ SortedDir asc l ((2 : Int) ^ k) d' := by
  intro k
  induction k with
  | zero =>
    intro asc l rest d h0 hlen _
    refine ⟨1, d, by simp, ?_, shuffled_refl _ _ _, ?_⟩
    · intro n
      rw [Nat.add_comm]
      exact loop_continue _ _ _ n (bitonic_step_skip l _ asc false rest d (by simp))
    · intro i j hi hij hj
      have : i = j := by simp at hj; omega
      rw [this]
      exact dirLe_refl asc _
  | succ k ih =>
    intro asc l rest d h0 hlen hbit
    have hP : (1 : Int) ≤ (2 : Int) ^ k := by
      have : (0 : Int) < (2 : Int) ^ k := by positivity
      omega
    have hpow : (2 : Int) ^ (k + 1) = 2 * (2 : Int) ^ k := by rw [pow_succ]; omega
    have hpowN : 2 ^ (k + 1) = 2 * 2 ^ k := by rw [pow_succ]; omega
    rw [hpow] at hlen hbit ⊢
    rw [hpowN]
    set m : Int := (2 : Int) ^ k with hmdef
    obtain ⟨d1, hrun, hsh1, hpairs⟩ := bitonic_merge_loop asc l m d h0 (by omega) hlen
    have hl1 : d1.length = d.length := hsh1.1
    have hstep := bitonic_step_merge l m asc rest d d1 hP hrun
    have hshape := fun t => halfclean_shape _ m (hbit t)
    have hlo : Bitonic asc l m d1 := by
      intro t
      refine shape_congr _ _ m ?_ (hshape t).1
      intro i hi0 hi
      obtain ⟨p1, p2⟩ := hpairs i hi0 hi
      have := (pair_threshold asc t _ _ _ _ p1 p2).1
      rw [this]
      have e : l + (i + m) = l + m + i := by omega
      rw [e]
    obtain ⟨cA, dA, hcA, hA, hshA, hsA⟩ :=
      ih asc l (⟨l + m, m, asc, false⟩ :: rest) d1 h0 (by omega) hlo
    have hlA : dA.length = d1.length := hshA.1
    have hhi : Bitonic asc (l + m) m dA := by
      intro t
      refine shape_congr _ _ m ?_ (hshape t).2.1
      intro i hi0 hi
      obtain ⟨p1, p2⟩ := hpairs i hi0 hi
      have := (pair_threshold asc t _ _ _ _ p1 p2).2
      rw [hshA.2.2.1 (l + m + i) (by omega) (Or.inr (by omega)), this]
      have e : l + (i + m) = l + m + i := by omega
      rw [e]
    obtain ⟨cB, dB, hcB, hB, hshB, hsB⟩ :=
      ih asc (l + m) rest dA (by omega) (by omega) hhi
    refine ⟨cA + cB + 1, dB, by omega, ?_, ?_, ?_⟩
    · intro n
      have e : cA + cB + 1 + n = (cA + (cB + n)) + 1 := by omega
      rw [e, loop_continue _ _ _ _ hstep, hA, hB]
    · exact shuffled_trans hsh1 (shuffled_trans (shuffled_mono hshA h0 (le_refl _) (by omega))
        (shuffled_mono hshB h0 (by omega) (by omega)))
    · intro i j hi hij hj
      by_cases cj : j < l + m
      · rw [hshB.2.2.1 i (by omega) (Or.inl (by omega)),
          hshB.2.2.1 j (by omega) (Or.inl (by omega))]
        exact hsA i j hi hij (by omega)
      · by_cases ci : l + m ≤ i
        · exact hsB i j ci hij (by omega)
        · rw [hshB.2.2.1 i (by omega) (Or.inl (by omega))]
          obtain ⟨i', g1, g2, g3⟩ := hshA.2.2.2 i hi (by omega)
          obtain ⟨j', f1, f2, f3⟩ := hshB.2.2.2 j (by omega) (by omega)
          rw [hshA.2.2.1 j' (by omega) (Or.inr (by omega))] at f3
          rw [g3, f3]
          have hcross := (hshape (nth d1 i')).2.2
          obtain ⟨p1, p2⟩ := hpairs (i' - l) (by omega) (by omega)
          obtain ⟨q1, q2⟩ := hpairs (j' - (l + m)) (by omega) (by omega)
          have e1 : l + (i' - l) = i' := by omega
          have e2 : l + m + (j' - (l + m)) = j' := by omega
          rw [e1] at p1 p2
          rw [e2] at q1 q2
          have tlo := (pair_threshold asc (nth d1 i') _ _ _ _ p1 p2).1
          have thi := (pair_threshold asc (nth d1 i') _ _ _ _ q1 q2).2
          rcases hcross with hc | hc
          · have := hc (i' - l) (by omega) (by omega)
            beta_reduce at this
            have e3 : l + (i' - l + m) = l + m + (i' - l) := by omega
            rw [e3, e1] at this
            exact absurd (tlo.mp (dirLe_refl asc _)) this
          · have := hc (j' - (l + m)) (by omega) (by omega)
            beta_reduce at this
            have e3 : l + (j' - (l + m) + m) = l + m + (j' - (l + m)) := by omega
            rw [e3, e2] at this
            exact thi.mpr this

/-- A sort task of `BitonicSort` on a range of `2 ^ k` elements leaves the range in
the order of its direction. -/
theorem bitonic_sort_range : ∀ (k : Nat) (asc : Bool) (l : Int)
    (rest : List BitonicSort.Range) (d : List Int),
    0 ≤ l → l + (2 : Int) ^ k ≤ d.length →
    ∃ (c : Nat) (d' : List Int), c ≤ (2 * k + 1) * 2 ^ k ∧
      (∀ n, loop BitonicSort.step (c + n) (⟨l, (2 : Int) ^ k, asc, true⟩ :: rest, d)
        = loop BitonicSort.step n (rest, d')) ∧
      Shuffled l (l + (2 : Int) ^ k - 1) d d' ∧ SortedDir asc l ((2 : Int) ^ k) d' := by
  intro k
  induction k with
  | zero =>
    intro asc l rest d h0 hlen
    refine ⟨1, d, by simp, ?_, shuffled_refl _ _ _, ?_⟩
    · intro n
      rw [Nat.add_comm]
      exact loop_continue _ _ _ n (bitonic_step_skip l _ asc true rest d (by simp))
    · intro i j hi hij hj
      have : i = j := by simp at hj; omega
      rw [this]
      exact dirLe_refl asc _
  | succ k ih =>
    intro asc l rest d h0 hlen
    have hP : (1 : Int) ≤ (2 : Int) ^ k := by
      have : (0 : Int) < (2 : Int) ^ k := by positivity
      omega
    have hpow : (2 : Int) ^ (k + 1) = 2 * (2 : Int) ^ k := by rw [pow_succ]; omega
    have hpowN : 2 ^ (k + 1) = 2 * 2 ^ k := by rw [pow_succ]; omega
    have hcast : (((2 ^ k : Nat) : Int)) = (2 : Int) ^ k := by push_cast; rfl
    rw [hpow] at hlen ⊢
    have hstep := bitonic_step_split l ((2 : Int) ^ k) asc rest d hP
    obtain ⟨cA, dA, hcA, hA, hshA, hsA⟩ :=
      ih (!asc) l (⟨l + (2 : Int) ^ k, (2 : Int) ^ k, asc, true⟩ ::
        ⟨l, 2 * (2 : Int) ^ k, asc, false⟩ :: rest) d h0 (by omega)
    have hlA : dA.length = d.length := hshA.1
    obtain ⟨cB, dB, hcB, hB, hshB, hsB⟩ :=
      ih asc (l + (2 : Int) ^ k) (⟨l, 2 * (2 : Int) ^ k, asc, false⟩ :: rest) dA (by omega)
        (by omega)
    have hlB : dB.length = dA.length := hshB.1
    have hsA' : SortedDir (!asc) l ((2 ^ k : Nat) : Int) dB := by
      rw [hcast]
      intro i j hi hij hj
      rw [hshB.2.2.1 i (by omega) (Or.inl (by omega)),
        hshB.2.2.1 j (by omega) (Or.inl (by omega))]
      exact hsA i j hi hij hj
    have hsB' : SortedDir asc (l + ((2 ^ k : Nat) : Int)) ((2 ^ k : Nat) : Int) dB := by
      rw [hcast]; exact hsB
    have hbit := bitonic_of_sorted asc l (2 ^ k) dB hsA' hsB'
    rw [hcast, ← hpow] at hbit
    obtain ⟨cM, dM, hcM, hM, hshM, hsM⟩ := bitonic_merge_range (k + 1) asc l rest dB h0
      (by rw [hpow]; omega) hbit
    rw [hpow] at hM hshM hsM
    have e1 : (2 * k + 1) * 2 ^ k = 2 * (k * 2 ^ k) + 2 ^ k := by ring
    have e2 : (2 * (k + 1) + 1) * 2 ^ (k + 1) = 4 * (k * 2 ^ k) + 6 * 2 ^ k := by
      rw [pow_succ]; ring
    refine ⟨cA + cB + cM + 1, dM, by omega, ?_, ?_, hsM⟩
    · intro n
      have e : cA + cB + cM + 1 + n = (cA + (cB + (cM + n))) + 1 := by omega
      rw [e, loop_continue _ _ _ _ hstep, hA, hB, hM]
    · exact shuffled_trans (shuffled_mono hshA h0 (le_refl _) (by omega))
        (shuffled_trans (shuffled_mono hshB h0 (by omega) (by omega)) hshM)

theorem bitonic_run (data_ : List Int) (K : Nat) (hK : data_.length = 2 ^ K) :
    loop BitonicSort.step (2 * data_.length * data_.length + 1)
      ([⟨0, data_.length, true, true⟩], data_) = .ok (sortedCopy data_) := by
  have hcast : (data_.length : Int) = (2 : Int) ^ K := by rw [hK]; push_cast; rfl
  obtain ⟨c, d', hc, hrun, hsh, hsorted⟩ := bitonic_sort_range K true 0 [] data_ (le_refl _)
    (by rw [hcast]; omega)
  have hKlt : K < 2 ^ K := Nat.lt_two_pow K
  have hbound : c < 2 * data_.length * data_.length + 1 := by
    have h1 : (2 * K + 1) * 2 ^ K ≤ (2 * 2 ^ K) * 2 ^ K :=
      Nat.mul_le_mul_right _ (by omega)
    rw [hK]
    omega
  have e : 2 * data_.length * data_.length + 1
      = c + (2 * data_.length * data_.length - c + 1) := by omega
  rw [hcast, e, hrun]
  simp only [loop, BitonicSort.step, pure, Except.pure]
  congr 1
  apply eq_sortedCopy d' data_ hsh.2.1
  intro a b ha hab hb
  have := hsorted a b ha hab (by rw [hsh.1, hcast] at hb; omega)
  unfold dirLe at this
  simpa using this

/-! ## Lemmas on the controller -/

theorem later_self (w : World) : w.Later w := ⟨id, id, rfl⟩

theorem later_then {a b c : World} (h : a.Later b) (h' : b.Later c) : a.Later c :=
  ⟨fun x => h'.1 (h.1 x), fun x => h'.2.1 (h.2.1 x), h'.2.2.trans h.2.2⟩

theorem later_runs {w w' : World} (h : w.Later w') (hr : w.Runs) : w'.Runs :=
  ⟨h.1 hr.1, h.2.1 hr.2.1, by rw [h.2.2]; exact hr.2.2⟩

theorem later_of_same {w w' : World} (h : SameFlags w w') (hm : w'.s_maxValue = w.s_maxValue) :
    w.Later w' :=
  ⟨h.keepsNoCancel, h.keepsPauseEnds, hm⟩

theorem later_sleep10 (w : World) : w.Later w.sleep10 := by
  refine ⟨noCancel_sleep10 w, ?_, ?_⟩
  · intro hp
    cases hs : w.uiSchedule with
    | nil =>
      unfold World.sleep10
      rw [hs]
      unfold World.PauseEnds at hp ⊢
      rw [hs] at hp
      exact hp
    | cons p rest =>
      obtain ⟨s, e⟩ := p
      exact pauseEnds_sleep10 w s e rest hs hp
  · unfold World.sleep10
    split <;> rfl

theorem later_waitWorker (n : Nat) (w : World) : w.Later (Strip.StopSort.waitWorker n w).2 := by
  induction n generalizing w with
  | zero => unfold Strip.StopSort.waitWorker; split <;> exact later_self w
  | succ n ih =>
    unfold Strip.StopSort.waitWorker
    split
    · exact later_then (later_sleep10 w) (ih _)
    · exact later_self w

theorem later_waitMain (n : Nat) (b : Bool) (w : World) :
    w.Later (Strip.StopSort.waitMain n b w).2 := by
  induction n generalizing w b with
  | zero =>
    unfold Strip.StopSort.waitMain
    split
    · split <;> exact later_self w
    · exact later_self w
  | succ n ih =>
    unfold Strip.StopSort.waitMain
    split
    · split
      · exact later_self w
      · exact later_then (later_sleep10 w) (ih _ _)
    · exact later_self w

theorem later_StopSort (w : World) : w.Later (Strip.StopSort w).2 := by
  unfold Strip.StopSort
  split
  · exact later_waitWorker _ w
  · have h := later_waitMain w.uiSchedule.length false w
    generalize Strip.StopSort.waitMain w.uiSchedule.length false w = r at h
    obtain ⟨r1, w1⟩ := r
    cases r1 with
    | error e => exact h
    | ok began =>
      simp only
      split <;> split <;> exact later_then h ⟨id, id, rfl⟩

theorem maxValue_emit (w : World) (e : Event) : (w.emit e).s_maxValue = w.s_maxValue := rfl

theorem maxValue_drawRemaining (w : World) :
    (Strip.DrawRemainingStrip w).s_maxValue = w.s_maxValue := by
  unfold Strip.DrawRemainingStrip
  simp only
  split
  · rfl
  · split <;> rfl

theorem later_drawRemaining (w : World) : w.Later (Strip.DrawRemainingStrip w) :=
  later_of_same (same_drawRemaining w).1 (maxValue_drawRemaining w)

theorem maxValue_highlight1 (s : Strip) (c : COLORREF) (w : World) :
    (Strip.DrawStrip1.highlight s c w).s_maxValue = w.s_maxValue := by
  unfold Strip.DrawStrip1.highlight
  simp only [maxValue_emit, maxValue_drawRemaining]
  split
  · rfl
  · unfold Strip.RegisterCurrentThread
    simp only
    split <;> rfl

theorem maxValue_highlight2 (s : Strip) (c : COLORREF) (t : Strip) (c' : COLORREF) (w : World) :
    (Strip.DrawStrip2.highlight s c t c' w).s_maxValue = w.s_maxValue := by
  unfold Strip.DrawStrip2.highlight
  simp only [maxValue_emit, maxValue_drawRemaining]
  split
  · rfl
  · unfold Strip.RegisterCurrentThread
    simp only
    split <;> rfl

theorem later_DrawStrip1 (s : Strip) (c : COLORREF) (w : World) :
    w.Later (Strip.DrawStrip1 s c w).2 := by
  have h1 := later_of_same (same_highlight1 s c w).1 (maxValue_highlight1 s c w)
  have h2 := later_StopSort (Strip.DrawStrip1.highlight s c w)
  unfold Strip.DrawStrip1
  generalize Strip.StopSort (Strip.DrawStrip1.highlight s c w) = r at h2
  obtain ⟨r1, w1⟩ := r
  cases r1 with
  | error e => exact later_then h1 h2
  | ok u => exact later_then (later_then h1 h2) ⟨id, id, rfl⟩

theorem later_DrawStrip2 (s : Strip) (c : COLORREF) (t : Strip) (c' : COLORREF) (w : World) :
    w.Later (Strip.DrawStrip2 s c t c' w).2 := by
  have h1 := later_of_same (same_highlight2 s c t c' w).1 (maxValue_highlight2 s c t c' w)
  have h2 := later_StopSort (Strip.DrawStrip2.highlight s c t c' w)
  unfold Strip.DrawStrip2
  generalize Strip.StopSort (Strip.DrawStrip2.highlight s c t c' w) = r at h2
  obtain ⟨r1, w1⟩ := r
  cases r1 with
  | error e => exact later_then h1 h2
  | ok u => exact later_then (later_then h1 h2) ⟨id, id, rfl⟩

theorem Reduce_denominator (f : Fraction) (h : f.m_denominator ≠ 0) :
    f.Reduce.m_denominator ≠ 0 := by
  unfold Fraction.Reduce
  split
  · simp
  · rename_i hnum
    simp only
    have key : ∀ n d : Int, n ≠ 0 → d ≠ 0 →
        (if ((Int.gcd n d : Nat) : Int) ≠ 0 then
          (⟨n.tdiv (Int.gcd n d : Nat), d.tdiv (Int.gcd n d : Nat)⟩ : Fraction)
         else ⟨n, d⟩).m_denominator ≠ 0 := by
      intro n d hn hd
      have hg : ((Int.gcd n d : Nat) : Int) ≠ 0 := by
        intro h0
        have := Int.gcd_eq_zero_iff.mp (by exact_mod_cast h0)
        exact hn this.1
      rw [if_pos hg]
      simp only
      intro h0
      have hdvd : ((Int.gcd n d : Nat) : Int) ∣ d := Int.gcd_dvd_right
      have := Int.mul_tdiv_cancel' hdvd
      rw [h0, mul_zero] at this
      exact hd this.symm
    split
    · exact key _ _ (by simpa using hnum) (by simpa using h)
    · exact key _ _ hnum h

theorem SetTopAndColorAuto_ok (s : Strip) (w : World)
    (h : w.s_maxValue % 18446744073709551616 ≠ 0) :
    ∃ s', s.SetTopAndColorAuto w = .ok s' := by
  have hmax : w.s_maxValue ≠ 0 := by
    intro h0
    rw [h0] at h
    simp at h
  have hsmt : (Strip.StripMaxTop w).m_denominator ≠ 0 := by
    unfold Strip.StripMaxTop
    apply Reduce_denominator
    have : (w.GetHeight.mulAssign (.ofInt 2)).m_denominator ≠ 0 := by
      unfold Fraction.mulAssign
      apply Reduce_denominator
      simp [World.GetHeight, Fraction.ofInt]
    simpa using this
  have htop : ∃ s1, s.SetTopAuto w = .ok s1 := by
    unfold Strip.SetTopAuto
    simp only
    have hdiv : ∀ f : Fraction, f.m_denominator ≠ 0 →
        ∃ q, f.divAssign (.ofInt w.s_maxValue) = .ok q ∧ q.m_denominator ≠ 0 := by
      intro f hf
      unfold Fraction.divAssign
      rw [if_neg (by simpa [Fraction.ofInt] using hmax)]
      refine ⟨_, rfl, ?_⟩
      apply Reduce_denominator
      simp only [Fraction.ofInt]
      exact mul_ne_zero hf hmax
    have hsum : ((w.GetHeight.mulAssign (.ofInt (wrapInt (w.s_maxValue - s.m_value)))).addAssign
        ((Fraction.ofInt s.m_value).mulAssign (Strip.StripMaxTop w))).m_denominator ≠ 0 := by
      unfold Fraction.addAssign
      apply Reduce_denominator
      simp only
      have h1 : (w.GetHeight.mulAssign (.ofInt (wrapInt (w.s_maxValue - s.m_value)))).m_denominator
          ≠ 0 := by
        unfold Fraction.mulAssign
        apply Reduce_denominator
        simp [World.GetHeight, Fraction.ofInt]
      have h2 : ((Fraction.ofInt s.m_value).mulAssign (Strip.StripMaxTop w)).m_denominator ≠ 0 := by
        unfold Fraction.mulAssign
        apply Reduce_denominator
        simpa [Fraction.ofInt] using hsmt
      exact_mod_cast Int.lcm_ne_zero h1 h2
    obtain ⟨q, hq, hqd⟩ := hdiv _ hsum
    rw [hq]
    simp only
    unfold Fraction.toInt
    rw [if_neg hqd]
    simp only
    split <;> exact ⟨_, rfl⟩
  obtain ⟨s1, hs1⟩ := htop
  unfold Strip.SetTopAndColorAuto
  rw [hs1]
  simp only
  unfold Strip.SetColorAuto
  simp only
  have hm : (w.s_maxValue % 18446744073709551616).toNat ≠ 0 := by
    intro h0
    have h1 : 0 ≤ w.s_maxValue % 18446744073709551616 := Int.emod_nonneg _ (by decide)
    omega
  rw [if_neg hm]
  exact ⟨_, rfl⟩

theorem DrawStrip1_runs (s : Strip) (c : COLORREF) (w : World) (hr : w.Runs) :
    ∃ w', Strip.DrawStrip1 s c w = (.ok (), w') ∧ w'.Runs :=
  ⟨_, DrawStrip1_returns s c w hr.1 hr.2.1, later_runs (later_DrawStrip1 s c w) hr⟩

theorem DrawStrip2_runs (s : Strip) (c : COLORREF) (t : Strip) (c' : COLORREF) (w : World)
    (hr : w.Runs) : ∃ w', Strip.DrawStrip2 s c t c' w = (.ok (), w') ∧ w'.Runs :=
  ⟨_, DrawStrip2_returns s c t c' w hr.1 hr.2.1, later_runs (later_DrawStrip2 s c t c' w) hr⟩

theorem Strip_copy_runs (s : Strip) (w : World) (hr : w.Runs) :
    ∃ t w', Strip.copy s w = (.ok t, w') ∧ t.m_value = s.m_value ∧ w'.Runs := by
  unfold Strip.copy
  simp only
  split
  · have hr1 : (Strip.AddNumCopy1_StripToInt w).Runs := later_runs ⟨id, id, rfl⟩ hr
    obtain ⟨w', h, hr'⟩ := DrawStrip1_runs s StripCopyColor _ hr1
    rw [h]
    exact ⟨_, _, rfl, rfl, hr'⟩
  · exact ⟨_, _, rfl, rfl, hr⟩

theorem storedStrip_runs (s t : Strip) (w : World) (hr : w.Runs) :
    ∃ s' w', Strip.storedStrip s t w = (.ok (), s', w') ∧ s'.m_value = s.m_value ∧ w'.Runs := by
  have hv := storedStrip_value s t w
  suffices h : ∃ s' w', Strip.storedStrip s t w = (.ok (), s', w') ∧ w'.Runs by
    obtain ⟨s', w', e, hr'⟩ := h
    rw [e] at hv
    exact ⟨s', w', e, hv, hr'⟩
  obtain ⟨s1, hs1⟩ := SetTopAndColorAuto_ok s w hr.2.2
  unfold Strip.storedStrip
  split
  · split
    · rw [hs1]
      simp only
      obtain ⟨w', h, hr'⟩ := DrawStrip1_runs s1 StripChangeColor w hr
      rw [h]
      exact ⟨_, _, rfl, later_runs ⟨id, id, rfl⟩ hr'⟩
    · obtain ⟨w', h, hr'⟩ := DrawStrip1_runs t StripCopyColor w hr
      rw [h]
      exact ⟨_, _, rfl, later_runs ⟨id, id, rfl⟩ hr'⟩
  · split
    · rw [hs1]
      simp only
      obtain ⟨w', h, hr'⟩ := DrawStrip2_runs s1 StripChangeColor t StripCopyColor w hr
      rw [h]
      exact ⟨_, _, rfl, later_runs ⟨id, id, rfl⟩ hr'⟩
    · exact ⟨_, _, rfl, hr⟩

theorem Strip_assign_runs (a b : Strip) (w : World) (hr : w.Runs) :
    ∃ a' w', Strip.assign a b w = (.ok (), a', w') ∧ a'.m_value = b.m_value ∧ w'.Runs := by
  unfold Strip.assign
  exact storedStrip_runs _ b w hr

theorem assignSelf_value (a : Strip) (w : World) :
    (Strip.assignSelf a w).2.1.m_value = a.m_value := by
  unfold Strip.assignSelf
  split
  · split
    · rfl
    · rename_i s1 h1
      have hv := SetTopAndColorAuto_value _ _ _ h1
      split <;> exact hv
  · rfl

theorem Strip_assignSelf_runs (a : Strip) (w : World) (hr : w.Runs) :
    ∃ a' w', Strip.assignSelf a w = (.ok (), a', w') ∧ a'.m_value = a.m_value ∧ w'.Runs := by
  have hv := assignSelf_value a w
  suffices h : ∃ a' w', Strip.assignSelf a w = (.ok (), a', w') ∧ w'.Runs by
    obtain ⟨a', w', e, hr'⟩ := h
    rw [e] at hv
    exact ⟨a', w', e, hv, hr'⟩
  obtain ⟨s1, hs1⟩ := SetTopAndColorAuto_ok a w hr.2.2
  unfold Strip.assignSelf
  split
  · rw [hs1]
    simp only
    obtain ⟨w', h, hr'⟩ := DrawStrip2_runs s1 StripChangeColor s1 StripCopyColor w hr
    rw [h]
    exact ⟨_, _, rfl, later_runs ⟨id, id, rfl⟩ hr'⟩
  · exact ⟨_, _, rfl, hr⟩

theorem Strip_assign_value (a b : Strip) (w : World) :
    (Strip.assign a b w).2.1.m_value = b.m_value := by
  unfold Strip.assign
  exact storedStrip_value _ b w

theorem Strip_copy_value (s t : Strip) (w w' : World) (h : Strip.copy s w = (.ok t, w')) :
    t.m_value = s.m_value := by
  unfold Strip.copy at h
  simp only at h
  split at h
  · split at h
    · cases h
    · cases h; rfl
  · cases h; rfl

theorem Strip_stdSwap_values (a b : Strip) (w : World)
    (h : (Strip.stdSwap a b w).1 = .ok ()) :
    (Strip.stdSwap a b w).2.1.1.m_value = b.m_value ∧
    (Strip.stdSwap a b w).2.1.2.m_value = a.m_value := by
  unfold Strip.stdSwap at h ⊢
  have hc := fun t w1 => Strip_copy_value a t w w1
  generalize Strip.copy a w = r at h hc ⊢
  obtain ⟨r1, w1⟩ := r
  cases r1 with
  | error e => simp at h
  | ok tmp =>
    have htmp := hc tmp w1 rfl
    simp only at h ⊢
    have ha := Strip_assign_value a b w1
    generalize Strip.assign a b w1 = r at h ha ⊢
    obtain ⟨r2, a2, w2⟩ := r
    cases r2 with
    | error e => simp at h
    | ok u =>
      simp only at h ha ⊢
      have hb := Strip_assign_value b tmp w2
      generalize Strip.assign b tmp w2 = r at h hb ⊢
      obtain ⟨r3, b3, w3⟩ := r
      simp only at hb ⊢
      exact ⟨ha, hb.trans htmp⟩

theorem Strip_stdSwapSelf_value (a : Strip) (w : World)
    (h : (Strip.stdSwapSelf a w).1 = .ok ()) :
    (Strip.stdSwapSelf a w).2.1.m_value = a.m_value := by
  unfold Strip.stdSwapSelf at h ⊢
  have hc := fun t w1 => Strip_copy_value a t w w1
  generalize Strip.copy a w = r at h hc ⊢
  obtain ⟨r1, w1⟩ := r
  cases r1 with
  | error e => simp at h
  | ok tmp =>
    have htmp := hc tmp w1 rfl
    simp only at h ⊢
    generalize Strip.assignSelf a w1 = r at h ⊢
    obtain ⟨r2, a2, w2⟩ := r
    cases r2 with
    | error e => simp at h
    | ok u =>
      simp only at h ⊢
      exact (Strip_assign_value a2 tmp w2).trans htmp

theorem Strip_stdSwap_runs (a b : Strip) (w : World) (hr : w.Runs) :
    (Strip.stdSwap a b w).1 = .ok () ∧ (Strip.stdSwap a b w).2.2.Runs := by
  unfold Strip.stdSwap
  obtain ⟨tmp, w1, e1, _, hr1⟩ := Strip_copy_runs a w hr
  rw [e1]
  simp only
  obtain ⟨a2, w2, e2, _, hr2⟩ := Strip_assign_runs a b w1 hr1
  rw [e2]
  simp only
  obtain ⟨b3, w3, e3, _, hr3⟩ := Strip_assign_runs b tmp w2 hr2
  rw [e3]
  exact ⟨rfl, hr3⟩

theorem Strip_stdSwapSelf_runs (a : Strip) (w : World) (hr : w.Runs) :
    (Strip.stdSwapSelf a w).1 = .ok () ∧ (Strip.stdSwapSelf a w).2.2.Runs := by
  unfold Strip.stdSwapSelf
  obtain ⟨tmp, w1, e1, _, hr1⟩ := Strip_copy_runs a w hr
  rw [e1]
  simp only
  obtain ⟨a2, w2, e2, _, hr2⟩ := Strip_assignSelf_runs a w1 hr1
  rw [e2]
  simp only
  obtain ⟨a3, w3, e3, _, hr3⟩ := Strip_assign_runs a2 tmp w2 hr2
  rw [e3]
  exact ⟨rfl, hr3⟩

theorem swapElems_length {T : Type} (ops : ElemOps T) (d : List T) (i j : Nat) (w : World) :
    (swapElems ops d i j w).2.1.length = d.length := by
  unfold swapElems
  split
  · split
    · simp
    · simp
  · rfl

theorem swapElems_returns {T : Type} (ops : ElemOps T) (Inv : World → Prop)
    (hswap : ∀ a b w, Inv w → (ops.swap a b w).1 = .ok () ∧ Inv (ops.swap a b w).2.2)
    (hself : ∀ a w, Inv w → (ops.swapSelf a w).1 = .ok () ∧ Inv (ops.swapSelf a w).2.2)
    (d : List T) (i j : Nat) (w : World) (hi : i < d.length) (hj : j < d.length) (hw : Inv w) :
    (swapElems ops d i j w).1 = .ok () ∧ Inv (swapElems ops d i j w).2.2 := by
  unfold swapElems
  rw [List.getElem?_eq_getElem hi, List.getElem?_eq_getElem hj]
  simp only
  split
  · exact hself _ w hw
  · exact hswap _ _ w hw

theorem shuffle_go_returns {T : Type} (ops : ElemOps T) (Inv : World → Prop)
    (hswap : ∀ a b w, Inv w → (ops.swap a b w).1 = .ok () ∧ Inv (ops.swap a b w).2.2)
    (hself : ∀ a w, Inv w → (ops.swapSelf a w).1 = .ok () ∧ Inv (ops.swapSelf a w).2.2)
    (rnd : Nat → Nat) (k : Nat) :
    ∀ (i : Nat) (d : List T) (w : World), i + k ≤ d.length → Inv w →
      (VisualSort.Shuffle.go ops rnd k i d w).1 = .ok () ∧
      Inv (VisualSort.Shuffle.go ops rnd k i d w).2.2 := by
  induction k with
  | zero => intro i d w _ hw; exact ⟨rfl, hw⟩
  | succ k ih =>
    intro i d w hk hw
    have hi : i < d.length := by omega
    have hj : rnd i % (i + 1) < d.length :=
      lt_of_lt_of_le (Nat.mod_lt _ (Nat.succ_pos i)) (by omega)
    unfold VisualSort.Shuffle.go
    have hs := swapElems_returns ops Inv hswap hself d i (rnd i % (i + 1)) w hi hj hw
    have hl := swapElems_length ops d i (rnd i % (i + 1)) w
    generalize swapElems ops d i (rnd i % (i + 1)) w = r at hs hl ⊢
    obtain ⟨r1, d1, w1⟩ := r
    simp only at hs hl
    obtain ⟨hs1, hs2⟩ := hs
    subst hs1
    simp only
    exact ih (i + 1) d1 w1 (by rw [hl]; omega) hs2

theorem swapElems_int (d : List Int) (i j : Nat) (w : World) (hi : i < d.length)
    (hj : j < d.length) :
    swapElems intOps d i j w = (.ok (), (d.set i (d.getD j 0)).set j (d.getD i 0), w) := by
  unfold swapElems
  rw [List.getElem?_eq_getElem hi, List.getElem?_eq_getElem hj]
  simp only
  split
  · rename_i h
    subst h
    simp [intOps, List.getD_eq_getElem?_getD, List.getElem?_eq_getElem hi]
  · simp [intOps, List.getD_eq_getElem?_getD, List.getElem?_eq_getElem hi,
      List.getElem?_eq_getElem hj]

theorem shuffle_go_int (rnd : Nat → Nat) (k : Nat) :
    ∀ (i : Nat) (d : List Int) (w w0 : World), i + k ≤ d.length →
      VisualSort.Shuffle.go intOps rnd k i d w =
        (.ok (), (VisualSort.Shuffle.go intOps rnd k i d w0).2.1, w) ∧
      (VisualSort.Shuffle.go intOps rnd k i d w0).2.1.length = d.length := by
  induction k with
  | zero => intro i d w w0 _; exact ⟨rfl, rfl⟩
  | succ k ih =>
    intro i d w w0 h
    have hi : i < d.length := by omega
    have hj : rnd i % (i + 1) < d.length :=
      lt_of_lt_of_le (Nat.mod_lt _ (Nat.succ_pos i)) (by omega)
    unfold VisualSort.Shuffle.go
    rw [swapElems_int d i _ w hi hj, swapElems_int d i _ w0 hi hj]
    simp only
    have hl : ((d.set i (d.getD (rnd i % (i + 1)) 0)).set (rnd i % (i + 1)) (d.getD i 0)).length
        = d.length := by simp
    obtain ⟨e1, e2⟩ := ih (i + 1) _ w w0 (by rw [hl]; omega)
    exact ⟨e1, e2.trans hl⟩

theorem shuffle_int (mt19937 : Nat → Nat → Nat) (d : List Int) (r : Nat) (w w0 : World) :
    VisualSort.Shuffle mt19937 intOps d r w =
      (.ok (), (VisualSort.Shuffle mt19937 intOps d r w0).2.1, w) ∧
    (VisualSort.Shuffle mt19937 intOps d r w0).2.1.length = d.length := by
  unfold VisualSort.Shuffle
  exact shuffle_go_int _ _ 0 d w w0 (by omega)

theorem swapElems_values {T : Type} (ops : ElemOps T) (val : T → Int)
    (hswap : ∀ a b w, (ops.swap a b w).1 = .ok () →
      val (ops.swap a b w).2.1.1 = val b ∧ val (ops.swap a b w).2.1.2 = val a)
    (hself : ∀ a w, (ops.swapSelf a w).1 = .ok () → val (ops.swapSelf a w).2.1 = val a)
    (d : List T) (i j : Nat) (w w0 : World)
    (h : (swapElems ops d i j w).1 = .ok ()) :
    (swapElems ops d i j w).2.1.map val = (swapElems intOps (d.map val) i j w0).2.1 ∧
    (swapElems ops d i j w).2.1.length = d.length := by
  unfold swapElems at h ⊢
  cases hi : d[i]? with
  | none => rw [hi] at h; simp at h
  | some a =>
    cases hj : d[j]? with
    | none => rw [hi, hj] at h; simp at h
    | some b =>
      rw [hi, hj] at h
      simp only [List.getElem?_map, hi, hj, Option.map_some']
      simp only at h
      split
      · rename_i hij
        rw [if_pos hij] at h
        have hv := hself a w h
        simp only [intOps]
        refine ⟨?_, by simp⟩
        rw [List.map_set, hv]
      · rename_i hij
        rw [if_neg hij] at h
        have hv := hswap a b w h
        simp only [intOps]
        refine ⟨?_, by simp⟩
        rw [List.map_set, List.map_set, hv.1, hv.2]

theorem shuffle_go_values {T : Type} (ops : ElemOps T) (val : T → Int)
    (hswap : ∀ a b w, (ops.swap a b w).1 = .ok () →
      val (ops.swap a b w).2.1.1 = val b ∧ val (ops.swap a b w).2.1.2 = val a)
    (hself : ∀ a w, (ops.swapSelf a w).1 = .ok () → val (ops.swapSelf a w).2.1 = val a)
    (rnd : Nat → Nat) (k : Nat) :
    ∀ (i : Nat) (d : List T) (w w0 : World), i + k ≤ d.length →
      (VisualSort.Shuffle.go ops rnd k i d w).1 = .ok () →
      (VisualSort.Shuffle.go ops rnd k i d w).2.1.map val =
        (VisualSort.Shuffle.go intOps rnd k i (d.map val) w0).2.1 := by
  induction k with
  | zero => intro i d w w0 _ _; rfl
  | succ k ih =>
    intro i d w w0 hk h
    have hi : i < (d.map val).length := by rw [List.length_map]; omega
    have hj : rnd i % (i + 1) < (d.map val).length :=
      lt_of_lt_of_le (Nat.mod_lt _ (Nat.succ_pos i)) (by rw [List.length_map]; omega)
    unfold VisualSort.Shuffle.go at h ⊢
    have hs := swapElems_values ops val hswap hself d i (rnd i % (i + 1)) w w0
    generalize swapElems ops d i (rnd i % (i + 1)) w = r at h hs ⊢
    obtain ⟨r1, d1, w1⟩ := r
    cases r1 with
    | error e => simp at h
    | ok u =>
      obtain ⟨hs1, hs2⟩ := hs rfl
      simp only at h hs1 hs2 ⊢
      rw [swapElems_int _ i _ w0 hi hj] at hs1 ⊢
      simp only at hs1 ⊢
      rw [← hs1]
      exact ih (i + 1) d1 w1 w0 (by rw [hs2]; omega) h

theorem counter_swap_values (a b : Counter) (w : World) :
    (counterOps.swap a b w).1 = .ok () ∧
    (counterOps.swap a b w).2.1.1.m_value = b.m_value ∧
    (counterOps.swap a b w).2.1.2.m_value = a.m_value :=
  ⟨rfl, rfl, rfl⟩

theorem counter_swapSelf_value (a : Counter) (w : World) :
    (counterOps.swapSelf a w).1 = .ok () ∧ (counterOps.swapSelf a w).2.1.m_value = a.m_value :=
  ⟨rfl, rfl⟩

theorem shuffle_counter (mt19937 : Nat → Nat → Nat) (c : List Counter) (r : Nat) (w w0 : World) :
    (VisualSort.Shuffle mt19937 counterOps c r w).1 = .ok () ∧
    (VisualSort.Shuffle mt19937 counterOps c r w).2.1.map (fun x => x.m_value) =
      (VisualSort.Shuffle mt19937 intOps (c.map fun x => x.m_value) r w0).2.1 := by
  have h1 := shuffle_go_returns counterOps (fun _ => True)
    (fun a b w _ => ⟨(counter_swap_values a b w).1, trivial⟩)
    (fun a w _ => ⟨(counter_swapSelf_value a w).1, trivial⟩) (mt19937 r) c.length 0 c w
    (by omega) trivial
  have h2 := shuffle_go_values counterOps (fun x => x.m_value)
    (fun a b w _ => (counter_swap_values a b w).2)
    (fun a w _ => (counter_swapSelf_value a w).2) (mt19937 r) c.length 0 c w w0 (by omega) h1.1
  unfold VisualSort.Shuffle
  rw [List.length_map]
  exact ⟨h1.1, h2⟩

theorem shuffle_strip_values (mt19937 : Nat → Nat → Nat) (s : List Strip) (r : Nat)
    (w w0 : World) (h : (VisualSort.Shuffle mt19937 stripOps s r w).1 = .ok ()) :
    (VisualSort.Shuffle mt19937 stripOps s r w).2.1.map (fun x => x.m_value) =
      (VisualSort.Shuffle mt19937 intOps (s.map fun x => x.m_value) r w0).2.1 := by
  unfold VisualSort.Shuffle at h ⊢
  rw [List.length_map]
  exact shuffle_go_values stripOps (fun x => x.m_value)
    (fun a b w h => Strip_stdSwap_values a b w h)
    (fun a w h => Strip_stdSwapSelf_value a w h) (mt19937 r) s.length 0 s w w0 (by omega) h

theorem shuffle_strip_runs (mt19937 : Nat → Nat → Nat) (s : List Strip) (r : Nat) (w : World)
    (hr : w.Runs) :
    (VisualSort.Shuffle mt19937 stripOps s r w).1 = .ok () ∧
    (VisualSort.Shuffle mt19937 stripOps s r w).2.2.Runs := by
  unfold VisualSort.Shuffle
  exact shuffle_go_returns stripOps World.Runs (fun a b w h => Strip_stdSwap_runs a b w h)
    (fun a w h => Strip_stdSwapSelf_runs a w h) (mt19937 r) s.length 0 s w (by omega) hr

theorem feeds_same (V : List Int) (a : VisualSort) : Feeds V a a :=
  ⟨[], by simp, by simp⟩

theorem feeds_of_calls (V : List Int) (a b : VisualSort) (h : b.calls = a.calls) : Feeds V a b :=
  ⟨[], by simp [h], by simp⟩

theorem feeds_then {V : List Int} {a b c : VisualSort} (h : Feeds V a b) (h' : Feeds V b c) :
    Feeds V a c := by
  obtain ⟨n1, e1, p1⟩ := h
  obtain ⟨n2, e2, p2⟩ := h'
  refine ⟨n1 ++ n2, by rw [e2, e1, List.append_assoc], ?_⟩
  intro x hx v hv
  rcases List.mem_append.mp hx with hx | hx
  · exact p1 x hx v hv
  · exact p2 x hx v hv

theorem feeds_record (V : List Int) (a : VisualSort) (c : Call)
    (h : ∀ v, Call.passInput c = some v → v = V) : Feeds V a (a.record c) :=
  ⟨[c], rfl, by intro x hx v hv; rw [List.mem_singleton.mp hx] at hv; exact h v hv⟩

theorem feeds_errorWindow (V : List Int) (a : VisualSort) (m : List String) :
    Feeds V a (a.RunErrorWindow m) :=
  feeds_record V a _ (by intro v hv; cases hv)

theorem current_congr (a b : VisualSort) (h1 : b.m_sortIndex = a.m_sortIndex)
    (h2 : b.m_sorts = a.m_sorts) : b.current = a.current := by
  unfold VisualSort.current
  rw [h1, h2]

theorem feeds_calls_record (V : List Int) (a b : VisualSort) (c : Call) (h : b.calls = a.calls)
    (hc : ∀ v, Call.passInput c = some v → v = V) : Feeds V a (b.record c) :=
  feeds_then (feeds_of_calls V a b h) (feeds_record V b c hc)

theorem UpdateLastMessage_feeds (V : List Int) (self : VisualSort) (w : World) :
    Feeds V self (self.UpdateLastMessage w).2 := by
  unfold VisualSort.UpdateLastMessage
  split
  · exact feeds_same _ _
  · split
    · exact feeds_same _ _
    · exact feeds_record _ _ _ (by intro v hv; cases hv)

theorem RunIntSort_leave_feeds (V : List Int) (self : VisualSort) (elapsed_ : Nat)
    (r : Except Fault Unit × List Int) :
    Feeds V self (VisualSort.RunIntSort.leave self elapsed_ r).2 ∧
    (VisualSort.RunIntSort.leave self elapsed_ r).2.m_sourceData = self.m_sourceData := by
  unfold VisualSort.RunIntSort.leave
  split
  · exact ⟨feeds_of_calls _ _ _ rfl, rfl⟩
  · exact ⟨feeds_calls_record _ _ _ _ rfl (by intro v hv; cases hv), rfl⟩
  · exact ⟨feeds_of_calls _ _ _ rfl, rfl⟩

theorem RunIntSort_feeds (self : VisualSort) (elapsed_ : Nat) :
    Feeds self.m_intSortData self (self.RunIntSort elapsed_).2 ∧
    (self.RunIntSort elapsed_).2.m_sourceData = self.m_sourceData := by
  unfold VisualSort.RunIntSort
  split
  · exact ⟨feeds_of_calls _ _ _ rfl, rfl⟩
  · have h := RunIntSort_leave_feeds self.m_intSortData
    exact ⟨feeds_then (feeds_calls_record _ self _ _ rfl (by intro v hv; cases hv; rfl))
      (h _ _ _).1, (h _ _ _).2⟩

theorem RunCounterSort_leave_feeds (V : List Int) (self : VisualSort)
    (r : Except Fault Unit × List Counter × World) :
    Feeds V self (VisualSort.RunCounterSort.leave self r).2.1 ∧
    (VisualSort.RunCounterSort.leave self r).2.1.m_sourceData = self.m_sourceData := by
  unfold VisualSort.RunCounterSort.leave
  split
  · exact ⟨feeds_of_calls _ _ _ rfl, rfl⟩
  · exact ⟨feeds_calls_record _ _ _ _ rfl (by intro v hv; cases hv), rfl⟩
  · exact ⟨feeds_of_calls _ _ _ rfl, rfl⟩

theorem RunCounterSort_feeds (self : VisualSort) (w : World) :
    Feeds (self.m_counterSortData.map fun c => c.m_value) self (self.RunCounterSort w).2.1 ∧
    (self.RunCounterSort w).2.1.m_sourceData = self.m_sourceData := by
  unfold VisualSort.RunCounterSort
  split
  · exact ⟨feeds_same _ _, rfl⟩
  · have h := RunCounterSort_leave_feeds (self.m_counterSortData.map fun c => c.m_value)
    exact ⟨feeds_then (feeds_record _ self _ (by intro v hv; cases hv; rfl)) (h _ _).1,
      (h _ _).2⟩

theorem RunStripSort_leave_feeds (V : List Int) (self : VisualSort)
    (r : Except Fault Unit × List Strip × World) :
    Feeds V self (VisualSort.RunStripSort.leave self r).2.1 := by
  unfold VisualSort.RunStripSort.leave
  split
  · split
    · exact feeds_calls_record _ _ _ _ rfl (by intro v hv; cases hv)
    · exact feeds_of_calls _ _ _ rfl
  · exact feeds_of_calls _ _ _ rfl
  · rename_i data_ w1
    have h := UpdateLastMessage_feeds V { self with m_stripSortData := data_ }
      (Strip.DrawRemainingStrip w1)
    split
    · rename_i heq
      rw [heq] at h
      exact feeds_then (feeds_of_calls _ _ _ rfl) h
    · rename_i heq
      rw [heq] at h
      exact feeds_then (feeds_of_calls _ _ _ rfl) h

theorem RunStripSort_feeds (self : VisualSort) (w : World) :
    Feeds (self.m_stripSortData.map fun s => s.m_value) self (self.RunStripSort w).2.1 := by
  unfold VisualSort.RunStripSort
  split
  · exact feeds_of_calls _ _ _ rfl
  · exact feeds_then (feeds_calls_record _ self _ _ rfl (by intro v hv; cases hv; rfl))
      (RunStripSort_leave_feeds _ _ _)

theorem CheckData_leave_feeds (V : List Int) (self : VisualSort)
    (r : Except Fault Bool × List Strip × World) :
    Feeds V self (VisualSort.CheckData.leave self r).2.1 := by
  unfold VisualSort.CheckData.leave
  split
  · split
    · exact feeds_calls_record _ _ _ _ rfl (by intro v hv; cases hv)
    · exact feeds_of_calls _ _ _ rfl
  · exact feeds_of_calls _ _ _ rfl
  · split
    · exact feeds_of_calls _ _ _ rfl
    · exact feeds_calls_record _ _ _ _ rfl (by intro v hv; cases hv)

theorem CheckData_feeds (V : List Int) (self : VisualSort) (w : World) :
    Feeds V self (self.CheckData w).2.1 := by
  unfold VisualSort.CheckData
  split
  · exact feeds_errorWindow _ _ _
  · exact feeds_then (feeds_of_calls V self _ rfl) (CheckData_leave_feeds _ _ _)

theorem fill_values (size : Nat) (w : World) (data_ : List Int) :
    ∀ (stripIndex : Nat) (strips : List Strip),
      Strip.InitValuesWith.fill size w stripIndex data_ = .ok strips →
      strips.map (fun s => s.m_value) = data_ := by
  induction data_ with
  | nil =>
    intro i strips h
    unfold Strip.InitValuesWith.fill at h
    cases h
    rfl
  | cons v rest ih =>
    intro i strips h
    unfold Strip.InitValuesWith.fill at h
    split at h
    · cases h
    · split at h
      · cases h
      · split at h
        · cases h
        · rename_i strip hs
          split at h
          · cases h
          · rename_i tail ht
            cases h
            have hv := SetTopAndColorAuto_value _ _ _ hs
            simp only [List.map_cons]
            rw [ih _ _ ht, hv]

theorem InitValuesWith_values (data_ : List Int) (mul : Bool) (w w' : World) (strips : List Strip)
    (h : Strip.InitValuesWith data_ mul w = (.ok strips, w')) :
    strips.map (fun s => s.m_value) = data_ := by
  unfold Strip.InitValuesWith at h
  simp only at h
  split at h
  · cases h
  · simp only [Prod.mk.injEq] at h
    exact fill_values _ _ _ _ _ h.1

theorem andThen_feeds (V : List Int) (a : VisualSort)
    (r : Except Fault Bool × VisualSort × World)
    (next : VisualSort → World → Except Fault Bool × VisualSort × World)
    (Q Q' : VisualSort → Prop) (h1 : Feeds V a r.2.1) (hq : r.1 = .ok true → Q r.2.1)
    (h2 : ∀ self w, Q self → Feeds V self (next self w).2.1 ∧
      ((next self w).1 = .ok true → Q' (next self w).2.1)) :
    Feeds V a (VisualSort.SortPreparation.andThen r next).2.1 ∧
    ((VisualSort.SortPreparation.andThen r next).1 = .ok true →
      Q' (VisualSort.SortPreparation.andThen r next).2.1) := by
  obtain ⟨r1, s, w⟩ := r
  cases r1 with
  | error e => exact ⟨h1, by intro h; cases h⟩
  | ok b =>
    cases b with
    | false => exact ⟨h1, by intro h; cases h⟩
    | true =>
      have := h2 s w (hq rfl)
      exact ⟨feeds_then h1 this.1, this.2⟩

theorem shuffle_int_world (mt19937 : Nat → Nat → Nat) (d : List Int) (r : Nat) (w w0 : World) :
    (VisualSort.Shuffle mt19937 intOps d r w).2.1 =
      (VisualSort.Shuffle mt19937 intOps d r w0).2.1 := by
  have h := (shuffle_int mt19937 d r w w0).1
  rw [h]

theorem setCounters_values (d : List Int) :
    (Counter.SetCounters d).map (fun c => c.m_value) = d := by
  unfold Counter.SetCounters
  rw [List.map_map]
  exact List.map_id _

theorem intPass_feeds (elapsed_ : Nat) (self : VisualSort) (w : World) :
    Feeds self.m_intSortData self (VisualSort.SortPreparation.intPass elapsed_ self w).2.1 ∧
    (VisualSort.SortPreparation.intPass elapsed_ self w).2.1.m_sourceData = self.m_sourceData :=
  RunIntSort_feeds self elapsed_

theorem third_feeds (V : List Int) (sort : SortDescriptor) (self : VisualSort) (w : World) :
    Feeds V self (VisualSort.SortPreparation.third sort self w).2.1 ∧
    ((VisualSort.SortPreparation.third sort self w).1 = .ok true →
      (VisualSort.SortPreparation.third sort self w).2.1.m_stripSortData.map (fun s => s.m_value)
        = self.m_sourceData) := by
  unfold VisualSort.SortPreparation.third
  split
  · exact ⟨feeds_same _ _, by intro h; cases h⟩
  · rename_i heq
    exact ⟨feeds_of_calls _ _ _ rfl, fun _ => InitValuesWith_values _ _ _ _ _ heq⟩

theorem plain_feeds (mt19937 : Nat → Nat → Nat) (self : VisualSort) (sort : SortDescriptor)
    (rand_device_ elapsed_ : Nat) (w : World) :
    Feeds (VisualSort.Shuffle mt19937 intOps self.m_sourceData rand_device_ w).2.1 self
      (VisualSort.SortPreparation.plain mt19937 self sort rand_device_ elapsed_ w).2.1 ∧
    ((VisualSort.SortPreparation.plain mt19937 self sort rand_device_ elapsed_ w).1 = .ok true →
      (VisualSort.SortPreparation.plain mt19937 self sort rand_device_ elapsed_ w).2.1.m_stripSortData.map
        (fun s => s.m_value) =
      (VisualSort.Shuffle mt19937 intOps self.m_sourceData rand_device_ w).2.1) := by
  unfold VisualSort.SortPreparation.plain
  generalize hV : (VisualSort.Shuffle mt19937 intOps self.m_sourceData rand_device_ w).2.1 = V
  have hfirst : Feeds V self
      (VisualSort.SortPreparation.plainFirst mt19937 rand_device_ elapsed_ self w).2.1 ∧
      (VisualSort.SortPreparation.plainFirst mt19937 rand_device_ elapsed_ self w).2.1.m_sourceData
        = V := by
    unfold VisualSort.SortPreparation.plainFirst
    rw [(shuffle_int mt19937 self.m_sourceData rand_device_ w w).1, hV]
    simp only
    have h := intPass_feeds elapsed_ { self with m_sourceData := V, m_intSortData := V } w
    exact ⟨feeds_then (feeds_of_calls V self _ rfl) h.1, h.2⟩
  have h12 := andThen_feeds V self _ VisualSort.SortPreparation.plainSecond
    (fun s => s.m_sourceData = V) (fun s => s.m_sourceData = V)
    hfirst.1 (fun _ => hfirst.2) (by
      intro s w1 hs
      unfold VisualSort.SortPreparation.plainSecond
      have h := RunCounterSort_feeds
        { s with m_counterSortData := Counter.SetCounters s.m_sourceData } w1
      simp only [setCounters_values] at h
      subst hs
      exact ⟨feeds_then (feeds_of_calls _ s _ rfl) h.1, fun _ => h.2⟩)
  exact andThen_feeds V self _ (VisualSort.SortPreparation.third sort)
    (fun s => s.m_sourceData = V) (fun s => s.m_stripSortData.map (fun s => s.m_value) = V)
    h12.1 h12.2 (by
      intro s w1 hs
      have h := third_feeds V sort s w1
      subst hs
      exact h)

theorem animate_values (mt19937 : Nat → Nat → Nat) (strips : List Strip) (r : Nat)
    (w w0 : World) (h : (VisualSort.SortPreparation.animate mt19937 strips r w).1 = .ok ()) :
    (VisualSort.SortPreparation.animate mt19937 strips r w).2.1.map (fun s => s.m_value) =
      (VisualSort.Shuffle mt19937 intOps (strips.map fun s => s.m_value) r w0).2.1 := by
  unfold VisualSort.SortPreparation.animate at h ⊢
  split at h
  · cases h
  · split at h
    · cases h
    · rename_i w2 h2
      have hv := shuffle_strip_values mt19937 strips r w2 w0
      generalize VisualSort.Shuffle mt19937 stripOps strips r w2 = q at h hv ⊢
      obtain ⟨q1, d, w3⟩ := q
      cases q1 with
      | error e => cases h
      | ok u => exact hv rfl

theorem shownLeave_feeds (V : List Int) (self : VisualSort)
    (r : Except Fault Unit × List Strip × World) :
    Feeds V self (VisualSort.SortPreparation.shownLeave self r).2.1 ∧
    ((VisualSort.SortPreparation.shownLeave self r).1 = .ok true →
      r.1 = .ok () ∧ (VisualSort.SortPreparation.shownLeave self r).2.1.m_stripSortData = r.2.1) := by
  unfold VisualSort.SortPreparation.shownLeave
  split
  · refine ⟨?_, by intro h; cases h⟩
    split
    · exact feeds_calls_record _ _ _ _ rfl (by intro v hv; cases hv)
    · exact feeds_of_calls _ _ _ rfl
  · exact ⟨feeds_of_calls _ _ _ rfl, by intro h; cases h⟩
  · exact ⟨feeds_of_calls _ _ _ rfl, fun _ => ⟨rfl, rfl⟩⟩

theorem shown_feeds (mt19937 : Nat → Nat → Nat) (self : VisualSort) (sort : SortDescriptor)
    (randInt elapsed_ : Nat) (w : World) :
    Feeds (VisualSort.Shuffle mt19937 intOps self.m_sourceData randInt w).2.1 self
      (VisualSort.SortPreparation.shown mt19937 self sort randInt elapsed_ w).2.1 ∧
    ((VisualSort.SortPreparation.shown mt19937 self sort randInt elapsed_ w).1 = .ok true →
      (VisualSort.SortPreparation.shown mt19937 self sort randInt elapsed_ w).2.1.m_stripSortData.map
        (fun s => s.m_value) =
      (VisualSort.Shuffle mt19937 intOps self.m_sourceData randInt w).2.1) := by
  unfold VisualSort.SortPreparation.shown
  generalize hV : (VisualSort.Shuffle mt19937 intOps self.m_sourceData randInt w).2.1 = V
  have hfirst : Feeds V self
      (VisualSort.SortPreparation.shownFirst mt19937 randInt elapsed_ self w).2.1 ∧
      (VisualSort.SortPreparation.shownFirst mt19937 randInt elapsed_ self w).2.1.m_sourceData
        = self.m_sourceData := by
    unfold VisualSort.SortPreparation.shownFirst
    rw [(shuffle_int mt19937 self.m_sourceData randInt w w).1, hV]
    simp only
    have h := intPass_feeds elapsed_ { self with m_intSortData := V } w
    exact ⟨feeds_then (feeds_of_calls V self _ rfl) h.1, h.2⟩
  have h12 := andThen_feeds V self _ (VisualSort.SortPreparation.shownSecond mt19937 randInt)
    (fun s => s.m_sourceData = self.m_sourceData) (fun s => s.m_sourceData = self.m_sourceData)
    hfirst.1 (fun _ => hfirst.2) (by
      intro s w1 hs
      unfold VisualSort.SortPreparation.shownSecond
      have hVs : (VisualSort.Shuffle mt19937 intOps s.m_sourceData randInt w).2.1 = V := by
        rw [hs]; exact hV
      have hc := shuffle_counter mt19937 (Counter.SetCounters s.m_sourceData) randInt w1 w
      rw [setCounters_values, hVs] at hc
      generalize VisualSort.Shuffle mt19937 counterOps (Counter.SetCounters s.m_sourceData)
        randInt w1 = q at hc ⊢
      obtain ⟨q1, d, w2⟩ := q
      obtain ⟨hc1, hc2⟩ := hc
      subst hc1
      simp only
      have h := RunCounterSort_feeds { s with m_counterSortData := d } w2
      simp only at h
      rw [hc2] at h
      exact ⟨feeds_then (feeds_of_calls V s _ rfl) h.1, fun _ => h.2.trans hs⟩)
  have h123 := andThen_feeds V self _ (VisualSort.SortPreparation.third sort)
    (fun s => s.m_sourceData = self.m_sourceData)
    (fun s => s.m_stripSortData.map (fun s => s.m_value) = self.m_sourceData)
    h12.1 h12.2 (by
      intro s w1 hs
      have h := third_feeds V sort s w1
      exact ⟨h.1, fun hh => (h.2 hh).trans hs⟩)
  exact andThen_feeds V self _ (VisualSort.SortPreparation.shownFourth mt19937 randInt)
    (fun s => s.m_stripSortData.map (fun s => s.m_value) = self.m_sourceData)
    (fun s => s.m_stripSortData.map (fun s => s.m_value) = V)
    h123.1 h123.2 (by
      intro s w1 hs
      unfold VisualSort.SortPreparation.shownFourth
      rw [(shuffle_int mt19937 s.m_sourceData randInt w1 w1).1]
      simp only
      have hl := shownLeave_feeds V
        { s with m_sourceData := (VisualSort.Shuffle mt19937 intOps s.m_sourceData randInt w1).2.1 }
        (VisualSort.SortPreparation.animate mt19937 s.m_stripSortData randInt w1)
      refine ⟨feeds_then (feeds_of_calls V s _ rfl) hl.1, ?_⟩
      intro hh
      obtain ⟨ha, hb⟩ := hl.2 hh
      rw [hb, animate_values mt19937 s.m_stripSortData randInt w1 w ha, hs, hV])

theorem branch_feeds (mt19937 : Nat → Nat → Nat) (self : VisualSort) (sort : SortDescriptor)
    (rand_device_ elapsed_ : Nat) (w : World) :
    Feeds (VisualSort.Shuffle mt19937 intOps self.m_sourceData rand_device_ w).2.1 self
      (VisualSort.SortPreparation.branch mt19937 self sort rand_device_ elapsed_ w).2.1 ∧
    ((VisualSort.SortPreparation.branch mt19937 self sort rand_device_ elapsed_ w).1 = .ok true →
      (VisualSort.SortPreparation.branch mt19937 self sort rand_device_ elapsed_ w).2.1.m_stripSortData.map
        (fun s => s.m_value) =
      (VisualSort.Shuffle mt19937 intOps self.m_sourceData rand_device_ w).2.1) := by
  unfold VisualSort.SortPreparation.branch
  split
  · exact shown_feeds mt19937 self sort rand_device_ elapsed_ w
  · exact plain_feeds mt19937 self sort rand_device_ elapsed_ w

theorem last_feeds (V : List Int) (a : VisualSort) (r : Except Fault Bool × VisualSort × World)
    (h : Feeds V a r.2.1) : Feeds V a (VisualSort.SortPreparation.last r).2.1 := by
  unfold VisualSort.SortPreparation.last
  split
  · exact h
  · exact h
  · rename_i s w
    have hc := CheckData_feeds V s w
    split
    · rename_i heq
      rw [heq] at hc
      exact feeds_then h hc
    · rename_i heq
      rw [heq] at hc
      exact feeds_then h hc

theorem last_never_false (r : Except Fault Bool × VisualSort × World) :
    (VisualSort.SortPreparation.last r).1 ≠ .ok false := by
  unfold VisualSort.SortPreparation.last
  split
  · intro h; cases h
  · intro h; cases h
  · split
    · intro h; cases h
    · intro h; cases h

theorem run_feeds (mt19937 : Nat → Nat → Nat) (self : VisualSort) (sort : SortDescriptor)
    (data_size_ rand_device_ elapsed_ : Nat) (w : World) :
    (VisualSort.SortPreparation.run mt19937 self sort data_size_ rand_device_ elapsed_ w).1
      ≠ .ok false ∧
    ∃ V, Feeds V (self.record (.initDataFunc data_size_))
        (VisualSort.SortPreparation.run mt19937 self sort data_size_ rand_device_ elapsed_ w).2.1 ∧
      ∀ D, self.m_initDataFunc data_size_ self.m_sourceData = .ok D →
        V = (VisualSort.Shuffle mt19937 intOps D rand_device_ w).2.1 := by
  unfold VisualSort.SortPreparation.run
  split
  · rename_i e he
    exact ⟨(by intro h; cases h), [], feeds_same _ _, by intro D hD; rw [he] at hD; cases hD⟩
  · rename_i data_ hd
    refine ⟨last_never_false _, (VisualSort.Shuffle mt19937 intOps data_ rand_device_ w).2.1,
      last_feeds _ _ _ ?_, by intro D hD; rw [hd] at hD; cases hD; rfl⟩
    have hb := branch_feeds mt19937
      { self.record (.initDataFunc data_size_) with m_sourceData := data_ } sort rand_device_
      elapsed_ w
    have h := andThen_feeds _ (self.record (.initDataFunc data_size_)) _ VisualSort.RunStripSort
      (fun s => s.m_stripSortData.map (fun s => s.m_value) =
        (VisualSort.Shuffle mt19937 intOps data_ rand_device_ w).2.1) (fun _ => True)
      (feeds_then (feeds_of_calls _ _ _ rfl) hb.1) hb.2 (by
        intro s w1 hs
        have hr := RunStripSort_feeds s w1
        rw [hs] at hr
        exact ⟨hr, fun _ => trivial⟩)
    exact h.1

theorem SortPreparation_rejects (mt19937 : Nat → Nat → Nat) (vs : VisualSort)
    (sort_index_ data_size_ rand_device_ elapsed_ : Nat) (w : World) (sort : SortDescriptor)
    (hsort : vs.m_sorts[sort_index_]? = some sort)
    (hbad : VisualSort.SortPreparation.errorMessages sort data_size_ ≠ []) :
    vs.SortPreparation mt19937 sort_index_ data_size_ rand_device_ elapsed_ w =
      (.ok false,
        { vs with m_sortIndex := none,
                  calls := vs.calls ++ [.RunErrorWindow
                    (VisualSort.SortPreparation.errorMessages sort data_size_)] }, w) := by
  have hlt : ¬ sort_index_ ≥ vs.m_sorts.length := by
    intro hge
    rw [List.getElem?_eq_none hge] at hsort
    cases hsort
  unfold VisualSort.SortPreparation
  rw [if_neg hlt, hsort]
  simp only
  rw [if_pos hbad]
  rfl

theorem SortPreparation_accepts (mt19937 : Nat → Nat → Nat) (vs : VisualSort)
    (sort_index_ data_size_ rand_device_ elapsed_ : Nat) (w : World) (sort : SortDescriptor)
    (hsort : vs.m_sorts[sort_index_]? = some sort)
    (hgood : VisualSort.SortPreparation.errorMessages sort data_size_ = []) :
    (vs.SortPreparation mt19937 sort_index_ data_size_ rand_device_ elapsed_ w).1 ≠ .ok false ∧
    ∃ V rest, (vs.SortPreparation mt19937 sort_index_ data_size_ rand_device_ elapsed_ w).2.1.calls
        = vs.calls ++ .initDataFunc data_size_ :: rest ∧
      (∀ x ∈ rest, ∀ v, Call.passInput x = some v → v = V) ∧
      ∀ D, vs.m_initDataFunc data_size_ vs.m_sourceData = .ok D →
        V = (VisualSort.Shuffle mt19937 intOps D rand_device_ w).2.1 := by
  have hlt : ¬ sort_index_ ≥ vs.m_sorts.length := by
    intro hge
    rw [List.getElem?_eq_none hge] at hsort
    cases hsort
  unfold VisualSort.SortPreparation
  rw [if_neg hlt, hsort]
  simp only
  rw [if_neg (by rw [hgood]; exact fun h => h rfl)]
  obtain ⟨h1, V, ⟨new, h2, h3⟩, h4⟩ := run_feeds mt19937 { vs with m_sortIndex := some sort_index_ }
    sort data_size_ rand_device_ elapsed_ w
  refine ⟨h1, V, new, ?_, h3, h4⟩
  unfold VisualSort.SortPreparation.guard
  simp only
  rw [h2]
  simp [VisualSort.record]

theorem SortPreparation_feeds (mt19937 : Nat → Nat → Nat) (vs : VisualSort)
    (sort_index_ data_size_ rand_device_ elapsed_ : Nat) (w : World) :
    ∃ V, Feeds V vs
        (vs.SortPreparation mt19937 sort_index_ data_size_ rand_device_ elapsed_ w).2.1 ∧
      ∀ D, vs.m_initDataFunc data_size_ vs.m_sourceData = .ok D →
        V = (VisualSort.Shuffle mt19937 intOps D rand_device_ w).2.1 := by
  have hV : ∀ (P : List Int → Prop), (∀ V, P V) →
      ∃ V, P V ∧ ∀ D, vs.m_initDataFunc data_size_ vs.m_sourceData = .ok D →
        V = (VisualSort.Shuffle mt19937 intOps D rand_device_ w).2.1 := by
    intro P hP
    cases hD : vs.m_initDataFunc data_size_ vs.m_sourceData with
    | error e => exact ⟨[], hP _, by intro D h; cases h⟩
    | ok D0 => exact ⟨_, hP _, by intro D h; cases h; rfl⟩
  cases hsort : vs.m_sorts[sort_index_]? with
  | none =>
    apply hV
    intro V
    refine feeds_of_calls _ _ _ ?_
    unfold VisualSort.SortPreparation
    split
    · rfl
    · rw [hsort]
  | some sort =>
    by_cases hbad : VisualSort.SortPreparation.errorMessages sort data_size_ = []
    · obtain ⟨_, V, rest, h2, h3, h4⟩ := SortPreparation_accepts mt19937 vs sort_index_
        data_size_ rand_device_ elapsed_ w sort hsort hbad
      refine ⟨V, ⟨_ :: rest, h2, ?_⟩, h4⟩
      intro x hx v hv
      rcases List.mem_cons.mp hx with hx | hx
      · subst hx; cases hv
      · exact h3 x hx v hv
    · apply hV
      intro V
      rw [SortPreparation_rejects mt19937 vs sort_index_ data_size_ rand_device_ elapsed_ w sort
        hsort hbad]
      exact ⟨[_], rfl, by intro x hx v hv; rw [List.mem_singleton.mp hx] at hv; cases hv⟩

theorem later_DrawCheckStrip (s : Strip) (c : COLORREF) (w : World) :
    w.Later (Strip.DrawCheckStrip s c w).2 := by
  have h1 : w.Later (Strip.DrawCheckStrip.draw s c w) := ⟨id, id, rfl⟩
  have h2 := later_StopSort (Strip.DrawCheckStrip.draw s c w)
  unfold Strip.DrawCheckStrip
  generalize Strip.StopSort (Strip.DrawCheckStrip.draw s c w) = r at h2
  obtain ⟨r1, w1⟩ := r
  cases r1 with
  | error e => exact later_then h1 h2
  | ok u => exact later_then (later_then h1 h2) ⟨id, id, rfl⟩

theorem DrawCheckStrip_ok (s : Strip) (c : COLORREF) (w : World) (hc : w.NoCancel)
    (hp : w.PauseEnds) : (Strip.DrawCheckStrip s c w).1 = .ok () := by
  have h1 : w.Later (Strip.DrawCheckStrip.draw s c w) := ⟨id, id, rfl⟩
  have h2 := StopSort_ok _ (h1.1 hc) (h1.2.1 hp)
  unfold Strip.DrawCheckStrip
  generalize Strip.StopSort (Strip.DrawCheckStrip.draw s c w) = r at h2
  obtain ⟨r1, w1⟩ := r
  simp only at h2
  subst h2
  rfl

theorem compare_result (strips : List Strip) :
    ∀ (source : List Int) (isCorrect : Bool) (w : World), strips.length = source.length →
      w.NoCancel → w.PauseEnds →
      ∃ w', VisualSort.CheckData.compare strips source isCorrect w =
        (.ok (isCorrect && decide (strips.map Strip.GetValue = source)),
          List.zipWith (fun strip v => strip.SetColor (if strip.GetValue = v then GREEN else RED))
            strips source, w') := by
  induction strips with
  | nil =>
    intro source isCorrect w hl _ _
    cases source with
    | nil => exact ⟨w, by simp [VisualSort.CheckData.compare]⟩
    | cons v rest => simp at hl
  | cons strip strips ih =>
    intro source isCorrect w hl hc hp
    cases source with
    | nil => simp at hl
    | cons v rest =>
      have hl' : strips.length = rest.length := by simpa using hl
      unfold VisualSort.CheckData.compare
      by_cases hv : strip.GetValue = v
      · rw [if_pos hv]
        have hok := DrawCheckStrip_ok (strip.SetColor GREEN) GREEN w hc hp
        have hl1 := later_DrawCheckStrip (strip.SetColor GREEN) GREEN w
        generalize Strip.DrawCheckStrip (strip.SetColor GREEN) GREEN w = r at hok hl1
        obtain ⟨r1, w1⟩ := r
        simp only at hok hl1
        subst hok
        simp only
        obtain ⟨w', e⟩ := ih rest isCorrect w1 hl' (hl1.1 hc) (hl1.2.1 hp)
        rw [e]
        refine ⟨w', ?_⟩
        simp [hv]
      · rw [if_neg hv]
        have hok := DrawCheckStrip_ok (strip.SetColor RED) RED w hc hp
        have hl1 := later_DrawCheckStrip (strip.SetColor RED) RED w
        generalize Strip.DrawCheckStrip (strip.SetColor RED) RED w = r at hok hl1
        obtain ⟨r1, w1⟩ := r
        simp only at hok hl1
        subst hok
        simp only
        obtain ⟨w', e⟩ := ih rest false w1 hl' (hl1.1 hc) (hl1.2.1 hp)
        rw [e]
        refine ⟨w', ?_⟩
        simp [hv]

theorem values_eq_iff (strips : List Strip) (source : List Int)
    (hl : strips.length = source.length) :
    strips.map Strip.GetValue = source ↔
      ∀ i : Nat, i < strips.length → (strips[i]?).map Strip.GetValue = source[i]? := by
  constructor
  · intro h i _
    rw [← h, List.getElem?_map]
  · intro h
    apply List.ext_getElem?
    intro i
    rw [List.getElem?_map]
    by_cases hi : i < strips.length
    · exact h i hi
    · rw [List.getElem?_eq_none (by omega), List.getElem?_eq_none (by omega)]
      rfl

theorem ExecuteNow_loop_spec {σ : Type} (fuel : Nat) (self : ScopeGuard σ) (s : σ)
    (h : self.m_cleanupFunctions.length ≤ fuel) :
    ScopeGuard.ExecuteNow.loop fuel self s =
      ({ self with m_cleanupFunctions := [] },
        self.m_cleanupFunctions.foldr (fun func t => func.call t) s) := by
  induction fuel generalizing self s with
  | zero =>
    obtain ⟨fs, a⟩ := self
    have : fs = [] := List.length_eq_zero.mp (Nat.le_zero.mp h)
    subst this
    rfl
  | succ fuel ih =>
    obtain ⟨fs, a⟩ := self
    rcases List.eq_nil_or_concat fs with h0 | ⟨fs', f, rfl⟩
    · subst h0; rfl
    · unfold ScopeGuard.ExecuteNow.loop
      simp only [List.concat_eq_append, List.getLast?_concat, List.dropLast_concat]
      rw [ih]
      · simp [List.foldr_append]
      · simp at h ⊢; omega

theorem ExecuteNow_spec {σ : Type} (self : ScopeGuard σ) (s : σ) :
    self.ExecuteNow s =
      ({ self with m_cleanupFunctions := [] },
        self.m_cleanupFunctions.foldr (fun func t => func.call t) s) :=
  ExecuteNow_loop_spec _ self s (le_refl _)

theorem AddBack_all {σ : Type} (fs : List (CleanupFunction σ)) (self : ScopeGuard σ)
    (h : self.m_active = true) :
    fs.foldl ScopeGuard.AddBack self =
      { self with m_cleanupFunctions := self.m_cleanupFunctions ++ fs } := by
  induction fs generalizing self with
  | nil => simp
  | cons f fs ih =>
    rw [List.foldl_cons, ih]
    · simp [ScopeGuard.AddBack, h]
    · simp [ScopeGuard.AddBack, h]

theorem marks_foldr (ks : List Nat) (record : List Nat) :
    (ks.map CleanupFunction.marks).foldr (fun func t => func.call t) record =
      record ++ ks.reverse := by
  induction ks generalizing record with
  | nil => simp
  | cons k ks ih =>
    rw [List.map_cons, List.foldr_cons, ih]
    simp [CleanupFunction.call, CleanupFunction.marks]

theorem SetTopAuto_slot (s s' : Strip) (w : World) (h : s.SetTopAuto w = .ok s') :
    s'.slot = s.slot := by
  unfold Strip.SetTopAuto at h
  simp only at h
  split at h
  · cases h
  · split at h
    · cases h
    · split at h <;> · cases h; rfl

theorem SetColorAuto_slot (s s' : Strip) (w : World) (h : s.SetColorAuto w = .ok s') :
    s'.slot = s.slot := by
  unfold Strip.SetColorAuto at h
  simp only at h
  split at h
  · cases h
  · have h' := (Except.ok.inj h).symm
    rw [h']
    simp only [Strip.slot]

theorem SetTopAndColorAuto_slot (s s' : Strip) (w : World)
    (h : s.SetTopAndColorAuto w = .ok s') : s'.slot = s.slot := by
  unfold Strip.SetTopAndColorAuto at h
  split at h
  · cases h
  · rename_i s1 h1
    exact (SetColorAuto_slot _ _ _ h).trans (SetTopAuto_slot _ _ _ h1)

theorem storedInt_slot (s : Strip) (c : COLORREF) (w : World) :
    (Strip.storedInt s c w).2.1.slot = s.slot := by
  unfold Strip.storedInt
  split
  · split
    · rfl
    · rename_i s1 h1
      have hv := SetTopAndColorAuto_slot _ _ _ h1
      split <;> exact hv
  · rfl

theorem storedStrip_slot (s t : Strip) (w : World) :
    (Strip.storedStrip s t w).2.1.slot = s.slot := by
  unfold Strip.storedStrip
  split
  · split
    · split
      · rfl
      · rename_i s1 h1
        have hv := SetTopAndColorAuto_slot _ _ _ h1
        split <;> exact hv
    · split <;> rfl
  · split
    · split
      · rfl
      · rename_i s1 h1
        have hv := SetTopAndColorAuto_slot _ _ _ h1
        split <;> exact hv
    · rfl

theorem assignSelf_slot (s : Strip) (w : World) : (s.assignSelf w).2.1.slot = s.slot := by
  unfold Strip.assignSelf
  split
  · split
    · rfl
    · rename_i s1 h1
      have hv := SetTopAndColorAuto_slot _ _ _ h1
      split <;> exact hv
  · rfl

theorem copied_slot (s t : Strip) (w : World) : (Strip.copied s t w).2.1.slot = s.slot := by
  unfold Strip.copied
  split
  · split
    · split
      · rfl
      · rename_i s1 h1
        have hv := SetTopAuto_slot _ _ _ h1
        split <;> exact hv
    · split <;> rfl
  · split
    · split
      · rfl
      · rename_i s1 h1
        have hv := SetTopAuto_slot _ _ _ h1
        split <;> exact hv
    · rfl

theorem swapped_slot (rescale : Strip → World → Except Fault Strip)
    (hr : ∀ s s' w, rescale s w = .ok s' → s'.slot = s.slot) (s t : Strip) (w : World) :
    (Strip.swapped rescale s t w).2.1.1.slot = s.slot ∧
      (Strip.swapped rescale s t w).2.1.2.slot = t.slot := by
  unfold Strip.swapped
  split
  · split
    · split
      · exact ⟨rfl, rfl⟩
      · rename_i s1 h1
        have hv := hr _ _ _ h1
        split <;> exact ⟨hv, rfl⟩
    · split
      · exact ⟨rfl, rfl⟩
      · rename_i s1 h1
        have hv := hr _ _ _ h1
        split <;> exact ⟨rfl, hv⟩
  · split
    · split
      · exact ⟨rfl, rfl⟩
      · rename_i s1 h1
        have hv := hr _ _ _ h1
        split
        · exact ⟨hv, rfl⟩
        · rename_i t1 h2
          have hv2 := hr _ _ _ h2
          split <;> exact ⟨hv, hv2⟩
    · exact ⟨rfl, rfl⟩

theorem swappedInt_slot (s : Strip) (w : World) : (Strip.swappedInt s w).2.1.slot = s.slot := by
  unfold Strip.swappedInt
  split
  · split
    · rfl
    · rename_i s1 h1
      have hv := SetTopAndColorAuto_slot _ _ _ h1
      split <;> exact hv
  · rfl

theorem returnOld_slot (back : Int) (r : Except Fault Unit × Strip × World) :
    (Strip.returnOld back r).2.1 = r.2.1 := by
  unfold Strip.returnOld
  split <;> rfl

theorem Strip_stdSwap_slot (a b : Strip) (w : World) :
    (Strip.stdSwap a b w).2.1.1.slot = a.slot ∧ (Strip.stdSwap a b w).2.1.2.slot = b.slot := by
  unfold Strip.stdSwap
  split
  · exact ⟨rfl, rfl⟩
  · rename_i tmp w1 _
    have h1 := storedStrip_slot { a with m_value := b.m_value } b w1
    change (Strip.assign a b w1).2.1.slot = a.slot at h1
    generalize Strip.assign a b w1 = r at h1
    obtain ⟨r1, a1, w2⟩ := r
    cases r1 with
    | error e => exact ⟨h1, rfl⟩
    | ok u =>
      simp only
      have h2 := storedStrip_slot { b with m_value := tmp.m_value } tmp w2
      change (Strip.assign b tmp w2).2.1.slot = b.slot at h2
      generalize Strip.assign b tmp w2 = r at h2
      obtain ⟨r2, b1, w3⟩ := r
      exact ⟨h1, h2⟩

theorem Strip_stdSwapSelf_slot (a : Strip) (w : World) :
    (Strip.stdSwapSelf a w).2.1.slot = a.slot := by
  unfold Strip.stdSwapSelf
  split
  · rfl
  · rename_i tmp w1 _
    have h1 := assignSelf_slot a w1
    generalize Strip.assignSelf a w1 = r at h1
    obtain ⟨r1, a1, w2⟩ := r
    cases r1 with
    | error e => exact h1
    | ok u =>
      simp only
      have h2 := storedStrip_slot { a1 with m_value := tmp.m_value } tmp w2
      change (Strip.assign a1 tmp w2).2.1.slot = a1.slot at h2
      exact h2.trans h1

/-- A property of the elements that the two swaps of `ops` keep is kept, position
by position, by `swapElems`. -/
theorem swapElems_keeps {T κ : Type} (ops : ElemOps T) (key : T → κ)
    (hswap : ∀ a b w, key (ops.swap a b w).2.1.1 = key a ∧ key (ops.swap a b w).2.1.2 = key b)
    (hself : ∀ a w, key (ops.swapSelf a w).2.1 = key a)
    (data_ : List T) (i j : Nat) (w : World) :
    (swapElems ops data_ i j w).2.1.map key = data_.map key := by
  unfold swapElems
  split
  · rename_i a b ha hb
    split
    · have h := hself a w
      generalize ops.swapSelf a w = r at h
      obtain ⟨r1, a1, w1⟩ := r
      simp only at h ⊢
      rw [List.map_set, h]
      have hi : i < data_.length := (List.getElem?_eq_some.mp ha).1
      apply List.ext_getElem? ; intro k
      by_cases hik : i = k
      · subst hik
        rw [List.getElem?_set_self (by simpa using hi), List.getElem?_map, ha]; rfl
      · rw [List.getElem?_set_ne hik]
    · have h := hswap a b w
      generalize ops.swap a b w = r at h
      obtain ⟨r1, ⟨a1, b1⟩, w1⟩ := r
      simp only at h ⊢
      rw [List.map_set, List.map_set, h.1, h.2]
      apply List.ext_getElem? ; intro k
      have hi : i < data_.length := (List.getElem?_eq_some.mp ha).1
      have hj : j < data_.length := (List.getElem?_eq_some.mp hb).1
      by_cases hjk : j = k
      · subst hjk
        rw [List.getElem?_set_self (by simpa using hj), List.getElem?_map, hb]; rfl
      · rw [List.getElem?_set_ne hjk]
        by_cases hik : i = k
        · subst hik
          rw [List.getElem?_set_self (by simpa using hi), List.getElem?_map, ha]; rfl
        · rw [List.getElem?_set_ne hik]
  · rfl

theorem BubbleSort_inner_keeps {T κ : Type} (ops : ElemOps T) (key : T → κ)
    (hswap : ∀ a b w, key (ops.swap a b w).2.1.1 = key a ∧ key (ops.swap a b w).2.1.2 = key b)
    (hself : ∀ a w, key (ops.swapSelf a w).2.1 = key a)
    (bound k j : Nat) (noSwapped : Bool) (data_ : List T) (w : World) :
    (BubbleSort.inner ops bound k j noSwapped data_ w).2.1.map key = data_.map key := by
  induction k generalizing j noSwapped data_ w with
  | zero => rfl
  | succ k ih =>
    unfold BubbleSort.inner
    split
    · split
      · split
        · rfl
        · have h := swapElems_keeps ops key hswap hself data_ j (j + 1)
          rename_i w1 _
          specialize h w1
          generalize swapElems ops data_ j (j + 1) w1 = r at h
          obtain ⟨r1, d1, w2⟩ := r
          cases r1 with
          | error e => exact h
          | ok u => simp only; rw [ih]; exact h
        · exact ih _ _ _ _
      · rfl
    · rfl

theorem BubbleSort_outer_keeps {T κ : Type} (ops : ElemOps T) (key : T → κ)
    (hswap : ∀ a b w, key (ops.swap a b w).2.1.1 = key a ∧ key (ops.swap a b w).2.1.2 = key b)
    (hself : ∀ a w, key (ops.swapSelf a w).2.1 = key a)
    (dataSize k i : Nat) (data_ : List T) (w : World) :
    (BubbleSort.outer ops dataSize k i data_ w).2.1.map key = data_.map key := by
  induction k generalizing i data_ w with
  | zero => rfl
  | succ k ih =>
    unfold BubbleSort.outer
    split
    · have h := BubbleSort_inner_keeps ops key hswap hself (dataSize - i - 1) (dataSize + 1) 0
        true data_ w
      generalize BubbleSort.inner ops (dataSize - i - 1) (dataSize + 1) 0 true data_ w = r at h
      obtain ⟨r1, d1, w1⟩ := r
      cases r1 with
      | error e => exact h
      | ok b =>
        cases b with
        | true => exact h
        | false => simp only; rw [ih]; exact h
    · rfl

theorem BubbleSort_keeps {T κ : Type} (ops : ElemOps T) (key : T → κ)
    (hswap : ∀ a b w, key (ops.swap a b w).2.1.1 = key a ∧ key (ops.swap a b w).2.1.2 = key b)
    (hself : ∀ a w, key (ops.swapSelf a w).2.1 = key a) (data_ : List T) (w : World) :
    (BubbleSort ops data_ w).2.1.map key = data_.map key := by
  unfold BubbleSort
  split
  · rfl
  · exact BubbleSort_outer_keeps ops key hswap hself _ _ _ _ _

theorem Shuffle_go_keeps {T κ : Type} (ops : ElemOps T) (key : T → κ)
    (hswap : ∀ a b w, key (ops.swap a b w).2.1.1 = key a ∧ key (ops.swap a b w).2.1.2 = key b)
    (hself : ∀ a w, key (ops.swapSelf a w).2.1 = key a)
    (rnd : Nat → Nat) (k i : Nat) (data_ : List T) (w : World) :
    (VisualSort.Shuffle.go ops rnd k i data_ w).2.1.map key = data_.map key := by
  induction k generalizing i data_ w with
  | zero => rfl
  | succ k ih =>
    unfold VisualSort.Shuffle.go
    have h := swapElems_keeps ops key hswap hself data_ i (rnd i % (i + 1)) w
    generalize swapElems ops data_ i (rnd i % (i + 1)) w = r at h
    obtain ⟨r1, d1, w1⟩ := r
    cases r1 with
    | error e => exact h
    | ok u => simp only; rw [ih]; exact h

theorem counterOps_keeps :
    (∀ a b w, (counterOps.swap a b w).2.1.1.m_notTemp = a.m_notTemp ∧
      (counterOps.swap a b w).2.1.2.m_notTemp = b.m_notTemp) ∧
    ∀ a w, (counterOps.swapSelf a w).2.1.m_notTemp = a.m_notTemp :=
  ⟨fun _ _ _ => ⟨rfl, rfl⟩, fun _ _ => rfl⟩

theorem cancelling_emit (w : World) (e : Event) : (w.emit e).Cancelling ↔ w.Cancelling := Iff.rfl

theorem cancelling_drawRemaining (w : World) :
    (Strip.DrawRemainingStrip w).Cancelling ↔ w.Cancelling := by
  unfold Strip.DrawRemainingStrip
  simp only
  split
  · exact Iff.rfl
  · split <;> exact Iff.rfl

theorem cancelling_register (w : World) :
    (Strip.RegisterCurrentThread w).Cancelling ↔ w.Cancelling := by
  unfold Strip.RegisterCurrentThread
  simp only
  split <;> exact Iff.rfl

theorem cancelling_highlight1 (s : Strip) (c : COLORREF) (w : World) :
    (Strip.DrawStrip1.highlight s c w).Cancelling ↔ w.Cancelling := by
  unfold Strip.DrawStrip1.highlight
  simp only
  refine (cancelling_emit _ _).trans ((cancelling_drawRemaining _).trans
    ((cancelling_emit _ _).trans ((cancelling_emit _ _).trans ((cancelling_emit _ _).trans
      ((cancelling_emit _ _).trans ?_)))))
  split
  · exact Iff.rfl
  · exact Iff.trans Iff.rfl (cancelling_register w)

theorem cancelling_highlight2 (s : Strip) (c : COLORREF) (t : Strip) (c' : COLORREF)
    (w : World) : (Strip.DrawStrip2.highlight s c t c' w).Cancelling ↔ w.Cancelling := by
  unfold Strip.DrawStrip2.highlight
  simp only
  refine (cancelling_emit _ _).trans ((cancelling_drawRemaining _).trans
    ((cancelling_emit _ _).trans ((cancelling_emit _ _).trans ((cancelling_emit _ _).trans
      ((cancelling_emit _ _).trans ((cancelling_emit _ _).trans ((cancelling_emit _ _).trans
        ((cancelling_emit _ _).trans ?_))))))))
  split
  · exact Iff.rfl
  · exact Iff.trans Iff.rfl (cancelling_register w)

theorem StopSort_of_clear (w : World) (hmain : w.thisThread = w.s_mainThreadId)
    (hstop : w.s_stopStripSort = false) :
    Strip.StopSort w =
      if w.s_exitStripSort && !w.s_isMulThreadSort then (.error Strip.cancelled, w)
      else (.ok (), w) := by
  unfold Strip.StopSort
  rw [if_neg (not_not.mpr hmain)]
  have h : Strip.StopSort.waitMain w.uiSchedule.length false w = (.ok false, w) := by
    cases w.uiSchedule.length <;> simp [Strip.StopSort.waitMain, hstop]
  simp only [h, Bool.false_eq_true, if_false]

theorem StopSort_cancels (w : World) (h : w.Cancelling) :
    Strip.StopSort w = (.error Strip.cancelled, w) := by
  obtain ⟨hmain, hexit, hmul⟩ := h
  cases hstop : w.s_stopStripSort with
  | false =>
    rw [StopSort_of_clear w hmain hstop]
    simp [hexit, hmul]
  | true =>
    unfold Strip.StopSort
    rw [if_neg (not_not.mpr hmain)]
    have h : Strip.StopSort.waitMain w.uiSchedule.length false w = (.error Strip.cancelled, w) := by
      cases w.uiSchedule.length <;> simp [Strip.StopSort.waitMain, hstop, hexit, hmul]
    simp only [h]

theorem sleep10_mul (w : World) : w.sleep10.s_isMulThreadSort = w.s_isMulThreadSort := by
  unfold World.sleep10
  split <;> rfl

theorem waitWorker_never_raises (n : Nat) (w : World) (e : Fault)
    (h : (Strip.StopSort.waitWorker n w).1 = .error e) : e = .pausedForever := by
  induction n generalizing w with
  | zero =>
    unfold Strip.StopSort.waitWorker at h
    split at h
    · exact (Except.error.inj h).symm
    · cases h
  | succ n ih =>
    unfold Strip.StopSort.waitWorker at h
    split at h
    · exact ih _ h
    · cases h

theorem waitMain_mul (n : Nat) (b : Bool) (w : World) (hmul : w.s_isMulThreadSort = true) :
    (Strip.StopSort.waitMain n b w).2.s_isMulThreadSort = true ∧
      ∀ e, (Strip.StopSort.waitMain n b w).1 = .error e → e = .pausedForever := by
  induction n generalizing w b with
  | zero =>
    unfold Strip.StopSort.waitMain
    simp only [hmul, Bool.not_true, Bool.and_false, Bool.false_eq_true, if_false]
    split
    · exact ⟨hmul, fun e h => (Except.error.inj h).symm⟩
    · exact ⟨hmul, fun e h => by cases h⟩
  | succ n ih =>
    unfold Strip.StopSort.waitMain
    simp only [hmul, Bool.not_true, Bool.and_false, Bool.false_eq_true, if_false]
    split
    · exact ih true _ ((sleep10_mul w).trans hmul)
    · exact ⟨hmul, fun e h => by cases h⟩

theorem StopSort_mul (w : World) (hmul : w.s_isMulThreadSort = true) (e : Fault)
    (h : (Strip.StopSort w).1 = .error e) : e = .pausedForever := by
  unfold Strip.StopSort at h
  split at h
  · exact waitWorker_never_raises _ _ e h
  · have hw := waitMain_mul w.uiSchedule.length false w hmul
    generalize Strip.StopSort.waitMain w.uiSchedule.length false w = r at h hw
    obtain ⟨r1, w1⟩ := r
    cases r1 with
    | error e1 =>
      simp only at h
      exact hw.2 e (by rw [← Except.error.inj h])
    | ok began =>
      have hm : w1.s_isMulThreadSort = true := hw.1
      cases began <;> simp [hm] at h

theorem DrawStrip1_cancels (s : Strip) (c : COLORREF) (w : World) (h : w.Cancelling) :
    Strip.DrawStrip1 s c w = (.error Strip.cancelled, Strip.DrawStrip1.highlight s c w) := by
  unfold Strip.DrawStrip1
  rw [StopSort_cancels _ ((cancelling_highlight1 s c w).mpr h)]

theorem DrawStrip2_cancels (s : Strip) (c : COLORREF) (t : Strip) (c' : COLORREF) (w : World)
    (h : w.Cancelling) :
    Strip.DrawStrip2 s c t c' w =
      (.error Strip.cancelled, Strip.DrawStrip2.highlight s c t c' w) := by
  unfold Strip.DrawStrip2
  rw [StopSort_cancels _ ((cancelling_highlight2 s c t c' w).mpr h)]

theorem SetTopAuto_ok (s : Strip) (w : World) (h : w.s_maxValue % 18446744073709551616 ≠ 0) :
    ∃ s', s.SetTopAuto w = .ok s' := by
  obtain ⟨s', hs⟩ := SetTopAndColorAuto_ok s w h
  unfold Strip.SetTopAndColorAuto at hs
  split at hs
  · cases hs
  · rename_i s1 h1
    exact ⟨s1, h1⟩

theorem storedInt_cancels (s : Strip) (c : COLORREF) (w : World) (h : w.Cancelling)
    (hs : w.s_maxValue % 18446744073709551616 ≠ 0) (hl : s.m_notTemp = true) :
    (Strip.storedInt s c w).1 = .error Strip.cancelled := by
  obtain ⟨s', h1⟩ := SetTopAndColorAuto_ok s w hs
  have d1 := fun s c => DrawStrip1_cancels s c w h
  unfold Strip.storedInt
  simp only [hl, if_true, h1, d1]

theorem storedStrip_cancels (s t : Strip) (w : World) (h : w.Cancelling)
    (hs : w.s_maxValue % 18446744073709551616 ≠ 0)
    (hl : s.m_notTemp = true ∨ t.m_notTemp = true) :
    (Strip.storedStrip s t w).1 = .error Strip.cancelled := by
  obtain ⟨s', h1⟩ := SetTopAndColorAuto_ok s w hs
  have d1 := fun s c => DrawStrip1_cancels s c w h
  have d2 := fun s c t c' => DrawStrip2_cancels s c t c' w h
  unfold Strip.storedStrip
  cases hsl : s.m_notTemp <;> cases htl : t.m_notTemp <;> simp_all

theorem assignSelf_cancels (s : Strip) (w : World) (h : w.Cancelling)
    (hs : w.s_maxValue % 18446744073709551616 ≠ 0) (hl : s.m_notTemp = true) :
    (Strip.assignSelf s w).1 = .error Strip.cancelled := by
  obtain ⟨s', h1⟩ := SetTopAndColorAuto_ok s w hs
  have d2 := fun s c t c' => DrawStrip2_cancels s c t c' w h
  unfold Strip.assignSelf
  simp only [hl, if_true, h1, d2]

theorem copied_cancels (s t : Strip) (w : World) (h : w.Cancelling)
    (hs : w.s_maxValue % 18446744073709551616 ≠ 0)
    (hl : s.m_notTemp = true ∨ t.m_notTemp = true) :
    (Strip.copied s t w).1 = .error Strip.cancelled := by
  obtain ⟨s', h1⟩ := SetTopAuto_ok s w hs
  have d1 := fun s c => DrawStrip1_cancels s c w h
  have d2 := fun s c t c' => DrawStrip2_cancels s c t c' w h
  unfold Strip.copied
  cases hsl : s.m_notTemp <;> cases htl : t.m_notTemp <;> simp_all

theorem swapped_cancels (rescale : Strip → World → Except Fault Strip) (s t : Strip)
    (w : World) (h : w.Cancelling) (hr : ∀ x, ∃ x', rescale x w = .ok x')
    (hl : s.m_notTemp = true ∨ t.m_notTemp = true) :
    (Strip.swapped rescale s t w).1 = .error Strip.cancelled := by
  obtain ⟨s', h1⟩ := hr s
  obtain ⟨t', h2⟩ := hr t
  have d1 := fun s c => DrawStrip1_cancels s c w h
  have d2 := fun s c t c' => DrawStrip2_cancels s c t c' w h
  unfold Strip.swapped
  cases hsl : s.m_notTemp <;> cases htl : t.m_notTemp <;> simp_all

theorem swappedInt_cancels (s : Strip) (w : World) (h : w.Cancelling)
    (hs : w.s_maxValue % 18446744073709551616 ≠ 0) (hl : s.m_notTemp = true) :
    (Strip.swappedInt s w).1 = .error Strip.cancelled := by
  obtain ⟨s', h1⟩ := SetTopAndColorAuto_ok s w hs
  have d1 := fun s c => DrawStrip1_cancels s c w h
  unfold Strip.swappedInt
  simp only [hl, if_true, h1, d1]

theorem reads_cancel (s t : Strip) (v : Int) (cmp : CmpOp) (op : ArithOp) (w : World)
    (h : w.Cancelling) (hl : s.m_notTemp = true) :
    (s.compareInt cmp v w).1 = .error Strip.cancelled ∧
    (Strip.intCompare cmp v s w).1 = .error Strip.cancelled ∧
    (s.compare cmp t w).1 = .error Strip.cancelled ∧
    (t.compare cmp s w).1 = .error Strip.cancelled ∧
    (s.toInt w).1 = .error Strip.cancelled ∧
    (s.arithInt op v w).1 = .error Strip.cancelled ∧
    (s.arith op t w).1 = .error Strip.cancelled ∧
    (t.arith op s w).1 = .error Strip.cancelled ∧
    (Strip.copy s w).1 = .error Strip.cancelled := by
  have d1 := fun s c => DrawStrip1_cancels s c w h
  have d2 := fun s c t c' => DrawStrip2_cancels s c t c' w h
  have d3 := fun s c => DrawStrip1_cancels s c (Strip.AddNumCopy1_StripToInt w) h
  unfold Strip.compareInt Strip.intCompare Strip.compare Strip.toInt Strip.arithInt Strip.arith
    Strip.copy
  cases htl : t.m_notTemp <;> simp_all

/-! ## Lemmas on the slots of the strips and on BogoSort -/

theorem wrapInt_natCast (q : Nat) (h : q < 2147483648) : wrapInt (q : Int) = q := by
  unfold wrapInt
  omega

theorem Reduce_quotient (a b : Int) (ha : 0 ≤ a) (hb : 0 < b) :
    (Fraction.Reduce ⟨a, b⟩).m_numerator.tdiv (Fraction.Reduce ⟨a, b⟩).m_denominator = a / b := by
  unfold Fraction.Reduce
  simp only
  split
  · rename_i h0
    rw [h0]
    simp
  · rename_i h0
    rw [if_neg (not_lt.mpr hb.le)]
    have hg : ((Int.gcd a b : Nat) : Int) ≠ 0 := by
      intro h
      have := Int.gcd_eq_zero_iff.mp (by exact_mod_cast h)
      exact h0 this.1
    rw [if_pos hg]
    simp only
    have hgpos : (0 : Int) < (Int.gcd a b : Nat) := lt_of_le_of_ne (Int.ofNat_nonneg _) (Ne.symm hg)
    obtain ⟨a', ha'⟩ := Int.gcd_dvd_left (a := a) (b := b)
    obtain ⟨b', hb'⟩ := Int.gcd_dvd_right (a := a) (b := b)
    generalize ((Int.gcd a b : Nat) : Int) = g at hg hgpos ha' hb' ⊢
    have ha'0 : 0 ≤ a' := by
      by_contra hneg
      have : a < 0 := by
        rw [ha']
        exact mul_neg_of_pos_of_neg hgpos (not_le.mp hneg)
      omega
    have hb'0 : 0 < b' := by
      by_contra hneg
      have : b ≤ 0 := by
        rw [hb']
        exact mul_nonpos_of_nonneg_of_nonpos hgpos.le (not_lt.mp hneg)
      omega
    rw [ha', hb', Int.mul_tdiv_cancel_left _ hg, Int.mul_tdiv_cancel_left _ hg,
      Int.tdiv_eq_ediv ha'0 hb'0.le, Int.mul_ediv_mul_of_pos _ _ hgpos]

theorem edge_value (stripIndex size : Nat) (w : World) (h : size ≠ 0) :
    Strip.InitValuesWith.edge stripIndex size w =
      .ok (wrapInt (((stripIndex * w.m_width / size : Nat) : Int))) := by
  have hmul : (Fraction.ofInt stripIndex).mulAssign w.GetWidth =
      ⟨(stripIndex : Int) * w.m_width, 1⟩ := by
    unfold Fraction.mulAssign Fraction.Reduce World.GetWidth Fraction.ofInt
    simp only [mul_one]
    split
    · rename_i h0
      rw [h0]
    · simp
  unfold Strip.InitValuesWith.edge Fraction.divAssign
  rw [if_neg (by simpa [Fraction.ofInt] using h), hmul]
  simp only [Fraction.ofInt, mul_one, one_mul]
  have hsz : (0 : Int) < size := by exact_mod_cast Nat.pos_of_ne_zero h
  have hq := Reduce_quotient ((stripIndex : Int) * w.m_width) size
    (mul_nonneg (Int.ofNat_nonneg _) (Int.ofNat_nonneg _)) hsz
  unfold Fraction.toInt
  rw [if_neg (Reduce_denominator _ (by simpa using h)), hq]
  push_cast
  rfl

theorem fill_slots (size : Nat) (w : World) (hsize : size ≠ 0)
    (hs : w.s_maxValue % 18446744073709551616 ≠ 0) (data_ : List Int) :
    ∀ stripIndex : Nat, ∃ strips : List Strip,
      Strip.InitValuesWith.fill size w stripIndex data_ = .ok strips ∧
      strips.length = data_.length ∧
      ∀ (j : Nat) (s : Strip), strips[j]? = some s →
        s.m_left = wrapInt ((((stripIndex + j) * w.m_width / size : Nat) : Int)) ∧
        s.m_right = wrapInt ((((stripIndex + j + 1) * w.m_width / size : Nat) : Int)) := by
  induction data_ with
  | nil =>
    intro i
    refine ⟨[], rfl, rfl, ?_⟩
    intro j s h
    simp at h
  | cons v rest ih =>
    intro i
    obtain ⟨tail, ht, hlen, hslots⟩ := ih (i + 1)
    obtain ⟨strip, hstrip⟩ := SetTopAndColorAuto_ok
      { m_value := v, m_left := wrapInt (((i * w.m_width / size : Nat) : Int)),
        m_right := wrapInt ((((i + 1) * w.m_width / size : Nat) : Int)), m_notTemp := true } w hs
    have hslot := SetTopAndColorAuto_slot _ _ _ hstrip
    refine ⟨strip :: tail, ?_, by simp [hlen], ?_⟩
    · unfold Strip.InitValuesWith.fill
      rw [edge_value i size w hsize, edge_value (i + 1) size w hsize]
      simp only
      unfold Strip.SetStrip
      rw [hstrip, ht]
    · intro j s h
      cases j with
      | zero =>
        simp only [List.getElem?_cons_zero, Option.some.injEq] at h
        subst h
        simp only [Strip.slot, Prod.mk.injEq] at hslot
        exact ⟨hslot.1, hslot.2.1⟩
      | succ j =>
        simp only [List.getElem?_cons_succ] at h
        have := hslots j s h
        rw [show i + (j + 1) = i + 1 + j by omega]
        exact this

/-- The slots given by the six-parameter `InitValues`: for a non-empty `data_` of
size `n`, a width `W` below `2^31` and a scale that is not zero, the strips are
built, and strip `i` lies between `⌊i * W / n⌋` and `⌊(i + 1) * W / n⌋`. -/
theorem InitValuesWith_slots (data_ : List Int) (mul : Bool) (w : World) (first : Int)
    (rest : List Int) (hd : data_ = first :: rest) (hW : w.m_width < 2147483648)
    (hs : (Strip.InitValuesWith.scan (first, first) rest).2 % 18446744073709551616 ≠ 0) :
    ∃ (strips : List Strip) (w' : World),
      Strip.InitValuesWith data_ mul w = (.ok strips, w') ∧ strips.length = data_.length ∧
      ∀ (i : Nat) (s : Strip), strips[i]? = some s →
        s.m_left = ((i * w.m_width / data_.length : Nat) : Int) ∧
        s.m_right = (((i + 1) * w.m_width / data_.length : Nat) : Int) := by
  subst hd
  obtain ⟨strips, h1, h2, h3⟩ := fill_slots (first :: rest).length
    { Strip.InitValues w with
      s_isMulThreadSort := mul, s_minValue := (Strip.InitValuesWith.scan (first, first) rest).1,
      s_maxValue := (Strip.InitValuesWith.scan (first, first) rest).2 }
    (by simp) hs (first :: rest) 0
  have hfst : (Strip.InitValuesWith (first :: rest) mul w).1 = .ok strips := by
    unfold Strip.InitValuesWith
    simp only
    rw [h1]
  refine ⟨strips, (Strip.InitValuesWith (first :: rest) mul w).2, Prod.ext hfst rfl, h2, ?_⟩
  · intro i s hi
    have hlt : i < (first :: rest).length := by
      rw [← h2]
      exact (List.getElem?_eq_some.mp hi).1
    obtain ⟨e1, e2⟩ := h3 i s hi
    have hw : ({ Strip.InitValues w with
      s_isMulThreadSort := mul, s_minValue := (Strip.InitValuesWith.scan (first, first) rest).1,
      s_maxValue := (Strip.InitValuesWith.scan (first, first) rest).2 } : World).m_width =
        w.m_width := rfl
    rw [hw, Nat.zero_add] at e1 e2
    have hpos : 0 < (first :: rest).length := by simp
    have b2 : (i + 1) * w.m_width / (first :: rest).length ≤ w.m_width := by
      apply Nat.div_le_of_le_mul
      exact Nat.mul_le_mul_right _ hlt
    have b1 : i * w.m_width / (first :: rest).length ≤ w.m_width := by
      refine le_trans (Nat.div_le_div_right ?_) b2
      exact Nat.mul_le_mul_right _ (Nat.le_succ i)
    exact ⟨e1.trans (wrapInt_natCast _ (lt_of_le_of_lt b1 hW)),
      e2.trans (wrapInt_natCast _ (lt_of_le_of_lt b2 hW))⟩

theorem scan_ascending (k : Nat) (lo b : Int) (hk : lo ≤ b) :
    Strip.InitValuesWith.scan (lo, b) ((List.range k).map fun (j : Nat) => b + 1 + (j : Int)) =
      (lo, b + k) := by
  induction k generalizing b with
  | zero => simp [Strip.InitValuesWith.scan]
  | succ k ih =>
    rw [List.range_succ_eq_map, List.map_cons, Strip.InitValuesWith.scan]
    rw [if_neg (by push_cast; omega), if_pos (by push_cast; omega)]
    have := ih (b + 1 + ((0 : Nat) : Int)) (by push_cast; omega)
    rw [List.map_map]
    have hf : ((fun (j : Nat) => b + 1 + (j : Int)) ∘ Nat.succ) =
        fun (j : Nat) => b + 1 + ((0 : Nat) : Int) + 1 + (j : Int) := by
      funext j
      simp only [Function.comp, Nat.succ_eq_add_one]
      push_cast
      ring
    rw [hf, this]
    push_cast
    congr 1
    ring

theorem emit_core (w : World) (e : Event) : (w.emit e).core = w.core.emit e := rfl

theorem register_core (w : World) :
    (Strip.RegisterCurrentThread w).core = Strip.RegisterCurrentThread w.core := by
  unfold Strip.RegisterCurrentThread
  simp only [World.core]
  split <;> split <;> rfl

theorem maxTopInt_core (w : World) : Strip.maxTopInt w.core = Strip.maxTopInt w := rfl

theorem heightInt_core (w : World) : w.core.heightInt = w.heightInt := rfl

theorem drawRemaining_core (w : World) :
    (Strip.DrawRemainingStrip w).core = Strip.DrawRemainingStrip w.core := by
  unfold Strip.DrawRemainingStrip
  simp only [maxTopInt_core, heightInt_core]
  have h1 : w.core.st_lastOperationNum = w.st_lastOperationNum := rfl
  have h2 : w.core.st_lastInterval1 = w.st_lastInterval1 := rfl
  have h3 : w.core.st_lastInterval2 = w.st_lastInterval2 := rfl
  rw [h1, h2, h3]
  split
  · rfl
  · split <;> rfl

theorem highlight1_core (s : Strip) (c : COLORREF) (w : World) :
    (Strip.DrawStrip1.highlight s c w).core = Strip.DrawStrip1.highlight s c w.core := by
  unfold Strip.DrawStrip1.highlight
  simp only [maxTopInt_core, heightInt_core, emit_core, drawRemaining_core]
  have h1 : w.core.st_temp1 = w.st_temp1 := rfl
  rw [h1]
  split
  · rfl
  · have h2 : ({ Strip.RegisterCurrentThread w with st_temp1 := true } : World).core =
        { Strip.RegisterCurrentThread w.core with st_temp1 := true } := by
      rw [← register_core]; rfl
    rw [h2]

theorem highlight2_core (s : Strip) (c : COLORREF) (t : Strip) (c' : COLORREF) (w : World) :
    (Strip.DrawStrip2.highlight s c t c' w).core = Strip.DrawStrip2.highlight s c t c' w.core := by
  unfold Strip.DrawStrip2.highlight
  simp only [maxTopInt_core, heightInt_core, emit_core, drawRemaining_core]
  have h1 : w.core.st_temp2 = w.st_temp2 := rfl
  rw [h1]
  split
  · rfl
  · have h2 : ({ Strip.RegisterCurrentThread w with st_temp2 := true } : World).core =
        { Strip.RegisterCurrentThread w.core with st_temp2 := true } := by
      rw [← register_core]; rfl
    rw [h2]

theorem restore1_core (s : Strip) (w : World) :
    (Strip.DrawStrip1.restore s w).core = Strip.DrawStrip1.restore s w.core := rfl

theorem restore2_core (s t : Strip) (w : World) :
    (Strip.DrawStrip2.restore s t w).core = Strip.DrawStrip2.restore s t w.core := rfl

theorem sleep10_core (w : World) (hc : w.NoCancel) : w.sleep10.core = w.core := by
  cases hs : w.uiSchedule with
  | nil =>
    unfold World.sleep10
    rw [hs]
    rfl
  | cons p rest =>
    obtain ⟨s, e⟩ := p
    have he : e = false := hc.2 (s, e) (by rw [hs]; exact List.mem_cons_self _ _)
    have hx : w.s_exitStripSort = false := hc.1
    subst he
    unfold World.sleep10
    rw [hs]
    simp only [World.core]
    rw [← hx]

theorem waitWorker_core (n : Nat) (w : World) (hc : w.NoCancel) :
    (Strip.StopSort.waitWorker n w).2.core = w.core := by
  induction n generalizing w with
  | zero => unfold Strip.StopSort.waitWorker; split <;> rfl
  | succ n ih =>
    unfold Strip.StopSort.waitWorker
    split
    · exact (ih _ (noCancel_sleep10 w hc)).trans (sleep10_core w hc)
    · rfl

theorem waitMain_core (n : Nat) (b : Bool) (w : World) (hc : w.NoCancel) :
    (Strip.StopSort.waitMain n b w).2.core = w.core := by
  induction n generalizing w b with
  | zero =>
    unfold Strip.StopSort.waitMain
    split
    · split <;> rfl
    · rfl
  | succ n ih =>
    unfold Strip.StopSort.waitMain
    split
    · split
      · rfl
      · exact (ih true _ (noCancel_sleep10 w hc)).trans (sleep10_core w hc)
    · rfl

theorem StopSort_core (w : World) (hc : w.NoCancel) : (Strip.StopSort w).2.core = w.core := by
  unfold Strip.StopSort
  split
  · exact waitWorker_core _ w hc
  · have h := waitMain_core w.uiSchedule.length false w hc
    generalize Strip.StopSort.waitMain w.uiSchedule.length false w = r at h
    obtain ⟨r1, w1⟩ := r
    cases r1 with
    | error e => exact h
    | ok began =>
      simp only at h ⊢
      cases began
      · simp only [Bool.false_eq_true, if_false]
        split <;> exact h
      · simp only [if_true]
        split <;> exact h

theorem DrawStrip1_core (s : Strip) (c : COLORREF) (w : World) (hc : w.NoCancel)
    (hp : w.PauseEnds) :
    (Strip.DrawStrip1 s c w).2.core =
      Strip.DrawStrip1.restore s (Strip.DrawStrip1.highlight s c w.core) := by
  have h1 := (same_highlight1 s c w).1
  have h2 := StopSort_ok _ (h1.keepsNoCancel hc) (h1.keepsPauseEnds hp)
  have h3 := StopSort_core _ (h1.keepsNoCancel hc)
  unfold Strip.DrawStrip1
  generalize Strip.StopSort (Strip.DrawStrip1.highlight s c w) = r at h2 h3
  obtain ⟨r1, w1⟩ := r
  simp only at h2 h3
  subst h2
  simp only
  rw [restore1_core, h3, highlight1_core]

theorem DrawStrip2_core (s : Strip) (c : COLORREF) (t : Strip) (c' : COLORREF) (w : World)
    (hc : w.NoCancel) (hp : w.PauseEnds) :
    (Strip.DrawStrip2 s c t c' w).2.core =
      Strip.DrawStrip2.restore s t (Strip.DrawStrip2.highlight s c t c' w.core) := by
  have h1 := (same_highlight2 s c t c' w).1
  have h2 := StopSort_ok _ (h1.keepsNoCancel hc) (h1.keepsPauseEnds hp)
  have h3 := StopSort_core _ (h1.keepsNoCancel hc)
  unfold Strip.DrawStrip2
  generalize Strip.StopSort (Strip.DrawStrip2.highlight s c t c' w) = r at h2 h3
  obtain ⟨r1, w1⟩ := r
  simp only at h2 h3
  subst h2
  simp only
  rw [restore2_core, h3, highlight2_core]

theorem variant_draw1 {w1 w2 : World} (h : PauseVariant w1 w2) (s : Strip) (c : COLORREF) :
    ∃ w1' w2', Strip.DrawStrip1 s c w1 = (.ok (), w1') ∧ Strip.DrawStrip1 s c w2 = (.ok (), w2') ∧
      PauseVariant w1' w2' := by
  obtain ⟨c1, p1, c2, p2, e⟩ := h
  have l1 := later_DrawStrip1 s c w1
  have l2 := later_DrawStrip1 s c w2
  refine ⟨_, _, DrawStrip1_returns s c w1 c1 p1, DrawStrip1_returns s c w2 c2 p2,
    l1.1 c1, l1.2.1 p1, l2.1 c2, l2.2.1 p2, ?_⟩
  rw [DrawStrip1_core s c w1 c1 p1, DrawStrip1_core s c w2 c2 p2, e]

theorem variant_draw2 {w1 w2 : World} (h : PauseVariant w1 w2) (s : Strip) (c : COLORREF)
    (t : Strip) (c' : COLORREF) :
    ∃ w1' w2', Strip.DrawStrip2 s c t c' w1 = (.ok (), w1') ∧
      Strip.DrawStrip2 s c t c' w2 = (.ok (), w2') ∧ PauseVariant w1' w2' := by
  obtain ⟨c1, p1, c2, p2, e⟩ := h
  have l1 := later_DrawStrip2 s c t c' w1
  have l2 := later_DrawStrip2 s c t c' w2
  refine ⟨_, _, DrawStrip2_returns s c t c' w1 c1 p1, DrawStrip2_returns s c t c' w2 c2 p2,
    l1.1 c1, l1.2.1 p1, l2.1 c2, l2.2.1 p2, ?_⟩
  rw [DrawStrip2_core s c t c' w1 c1 p1, DrawStrip2_core s c t c' w2 c2 p2, e]

theorem variant_count (f : World → World) (hf : ∀ w : World, (f w).core = f w.core)
    (hl : ∀ w : World, w.Later (f w)) {w1 w2 : World} (h : PauseVariant w1 w2) :
    PauseVariant (f w1) (f w2) := by
  obtain ⟨c1, p1, c2, p2, e⟩ := h
  exact ⟨(hl w1).1 c1, (hl w1).2.1 p1, (hl w2).1 c2, (hl w2).2.1 p2, by rw [hf, hf, e]⟩

theorem variant_rescale {w1 w2 : World} (h : PauseVariant w1 w2) (s : Strip) :
    s.SetTopAndColorAuto w1 = s.SetTopAndColorAuto w2 ∧ s.SetTopAuto w1 = s.SetTopAuto w2 := by
  have e := h.2.2.2.2
  have a1 : ∀ w : World, s.SetTopAndColorAuto w = s.SetTopAndColorAuto w.core := fun _ => rfl
  have a2 : ∀ w : World, s.SetTopAuto w = s.SetTopAuto w.core := fun _ => rfl
  exact ⟨by rw [a1 w1, a1 w2, e], by rw [a2 w1, a2 w2, e]⟩

theorem variant_counters {w1 w2 : World} (h : PauseVariant w1 w2) :
    SameCounters w1 w2 ∧ w1.events = w2.events ∧ w1.s_exitStripSort = w2.s_exitStripSort ∧
      w1.s_maxValue = w2.s_maxValue := by
  have e := h.2.2.2.2
  have f : ∀ (g : World → Nat), (∀ w : World, g w.core = g w) → g w1 = g w2 := by
    intro g hg
    rw [← hg w1, ← hg w2, e]
  refine ⟨⟨(f World.ActualStepNum fun _ => rfl).symm, (f World.StripCompareNum fun _ => rfl).symm,
    (f World.StripCopyNum fun _ => rfl).symm, (f World.StripChangeNum fun _ => rfl).symm,
    (f World.AnimationStepNum fun _ => rfl).symm⟩, ?_, ?_, ?_⟩
  · have := congrArg World.events e
    exact this
  · have := congrArg World.s_exitStripSort e
    exact this
  · have := congrArg World.s_maxValue e
    exact this

theorem variant_storedInt {w1 w2 : World} (h : PauseVariant w1 w2) (s : Strip) (c : COLORREF) :
    (Strip.storedInt s c w1).1 = (Strip.storedInt s c w2).1 ∧
    (Strip.storedInt s c w1).2.1 = (Strip.storedInt s c w2).2.1 ∧
    PauseVariant (Strip.storedInt s c w1).2.2 (Strip.storedInt s c w2).2.2 := by
  unfold Strip.storedInt
  cases hl : s.m_notTemp
  · exact ⟨rfl, rfl, h⟩
  · simp only [if_true]
    rw [(variant_rescale h s).1]
    cases hres : s.SetTopAndColorAuto w2 with
    | error e => exact ⟨rfl, rfl, h⟩
    | ok s' =>
      obtain ⟨w1', w2', d1, d2, hv⟩ := variant_draw1 h s' c
      simp only [d1, d2]
      exact ⟨trivial, trivial, variant_count Strip.AddNumCopy1_IntToStrip (fun _ => rfl)
        (fun _ => ⟨id, id, rfl⟩) hv⟩

theorem variant_storedStrip {w1 w2 : World} (h : PauseVariant w1 w2) (s t : Strip) :
    (Strip.storedStrip s t w1).1 = (Strip.storedStrip s t w2).1 ∧
    (Strip.storedStrip s t w1).2.1 = (Strip.storedStrip s t w2).2.1 ∧
    PauseVariant (Strip.storedStrip s t w1).2.2 (Strip.storedStrip s t w2).2.2 := by
  unfold Strip.storedStrip
  rw [(variant_rescale h s).1]
  obtain ⟨w3', w4', d3, d4, hv'⟩ := variant_draw1 h t StripCopyColor
  have k2 := variant_count Strip.AddNumCopy1_StripToInt (fun _ => rfl) (fun _ => ⟨id, id, rfl⟩) hv'
  cases hres : s.SetTopAndColorAuto w2 with
  | error e => cases hl : s.m_notTemp <;> cases ht : t.m_notTemp <;> simp [h, d3, d4, k2]
  | ok s' =>
    obtain ⟨w1', w2', d1, d2, hv⟩ := variant_draw1 h s' StripChangeColor
    obtain ⟨w5', w6', d5, d6, hv''⟩ := variant_draw2 h s' StripChangeColor t StripCopyColor
    have k1 := variant_count Strip.AddNumCopy1_IntToStrip (fun _ => rfl) (fun _ => ⟨id, id, rfl⟩) hv
    have k3 := variant_count Strip.AddNumCopy2 (fun _ => rfl) (fun _ => ⟨id, id, rfl⟩) hv''
    cases hl : s.m_notTemp <;> cases ht : t.m_notTemp <;>
      simp [h, d1, d2, d3, d4, d5, d6, k1, k2, k3]

theorem variant_assignSelf {w1 w2 : World} (h : PauseVariant w1 w2) (s : Strip) :
    (Strip.assignSelf s w1).1 = (Strip.assignSelf s w2).1 ∧
    (Strip.assignSelf s w1).2.1 = (Strip.assignSelf s w2).2.1 ∧
    PauseVariant (Strip.assignSelf s w1).2.2 (Strip.assignSelf s w2).2.2 := by
  unfold Strip.assignSelf
  rw [(variant_rescale h s).1]
  cases hres : s.SetTopAndColorAuto w2 with
  | error e => cases hl : s.m_notTemp <;> simp [h]
  | ok s' =>
    obtain ⟨w5', w6', d5, d6, hv⟩ := variant_draw2 h s' StripChangeColor s' StripCopyColor
    have k3 := variant_count Strip.AddNumCopy2 (fun _ => rfl) (fun _ => ⟨id, id, rfl⟩) hv
    cases hl : s.m_notTemp <;> simp [h, d5, d6, k3]

theorem variant_copied {w1 w2 : World} (h : PauseVariant w1 w2) (s t : Strip) :
    (Strip.copied s t w1).1 = (Strip.copied s t w2).1 ∧
    (Strip.copied s t w1).2.1 = (Strip.copied s t w2).2.1 ∧
    PauseVariant (Strip.copied s t w1).2.2 (Strip.copied s t w2).2.2 := by
  unfold Strip.copied
  rw [(variant_rescale h s).2]
  obtain ⟨w3', w4', d3, d4, hv'⟩ := variant_draw1 h t StripCopyColor
  have k2 := variant_count Strip.AddNumCopy1_StripToInt (fun _ => rfl) (fun _ => ⟨id, id, rfl⟩) hv'
  cases hres : s.SetTopAuto w2 with
  | error e => cases hl : s.m_notTemp <;> cases ht : t.m_notTemp <;> simp [h, d3, d4, k2]
  | ok s' =>
    obtain ⟨w1', w2', d1, d2, hv⟩ := variant_draw1 h s' StripChangeColor
    obtain ⟨w5', w6', d5, d6, hv''⟩ := variant_draw2 h s' StripChangeColor t StripCopyColor
    have k1 := variant_count Strip.AddNumCopy1_IntToStrip (fun _ => rfl) (fun _ => ⟨id, id, rfl⟩) hv
    have k3 := variant_count Strip.AddNumCopy2 (fun _ => rfl) (fun _ => ⟨id, id, rfl⟩) hv''
    cases hl : s.m_notTemp <;> cases ht : t.m_notTemp <;>
      simp [h, d1, d2, d3, d4, d5, d6, k1, k2, k3]

theorem variant_swapped {w1 w2 : World} (h : PauseVariant w1 w2)
    (rescale : Strip → World → Except Fault Strip) (hr : ∀ x, rescale x w1 = rescale x w2)
    (s t : Strip) :
    (Strip.swapped rescale s t w1).1 = (Strip.swapped rescale s t w2).1 ∧
    (Strip.swapped rescale s t w1).2.1 = (Strip.swapped rescale s t w2).2.1 ∧
    PauseVariant (Strip.swapped rescale s t w1).2.2 (Strip.swapped rescale s t w2).2.2 := by
  unfold Strip.swapped
  rw [hr s, hr t]
  cases hs : rescale s w2 with
  | error e =>
    cases ht : rescale t w2 with
    | error e' => cases hl : s.m_notTemp <;> cases hl' : t.m_notTemp <;> simp [h]
    | ok t' =>
      obtain ⟨w3', w4', d3, d4, hv'⟩ := variant_draw1 h t' StripChangeColor
      have k2 := variant_count Strip.AddNumCopy2 (fun _ => rfl) (fun _ => ⟨id, id, rfl⟩) hv'
      cases hl : s.m_notTemp <;> cases hl' : t.m_notTemp <;> simp [h, d3, d4, k2]
  | ok s' =>
    obtain ⟨w1', w2', d1, d2, hv⟩ := variant_draw1 h s' StripChangeColor
    have k1 := variant_count Strip.AddNumCopy2 (fun _ => rfl) (fun _ => ⟨id, id, rfl⟩) hv
    cases ht : rescale t w2 with
    | error e' => cases hl : s.m_notTemp <;> cases hl' : t.m_notTemp <;> simp [h, d1, d2, k1]
    | ok t' =>
      obtain ⟨w3', w4', d3, d4, hv'⟩ := variant_draw1 h t' StripChangeColor
      have k2 := variant_count Strip.AddNumCopy2 (fun _ => rfl) (fun _ => ⟨id, id, rfl⟩) hv'
      obtain ⟨w5', w6', d5, d6, hv''⟩ := variant_draw2 h s' StripChangeColor t' StripChangeColor
      have k3 := variant_count Strip.AddNumSwap2 (fun _ => rfl) (fun _ => ⟨id, id, rfl⟩) hv''
      cases hl : s.m_notTemp <;> cases hl' : t.m_notTemp <;>
        simp [h, d1, d2, d3, d4, d5, d6, k1, k2, k3]

theorem variant_swappedInt {w1 w2 : World} (h : PauseVariant w1 w2) (s : Strip) :
    (Strip.swappedInt s w1).1 = (Strip.swappedInt s w2).1 ∧
    (Strip.swappedInt s w1).2.1 = (Strip.swappedInt s w2).2.1 ∧
    PauseVariant (Strip.swappedInt s w1).2.2 (Strip.swappedInt s w2).2.2 := by
  unfold Strip.swappedInt
  rw [(variant_rescale h s).1]
  cases hres : s.SetTopAndColorAuto w2 with
  | error e => cases hl : s.m_notTemp <;> simp [h]
  | ok s' =>
    obtain ⟨w1', w2', d1, d2, hv⟩ := variant_draw1 h s' StripChangeColor
    have k1 := variant_count Strip.AddNumCopy2 (fun _ => rfl) (fun _ => ⟨id, id, rfl⟩) hv
    cases hl : s.m_notTemp <;> simp [h, d1, d2, k1]

theorem variant_reads {w1 w2 : World} (h : PauseVariant w1 w2) (s t : Strip) (v : Int)
    (cmp : CmpOp) (op : ArithOp) :
    ((s.compareInt cmp v w1).1 = (s.compareInt cmp v w2).1 ∧
      PauseVariant (s.compareInt cmp v w1).2 (s.compareInt cmp v w2).2) ∧
    ((Strip.intCompare cmp v s w1).1 = (Strip.intCompare cmp v s w2).1 ∧
      PauseVariant (Strip.intCompare cmp v s w1).2 (Strip.intCompare cmp v s w2).2) ∧
    ((s.compare cmp t w1).1 = (s.compare cmp t w2).1 ∧
      PauseVariant (s.compare cmp t w1).2 (s.compare cmp t w2).2) ∧
    ((s.toInt w1).1 = (s.toInt w2).1 ∧ PauseVariant (s.toInt w1).2 (s.toInt w2).2) ∧
    ((s.arithInt op v w1).1 = (s.arithInt op v w2).1 ∧
      PauseVariant (s.arithInt op v w1).2 (s.arithInt op v w2).2) ∧
    ((s.arith op t w1).1 = (s.arith op t w2).1 ∧
      PauseVariant (s.arith op t w1).2 (s.arith op t w2).2) ∧
    ((Strip.copy s w1).1 = (Strip.copy s w2).1 ∧
      PauseVariant (Strip.copy s w1).2 (Strip.copy s w2).2) := by
  obtain ⟨a1, a2, d1, d2, hv1⟩ := variant_draw1 h s StripCopyColor
  obtain ⟨a3, a4, d3, d4, hv2⟩ := variant_draw1 h t StripCopyColor
  obtain ⟨a5, a6, d5, d6, hv3⟩ := variant_draw2 h s StripCopyColor t StripCopyColor
  obtain ⟨a7, a8, d7, d8, hv4⟩ := variant_draw1
    (variant_count Strip.AddNumCopy1_StripToInt (fun _ => rfl) (fun _ => ⟨id, id, rfl⟩) h)
    s StripCopyColor
  have k1 := variant_count Strip.AddNumCompare1 (fun _ => rfl) (fun _ => ⟨id, id, rfl⟩) hv1
  have k2 := variant_count Strip.AddNumCompare1 (fun _ => rfl) (fun _ => ⟨id, id, rfl⟩) hv2
  have k3 := variant_count Strip.AddNumCompare2 (fun _ => rfl) (fun _ => ⟨id, id, rfl⟩) hv3
  have k4 := variant_count Strip.AddNumCopy1_StripToInt (fun _ => rfl) (fun _ => ⟨id, id, rfl⟩) hv1
  have k5 := variant_count Strip.AddNumCopy1_StripToInt (fun _ => rfl) (fun _ => ⟨id, id, rfl⟩) hv2
  have k6 := variant_count Strip.AddNumCopy2_StripToInt (fun _ => rfl) (fun _ => ⟨id, id, rfl⟩) k3
  unfold Strip.compareInt Strip.intCompare Strip.compare Strip.toInt Strip.arithInt Strip.arith
    Strip.copy
  cases hl : s.m_notTemp <;> cases ht : t.m_notTemp <;>
    simp [h, d1, d2, d3, d4, d5, d6, d7, d8, k1, k2, k3, k4, k5, k6, hv4]

theorem variant_assign {w1 w2 : World} (h : PauseVariant w1 w2) (a b : Strip) :
    (Strip.assign a b w1).1 = (Strip.assign a b w2).1 ∧
    (Strip.assign a b w1).2.1 = (Strip.assign a b w2).2.1 ∧
    PauseVariant (Strip.assign a b w1).2.2 (Strip.assign a b w2).2.2 := by
  unfold Strip.assign
  exact variant_storedStrip h _ _

theorem variant_stdSwap {w1 w2 : World} (h : PauseVariant w1 w2) (a b : Strip) :
    (Strip.stdSwap a b w1).1 = (Strip.stdSwap a b w2).1 ∧
    (Strip.stdSwap a b w1).2.1 = (Strip.stdSwap a b w2).2.1 ∧
    PauseVariant (Strip.stdSwap a b w1).2.2 (Strip.stdSwap a b w2).2.2 := by
  unfold Strip.stdSwap
  have hc := (variant_reads h a a 0 .gt .add).2.2.2.2.2.2
  generalize Strip.copy a w1 = r1 at hc
  generalize Strip.copy a w2 = r2 at hc
  obtain ⟨o1, x1⟩ := r1
  obtain ⟨o2, x2⟩ := r2
  simp only at hc
  obtain ⟨e, hv⟩ := hc
  subst e
  cases o1 with
  | error e => exact ⟨rfl, rfl, hv⟩
  | ok tmp =>
    simp only
    have ha := variant_assign hv a b
    generalize Strip.assign a b x1 = r1 at ha
    generalize Strip.assign a b x2 = r2 at ha
    obtain ⟨o1, a1, y1⟩ := r1
    obtain ⟨o2, a2, y2⟩ := r2
    simp only at ha
    obtain ⟨e1, e2, hv2⟩ := ha
    subst e1 e2
    cases o1 with
    | error e => exact ⟨rfl, rfl, hv2⟩
    | ok u =>
      simp only
      have hb := variant_assign hv2 b tmp
      generalize Strip.assign b tmp y1 = r1 at hb
      generalize Strip.assign b tmp y2 = r2 at hb
      obtain ⟨o1, b1, z1⟩ := r1
      obtain ⟨o2, b2, z2⟩ := r2
      simp only at hb
      obtain ⟨e1, e2, hv3⟩ := hb
      subst e1 e2
      exact ⟨rfl, rfl, hv3⟩

theorem variant_stdSwapSelf {w1 w2 : World} (h : PauseVariant w1 w2) (a : Strip) :
    (Strip.stdSwapSelf a w1).1 = (Strip.stdSwapSelf a w2).1 ∧
    (Strip.stdSwapSelf a w1).2.1 = (Strip.stdSwapSelf a w2).2.1 ∧
    PauseVariant (Strip.stdSwapSelf a w1).2.2 (Strip.stdSwapSelf a w2).2.2 := by
  unfold Strip.stdSwapSelf
  have hc := (variant_reads h a a 0 .gt .add).2.2.2.2.2.2
  generalize Strip.copy a w1 = r1 at hc
  generalize Strip.copy a w2 = r2 at hc
  obtain ⟨o1, x1⟩ := r1
  obtain ⟨o2, x2⟩ := r2
  simp only at hc
  obtain ⟨e, hv⟩ := hc
  subst e
  cases o1 with
  | error e => exact ⟨rfl, rfl, hv⟩
  | ok tmp =>
    simp only
    have ha := variant_assignSelf hv a
    generalize Strip.assignSelf a x1 = r1 at ha
    generalize Strip.assignSelf a x2 = r2 at ha
    obtain ⟨o1, a1, y1⟩ := r1
    obtain ⟨o2, a2, y2⟩ := r2
    simp only at ha
    obtain ⟨e1, e2, hv2⟩ := ha
    subst e1 e2
    cases o1 with
    | error e => exact ⟨rfl, rfl, hv2⟩
    | ok u =>
      simp only
      exact variant_assign hv2 a1 tmp

theorem stripOps_respects : stripOps.Respects PauseVariant :=
  ⟨fun a b _ _ h => (variant_reads h a b 0 .gt .add).2.2.1,
    fun a b _ _ h => variant_stdSwap h a b, fun a _ _ h => variant_stdSwapSelf h a⟩

theorem swapElems_respects {T : Type} (ops : ElemOps T) (R : World → World → Prop)
    (hops : ops.Respects R) (data_ : List T) (i j : Nat) (w1 w2 : World) (h : R w1 w2) :
    (swapElems ops data_ i j w1).1 = (swapElems ops data_ i j w2).1 ∧
    (swapElems ops data_ i j w1).2.1 = (swapElems ops data_ i j w2).2.1 ∧
    R (swapElems ops data_ i j w1).2.2 (swapElems ops data_ i j w2).2.2 := by
  unfold swapElems
  cases hi : data_[i]? with
  | none => exact ⟨rfl, rfl, h⟩
  | some a =>
    cases hj : data_[j]? with
    | none => exact ⟨rfl, rfl, h⟩
    | some b =>
      simp only
      split
      · have hs := hops.2.2 a w1 w2 h
        exact ⟨hs.1, congrArg (data_.set i) hs.2.1, hs.2.2⟩
      · have hs := hops.2.1 a b w1 w2 h
        exact ⟨hs.1, congrArg (fun p : T × T => (data_.set i p.1).set j p.2) hs.2.1, hs.2.2⟩

theorem BubbleSort_inner_respects {T : Type} (ops : ElemOps T) (R : World → World → Prop)
    (hops : ops.Respects R) (bound k : Nat) :
    ∀ (j : Nat) (noSwapped : Bool) (data_ : List T) (w1 w2 : World), R w1 w2 →
      (BubbleSort.inner ops bound k j noSwapped data_ w1).1 =
        (BubbleSort.inner ops bound k j noSwapped data_ w2).1 ∧
      (BubbleSort.inner ops bound k j noSwapped data_ w1).2.1 =
        (BubbleSort.inner ops bound k j noSwapped data_ w2).2.1 ∧
      R (BubbleSort.inner ops bound k j noSwapped data_ w1).2.2
        (BubbleSort.inner ops bound k j noSwapped data_ w2).2.2 := by
  induction k with
  | zero => intro j n d w1 w2 h; exact ⟨rfl, rfl, h⟩
  | succ k ih =>
    intro j n d w1 w2 h
    unfold BubbleSort.inner
    split
    · cases hj : d[j]? with
      | none => exact ⟨rfl, rfl, h⟩
      | some a =>
        cases hj1 : d[j + 1]? with
        | none => exact ⟨rfl, rfl, h⟩
        | some b =>
          simp only
          have hg := hops.1 a b w1 w2 h
          generalize ops.gt a b w1 = r1 at hg
          generalize ops.gt a b w2 = r2 at hg
          obtain ⟨o1, y1⟩ := r1
          obtain ⟨o2, y2⟩ := r2
          simp only at hg
          obtain ⟨e1, hv⟩ := hg
          subst e1
          cases o1 with
          | error e => exact ⟨rfl, rfl, hv⟩
          | ok g =>
            cases g with
            | false => exact ih _ _ _ _ _ hv
            | true =>
              simp only
              have hs := swapElems_respects ops R hops d j (j + 1) y1 y2 hv
              generalize swapElems ops d j (j + 1) y1 = r1 at hs
              generalize swapElems ops d j (j + 1) y2 = r2 at hs
              obtain ⟨o1, d1, z1⟩ := r1
              obtain ⟨o2, d2, z2⟩ := r2
              simp only at hs
              obtain ⟨e1, e2, hv2⟩ := hs
              subst e1 e2
              cases o1 with
              | error e => exact ⟨rfl, rfl, hv2⟩
              | ok u => exact ih _ _ _ _ _ hv2
    · exact ⟨rfl, rfl, h⟩

theorem BubbleSort_outer_respects {T : Type} (ops : ElemOps T) (R : World → World → Prop)
    (hops : ops.Respects R) (dataSize k : Nat) :
    ∀ (i : Nat) (data_ : List T) (w1 w2 : World), R w1 w2 →
      (BubbleSort.outer ops dataSize k i data_ w1).1 =
        (BubbleSort.outer ops dataSize k i data_ w2).1 ∧
      (BubbleSort.outer ops dataSize k i data_ w1).2.1 =
        (BubbleSort.outer ops dataSize k i data_ w2).2.1 ∧
      R (BubbleSort.outer ops dataSize k i data_ w1).2.2
        (BubbleSort.outer ops dataSize k i data_ w2).2.2 := by
  induction k with
  | zero => intro i d w1 w2 h; exact ⟨rfl, rfl, h⟩
  | succ k ih =>
    intro i d w1 w2 h
    unfold BubbleSort.outer
    split
    · have hs := BubbleSort_inner_respects ops R hops (dataSize - i - 1) (dataSize + 1) 0 true d
        w1 w2 h
      generalize BubbleSort.inner ops (dataSize - i - 1) (dataSize + 1) 0 true d w1 = r1 at hs
      generalize BubbleSort.inner ops (dataSize - i - 1) (dataSize + 1) 0 true d w2 = r2 at hs
      obtain ⟨o1, d1, z1⟩ := r1
      obtain ⟨o2, d2, z2⟩ := r2
      simp only at hs
      obtain ⟨e1, e2, hv2⟩ := hs
      subst e1 e2
      cases o1 with
      | error e => exact ⟨rfl, rfl, hv2⟩
      | ok g =>
        cases g with
        | false => exact ih _ _ _ _ hv2
        | true => exact ⟨rfl, rfl, hv2⟩
    · exact ⟨rfl, rfl, h⟩

theorem BubbleSort_respects {T : Type} (ops : ElemOps T) (R : World → World → Prop)
    (hops : ops.Respects R) (data_ : List T) (w1 w2 : World) (h : R w1 w2) :
    (BubbleSort ops data_ w1).1 = (BubbleSort ops data_ w2).1 ∧
    (BubbleSort ops data_ w1).2.1 = (BubbleSort ops data_ w2).2.1 ∧
    R (BubbleSort ops data_ w1).2.2 (BubbleSort ops data_ w2).2.2 := by
  unfold BubbleSort
  split
  · exact ⟨rfl, rfl, h⟩
  · exact BubbleSort_outer_respects ops R hops _ _ _ _ _ _ h

theorem Shuffle_go_respects {T : Type} (ops : ElemOps T) (R : World → World → Prop)
    (hops : ops.Respects R) (rnd : Nat → Nat) (k : Nat) :
    ∀ (i : Nat) (data_ : List T) (w1 w2 : World), R w1 w2 →
      (VisualSort.Shuffle.go ops rnd k i data_ w1).1 =
        (VisualSort.Shuffle.go ops rnd k i data_ w2).1 ∧
      (VisualSort.Shuffle.go ops rnd k i data_ w1).2.1 =
        (VisualSort.Shuffle.go ops rnd k i data_ w2).2.1 ∧
      R (VisualSort.Shuffle.go ops rnd k i data_ w1).2.2
        (VisualSort.Shuffle.go ops rnd k i data_ w2).2.2 := by
  induction k with
  | zero => intro i d w1 w2 h; exact ⟨rfl, rfl, h⟩
  | succ k ih =>
    intro i d w1 w2 h
    unfold VisualSort.Shuffle.go
    have hs := swapElems_respects ops R hops d i (rnd i % (i + 1)) w1 w2 h
    generalize swapElems ops d i (rnd i % (i + 1)) w1 = r1 at hs
    generalize swapElems ops d i (rnd i % (i + 1)) w2 = r2 at hs
    obtain ⟨o1, d1, z1⟩ := r1
    obtain ⟨o2, d2, z2⟩ := r2
    simp only at hs
    obtain ⟨e1, e2, hv2⟩ := hs
    subst e1 e2
    cases o1 with
    | error e => exact ⟨rfl, rfl, hv2⟩
    | ok u => exact ih _ _ _ _ hv2

theorem returnOld_respects (back : Int) (r1 r2 : Except Fault Unit × Strip × World)
    (h : SameWrite r1 r2) : SameWrite (Strip.returnOld back r1) (Strip.returnOld back r2) := by
  obtain ⟨o1, s1, x1⟩ := r1
  obtain ⟨o2, s2, x2⟩ := r2
  obtain ⟨e1, e2, hv⟩ := h
  simp only at e1 e2 hv
  subst e1 e2
  cases o1 <;> exact ⟨rfl, rfl, hv⟩

theorem variant_StopSort {w1 w2 : World} (h : PauseVariant w1 w2) :
    SameRead (Strip.StopSort w1) (Strip.StopSort w2) := by
  obtain ⟨c1, p1, c2, p2, e⟩ := h
  have l1 := later_StopSort w1
  have l2 := later_StopSort w2
  refine ⟨(StopSort_ok w1 c1 p1).trans (StopSort_ok w2 c2 p2).symm, l1.1 c1, l1.2.1 p1, l2.1 c2,
    l2.2.1 p2, ?_⟩
  rw [StopSort_core w1 c1, StopSort_core w2 c2, e]

/-! ## RadixSort at the proxies: values, step counts and monotone progress -/

theorem radixScan_spec (rest : List Int) :
    ∀ (mx mn : Int) (seen : List Int), mn ≤ mx → mx ∈ seen → mn ∈ seen →
      (∀ x ∈ seen, mn ≤ x ∧ x ≤ mx) →
      (∀ x ∈ seen ++ rest, (radixScan rest mx mn).2 ≤ x ∧ x ≤ (radixScan rest mx mn).1) ∧
      (radixScan rest mx mn).1 ∈ seen ++ rest ∧ (radixScan rest mx mn).2 ∈ seen ++ rest := by
  induction rest with
  | nil =>
    intro mx mn seen h1 h2 h3 h4
    simp only [radixScan, List.append_nil]
    exact ⟨h4, h2, h3⟩
  | cons x rest ih =>
    intro mx mn seen h1 h2 h3 h4
    have e : seen ++ x :: rest = (seen ++ [x]) ++ rest := by simp
    rw [e]
    unfold radixScan
    by_cases hgt : x > mx
    · rw [if_pos hgt]
      apply ih x mn (seen ++ [x]) (by omega) (by simp) (by simp [h3])
      intro y hy
      rcases List.mem_append.mp hy with hy | hy
      · have := h4 y hy; omega
      · simp only [List.mem_singleton] at hy; subst hy; omega
    · rw [if_neg hgt]
      by_cases hlt : x < mn
      · rw [if_pos hlt]
        apply ih mx x (seen ++ [x]) (by omega) (by simp [h2]) (by simp)
        intro y hy
        rcases List.mem_append.mp hy with hy | hy
        · have := h4 y hy; omega
        · simp only [List.mem_singleton] at hy; subst hy; omega
      · rw [if_neg hlt]
        apply ih mx mn (seen ++ [x]) h1 (by simp [h2]) (by simp [h3])
        intro y hy
        rcases List.mem_append.mp hy with hy | hy
        · exact h4 y hy
        · simp only [List.mem_singleton] at hy; subst hy; omega

theorem pushBackOn_values {T : Type} (val : T → Int) (κ : Int → Nat) (bucket : List (List T))
    (p : List Int) (x : T) (idx : Int)
    (hb : bucket.map (List.map val) = radixBuckets κ p) (hidx : idx = κ (val x))
    (hlt : κ (val x) < 16) :
    ∃ b', RadixSort.pushBackOn bucket idx x = .ok b' ∧
      b'.map (List.map val) = radixBuckets κ (p ++ [val x]) ∧
      ∀ P : T → Prop, (∀ l ∈ bucket, ∀ y ∈ l, P y) → P x → ∀ l ∈ b', ∀ y ∈ l, P y := by
  have hlen : bucket.length = 16 := by
    have := congrArg List.length hb
    simpa [radixBuckets_length] using this
  have hint := pushBack_buckets κ p (val x) idx hidx hlt
  unfold RadixSort.pushBack at hint
  rw [radixBuckets_length] at hint
  have hcond : 0 ≤ idx ∧ idx < (16 : Nat) := by subst hidx; omega
  rw [if_pos hcond] at hint
  have hint' := Except.ok.inj hint
  unfold RadixSort.pushBackOn
  rw [hlen, if_pos hcond]
  refine ⟨_, rfl, ?_, ?_⟩
  · rw [← hint', ← hb, List.map_set]
    congr 1
    rw [List.map_append, List.getD_eq_getElem?_getD, List.getD_eq_getElem?_getD,
      List.getElem?_map]
    cases bucket[idx.toNat]? <;> simp
  · intro P hP hx l hl y hy
    rcases List.mem_or_eq_of_mem_set hl with h | h
    · exact hP l h y hy
    · subst h
      rcases List.mem_append.mp hy with h | h
      · rw [List.getD_eq_getElem?_getD] at h
        cases hg : bucket[idx.toNat]? with
        | none => rw [hg] at h; simp at h
        | some l0 =>
          rw [hg] at h
          obtain ⟨h', e⟩ := List.getElem?_eq_some.mp hg
          exact hP l0 (e ▸ List.getElem_mem h') y h
      · simp only [List.mem_singleton] at h
        subst h
        exact hx

theorem collectOn_append {T : Type} (post : List (List T)) :
    ∀ (pre : List (List T)) (q : List T),
      RadixSort.collectOn post.length pre.length q (pre ++ post) =
        .ok (q ++ post.flatten, pre ++ List.replicate post.length []) := by
  induction post with
  | nil =>
    intro pre q
    simp [RadixSort.collectOn]
  | cons l post ih =>
    intro pre q
    simp only [List.length_cons]
    unfold RadixSort.collectOn
    have hget : (pre ++ l :: post)[pre.length]? = some l := by
      rw [List.getElem?_append_right (le_refl _)]
      simp
    rw [hget]
    simp only
    have hset : (pre ++ l :: post).set pre.length [] = (pre ++ [[]]) ++ post := by simp
    have hlen : pre.length + 1 = (pre ++ [([] : List T)]).length := by simp
    rw [hset, hlen, ih]
    simp [List.replicate_succ]

theorem collectOn_spec {T : Type} (q : List T) (b : List (List T)) (hb : b.length = 16) :
    RadixSort.collectOn 16 0 q b = .ok (q ++ b.flatten, List.replicate 16 []) := by
  have := collectOn_append b [] q
  rw [hb] at this
  simpa using this

theorem counter_scan (rest : List Counter) (hl : ∀ x ∈ rest, x.m_notTemp = true) :
    ∀ (mx mn : Int) (w : World),
      (RadixSortCounter.scan rest mx mn w).1 = radixScan (rest.map fun c => c.m_value) mx mn ∧
      (RadixSortCounter.scan rest mx mn w).2.ActualStepNum =
        w.ActualStepNum + radixScanSteps (rest.map fun c => c.m_value) mx mn := by
  induction rest with
  | nil => intro mx mn w; exact ⟨rfl, rfl⟩
  | cons x rest ih =>
    intro mx mn w
    have hx : x.m_notTemp = true := hl x (List.mem_cons_self _ _)
    have ih' := ih (fun y hy => hl y (List.mem_cons_of_mem _ hy))
    unfold RadixSortCounter.scan
    simp only [Counter.compareInt, Counter.toInt, Counter.IncrementIfNeeded, hx, if_true,
      CmpOp.eval, List.map_cons, radixScan, radixScanSteps]
    by_cases hgt : x.m_value > mx
    · simp only [hgt, decide_True, if_true]
      obtain ⟨h1, h2⟩ := ih' x.m_value mn w.incActualStepNum.incActualStepNum
      refine ⟨h1, h2.trans ?_⟩
      simp only [World.incActualStepNum]
      omega
    · simp only [hgt, decide_False, if_false]
      by_cases hlt : x.m_value < mn
      · simp only [hlt, decide_True, if_true]
        obtain ⟨h1, h2⟩ := ih' mx x.m_value w.incActualStepNum.incActualStepNum.incActualStepNum
        refine ⟨h1, h2.trans ?_⟩
        simp only [World.incActualStepNum]
        omega
      · simp only [hlt, decide_False, if_false]
        obtain ⟨h1, h2⟩ := ih' mx mn w.incActualStepNum.incActualStepNum
        refine ⟨h1, h2.trans ?_⟩
        simp only [World.incActualStepNum]
        omega

theorem counter_first (mn : Int) (rest : List Counter) (hl : ∀ x ∈ rest, x.m_notTemp = true)
    (hmn : ∀ x ∈ rest, mn ≤ x.m_value) :
    ∀ (bucket : List (List Counter)) (p : List Int) (w : World),
      bucket.map (List.map fun c => c.m_value) = radixBuckets (radixDigit mn 0) p →
      (∀ l ∈ bucket, ∀ y ∈ l, y.m_notTemp = false) →
      ∃ b' w', RadixSortCounter.first mn rest bucket w = (.ok b', w') ∧
        b'.map (List.map fun c => c.m_value) =
          radixBuckets (radixDigit mn 0) (p ++ rest.map fun c => c.m_value) ∧
        (∀ l ∈ b', ∀ y ∈ l, y.m_notTemp = false) ∧
        w'.ActualStepNum = w.ActualStepNum + rest.length := by
  induction rest with
  | nil =>
    intro bucket p w hb hq
    exact ⟨bucket, w, rfl, by simpa using hb, hq, rfl⟩
  | cons x rest ih =>
    intro bucket p w hb hq
    have hx : x.m_notTemp = true := hl x (List.mem_cons_self _ _)
    have hxm : mn ≤ x.m_value := hmn x (List.mem_cons_self _ _)
    unfold RadixSortCounter.first
    simp only [Counter.toInt, Counter.IncrementIfNeeded, hx, if_true, Counter.ctor, Counter.copy,
      Bool.false_eq_true, if_false]
    have hidx : (x.m_value - mn).tmod 16 = (radixDigit mn 0 x.m_value : Nat) := by
      have := radix_index mn x.m_value 0 hxm
      simpa using this
    obtain ⟨b1, e1, e2, e3⟩ := pushBackOn_values (fun c : Counter => c.m_value)
      (radixDigit mn 0) bucket p ⟨x.m_value, false⟩ _ hb hidx (radixDigit_lt mn x.m_value 0)
    rw [e1]
    simp only
    obtain ⟨b', w', f1, f2, f3, f4⟩ := ih (fun y hy => hl y (List.mem_cons_of_mem _ hy))
      (fun y hy => hmn y (List.mem_cons_of_mem _ hy)) b1 (p ++ [x.m_value])
      w.incActualStepNum e2 (e3 (fun y => y.m_notTemp = false) hq rfl)
    refine ⟨b', w', f1, ?_, f3, ?_⟩
    · rw [f2]; simp
    · rw [f4]
      simp only [World.incActualStepNum, List.length_cons]
      omega

theorem counter_copy (dataQueue : List Counter) :
    ∀ (data_ : List Counter) (w : World), data_.length = dataQueue.length →
      (∀ x ∈ data_, x.m_notTemp = true) →
      ∃ d' w', RadixSortCounter.copyDataFromQueue dataQueue data_ w = (.ok (), d', w') ∧
        d'.map (fun c => c.m_value) = dataQueue.map (fun c => c.m_value) ∧
        (∀ x ∈ d', x.m_notTemp = true) ∧
        w'.ActualStepNum = w.ActualStepNum + dataQueue.length := by
  induction dataQueue with
  | nil =>
    intro data_ w hlen hl
    have : data_ = [] := List.length_eq_zero.mp hlen
    subst this
    exact ⟨[], w, rfl, rfl, hl, rfl⟩
  | cons it dataQueue ih =>
    intro data_ w hlen hl
    cases data_ with
    | nil => simp at hlen
    | cons x data_ =>
      have hx : x.m_notTemp = true := hl x (List.mem_cons_self _ _)
      unfold RadixSortCounter.copyDataFromQueue
      simp only [Counter.assign, Counter.IncrementIfNeeded2, hx, Bool.true_or, if_true]
      obtain ⟨d', w', f1, f2, f3, f4⟩ := ih data_ w.incActualStepNum
        (by simpa using hlen) (fun y hy => hl y (List.mem_cons_of_mem _ hy))
      rw [f1]
      refine ⟨_, w', rfl, by simp [f2], ?_, ?_⟩
      · intro y hy
        rcases List.mem_cons.mp hy with h | h
        · subst h; rfl
        · exact f3 y h
      · rw [f4]
        simp only [World.incActualStepNum, List.length_cons]
        omega

theorem counter_scatter (mn : Int) (k : Nat) (dataQueue : List Counter)
    (hq : ∀ y ∈ dataQueue, y.m_notTemp = false) (hmn : ∀ y ∈ dataQueue, mn ≤ y.m_value) :
    ∀ (bucket : List (List Counter)) (p : List Int) (w : World),
      bucket.map (List.map fun c => c.m_value) = radixBuckets (radixDigit mn k) p →
      (∀ l ∈ bucket, ∀ y ∈ l, y.m_notTemp = false) →
      ∃ b', RadixSortCounter.scatter mn ((16 : Int) ^ k) dataQueue bucket w = (.ok b', w) ∧
        b'.map (List.map fun c => c.m_value) =
          radixBuckets (radixDigit mn k) (p ++ dataQueue.map fun c => c.m_value) ∧
        (∀ l ∈ b', ∀ y ∈ l, y.m_notTemp = false) := by
  induction dataQueue with
  | nil =>
    intro bucket p w hb hnl
    exact ⟨bucket, rfl, by simpa using hb, hnl⟩
  | cons x rest ih =>
    intro bucket p w hb hnl
    have hx : x.m_notTemp = false := hq x (List.mem_cons_self _ _)
    have hxm : mn ≤ x.m_value := hmn x (List.mem_cons_self _ _)
    unfold RadixSortCounter.scatter
    have h16 : (16 : Int) ^ k ≠ 0 := by positivity
    simp only [Counter.toInt, Counter.IncrementIfNeeded, hx, Bool.false_eq_true, if_false, h16]
    obtain ⟨b1, e1, e2, e3⟩ := pushBackOn_values (fun c : Counter => c.m_value)
      (radixDigit mn k) bucket p x _ hb (radix_index mn x.m_value k hxm)
      (radixDigit_lt mn x.m_value k)
    rw [e1]
    simp only
    obtain ⟨b', f1, f2, f3⟩ := ih (fun y hy => hq y (List.mem_cons_of_mem _ hy))
      (fun y hy => hmn y (List.mem_cons_of_mem _ hy)) b1 (p ++ [x.m_value]) w e2
      (e3 (fun y => y.m_notTemp = false) hnl hx)
    exact ⟨b', f1, by rw [f2]; simp, f3⟩

theorem radixRounds_spec (mn : Int) (data_ : List Int) (c : Nat) :
    ∀ (k : Nat) (q : List Int), q.Perm data_ →
      q.Pairwise (fun a b => radixKey mn k a ≤ radixKey mn k b) →
      (radixRounds mn c k q).Perm data_ ∧
      (radixRounds mn c k q).Pairwise
        (fun a b => radixKey mn (k + c) a ≤ radixKey mn (k + c) b) := by
  induction c with
  | zero => intro k q hp hs; exact ⟨hp, hs⟩
  | succ c ih =>
    intro k q hp hs
    unfold radixRounds
    have := ih (k + 1) (radixRound mn k q)
      ((radixRound_perm _ (fun v => radixDigit_lt mn v k) q).trans hp)
      (radixRound_sorted mn k q hs)
    rw [show k + (c + 1) = k + 1 + c by omega]
    exact this

theorem pow16_small (k : Nat) (hk : k ≤ 7) : (16 : Int) ^ k < 2147483648 := by
  have h := Nat.pow_le_pow_right (show 0 < 16 by omega) hk
  have h' : ((16 ^ k : Nat) : Int) ≤ ((16 ^ 7 : Nat) : Int) := by exact_mod_cast h
  push_cast at h'
  have : (16 : Int) ^ 7 = 268435456 := by norm_num
  omega

theorem values_flatten {T : Type} (val : T → Int) (b : List (List T)) :
    b.flatten.map val = (b.map (List.map val)).flatten := by
  induction b with
  | nil => rfl
  | cons l b ih => simp [ih]

theorem counter_passes (mn : Int) (n : Nat) (c : Nat) :
    ∀ (k : Nat) (dataQueue data_ : List Counter) (w : World), k + c ≤ 8 →
      (∀ y ∈ dataQueue, y.m_notTemp = false) → (∀ y ∈ dataQueue, mn ≤ y.m_value) →
      dataQueue.length = n → data_.length = n → (∀ x ∈ data_, x.m_notTemp = true) →
      data_.map (fun c => c.m_value) = dataQueue.map (fun c => c.m_value) →
      ∃ d' w', RadixSortCounter.passes mn n c ((16 : Int) ^ k) dataQueue (List.replicate 16 [])
          data_ w = (.ok (), d', w') ∧
        d'.map (fun c => c.m_value) = radixRounds mn c k (dataQueue.map fun c => c.m_value) ∧
        w'.ActualStepNum = w.ActualStepNum + c * (2 * n) := by
  induction c with
  | zero =>
    intro k q d w hk hq hmn hqn hdn hl hv
    exact ⟨d, w, rfl, hv, by simp⟩
  | succ c ih =>
    intro k q d w hk hq hmn hqn hdn hl hv
    unfold RadixSortCounter.passes
    obtain ⟨b1, e1, e2, e3⟩ := counter_scatter mn k q hq hmn (List.replicate 16 []) [] w
      (by rw [radixBuckets_nil]; simp) (by
        intro l hl' y hy
        rw [List.eq_of_mem_replicate hl'] at hy
        simp at hy)
    rw [e1]
    simp only [List.nil_append] at e2 ⊢
    have hb1 : b1.length = 16 := by
      have := congrArg List.length e2
      simpa [radixBuckets_length] using this
    rw [collectOn_spec [] b1 hb1]
    simp only [List.nil_append]
    have hq1v : b1.flatten.map (fun c : Counter => c.m_value) =
        radixRound mn k (q.map fun c => c.m_value) := by
      rw [values_flatten, e2]
      rfl
    have hq1perm : (b1.flatten.map (fun c : Counter => c.m_value)).Perm
        (q.map fun c => c.m_value) := by
      rw [hq1v]
      exact radixRound_perm _ (fun v => radixDigit_lt mn v k) _
    have hq1len : b1.flatten.length = n := by
      have := hq1perm.length_eq
      rw [List.length_map, List.length_map, hqn] at this
      exact this
    have hq1nl : ∀ y ∈ b1.flatten, y.m_notTemp = false := by
      intro y hy
      obtain ⟨l, hl1, hl2⟩ := List.mem_flatten.mp hy
      exact e3 l hl1 y hl2
    have hq1mn : ∀ y ∈ b1.flatten, mn ≤ y.m_value := by
      intro y hy
      have : y.m_value ∈ b1.flatten.map (fun c : Counter => c.m_value) :=
        List.mem_map_of_mem _ hy
      obtain ⟨z, hz1, hz2⟩ := List.mem_map.mp (hq1perm.mem_iff.mp this)
      rw [← hz2]
      exact hmn z hz1
    obtain ⟨d1, w1, f1, f2, f3, f4⟩ := counter_copy b1.flatten d
      { w with ActualStepNum := w.ActualStepNum + n } (by rw [hdn, hq1len]) hl
    rw [f1]
    simp only
    have hpow : ∀ (q' : List Counter) (b' : List (List Counter)) (e' : List Counter)
        (u : World),
        RadixSortCounter.passes mn n c (wrapInt ((16 : Int) ^ k * 16)) q' b' e' u =
          RadixSortCounter.passes mn n c ((16 : Int) ^ (k + 1)) q' b' e' u := by
      intro q' b' e' u
      cases c with
      | zero => rfl
      | succ c' =>
        rw [← pow_succ, wrapInt_small _ (le_trans (by norm_num) (pow_nonneg (by norm_num) _))
          (pow16_small (k + 1) (by omega))]
    rw [hpow]
    obtain ⟨d', w', g1, g2, g3⟩ := ih (k + 1) b1.flatten d1 w1 (by omega) hq1nl hq1mn hq1len
      (by
        have := congrArg List.length f2
        rw [List.length_map, List.length_map, hq1len] at this
        exact this) f3 f2
    refine ⟨d', w', g1, ?_, ?_⟩
    · rw [g2, hq1v]
      rfl
    · rw [g3, f4, hq1len]
      simp only
      ring

/-- What the scan, the count of the digits and the rounds of `RadixSort` come to on
the values `x :: rest`, when no two of them are `2 ^ 32` apart, as is the case
of the values of `int`. -/
theorem radix_values (x : Int) (rest : List Int)
    (hrange : ∀ a ∈ x :: rest, ∀ b ∈ x :: rest, a - b < 4294967296) :
    (∀ v ∈ x :: rest, (radixScan rest x x).2 ≤ v) ∧
    ((radixScan rest x x).1 - (radixScan rest x x).2 = 0 → x :: rest = sortedCopy (x :: rest)) ∧
    ((radixScan rest x x).1 - (radixScan rest x x).2 ≠ 0 →
      ∃ g : Nat, 1 ≤ g ∧ g ≤ 8 ∧
        loop (RadixSort.digits 16)
          (((radixScan rest x x).1 - (radixScan rest x x).2).toNat + 1)
          ((radixScan rest x x).1 - (radixScan rest x x).2, 0) = .ok (g : Int) ∧
        radixRounds (radixScan rest x x).2 (g - 1) 1
          (radixRound (radixScan rest x x).2 0 (x :: rest)) = sortedCopy (x :: rest)) := by
  obtain ⟨hall, hmx, hmn⟩ := radixScan_spec rest x x [x] (le_refl _) (by simp) (by simp)
    (by intro y hy; simp only [List.mem_singleton] at hy; subst hy; exact ⟨le_refl _, le_refl _⟩)
  simp only [List.singleton_append] at hall hmx hmn
  generalize (radixScan rest x x).1 = mx at hall hmx hmn ⊢
  generalize (radixScan rest x x).2 = mn at hall hmx hmn ⊢
  refine ⟨fun v hv => (hall v hv).1, ?_, ?_⟩
  · intro hz
    apply eq_sortedCopy _ _ (List.Perm.refl _)
    intro a b ha hab hb
    have h1 := hall _ (nth_mem (x :: rest) a ha (by omega))
    have h2 := hall _ (nth_mem (x :: rest) b (by omega) hb)
    omega
  · intro hz
    have hpos : 0 < mx - mn := by
      have := (hall mx hmx).1
      omega
    obtain ⟨R, hR⟩ := Int.eq_ofNat_of_zero_le (show 0 ≤ mx - mn by omega)
    obtain ⟨gi, hdig, g, rfl, hg1, hglo, hghi⟩ := radix_digits_loop R (by omega)
    have hR8 : R < 16 ^ 8 := by
      have := hrange mx hmx mn hmn
      norm_num
      omega
    have hg8 : g ≤ 8 := by
      by_contra hcon
      have := Nat.pow_le_pow_right (show 0 < 16 by omega) (show 8 ≤ g - 1 by omega)
      omega
    refine ⟨g, hg1, hg8, by rw [hR]; exact hdig, ?_⟩
    have hs0 : (x :: rest).Pairwise (fun a b => radixKey mn 0 a ≤ radixKey mn 0 b) := by
      apply List.pairwise_of_forall
      intro a b
      unfold radixKey
      simp [Nat.mod_one]
    have hs1 := radixRound_sorted mn 0 (x :: rest) hs0
    have hp1 := radixRound_perm (radixDigit mn 0) (fun v => radixDigit_lt mn v 0) (x :: rest)
    obtain ⟨hpr, hsr⟩ := radixRounds_spec mn (x :: rest) (g - 1) 1
      (radixRound mn 0 (x :: rest)) hp1 hs1
    rw [show 1 + (g - 1) = g by omega] at hsr
    have hsorted : List.Sorted (· ≤ ·)
        (radixRounds mn (g - 1) 1 (radixRound mn 0 (x :: rest))) := by
      unfold List.Sorted
      refine List.Pairwise.imp_of_mem ?_ hsr
      intro a b ha hb hab
      have ba := hall a (hpr.mem_iff.mp ha)
      have bb := hall b (hpr.mem_iff.mp hb)
      unfold radixKey at hab
      rw [Nat.mod_eq_of_lt (by omega), Nat.mod_eq_of_lt (by omega)] at hab
      omega
    exact List.eq_of_perm_of_sorted (hpr.trans (sortedCopy_perm _).symm) hsorted
      (sortedCopy_sorted _)

theorem RadixSortCounter_spec (data_ : List Counter) (w : World) (hlen : 2 ≤ data_.length)
    (hl : ∀ x ∈ data_, x.m_notTemp = true)
    (hrange : ∀ a ∈ data_.map (fun c => c.m_value), ∀ b ∈ data_.map (fun c => c.m_value),
      a - b < 4294967296) :
    ∃ d' w', RadixSortCounter data_ w = (.ok (), d', w') ∧
      d'.map (fun c => c.m_value) = sortedCopy (data_.map fun c => c.m_value) ∧
      w'.ActualStepNum = w.ActualStepNum + radixSteps (data_.map fun c => c.m_value) := by
  match data_, hlen, hl, hrange with
  | x :: y :: rest, _, hl, hrange =>
    have hx : x.m_notTemp = true := hl x (List.mem_cons_self _ _)
    obtain ⟨s1, s2⟩ := counter_scan (y :: rest) (fun z hz => hl z (List.mem_cons_of_mem _ hz))
      x.m_value x.m_value w.incActualStepNum.incActualStepNum
    obtain ⟨hlow, hzero, hnz⟩ := radix_values x.m_value
      ((y :: rest).map fun (c : Counter) => c.m_value) hrange
    unfold RadixSortCounter radixSteps
    simp only [Counter.toInt, Counter.IncrementIfNeeded, hx, if_true, List.map_cons]
    simp only [List.map_cons] at s1 s2 hlow hzero hnz
    generalize RadixSortCounter.scan (y :: rest) x.m_value x.m_value
      w.incActualStepNum.incActualStepNum = r at s1 s2
    obtain ⟨⟨mx, mn⟩, w1⟩ := r
    simp only at s1 s2
    rw [← s1] at hlow hzero hnz ⊢
    simp only at hlow hzero hnz ⊢
    by_cases hz : mx - mn = 0
    · rw [if_pos hz, if_pos hz]
      refine ⟨_, _, rfl, hzero hz, ?_⟩
      rw [s2]
      simp only [World.incActualStepNum]
      omega
    · rw [if_neg hz, if_neg hz]
      obtain ⟨g, hg1, hg7, hdig, hsorted⟩ := hnz hz
      rw [hdig]
      unfold RadixSortCounter.sort
      have hmnall : ∀ z ∈ x :: y :: rest, mn ≤ z.m_value := by
        intro z hz'
        exact hlow z.m_value (by
          have := List.mem_map_of_mem (fun c : Counter => c.m_value) hz'
          simpa using this)
      obtain ⟨b1, w2, e1, e2, e3, e4⟩ := counter_first mn (x :: y :: rest) hl hmnall
        (List.replicate 16 []) [] w1 (by rw [radixBuckets_nil]; simp) (by
          intro l hl' z hz'
          rw [List.eq_of_mem_replicate hl'] at hz'
          simp at hz')
      rw [e1]
      simp only [List.nil_append] at e2 ⊢
      have hb1 : b1.length = 16 := by
        have := congrArg List.length e2
        simpa [radixBuckets_length] using this
      rw [collectOn_spec [] b1 hb1]
      simp only [List.nil_append]
      have hq1v : b1.flatten.map (fun c : Counter => c.m_value) =
          radixRound mn 0 ((x :: y :: rest).map fun c => c.m_value) := by
        rw [values_flatten, e2]
        rfl
      have hq1perm : (b1.flatten.map (fun c : Counter => c.m_value)).Perm
          ((x :: y :: rest).map fun c => c.m_value) := by
        rw [hq1v]
        exact radixRound_perm _ (fun v => radixDigit_lt mn v 0) _
      have hq1len : b1.flatten.length = (x :: y :: rest).length := by
        have := hq1perm.length_eq
        rw [List.length_map, List.length_map] at this
        exact this
      have hq1nl : ∀ z ∈ b1.flatten, z.m_notTemp = false := by
        intro z hz'
        obtain ⟨l, hl1, hl2⟩ := List.mem_flatten.mp hz'
        exact e3 l hl1 z hl2
      have hq1mn : ∀ z ∈ b1.flatten, mn ≤ z.m_value := by
        intro z hz'
        have : z.m_value ∈ b1.flatten.map (fun c : Counter => c.m_value) :=
          List.mem_map_of_mem _ hz'
        obtain ⟨u, hu1, hu2⟩ := List.mem_map.mp (hq1perm.mem_iff.mp this)
        rw [← hu2]
        exact hmnall u hu1
      obtain ⟨d1, w3, f1, f2, f3, f4⟩ := counter_copy b1.flatten (x :: y :: rest) w2
        hq1len.symm hl
      rw [f1]
      simp only
      have hd1len : d1.length = (x :: y :: rest).length := by
        have := congrArg List.length f2
        rw [List.length_map, List.length_map, hq1len] at this
        exact this
      rw [hd1len]
      obtain ⟨d', w', g1, g2, g3⟩ := counter_passes mn (x :: y :: rest).length (g - 1) 1
        b1.flatten d1 w3 (by omega) hq1nl hq1mn hq1len hd1len f3 f2
      rw [pow_one] at g1
      have hgn : ((g : Int)).toNat - 1 = g - 1 := by simp
      simp only [hdig, hgn, g1]
      refine ⟨d', w', rfl, ?_, ?_⟩
      · rw [g2, hq1v]
        simpa using hsorted
      · rw [g3, f4, e4, s2, hq1len]
        simp only [World.incActualStepNum, List.length_cons, List.length_map, hgn]
        ring

theorem animates_zero (w : World) (hr : w.Runs) : World.Animates 0 w w := ⟨hr, rfl, rfl⟩

theorem animates_then {a b : Nat} {w w1 w2 : World} (h1 : World.Animates a w w1)
    (h2 : World.Animates b w1 w2) : World.Animates (a + b) w w2 :=
  ⟨h2.1, by rw [h2.2.1, h1.2.1]; omega, h2.2.2.trans h1.2.2⟩

theorem animates_cast {a b : Nat} {w w' : World} (h : World.Animates a w w') (e : a = b) :
    World.Animates b w w' := e ▸ h

theorem draw1_step (s : Strip) (c : COLORREF) (w : World) (hr : w.Runs) :
    ∃ w', Strip.DrawStrip1 s c w = (.ok (), w') ∧ World.Animates 0 w w' := by
  obtain ⟨w', h, hr'⟩ := DrawStrip1_runs s c w hr
  have hs := DrawStrip1_sameCounters s c w
  rw [h] at hs
  exact ⟨w', h, hr', hs.2.2.2.2, hs.1⟩

theorem strip_compareInt_step (cmp : CmpOp) (x : Strip) (v : Int) (w : World) (hr : w.Runs)
    (hx : x.m_notTemp = true) :
    ∃ w', x.compareInt cmp v w = (.ok (cmp.eval x.m_value v), w') ∧ World.Animates 1 w w' := by
  obtain ⟨w1, h, hr1, ha, hb⟩ := draw1_step x StripCopyColor w hr
  unfold Strip.compareInt
  rw [if_pos hx, h]
  exact ⟨_, rfl, later_runs ⟨id, id, rfl⟩ hr1, by simp [Strip.AddNumCompare1, ha], hb⟩

theorem strip_toInt_step (x : Strip) (w : World) (hr : w.Runs) (hx : x.m_notTemp = true) :
    ∃ w', x.toInt w = (.ok x.m_value, w') ∧ World.Animates 1 w w' := by
  obtain ⟨w1, h, hr1, ha, hb⟩ := draw1_step x StripCopyColor w hr
  unfold Strip.toInt
  rw [if_pos hx, h]
  exact ⟨_, rfl, later_runs ⟨id, id, rfl⟩ hr1, by simp [Strip.AddNumCopy1_StripToInt, ha], hb⟩

theorem strip_toInt_temp (x : Strip) (w : World) (hx : x.m_notTemp = false) :
    x.toInt w = (.ok x.m_value, w) := by
  unfold Strip.toInt
  simp [hx]

theorem strip_mark_step (x : Strip) (color : COLORREF) (w : World) (hr : w.Runs) :
    ∃ w', RadixSortStrip.mark x color w = (.ok (), x.SetColor color, w') ∧
      World.Animates 1 w w' := by
  obtain ⟨w1, h, hr1, ha, hb⟩ := draw1_step (x.SetColor color) StripCopyColor w hr
  unfold RadixSortStrip.mark
  rw [h]
  exact ⟨_, rfl, later_runs ⟨id, id, rfl⟩ hr1, by simp [ha], hb⟩

theorem strip_copyValue_step (x it : Strip) (w : World) (hr : w.Runs) (hx : x.m_notTemp = true)
    (hit : it.m_notTemp = false) :
    ∃ x' w', x.CopyValueAndColor it w = (.ok (), x', w') ∧ x'.m_value = it.m_value ∧
      x'.m_notTemp = true ∧ World.Animates 1 w w' := by
  obtain ⟨s1, hs1⟩ := SetTopAuto_ok { x with m_value := it.m_value, m_color := it.m_color } w
    hr.2.2
  have hv := SetTopAuto_value _ _ _ hs1
  have hslot := SetTopAuto_slot _ _ _ hs1
  obtain ⟨w1, h, hr1, ha, hb⟩ := draw1_step s1 StripChangeColor w hr
  unfold Strip.CopyValueAndColor Strip.copied
  simp only [hx] at hs1
  simp only [hx, hit, bne_iff_ne, ne_eq, not_false_eq_true, if_true, hs1, h,
    Bool.true_eq_false]
  refine ⟨s1, _, rfl, hv, ?_, later_runs ⟨id, id, rfl⟩ hr1,
    by simp [Strip.AddNumCopy1_IntToStrip, ha], hb⟩
  simp only [Strip.slot, Prod.mk.injEq] at hslot
  exact hslot.2.2.trans hx

theorem bucketColor_ok (colors : List COLORREF) (hc : colors ≠ []) (idx : Int) :
    ∃ c, RadixSortStrip.bucketColor colors idx = .ok c := by
  unfold RadixSortStrip.bucketColor
  have hpos : 0 < colors.length := List.length_pos.mpr hc
  rw [if_neg (by omega), List.getElem?_eq_getElem (Nat.mod_lt _ hpos)]
  exact ⟨_, rfl⟩

theorem strip_scan (rest : List Strip) (hl : ∀ x ∈ rest, x.m_notTemp = true) :
    ∀ (mx mn : Int) (w : World), w.Runs →
      ∃ w', RadixSortStrip.scan rest mx mn w =
          (.ok (radixScan (rest.map fun s => s.m_value) mx mn), w') ∧
        World.Animates (radixScanSteps (rest.map fun s => s.m_value) mx mn) w w' := by
  induction rest with
  | nil => intro mx mn w hr; exact ⟨w, rfl, animates_zero w hr⟩
  | cons x rest ih =>
    intro mx mn w hr
    have hx : x.m_notTemp = true := hl x (List.mem_cons_self _ _)
    have ih' := ih (fun y hy => hl y (List.mem_cons_of_mem _ hy))
    unfold RadixSortStrip.scan
    simp only [List.map_cons, radixScan, radixScanSteps]
    obtain ⟨w1, e1, a1⟩ := strip_compareInt_step .gt x mx w hr hx
    rw [e1]
    by_cases hgt : x.m_value > mx
    · simp only [CmpOp.eval, hgt, decide_True, if_true]
      obtain ⟨w2, e2, a2⟩ := strip_toInt_step x w1 a1.1 hx
      rw [e2]
      simp only
      obtain ⟨w3, e3, a3⟩ := ih' x.m_value mn w2 a2.1
      exact ⟨w3, e3, animates_cast (animates_then (animates_then a1 a2) a3) (by omega)⟩
    · simp only [CmpOp.eval, hgt, decide_False, if_false]
      obtain ⟨w2, e2, a2⟩ := strip_compareInt_step .lt x mn w1 a1.1 hx
      rw [e2]
      by_cases hlt : x.m_value < mn
      · simp only [CmpOp.eval, hlt, decide_True, if_true]
        obtain ⟨w3, e3, a3⟩ := strip_toInt_step x w2 a2.1 hx
        rw [e3]
        simp only
        obtain ⟨w4, e4, a4⟩ := ih' mx x.m_value w3 a3.1
        exact ⟨w4, e4,
          animates_cast (animates_then (animates_then (animates_then a1 a2) a3) a4) (by omega)⟩
      · simp only [CmpOp.eval, hlt, decide_False, if_false]
        obtain ⟨w3, e3, a3⟩ := ih' mx mn w2 a2.1
        exact ⟨w3, e3, animates_cast (animates_then (animates_then a1 a2) a3) (by omega)⟩

theorem strip_first (colors : List COLORREF) (hc : colors ≠ []) (mn : Int) (rest : List Strip)
    (hl : ∀ x ∈ rest, x.m_notTemp = true) (hmn : ∀ x ∈ rest, mn ≤ x.m_value) :
    ∀ (bucket : List (List Strip)) (p : List Int) (w : World), w.Runs →
      bucket.map (List.map fun s => s.m_value) = radixBuckets (radixDigit mn 0) p →
      (∀ l ∈ bucket, ∀ y ∈ l, y.m_notTemp = false) →
      ∃ b' d' w', RadixSortStrip.first colors mn rest bucket w = (.ok b', d', w') ∧
        b'.map (List.map fun s => s.m_value) =
          radixBuckets (radixDigit mn 0) (p ++ rest.map fun s => s.m_value) ∧
        (∀ l ∈ b', ∀ y ∈ l, y.m_notTemp = false) ∧
        d'.map (fun s => s.m_value) = rest.map (fun s => s.m_value) ∧
        (∀ x ∈ d', x.m_notTemp = true) ∧
        World.Animates rest.length w w' := by
  induction rest with
  | nil =>
    intro bucket p w hr hb hq
    exact ⟨bucket, [], w, rfl, by simpa using hb, hq, rfl, by simp, animates_zero w hr⟩
  | cons x rest ih =>
    intro bucket p w hr hb hq
    have hx : x.m_notTemp = true := hl x (List.mem_cons_self _ _)
    have hxm : mn ≤ x.m_value := hmn x (List.mem_cons_self _ _)
    unfold RadixSortStrip.first
    have hcopy : Strip.copy (Strip.ctor x.GetValue false w).1 w =
        (.ok ⟨x.m_value, -1, -1, 0, BLACK, false⟩, w) := by
      simp [Strip.copy, Strip.ctor, Strip.GetValue]
    rw [hcopy]
    simp only [Strip.GetValue]
    obtain ⟨color, hcol⟩ := bucketColor_ok colors hc ((x.m_value - mn).tmod 16)
    rw [hcol]
    simp only
    have hidx : (x.m_value - mn).tmod 16 = (radixDigit mn 0 x.m_value : Nat) := by
      have := radix_index mn x.m_value 0 hxm
      simpa using this
    obtain ⟨b1, e1, e2, e3⟩ := pushBackOn_values (fun s : Strip => s.m_value)
      (radixDigit mn 0) bucket p
      ((⟨x.m_value, -1, -1, 0, BLACK, false⟩ : Strip).SetColor color) _ hb hidx
      (radixDigit_lt mn x.m_value 0)
    rw [e1]
    simp only
    obtain ⟨w1, m1, a1⟩ := strip_mark_step x color w hr
    rw [m1]
    simp only
    obtain ⟨b', d', w', f1, f2, f3, f4, f5, f6⟩ :=
      ih (fun y hy => hl y (List.mem_cons_of_mem _ hy))
        (fun y hy => hmn y (List.mem_cons_of_mem _ hy)) b1 (p ++ [x.m_value]) w1 a1.1 e2
        (e3 (fun y => y.m_notTemp = false) hq rfl)
    rw [f1]
    refine ⟨b', _, w', rfl, ?_, f3, ?_, ?_, ?_⟩
    · rw [f2]; simp [Strip.SetColor]
    · simp [f4, Strip.SetColor]
    · intro y hy
      rcases List.mem_cons.mp hy with h | h
      · subst h; exact hx
      · exact f5 y h
    · exact animates_cast (animates_then a1 f6) (by simp; omega)

theorem strip_copy (dataQueue : List Strip) (hq : ∀ y ∈ dataQueue, y.m_notTemp = false) :
    ∀ (data_ : List Strip) (w : World), w.Runs → data_.length = dataQueue.length →
      (∀ x ∈ data_, x.m_notTemp = true) →
      ∃ d' w', RadixSortStrip.copyDataFromQueue dataQueue data_ w = (.ok (), d', w') ∧
        d'.map (fun s => s.m_value) = dataQueue.map (fun s => s.m_value) ∧
        (∀ x ∈ d', x.m_notTemp = true) ∧
        World.Animates dataQueue.length w w' := by
  induction dataQueue with
  | nil =>
    intro data_ w hr hlen hl
    have : data_ = [] := List.length_eq_zero.mp hlen
    subst this
    exact ⟨[], w, rfl, rfl, hl, animates_zero w hr⟩
  | cons it dataQueue ih =>
    intro data_ w hr hlen hl
    cases data_ with
    | nil => simp at hlen
    | cons x data_ =>
      have hx : x.m_notTemp = true := hl x (List.mem_cons_self _ _)
      have hit : it.m_notTemp = false := hq it (List.mem_cons_self _ _)
      unfold RadixSortStrip.copyDataFromQueue
      obtain ⟨x', w1, e1, e2, e3, a1⟩ := strip_copyValue_step x it w hr hx hit
      rw [e1]
      simp only
      obtain ⟨d', w', f1, f2, f3, f4⟩ := ih (fun y hy => hq y (List.mem_cons_of_mem _ hy))
        data_ w1 a1.1 (by simpa using hlen) (fun y hy => hl y (List.mem_cons_of_mem _ hy))
      rw [f1]
      refine ⟨_, w', rfl, by simp [f2, e2], ?_, ?_⟩
      · intro y hy
        rcases List.mem_cons.mp hy with h | h
        · subst h; exact e3
        · exact f3 y h
      · exact animates_cast (animates_then a1 f4) (by simp; omega)

theorem strip_scatter (colors : List COLORREF) (hc : colors ≠ []) (mn : Int) (k : Nat)
    (dataQueue : List Strip) (hq : ∀ y ∈ dataQueue, y.m_notTemp = false)
    (hmn : ∀ y ∈ dataQueue, mn ≤ y.m_value) :
    ∀ (data_ : List Strip) (bucket : List (List Strip)) (p : List Int) (w : World), w.Runs →
      data_.length = dataQueue.length → (∀ x ∈ data_, x.m_notTemp = true) →
      bucket.map (List.map fun s => s.m_value) = radixBuckets (radixDigit mn k) p →
      (∀ l ∈ bucket, ∀ y ∈ l, y.m_notTemp = false) →
      ∃ b' d' w', RadixSortStrip.scatter colors mn ((16 : Int) ^ k) dataQueue data_ bucket w =
          (.ok b', d', w') ∧
        b'.map (List.map fun s => s.m_value) =
          radixBuckets (radixDigit mn k) (p ++ dataQueue.map fun s => s.m_value) ∧
        (∀ l ∈ b', ∀ y ∈ l, y.m_notTemp = false) ∧
        d'.map (fun s => s.m_value) = data_.map (fun s => s.m_value) ∧
        (∀ x ∈ d', x.m_notTemp = true) ∧
        World.Animates dataQueue.length w w' := by
  induction dataQueue with
  | nil =>
    intro data_ bucket p w hr hlen hl hb hnl
    exact ⟨bucket, data_, w, rfl, by simpa using hb, hnl, rfl, hl, animates_zero w hr⟩
  | cons front rest ih =>
    intro data_ bucket p w hr hlen hl hb hnl
    cases data_ with
    | nil => simp at hlen
    | cons x data_ =>
      have hf : front.m_notTemp = false := hq front (List.mem_cons_self _ _)
      have hfm : mn ≤ front.m_value := hmn front (List.mem_cons_self _ _)
      have hx : x.m_notTemp = true := hl x (List.mem_cons_self _ _)
      unfold RadixSortStrip.scatter
      have h16 : (16 : Int) ^ k ≠ 0 := by positivity
      rw [strip_toInt_temp front w hf]
      simp only [h16, if_false]
      obtain ⟨color, hcol⟩ := bucketColor_ok colors hc
        (((front.m_value - mn).tdiv ((16 : Int) ^ k)).tmod 16)
      rw [hcol]
      simp only
      obtain ⟨b1, e1, e2, e3⟩ := pushBackOn_values (fun s : Strip => s.m_value)
        (radixDigit mn k) bucket p (front.SetColor color) _ hb
        (radix_index mn front.m_value k hfm) (radixDigit_lt mn front.m_value k)
      rw [e1]
      simp only
      obtain ⟨w1, m1, a1⟩ := strip_mark_step x color w hr
      rw [m1]
      simp only
      obtain ⟨b', d', w', f1, f2, f3, f4, f5, f6⟩ :=
        ih (fun y hy => hq y (List.mem_cons_of_mem _ hy))
          (fun y hy => hmn y (List.mem_cons_of_mem _ hy)) data_ b1 (p ++ [front.m_value]) w1
          a1.1 (by simpa using hlen) (fun y hy => hl y (List.mem_cons_of_mem _ hy)) e2
          (e3 (fun y => y.m_notTemp = false) hnl hf)
      rw [f1]
      refine ⟨b', _, w', rfl, ?_, f3, ?_, ?_, ?_⟩
      · rw [f2]; simp [Strip.SetColor]
      · simp [f4, Strip.SetColor]
      · intro y hy
        rcases List.mem_cons.mp hy with h | h
        · subst h; exact hx
        · exact f5 y h
      · exact animates_cast (animates_then a1 f6) (by simp; omega)

theorem strip_passes (colors : List COLORREF) (hc : colors ≠ []) (mn : Int) (n : Nat)
    (c : Nat) :
    ∀ (k : Nat) (dataQueue data_ : List Strip) (w : World), w.Runs → k + c ≤ 8 →
      (∀ y ∈ dataQueue, y.m_notTemp = false) → (∀ y ∈ dataQueue, mn ≤ y.m_value) →
      dataQueue.length = n → data_.length = n → (∀ x ∈ data_, x.m_notTemp = true) →
      data_.map (fun s => s.m_value) = dataQueue.map (fun s => s.m_value) →
      ∃ d' w', RadixSortStrip.passes colors mn c ((16 : Int) ^ k) dataQueue
          (List.replicate 16 []) data_ w = (.ok (), d', w') ∧
        d'.map (fun s => s.m_value) = radixRounds mn c k (dataQueue.map fun s => s.m_value) ∧
        World.Animates (c * (2 * n)) w w' := by
  induction c with
  | zero =>
    intro k q d w hr hk hq hmn hqn hdn hl hv
    exact ⟨d, w, rfl, hv, animates_cast (animates_zero w hr) (by simp)⟩
  | succ c ih =>
    intro k q d w hr hk hq hmn hqn hdn hl hv
    unfold RadixSortStrip.passes
    obtain ⟨b1, d0, w0, e1, e2, e3, e4, e5, e6⟩ := strip_scatter colors hc mn k q hq hmn d
      (List.replicate 16 []) [] w hr (by rw [hdn, hqn]) hl (by rw [radixBuckets_nil]; simp) (by
        intro l hl' y hy
        rw [List.eq_of_mem_replicate hl'] at hy
        simp at hy)
    rw [e1]
    simp only [List.nil_append] at e2 ⊢
    have hb1 : b1.length = 16 := by
      have := congrArg List.length e2
      simpa [radixBuckets_length] using this
    rw [collectOn_spec [] b1 hb1]
    simp only [List.nil_append]
    have hq1v : b1.flatten.map (fun s : Strip => s.m_value) =
        radixRound mn k (q.map fun s => s.m_value) := by
      rw [values_flatten, e2]
      rfl
    have hq1perm : (b1.flatten.map (fun s : Strip => s.m_value)).Perm
        (q.map fun s => s.m_value) := by
      rw [hq1v]
      exact radixRound_perm _ (fun v => radixDigit_lt mn v k) _
    have hq1len : b1.flatten.length = n := by
      have := hq1perm.length_eq
      rw [List.length_map, List.length_map, hqn] at this
      exact this
    have hq1nl : ∀ y ∈ b1.flatten, y.m_notTemp = false := by
      intro y hy
      obtain ⟨l, hl1, hl2⟩ := List.mem_flatten.mp hy
      exact e3 l hl1 y hl2
    have hq1mn : ∀ y ∈ b1.flatten, mn ≤ y.m_value := by
      intro y hy
      have : y.m_value ∈ b1.flatten.map (fun s : Strip => s.m_value) :=
        List.mem_map_of_mem _ hy
      obtain ⟨z, hz1, hz2⟩ := List.mem_map.mp (hq1perm.mem_iff.mp this)
      rw [← hz2]
      exact hmn z hz1
    have hd0len : d0.length = n := by
      have := congrArg List.length e4
      rw [List.length_map, List.length_map, hdn] at this
      exact this
    obtain ⟨d1, w1, f1, f2, f3, f4⟩ := strip_copy b1.flatten hq1nl d0 w0 e6.1
      (by rw [hd0len, hq1len]) e5
    rw [f1]
    simp only
    have hpow : ∀ (q' : List Strip) (b' : List (List Strip)) (e' : List Strip) (u : World),
        RadixSortStrip.passes colors mn c (wrapInt ((16 : Int) ^ k * 16)) q' b' e' u =
          RadixSortStrip.passes colors mn c ((16 : Int) ^ (k + 1)) q' b' e' u := by
      intro q' b' e' u
      cases c with
      | zero => rfl
      | succ c' =>
        rw [← pow_succ, wrapInt_small _ (le_trans (by norm_num) (pow_nonneg (by norm_num) _))
          (pow16_small (k + 1) (by omega))]
    rw [hpow]
    obtain ⟨d', w', g1, g2, g3⟩ := ih (k + 1) b1.flatten d1 w1 f4.1 (by omega) hq1nl hq1mn
      hq1len (by
        have := congrArg List.length f2
        rw [List.length_map, List.length_map, hq1len] at this
        exact this) f3 f2
    refine ⟨d', w', g1, ?_, ?_⟩
    · rw [g2, hq1v]
      rfl
    · refine animates_cast (animates_then (animates_then e6 f4) g3) ?_
      rw [hqn, hq1len]
      ring

theorem RadixSortStrip_spec (colors : List COLORREF) (hc : colors ≠ []) (data_ : List Strip)
    (w : World) (hr : w.Runs) (hlen : 2 ≤ data_.length)
    (hl : ∀ x ∈ data_, x.m_notTemp = true)
    (hrange : ∀ a ∈ data_.map (fun s => s.m_value), ∀ b ∈ data_.map (fun s => s.m_value),
      a - b < 4294967296) :
    ∃ d' w', RadixSortStrip colors data_ w = (.ok (), d', w') ∧
      d'.map (fun s => s.m_value) = sortedCopy (data_.map fun s => s.m_value) ∧
      World.Animates (radixSteps (data_.map fun s => s.m_value)) w w' := by
  match data_, hlen, hl, hrange with
  | x :: y :: rest, _, hl, hrange =>
    have hx : x.m_notTemp = true := hl x (List.mem_cons_self _ _)
    obtain ⟨wa, ea, aa⟩ := strip_toInt_step x w hr hx
    obtain ⟨wb, eb, ab⟩ := strip_toInt_step x wa aa.1 hx
    obtain ⟨w1, s1, s2⟩ := strip_scan (y :: rest)
      (fun z hz => hl z (List.mem_cons_of_mem _ hz)) x.m_value x.m_value wb ab.1
    obtain ⟨hlow, hzero, hnz⟩ := radix_values x.m_value
      ((y :: rest).map fun (s : Strip) => s.m_value) hrange
    unfold RadixSortStrip radixSteps
    simp only [ea, eb, s1, List.map_cons]
    simp only [List.map_cons] at s2 hlow hzero hnz
    generalize radixScan (y.m_value :: rest.map fun s => s.m_value) x.m_value x.m_value = r
      at s2 hlow hzero hnz ⊢
    obtain ⟨mx, mn⟩ := r
    simp only at hlow hzero hnz ⊢
    by_cases hz : mx - mn = 0
    · rw [if_pos hz, if_pos hz]
      exact ⟨_, _, rfl, hzero hz, animates_cast (animates_then (animates_then aa ab) s2)
        (by omega)⟩
    · rw [if_neg hz, if_neg hz]
      obtain ⟨g, hg1, hg7, hdig, hsorted⟩ := hnz hz
      unfold RadixSortStrip.sort
      have hmnall : ∀ z ∈ x :: y :: rest, mn ≤ z.m_value := by
        intro z hz'
        exact hlow z.m_value (by
          have := List.mem_map_of_mem (fun s : Strip => s.m_value) hz'
          simpa using this)
      obtain ⟨b1, d0, w2, e1, e2, e3, e4, e5, e6⟩ := strip_first colors hc mn (x :: y :: rest)
        hl hmnall (List.replicate 16 []) [] w1 s2.1 (by rw [radixBuckets_nil]; simp) (by
          intro l hl' z hz'
          rw [List.eq_of_mem_replicate hl'] at hz'
          simp at hz')
      rw [e1]
      simp only [List.nil_append] at e2 ⊢
      have hb1 : b1.length = 16 := by
        have := congrArg List.length e2
        simpa [radixBuckets_length] using this
      rw [collectOn_spec [] b1 hb1]
      simp only [List.nil_append]
      have hq1v : b1.flatten.map (fun s : Strip => s.m_value) =
          radixRound mn 0 ((x :: y :: rest).map fun s => s.m_value) := by
        rw [values_flatten, e2]
        rfl
      have hq1perm : (b1.flatten.map (fun s : Strip => s.m_value)).Perm
          ((x :: y :: rest).map fun s => s.m_value) := by
        rw [hq1v]
        exact radixRound_perm _ (fun v => radixDigit_lt mn v 0) _
      have hq1len : b1.flatten.length = (x :: y :: rest).length := by
        have := hq1perm.length_eq
        rw [List.length_map, List.length_map] at this
        exact this
      have hq1nl : ∀ z ∈ b1.flatten, z.m_notTemp = false := by
        intro z hz'
        obtain ⟨l, hl1, hl2⟩ := List.mem_flatten.mp hz'
        exact e3 l hl1 z hl2
      have hq1mn : ∀ z ∈ b1.flatten, mn ≤ z.m_value := by
        intro z hz'
        have : z.m_value ∈ b1.flatten.map (fun s : Strip => s.m_value) :=
          List.mem_map_of_mem _ hz'
        obtain ⟨u, hu1, hu2⟩ := List.mem_map.mp (hq1perm.mem_iff.mp this)
        rw [← hu2]
        exact hmnall u hu1
      have hd0len : d0.length = (x :: y :: rest).length := by
        have := congrArg List.length e4
        rw [List.length_map, List.length_map] at this
        exact this
      obtain ⟨d1, w3, f1, f2, f3, f4⟩ := strip_copy b1.flatten hq1nl d0 w2 e6.1
        (by rw [hd0len, hq1len]) e5
      rw [f1]
      simp only
      have hd1len : d1.length = (x :: y :: rest).length := by
        have := congrArg List.length f2
        rw [List.length_map, List.length_map, hq1len] at this
        exact this
      obtain ⟨d', w', g1, g2, g3⟩ := strip_passes colors hc mn (x :: y :: rest).length (g - 1) 1
        b1.flatten d1 w3 f4.1 (by omega) hq1nl hq1mn hq1len hd1len f3 f2
      rw [pow_one] at g1
      have hgn : ((g : Int)).toNat - 1 = g - 1 := by simp
      simp only [hdig, hgn, g1]
      refine ⟨d', w', rfl, ?_, ?_⟩
      · rw [g2, hq1v]
        simpa using hsorted
      · refine animates_cast (animates_then (animates_then (animates_then (animates_then
          (animates_then aa ab) s2) e6) f4) g3) ?_
        rw [hq1len]
        simp only [List.length_cons, List.length_map]
        ring

theorem grows_self (w : World) : w.Grows w := ⟨le_refl _, rfl⟩

theorem grows_then {a b c : World} (h : a.Grows b) (h' : b.Grows c) : a.Grows c :=
  ⟨le_trans h.1 h'.1, h'.2.trans h.2⟩

theorem grows_draw1 (s : Strip) (c : COLORREF) (w : World) :
    w.Grows (Strip.DrawStrip1 s c w).2 := by
  have h := DrawStrip1_sameCounters s c w
  exact ⟨le_of_eq h.2.2.2.2.symm, h.1⟩

theorem grows_compareInt (cmp : CmpOp) (x : Strip) (v : Int) (w : World) :
    w.Grows (x.compareInt cmp v w).2 := by
  have h := grows_draw1 x StripCopyColor w
  unfold Strip.compareInt
  split
  · generalize Strip.DrawStrip1 x StripCopyColor w = r at h
    obtain ⟨r1, w1⟩ := r
    cases r1 with
    | error e => exact h
    | ok u => exact grows_then h ⟨Nat.le_succ _, rfl⟩
  · exact grows_self w

theorem grows_toInt (x : Strip) (w : World) : w.Grows (x.toInt w).2 := by
  have h := grows_draw1 x StripCopyColor w
  unfold Strip.toInt
  split
  · generalize Strip.DrawStrip1 x StripCopyColor w = r at h
    obtain ⟨r1, w1⟩ := r
    cases r1 with
    | error e => exact h
    | ok u => exact grows_then h ⟨Nat.le_succ _, rfl⟩
  · exact grows_self w

theorem grows_copy (x : Strip) (w : World) : w.Grows (Strip.copy x w).2 := by
  have h := grows_draw1 x StripCopyColor (Strip.AddNumCopy1_StripToInt w)
  unfold Strip.copy
  simp only
  split
  · generalize Strip.DrawStrip1 x StripCopyColor (Strip.AddNumCopy1_StripToInt w) = r at h
    obtain ⟨r1, w1⟩ := r
    have h0 : w.Grows (Strip.AddNumCopy1_StripToInt w) := ⟨Nat.le_succ _, rfl⟩
    cases r1 with
    | error e => exact grows_then h0 h
    | ok u => exact grows_then h0 h
  · exact grows_self w

theorem grows_mark (x : Strip) (color : COLORREF) (w : World) :
    w.Grows (RadixSortStrip.mark x color w).2.2 := by
  have h := grows_draw1 (x.SetColor color) StripCopyColor w
  unfold RadixSortStrip.mark
  generalize Strip.DrawStrip1 (x.SetColor color) StripCopyColor w = r at h
  obtain ⟨r1, w1⟩ := r
  cases r1 with
  | error e => exact h
  | ok u => exact grows_then h ⟨Nat.le_succ _, rfl⟩

theorem grows_draw2 (s : Strip) (c : COLORREF) (t : Strip) (c' : COLORREF) (w : World) :
    w.Grows (Strip.DrawStrip2 s c t c' w).2 := by
  have h := DrawStrip2_sameCounters s c t c' w
  exact ⟨le_of_eq h.2.2.2.2.symm, h.1⟩

theorem grows_copied (x it : Strip) (w : World) : w.Grows (Strip.copied x it w).2.2 := by
  unfold Strip.copied
  split
  · split
    · split
      · exact grows_self w
      · rename_i s1 _
        have h := grows_draw1 s1 StripChangeColor w
        generalize Strip.DrawStrip1 s1 StripChangeColor w = r at h
        obtain ⟨r1, w1⟩ := r
        cases r1 with
        | error e => exact h
        | ok u => exact grows_then h ⟨Nat.le_succ _, rfl⟩
    · have h := grows_draw1 it StripCopyColor w
      generalize Strip.DrawStrip1 it StripCopyColor w = r at h
      obtain ⟨r1, w1⟩ := r
      cases r1 with
      | error e => exact h
      | ok u => exact grows_then h ⟨Nat.le_succ _, rfl⟩
  · split
    · split
      · exact grows_self w
      · rename_i s1 _
        have h := grows_draw2 s1 StripChangeColor it StripCopyColor w
        generalize Strip.DrawStrip2 s1 StripChangeColor it StripCopyColor w = r at h
        obtain ⟨r1, w1⟩ := r
        cases r1 with
        | error e => exact h
        | ok u => exact grows_then h ⟨Nat.le_succ _, rfl⟩
    · exact grows_self w

theorem grows_copyValue (x it : Strip) (w : World) :
    w.Grows (x.CopyValueAndColor it w).2.2 := by
  unfold Strip.CopyValueAndColor
  exact grows_copied _ _ _

theorem grows_scan (rest : List Strip) :
    ∀ (maxValue minValue : Int) (w : World),
      w.Grows (RadixSortStrip.scan rest maxValue minValue w).2 := by
  induction rest with
  | nil => intro a b w; exact grows_self w
  | cons x rest ih =>
    intro a b w
    unfold RadixSortStrip.scan
    have h1 := grows_compareInt .gt x a w
    generalize x.compareInt .gt a w = r1 at h1
    obtain ⟨r1, w1⟩ := r1
    cases r1 with
    | error e => exact h1
    | ok t =>
      cases t with
      | true =>
        dsimp only at h1 ⊢
        have h2 := grows_toInt x w1
        generalize x.toInt w1 = r2 at h2
        obtain ⟨r2, w2⟩ := r2
        cases r2 with
        | error e => exact grows_then h1 h2
        | ok v => exact grows_then h1 (grows_then h2 (ih _ _ _))
      | false =>
        dsimp only at h1 ⊢
        have h2 := grows_compareInt .lt x b w1
        generalize x.compareInt .lt b w1 = r2 at h2
        obtain ⟨r2, w2⟩ := r2
        cases r2 with
        | error e => exact grows_then h1 h2
        | ok t =>
          cases t with
          | true =>
            dsimp only at h2 ⊢
            have h3 := grows_toInt x w2
            generalize x.toInt w2 = r3 at h3
            obtain ⟨r3, w3⟩ := r3
            cases r3 with
            | error e => exact grows_then h1 (grows_then h2 h3)
            | ok v => exact grows_then h1 (grows_then h2 (grows_then h3 (ih _ _ _)))
          | false => exact grows_then h1 (grows_then h2 (ih _ _ _))

theorem grows_first (colors : List COLORREF) (minValue : Int) (data_ : List Strip) :
    ∀ (bucket : List (List Strip)) (w : World),
      w.Grows (RadixSortStrip.first colors minValue data_ bucket w).2.2 := by
  induction data_ with
  | nil => intro b w; exact grows_self w
  | cons x rest ih =>
    intro b w
    unfold RadixSortStrip.first
    have h1 := grows_copy (Strip.ctor x.GetValue false w).1 w
    generalize Strip.copy (Strip.ctor x.GetValue false w).1 w = r1 at h1
    obtain ⟨r1, w1⟩ := r1
    cases r1 with
    | error e => exact h1
    | ok element =>
      simp only
      cases RadixSortStrip.bucketColor colors ((x.GetValue - minValue).tmod 16) with
      | error e => exact h1
      | ok color =>
        simp only
        cases RadixSort.pushBackOn b ((x.GetValue - minValue).tmod 16)
            (element.SetColor color) with
        | error e => exact h1
        | ok b' =>
          simp only
          have h2 := grows_mark x color w1
          generalize RadixSortStrip.mark x color w1 = r2 at h2
          obtain ⟨r2, x2, w2⟩ := r2
          cases r2 with
          | error e => exact grows_then h1 h2
          | ok u => exact grows_then h1 (grows_then h2 (ih _ _))

theorem grows_copyData (dataQueue : List Strip) :
    ∀ (data_ : List Strip) (w : World),
      w.Grows (RadixSortStrip.copyDataFromQueue dataQueue data_ w).2.2 := by
  induction dataQueue with
  | nil => intro d w; unfold RadixSortStrip.copyDataFromQueue; exact grows_self w
  | cons it q ih =>
    intro d w
    cases d with
    | nil => unfold RadixSortStrip.copyDataFromQueue; exact grows_self w
    | cons x d =>
      unfold RadixSortStrip.copyDataFromQueue
      have h1 := grows_copyValue x it w
      generalize x.CopyValueAndColor it w = r1 at h1
      obtain ⟨r1, x1, w1⟩ := r1
      cases r1 with
      | error e => exact h1
      | ok u => exact grows_then h1 (ih _ _)

theorem grows_scatter (colors : List COLORREF) (minValue divNum : Int)
    (dataQueue : List Strip) :
    ∀ (data_ : List Strip) (bucket : List (List Strip)) (w : World),
      w.Grows (RadixSortStrip.scatter colors minValue divNum dataQueue data_ bucket w).2.2 := by
  induction dataQueue with
  | nil => intro d b w; unfold RadixSortStrip.scatter; exact grows_self w
  | cons front q ih =>
    intro d b w
    unfold RadixSortStrip.scatter
    have h1 := grows_toInt front w
    generalize front.toInt w = r1 at h1
    obtain ⟨r1, w1⟩ := r1
    cases r1 with
    | error e => exact h1
    | ok value =>
      simp only
      split
      · exact h1
      · cases RadixSortStrip.bucketColor colors (((value - minValue).tdiv divNum).tmod 16) with
        | error e => exact h1
        | ok color =>
          simp only
          cases RadixSort.pushBackOn b (((value - minValue).tdiv divNum).tmod 16)
              (front.SetColor color) with
          | error e => exact h1
          | ok b' =>
            simp only
            cases d with
            | nil => exact h1
            | cons x d =>
              simp only
              have h2 := grows_mark x color w1
              generalize RadixSortStrip.mark x color w1 = r2 at h2
              obtain ⟨r2, x2, w2⟩ := r2
              cases r2 with
              | error e => exact grows_then h1 h2
              | ok u => exact grows_then h1 (grows_then h2 (ih _ _ _))

theorem grows_passes (colors : List COLORREF) (minValue : Int) (k : Nat) :
    ∀ (divNum : Int) (dataQueue : List Strip) (bucket : List (List Strip))
      (data_ : List Strip) (w : World),
      w.Grows (RadixSortStrip.passes colors minValue k divNum dataQueue bucket data_ w).2.2 := by
  induction k with
  | zero => intro dv q b d w; exact grows_self w
  | succ k ih =>
    intro dv q b d w
    unfold RadixSortStrip.passes
    have h1 := grows_scatter colors minValue dv q d b w
    generalize RadixSortStrip.scatter colors minValue dv q d b w = r1 at h1
    obtain ⟨r1, d1, w1⟩ := r1
    cases r1 with
    | error e => exact h1
    | ok b1 =>
      simp only
      cases RadixSort.collectOn 16 0 [] b1 with
      | error e => exact h1
      | ok qb =>
        obtain ⟨q2, b2⟩ := qb
        simp only
        have h2 := grows_copyData q2 d1 w1
        generalize RadixSortStrip.copyDataFromQueue q2 d1 w1 = r2 at h2
        obtain ⟨r2, d2, w2⟩ := r2
        cases r2 with
        | error e => exact grows_then h1 h2
        | ok u => exact grows_then h1 (grows_then h2 (ih _ _ _ _ _))

theorem grows_sort (colors : List COLORREF) (maxValue minValue : Int) (data_ : List Strip)
    (w : World) : w.Grows (RadixSortStrip.sort colors maxValue minValue data_ w).2.2 := by
  unfold RadixSortStrip.sort
  have h1 := grows_first colors minValue data_ (List.replicate 16 []) w
  generalize RadixSortStrip.first colors minValue data_ (List.replicate 16 []) w = r1 at h1
  obtain ⟨r1, d1, w1⟩ := r1
  cases r1 with
  | error e => exact h1
  | ok b1 =>
    simp only
    cases RadixSort.collectOn 16 0 [] b1 with
    | error e => exact h1
    | ok qb =>
      obtain ⟨q2, b2⟩ := qb
      simp only
      have h2 := grows_copyData q2 d1 w1
      generalize RadixSortStrip.copyDataFromQueue q2 d1 w1 = r2 at h2
      obtain ⟨r2, d2, w2⟩ := r2
      cases r2 with
      | error e => exact grows_then h1 h2
      | ok u =>
        simp only
        cases loop (RadixSort.digits 16) ((maxValue - minValue).toNat + 1)
            (maxValue - minValue, 0) with
        | error e => exact grows_then h1 h2
        | ok digit => exact grows_then h1 (grows_then h2 (grows_passes _ _ _ _ _ _ _ _))

/-- Whatever the data, the colours and the state of the globals, and however it
ends, a run of `RadixSort<Strip>` leaves `AnimationStepNum` at least where it was
and `ActualStepNum` unchanged. -/
theorem grows_RadixSortStrip (colors : List COLORREF) (data_ : List Strip) (w : World) :
    w.Grows (RadixSortStrip colors data_ w).2.2 := by
  unfold RadixSortStrip
  split
  · exact grows_self w
  · exact grows_self w
  · rename_i x rest _
    have h1 := grows_toInt x w
    generalize x.toInt w = r1 at h1
    obtain ⟨r1, w1⟩ := r1
    cases r1 with
    | error e => exact h1
    | ok a =>
      simp only
      have h2 := grows_toInt x w1
      generalize x.toInt w1 = r2 at h2
      obtain ⟨r2, w2⟩ := r2
      cases r2 with
      | error e => exact grows_then h1 h2
      | ok b =>
        simp only
        have h3 := grows_scan rest a b w2
        generalize RadixSortStrip.scan rest a b w2 = r3 at h3
        obtain ⟨r3, w3⟩ := r3
        cases r3 with
        | error e => exact grows_then h1 (grows_then h2 h3)
        | ok mm =>
          obtain ⟨mx, mn⟩ := mm
          simp only
          split
          · exact grows_then h1 (grows_then h2 h3)
          · exact grows_then h1 (grows_then h2 (grows_then h3 (grows_sort _ _ _ _ _)))

theorem radixScanSteps_le (rest : List Int) :
    ∀ (a b : Int), radixScanSteps rest a b ≤ 3 * rest.length := by
  induction rest with
  | nil => intro a b; simp [radixScanSteps]
  | cons x rest ih =>
    intro a b
    unfold radixScanSteps
    simp only [List.length_cons]
    split
    · have := ih x b
      omega
    · split
      · have := ih a x
        omega
      · have := ih a b
        omega

/-- The step count of `RadixSort` on at least two values, no two of them `2 ^ 32`
apart, is at least 2 and at most 19 per value and 2. -/
theorem radixSteps_bounds (values : List Int) (hlen : 2 ≤ values.length)
    (hrange : ∀ a ∈ values, ∀ b ∈ values, a - b < 4294967296) :
    2 ≤ radixSteps values ∧ radixSteps values ≤ 19 * values.length + 2 := by
  match values, hlen, hrange with
  | x :: y :: rest, _, hrange =>
    obtain ⟨_, _, hnz⟩ := radix_values x (y :: rest) hrange
    have hs := radixScanSteps_le (y :: rest) x x
    unfold radixSteps
    simp only
    by_cases hz : (radixScan (y :: rest) x x).1 - (radixScan (y :: rest) x x).2 = 0
    · rw [if_pos hz]
      simp only [List.length_cons] at hs ⊢
      omega
    · rw [if_neg hz]
      obtain ⟨g, hg1, hg7, hdig, _⟩ := hnz hz
      rw [hdig]
      simp only [Int.toNat_ofNat, List.length_cons] at hs ⊢
      have hm : (g - 1) * (2 * (rest.length + 1 + 1)) ≤ 7 * (2 * (rest.length + 1 + 1)) :=
        Nat.mul_le_mul_right _ (by omega)
      generalize (g - 1) * (2 * (rest.length + 1 + 1)) = P at hm ⊢
      constructor <;> linarith

/-- Without a wrap of the product, a larger `AnimationStepNum` over the same
`ActualStepNum` gives a percentage that is not smaller. -/
theorem progress_mono (self : VisualSort) (u u' : World) (p p' : Nat × Nat × Nat)
    (h : u.Grows u') (hsmall : u'.AnimationStepNum * 100 < 18446744073709551616)
    (hp : self.progress u = .ok p) (hp' : self.progress u' = .ok p') : p.2.1 ≤ p'.2.1 := by
  unfold VisualSort.progress at hp hp'
  obtain ⟨h1, h2⟩ := h
  split at hp
  · cases hp
  · split at hp'
    · cases hp'
    · have e := Except.ok.inj hp
      have e' := Except.ok.inj hp'
      rw [← e, ← e']
      simp only
      rw [Nat.mod_eq_of_lt hsmall, Nat.mod_eq_of_lt (by omega), h2]
      exact Nat.div_le_div_right (by omega)

/-- With `AnimationStepNum` equal to a nonzero `ActualStepNum` that is not huge, the
percentage is 100 and its decimal 0. -/
theorem progress_full (self : VisualSort) (u : World) (h : u.AnimationStepNum = u.ActualStepNum)
    (hpos : 0 < u.ActualStepNum) (hsmall : u.ActualStepNum * 1000 < 18446744073709551616) :
    self.progress u =
      .ok (u.AnimationStepNum * self.m_intSortDuration % 18446744073709551616 / u.ActualStepNum,
        100, 0) := by
  unfold VisualSort.progress
  rw [if_neg (by omega), h, Nat.mod_eq_of_lt (show u.ActualStepNum * 100 < _ by omega),
    Nat.mod_eq_of_lt hsmall, Nat.mul_div_cancel_left _ hpos, Nat.mul_div_cancel_left _ hpos]

/-! ## Fraction arithmetic, pacing, the pause clock and the order of the drawing calls -/

theorem tdiv_of_dvd (a g : Int) (hg : g ≠ 0) (h : g ∣ a) : a.tdiv g = a / g := by
  obtain ⟨k, rfl⟩ := h
  rw [Int.mul_tdiv_cancel_left _ hg, Int.mul_ediv_cancel_left _ hg]

theorem canonical_zero (f : Fraction) (h : f.Canonical) (h0 : f.m_numerator = 0) :
    f = ⟨0, 1⟩ := by
  obtain ⟨n, d⟩ := f
  obtain ⟨hd, hg⟩ := h
  simp only at h0 hd hg
  subst h0
  rw [Int.gcd_zero_left] at hg
  have : d = 1 := by omega
  rw [this]

theorem Reduce_canonical (f : Fraction) (hd : f.m_denominator ≠ 0) : f.Reduce.Canonical := by
  obtain ⟨n, d⟩ := f
  simp only at hd
  have key : ∀ n d : Int, n ≠ 0 → 0 < d →
      (if ((Int.gcd n d : Nat) : Int) ≠ 0 then
        (⟨n.tdiv (Int.gcd n d : Nat), d.tdiv (Int.gcd n d : Nat)⟩ : Fraction)
       else ⟨n, d⟩).Canonical := by
    intro n d hn hd
    have hgpos : 0 < Int.gcd n d := Int.gcd_pos_of_ne_zero_left _ hn
    have hg : ((Int.gcd n d : Nat) : Int) ≠ 0 := by exact_mod_cast hgpos.ne'
    rw [if_pos hg]
    rw [tdiv_of_dvd _ _ hg (Int.gcd_dvd_left), tdiv_of_dvd _ _ hg (Int.gcd_dvd_right)]
    refine ⟨?_, Int.gcd_div_gcd_div_gcd hgpos⟩
    simp only
    exact Int.ediv_pos_of_pos_of_dvd hd (by exact_mod_cast hgpos.le) Int.gcd_dvd_right
  unfold Fraction.Reduce
  simp only
  split
  · unfold Fraction.Canonical
    simp
  · rename_i hn
    split
    · rename_i hneg
      exact key (-n) (-d) (by omega) (by omega)
    · rename_i hneg
      exact key n d hn (by omega)

theorem Reduce_toRat (f : Fraction) (hd : f.m_denominator ≠ 0) : f.Reduce.toRat = f.toRat := by
  obtain ⟨n, d⟩ := f
  simp only at hd
  have key : ∀ n d : Int, n ≠ 0 → d ≠ 0 →
      (if ((Int.gcd n d : Nat) : Int) ≠ 0 then
        (⟨n.tdiv (Int.gcd n d : Nat), d.tdiv (Int.gcd n d : Nat)⟩ : Fraction)
       else ⟨n, d⟩).toRat = (n : ℚ) / d := by
    intro n d hn hd
    have hgpos : 0 < Int.gcd n d := Int.gcd_pos_of_ne_zero_left _ hn
    have hg : ((Int.gcd n d : Nat) : Int) ≠ 0 := by exact_mod_cast hgpos.ne'
    rw [if_pos hg]
    rw [tdiv_of_dvd _ _ hg (Int.gcd_dvd_left), tdiv_of_dvd _ _ hg (Int.gcd_dvd_right)]
    unfold Fraction.toRat
    simp only
    obtain ⟨a, ha⟩ := @Int.gcd_dvd_left n d
    obtain ⟨b, hb⟩ := @Int.gcd_dvd_right n d
    generalize ((Int.gcd n d : Nat) : Int) = G at hg ha hb ⊢
    subst ha hb
    rw [Int.mul_ediv_cancel_left _ hg, Int.mul_ediv_cancel_left _ hg]
    have hgq : (G : ℚ) ≠ 0 := by exact_mod_cast hg
    have hb0 : (b : ℚ) ≠ 0 := by
      intro h
      have : b = 0 := by exact_mod_cast h
      rw [this, mul_zero] at hd
      exact hd rfl
    push_cast
    field_simp
    ring
  unfold Fraction.Reduce
  simp only
  split
  · rename_i hn
    subst hn
    simp [Fraction.toRat]
  · rename_i hn
    split
    · rename_i hneg
      rw [key (-n) (-d) (by omega) (by omega)]
      unfold Fraction.toRat
      push_cast
      rw [neg_div_neg_eq]
    · rename_i hneg
      exact key n d hn hd

theorem canonical_unique (a b : Fraction) (ha : a.Canonical) (hb : b.Canonical)
    (h : a.toRat = b.toRat) : a = b := by
  obtain ⟨n1, d1⟩ := a
  obtain ⟨n2, d2⟩ := b
  obtain ⟨h1, g1⟩ := ha
  obtain ⟨h2, g2⟩ := hb
  simp only at h1 g1 h2 g2
  unfold Fraction.toRat at h
  simp only at h
  obtain ⟨e1, e2⟩ := Rat.div_int_inj h1 h2 g1 g2 h
  rw [e1, e2]

theorem Fraction_eq_iff (a b : Fraction) : a.eq b = true ↔ a = b := by
  obtain ⟨n1, d1⟩ := a
  obtain ⟨n2, d2⟩ := b
  simp [Fraction.eq]

theorem ofInt_toRat (n : Int) : (Fraction.ofInt n).toRat = n := by
  simp [Fraction.ofInt, Fraction.toRat]

theorem ofInt_canonical (n : Int) : (Fraction.ofInt n).Canonical := by
  simp [Fraction.ofInt, Fraction.Canonical]

theorem lcm_cast_ne (d1 d2 : Int) (h1 : d1 ≠ 0) (h2 : d2 ≠ 0) :
    ((Int.lcm d1 d2 : Nat) : Int) ≠ 0 := by
  have := Int.lcm_ne_zero h1 h2
  exact_mod_cast this

theorem addAssign_toRat (a b : Fraction) (ha : a.m_denominator ≠ 0) (hb : b.m_denominator ≠ 0) :
    (a.addAssign b).toRat = a.toRat + b.toRat := by
  obtain ⟨n1, d1⟩ := a
  obtain ⟨n2, d2⟩ := b
  simp only at ha hb
  have hL := lcm_cast_ne d1 d2 ha hb
  unfold Fraction.addAssign
  simp only
  rw [Reduce_toRat _ hL]
  unfold Fraction.toRat
  simp only
  obtain ⟨k1, e1⟩ := @Int.dvd_lcm_left d1 d2
  obtain ⟨k2, e2⟩ := @Int.dvd_lcm_right d1 d2
  rw [tdiv_of_dvd _ _ ha ⟨k1, e1⟩, tdiv_of_dvd _ _ hb ⟨k2, e2⟩]
  generalize ((Int.lcm d1 d2 : Nat) : Int) = L at hL e1 e2 ⊢
  have q1 : L / d1 = k1 := by rw [e1]; exact Int.mul_ediv_cancel_left _ ha
  have q2 : L / d2 = k2 := by rw [e2]; exact Int.mul_ediv_cancel_left _ hb
  rw [q1, q2]
  have hk1 : (k1 : ℚ) ≠ 0 := by
    intro h
    have : k1 = 0 := by exact_mod_cast h
    rw [this, mul_zero] at e1
    exact hL e1
  have hk2 : (k2 : ℚ) ≠ 0 := by
    intro h
    have : k2 = 0 := by exact_mod_cast h
    rw [this, mul_zero] at e2
    exact hL e2
  have hd1 : (d1 : ℚ) ≠ 0 := by exact_mod_cast ha
  have hd2 : (d2 : ℚ) ≠ 0 := by exact_mod_cast hb
  have c1 : (L : ℚ) = d1 * k1 := by exact_mod_cast e1
  have c2 : (L : ℚ) = d2 * k2 := by exact_mod_cast e2
  have hLq : (L : ℚ) ≠ 0 := by exact_mod_cast hL
  push_cast
  rw [add_div]
  congr 1
  · rw [c1]
    field_simp
    ring
  · rw [c2]
    field_simp
    ring

theorem subAssign_toRat (a b : Fraction) (ha : a.m_denominator ≠ 0) (hb : b.m_denominator ≠ 0) :
    (a.subAssign b).toRat = a.toRat - b.toRat := by
  obtain ⟨n1, d1⟩ := a
  obtain ⟨n2, d2⟩ := b
  simp only at ha hb
  have hL := lcm_cast_ne d1 d2 ha hb
  unfold Fraction.subAssign
  simp only
  rw [Reduce_toRat _ hL]
  unfold Fraction.toRat
  simp only
  obtain ⟨k1, e1⟩ := @Int.dvd_lcm_left d1 d2
  obtain ⟨k2, e2⟩ := @Int.dvd_lcm_right d1 d2
  rw [tdiv_of_dvd _ _ ha ⟨k1, e1⟩, tdiv_of_dvd _ _ hb ⟨k2, e2⟩]
  generalize ((Int.lcm d1 d2 : Nat) : Int) = L at hL e1 e2 ⊢
  have q1 : L / d1 = k1 := by rw [e1]; exact Int.mul_ediv_cancel_left _ ha
  have q2 : L / d2 = k2 := by rw [e2]; exact Int.mul_ediv_cancel_left _ hb
  rw [q1, q2]
  have hk1 : (k1 : ℚ) ≠ 0 := by
    intro h
    have : k1 = 0 := by exact_mod_cast h
    rw [this, mul_zero] at e1
    exact hL e1
  have hk2 : (k2 : ℚ) ≠ 0 := by
    intro h
    have : k2 = 0 := by exact_mod_cast h
    rw [this, mul_zero] at e2
    exact hL e2
  have hd1 : (d1 : ℚ) ≠ 0 := by exact_mod_cast ha
  have hd2 : (d2 : ℚ) ≠ 0 := by exact_mod_cast hb
  have c1 : (L : ℚ) = d1 * k1 := by exact_mod_cast e1
  have c2 : (L : ℚ) = d2 * k2 := by exact_mod_cast e2
  have hLq : (L : ℚ) ≠ 0 := by exact_mod_cast hL
  push_cast
  rw [sub_div]
  congr 1
  · rw [c1]
    field_simp
    ring
  · rw [c2]
    field_simp
    ring

theorem mulAssign_toRat (a b : Fraction) (ha : a.m_denominator ≠ 0) (hb : b.m_denominator ≠ 0) :
    (a.mulAssign b).toRat = a.toRat * b.toRat := by
  unfold Fraction.mulAssign
  rw [Reduce_toRat _ (mul_ne_zero ha hb)]
  unfold Fraction.toRat
  simp only
  push_cast
  rw [mul_div_mul_comm]

theorem divAssign_toRat (a b : Fraction) (ha : a.m_denominator ≠ 0) (hb : b.m_denominator ≠ 0)
    (hn : b.m_numerator ≠ 0) :
    ∃ q, a.divAssign b = .ok q ∧ q.m_denominator ≠ 0 ∧ q.Canonical ∧
      q.toRat = a.toRat / b.toRat := by
  unfold Fraction.divAssign
  rw [if_neg hn]
  have hd : ((⟨a.m_numerator * b.m_denominator, a.m_denominator * b.m_numerator⟩ :
      Fraction)).m_denominator ≠ 0 := mul_ne_zero ha hn
  refine ⟨_, rfl, (Reduce_canonical _ hd).1.ne', Reduce_canonical _ hd, ?_⟩
  rw [Reduce_toRat _ hd]
  unfold Fraction.toRat
  simp only
  push_cast
  have h1 : (a.m_denominator : ℚ) ≠ 0 := by exact_mod_cast ha
  have h2 : (b.m_denominator : ℚ) ≠ 0 := by exact_mod_cast hb
  have h3 : (b.m_numerator : ℚ) ≠ 0 := by exact_mod_cast hn
  field_simp

theorem floor_div_pos (n d : Int) (hd : 0 < d) : ⌊(n : ℚ) / d⌋ = n / d := by
  obtain ⟨k, rfl⟩ := Int.eq_ofNat_of_zero_le hd.le
  exact_mod_cast Rat.floor_intCast_div_natCast n k

theorem tdiv_truncRat (n d : Int) (hd : 0 < d) : n.tdiv d = truncRat ((n : ℚ) / d) := by
  unfold truncRat
  have hdq : (0 : ℚ) < d := by exact_mod_cast hd
  by_cases hn : 0 ≤ n
  · have : (0 : ℚ) ≤ (n : ℚ) / d := div_nonneg (by exact_mod_cast hn) hdq.le
    rw [if_pos this, Int.tdiv_eq_ediv hn hd.le]
    exact (floor_div_pos n d hd).symm
  · have hneg : (n : ℚ) / d < 0 := div_neg_of_neg_of_pos (by exact_mod_cast (not_le.mp hn)) hdq
    rw [if_neg (not_le.mpr hneg)]
    obtain ⟨m, rfl⟩ : ∃ m : Int, n = -m := ⟨-n, by ring⟩
    rw [Int.neg_tdiv, Int.tdiv_eq_ediv (by omega) hd.le]
    push_cast
    rw [neg_div, Int.ceil_neg]
    congr 1
    exact (floor_div_pos m d hd).symm

theorem geInt_iff (f : Fraction) (hd : 0 < f.m_denominator) (v : Int) :
    f.geInt v = true ↔ (v : ℚ) ≤ f.toRat := by
  unfold Fraction.geInt Fraction.toRat
  have hq : (0 : ℚ) < f.m_denominator := by exact_mod_cast hd
  rw [decide_eq_true_iff, le_div_iff₀ hq]
  constructor
  · intro h
    have : ((f.m_denominator * v : Int) : ℚ) ≤ (f.m_numerator : ℚ) := by exact_mod_cast h
    push_cast at this
    linarith
  · intro h
    have : ((f.m_denominator * v : Int) : ℚ) ≤ (f.m_numerator : ℚ) := by
      push_cast
      linarith
    exact_mod_cast this

/-- One call of the pacing function at the speed `s` from a state whose remainder
`accum` is not negative: the remainder and the new request add up to the old
remainder and `1 / s`. -/
theorem GetSleepFunc_step (s : Fraction) (st : SleepState) (hn : 0 < s.m_numerator)
    (hd : 0 < s.m_denominator) (had : 0 < st.accum.m_denominator)
    (h0 : 0 ≤ st.accum.toRat)
    (hl : st.lastSpeed = none ∨ st.lastSpeed = some s) :
    ∃ st', VisualSort.GetSleepFunc s st = (.ok (), st') ∧ st'.lastSpeed = some s ∧
      0 < st'.accum.m_denominator ∧ st'.accum.Canonical ∧
      0 ≤ st'.accum.toRat ∧ st'.accum.toRat < 1 ∧
      (∃ extra : List Int, st'.slept = st.slept ++ extra ∧ (∀ ms ∈ extra, 1 ≤ ms) ∧
        extra.length ≤ 1 ∧
        st'.accum.toRat + (extra.sum : ℚ) = st.accum.toRat + 1 / s.toRat) := by
  have hne : (st.lastSpeed.getD s).ne s = false := by
    rcases hl with h | h <;> rw [h] <;> simp [Fraction.ne, Fraction.eq]
  have hget : st.lastSpeed.getD s = s := by
    rcases hl with h | h <;> rw [h] <;> rfl
  have henter : VisualSort.GetSleepFunc.enter s st = { st with lastSpeed := some s } := by
    unfold VisualSort.GetSleepFunc.enter
    rw [hne, hget]
    rfl
  have hrec : s.Reciprocal = .ok (Fraction.Reduce ⟨s.m_denominator, s.m_numerator⟩) := by
    unfold Fraction.Reciprocal Fraction.ctor2
    rw [if_neg hn.ne']
  have hrc := Reduce_canonical ⟨s.m_denominator, s.m_numerator⟩ hn.ne'
  have hrt : (Fraction.Reduce ⟨s.m_denominator, s.m_numerator⟩).toRat = 1 / s.toRat := by
    rw [Reduce_toRat _ hn.ne']
    unfold Fraction.toRat
    simp only
    rw [one_div_div]
  generalize Fraction.Reduce ⟨s.m_denominator, s.m_numerator⟩ = r at hrec hrc hrt
  have hspos : 0 < s.toRat := by
    unfold Fraction.toRat
    exact div_pos (by exact_mod_cast hn) (by exact_mod_cast hd)
  have hac : (st.accum.addAssign r).Canonical := by
    unfold Fraction.addAssign
    exact Reduce_canonical _ (lcm_cast_ne _ _ had.ne' hrc.1.ne')
  have hat : (st.accum.addAssign r).toRat = st.accum.toRat + 1 / s.toRat := by
    rw [addAssign_toRat _ _ had.ne' hrc.1.ne', hrt]
  unfold VisualSort.GetSleepFunc
  rw [hrec, henter]
  simp only
  unfold VisualSort.GetSleepFunc.drain
  simp only
  generalize st.accum.addAssign r = acc at hac hat ⊢
  have hpos : 0 < acc.toRat := by
    rw [hat]
    have : 0 < 1 / s.toRat := one_div_pos.mpr hspos
    linarith
  by_cases hge : acc.geInt 1 = true
  · rw [if_pos hge]
    have hge' := (geInt_iff acc hac.1 1).mp hge
    have hms : acc.toLongLong = .ok ⌊acc.toRat⌋ := by
      unfold Fraction.toLongLong
      rw [if_neg hac.1.ne', tdiv_truncRat _ _ hac.1]
      have : truncRat ((acc.m_numerator : ℚ) / acc.m_denominator) = ⌊acc.toRat⌋ := by
        unfold truncRat
        exact if_pos hpos.le
      rw [this]
    rw [hms]
    simp only
    have hfl : 1 ≤ ⌊acc.toRat⌋ := by
      apply Int.le_floor.mpr
      exact_mod_cast hge'
    have hsc : (acc.subAssign (Fraction.ofInt ⌊acc.toRat⌋)).Canonical := by
      unfold Fraction.subAssign
      exact Reduce_canonical _ (lcm_cast_ne _ _ hac.1.ne' (by simp [Fraction.ofInt]))
    have hst : (acc.subAssign (Fraction.ofInt ⌊acc.toRat⌋)).toRat = acc.toRat - ⌊acc.toRat⌋ := by
      rw [subAssign_toRat _ _ hac.1.ne' (by simp [Fraction.ofInt]), ofInt_toRat]
    generalize acc.subAssign (Fraction.ofInt ⌊acc.toRat⌋) = acc2 at hsc hst
    have hlo : 0 ≤ acc2.toRat := by
      rw [hst]
      exact sub_nonneg.mpr (Int.floor_le _)
    have hhi : acc2.toRat < 1 := by
      rw [hst]
      have := Int.lt_floor_add_one acc.toRat
      linarith
    have hnot : acc2.geInt 1 = false := by
      rw [Bool.eq_false_iff]
      intro h
      have := (geInt_iff acc2 hsc.1 1).mp h
      push_cast at this
      linarith
    unfold VisualSort.GetSleepFunc.drain
    simp only [hnot]
    refine ⟨_, rfl, rfl, hsc.1, hsc, hlo, hhi, [⌊acc.toRat⌋], rfl, ?_, by simp, ?_⟩
    · intro ms hm
      simp only [List.mem_singleton] at hm
      rw [hm]
      exact hfl
    · simp only [List.sum_cons, List.sum_nil, add_zero]
      rw [hst, ← hat]
      ring
  · rw [if_neg hge]
    have hlt : acc.toRat < 1 := by
      by_contra hcon
      apply hge
      apply (geInt_iff acc hac.1 1).mpr
      push_cast
      linarith
    refine ⟨_, rfl, rfl, hac.1, hac, hpos.le, hlt, [], by simp, by simp, by simp, ?_⟩
    simp only [List.sum_nil, Int.cast_zero, add_zero]
    exact hat

/-- The invariant of repeated calls at one speed. -/
theorem GetSleepFunc_calls_spec (s : Fraction) (hn : 0 < s.m_numerator) (hd : 0 < s.m_denominator)
    (k : Nat) :
    ∀ st : SleepState, 0 < st.accum.m_denominator → 0 ≤ st.accum.toRat → st.accum.toRat < 1 →
      (st.lastSpeed = none ∨ st.lastSpeed = some s) →
      ∃ st', VisualSort.GetSleepFunc.calls (List.replicate k s) st = (.ok (), st') ∧
        (st'.lastSpeed = none ∨ st'.lastSpeed = some s) ∧
        0 < st'.accum.m_denominator ∧ 0 ≤ st'.accum.toRat ∧ st'.accum.toRat < 1 ∧
        ∃ extra : List Int, st'.slept = st.slept ++ extra ∧ (∀ ms ∈ extra, 1 ≤ ms) ∧
          extra.length ≤ k ∧
          st'.accum.toRat + (extra.sum : ℚ) = st.accum.toRat + k / s.toRat := by
  induction k with
  | zero =>
    intro st had h0 h1 hl
    exact ⟨st, rfl, hl, had, h0, h1, [], by simp, by simp, by simp, by simp⟩
  | succ k ih =>
    intro st had h0 h1 hl
    obtain ⟨st1, e1, l1, d1, _, lo1, hi1, x1, s1, p1, n1, t1⟩ :=
      GetSleepFunc_step s st hn hd had h0 hl
    obtain ⟨st2, e2, l2, d2, lo2, hi2, x2, s2, p2, n2, t2⟩ := ih st1 d1 lo1 hi1 (Or.inr l1)
    refine ⟨st2, ?_, l2, d2, lo2, hi2, x1 ++ x2, ?_, ?_, ?_, ?_⟩
    · rw [List.replicate_succ]
      unfold VisualSort.GetSleepFunc.calls
      rw [e1]
      exact e2
    · rw [s2, s1, List.append_assoc]
    · intro ms hm
      rcases List.mem_append.mp hm with h | h
      · exact p1 ms h
      · exact p2 ms h
    · rw [List.length_append]
      omega
    · rw [List.sum_append, Int.cast_add]
      have e5 : ((k + 1 : Nat) : ℚ) / s.toRat = k / s.toRat + 1 / s.toRat := by
        push_cast
        ring
      rw [e5]
      linarith

theorem sleep10_stopTime (w : World) :
    w.sleep10.s_stripSortStopTime = w.s_stripSortStopTime ∧ w.sleep10.clock = w.clock + 10 := by
  unfold World.sleep10
  split <;> exact ⟨rfl, rfl⟩

theorem waitWorker_stopTime (n : Nat) (w : World) :
    (Strip.StopSort.waitWorker n w).2.s_stripSortStopTime = w.s_stripSortStopTime := by
  induction n generalizing w with
  | zero => unfold Strip.StopSort.waitWorker; split <;> rfl
  | succ n ih =>
    unfold Strip.StopSort.waitWorker
    split
    · rw [ih, (sleep10_stopTime w).1]
    · rfl

/-- The polling loop on the main thread leaves `s_stripSortStopTime` alone and the
clock does not go back; when it returns, either nothing happened and the pause
flag was clear at the first test, or the flag was set at the first test, at
least one sleep of 10 ms was made and `stopBeginTime` has a value. -/
theorem waitMain_stopTime (n : Nat) (began : Bool) (w : World) :
    (Strip.StopSort.waitMain n began w).2.s_stripSortStopTime = w.s_stripSortStopTime ∧
    w.clock ≤ (Strip.StopSort.waitMain n began w).2.clock ∧
    ∀ b, (Strip.StopSort.waitMain n began w).1 = .ok b →
      (b = began ∧ (Strip.StopSort.waitMain n began w).2 = w ∧ w.s_stopStripSort = false) ∨
      (b = true ∧ w.s_stopStripSort = true ∧
        w.clock + 10 ≤ (Strip.StopSort.waitMain n began w).2.clock) := by
  induction n generalizing w began with
  | zero =>
    unfold Strip.StopSort.waitMain
    split
    · split <;> exact ⟨rfl, le_refl _, fun b hb => by cases hb⟩
    · rename_i hs
      exact ⟨rfl, le_refl _, fun b hb =>
        Or.inl ⟨(Except.ok.inj hb).symm, rfl, Bool.eq_false_iff.mpr hs⟩⟩
  | succ n ih =>
    unfold Strip.StopSort.waitMain
    split
    · rename_i hs
      split
      · exact ⟨rfl, le_refl _, fun b hb => by cases hb⟩
      · obtain ⟨h1, h2, h3⟩ := ih true w.sleep10
        obtain ⟨s1, s2⟩ := sleep10_stopTime w
        refine ⟨h1.trans s1, by omega, fun b hb => Or.inr ?_⟩
        rcases h3 b hb with ⟨e1, _, _⟩ | ⟨e1, _, _⟩
        · exact ⟨e1, hs, by omega⟩
        · exact ⟨e1, hs, by omega⟩
    · rename_i hs
      exact ⟨rfl, le_refl _, fun b hb =>
        Or.inl ⟨(Except.ok.inj hb).symm, rfl, Bool.eq_false_iff.mpr hs⟩⟩

/-- What `StopSort` does to `s_stripSortStopTime` on the main thread: nothing, or,
when the pause flag was set at the first test and the loop was left, it adds
the time that went by since the call began, at least 10 ms. -/
theorem StopSort_stopTime_main (w : World) (hm : w.thisThread = w.s_mainThreadId) :
    (Strip.StopSort w).2.s_stripSortStopTime = w.s_stripSortStopTime ∨
    (w.s_stopStripSort = true ∧ w.clock + 10 ≤ (Strip.StopSort w).2.clock ∧
      (Strip.StopSort w).2.s_stripSortStopTime =
        w.s_stripSortStopTime + ((Strip.StopSort w).2.clock - w.clock)) := by
  obtain ⟨h1, h2, h3⟩ := waitMain_stopTime w.uiSchedule.length false w
  unfold Strip.StopSort
  rw [if_neg (not_not.mpr hm)]
  simp only
  generalize Strip.StopSort.waitMain w.uiSchedule.length false w = r at h1 h2 h3
  obtain ⟨r1, w1⟩ := r
  simp only at h1 h2 h3
  cases r1 with
  | error e => exact Or.inl h1
  | ok began =>
    simp only
    rcases h3 began rfl with ⟨e1, _, _⟩ | ⟨e1, e2, e3⟩
    · subst e1
      simp only [Bool.false_eq_true, if_false]
      split <;> exact Or.inl h1
    · subst e1
      simp only [if_true]
      split
      · exact Or.inr ⟨e2, e3, by rw [h1]⟩
      · exact Or.inr ⟨e2, e3, by rw [h1]⟩

theorem StopSort_stopTime_ok (w : World) (hm : w.thisThread = w.s_mainThreadId)
    (hs : w.s_stopStripSort = true) (hok : (Strip.StopSort w).1 = .ok ()) :
    w.clock + 10 ≤ (Strip.StopSort w).2.clock ∧
      (Strip.StopSort w).2.s_stripSortStopTime =
        w.s_stripSortStopTime + ((Strip.StopSort w).2.clock - w.clock) := by
  obtain ⟨h1, h2, h3⟩ := waitMain_stopTime w.uiSchedule.length false w
  unfold Strip.StopSort at hok ⊢
  rw [if_neg (not_not.mpr hm)] at hok ⊢
  simp only at hok ⊢
  generalize Strip.StopSort.waitMain w.uiSchedule.length false w = r at h1 h2 h3 hok
  obtain ⟨r1, w1⟩ := r
  simp only at h1 h2 h3
  cases r1 with
  | error e => simp at hok
  | ok began =>
    simp only at hok ⊢
    rcases h3 began rfl with ⟨_, _, e3⟩ | ⟨e1, e2, e3⟩
    · rw [hs] at e3
      cases e3
    · subst e1
      simp only [if_true] at hok ⊢
      split
      · exact ⟨e3, by rw [h1]⟩
      · exact ⟨e3, by rw [h1]⟩

theorem emit_log (w : World) (e : Event) : (w.emit e).events = w.events ++ [e] := rfl

theorem emit_height (w : World) (e : Event) : (w.emit e).m_height = w.m_height := rfl

theorem emit_last (w : World) (e : Event) :
    (w.emit e).st_lastOperationNum = w.st_lastOperationNum ∧
    (w.emit e).st_lastInterval1 = w.st_lastInterval1 ∧
    (w.emit e).st_lastInterval2 = w.st_lastInterval2 := ⟨rfl, rfl, rfl⟩

theorem sleep10_log (w : World) :
    w.sleep10.events = w.events ∧ w.sleep10.m_height = w.m_height := by
  unfold World.sleep10
  split <;> exact ⟨rfl, rfl⟩

theorem waitWorker_log (n : Nat) (w : World) :
    (Strip.StopSort.waitWorker n w).2.events = w.events ∧
    (Strip.StopSort.waitWorker n w).2.m_height = w.m_height := by
  induction n generalizing w with
  | zero => unfold Strip.StopSort.waitWorker; split <;> exact ⟨rfl, rfl⟩
  | succ n ih =>
    unfold Strip.StopSort.waitWorker
    split
    · exact ⟨(ih w.sleep10).1.trans (sleep10_log w).1, (ih w.sleep10).2.trans (sleep10_log w).2⟩
    · exact ⟨rfl, rfl⟩

theorem waitMain_log (n : Nat) (began : Bool) (w : World) :
    (Strip.StopSort.waitMain n began w).2.events = w.events ∧
    (Strip.StopSort.waitMain n began w).2.m_height = w.m_height := by
  induction n generalizing w began with
  | zero =>
    unfold Strip.StopSort.waitMain
    split
    · split <;> exact ⟨rfl, rfl⟩
    · exact ⟨rfl, rfl⟩
  | succ n ih =>
    unfold Strip.StopSort.waitMain
    split
    · split
      · exact ⟨rfl, rfl⟩
      · exact ⟨(ih true w.sleep10).1.trans (sleep10_log w).1,
          (ih true w.sleep10).2.trans (sleep10_log w).2⟩
    · exact ⟨rfl, rfl⟩

/-- The polling of `StopSort` makes no call to the drawing backend or to the callbacks
and leaves the height of the canvas alone. -/
theorem StopSort_log (w : World) :
    (Strip.StopSort w).2.events = w.events ∧ (Strip.StopSort w).2.m_height = w.m_height := by
  unfold Strip.StopSort
  split
  · exact waitWorker_log _ w
  · have h := waitMain_log w.uiSchedule.length false w
    simp only
    generalize Strip.StopSort.waitMain w.uiSchedule.length false w = r at h
    obtain ⟨r1, w1⟩ := r
    simp only at h
    cases r1 with
    | error e => exact h
    | ok began =>
      simp only
      cases began
      · simp only [Bool.false_eq_true, if_false]
        split <;> exact h
      · simp only [if_true]
        split <;> exact h

theorem drawRemaining_log (w : World) :
    (Strip.DrawRemainingStrip w).events = w.events ++ Strip.DrawRemainingStrip.flushes w ∧
    (Strip.DrawRemainingStrip w).m_height = w.m_height := by
  unfold Strip.DrawRemainingStrip Strip.DrawRemainingStrip.flushes
  simp only
  split
  · exact ⟨rfl, rfl⟩
  · split
    · refine ⟨?_, rfl⟩
      simp [World.emit]
    · exact ⟨by simp, rfl⟩

theorem flushes_congr (w w' : World) (h1 : w'.m_height = w.m_height)
    (h2 : w'.st_lastOperationNum = w.st_lastOperationNum)
    (h3 : w'.st_lastInterval1 = w.st_lastInterval1)
    (h4 : w'.st_lastInterval2 = w.st_lastInterval2) :
    Strip.DrawRemainingStrip.flushes w' = Strip.DrawRemainingStrip.flushes w := by
  unfold Strip.DrawRemainingStrip.flushes Strip.maxTopInt Strip.StripMaxTop World.heightInt
    World.GetHeight
  rw [h1, h2, h3, h4]

theorem highlight1_log (s : Strip) (c : COLORREF) (w : World) :
    (Strip.DrawStrip1.highlight s c w).events = w.events ++ Strip.DrawStrip1.before s c w ∧
    (Strip.DrawStrip1.highlight s c w).m_height = w.m_height := by
  have hreg : ∀ w0 : World,
      (if w0.st_temp1 then w0 else { Strip.RegisterCurrentThread w0 with st_temp1 := true }).events =
        w0.events ∧
      (if w0.st_temp1 then w0 else { Strip.RegisterCurrentThread w0 with st_temp1 := true }).m_height =
        w0.m_height ∧
      (if w0.st_temp1 then w0
        else { Strip.RegisterCurrentThread w0 with st_temp1 := true }).st_lastOperationNum =
        w0.st_lastOperationNum ∧
      (if w0.st_temp1 then w0
        else { Strip.RegisterCurrentThread w0 with st_temp1 := true }).st_lastInterval1 =
        w0.st_lastInterval1 ∧
      (if w0.st_temp1 then w0
        else { Strip.RegisterCurrentThread w0 with st_temp1 := true }).st_lastInterval2 =
        w0.st_lastInterval2 := by
    intro w0
    unfold Strip.RegisterCurrentThread
    simp only
    split
    · exact ⟨rfl, rfl, rfl, rfl, rfl⟩
    · split <;> exact ⟨rfl, rfl, rfl, rfl, rfl⟩
  obtain ⟨r1, r2, r3, r4, r5⟩ := hreg w
  unfold Strip.DrawStrip1.highlight Strip.DrawStrip1.before
  simp only
  generalize (if w.st_temp1 then w else { Strip.RegisterCurrentThread w with st_temp1 := true }) =
    w0 at r1 r2 r3 r4 r5
  have hd := drawRemaining_log ((((w0.emit
    (.ClearRectangle s.m_left (Strip.maxTopInt w) s.m_right w.heightInt)).emit
    (.drawFunc ⟨s.m_left, s.m_top, s.m_right, w.heightInt⟩ c)).emit
    (.FlushBatchDraw s.m_left (Strip.maxTopInt w) s.m_right w.heightInt)).emit .updateMessageFunc)
  have hf := flushes_congr w ((((w0.emit
    (.ClearRectangle s.m_left (Strip.maxTopInt w) s.m_right w.heightInt)).emit
    (.drawFunc ⟨s.m_left, s.m_top, s.m_right, w.heightInt⟩ c)).emit
    (.FlushBatchDraw s.m_left (Strip.maxTopInt w) s.m_right w.heightInt)).emit .updateMessageFunc)
    (by rw [emit_height, emit_height, emit_height, emit_height, r2])
    (by rw [(emit_last _ _).1, (emit_last _ _).1, (emit_last _ _).1, (emit_last _ _).1, r3])
    (by rw [(emit_last _ _).2.1, (emit_last _ _).2.1, (emit_last _ _).2.1, (emit_last _ _).2.1,
      r4])
    (by rw [(emit_last _ _).2.2, (emit_last _ _).2.2, (emit_last _ _).2.2, (emit_last _ _).2.2,
      r5])
  rw [hf] at hd
  constructor
  · rw [emit_log, hd.1, emit_log, emit_log, emit_log, emit_log, r1]
    simp only [List.append_assoc, List.cons_append, List.nil_append]
  · rw [emit_height, hd.2, emit_height, emit_height, emit_height, emit_height, r2]

theorem register_log (w0 : World) (t : Bool) :
    ({ Strip.RegisterCurrentThread w0 with st_temp2 := t }).events = w0.events ∧
    ({ Strip.RegisterCurrentThread w0 with st_temp2 := t }).m_height = w0.m_height ∧
    ({ Strip.RegisterCurrentThread w0 with st_temp2 := t }).st_lastOperationNum =
      w0.st_lastOperationNum ∧
    ({ Strip.RegisterCurrentThread w0 with st_temp2 := t }).st_lastInterval1 =
      w0.st_lastInterval1 ∧
    ({ Strip.RegisterCurrentThread w0 with st_temp2 := t }).st_lastInterval2 =
      w0.st_lastInterval2 := by
  unfold Strip.RegisterCurrentThread
  simp only
  split <;> exact ⟨rfl, rfl, rfl, rfl, rfl⟩

theorem highlight2_log (s : Strip) (c : COLORREF) (t : Strip) (c' : COLORREF) (w : World) :
    (Strip.DrawStrip2.highlight s c t c' w).events =
      w.events ++ Strip.DrawStrip2.before s c t c' w ∧
    (Strip.DrawStrip2.highlight s c t c' w).m_height = w.m_height := by
  have hreg : ∀ w0 : World,
      (if w0.st_temp2 then w0 else { Strip.RegisterCurrentThread w0 with st_temp2 := true }).events =
        w0.events ∧
      (if w0.st_temp2 then w0 else { Strip.RegisterCurrentThread w0 with st_temp2 := true }).m_height =
        w0.m_height ∧
      (if w0.st_temp2 then w0
        else { Strip.RegisterCurrentThread w0 with st_temp2 := true }).st_lastOperationNum =
        w0.st_lastOperationNum ∧
      (if w0.st_temp2 then w0
        else { Strip.RegisterCurrentThread w0 with st_temp2 := true }).st_lastInterval1 =
        w0.st_lastInterval1 ∧
      (if w0.st_temp2 then w0
        else { Strip.RegisterCurrentThread w0 with st_temp2 := true }).st_lastInterval2 =
        w0.st_lastInterval2 := by
    intro w0
    split
    · exact ⟨rfl, rfl, rfl, rfl, rfl⟩
    · exact register_log w0 true
  obtain ⟨r1, r2, r3, r4, r5⟩ := hreg w
  unfold Strip.DrawStrip2.highlight Strip.DrawStrip2.before
  simp only
  generalize (if w.st_temp2 then w else { Strip.RegisterCurrentThread w with st_temp2 := true }) =
    w0 at r1 r2 r3 r4 r5
  have hd := drawRemaining_log (((((((w0.emit
    (.ClearRectangle s.m_left (Strip.maxTopInt w) s.m_right w.heightInt)).emit
    (.ClearRectangle t.m_left (Strip.maxTopInt w) t.m_right w.heightInt)).emit
    (.drawFunc ⟨s.m_left, s.m_top, s.m_right, w.heightInt⟩ c)).emit
    (.drawFunc ⟨t.m_left, t.m_top, t.m_right, w.heightInt⟩ c')).emit
    (.FlushBatchDraw s.m_left (Strip.maxTopInt w) s.m_right w.heightInt)).emit
    (.FlushBatchDraw t.m_left (Strip.maxTopInt w) t.m_right w.heightInt)).emit .updateMessageFunc)
  have hf := flushes_congr w (((((((w0.emit
    (.ClearRectangle s.m_left (Strip.maxTopInt w) s.m_right w.heightInt)).emit
    (.ClearRectangle t.m_left (Strip.maxTopInt w) t.m_right w.heightInt)).emit
    (.drawFunc ⟨s.m_left, s.m_top, s.m_right, w.heightInt⟩ c)).emit
    (.drawFunc ⟨t.m_left, t.m_top, t.m_right, w.heightInt⟩ c')).emit
    (.FlushBatchDraw s.m_left (Strip.maxTopInt w) s.m_right w.heightInt)).emit
    (.FlushBatchDraw t.m_left (Strip.maxTopInt w) t.m_right w.heightInt)).emit .updateMessageFunc)
    (by simp only [emit_height, r2])
    (by simp only [(emit_last _ _).1, r3])
    (by simp only [(emit_last _ _).2.1, r4])
    (by simp only [(emit_last _ _).2.2, r5])
  rw [hf] at hd
  constructor
  · rw [emit_log, hd.1]
    simp only [emit_log, r1, List.append_assoc, List.cons_append, List.nil_append]
  · rw [emit_height, hd.2]
    simp only [emit_height, r2]

theorem restore1_log (s : Strip) (w : World) :
    (Strip.DrawStrip1.restore s w).events =
      w.events ++ [.drawFunc ⟨s.m_left, s.m_top, s.m_right, w.heightInt⟩ s.m_color] := rfl

theorem restore2_log (s t : Strip) (w : World) :
    (Strip.DrawStrip2.restore s t w).events =
      w.events ++ [.drawFunc ⟨s.m_left, s.m_top, s.m_right, w.heightInt⟩ s.m_color,
        .drawFunc ⟨t.m_left, t.m_top, t.m_right, w.heightInt⟩ t.m_color] := by
  unfold Strip.DrawStrip2.restore
  simp only [emit_log, List.append_assoc, List.cons_append, List.nil_append]

theorem heightInt_congr (w w' : World) (h : w'.m_height = w.m_height) :
    w'.heightInt = w.heightInt := by
  unfold World.heightInt
  rw [h]

/-- The calls that a call of `DrawStrip1` adds to the log: those made before `StopSort`
and, when `StopSort` returns, the drawing of the strip in its own colour. -/
theorem DrawStrip1_log (s : Strip) (c : COLORREF) (w : World) :
    ((Strip.DrawStrip1 s c w).1 = (Strip.StopSort (Strip.DrawStrip1.highlight s c w)).1) ∧
    ((Strip.DrawStrip1 s c w).1 = .ok () →
      (Strip.DrawStrip1 s c w).2.events = w.events ++ Strip.DrawStrip1.before s c w ++
        [.drawFunc ⟨s.m_left, s.m_top, s.m_right, w.heightInt⟩ s.m_color]) ∧
    ((Strip.DrawStrip1 s c w).1 ≠ .ok () →
      (Strip.DrawStrip1 s c w).2.events = w.events ++ Strip.DrawStrip1.before s c w) := by
  obtain ⟨h1, h2⟩ := highlight1_log s c w
  obtain ⟨h3, h4⟩ := StopSort_log (Strip.DrawStrip1.highlight s c w)
  unfold Strip.DrawStrip1
  generalize Strip.StopSort (Strip.DrawStrip1.highlight s c w) = r at h3 h4
  obtain ⟨r1, w1⟩ := r
  simp only at h3 h4
  cases r1 with
  | error e =>
    refine ⟨rfl, (fun h => by simp at h), fun _ => ?_⟩
    exact h3.trans h1
  | ok u =>
    refine ⟨rfl, fun _ => ?_, fun h => absurd rfl h⟩
    simp only
    rw [restore1_log, h3, h1, heightInt_congr w w1 (h4.trans h2)]

theorem DrawStrip2_log (s : Strip) (c : COLORREF) (t : Strip) (c' : COLORREF) (w : World) :
    ((Strip.DrawStrip2 s c t c' w).1 =
      (Strip.StopSort (Strip.DrawStrip2.highlight s c t c' w)).1) ∧
    ((Strip.DrawStrip2 s c t c' w).1 = .ok () →
      (Strip.DrawStrip2 s c t c' w).2.events = w.events ++ Strip.DrawStrip2.before s c t c' w ++
        [.drawFunc ⟨s.m_left, s.m_top, s.m_right, w.heightInt⟩ s.m_color,
          .drawFunc ⟨t.m_left, t.m_top, t.m_right, w.heightInt⟩ t.m_color]) ∧
    ((Strip.DrawStrip2 s c t c' w).1 ≠ .ok () →
      (Strip.DrawStrip2 s c t c' w).2.events = w.events ++ Strip.DrawStrip2.before s c t c' w) := by
  obtain ⟨h1, h2⟩ := highlight2_log s c t c' w
  obtain ⟨h3, h4⟩ := StopSort_log (Strip.DrawStrip2.highlight s c t c' w)
  unfold Strip.DrawStrip2
  generalize Strip.StopSort (Strip.DrawStrip2.highlight s c t c' w) = r at h3 h4
  obtain ⟨r1, w1⟩ := r
  simp only at h3 h4
  cases r1 with
  | error e =>
    refine ⟨rfl, (fun h => by simp at h), fun _ => ?_⟩
    exact h3.trans h1
  | ok u =>
    refine ⟨rfl, fun _ => ?_, fun h => absurd rfl h⟩
    simp only
    rw [restore2_log, h3, h1, heightInt_congr w w1 (h4.trans h2)]

/-! ## Step counts of the operators, rescaling, telemetry, the indices of `HeapSort` and small samples -/

theorem draw2_step (s : Strip) (c : COLORREF) (t : Strip) (c' : COLORREF) (w : World)
    (hr : w.Runs) :
    ∃ w', Strip.DrawStrip2 s c t c' w = (.ok (), w') ∧ World.Animates 0 w w' := by
  obtain ⟨w', h, hr'⟩ := DrawStrip2_runs s c t c' w hr
  have hs := DrawStrip2_sameCounters s c t c' w
  rw [h] at hs
  exact ⟨w', h, hr', hs.2.2.2.2, hs.1⟩

theorem copy_anim (s : Strip) (w : World) (hr : w.Runs) :
    (Strip.copy s w).2.AnimationStepNum =
      w.AnimationStepNum + (if s.m_notTemp = true then 1 else 0) := by
  have hr1 : (Strip.AddNumCopy1_StripToInt w).Runs := later_runs ⟨id, id, rfl⟩ hr
  obtain ⟨w1, h1, _, a1, _⟩ := draw1_step s StripCopyColor _ hr1
  unfold Strip.copy
  cases hs : s.m_notTemp
  · simp
  · simp only [if_true, h1, a1]
    rfl

theorem compareInt_anim (cmp : CmpOp) (s : Strip) (v : Int) (w : World) (hr : w.Runs) :
    (s.compareInt cmp v w).2.AnimationStepNum =
      w.AnimationStepNum + (if s.m_notTemp = true then 1 else 0) := by
  obtain ⟨w1, h1, _, a1, _⟩ := draw1_step s StripCopyColor w hr
  unfold Strip.compareInt
  cases hs : s.m_notTemp
  · simp
  · simp only [if_true, h1]
    show w1.AnimationStepNum + 1 = _
    rw [a1]

theorem intCompare_anim (cmp : CmpOp) (v : Int) (s : Strip) (w : World) (hr : w.Runs) :
    (Strip.intCompare cmp v s w).2.AnimationStepNum =
      w.AnimationStepNum + (if s.m_notTemp = true then 1 else 0) := by
  obtain ⟨w1, h1, _, a1, _⟩ := draw1_step s StripCopyColor w hr
  unfold Strip.intCompare
  cases hs : s.m_notTemp
  · simp
  · simp only [if_true, h1]
    show w1.AnimationStepNum + 1 = _
    rw [a1]

theorem toInt_anim (s : Strip) (w : World) (hr : w.Runs) :
    (s.toInt w).2.AnimationStepNum =
      w.AnimationStepNum + (if s.m_notTemp = true then 1 else 0) := by
  obtain ⟨w1, h1, _, a1, _⟩ := draw1_step s StripCopyColor w hr
  unfold Strip.toInt
  cases hs : s.m_notTemp
  · simp
  · simp only [if_true, h1]
    show w1.AnimationStepNum + 1 = _
    rw [a1]

theorem arithInt_anim (op : ArithOp) (s : Strip) (v : Int) (w : World) (hr : w.Runs) :
    (s.arithInt op v w).2.AnimationStepNum =
      w.AnimationStepNum + (if s.m_notTemp = true then 1 else 0) := by
  obtain ⟨w1, h1, _, a1, _⟩ := draw1_step s StripCopyColor w hr
  unfold Strip.arithInt
  cases hs : s.m_notTemp
  · simp
  · simp only [if_true, h1]
    show w1.AnimationStepNum + 1 = _
    rw [a1]

theorem compare_anim (cmp : CmpOp) (s t : Strip) (w : World) (hr : w.Runs) :
    (s.compare cmp t w).2.AnimationStepNum =
      w.AnimationStepNum + (if (s.m_notTemp || t.m_notTemp) = true then 1 else 0) := by
  obtain ⟨w1, h1, _, a1, _⟩ := draw1_step s StripCopyColor w hr
  obtain ⟨w2, h2, _, a2, _⟩ := draw1_step t StripCopyColor w hr
  obtain ⟨w3, h3, _, a3, _⟩ := draw2_step s StripCopyColor t StripCopyColor w hr
  unfold Strip.compare
  cases hs : s.m_notTemp <;> cases ht : t.m_notTemp
  · simp
  · simp only [bne_iff_ne, ne_eq, Bool.false_eq_true, not_false_eq_true, if_true, if_false, h2,
      Bool.false_or]
    show w2.AnimationStepNum + 1 = _
    rw [a2]
  · simp only [bne_iff_ne, ne_eq, Bool.true_eq_false, not_false_eq_true, if_true, h1,
      Bool.true_or]
    show w1.AnimationStepNum + 1 = _
    rw [a1]
  · simp only [bne_self_eq_false, Bool.false_eq_true, if_false, if_true, h3, Bool.true_or]
    show w3.AnimationStepNum + 1 = _
    rw [a3]

/-- Binary arithmetic of two strips: one step when exactly one operand is live, two
steps when both are. -/
theorem arith_anim (op : ArithOp) (s t : Strip) (w : World) (hr : w.Runs) :
    (s.arith op t w).2.AnimationStepNum =
      w.AnimationStepNum +
        (if (s.m_notTemp && t.m_notTemp) = true then 2
         else if (s.m_notTemp || t.m_notTemp) = true then 1 else 0) := by
  obtain ⟨w1, h1, _, a1, _⟩ := draw1_step s StripCopyColor w hr
  obtain ⟨w2, h2, _, a2, _⟩ := draw1_step t StripCopyColor w hr
  obtain ⟨w3, h3, _, a3, _⟩ := draw2_step s StripCopyColor t StripCopyColor w hr
  unfold Strip.arith
  cases hs : s.m_notTemp <;> cases ht : t.m_notTemp
  · simp
  · simp only [bne_iff_ne, ne_eq, Bool.false_eq_true, not_false_eq_true, if_true, if_false, h2,
      Bool.false_or, Bool.false_and]
    show w2.AnimationStepNum + 1 = _
    rw [a2]
  · simp only [bne_iff_ne, ne_eq, Bool.true_eq_false, not_false_eq_true, if_true, h1,
      Bool.true_or, Bool.and_false, Bool.false_eq_true, if_false]
    show w1.AnimationStepNum + 1 = _
    rw [a1]
  · simp only [bne_self_eq_false, Bool.false_eq_true, if_false, if_true, h3, Bool.true_or,
      Bool.and_self]
    show w3.AnimationStepNum + 1 + 1 = _
    rw [a3]

theorem storedInt_anim (s : Strip) (c : COLORREF) (w : World) (hr : w.Runs) :
    (Strip.storedInt s c w).1 = .ok () ∧
    (Strip.storedInt s c w).2.2.AnimationStepNum =
      w.AnimationStepNum + (if s.m_notTemp = true then 1 else 0) := by
  obtain ⟨s1, hs1⟩ := SetTopAndColorAuto_ok s w hr.2.2
  obtain ⟨w1, h1, _, a1, _⟩ := draw1_step s1 c w hr
  unfold Strip.storedInt
  cases hs : s.m_notTemp
  · simp
  · simp only [if_true, hs1, h1, true_and]
    show w1.AnimationStepNum + 1 = _
    rw [a1]

theorem storedStrip_anim (s t : Strip) (w : World) (hr : w.Runs) :
    (Strip.storedStrip s t w).1 = .ok () ∧
    (Strip.storedStrip s t w).2.2.AnimationStepNum =
      w.AnimationStepNum + (if (s.m_notTemp || t.m_notTemp) = true then 1 else 0) := by
  obtain ⟨s1, hs1⟩ := SetTopAndColorAuto_ok s w hr.2.2
  obtain ⟨w1, h1, _, a1, _⟩ := draw1_step s1 StripChangeColor w hr
  obtain ⟨w2, h2, _, a2, _⟩ := draw1_step t StripCopyColor w hr
  obtain ⟨w3, h3, _, a3, _⟩ := draw2_step s1 StripChangeColor t StripCopyColor w hr
  unfold Strip.storedStrip
  cases hs : s.m_notTemp <;> cases ht : t.m_notTemp
  · simp
  · simp only [bne_iff_ne, ne_eq, Bool.false_eq_true, not_false_eq_true, if_true, if_false, h2,
      Bool.false_or, true_and]
    show w2.AnimationStepNum + 1 = _
    rw [a2]
  · simp only [bne_iff_ne, ne_eq, Bool.true_eq_false, not_false_eq_true, if_true, hs1, h1,
      Bool.true_or, true_and]
    show w1.AnimationStepNum + 1 = _
    rw [a1]
  · simp only [bne_self_eq_false, Bool.false_eq_true, if_false, if_true, hs1, h3, Bool.true_or,
      true_and]
    show w3.AnimationStepNum + 1 = _
    rw [a3]

theorem swappedInt_anim (s : Strip) (w : World) (hr : w.Runs) :
    (Strip.swappedInt s w).1 = .ok () ∧
    (Strip.swappedInt s w).2.2.AnimationStepNum =
      w.AnimationStepNum + (if s.m_notTemp = true then 1 else 0) := by
  obtain ⟨s1, hs1⟩ := SetTopAndColorAuto_ok s w hr.2.2
  obtain ⟨w1, h1, _, a1, _⟩ := draw1_step s1 StripChangeColor w hr
  unfold Strip.swappedInt
  cases hs : s.m_notTemp
  · simp
  · simp only [if_true, hs1, h1, true_and]
    show w1.AnimationStepNum + 1 = _
    rw [a1]

theorem swapped_anim (s t : Strip) (w : World) (hr : w.Runs) :
    (Strip.swapped Strip.SetTopAndColorAuto s t w).1 = .ok () ∧
    (Strip.swapped Strip.SetTopAndColorAuto s t w).2.2.AnimationStepNum =
      w.AnimationStepNum + (if (s.m_notTemp || t.m_notTemp) = true then 1 else 0) := by
  obtain ⟨s1, hs1⟩ := SetTopAndColorAuto_ok s w hr.2.2
  obtain ⟨t1, ht1⟩ := SetTopAndColorAuto_ok t w hr.2.2
  obtain ⟨w1, h1, _, a1, _⟩ := draw1_step s1 StripChangeColor w hr
  obtain ⟨w2, h2, _, a2, _⟩ := draw1_step t1 StripChangeColor w hr
  obtain ⟨w3, h3, _, a3, _⟩ := draw2_step s1 StripChangeColor t1 StripChangeColor w hr
  unfold Strip.swapped
  cases hs : s.m_notTemp <;> cases ht : t.m_notTemp
  · simp
  · simp only [bne_iff_ne, ne_eq, Bool.false_eq_true, not_false_eq_true, if_true, if_false, ht1,
      h2, Bool.false_or, true_and]
    show w2.AnimationStepNum + 1 = _
    rw [a2]
  · simp only [bne_iff_ne, ne_eq, Bool.true_eq_false, not_false_eq_true, if_true, hs1, h1,
      Bool.true_or, true_and]
    show w1.AnimationStepNum + 1 = _
    rw [a1]
  · simp only [bne_self_eq_false, Bool.false_eq_true, if_false, if_true, hs1, ht1, h3,
      Bool.true_or, true_and]
    show w3.AnimationStepNum + 1 = _
    rw [a3]

theorem counter_step (b : Bool) (wc : World) :
    (if b = true then wc.incActualStepNum else wc).ActualStepNum =
      wc.ActualStepNum + (if b = true then 1 else 0) := by
  cases b <;> rfl

theorem top_shape (s d : Strip) (w : World) (h : s.SetTopAuto w = .ok d) :
    d.m_color = s.m_color ∧ d.m_value = s.m_value ∧
    ∀ s2 : Strip, s2.m_value = s.m_value → s2.SetTopAuto w = .ok { s2 with m_top := d.m_top } := by
  unfold Strip.SetTopAuto at h
  simp only at h
  refine ⟨?_, ?_, ?_⟩
  · split at h
    · cases h
    · split at h
      · cases h
      · split at h <;> · cases h; rfl
  · split at h
    · cases h
    · split at h
      · cases h
      · split at h <;> · cases h; rfl
  · intro s2 hv
    unfold Strip.SetTopAuto
    simp only
    rw [hv]
    generalize Fraction.divAssign _ (Fraction.ofInt w.s_maxValue) = q at h ⊢
    cases q with
    | error e => cases h
    | ok q =>
      simp only at h ⊢
      generalize q.toInt = t at h ⊢
      cases t with
      | error e => cases h
      | ok top =>
        simp only at h ⊢
        split at h
        · rename_i hc
          cases h
          rw [if_pos hc]
        · rename_i hc
          cases h
          rw [if_neg hc]

theorem color_shape (s d : Strip) (w : World) (h : s.SetColorAuto w = .ok d) :
    d.m_top = s.m_top ∧ d.m_value = s.m_value ∧
    ∀ s2 : Strip, s2.m_value = s.m_value →
      s2.SetColorAuto w = .ok { s2 with m_color := d.m_color } := by
  unfold Strip.SetColorAuto at h
  simp only at h
  split at h
  · cases h
  · rename_i hz
    cases h
    refine ⟨rfl, rfl, ?_⟩
    intro s2 hv
    unfold Strip.SetColorAuto
    simp only
    rw [if_neg hz, hv]

theorem top_fixed (s d : Strip) (w : World) (h : s.SetTopAuto w = .ok d) :
    d.TopDerived w ∧ d.m_color = s.m_color ∧ d.m_value = s.m_value := by
  obtain ⟨h1, h2, h3⟩ := top_shape s d w h
  refine ⟨?_, h1, h2⟩
  unfold Strip.TopDerived
  rw [h3 d h2]

theorem rescale_fixed (s e : Strip) (w : World) (h : s.SetTopAndColorAuto w = .ok e) :
    e.Derived w ∧ e.TopDerived w ∧ e.ColorDerived w ∧ e.m_value = s.m_value := by
  unfold Strip.SetTopAndColorAuto at h
  split at h
  · cases h
  · rename_i d hd
    obtain ⟨t1, t2, t3⟩ := top_shape s d w hd
    obtain ⟨c1, c2, c3⟩ := color_shape d e w h
    have htop : e.SetTopAuto w = .ok e := by
      rw [t3 e (c2.trans t2), ← c1]
    have hcol : e.SetColorAuto w = .ok e := by
      rw [c3 e c2]
    refine ⟨?_, htop, hcol, c2.trans t2⟩
    unfold Strip.Derived Strip.SetTopAndColorAuto
    rw [htop]
    exact hcol

theorem storedInt_derived (s : Strip) (c : COLORREF) (w : World) (hl : s.m_notTemp = true)
    (hm : w.s_maxValue % 18446744073709551616 ≠ 0) :
    (Strip.storedInt s c w).2.1.Derived w ∧ (Strip.storedInt s c w).2.1.m_value = s.m_value := by
  obtain ⟨s1, hs1⟩ := SetTopAndColorAuto_ok s w hm
  obtain ⟨f1, _, _, f2⟩ := rescale_fixed s s1 w hs1
  unfold Strip.storedInt
  rw [if_pos hl, hs1]
  simp only
  generalize Strip.DrawStrip1 s1 c w = r
  obtain ⟨r1, w1⟩ := r
  cases r1 <;> exact ⟨f1, f2⟩

theorem storedStrip_derived (s t : Strip) (w : World) (hl : s.m_notTemp = true)
    (hm : w.s_maxValue % 18446744073709551616 ≠ 0) :
    (Strip.storedStrip s t w).2.1.Derived w ∧
    (Strip.storedStrip s t w).2.1.m_value = s.m_value := by
  obtain ⟨s1, hs1⟩ := SetTopAndColorAuto_ok s w hm
  obtain ⟨f1, _, _, f2⟩ := rescale_fixed s s1 w hs1
  unfold Strip.storedStrip
  cases ht : t.m_notTemp
  · simp only [hl, bne_iff_ne, ne_eq, Bool.true_eq_false, not_false_eq_true, if_true, hs1]
    generalize Strip.DrawStrip1 s1 StripChangeColor w = r
    obtain ⟨r1, w1⟩ := r
    cases r1 <;> exact ⟨f1, f2⟩
  · simp only [hl, bne_self_eq_false, Bool.false_eq_true, if_false, if_true, hs1]
    generalize Strip.DrawStrip2 s1 StripChangeColor t StripCopyColor w = r
    obtain ⟨r1, w1⟩ := r
    cases r1 <;> exact ⟨f1, f2⟩

theorem swappedInt_derived (s : Strip) (w : World) (hl : s.m_notTemp = true)
    (hm : w.s_maxValue % 18446744073709551616 ≠ 0) :
    (Strip.swappedInt s w).2.1.Derived w ∧ (Strip.swappedInt s w).2.1.m_value = s.m_value := by
  obtain ⟨s1, hs1⟩ := SetTopAndColorAuto_ok s w hm
  obtain ⟨f1, _, _, f2⟩ := rescale_fixed s s1 w hs1
  unfold Strip.swappedInt
  rw [if_pos hl, hs1]
  simp only
  generalize Strip.DrawStrip1 s1 StripChangeColor w = r
  obtain ⟨r1, w1⟩ := r
  cases r1 <;> exact ⟨f1, f2⟩

/-- The operand or operands of `swap(Strip&, Strip&)` that are live are rescaled in
top and colour. -/
theorem swapped_derived (s t : Strip) (w : World)
    (hm : w.s_maxValue % 18446744073709551616 ≠ 0) :
    (s.m_notTemp = true →
      (Strip.swapped Strip.SetTopAndColorAuto s t w).2.1.1.Derived w ∧
      (Strip.swapped Strip.SetTopAndColorAuto s t w).2.1.1.m_value = s.m_value) ∧
    (t.m_notTemp = true →
      (Strip.swapped Strip.SetTopAndColorAuto s t w).2.1.2.Derived w ∧
      (Strip.swapped Strip.SetTopAndColorAuto s t w).2.1.2.m_value = t.m_value) := by
  obtain ⟨s1, hs1⟩ := SetTopAndColorAuto_ok s w hm
  obtain ⟨t1, ht1⟩ := SetTopAndColorAuto_ok t w hm
  obtain ⟨f1, _, _, f2⟩ := rescale_fixed s s1 w hs1
  obtain ⟨g1, _, _, g2⟩ := rescale_fixed t t1 w ht1
  unfold Strip.swapped
  cases hs : s.m_notTemp <;> cases ht : t.m_notTemp
  · simp
  · simp only [bne_iff_ne, ne_eq, Bool.false_eq_true, not_false_eq_true, if_true, if_false, ht1]
    generalize Strip.DrawStrip1 t1 StripChangeColor w = r
    obtain ⟨r1, w1⟩ := r
    cases r1 <;> exact ⟨(fun h => by cases h), fun _ => ⟨g1, g2⟩⟩
  · simp only [bne_iff_ne, ne_eq, Bool.true_eq_false, not_false_eq_true, if_true, hs1]
    generalize Strip.DrawStrip1 s1 StripChangeColor w = r
    obtain ⟨r1, w1⟩ := r
    cases r1 <;> exact ⟨fun _ => ⟨f1, f2⟩, fun h => by cases h⟩
  · simp only [bne_self_eq_false, Bool.false_eq_true, if_false, if_true, hs1, ht1]
    generalize Strip.DrawStrip2 s1 StripChangeColor t1 StripChangeColor w = r
    obtain ⟨r1, w1⟩ := r
    cases r1 <;> exact ⟨fun _ => ⟨f1, f2⟩, fun _ => ⟨g1, g2⟩⟩

/-- The operand or operands of `SwapWithoutSetColor` that are live are rescaled in top
only: the colour stays. -/
theorem swapped_top (s t : Strip) (w : World) (hm : w.s_maxValue % 18446744073709551616 ≠ 0) :
    (s.m_notTemp = true →
      (Strip.swapped Strip.SetTopAuto s t w).2.1.1.TopDerived w ∧
      (Strip.swapped Strip.SetTopAuto s t w).2.1.1.m_value = s.m_value ∧
      (Strip.swapped Strip.SetTopAuto s t w).2.1.1.m_color = s.m_color) ∧
    (t.m_notTemp = true →
      (Strip.swapped Strip.SetTopAuto s t w).2.1.2.TopDerived w ∧
      (Strip.swapped Strip.SetTopAuto s t w).2.1.2.m_value = t.m_value ∧
      (Strip.swapped Strip.SetTopAuto s t w).2.1.2.m_color = t.m_color) := by
  obtain ⟨s1, hs1⟩ := SetTopAuto_ok s w hm
  obtain ⟨t1, ht1⟩ := SetTopAuto_ok t w hm
  obtain ⟨f1, f2, f3⟩ := top_fixed s s1 w hs1
  obtain ⟨g1, g2, g3⟩ := top_fixed t t1 w ht1
  unfold Strip.swapped
  cases hs : s.m_notTemp <;> cases ht : t.m_notTemp
  · simp
  · simp only [bne_iff_ne, ne_eq, Bool.false_eq_true, not_false_eq_true, if_true, if_false, ht1]
    generalize Strip.DrawStrip1 t1 StripChangeColor w = r
    obtain ⟨r1, w1⟩ := r
    cases r1 <;> exact ⟨(fun h => by cases h), fun _ => ⟨g1, g3, g2⟩⟩
  · simp only [bne_iff_ne, ne_eq, Bool.true_eq_false, not_false_eq_true, if_true, hs1]
    generalize Strip.DrawStrip1 s1 StripChangeColor w = r
    obtain ⟨r1, w1⟩ := r
    cases r1 <;> exact ⟨fun _ => ⟨f1, f3, f2⟩, fun h => by cases h⟩
  · simp only [bne_self_eq_false, Bool.false_eq_true, if_false, if_true, hs1, ht1]
    generalize Strip.DrawStrip2 s1 StripChangeColor t1 StripChangeColor w = r
    obtain ⟨r1, w1⟩ := r
    cases r1 <;> exact ⟨fun _ => ⟨f1, f3, f2⟩, fun _ => ⟨g1, g3, g2⟩⟩

/-- A live strip that `CopyWithoutSetColor` or `CopyValueAndColor` writes is rescaled
in top only: the colour it was given before the call stays. -/
theorem copied_top (s t : Strip) (w : World) (hl : s.m_notTemp = true)
    (hm : w.s_maxValue % 18446744073709551616 ≠ 0) :
    (Strip.copied s t w).2.1.TopDerived w ∧ (Strip.copied s t w).2.1.m_value = s.m_value ∧
    (Strip.copied s t w).2.1.m_color = s.m_color := by
  obtain ⟨s1, hs1⟩ := SetTopAuto_ok s w hm
  obtain ⟨f1, f2, f3⟩ := top_fixed s s1 w hs1
  unfold Strip.copied
  cases ht : t.m_notTemp
  · simp only [hl, bne_iff_ne, ne_eq, Bool.true_eq_false, not_false_eq_true, if_true, hs1]
    generalize Strip.DrawStrip1 s1 StripChangeColor w = r
    obtain ⟨r1, w1⟩ := r
    cases r1 <;> exact ⟨f1, f3, f2⟩
  · simp only [hl, bne_self_eq_false, Bool.false_eq_true, if_false, if_true, hs1]
    generalize Strip.DrawStrip2 s1 StripChangeColor t StripCopyColor w = r
    obtain ⟨r1, w1⟩ := r
    cases r1 <;> exact ⟨f1, f3, f2⟩

theorem returnOld_strip (back : Int) (r : Except Fault Unit × Strip × World) :
    (Strip.returnOld back r).2.1 = r.2.1 := by
  obtain ⟨r1, s1, w1⟩ := r
  cases r1 <;> rfl

theorem UpdateLastMessage_frame (self : VisualSort) (w : World) :
    (self.UpdateLastMessage w).2.m_updateMessageTime = self.m_updateMessageTime ∧
    ((self.UpdateLastMessage w).1 = .ok () →
      ∃ text1 text2, (self.UpdateLastMessage w).2 = self.record (.messages text1 text2)) ∧
    ((self.UpdateLastMessage w).1 ≠ .ok () → (self.UpdateLastMessage w).2 = self) := by
  unfold VisualSort.UpdateLastMessage
  split
  · exact ⟨rfl, (fun h => by simp at h), fun _ => rfl⟩
  · split
    · exact ⟨rfl, (fun h => by simp at h), fun _ => rfl⟩
    · exact ⟨rfl, fun _ => ⟨_, _, rfl⟩, fun h => absurd rfl h⟩

/-- The function `HeapSort` returns on every input: none of its element accesses, each of which
is checked against the size of the vector, is out of range. -/
theorem HeapSort_returns (data_ : List Int) :
    ∃ d, NSortAlgorithms.HeapSort data_ = .ok d ∧ d.length = data_.length := by
  unfold NSortAlgorithms.HeapSort
  by_cases h : data_.length < 2
  · rw [if_pos h]
    exact ⟨data_, rfl, rfl⟩
  · rw [if_neg h]
    obtain ⟨d1, hrun1, hh1, hp1, hl1⟩ := build_loop data_
    rw [← hl1] at hh1
    obtain ⟨d2, hrun2, hp2, _⟩ := extract_loop d1 (by omega) hh1
    rw [hl1] at hrun2
    simp only [hrun1, bind, Except.bind, hrun2]
    exact ⟨d2, rfl, (hp2.trans hp1).length_eq⟩

theorem StopSort_worker (w : World) (hw : w.thisThread ≠ w.s_mainThreadId) :
    (∀ e, (Strip.StopSort w).1 = .error e → e = .pausedForever) ∧
    (w.PauseEnds → (Strip.StopSort w).1 = .ok ()) := by
  unfold Strip.StopSort
  rw [if_pos hw]
  exact ⟨fun e h => waitWorker_never_raises _ _ e h, fun hp => waitWorker_ok _ w rfl hp⟩

theorem RunCounterSort_passes (self : VisualSort) (w w1 : World) (sort : SortDescriptor)
    (d : List Counter) (hcur : self.current = .ok sort)
    (hcounter : sort.m_counterSortFunc self.m_counterSortData { w with ActualStepNum := 0 } =
      (.ok (), d, w1)) :
    self.RunCounterSort w =
      (.ok true, { self.record (.counterSortFunc self.m_counterSortData) with
        m_counterSortData := d }, w1) := by
  unfold VisualSort.RunCounterSort
  rw [hcur]
  simp only [hcounter, VisualSort.RunCounterSort.leave]

/-- C7 fails on the code: on the input `{2, 3, 1}` the first round of `OddEvenSort`
swaps nothing in its first sweep (`odd` stays false) and swaps 3 with 1 in its
second, after which `while (odd && even)` stops; `data_` is left as `{2, 1, 3}`,
which is not in non-decreasing order. -/
theorem OddEvenSort_leaves_unsorted :
    NSortAlgorithms.OddEvenSort [2, 3, 1] = .ok [2, 1, 3] ∧
    ¬ List.Sorted (· ≤ ·) ([2, 1, 3] : List Int) :=
  ⟨rfl, by decide⟩

/-- C8. For every input vector of ints, `HeapSort` (sift-up construction of the heap,
then repeated extraction of the root with sift-down) returns, reads and writes
`data_` only inside its bounds, and leaves `data_` equal to the stable-sorted
input: a permutation of the input in non-decreasing order. -/
theorem HeapSort_sorts (data_ : List Int) :
    NSortAlgorithms.HeapSort data_ = .ok (sortedCopy data_) ∧
    List.Sorted (· ≤ ·) (sortedCopy data_) ∧ (sortedCopy data_).Perm data_ := by
  refine ⟨?_, sortedCopy_sorted data_, sortedCopy_perm data_⟩

  unfold NSortAlgorithms.HeapSort
  by_cases h : data_.length < 2
  · rw [if_pos h]
    congr 1
    apply eq_sortedCopy data_ data_ (List.Perm.refl _)
    intro a b ha hab hb
    have : a = b := by omega
    subst this; exact le_refl _
  · rw [if_neg h]
    obtain ⟨d1, hrun1, hh1, hp1, hl1⟩ := build_loop data_
    rw [← hl1] at hh1
    obtain ⟨d2, hrun2, hp2, hs2⟩ := extract_loop d1 (by omega) hh1
    rw [hl1] at hrun2
    simp only [hrun1, bind, Except.bind, hrun2]
    congr 1
    exact eq_sortedCopy d2 data_ (hp2.trans hp1) hs2

/-- C9. For every input vector of ints, the explicit-stack `QuickSort` (leftmost
pivot, two-pointer partition) returns within its loop bounds, stays inside the
bounds of `data_`, and leaves `data_` equal to the stable-sorted input: a
permutation of the input in non-decreasing order. -/
theorem QuickSort_sorts (data_ : List Int) :
    NSortAlgorithms.QuickSort data_ = .ok (sortedCopy data_) ∧
    List.Sorted (· ≤ ·) (sortedCopy data_) ∧ (sortedCopy data_).Perm data_ := by
  refine ⟨?_, sortedCopy_sorted data_, sortedCopy_perm data_⟩

  unfold NSortAlgorithms.QuickSort
  by_cases h : data_.length < 2
  · rw [if_pos h]
    congr 1
    apply eq_sortedCopy data_ data_ (List.Perm.refl _)
    intro a b ha hab hb
    have : a = b := by omega
    subst this; exact le_refl _
  · rw [if_neg h]
    obtain ⟨c, d', hc, hrun, hsh, hsorted⟩ :=
      quick_range _ 0 ((data_.length : Int) - 1) [] data_ rfl (fun _ => ⟨le_refl _, by omega⟩)
    have hc' : c ≤ 2 * data_.length + 1 := by
      have : ((data_.length : Int) - 1 - 0 + 1).toNat = data_.length := by omega
      rw [this] at hc; exact hc
    have e : 2 * data_.length + 2 = c + (2 * data_.length + 1 - c + 1) := by omega
    rw [e, hrun]
    simp only [loop, NSortAlgorithms.QuickSort.step, pure, Except.pure]
    congr 1
    apply eq_sortedCopy d' data_ hsh.2.1
    intro a b ha hab hb
    exact hsorted a b ha hab (by rw [hsh.1] at hb; omega)

/-- C10. For every input vector of ints, the explicit-stack `MergeSort` returns within
its loop bounds, never indexes `data_` or its scratch vector `dataQueue` (of size
`data_.size() / 2 + 1`) out of range, and leaves `data_` equal to the
stable-sorted input: a permutation of the input in non-decreasing order. -/
theorem MergeSort_sorts (data_ : List Int) :
    NSortAlgorithms.MergeSort data_ = .ok (sortedCopy data_) ∧
    List.Sorted (· ≤ ·) (sortedCopy data_) ∧ (sortedCopy data_).Perm data_ := by
  refine ⟨?_, sortedCopy_sorted data_, sortedCopy_perm data_⟩
  unfold NSortAlgorithms.MergeSort
  by_cases h : data_.length < 2
  · rw [if_pos h]
    congr 1
    apply eq_sortedCopy data_ data_ (List.Perm.refl _)
    intro a b ha hab hb
    have : a = b := by omega
    subst this; exact le_refl _
  · rw [if_neg h]
    obtain ⟨c, seg', dq', hc, hrun, hperm, hsorted, _⟩ :=
      merge_range data_.length [] data_ [] [] (List.replicate (data_.length / 2 + 1) 0) rfl
        (by omega) (by rw [List.length_replicate]; omega)
    simp only [List.length_nil, Nat.cast_zero, zero_add, List.nil_append, List.append_nil]
      at hrun
    have e : 3 * data_.length + 1 = c + (3 * data_.length - c - 1 + 1 + 1) := by omega
    rw [e, hrun]
    simp only [loop, NSortAlgorithms.MergeSort.step, pure, Except.pure]
    congr 1
    have hs : List.Sorted (· ≤ ·) seg' := by
      unfold List.Sorted
      exact hsorted.imp (by intro a b hab; unfold intLe at hab; simpa using hab)
    exact List.eq_of_perm_of_sorted (hperm.trans (sortedCopy_perm data_).symm) hs
      (sortedCopy_sorted data_)

/-- A vector of fewer than two elements is its own sorted copy. -/
theorem short_sortedCopy (data_ : List Int) (h : data_.length < 2) :
    data_ = sortedCopy data_ := by
  apply eq_sortedCopy data_ data_ (List.Perm.refl _)
  intro a b ha hab hb
  have : a = b := by omega
  subst this; exact le_refl _

/-- C14. For every input vector of ints, the explicit-stack `StoogeSort` (swap the
ends, then the first two thirds, the last two thirds and the first two thirds again,
with `k = (j - i + 1) / 3`) empties its stack within its bound, stays inside the
bounds of `data_`, and leaves `data_` equal to the stable-sorted input: a
permutation of the input in non-decreasing order. -/
theorem StoogeSort_sorts (data_ : List Int) :
    NSortAlgorithms.StoogeSort data_ = .ok (sortedCopy data_) ∧
    List.Sorted (· ≤ ·) (sortedCopy data_) ∧ (sortedCopy data_).Perm data_ := by
  refine ⟨?_, sortedCopy_sorted data_, sortedCopy_perm data_⟩
  unfold NSortAlgorithms.StoogeSort
  by_cases h : data_.length < 2
  · rw [if_pos h]
    congr 1
    exact short_sortedCopy data_ h
  · rw [if_neg h]
    obtain ⟨c, d', hc, hrun, hsh, hsorted⟩ :=
      stooge_range _ 0 ((data_.length : Int) - 1) [] data_ rfl (fun _ => ⟨le_refl _, by omega⟩)
    have hc' : c + 1 ≤ 2 * 3 ^ data_.length := by
      have : ((data_.length : Int) - 1 - 0 + 1).toNat = data_.length := by omega
      rw [this] at hc; exact hc
    have e : 2 * 3 ^ data_.length = c + (2 * 3 ^ data_.length - c - 1 + 1) := by omega
    rw [e, hrun]
    simp only [loop, NSortAlgorithms.StoogeSort.step, pure, Except.pure]
    congr 1
    apply eq_sortedCopy d' data_ hsh.2.1
    intro a b ha hab hb
    exact hsorted a b ha hab (by rw [hsh.1] at hb; omega)

/-- C15. For every input vector of ints whose largest and smallest element differ by
at most 10,000,000, `BeadSort` returns with every access to `beadQueue` and to
`data_` inside the bounds and leaves `data_` equal to the stable-sorted input: a
permutation of the input in non-decreasing order. When two elements differ by more
than 10,000,000 it raises the `WideError` of the range check. -/
theorem BeadSort_sorts (data_ : List Int) :
    ((∀ x ∈ data_, ∀ y ∈ data_, x - y ≤ 10000000) →
      NSortAlgorithms.BeadSort data_ = .ok (sortedCopy data_) ∧
      List.Sorted (· ≤ ·) (sortedCopy data_) ∧ (sortedCopy data_).Perm data_) ∧
    ((∃ x ∈ data_, ∃ y ∈ data_, x - y > 10000000) →
      NSortAlgorithms.BeadSort data_
        = .error (.wideError ⟨"该数据最小值与最大值差距过大，不适合使用珠排序！"⟩)) := by
  refine ⟨fun hrange => ⟨?_, sortedCopy_sorted data_, sortedCopy_perm data_⟩, bead_beyond data_⟩
  by_cases h : data_.length < 2
  · unfold NSortAlgorithms.BeadSort
    rw [if_pos h]
    congr 1
    exact short_sortedCopy data_ h
  · exact bead_within data_ h hrange

theorem BeadSort_sorts_witness :
    (NSortAlgorithms.BeadSort [3, -1, 2, 3] = .ok (sortedCopy [3, -1, 2, 3]) ∧
      List.Sorted (· ≤ ·) (sortedCopy [3, -1, 2, 3]) ∧
      (sortedCopy [3, -1, 2, 3]).Perm [3, -1, 2, 3]) ∧
    NSortAlgorithms.BeadSort [0, 10000001]
      = .error (.wideError ⟨"该数据最小值与最大值差距过大，不适合使用珠排序！"⟩) :=
  ⟨(BeadSort_sorts [3, -1, 2, 3]).1 (by decide), (BeadSort_sorts [0, 10000001]).2 (by decide)⟩

/-- C11. For every input vector of ints whose elements differ by less than `16 ^ 7`
(the range for which `divNum`, which ends as 16 to the number of base-16 digits of
`max - min`, stays an `int`), the base-16 least-significant-digit `RadixSort` on
`value - minValue` returns and leaves `data_` equal to the stable-sorted input: a
permutation of the input in non-decreasing order. Negative values and duplicates
are allowed, and so is any length. -/
theorem RadixSort_sorts (data_ : List Int)
    (hrange : ∀ x ∈ data_, ∀ y ∈ data_, x - y < 268435456) :
    NSortAlgorithms.RadixSort data_ = .ok (sortedCopy data_) ∧
    List.Sorted (· ≤ ·) (sortedCopy data_) ∧ (sortedCopy data_).Perm data_ := by
  refine ⟨?_, sortedCopy_sorted data_, sortedCopy_perm data_⟩
  by_cases h : data_.length < 2
  · unfold NSortAlgorithms.RadixSort
    rw [if_pos h]
    congr 1
    exact short_sortedCopy data_ h
  · exact radix_within data_ h (fun x hx y hy => by have := hrange x hx y hy; omega)

theorem RadixSort_sorts_witness :
    (∀ x ∈ ([300, -20, 0, 17, 300] : List Int), ∀ y ∈ ([300, -20, 0, 17, 300] : List Int),
      x - y < 268435456) ∧
    NSortAlgorithms.RadixSort [300, -20, 0, 17, 300] = .ok (sortedCopy [300, -20, 0, 17, 300]) ∧
    List.Sorted (· ≤ ·) (sortedCopy [300, -20, 0, 17, 300]) ∧
    (sortedCopy [300, -20, 0, 17, 300]).Perm [300, -20, 0, 17, 300] :=
  ⟨by decide, RadixSort_sorts [300, -20, 0, 17, 300] (by decide)⟩

/-- C13. For every input vector of ints, `CycleSort` returns within its loop bounds
and leaves `data_` equal to the stable-sorted input: a permutation of the input in
non-decreasing order. Every access `data_[itemPosition]` is checked against the
size of the vector and a failed check is a fault, so the loops `while (item ==
data_[itemPosition]) ++itemPosition` never take `itemPosition` past the last
element. -/
theorem CycleSort_sorts (data_ : List Int) :
    NSortAlgorithms.CycleSort data_ = .ok (sortedCopy data_) ∧
    List.Sorted (· ≤ ·) (sortedCopy data_) ∧ (sortedCopy data_).Perm data_ := by
  refine ⟨?_, sortedCopy_sorted data_, sortedCopy_perm data_⟩
  unfold NSortAlgorithms.CycleSort
  by_cases h : data_.length < 2
  · rw [if_pos h]
    congr 1
    exact short_sortedCopy data_ h
  · rw [if_neg h]
    obtain ⟨r, hrun, hperm, hsorted⟩ := cycle_outer_loop data_ (by omega)
    rw [hrun]
    congr 1
    exact eq_sortedCopy r data_ hperm hsorted

/-- C12. For every input vector of ints whose length is a power of two, the
explicit-stack `BitonicSort` empties its stack within its bound, stays inside the
bounds of `data_`, and leaves `data_` equal to the stable-sorted input: a
permutation of the input in non-decreasing order. For a length of at least 2 that
is not a power of two it raises the `WideError` of the size check and `data_` is
still the input. -/
theorem BitonicSort_sorts (data_ : List Int) :
    ((∃ k : Nat, data_.length = 2 ^ k) →
      NSortAlgorithms.BitonicSort data_ = (.ok (), sortedCopy data_) ∧
      List.Sorted (· ≤ ·) (sortedCopy data_) ∧ (sortedCopy data_).Perm data_) ∧
    (2 ≤ data_.length → (¬ ∃ k : Nat, data_.length = 2 ^ k) →
      NSortAlgorithms.BitonicSort data_
        = (.error (.wideError ⟨"双调排序要求数据量为2的非负整数次幂！"⟩), data_)) := by
  constructor
  · rintro ⟨K, hK⟩
    refine ⟨?_, sortedCopy_sorted data_, sortedCopy_perm data_⟩
    unfold NSortAlgorithms.BitonicSort
    by_cases h : data_.length < 2
    · rw [if_pos h, ← short_sortedCopy data_ h]
    · have hland : ¬ (data_.length &&& (data_.length - 1) ≠ 0) := by
        rw [not_not]
        exact (land_pred_eq_zero data_.length (by omega)).mpr ⟨K, hK⟩
      rw [if_neg h, if_neg hland, bitonic_run data_ K hK]
  · intro h2 hnot
    unfold NSortAlgorithms.BitonicSort
    have hland : data_.length &&& (data_.length - 1) ≠ 0 := fun h =>
      hnot ((land_pred_eq_zero data_.length (by omega)).mp h)
    rw [if_neg (by omega), if_pos hland]

theorem BitonicSort_sorts_witness :
    (NSortAlgorithms.BitonicSort [3, 1, 2, 1] = (.ok (), sortedCopy [3, 1, 2, 1]) ∧
      List.Sorted (· ≤ ·) (sortedCopy [3, 1, 2, 1]) ∧
      (sortedCopy [3, 1, 2, 1]).Perm [3, 1, 2, 1]) ∧
    NSortAlgorithms.BitonicSort [3, 1, 2]
      = (.error (.wideError ⟨"双调排序要求数据量为2的非负整数次幂！"⟩), [3, 1, 2]) :=
  ⟨(BitonicSort_sorts [3, 1, 2, 1]).1 ⟨2, rfl⟩,
    (BitonicSort_sorts [3, 1, 2]).2 (by decide)
      (fun h => absurd ((land_pred_eq_zero 3 (by decide)).mpr h) (by decide))⟩

/-! ## Claims on the controller -/

/-- C18. Called with a catalog index that is not below the number of entries,
`SortPreparation` raises the `WideError` "找不到排序" and leaves the controller and
the globals as they were: `m_sortIndex` is not changed, the data generator is not
called and no pass is run, whatever the size asked for. -/
theorem SortPreparation_unknown_index (mt19937 : Nat → Nat → Nat) (vs : VisualSort)
    (sort_index_ data_size_ rand_device_ elapsed_ : Nat) (w : World)
    (h : sort_index_ ≥ vs.m_sorts.length) :
    vs.SortPreparation mt19937 sort_index_ data_size_ rand_device_ elapsed_ w =
      (.error (.wideError ⟨"找不到排序"⟩), vs, w) := by
  unfold VisualSort.SortPreparation
  rw [if_pos h]

theorem SortPreparation_unknown_index_witness :
    VisualSort.SortPreparation (fun seed k => seed + k)
      { m_initDataFunc := VisualSort.defaultInitDataFunc, m_sorts := [bubbleSortEntry] }
      1 3 5 1000 {} =
      (.error (.wideError ⟨"找不到排序"⟩),
        { m_initDataFunc := VisualSort.defaultInitDataFunc, m_sorts := [bubbleSortEntry] }, {}) :=
  SortPreparation_unknown_index (fun seed k => seed + k)
    { m_initDataFunc := VisualSort.defaultInitDataFunc, m_sorts := [bubbleSortEntry] }
    1 3 5 1000 {} (by decide)

/-- C19. With the sizes of the source and of the strips equal, no cancellation
requested and every pause ending, `CheckData` returns a verdict that is true
exactly when the value of every strip equals the element of the same index of
the stable-sorted source, and leaves every strip with the colour `GREEN` when
the two are equal and `RED` otherwise, its other members unchanged; with the
sizes different it opens one error dialog and returns false, the strips and the
drawing record unchanged. -/
theorem CheckData_verdict (vs : VisualSort) (w : World) (sort : SortDescriptor)
    (hsort : vs.current = .ok sort) (hc : w.NoCancel) (hp : w.PauseEnds) :
    (vs.m_sourceData.length = vs.m_stripSortData.length →
      ∃ verdict vs' w', vs.CheckData w = (.ok verdict, vs', w') ∧
        (verdict = true ↔ ∀ i : Nat, i < vs.m_stripSortData.length →
          (vs.m_stripSortData[i]?).map Strip.GetValue = (sortedCopy vs.m_sourceData)[i]?) ∧
        vs'.m_stripSortData =
          List.zipWith
            (fun strip v => strip.SetColor (if strip.GetValue = v then GREEN else RED))
            vs.m_stripSortData (sortedCopy vs.m_sourceData)) ∧
    (vs.m_sourceData.length ≠ vs.m_stripSortData.length →
      vs.CheckData w = (.ok false, vs.RunErrorWindow ["排序结果的样本大小不正确"], w)) := by
  constructor
  · intro hl
    have hl' : vs.m_stripSortData.length = (sortedCopy vs.m_sourceData).length := by
      rw [sortedCopy_length]; exact hl.symm
    obtain ⟨w', e⟩ := compare_result vs.m_stripSortData (sortedCopy vs.m_sourceData) true w hl'
      hc hp
    unfold VisualSort.CheckData
    rw [if_neg (by rw [hl]; exact fun h => h rfl), e]
    unfold VisualSort.CheckData.leave
    have hcur : ({ vs with m_sourceData := sortedCopy vs.m_sourceData } : VisualSort).current
        = .ok sort := hsort
    simp only [hcur]
    refine ⟨_, _, _, rfl, ?_, rfl⟩
    rw [Bool.true_and, decide_eq_true_iff]
    exact values_eq_iff _ _ hl'
  · intro hl
    unfold VisualSort.CheckData
    rw [if_pos hl]

theorem CheckData_verdict_witness :
    (([2, 1] : List Int).length = ([⟨1, 0, 400, 300, 0, true⟩, ⟨3, 400, 800, 133, 0, true⟩] :
        List Strip).length →
      ∃ verdict vs' w',
        VisualSort.CheckData
          { m_sourceData := [2, 1], m_initDataFunc := VisualSort.defaultInitDataFunc,
            m_stripSortData := [⟨1, 0, 400, 300, 0, true⟩, ⟨3, 400, 800, 133, 0, true⟩],
            m_sortIndex := some 0, m_sorts := [bubbleSortEntry] } {} = (.ok verdict, vs', w') ∧
        (verdict = true ↔ ∀ i : Nat,
          i < ([⟨1, 0, 400, 300, 0, true⟩, ⟨3, 400, 800, 133, 0, true⟩] : List Strip).length →
          (([⟨1, 0, 400, 300, 0, true⟩, ⟨3, 400, 800, 133, 0, true⟩] : List Strip)[i]?).map
            Strip.GetValue = (sortedCopy [2, 1])[i]?) ∧
        vs'.m_stripSortData =
          List.zipWith
            (fun (strip : Strip) (v : Int) =>
              strip.SetColor (if strip.GetValue = v then GREEN else RED))
            [⟨1, 0, 400, 300, 0, true⟩, ⟨3, 400, 800, 133, 0, true⟩] (sortedCopy [2, 1])) ∧
    (([2, 1] : List Int).length ≠ ([⟨1, 0, 400, 300, 0, true⟩, ⟨3, 400, 800, 133, 0, true⟩] :
        List Strip).length →
      VisualSort.CheckData
          { m_sourceData := [2, 1], m_initDataFunc := VisualSort.defaultInitDataFunc,
            m_stripSortData := [⟨1, 0, 400, 300, 0, true⟩, ⟨3, 400, 800, 133, 0, true⟩],
            m_sortIndex := some 0, m_sorts := [bubbleSortEntry] } {} =
        (.ok false,
          VisualSort.RunErrorWindow
            { m_sourceData := [2, 1], m_initDataFunc := VisualSort.defaultInitDataFunc,
              m_stripSortData := [⟨1, 0, 400, 300, 0, true⟩, ⟨3, 400, 800, 133, 0, true⟩],
              m_sortIndex := some 0, m_sorts := [bubbleSortEntry] }
            ["排序结果的样本大小不正确"], {})) :=
  CheckData_verdict
    { m_sourceData := [2, 1], m_initDataFunc := VisualSort.defaultInitDataFunc,
      m_stripSortData := [⟨1, 0, 400, 300, 0, true⟩, ⟨3, 400, 800, 133, 0, true⟩],
      m_sortIndex := some 0, m_sorts := [bubbleSortEntry] } {} bubbleSortEntry rfl
    (by decide) (by decide)

/-- C20. `Shuffle` with the same seed leaves the same value order in a vector of
`int`, of `Counter` and of `Strip` that hold the same values: on `int` it
returns the same vector `ints` whatever the globals (so two applications to
equal inputs agree) and leaves the globals alone; on `Counter` it returns with
the values `ints`; on `Strip` it returns with the values `ints` when no
cancellation is requested, every pause ends and the scale `s_maxValue` is not
zero. In a call of `SortPreparation`, with the shuffle shown or not, every pass
that is started is started on one and the same value sequence, the shuffle of
the generated data. -/
theorem Shuffle_same_order (mt19937 : Nat → Nat → Nat) (rand_device_ : Nat) (data_ : List Int)
    (counters : List Counter) (strips : List Strip) (w wc ws : World) (vs : VisualSort)
    (sort_index_ data_size_ elapsed_ : Nat)
    (hcounters : counters.map (fun c => c.m_value) = data_)
    (hstrips : strips.map (fun s => s.m_value) = data_) (hruns : ws.Runs) :
    ∃ ints : List Int,
      VisualSort.Shuffle mt19937 intOps data_ rand_device_ w = (.ok (), ints, w) ∧
      VisualSort.Shuffle mt19937 intOps data_ rand_device_ wc = (.ok (), ints, wc) ∧
      (∃ cs wc', VisualSort.Shuffle mt19937 counterOps counters rand_device_ wc = (.ok (), cs, wc') ∧
        cs.map (fun c => c.m_value) = ints) ∧
      (∃ ss ws', VisualSort.Shuffle mt19937 stripOps strips rand_device_ ws = (.ok (), ss, ws') ∧
        ss.map (fun s => s.m_value) = ints) ∧
      ∃ new : List Call,
        (vs.SortPreparation mt19937 sort_index_ data_size_ rand_device_ elapsed_ w).2.1.calls =
          vs.calls ++ new ∧
        ∀ a ∈ new.filterMap Call.passInput,
          (∀ b ∈ new.filterMap Call.passInput, a = b) ∧
          ∀ D, vs.m_initDataFunc data_size_ vs.m_sourceData = .ok D →
            a = (VisualSort.Shuffle mt19937 intOps D rand_device_ w).2.1 := by
  refine ⟨(VisualSort.Shuffle mt19937 intOps data_ rand_device_ w).2.1,
    (shuffle_int mt19937 data_ rand_device_ w w).1,
    (shuffle_int mt19937 data_ rand_device_ wc w).1, ?_, ?_, ?_⟩
  · have h := shuffle_counter mt19937 counters rand_device_ wc w
    rw [hcounters] at h
    generalize VisualSort.Shuffle mt19937 counterOps counters rand_device_ wc = r at h
    obtain ⟨r1, cs, wc'⟩ := r
    obtain ⟨h1, h2⟩ := h
    simp only at h1 h2
    subst h1
    exact ⟨cs, wc', rfl, h2⟩
  · have h1 := (shuffle_strip_runs mt19937 strips rand_device_ ws hruns).1
    have h2 := shuffle_strip_values mt19937 strips rand_device_ ws w h1
    rw [hstrips] at h2
    generalize VisualSort.Shuffle mt19937 stripOps strips rand_device_ ws = r at h1 h2
    obtain ⟨r1, ss, ws'⟩ := r
    simp only at h1 h2
    subst h1
    exact ⟨ss, ws', rfl, h2⟩
  · obtain ⟨V, ⟨new, h1, h2⟩, h3⟩ := SortPreparation_feeds mt19937 vs sort_index_ data_size_
      rand_device_ elapsed_ w
    refine ⟨new, h1, ?_⟩
    intro a ha
    obtain ⟨x, hx, hxa⟩ := List.mem_filterMap.mp ha
    refine ⟨?_, ?_⟩
    · intro b hb
      obtain ⟨y, hy, hyb⟩ := List.mem_filterMap.mp hb
      rw [h2 x hx a hxa, h2 y hy b hyb]
    · intro D hD
      rw [h2 x hx a hxa]
      exact h3 D hD

theorem Shuffle_same_order_witness :
    ∃ ints : List Int,
      VisualSort.Shuffle (fun seed k => seed + k) intOps [3, 1, 2] 5 {} = (.ok (), ints, {}) ∧
      VisualSort.Shuffle (fun seed k => seed + k) intOps [3, 1, 2] 5 { ActualStepNum := 7 } =
        (.ok (), ints, { ActualStepNum := 7 }) ∧
      (∃ cs wc', VisualSort.Shuffle (fun seed k => seed + k) counterOps
          [⟨3, true⟩, ⟨1, true⟩, ⟨2, true⟩] 5 { ActualStepNum := 7 } = (.ok (), cs, wc') ∧
        cs.map (fun c => c.m_value) = ints) ∧
      (∃ ss ws', VisualSort.Shuffle (fun seed k => seed + k) stripOps
          [⟨3, 0, 266, 133, 16777215, true⟩, ⟨1, 266, 533, 444, 11513775, true⟩,
            ⟨2, 533, 800, 288, 14145495, true⟩] 5 { s_maxValue := 3 } = (.ok (), ss, ws') ∧
        ss.map (fun s => s.m_value) = ints) ∧
      ∃ new : List Call,
        (VisualSort.SortPreparation (fun seed k => seed + k)
          { m_initDataFunc := VisualSort.defaultInitDataFunc, m_sorts := [bubbleSortEntry],
            m_showShuffle := true } 0 3 5 1000 {}).2.1.calls =
          ([] : List Call) ++ new ∧
        ∀ a ∈ new.filterMap Call.passInput,
          (∀ b ∈ new.filterMap Call.passInput, a = b) ∧
          ∀ D, VisualSort.defaultInitDataFunc 3 [] = .ok D →
            a = (VisualSort.Shuffle (fun seed k => seed + k) intOps D 5 {}).2.1 :=
  Shuffle_same_order (fun seed k => seed + k) 5 [3, 1, 2] [⟨3, true⟩, ⟨1, true⟩, ⟨2, true⟩]
    [⟨3, 0, 266, 133, 16777215, true⟩, ⟨1, 266, 533, 444, 11513775, true⟩,
      ⟨2, 533, 800, 288, 14145495, true⟩] {} { ActualStepNum := 7 } { s_maxValue := 3 }
    { m_initDataFunc := VisualSort.defaultInitDataFunc, m_sorts := [bubbleSortEntry],
      m_showShuffle := true } 0 3 1000 rfl rfl (by decide)

/-! ## Statements on cancellation, the scope guard and the frame of the operators -/

/-- C27. The functions added with `AddBack` (and with `operator+=` and `Add`, which
call it) do not run in the order they were added but in the reverse order:
`ExecuteNow` and the destructor call the back of the deque first, so of the
functions `f1, ..., fn` the last one `fn` runs first and `f1` runs last. With two
functions that put the marks 1 and 2 on a record, the record reads 2, 1 after
the guard fired. -/
theorem ScopeGuard_AddBack_runs_newest_first :
    (∀ (σ : Type) (fs : List (CleanupFunction σ)) (s : σ),
      ((fs.foldl ScopeGuard.AddBack {}).ExecuteNow s).2 =
          fs.foldr (fun func t => func.call t) s ∧
        (fs.foldl ScopeGuard.AddBack {}).destroy s = fs.foldr (fun func t => func.call t) s ∧
        fs.foldl ScopeGuard.addAssign {} = fs.foldl ScopeGuard.AddBack {} ∧
        fs.foldl ScopeGuard.Add {} = fs.foldl ScopeGuard.AddBack {}) ∧
    (∀ ks record : List Nat,
      (((ks.map CleanupFunction.marks).foldl ScopeGuard.AddBack {}).ExecuteNow record).2 =
        record ++ ks.reverse) ∧
    ((({} : ScopeGuard (List Nat)).AddBack (CleanupFunction.marks 1)).AddBack
        (CleanupFunction.marks 2)).ExecuteNow [] = ({}, [2, 1]) := by
  refine ⟨fun σ fs s => ?_, fun ks record => ?_, rfl⟩
  · have h := AddBack_all fs ({} : ScopeGuard σ) rfl
    refine ⟨?_, ?_, ?_, ?_⟩
    · rw [ExecuteNow_spec, h]; simp
    · unfold ScopeGuard.destroy
      rw [ExecuteNow_spec, h]; simp
    · rfl
    · rfl
  · rw [ExecuteNow_spec, AddBack_all _ _ rfl]
    simpa using marks_foldr ks record

/-- C28. A function added with `AddFront` to an active guard is not executed before
the functions already queued but after all of them: `ExecuteNow` and the destructor
work from the back of the deque, and `AddFront` puts the function at the front.
With the marks 1 and 2 queued and 3 added with `AddFront`, the record reads
2, 1, 3 after the guard fired; of two functions added with `AddFront` the first
one added runs first. -/
theorem ScopeGuard_AddFront_runs_last :
    (∀ (σ : Type) (self : ScopeGuard σ) (func_ : CleanupFunction σ) (s : σ),
      self.m_active = true →
        ((self.AddFront func_).ExecuteNow s).2 = func_.call (self.ExecuteNow s).2 ∧
        (self.AddFront func_).destroy s = func_.call (self.destroy s)) ∧
    ((((({} : ScopeGuard (List Nat)).AddBack (CleanupFunction.marks 1)).AddBack
        (CleanupFunction.marks 2)).AddFront (CleanupFunction.marks 3)).ExecuteNow [] =
      ({}, [2, 1, 3])) ∧
    ((({} : ScopeGuard (List Nat)).AddFront (CleanupFunction.marks 1)).AddFront
        (CleanupFunction.marks 2)).ExecuteNow [] = ({}, [1, 2]) := by
  refine ⟨fun σ self func_ s h => ?_, rfl, rfl⟩
  have h1 : (self.AddFront func_).m_active = true := by simp [ScopeGuard.AddFront, h]
  have h2 : (self.AddFront func_).m_cleanupFunctions = func_ :: self.m_cleanupFunctions := by
    simp [ScopeGuard.AddFront, h]
  unfold ScopeGuard.destroy
  simp only [ExecuteNow_spec, h1, h2, h, List.foldr_cons, if_true, and_self]

/-- C22. When the third function of the current entry ends the animated pass with a
`WideError`, `RunStripSort` returns `false` in the state the pass ended in, and
the end of `SortPreparation` (`if (RunStripSort()) CheckData(); return true;`)
returns `true` in that same state, so `CheckData` is not run: the source data are
not sorted, no strip is recoloured and no verdict text is produced. The calls
recorded are the call of the pass alone when the message is `SortEndsPrematurely`
(no dialog), and the call of the pass followed by exactly one `RunErrorWindow`
with that message otherwise. -/
theorem RunStripSort_failure_skips_CheckData (self : VisualSort) (sort : SortDescriptor)
    (w w' : World) (data_ : List Strip) (message : String)
    (hsort : self.current = .ok sort)
    (hpass : sort.m_stripSortFunc self.m_stripSortData (VisualSort.RunStripSort.enter self w) =
      (.error (.wideError ⟨message⟩), data_, w')) :
    ∃ self' : VisualSort,
      self.RunStripSort w = (.ok false, self', w') ∧
      VisualSort.SortPreparation.last
          (VisualSort.SortPreparation.andThen (.ok true, self, w) VisualSort.RunStripSort) =
        (.ok true, self', w') ∧
      self'.m_sourceData = self.m_sourceData ∧
      self'.m_stripSortData = data_ ∧
      self'.calls = self.calls ++ (Call.stripSortFunc self.m_stripSortData ::
        if message = SortEndsPrematurely then [] else [Call.RunErrorWindow [message]]) ∧
      (∀ text, Call.resultSketch text ∉ self'.calls.drop self.calls.length) ∧
      (message = SortEndsPrematurely →
        ∀ messages, Call.RunErrorWindow messages ∉ self'.calls.drop self.calls.length) := by
  have hR : self.RunStripSort w = (.ok false,
      (if message ≠ SortEndsPrematurely then
        VisualSort.RunErrorWindow
          { VisualSort.record { self with m_updateMessageTime := 0,
                                          m_stripSortBeginTime :=
                                            (VisualSort.RunStripSort.enter self w).clock }
              (.stripSortFunc self.m_stripSortData) with m_stripSortData := data_ } [message]
      else
        { VisualSort.record { self with m_updateMessageTime := 0,
                                        m_stripSortBeginTime :=
                                          (VisualSort.RunStripSort.enter self w).clock }
            (.stripSortFunc self.m_stripSortData) with m_stripSortData := data_ }), w') := by
    simp only [VisualSort.RunStripSort, hsort, hpass, VisualSort.RunStripSort.leave]
  refine ⟨_, hR, ?_, ?_⟩
  · simp only [VisualSort.SortPreparation.andThen, hR, VisualSort.SortPreparation.last]
  · by_cases hm : message = SortEndsPrematurely
    · subst hm
      simp [VisualSort.record]
    · simp [VisualSort.record, VisualSort.RunErrorWindow, hm]

theorem RunStripSort_failure_skips_CheckData_witness :
    ∃ self' : VisualSort,
      VisualSort.RunStripSort (failingController Strip.cancelled) {} =
        (.ok false, self',
          VisualSort.RunStripSort.enter (failingController Strip.cancelled) {}) ∧
      VisualSort.SortPreparation.last
          (VisualSort.SortPreparation.andThen
            (.ok true, failingController Strip.cancelled, {}) VisualSort.RunStripSort) =
        (.ok true, self',
          VisualSort.RunStripSort.enter (failingController Strip.cancelled) {}) ∧
      self'.m_sourceData = (failingController Strip.cancelled).m_sourceData ∧
      self'.m_stripSortData = [] ∧
      self'.calls = (failingController Strip.cancelled).calls ++
        (Call.stripSortFunc (failingController Strip.cancelled).m_stripSortData ::
          if SortEndsPrematurely = SortEndsPrematurely then [] else
            [Call.RunErrorWindow [SortEndsPrematurely]]) ∧
      (∀ text, Call.resultSketch text ∉
        self'.calls.drop (failingController Strip.cancelled).calls.length) ∧
      (SortEndsPrematurely = SortEndsPrematurely →
        ∀ messages, Call.RunErrorWindow messages ∉
          self'.calls.drop (failingController Strip.cancelled).calls.length) :=
  RunStripSort_failure_skips_CheckData (failingController Strip.cancelled)
    (failingEntry Strip.cancelled) {} _ [] SortEndsPrematurely rfl rfl

/-- C30. Slot and liveness are a frame of the operators. Whatever the outcome
(normal return or failure), the assignments, the compound assignments, the
increments and decrements, `CopyWithoutSetColor`, `CopyValueAndColor`, the three
`swap` overloads and `SwapWithoutSetColor` leave `m_left`, `m_right` and
`m_notTemp` of each `Strip` they may write as they were; the right operand of
an assignment or copy is `const`. Every operator and swap of `Counter` leaves
`m_notTemp` as it was. Hence the passes instantiated here at the proxies
(`BubbleSort`, `Shuffle`, which exchange elements with `std::swap`) end with an
array whose elements hold, position by position, the slots and the liveness
they started with. -/
theorem operators_keep_slot_and_liveness :
    (∀ (self strip_ : Strip) (value_ : Int) (op : ArithOp) (w : World),
      (self.assignInt value_ w).2.1.slot = self.slot ∧
      (self.assign strip_ w).2.1.slot = self.slot ∧
      (self.assignSelf w).2.1.slot = self.slot ∧
      (self.compoundInt op value_ w).2.1.slot = self.slot ∧
      (self.compound op strip_ w).2.1.slot = self.slot ∧
      (self.preIncrement w).2.1.slot = self.slot ∧
      (self.postIncrement w).2.1.slot = self.slot ∧
      (self.preDecrement w).2.1.slot = self.slot ∧
      (self.postDecrement w).2.1.slot = self.slot ∧
      (self.CopyWithoutSetColor strip_ w).2.1.slot = self.slot ∧
      (self.CopyValueAndColor strip_ w).2.1.slot = self.slot ∧
      ((Strip.swap self strip_ w).2.1.1.slot = self.slot ∧
        (Strip.swap self strip_ w).2.1.2.slot = strip_.slot) ∧
      (Strip.swapStripInt self value_ w).2.1.1.slot = self.slot ∧
      (Strip.swapIntStrip value_ self w).2.1.2.slot = self.slot ∧
      ((Strip.SwapWithoutSetColor self strip_ w).2.1.1.slot = self.slot ∧
        (Strip.SwapWithoutSetColor self strip_ w).2.1.2.slot = strip_.slot)) ∧
    (∀ (self counter_ : Counter) (value_ : Int) (op : ArithOp) (w : World),
      (self.assignInt value_ w).1.m_notTemp = self.m_notTemp ∧
      (self.assign counter_ w).1.m_notTemp = self.m_notTemp ∧
      (self.compoundInt op value_ w).2.1.m_notTemp = self.m_notTemp ∧
      (self.compound op counter_ w).2.1.m_notTemp = self.m_notTemp ∧
      (self.preIncrement w).1.m_notTemp = self.m_notTemp ∧
      (self.postIncrement w).2.1.m_notTemp = self.m_notTemp ∧
      (self.preDecrement w).1.m_notTemp = self.m_notTemp ∧
      (self.postDecrement w).2.1.m_notTemp = self.m_notTemp ∧
      ((Counter.swap self counter_ w).1.1.m_notTemp = self.m_notTemp ∧
        (Counter.swap self counter_ w).1.2.m_notTemp = counter_.m_notTemp) ∧
      (Counter.swapCounterInt self value_ w).1.1.m_notTemp = self.m_notTemp ∧
      (Counter.swapIntCounter value_ self w).1.2.m_notTemp = self.m_notTemp) ∧
    (∀ (strips : List Strip) (w : World),
      (BubbleSort stripOps strips w).2.1.map Strip.slot = strips.map Strip.slot ∧
      ∀ (mt19937 : Nat → Nat → Nat) (rand_device_ : Nat),
        (VisualSort.Shuffle mt19937 stripOps strips rand_device_ w).2.1.map Strip.slot =
          strips.map Strip.slot) ∧
    ∀ (counters : List Counter) (w : World),
      (BubbleSort counterOps counters w).2.1.map (fun c => c.m_notTemp) =
        counters.map (fun c => c.m_notTemp) ∧
      ∀ (mt19937 : Nat → Nat → Nat) (rand_device_ : Nat),
        (VisualSort.Shuffle mt19937 counterOps counters rand_device_ w).2.1.map
            (fun c => c.m_notTemp) =
          counters.map (fun c => c.m_notTemp) := by
  refine ⟨fun self strip_ value_ op w => ?_, fun self counter_ value_ op w => ?_,
    fun strips w => ⟨?_, fun mt19937 rand_device_ => ?_⟩,
    fun counters w => ⟨?_, fun mt19937 rand_device_ => ?_⟩⟩
  · refine ⟨storedInt_slot _ _ _, storedStrip_slot _ _ _, assignSelf_slot _ _, ?_, ?_,
      storedInt_slot _ _ _, ?_, storedInt_slot _ _ _, ?_, copied_slot _ _ _, copied_slot _ _ _,
      swapped_slot _ SetTopAndColorAuto_slot _ _ _, swappedInt_slot _ _, swappedInt_slot _ _,
      swapped_slot _ SetTopAuto_slot _ _ _⟩
    · unfold Strip.compoundInt
      split
      · rfl
      · exact storedInt_slot _ _ _
    · unfold Strip.compound
      split
      · rfl
      · exact storedStrip_slot _ _ _
    · unfold Strip.postIncrement
      rw [returnOld_slot]
      exact storedInt_slot _ _ _
    · unfold Strip.postDecrement
      rw [returnOld_slot]
      exact storedInt_slot _ _ _
  · refine ⟨rfl, rfl, ?_, ?_, rfl, rfl, rfl, rfl, ⟨rfl, rfl⟩, rfl, rfl⟩
    · unfold Counter.compoundInt
      simp only
      split <;> rfl
    · unfold Counter.compound
      simp only
      split <;> rfl
  · exact BubbleSort_keeps stripOps Strip.slot Strip_stdSwap_slot Strip_stdSwapSelf_slot _ _
  · exact Shuffle_go_keeps stripOps Strip.slot Strip_stdSwap_slot Strip_stdSwapSelf_slot _ _ _ _ _
  · exact BubbleSort_keeps counterOps (fun c => c.m_notTemp) counterOps_keeps.1
      counterOps_keeps.2 _ _
  · exact Shuffle_go_keeps counterOps (fun c => c.m_notTemp) counterOps_keeps.1
      counterOps_keeps.2 _ _ _ _ _

/-- C21, amended. On the designated main thread with the pause flag clear, `StopSort`
raises `WideError(SortEndsPrematurely)` exactly when the exit flag is set and the
algorithm is not flagged multi-threaded, and otherwise returns at once. When the
algorithm is flagged multi-threaded `StopSort` raises nothing, whatever the
flags and the thread: the only way in which it does not return is a pause that
is never lifted. The same holds on every thread other than the main thread,
whatever the flags: there `StopSort` only waits for the pause to end, and
returns when it does. On the main thread of an algorithm that is not flagged
multi-threaded, once exit is requested `StopSort` raises the cancellation whether
or not the pause flag is set, and so does every operation that draws a live
strip: the comparisons, the conversion to `int`, the binary operators, the copy
constructor, the assignments, the compound assignments (when the built-in
operator is defined on the operands), the increments and decrements, the two
copy helpers and the swaps. The rescaling that precedes the drawing divides by
`s_maxValue`, which is taken to be nonzero as a 64-bit unsigned number. -/
theorem StopSort_raises_cancellation :
    (∀ w : World, w.thisThread = w.s_mainThreadId → w.s_stopStripSort = false →
      ((Strip.StopSort w).1 = .error Strip.cancelled ↔
        (w.s_exitStripSort = true ∧ w.s_isMulThreadSort = false)) ∧
      ((Strip.StopSort w).1 = .error Strip.cancelled ∨ Strip.StopSort w = (.ok (), w))) ∧
    (∀ w : World, w.s_isMulThreadSort = true →
      ∀ e, (Strip.StopSort w).1 = .error e → e = .pausedForever) ∧
    (∀ w : World, w.thisThread ≠ w.s_mainThreadId →
      (∀ e, (Strip.StopSort w).1 = .error e → e = .pausedForever) ∧
      (w.PauseEnds → (Strip.StopSort w).1 = .ok ())) ∧
    (∀ w : World, w.Cancelling → Strip.StopSort w = (.error Strip.cancelled, w)) ∧
    ∀ (w : World) (self strip_ : Strip) (value_ : Int) (cmp : CmpOp) (op : ArithOp),
      w.Cancelling → w.s_maxValue % 18446744073709551616 ≠ 0 → self.m_notTemp = true →
      ((self.compareInt cmp value_ w).1 = .error Strip.cancelled ∧
        (Strip.intCompare cmp value_ self w).1 = .error Strip.cancelled ∧
        (self.compare cmp strip_ w).1 = .error Strip.cancelled ∧
        (strip_.compare cmp self w).1 = .error Strip.cancelled ∧
        (self.toInt w).1 = .error Strip.cancelled ∧
        (self.arithInt op value_ w).1 = .error Strip.cancelled ∧
        (self.arith op strip_ w).1 = .error Strip.cancelled ∧
        (strip_.arith op self w).1 = .error Strip.cancelled ∧
        (Strip.copy self w).1 = .error Strip.cancelled) ∧
      ((self.assignInt value_ w).1 = .error Strip.cancelled ∧
        (self.assign strip_ w).1 = .error Strip.cancelled ∧
        (strip_.assign self w).1 = .error Strip.cancelled ∧
        (self.assignSelf w).1 = .error Strip.cancelled ∧
        (∀ v, op.eval self.m_value value_ = .ok v →
          (self.compoundInt op value_ w).1 = .error Strip.cancelled) ∧
        (∀ v, op.eval self.m_value strip_.m_value = .ok v →
          (self.compound op strip_ w).1 = .error Strip.cancelled) ∧
        (∀ v, op.eval strip_.m_value self.m_value = .ok v →
          (strip_.compound op self w).1 = .error Strip.cancelled)) ∧
      ((self.preIncrement w).1 = .error Strip.cancelled ∧
        (self.postIncrement w).1 = .error Strip.cancelled ∧
        (self.preDecrement w).1 = .error Strip.cancelled ∧
        (self.postDecrement w).1 = .error Strip.cancelled) ∧
      ((self.CopyWithoutSetColor strip_ w).1 = .error Strip.cancelled ∧
        (strip_.CopyWithoutSetColor self w).1 = .error Strip.cancelled ∧
        (self.CopyValueAndColor strip_ w).1 = .error Strip.cancelled ∧
        (strip_.CopyValueAndColor self w).1 = .error Strip.cancelled) ∧
      (Strip.swap self strip_ w).1 = .error Strip.cancelled ∧
      (Strip.swap strip_ self w).1 = .error Strip.cancelled ∧
      (Strip.swapStripInt self value_ w).1 = .error Strip.cancelled ∧
      (Strip.swapIntStrip value_ self w).1 = .error Strip.cancelled ∧
      (Strip.SwapWithoutSetColor self strip_ w).1 = .error Strip.cancelled ∧
      (Strip.SwapWithoutSetColor strip_ self w).1 = .error Strip.cancelled := by
  refine ⟨fun w hmain hstop => ?_, fun w hmul e he => StopSort_mul w hmul e he,
    fun w hw => StopSort_worker w hw,
    fun w h => StopSort_cancels w h, fun w self strip_ value_ cmp op h hs hl => ?_⟩
  · rw [StopSort_of_clear w hmain hstop]
    cases w.s_exitStripSort <;> cases w.s_isMulThreadSort <;> simp
  · refine ⟨reads_cancel self strip_ value_ cmp op w h hl,
      ⟨storedInt_cancels _ _ w h hs hl, storedStrip_cancels _ _ w h hs (Or.inl hl),
        storedStrip_cancels _ _ w h hs (Or.inr hl), assignSelf_cancels _ w h hs hl, ?_, ?_, ?_⟩,
      ⟨storedInt_cancels _ _ w h hs hl, ?_, storedInt_cancels _ _ w h hs hl, ?_⟩,
      ⟨copied_cancels _ _ w h hs (Or.inl hl), copied_cancels _ _ w h hs (Or.inr hl),
        copied_cancels _ _ w h hs (Or.inl hl), copied_cancels _ _ w h hs (Or.inr hl)⟩,
      swapped_cancels _ _ _ w h (fun x => SetTopAndColorAuto_ok x w hs) (Or.inl hl),
      swapped_cancels _ _ _ w h (fun x => SetTopAndColorAuto_ok x w hs) (Or.inr hl),
      swappedInt_cancels _ w h hs hl, swappedInt_cancels _ w h hs hl,
      swapped_cancels _ _ _ w h (fun x => SetTopAuto_ok x w hs) (Or.inl hl),
      swapped_cancels _ _ _ w h (fun x => SetTopAuto_ok x w hs) (Or.inr hl)⟩
    · intro v hv
      unfold Strip.compoundInt
      rw [hv]
      exact storedInt_cancels _ _ w h hs hl
    · intro v hv
      unfold Strip.compound
      rw [hv]
      exact storedStrip_cancels _ _ w h hs (Or.inl hl)
    · intro v hv
      unfold Strip.compound
      rw [hv]
      exact storedStrip_cancels _ _ w h hs (Or.inr hl)
    · unfold Strip.postIncrement Strip.preIncrement
      have := storedInt_cancels { self with m_value := wrapInt (self.m_value + 1) }
        StripChangeColor w h hs hl
      generalize Strip.storedInt { self with m_value := wrapInt (self.m_value + 1) }
        StripChangeColor w = r at this
      obtain ⟨r1, s1, w1⟩ := r
      simp only at this
      subst this
      rfl
    · unfold Strip.postDecrement Strip.preDecrement
      have := storedInt_cancels { self with m_value := wrapInt (self.m_value - 1) }
        StripChangeColor w h hs hl
      generalize Strip.storedInt { self with m_value := wrapInt (self.m_value - 1) }
        StripChangeColor w = r at this
      obtain ⟨r1, s1, w1⟩ := r
      simp only at this
      subst this
      rfl

theorem StopSort_raises_cancellation_witness :
    (Strip.compare .gt ⟨3, 0, 266, 133, 16777215, true⟩ ⟨1, 266, 533, 444, 11513775, true⟩
        cancellingWorld).1 = .error Strip.cancelled ∧
    (Strip.swap ⟨3, 0, 266, 133, 16777215, true⟩ ⟨1, 266, 533, 444, 11513775, true⟩
        cancellingWorld).1 = .error Strip.cancelled :=
  ⟨(StopSort_raises_cancellation.2.2.2.2 cancellingWorld ⟨3, 0, 266, 133, 16777215, true⟩
      ⟨1, 266, 533, 444, 11513775, true⟩ 0 .gt .add (by decide) (by decide) rfl).1.2.2.1,
    (StopSort_raises_cancellation.2.2.2.2 cancellingWorld ⟨3, 0, 266, 133, 16777215, true⟩
      ⟨1, 266, 533, 444, 11513775, true⟩ 0 .gt .add (by decide) (by decide) rfl).2.2.2.2.1⟩

/-- C25, amended. For a non-empty `data_` of size `n`, a canvas width `W` below `2^31` and a
scale that is not zero, the six-parameter `InitValues` builds `n` strips, and
strip `i` gets `m_left = ⌊i * W / n⌋` and `m_right = ⌊(i + 1) * W / n⌋`. Hence
`m_left ≤ m_right` for every strip, and `m_left < m_right` for every strip when
`n ≤ W`; in general a strip has `m_left < m_right` exactly when the two
quotients differ. -/
theorem InitValues_slot_bounds (data_ : List Int) (mul : Bool) (w : World) (first : Int)
    (rest : List Int) (hd : data_ = first :: rest) (hW : w.m_width < 2147483648)
    (hs : (Strip.InitValuesWith.scan (first, first) rest).2 % 18446744073709551616 ≠ 0) :
    ∃ (strips : List Strip) (w' : World),
      Strip.InitValuesWith data_ mul w = (.ok strips, w') ∧ strips.length = data_.length ∧
      ∀ (i : Nat) (s : Strip), strips[i]? = some s →
        s.m_left = ((i * w.m_width / data_.length : Nat) : Int) ∧
        s.m_right = (((i + 1) * w.m_width / data_.length : Nat) : Int) ∧
        s.m_left ≤ s.m_right ∧
        (data_.length ≤ w.m_width → s.m_left < s.m_right) ∧
        (s.m_left < s.m_right ↔
          i * w.m_width / data_.length < (i + 1) * w.m_width / data_.length) := by
  obtain ⟨strips, w', h1, h2, h3⟩ := InitValuesWith_slots data_ mul w first rest hd hW hs
  refine ⟨strips, w', h1, h2, fun i s hi => ?_⟩
  obtain ⟨e1, e2⟩ := h3 i s hi
  have hpos : 0 < data_.length := by rw [hd]; simp
  have hmono : i * w.m_width / data_.length ≤ (i + 1) * w.m_width / data_.length :=
    Nat.div_le_div_right (Nat.mul_le_mul_right _ (Nat.le_succ i))
  refine ⟨e1, e2, ?_, ?_, ?_⟩
  · rw [e1, e2]
    exact_mod_cast hmono
  · intro hn
    rw [e1, e2]
    have : i * w.m_width / data_.length + 1 ≤ (i + 1) * w.m_width / data_.length := by
      rw [← Nat.add_div_right _ hpos]
      apply Nat.div_le_div_right
      rw [Nat.add_mul, Nat.one_mul]
      exact Nat.add_le_add_left hn _
    exact_mod_cast this
  · rw [e1, e2]
    exact_mod_cast Iff.rfl

theorem InitValues_slot_bounds_witness :
    ∃ (strips : List Strip) (w' : World),
      Strip.InitValuesWith [3, 1, 2] false {} = (.ok strips, w') ∧
      strips.length = [(3 : Int), 1, 2].length ∧
      ∀ (i : Nat) (s : Strip), strips[i]? = some s →
        s.m_left = ((i * ({} : World).m_width / [(3 : Int), 1, 2].length : Nat) : Int) ∧
        s.m_right = (((i + 1) * ({} : World).m_width / [(3 : Int), 1, 2].length : Nat) : Int) ∧
        s.m_left ≤ s.m_right ∧
        ([(3 : Int), 1, 2].length ≤ ({} : World).m_width → s.m_left < s.m_right) ∧
        (s.m_left < s.m_right ↔
          i * ({} : World).m_width / [(3 : Int), 1, 2].length <
            (i + 1) * ({} : World).m_width / [(3 : Int), 1, 2].length) :=
  InitValues_slot_bounds [3, 1, 2] false {} 3 [1, 2] rfl (by decide) (by decide)

/-- C25, as stated, fails: of the strips built for the 801 values `1, ..., 801` on
the canvas of the default width 800, the first one has `m_left = m_right = 0`. -/
theorem InitValues_strip_without_width :
    ∃ (strips : List Strip) (w' : World) (s : Strip),
      Strip.InitValuesWith (ascendingData 800) false {} = (.ok strips, w') ∧
      (ascendingData 800).length = 801 ∧ ({} : World).m_width = 800 ∧
      strips[0]? = some s ∧ s.m_left = 0 ∧ s.m_right = 0 ∧ ¬ s.m_left < s.m_right := by
  have hs : (Strip.InitValuesWith.scan (1, 1)
      ((List.range 800).map fun (j : Nat) => (1 : Int) + 1 + (j : Int))).2 %
        18446744073709551616 ≠ 0 := by
    rw [scan_ascending 800 1 1 (le_refl _)]
    decide
  obtain ⟨strips, w', h1, h2, h3⟩ := InitValuesWith_slots (ascendingData 800) false {} 1 _ rfl
    (by decide) hs
  have hlen : (ascendingData 800).length = 801 := by simp [ascendingData]
  rw [hlen] at h2 h3
  have h0 : 0 < strips.length := by omega
  obtain ⟨e1, e2⟩ := h3 0 strips[0] (List.getElem?_eq_getElem h0)
  have hw : ({} : World).m_width = 800 := rfl
  rw [hw] at e1 e2
  norm_num at e1 e2
  refine ⟨strips, w', strips[0], h1, hlen, rfl, List.getElem?_eq_getElem h0, e1, e2, ?_⟩
  rw [e1, e2]
  decide

/-- C23. Pause is non-interfering. Take two states in which no exit is requested
(now or while the thread waits) and every pause is lifted, and which differ at
most in the pause flag, in what the interface thread will do to it, in the clock
and in `s_stripSortStopTime`. Then `StopSort`, `DrawStrip1`, `DrawStrip2` and
every operator and helper of `Strip` give, started in the one and in the other,
the same outcome (the same value or the same failure) and the same strips, and
they end in two states that are again related in this way: equal counters, equal
drawing calls, equal scale, every global equal except those four. Hence
`BubbleSort` and `Shuffle` instantiated at `Strip` end with the same strips and
with equal counters in the two runs. -/
theorem pause_is_non_interfering (w1 w2 : World) (h : PauseVariant w1 w2) :
    (∀ a b : World, PauseVariant a b →
      SameCounters a b ∧ a.events = b.events ∧ a.s_maxValue = b.s_maxValue ∧ a.core = b.core) ∧
    (SameRead (Strip.StopSort w1) (Strip.StopSort w2) ∧
      ∀ (self strip_ : Strip) (color1_ color2_ : COLORREF),
        SameRead (Strip.DrawStrip1 self color1_ w1) (Strip.DrawStrip1 self color1_ w2) ∧
        SameRead (Strip.DrawStrip2 self color1_ strip_ color2_ w1)
          (Strip.DrawStrip2 self color1_ strip_ color2_ w2)) ∧
    (∀ (self strip_ : Strip) (value_ : Int) (cmp : CmpOp) (op : ArithOp),
      SameRead (self.compareInt cmp value_ w1) (self.compareInt cmp value_ w2) ∧
      SameRead (Strip.intCompare cmp value_ self w1) (Strip.intCompare cmp value_ self w2) ∧
      SameRead (self.compare cmp strip_ w1) (self.compare cmp strip_ w2) ∧
      SameRead (self.toInt w1) (self.toInt w2) ∧
      SameRead (self.arithInt op value_ w1) (self.arithInt op value_ w2) ∧
      SameRead (self.arith op strip_ w1) (self.arith op strip_ w2) ∧
      SameRead (Strip.copy self w1) (Strip.copy self w2)) ∧
    (∀ (self strip_ : Strip) (value_ : Int) (op : ArithOp),
      SameWrite (self.assignInt value_ w1) (self.assignInt value_ w2) ∧
      SameWrite (self.assign strip_ w1) (self.assign strip_ w2) ∧
      SameWrite (self.assignSelf w1) (self.assignSelf w2) ∧
      SameWrite (self.compoundInt op value_ w1) (self.compoundInt op value_ w2) ∧
      SameWrite (self.compound op strip_ w1) (self.compound op strip_ w2) ∧
      SameWrite (self.preIncrement w1) (self.preIncrement w2) ∧
      SameWrite (self.postIncrement w1) (self.postIncrement w2) ∧
      SameWrite (self.preDecrement w1) (self.preDecrement w2) ∧
      SameWrite (self.postDecrement w1) (self.postDecrement w2) ∧
      SameWrite (self.CopyWithoutSetColor strip_ w1) (self.CopyWithoutSetColor strip_ w2) ∧
      SameWrite (self.CopyValueAndColor strip_ w1) (self.CopyValueAndColor strip_ w2) ∧
      SameWrite (Strip.swap self strip_ w1) (Strip.swap self strip_ w2) ∧
      SameWrite (Strip.swapStripInt self value_ w1) (Strip.swapStripInt self value_ w2) ∧
      SameWrite (Strip.swapIntStrip value_ self w1) (Strip.swapIntStrip value_ self w2) ∧
      SameWrite (Strip.SwapWithoutSetColor self strip_ w1)
        (Strip.SwapWithoutSetColor self strip_ w2) ∧
      SameWrite (Strip.stdSwap self strip_ w1) (Strip.stdSwap self strip_ w2) ∧
      SameWrite (Strip.stdSwapSelf self w1) (Strip.stdSwapSelf self w2)) ∧
    ∀ (strips : List Strip),
      (SameWrite (BubbleSort stripOps strips w1) (BubbleSort stripOps strips w2) ∧
        (BubbleSort stripOps strips w1).2.1.map (fun s => s.m_value) =
          (BubbleSort stripOps strips w2).2.1.map (fun s => s.m_value) ∧
        SameCounters (BubbleSort stripOps strips w1).2.2 (BubbleSort stripOps strips w2).2.2) ∧
      ∀ (mt19937 : Nat → Nat → Nat) (rand_device_ : Nat),
        SameWrite (VisualSort.Shuffle mt19937 stripOps strips rand_device_ w1)
          (VisualSort.Shuffle mt19937 stripOps strips rand_device_ w2) ∧
        SameCounters (VisualSort.Shuffle mt19937 stripOps strips rand_device_ w1).2.2
          (VisualSort.Shuffle mt19937 stripOps strips rand_device_ w2).2.2 := by
  refine ⟨fun a b hab => ?_, ⟨variant_StopSort h, fun self strip_ c1 c2 => ⟨?_, ?_⟩⟩,
    fun self strip_ value_ cmp op => ?_, fun self strip_ value_ op => ?_, fun strips => ?_⟩
  · obtain ⟨k1, k2, _, k4⟩ := variant_counters hab
    exact ⟨k1, k2, k4, hab.2.2.2.2⟩
  · obtain ⟨a1, a2, d1, d2, hv⟩ := variant_draw1 h self c1
    rw [d1, d2]
    exact ⟨rfl, hv⟩
  · obtain ⟨a1, a2, d1, d2, hv⟩ := variant_draw2 h self c1 strip_ c2
    rw [d1, d2]
    exact ⟨rfl, hv⟩
  · obtain ⟨r1, r2, r3, r4, r5, r6, r7⟩ := variant_reads h self strip_ value_ cmp op
    exact ⟨r1, r2, r3, r4, r5, r6, r7⟩
  · have hs := variant_swappedInt h { self with m_value := value_ }
    refine ⟨variant_storedInt h _ _, variant_assign h _ _, variant_assignSelf h _, ?_, ?_,
      variant_storedInt h _ _, returnOld_respects _ _ _ (variant_storedInt h _ _),
      variant_storedInt h _ _, returnOld_respects _ _ _ (variant_storedInt h _ _),
      variant_copied h _ _, variant_copied h _ _,
      variant_swapped h _ (fun x => (variant_rescale h x).1) _ _,
      ⟨hs.1, congrArg (fun s : Strip => (s, self.m_value)) hs.2.1, hs.2.2⟩,
      ⟨hs.1, congrArg (fun s : Strip => (self.m_value, s)) hs.2.1, hs.2.2⟩,
      variant_swapped h _ (fun x => (variant_rescale h x).2) _ _,
      variant_stdSwap h _ _, variant_stdSwapSelf h _⟩
    · unfold Strip.compoundInt
      split
      · exact ⟨rfl, rfl, h⟩
      · exact variant_storedInt h _ _
    · unfold Strip.compound
      split
      · exact ⟨rfl, rfl, h⟩
      · exact variant_storedStrip h _ _
  · have hb := BubbleSort_respects stripOps PauseVariant stripOps_respects strips w1 w2 h
    refine ⟨⟨hb, congrArg (List.map fun s => s.m_value) hb.2.1, (variant_counters hb.2.2).1⟩,
      fun mt19937 rand_device_ => ?_⟩
    have hs := Shuffle_go_respects stripOps PauseVariant stripOps_respects
      (mt19937 rand_device_) strips.length 0 strips w1 w2 h
    exact ⟨hs, (variant_counters hs.2.2).1⟩

theorem pause_is_non_interfering_witness :
    PauseVariant unpausedWorld pausedWorld ∧
    SameWrite
      (BubbleSort stripOps [⟨3, 0, 400, 133, 16777215, true⟩, ⟨1, 400, 800, 444, 11513775, true⟩]
        unpausedWorld)
      (BubbleSort stripOps [⟨3, 0, 400, 133, 16777215, true⟩, ⟨1, 400, 800, 444, 11513775, true⟩]
        pausedWorld) ∧
    (Strip.compare .gt ⟨3, 0, 400, 133, 16777215, true⟩ ⟨1, 400, 800, 444, 11513775, true⟩
        unpausedWorld).2.s_stripSortStopTime = 0 ∧
    (Strip.compare .gt ⟨3, 0, 400, 133, 16777215, true⟩ ⟨1, 400, 800, 444, 11513775, true⟩
        pausedWorld).2.s_stripSortStopTime = 20 :=
  ⟨by decide,
    ((pause_is_non_interfering unpausedWorld pausedWorld (by decide)).2.2.2.2
      [⟨3, 0, 400, 133, 16777215, true⟩, ⟨1, 400, 800, 444, 11513775, true⟩]).1.1,
    by decide, by decide⟩

/-- C29. The three instantiations of `RadixSort` end with the same values. For at
least two values of `int` (32-bit, so that `max - min` has at most 8 digits in
base 16 and `divNum` is at most `16 ^ 7` whenever it is read), held by live
counters and by live strips, with at least one bucket colour, no cancellation
requested, every pause ending and a nonzero scale: `RadixSort<int>`,
`RadixSort<Counter>` and `RadixSort<Strip>` all return, and the values they leave
are one and the same sequence, the sorted input. -/
theorem RadixSort_instantiations_agree (RadixSortBucketColor : List COLORREF)
    (values : List Int) (counters : List Counter) (strips : List Strip) (wc ws : World)
    (hlen : 2 ≤ values.length)
    (hint : ∀ a ∈ values, -2147483648 ≤ a ∧ a < 2147483648)
    (hcolors : RadixSortBucketColor ≠ [])
    (hcounters : counters.map (fun c => c.m_value) = values)
    (hstrips : strips.map (fun s => s.m_value) = values)
    (hcl : ∀ c ∈ counters, c.m_notTemp = true) (hsl : ∀ s ∈ strips, s.m_notTemp = true)
    (hruns : ws.Runs) :
    ∃ ints : List Int,
      NSortAlgorithms.RadixSort values = .ok ints ∧
      (∃ cs wc', RadixSortCounter counters wc = (.ok (), cs, wc') ∧
        cs.map (fun c => c.m_value) = ints) ∧
      (∃ ss ws', RadixSortStrip RadixSortBucketColor strips ws = (.ok (), ss, ws') ∧
        ss.map (fun s => s.m_value) = ints) ∧
      ints = sortedCopy values := by
  have hrange : ∀ a ∈ values, ∀ b ∈ values, a - b < 4294967296 := by
    intro a ha b hb
    have := hint a ha
    have := hint b hb
    omega
  subst hcounters
  have hlc : 2 ≤ counters.length := by simpa using hlen
  have hls : 2 ≤ strips.length := by
    have := congrArg List.length hstrips
    simp only [List.length_map] at this
    omega
  obtain ⟨cs, wc', c1, c2, _⟩ := RadixSortCounter_spec counters wc hlc hcl hrange
  obtain ⟨ss, ws', s1, s2, _⟩ := RadixSortStrip_spec RadixSortBucketColor hcolors strips ws hruns
    hls hsl (by rw [hstrips]; exact hrange)
  refine ⟨_, radix_within _ (by omega) hrange, ⟨cs, wc', c1, c2⟩, ⟨ss, ws', s1, ?_⟩, rfl⟩
  rw [s2, hstrips]

theorem RadixSort_instantiations_agree_witness :
    ∃ ints : List Int,
      NSortAlgorithms.RadixSort [2147483647, -2147483648, 5] = .ok ints ∧
      (∃ cs wc', RadixSortCounter [⟨2147483647, true⟩, ⟨-2147483648, true⟩, ⟨5, true⟩] {} =
          (.ok (), cs, wc') ∧
        cs.map (fun c => c.m_value) = ints) ∧
      (∃ ss ws', RadixSortStrip [255, 16711680]
          [⟨2147483647, 0, 266, 133, 16777215, true⟩, ⟨-2147483648, 266, 533, 444, 11513775, true⟩,
            ⟨5, 533, 800, 288, 14145495, true⟩] { s_maxValue := 2147483647 } =
          (.ok (), ss, ws') ∧
        ss.map (fun s => s.m_value) = ints) ∧
      ints = sortedCopy [2147483647, -2147483648, 5] :=
  RadixSort_instantiations_agree [255, 16711680] [2147483647, -2147483648, 5]
    [⟨2147483647, true⟩, ⟨-2147483648, true⟩, ⟨5, true⟩]
    [⟨2147483647, 0, 266, 133, 16777215, true⟩, ⟨-2147483648, 266, 533, 444, 11513775, true⟩,
      ⟨5, 533, 800, 288, 14145495, true⟩] {} { s_maxValue := 2147483647 } (by decide)
    (by decide) (by decide) rfl rfl (by decide) (by decide) (by decide)

/-- C24. `RadixSort<Strip>` started with `AnimationStepNum = 0` and
`RadixSort<Counter>` started with `ActualStepNum = 0`, on the same values (at
least two values of 32-bit `int`, all elements live, at least one bucket
colour, no cancellation requested, every pause ending, nonzero scale), both
return, and the final `AnimationStepNum` equals the final `ActualStepNum`, which
is not zero: `AnimationStepNum * 100 / ActualStepNum = 100`. The strip pass leaves
`ActualStepNum` alone, so when it starts from the total of the counting pass, the
progress that `UpdateLastMessage` computes at the end is 100 with decimal 0
(for fewer than `2 ^ 32` values, so that the 64-bit products do not wrap).
During the run: every instrumented operation that the strip pass performs and
every stage of it, from any state and whether it returns or throws, leaves
`AnimationStepNum` at least as large and `ActualStepNum` unchanged, and between
two such states the percentage that `UpdateLastMessage` computes does not go
down, as long as the product `AnimationStepNum * 100` does not wrap. -/
theorem RadixSort_progress_reaches_100 (RadixSortBucketColor : List COLORREF)
    (values : List Int) (counters : List Counter) (strips : List Strip) (wc ws : World)
    (hlen : 2 ≤ values.length)
    (hint : ∀ a ∈ values, -2147483648 ≤ a ∧ a < 2147483648)
    (hcolors : RadixSortBucketColor ≠ [])
    (hcounters : counters.map (fun c => c.m_value) = values)
    (hstrips : strips.map (fun s => s.m_value) = values)
    (hcl : ∀ c ∈ counters, c.m_notTemp = true) (hsl : ∀ s ∈ strips, s.m_notTemp = true)
    (hruns : ws.Runs) (hanimation : ws.AnimationStepNum = 0) (hactual : wc.ActualStepNum = 0) :
    (∃ cs wc' ss ws',
      RadixSortCounter counters wc = (.ok (), cs, wc') ∧
      RadixSortStrip RadixSortBucketColor strips ws = (.ok (), ss, ws') ∧
      ws'.AnimationStepNum = wc'.ActualStepNum ∧
      0 < wc'.ActualStepNum ∧
      ws'.AnimationStepNum * 100 / wc'.ActualStepNum = 100 ∧
      ws'.ActualStepNum = ws.ActualStepNum ∧
      (ws.ActualStepNum = wc'.ActualStepNum → values.length < 4294967296 →
        ∀ self : VisualSort, ∃ t, self.progress ws' = .ok (t, 100, 0))) ∧
    (∀ (x it : Strip) (cmp : CmpOp) (v : Int) (color : COLORREF) (u : World),
      u.Grows (x.compareInt cmp v u).2 ∧ u.Grows (x.toInt u).2 ∧ u.Grows (Strip.copy x u).2 ∧
      u.Grows (RadixSortStrip.mark x color u).2.2 ∧ u.Grows (x.CopyValueAndColor it u).2.2) ∧
    (∀ (data_ dataQueue : List Strip) (bucket : List (List Strip)) (maxValue minValue divNum : Int)
        (k : Nat) (u : World),
      u.Grows (RadixSortStrip.scan data_ maxValue minValue u).2 ∧
      u.Grows (RadixSortStrip.first RadixSortBucketColor minValue data_ bucket u).2.2 ∧
      u.Grows (RadixSortStrip.copyDataFromQueue dataQueue data_ u).2.2 ∧
      u.Grows (RadixSortStrip.scatter RadixSortBucketColor minValue divNum dataQueue data_
        bucket u).2.2 ∧
      u.Grows (RadixSortStrip.passes RadixSortBucketColor minValue k divNum dataQueue bucket
        data_ u).2.2 ∧
      u.Grows (RadixSortStrip RadixSortBucketColor data_ u).2.2) ∧
    ∀ (self : VisualSort) (u u' : World) (p p' : Nat × Nat × Nat),
      u.Grows u' → u'.AnimationStepNum * 100 < 18446744073709551616 →
      self.progress u = .ok p → self.progress u' = .ok p' → p.2.1 ≤ p'.2.1 := by
  have hrange : ∀ a ∈ values, ∀ b ∈ values, a - b < 4294967296 := by
    intro a ha b hb
    have := hint a ha
    have := hint b hb
    omega
  refine ⟨?_, ?_, ?_, ?_⟩
  · have hb := radixSteps_bounds values hlen hrange
    subst hcounters
    have hlc : 2 ≤ counters.length := by simpa using hlen
    have hls : 2 ≤ strips.length := by
      have := congrArg List.length hstrips
      simp only [List.length_map] at this
      omega
    obtain ⟨cs, wc', c1, _, c3⟩ := RadixSortCounter_spec counters wc hlc hcl hrange
    obtain ⟨ss, ws', s1, _, s3⟩ := RadixSortStrip_spec RadixSortBucketColor hcolors strips ws
      hruns hls hsl (by rw [hstrips]; exact hrange)
    obtain ⟨_, s4, s5⟩ := s3
    rw [hstrips, hanimation, Nat.zero_add] at s4
    rw [hactual, Nat.zero_add] at c3
    have heq : ws'.AnimationStepNum = wc'.ActualStepNum := by rw [s4, c3]
    have hpos : 0 < wc'.ActualStepNum := by omega
    refine ⟨cs, wc', ss, ws', c1, s1, heq, hpos, ?_, s5, ?_⟩
    · rw [heq]
      exact Nat.mul_div_cancel_left _ hpos
    · intro hsame hsize self
      have hN : ws'.ActualStepNum = wc'.ActualStepNum := by rw [s5, hsame]
      simp only [List.length_map] at hb hsize
      exact ⟨_, progress_full self ws' (by rw [heq, hN]) (by omega) (by omega)⟩
  · intro x it cmp v color u
    exact ⟨grows_compareInt cmp x v u, grows_toInt x u, grows_copy x u, grows_mark x color u,
      grows_copyValue x it u⟩
  · intro data_ dataQueue bucket maxValue minValue divNum k u
    exact ⟨grows_scan data_ maxValue minValue u, grows_first _ _ _ _ _, grows_copyData _ _ _,
      grows_scatter _ _ _ _ _ _ _, grows_passes _ _ _ _ _ _ _ _, grows_RadixSortStrip _ _ _⟩
  · intro self u u' p p' h hsmall hp hp'
    exact progress_mono self u u' p p' h hsmall hp hp'

theorem RadixSort_progress_reaches_100_witness :
    ∃ cs wc' ss ws',
      RadixSortCounter [⟨2147483647, true⟩, ⟨-2147483648, true⟩, ⟨5, true⟩] {} =
        (.ok (), cs, wc') ∧
      RadixSortStrip [255, 16711680]
        [⟨2147483647, 0, 266, 133, 16777215, true⟩, ⟨-2147483648, 266, 533, 444, 11513775, true⟩,
          ⟨5, 533, 800, 288, 14145495, true⟩] { s_maxValue := 2147483647 } =
        (.ok (), ss, ws') ∧
      ws'.AnimationStepNum = wc'.ActualStepNum ∧
      0 < wc'.ActualStepNum ∧
      ws'.AnimationStepNum * 100 / wc'.ActualStepNum = 100 := by
  obtain ⟨cs, wc', ss, ws', h1, h2, h3, h4, h5, _⟩ :=
    (RadixSort_progress_reaches_100 [255, 16711680] [2147483647, -2147483648, 5]
      [⟨2147483647, true⟩, ⟨-2147483648, true⟩, ⟨5, true⟩]
      [⟨2147483647, 0, 266, 133, 16777215, true⟩, ⟨-2147483648, 266, 533, 444, 11513775, true⟩,
        ⟨5, 533, 800, 288, 14145495, true⟩] {} { s_maxValue := 2147483647 } (by decide)
      (by decide) (by decide) rfl rfl (by decide) (by decide) (by decide) rfl rfl).1
  exact ⟨cs, wc', ss, ws', h1, h2, h3, h4, h5⟩

/-- C39. Canonical form of `Fraction`, with `long long` taken as unbounded. The
integer constructor, the pair constructors (which return for a nonzero
denominator), and, on operands whose denominator is not zero, unary minus,
`SetNumerator`, `SetDenominator`, `Reciprocal`, the operators `+=`, `-=`, `*=`,
`/=` and the binary `+`, `-`, `*`, `/`, whenever they return, return a fraction
with a positive denominator that has no common factor with the numerator. A
fraction in this form whose numerator is zero is `0/1`. On fractions in this
form `operator==` holds exactly when the two denote the same rational. -/
theorem Fraction_canonical_form :
    (∀ n : Int, (Fraction.ofInt n).Canonical) ∧
    (∀ n d : Int, d ≠ 0 →
      (∃ f, Fraction.ctor2 n d = .ok f ∧ f.Canonical) ∧
      ∃ f, Fraction.ofPair (n, d) = .ok f ∧ f.Canonical) ∧
    (∀ a b : Fraction, a.m_denominator ≠ 0 → b.m_denominator ≠ 0 →
      (∃ f, a.neg = .ok f ∧ f.Canonical) ∧
      (∀ n : Int, (a.SetNumerator n).Canonical) ∧
      (∀ d : Int, d ≠ 0 → ∃ f, a.SetDenominator d = .ok f ∧ f.Canonical) ∧
      (a.m_numerator ≠ 0 → ∃ f, a.Reciprocal = .ok f ∧ f.Canonical) ∧
      (a.addAssign b).Canonical ∧ (a.subAssign b).Canonical ∧ (a.mulAssign b).Canonical ∧
      (b.m_numerator ≠ 0 → ∃ f, a.divAssign b = .ok f ∧ f.Canonical) ∧
      (a.add b).Canonical ∧ (a.sub b).Canonical ∧ (a.mul b).Canonical ∧
      (b.m_numerator ≠ 0 → ∃ f, a.div b = .ok f ∧ f.Canonical)) ∧
    (∀ f : Fraction, f.Canonical → f.m_numerator = 0 → f = ⟨0, 1⟩) ∧
    (∀ a b : Fraction, a.Canonical → b.Canonical → (a.eq b = true ↔ a.toRat = b.toRat)) := by
  have hctor : ∀ n d : Int, d ≠ 0 → ∃ f, Fraction.ctor2 n d = .ok f ∧ f.Canonical := by
    intro n d hd
    unfold Fraction.ctor2
    rw [if_neg hd]
    exact ⟨_, rfl, Reduce_canonical _ hd⟩
  have hadd : ∀ a b : Fraction, a.m_denominator ≠ 0 → b.m_denominator ≠ 0 →
      (a.addAssign b).Canonical := by
    intro a b ha hb
    unfold Fraction.addAssign
    exact Reduce_canonical _ (lcm_cast_ne _ _ ha hb)
  have hsub : ∀ a b : Fraction, a.m_denominator ≠ 0 → b.m_denominator ≠ 0 →
      (a.subAssign b).Canonical := by
    intro a b ha hb
    unfold Fraction.subAssign
    exact Reduce_canonical _ (lcm_cast_ne _ _ ha hb)
  have hmul : ∀ a b : Fraction, a.m_denominator ≠ 0 → b.m_denominator ≠ 0 →
      (a.mulAssign b).Canonical := by
    intro a b ha hb
    unfold Fraction.mulAssign
    exact Reduce_canonical _ (mul_ne_zero ha hb)
  have hdiv : ∀ a b : Fraction, a.m_denominator ≠ 0 → b.m_denominator ≠ 0 →
      b.m_numerator ≠ 0 → ∃ f, a.divAssign b = .ok f ∧ f.Canonical := by
    intro a b ha hb hn
    obtain ⟨q, h1, _, h2, _⟩ := divAssign_toRat a b ha hb hn
    exact ⟨q, h1, h2⟩
  refine ⟨ofInt_canonical, fun n d hd => ⟨hctor n d hd, hctor n d hd⟩, ?_, canonical_zero, ?_⟩
  · intro a b ha hb
    refine ⟨?_, ?_, ?_, ?_, hadd a b ha hb, hsub a b ha hb, hmul a b ha hb, hdiv a b ha hb,
      hadd a b ha hb, hsub a b ha hb, hmul a b ha hb, hdiv a b ha hb⟩
    · obtain ⟨f, h1, h2⟩ := hctor (-a.m_numerator) a.m_denominator ha
      unfold Fraction.neg
      rw [h1]
      exact ⟨f, rfl, h2⟩
    · intro n
      unfold Fraction.SetNumerator
      exact Reduce_canonical _ ha
    · intro d hd
      unfold Fraction.SetDenominator
      rw [if_neg hd]
      exact ⟨_, rfl, Reduce_canonical _ hd⟩
    · intro hn
      exact hctor _ _ hn
  · intro a b ha hb
    rw [Fraction_eq_iff]
    constructor
    · intro h
      rw [h]
    · exact canonical_unique a b ha hb

theorem Fraction_canonical_form_witness :
    (Fraction.addAssign ⟨1, 6⟩ ⟨1, 3⟩ = ⟨1, 2⟩ ∧ (⟨1, 2⟩ : Fraction).Canonical) ∧
    (Fraction.eq ⟨1, 2⟩ ⟨1, 2⟩ = true ↔ Fraction.toRat ⟨1, 2⟩ = Fraction.toRat ⟨1, 2⟩) :=
  ⟨⟨by decide, by decide⟩,
    Fraction_canonical_form.2.2.2.2 ⟨1, 2⟩ ⟨1, 2⟩ (by decide) (by decide)⟩

/-- C40. `Fraction` arithmetic is exact, with `long long` taken as unbounded. For
fractions `a`, `b` with positive denominators, read as the rationals
`numerator / denominator`: `a + b`, `a - b` and `a * b` denote the sum, the
difference and the product and have a positive denominator again; `a / b`
returns the quotient when `b` is not zero and raises the `WideError` "除以0" when
it is zero; `Fraction(n, 0)` raises the `WideError` "分母不能为0" and `Fraction(n, d)`
with `d ≠ 0` denotes `n / d`; the conversion to `long long` gives the rational
cut toward zero, and so does the conversion to `int` when that number is in the
range of `int`. -/
theorem Fraction_arithmetic_exact (a b : Fraction) (ha : 0 < a.m_denominator)
    (hb : 0 < b.m_denominator) :
    ((a.add b).toRat = a.toRat + b.toRat ∧ 0 < (a.add b).m_denominator) ∧
    ((a.sub b).toRat = a.toRat - b.toRat ∧ 0 < (a.sub b).m_denominator) ∧
    ((a.mul b).toRat = a.toRat * b.toRat ∧ 0 < (a.mul b).m_denominator) ∧
    (b.toRat = 0 ↔ b.m_numerator = 0) ∧
    (b.toRat ≠ 0 →
      ∃ q, a.div b = .ok q ∧ q.toRat = a.toRat / b.toRat ∧ 0 < q.m_denominator) ∧
    (b.toRat = 0 → a.div b = .error (.wideError ⟨"除以0"⟩)) ∧
    (∀ n : Int, Fraction.ctor2 n 0 = .error (.wideError ⟨"分母不能为0"⟩)) ∧
    (∀ n d : Int, d ≠ 0 →
      ∃ f, Fraction.ctor2 n d = .ok f ∧ f.toRat = (n : ℚ) / d ∧ 0 < f.m_denominator) ∧
    a.toLongLong = .ok (truncRat a.toRat) ∧
    (-2147483648 ≤ truncRat a.toRat → truncRat a.toRat < 2147483648 →
      a.toInt = .ok (truncRat a.toRat)) := by
  have ha' := ha.ne'
  have hb' := hb.ne'
  have hzero : b.toRat = 0 ↔ b.m_numerator = 0 := by
    unfold Fraction.toRat
    have : (b.m_denominator : ℚ) ≠ 0 := by exact_mod_cast hb'
    rw [div_eq_zero_iff]
    constructor
    · rintro (h | h)
      · exact_mod_cast h
      · exact absurd h this
    · intro h
      left
      exact_mod_cast h
  have htr : a.m_numerator.tdiv a.m_denominator = truncRat a.toRat :=
    tdiv_truncRat _ _ ha
  refine ⟨⟨addAssign_toRat a b ha' hb', ?_⟩, ⟨subAssign_toRat a b ha' hb', ?_⟩,
    ⟨mulAssign_toRat a b ha' hb', ?_⟩, hzero, ?_, ?_, ?_, ?_, ?_, ?_⟩
  · unfold Fraction.add Fraction.addAssign
    exact (Reduce_canonical _ (lcm_cast_ne _ _ ha' hb')).1
  · unfold Fraction.sub Fraction.subAssign
    exact (Reduce_canonical _ (lcm_cast_ne _ _ ha' hb')).1
  · unfold Fraction.mul Fraction.mulAssign
    exact (Reduce_canonical _ (mul_ne_zero ha' hb')).1
  · intro hn
    obtain ⟨q, h1, _, h2, h3⟩ := divAssign_toRat a b ha' hb' (fun h => hn (hzero.mpr h))
    exact ⟨q, h1, h3, h2.1⟩
  · intro hz
    unfold Fraction.div Fraction.divAssign
    rw [if_pos (hzero.mp hz)]
  · intro n
    rfl
  · intro n d hd
    unfold Fraction.ctor2
    rw [if_neg hd]
    exact ⟨_, rfl, Reduce_toRat _ hd, (Reduce_canonical _ hd).1⟩
  · unfold Fraction.toLongLong
    rw [if_neg ha', htr]
  · intro h1 h2
    unfold Fraction.toInt
    rw [if_neg ha', htr, wrapInt_small _ h1 h2]

theorem Fraction_arithmetic_exact_witness :
    (Fraction.add ⟨1, 2⟩ ⟨1, 3⟩).toRat = Fraction.toRat ⟨1, 2⟩ + Fraction.toRat ⟨1, 3⟩ ∧
    0 < (Fraction.add ⟨1, 2⟩ ⟨1, 3⟩).m_denominator :=
  (Fraction_arithmetic_exact ⟨1, 2⟩ ⟨1, 3⟩ (by decide) (by decide)).1

/-- C35. Pacing without drift, with `long long` taken as unbounded. For a positive
speed `s` that stays the same, `k` calls of the pacing function on a fresh
thread all return; the durations passed to `sleep_for`, each at least 1 ms, add
up to exactly `⌊k / s⌋` milliseconds, and the remainder `accum` left behind is the
fractional part of `k / s`, so `0 ≤ accum < 1`. From any state, a call that reads
a speed different from `lastSpeed`, the speed of the previous call, behaves as
the call from the state in which `accum` is 0: the remainder is dropped before
`1 / s` is added, and the call leaves `lastSpeed` at the speed read. -/
theorem pacing_accumulates_without_drift (s : Fraction) (k : Nat) (hn : 0 < s.m_numerator)
    (hd : 0 < s.m_denominator) :
    (∃ st, VisualSort.GetSleepFunc.calls (List.replicate k s) {} = (.ok (), st) ∧
      st.slept.sum = ⌊(k : ℚ) / s.toRat⌋ ∧ (∀ ms ∈ st.slept, 1 ≤ ms) ∧
      st.accum.toRat = Int.fract ((k : ℚ) / s.toRat) ∧
      0 ≤ st.accum.toRat ∧ st.accum.toRat < 1 ∧ st.lastSpeed = (if k = 0 then none else some s)) ∧
    ∀ (st : SleepState) (old : Fraction), st.lastSpeed = some old → old.ne s = true →
      VisualSort.GetSleepFunc s st =
        VisualSort.GetSleepFunc s { st with accum := Fraction.ofInt 0, lastSpeed := some s } ∧
      ∃ st', VisualSort.GetSleepFunc s st = (.ok (), st') ∧ st'.lastSpeed = some s ∧
        st'.accum.toRat = Int.fract (1 / s.toRat) ∧
        ∃ extra : List Int, st'.slept = st.slept ++ extra ∧ extra.sum = ⌊1 / s.toRat⌋ := by
  constructor
  · obtain ⟨st, e, l, _, lo, hi, extra, hs, hp, _, ht⟩ :=
      GetSleepFunc_calls_spec s hn hd k {} (by decide) (by simp [Fraction.toRat, Fraction.ofInt])
        (by simp [Fraction.toRat, Fraction.ofInt]) (Or.inl rfl)
    have hs' : st.slept = extra := by simpa using hs
    have h0 : ({} : SleepState).accum.toRat = 0 := by simp [Fraction.toRat, Fraction.ofInt]
    rw [h0, zero_add] at ht
    have hfl : ⌊(k : ℚ) / s.toRat⌋ = extra.sum := by
      rw [Int.floor_eq_iff]
      constructor <;> linarith
    refine ⟨st, e, by rw [hs', hfl], by rw [hs']; exact hp, ?_, lo, hi, ?_⟩
    · rw [Int.fract, hfl]
      linarith
    · cases k with
      | zero =>
        simp only [List.replicate_zero, VisualSort.GetSleepFunc.calls] at e
        rw [← (Prod.mk.inj e).2]
        rfl
      | succ k =>
        rw [List.replicate_succ] at e
        unfold VisualSort.GetSleepFunc.calls at e
        obtain ⟨st1, e1, l1, d1, _, lo1, hi1, _⟩ :=
          GetSleepFunc_step s {} hn hd (by decide) (by simp [Fraction.toRat, Fraction.ofInt])
            (Or.inl rfl)
        rw [e1] at e
        simp only at e
        obtain ⟨st2, e2, l2, _⟩ := GetSleepFunc_calls_spec s hn hd k st1 d1 lo1 hi1 (Or.inr l1)
        rw [e2] at e
        rw [← (Prod.mk.inj e).2]
        rcases l2 with h | h
        · have hmono : ∀ (n : Nat) (t t' : SleepState), t.lastSpeed = some s →
              VisualSort.GetSleepFunc.calls (List.replicate n s) t = (.ok (), t') →
              t'.lastSpeed = some s := by
            intro n
            induction n with
            | zero =>
              intro t t' ht hc
              simp only [List.replicate_zero, VisualSort.GetSleepFunc.calls] at hc
              rw [← (Prod.mk.inj hc).2]
              exact ht
            | succ n ihn =>
              intro t t' ht hc
              rw [List.replicate_succ] at hc
              unfold VisualSort.GetSleepFunc.calls at hc
              generalize hr : VisualSort.GetSleepFunc s t = r at hc
              obtain ⟨r1, t1⟩ := r
              cases r1 with
              | error e => simp at hc
              | ok u =>
                simp only at hc
                have hl1 : t1.lastSpeed = some s := by
                  have := congrArg (fun p => p.2.lastSpeed) hr
                  simp only at this
                  rw [← this]
                  unfold VisualSort.GetSleepFunc
                  have hent : (VisualSort.GetSleepFunc.enter s t).lastSpeed = some s := by
                    unfold VisualSort.GetSleepFunc.enter
                    rw [ht]
                    simp [Fraction.ne, Fraction.eq]
                  have hdr : ∀ (n : Nat) (q : SleepState),
                      (VisualSort.GetSleepFunc.drain n q).2.lastSpeed = q.lastSpeed := by
                    intro n
                    induction n with
                    | zero => intro q; unfold VisualSort.GetSleepFunc.drain; split <;> rfl
                    | succ n ihd =>
                      intro q
                      unfold VisualSort.GetSleepFunc.drain
                      split
                      · split
                        · rfl
                        · rw [ihd]
                      · rfl
                  split
                  · exact hent
                  · rw [hdr]
                    exact hent
                exact ihn t1 t' hl1 hc
          simp only [if_neg (Nat.succ_ne_zero k)]
          exact hmono k st1 st2 l1 e2
        · simp only [if_neg (Nat.succ_ne_zero k)]
          exact h
  · intro st old hl hne
    have henter : VisualSort.GetSleepFunc.enter s st =
        { st with accum := Fraction.ofInt 0, lastSpeed := some s } := by
      unfold VisualSort.GetSleepFunc.enter
      rw [hl]
      simp only [Option.getD_some, hne, if_true]
    have henter' : VisualSort.GetSleepFunc.enter s
        { st with accum := Fraction.ofInt 0, lastSpeed := some s } =
        { st with accum := Fraction.ofInt 0, lastSpeed := some s } := by
      unfold VisualSort.GetSleepFunc.enter
      simp [Fraction.ne, Fraction.eq]
    have heq : VisualSort.GetSleepFunc s st =
        VisualSort.GetSleepFunc s { st with accum := Fraction.ofInt 0, lastSpeed := some s } := by
      unfold VisualSort.GetSleepFunc
      rw [henter, henter']
    refine ⟨heq, ?_⟩
    obtain ⟨st', e, l, _, _, lo, hi, extra, hs, _, _, ht⟩ :=
      GetSleepFunc_step s { st with accum := Fraction.ofInt 0, lastSpeed := some s } hn hd
        (by simp [Fraction.ofInt]) (by simp [Fraction.toRat, Fraction.ofInt]) (Or.inr rfl)
    simp only at hs ht
    have h0 : (Fraction.ofInt 0).toRat = 0 := by simp [Fraction.toRat, Fraction.ofInt]
    rw [h0, zero_add] at ht
    have hfl : ⌊1 / s.toRat⌋ = extra.sum := by
      rw [Int.floor_eq_iff]
      constructor <;> linarith
    refine ⟨st', heq.trans e, l, ?_, extra, hs, hfl.symm⟩
    rw [Int.fract, hfl]
    linarith

theorem pacing_accumulates_without_drift_witness :
    ∃ st, VisualSort.GetSleepFunc.calls (List.replicate 3 ⟨1, 2⟩) {} = (.ok (), st) ∧
      st.slept.sum = ⌊((3 : Nat) : ℚ) / Fraction.toRat ⟨1, 2⟩⌋ ∧ (∀ ms ∈ st.slept, 1 ≤ ms) ∧
      st.accum.toRat = Int.fract (((3 : Nat) : ℚ) / Fraction.toRat ⟨1, 2⟩) ∧
      0 ≤ st.accum.toRat ∧ st.accum.toRat < 1 ∧
      st.lastSpeed = (if 3 = 0 then none else some ⟨1, 2⟩) :=
  (pacing_accumulates_without_drift ⟨1, 2⟩ 3 (by decide) (by decide)).1

/-- C34. `StopSort` on a thread other than the main thread leaves
`s_stripSortStopTime` as it was, whatever the pause and exit flags, what the
interface thread does to them and the outcome of the call. On the main thread it
leaves it as it was when the pause flag is clear at the first test; if it
changes it at all, the pause flag was set at the first test, and what is added
is the time between the start of the call and the end of the polling loop, at
least 10 ms; this is what happens whenever the flag was set and the call
returns. -/
theorem StopSort_paused_duration :
    (∀ w : World, w.thisThread ≠ w.s_mainThreadId →
      (Strip.StopSort w).2.s_stripSortStopTime = w.s_stripSortStopTime) ∧
    (∀ w : World, w.thisThread = w.s_mainThreadId →
      (w.s_stopStripSort = false →
        (Strip.StopSort w).2.s_stripSortStopTime = w.s_stripSortStopTime) ∧
      ((Strip.StopSort w).2.s_stripSortStopTime ≠ w.s_stripSortStopTime →
        w.s_stopStripSort = true ∧ w.clock + 10 ≤ (Strip.StopSort w).2.clock ∧
        (Strip.StopSort w).2.s_stripSortStopTime =
          w.s_stripSortStopTime + ((Strip.StopSort w).2.clock - w.clock)) ∧
      w.s_stripSortStopTime ≤ (Strip.StopSort w).2.s_stripSortStopTime ∧
      (w.s_stopStripSort = true → (Strip.StopSort w).1 = .ok () →
        w.clock + 10 ≤ (Strip.StopSort w).2.clock ∧
        (Strip.StopSort w).2.s_stripSortStopTime =
          w.s_stripSortStopTime + ((Strip.StopSort w).2.clock - w.clock))) ∧
    (Strip.StopSort pausedMainWorld).1 = .ok () ∧
    (Strip.StopSort pausedMainWorld).2.s_stripSortStopTime = 35 := by
  refine ⟨?_, ?_, rfl, rfl⟩
  · intro w hm
    unfold Strip.StopSort
    rw [if_pos hm]
    exact waitWorker_stopTime _ w
  · intro w hm
    have h := StopSort_stopTime_main w hm
    refine ⟨?_, ?_, ?_, StopSort_stopTime_ok w hm⟩
    · intro hs
      rcases h with h | ⟨h, _⟩
      · exact h
      · rw [hs] at h
        cases h
    · intro hne
      rcases h with h | h
      · exact absurd h hne
      · exact h
    · rcases h with h | ⟨_, _, h⟩
      · exact le_of_eq h.symm
      · rw [h]
        exact Nat.le_add_right _ _

/-- C32, amended. Every call of `DrawStrip1` and of `DrawStrip2` makes its calls in this
order: clear the slot or slots, draw the highlight colours, flush, telemetry
callback, flush of the strips of the previous operation (`DrawRemainingStrip`),
pacing callback; only then does it run `StopSort`, which makes no call to the
backend or to the callbacks and decides the outcome; and when `StopSort` returns,
the slot or slots are redrawn in their own colour. A call that `StopSort` ends
with a failure has made all the calls up to the pacing callback and no other. -/
theorem DrawStrip_call_order (s t : Strip) (c c' : COLORREF) (w : World) :
    ((Strip.DrawStrip1 s c w).1 = (Strip.StopSort (Strip.DrawStrip1.highlight s c w)).1 ∧
      (Strip.DrawStrip1.highlight s c w).events = w.events ++
        [.ClearRectangle s.m_left (Strip.maxTopInt w) s.m_right w.heightInt,
          .drawFunc ⟨s.m_left, s.m_top, s.m_right, w.heightInt⟩ c,
          .FlushBatchDraw s.m_left (Strip.maxTopInt w) s.m_right w.heightInt,
          .updateMessageFunc] ++ Strip.DrawRemainingStrip.flushes w ++ [.sleepFunc] ∧
      (Strip.StopSort (Strip.DrawStrip1.highlight s c w)).2.events =
        (Strip.DrawStrip1.highlight s c w).events ∧
      ((Strip.DrawStrip1 s c w).1 = .ok () →
        (Strip.DrawStrip1 s c w).2.events = w.events ++
          [.ClearRectangle s.m_left (Strip.maxTopInt w) s.m_right w.heightInt,
            .drawFunc ⟨s.m_left, s.m_top, s.m_right, w.heightInt⟩ c,
            .FlushBatchDraw s.m_left (Strip.maxTopInt w) s.m_right w.heightInt,
            .updateMessageFunc] ++ Strip.DrawRemainingStrip.flushes w ++
          [.sleepFunc, .drawFunc ⟨s.m_left, s.m_top, s.m_right, w.heightInt⟩ s.m_color]) ∧
      ((Strip.DrawStrip1 s c w).1 ≠ .ok () →
        (Strip.DrawStrip1 s c w).2.events = (Strip.DrawStrip1.highlight s c w).events)) ∧
    ((Strip.DrawStrip2 s c t c' w).1 =
        (Strip.StopSort (Strip.DrawStrip2.highlight s c t c' w)).1 ∧
      (Strip.DrawStrip2.highlight s c t c' w).events = w.events ++
        [.ClearRectangle s.m_left (Strip.maxTopInt w) s.m_right w.heightInt,
          .ClearRectangle t.m_left (Strip.maxTopInt w) t.m_right w.heightInt,
          .drawFunc ⟨s.m_left, s.m_top, s.m_right, w.heightInt⟩ c,
          .drawFunc ⟨t.m_left, t.m_top, t.m_right, w.heightInt⟩ c',
          .FlushBatchDraw s.m_left (Strip.maxTopInt w) s.m_right w.heightInt,
          .FlushBatchDraw t.m_left (Strip.maxTopInt w) t.m_right w.heightInt,
          .updateMessageFunc] ++ Strip.DrawRemainingStrip.flushes w ++ [.sleepFunc] ∧
      (Strip.StopSort (Strip.DrawStrip2.highlight s c t c' w)).2.events =
        (Strip.DrawStrip2.highlight s c t c' w).events ∧
      ((Strip.DrawStrip2 s c t c' w).1 = .ok () →
        (Strip.DrawStrip2 s c t c' w).2.events = w.events ++
          [.ClearRectangle s.m_left (Strip.maxTopInt w) s.m_right w.heightInt,
            .ClearRectangle t.m_left (Strip.maxTopInt w) t.m_right w.heightInt,
            .drawFunc ⟨s.m_left, s.m_top, s.m_right, w.heightInt⟩ c,
            .drawFunc ⟨t.m_left, t.m_top, t.m_right, w.heightInt⟩ c',
            .FlushBatchDraw s.m_left (Strip.maxTopInt w) s.m_right w.heightInt,
            .FlushBatchDraw t.m_left (Strip.maxTopInt w) t.m_right w.heightInt,
            .updateMessageFunc] ++ Strip.DrawRemainingStrip.flushes w ++
          [.sleepFunc, .drawFunc ⟨s.m_left, s.m_top, s.m_right, w.heightInt⟩ s.m_color,
            .drawFunc ⟨t.m_left, t.m_top, t.m_right, w.heightInt⟩ t.m_color]) ∧
      ((Strip.DrawStrip2 s c t c' w).1 ≠ .ok () →
        (Strip.DrawStrip2 s c t c' w).2.events =
          (Strip.DrawStrip2.highlight s c t c' w).events)) ∧
    (w.Cancelling →
      (Strip.DrawStrip1 s c w).1 = .error Strip.cancelled ∧
      (Strip.DrawStrip1 s c w).2.events.getLast? = some .sleepFunc ∧
      (Strip.DrawStrip2 s c t c' w).1 = .error Strip.cancelled ∧
      (Strip.DrawStrip2 s c t c' w).2.events.getLast? = some .sleepFunc) := by
  obtain ⟨a1, a2, a3⟩ := DrawStrip1_log s c w
  obtain ⟨b1, b2, b3⟩ := DrawStrip2_log s c t c' w
  have h1 := (highlight1_log s c w).1
  have h2 := (highlight2_log s c t c' w).1
  have e1 := (StopSort_log (Strip.DrawStrip1.highlight s c w)).1
  have e2 := (StopSort_log (Strip.DrawStrip2.highlight s c t c' w)).1
  unfold Strip.DrawStrip1.before at h1 a2
  unfold Strip.DrawStrip2.before at h2 b2
  have last : ∀ l : List Event, (l ++ [Event.sleepFunc]).getLast? = some .sleepFunc := by
    intro l
    simp
  refine ⟨⟨a1, by rw [h1]; simp only [List.append_assoc], e1, ?_, ?_⟩,
    ⟨b1, by rw [h2]; simp only [List.append_assoc], e2, ?_, ?_⟩, ?_⟩
  · intro h
    rw [a2 h]
    simp only [List.append_assoc, List.cons_append, List.nil_append]
  · intro h
    rw [a3 h, (highlight1_log s c w).1]
  · intro h
    rw [b2 h]
    simp only [List.append_assoc, List.cons_append, List.nil_append]
  · intro h
    rw [b3 h, (highlight2_log s c t c' w).1]
  · intro hc
    rw [DrawStrip1_cancels s c w hc, DrawStrip2_cancels s c t c' w hc]
    refine ⟨rfl, ?_, rfl, ?_⟩
    · simp only
      rw [h1, ← List.append_assoc]
      exact last _
    · simp only
      rw [h2, ← List.append_assoc]
      exact last _

/-- C32, as stated, fails: the pause and cancel check does not come before the
pacing callback but after it. With exit requested before the call, `DrawStrip1`
ends with the cancellation raised by `StopSort`, and the calls it has made are
the clear, the highlight, the flush, the telemetry callback and the pacing
callback: pacing was invoked before `StopSort` ran. -/
theorem DrawStrip1_paces_before_StopSort :
    ∃ W : World,
      Strip.DrawStrip1 ⟨3, 0, 400, 133, 16777215, true⟩ StripCopyColor cancellingWorld =
        (.error Strip.cancelled, W) ∧
      W.events = [.ClearRectangle 0 133 400 600, .drawFunc ⟨0, 133, 400, 600⟩ StripCopyColor,
        .FlushBatchDraw 0 133 400 600, .updateMessageFunc, .sleepFunc] := by
  refine ⟨_, DrawStrip1_cancels _ _ _ (by decide), ?_⟩
  rw [(highlight1_log _ _ _).1]
  decide

/-- C36. Step parity between `Strip` and `Counter` holds for every shared operation
but one. Take operands of the two proxies with the same liveness, and a state in
which the `Strip` operations return (no cancellation, pauses end, nonzero
scale). For copy construction, the comparisons, the conversion to `int`, the
assignments, the compound assignments (when the built-in operator is defined on
the operands), the increments and decrements, the binary operators with an
`int`, and the three swaps, `AnimationStepNum` goes up by exactly what
`ActualStepNum` goes up by. For the binary operators `+ - * / %` on two strips
this holds unless both are live: then `Strip` calls both `AddNumCompare2` and
`AddNumCopy2_StripToInt`, so `AnimationStepNum` goes up by 2 while `Counter`
counts 1. -/
theorem Strip_arithmetic_of_two_live_counts_twice (s t : Strip) (a b : Counter) (v : Int)
    (cmp : CmpOp) (op : ArithOp) (w wc : World) (hr : w.Runs)
    (ha : a.m_notTemp = s.m_notTemp) (hb : b.m_notTemp = t.m_notTemp) :
    (s.m_notTemp = true → t.m_notTemp = true →
      (s.arith op t w).2.AnimationStepNum = w.AnimationStepNum + 2 ∧
      (a.arith op b wc).2.ActualStepNum = wc.ActualStepNum + 1 ∧
      ¬ StepParity w (s.arith op t w).2 wc (a.arith op b wc).2) ∧
    ((s.m_notTemp && t.m_notTemp) = false →
      StepParity w (s.arith op t w).2 wc (a.arith op b wc).2) ∧
    StepParity w (Strip.copy s w).2 wc (Counter.copy a wc).2 ∧
    StepParity w (s.compareInt cmp v w).2 wc (a.compareInt cmp v wc).2 ∧
    StepParity w (s.compare cmp t w).2 wc (a.compare cmp b wc).2 ∧
    StepParity w (Strip.intCompare cmp v s w).2 wc (Counter.intCompare cmp v a wc).2 ∧
    StepParity w (s.toInt w).2 wc (a.toInt wc).2 ∧
    StepParity w (s.arithInt op v w).2 wc (a.arithInt op v wc).2 ∧
    StepParity w (s.assignInt v w).2.2 wc (a.assignInt v wc).2 ∧
    StepParity w (s.assign t w).2.2 wc (a.assign b wc).2 ∧
    ((∃ r, op.eval s.m_value v = .ok r) →
      StepParity w (s.compoundInt op v w).2.2 wc (a.compoundInt op v wc).2.2) ∧
    ((∃ r, op.eval s.m_value t.m_value = .ok r) →
      StepParity w (s.compound op t w).2.2 wc (a.compound op b wc).2.2) ∧
    StepParity w (s.preIncrement w).2.2 wc (a.preIncrement wc).2 ∧
    StepParity w (s.postIncrement w).2.2 wc (a.postIncrement wc).2.2 ∧
    StepParity w (s.preDecrement w).2.2 wc (a.preDecrement wc).2 ∧
    StepParity w (s.postDecrement w).2.2 wc (a.postDecrement wc).2.2 ∧
    StepParity w (Strip.swap s t w).2.2 wc (Counter.swap a b wc).2 ∧
    StepParity w (Strip.swapStripInt s v w).2.2 wc (Counter.swapCounterInt a v wc).2 ∧
    StepParity w (Strip.swapIntStrip v s w).2.2 wc (Counter.swapIntCounter v a wc).2 := by
  have one : ∀ wc' : World, wc' = (if s.m_notTemp = true then wc.incActualStepNum else wc) →
      wc'.ActualStepNum = wc.ActualStepNum + (if s.m_notTemp = true then 1 else 0) := by
    intro wc' h
    rw [h]
    exact counter_step _ wc
  have two : ∀ wc' : World,
      wc' = (if (s.m_notTemp || t.m_notTemp) = true then wc.incActualStepNum else wc) →
      wc'.ActualStepNum =
        wc.ActualStepNum + (if (s.m_notTemp || t.m_notTemp) = true then 1 else 0) := by
    intro wc' h
    rw [h]
    exact counter_step _ wc
  have c1 : a.IncrementIfNeeded wc = (if s.m_notTemp = true then wc.incActualStepNum else wc) := by
    unfold Counter.IncrementIfNeeded
    rw [ha]
  have c2 : a.IncrementIfNeeded2 b wc =
      (if (s.m_notTemp || t.m_notTemp) = true then wc.incActualStepNum else wc) := by
    unfold Counter.IncrementIfNeeded2
    rw [ha, hb]
  have post : ∀ (back : Int) (r : Except Fault Unit × Strip × World),
      (Strip.returnOld back r).2.2 = r.2.2 := by
    intro back r
    obtain ⟨r1, s1, w1⟩ := r
    cases r1 <;> rfl
  refine ⟨?_, ?_, ?_, ?_, ?_, ?_, ?_, ?_, ?_, ?_, ?_, ?_, ?_, ?_, ?_, ?_, ?_, ?_, ?_⟩
  · intro hs ht
    have h1 := arith_anim op s t w hr
    rw [hs, ht] at h1
    simp only [Bool.and_self, if_true] at h1
    have h2 : (a.arith op b wc).2.ActualStepNum = wc.ActualStepNum + 1 := by
      have := two (a.arith op b wc).2 c2
      rw [hs, ht] at this
      simpa using this
    refine ⟨h1, h2, ?_⟩
    rintro ⟨n, e1, e2⟩
    omega
  · intro h
    refine ⟨_, arith_anim op s t w hr, ?_⟩
    rw [h]
    simp only [Bool.false_eq_true, if_false]
    exact two _ c2
  · exact ⟨_, copy_anim s w hr, one _ c1⟩
  · exact ⟨_, compareInt_anim cmp s v w hr, one _ c1⟩
  · exact ⟨_, compare_anim cmp s t w hr, two _ c2⟩
  · refine ⟨_, intCompare_anim cmp v s w hr, one _ ?_⟩
    unfold Counter.intCompare
    rw [ha]
  · exact ⟨_, toInt_anim s w hr, one _ c1⟩
  · exact ⟨_, arithInt_anim op s v w hr, one _ c1⟩
  · exact ⟨_, (storedInt_anim { s with m_value := v } StripCopyColor w hr).2, one _ c1⟩
  · exact ⟨_, (storedStrip_anim { s with m_value := t.m_value } t w hr).2, two _ c2⟩
  · rintro ⟨r, hev⟩
    refine ⟨_, ?_, one (a.compoundInt op v wc).2.2 ?_⟩
    · unfold Strip.compoundInt
      rw [hev]
      exact (storedInt_anim { s with m_value := r } StripChangeColor w hr).2
    · unfold Counter.compoundInt
      simp only
      rw [← c1]
      split <;> rfl
  · rintro ⟨r, hev⟩
    refine ⟨_, ?_, two (a.compound op b wc).2.2 ?_⟩
    · unfold Strip.compound
      rw [hev]
      exact (storedStrip_anim { s with m_value := r } t w hr).2
    · unfold Counter.compound
      simp only
      rw [← c2]
      split <;> rfl
  · exact ⟨_, (storedInt_anim { s with m_value := wrapInt (s.m_value + 1) } StripChangeColor w
      hr).2, one _ c1⟩
  · refine ⟨_, ?_, one _ c1⟩
    unfold Strip.postIncrement
    rw [post]
    exact (storedInt_anim { s with m_value := wrapInt (s.m_value + 1) } StripChangeColor w hr).2
  · exact ⟨_, (storedInt_anim { s with m_value := wrapInt (s.m_value - 1) } StripChangeColor w
      hr).2, one _ c1⟩
  · refine ⟨_, ?_, one _ c1⟩
    unfold Strip.postDecrement
    rw [post]
    exact (storedInt_anim { s with m_value := wrapInt (s.m_value - 1) } StripChangeColor w hr).2
  · refine ⟨_, (swapped_anim { s with m_value := t.m_value } { t with m_value := s.m_value } w
      hr).2, two _ ?_⟩
    unfold Counter.swap
    rw [ha, hb]
  · refine ⟨_, (swappedInt_anim { s with m_value := v } w hr).2, one _ ?_⟩
    unfold Counter.swapCounterInt
    rw [ha]
  · refine ⟨_, (swappedInt_anim { s with m_value := v } w hr).2, one _ ?_⟩
    unfold Counter.swapIntCounter
    rw [ha]

theorem Strip_arithmetic_of_two_live_counts_twice_witness :
    (Strip.arith .add ⟨3, 0, 400, 133, 16777215, true⟩ ⟨1, 400, 800, 444, 11513775, true⟩
        { s_maxValue := 3 }).2.AnimationStepNum = ({ s_maxValue := 3 } : World).AnimationStepNum + 2 ∧
    (Counter.arith .add ⟨3, true⟩ ⟨1, true⟩ {}).2.ActualStepNum = ({} : World).ActualStepNum + 1 :=
  ⟨((Strip_arithmetic_of_two_live_counts_twice ⟨3, 0, 400, 133, 16777215, true⟩
      ⟨1, 400, 800, 444, 11513775, true⟩ ⟨3, true⟩ ⟨1, true⟩ 0 .gt .add { s_maxValue := 3 } {}
      (by decide) rfl rfl).1 rfl rfl).1,
    ((Strip_arithmetic_of_two_live_counts_twice ⟨3, 0, 400, 133, 16777215, true⟩
      ⟨1, 400, 800, 444, 11513775, true⟩ ⟨3, true⟩ ⟨1, true⟩ 0 .gt .add { s_maxValue := 3 } {}
      (by decide) rfl rfl).1 rfl rfl).2.1⟩

/-- C31, amended. Let the strip be live and the scale `s_maxValue` nonzero. After
`operator=` from an `int` or a `Strip`, a compound assignment (when the built-in
operator is defined on the operands), an increment or decrement, or one of the
three `swap` overloads, whether the call returns or is cancelled while drawing,
`m_top` and `m_color` of the strip are the values that `SetTopAuto` and
`SetColorAuto` derive from its new `m_value`. After `SwapWithoutSetColor` and
`CopyWithoutSetColor` only `m_top` is derived from the new value and `m_color` is
what it was; after `CopyValueAndColor` `m_top` is derived and `m_color` is the
colour of the source; `SetValue` changes `m_value` and neither `m_top` nor
`m_color`. -/
theorem value_change_rescales (self strip_ : Strip) (value_ : Int) (op : ArithOp) (w : World)
    (hl : self.m_notTemp = true) (hm : w.s_maxValue % 18446744073709551616 ≠ 0) :
    ((self.assignInt value_ w).2.1.Derived w ∧ (self.assignInt value_ w).2.1.m_value = value_) ∧
    ((self.assign strip_ w).2.1.Derived w ∧
      (self.assign strip_ w).2.1.m_value = strip_.m_value) ∧
    (∀ r, op.eval self.m_value value_ = .ok r →
      (self.compoundInt op value_ w).2.1.Derived w ∧
      (self.compoundInt op value_ w).2.1.m_value = r) ∧
    (∀ r, op.eval self.m_value strip_.m_value = .ok r →
      (self.compound op strip_ w).2.1.Derived w ∧ (self.compound op strip_ w).2.1.m_value = r) ∧
    ((self.preIncrement w).2.1.Derived w ∧ (self.postIncrement w).2.1.Derived w ∧
      (self.preDecrement w).2.1.Derived w ∧ (self.postDecrement w).2.1.Derived w) ∧
    ((Strip.swap self strip_ w).2.1.1.Derived w ∧
      (Strip.swap self strip_ w).2.1.1.m_value = strip_.m_value ∧
      (Strip.swap strip_ self w).2.1.2.Derived w ∧
      (Strip.swapStripInt self value_ w).2.1.1.Derived w ∧
      (Strip.swapIntStrip value_ self w).2.1.2.Derived w) ∧
    ((Strip.SwapWithoutSetColor self strip_ w).2.1.1.TopDerived w ∧
      (Strip.SwapWithoutSetColor self strip_ w).2.1.1.m_value = strip_.m_value ∧
      (Strip.SwapWithoutSetColor self strip_ w).2.1.1.m_color = self.m_color ∧
      (Strip.SwapWithoutSetColor strip_ self w).2.1.2.TopDerived w ∧
      (Strip.SwapWithoutSetColor strip_ self w).2.1.2.m_color = self.m_color) ∧
    ((self.CopyWithoutSetColor strip_ w).2.1.TopDerived w ∧
      (self.CopyWithoutSetColor strip_ w).2.1.m_value = strip_.m_value ∧
      (self.CopyWithoutSetColor strip_ w).2.1.m_color = self.m_color) ∧
    ((self.CopyValueAndColor strip_ w).2.1.TopDerived w ∧
      (self.CopyValueAndColor strip_ w).2.1.m_value = strip_.m_value ∧
      (self.CopyValueAndColor strip_ w).2.1.m_color = strip_.m_color) ∧
    ((self.SetValue value_).m_value = value_ ∧ (self.SetValue value_).m_top = self.m_top ∧
      (self.SetValue value_).m_color = self.m_color) := by
  refine ⟨?_, ?_, ?_, ?_, ⟨?_, ?_, ?_, ?_⟩, ⟨?_, ?_, ?_, ?_, ?_⟩, ⟨?_, ?_, ?_, ?_, ?_⟩, ?_, ?_,
    ⟨rfl, rfl, rfl⟩⟩
  · exact storedInt_derived { self with m_value := value_ } StripCopyColor w hl hm
  · exact storedStrip_derived { self with m_value := strip_.m_value } strip_ w hl hm
  · intro r hev
    unfold Strip.compoundInt
    rw [hev]
    exact storedInt_derived { self with m_value := r } StripChangeColor w hl hm
  · intro r hev
    unfold Strip.compound
    rw [hev]
    exact storedStrip_derived { self with m_value := r } strip_ w hl hm
  · exact (storedInt_derived { self with m_value := wrapInt (self.m_value + 1) } StripChangeColor
      w hl hm).1
  · unfold Strip.postIncrement
    rw [returnOld_strip]
    exact (storedInt_derived { self with m_value := wrapInt (self.m_value + 1) } StripChangeColor
      w hl hm).1
  · exact (storedInt_derived { self with m_value := wrapInt (self.m_value - 1) } StripChangeColor
      w hl hm).1
  · unfold Strip.postDecrement
    rw [returnOld_strip]
    exact (storedInt_derived { self with m_value := wrapInt (self.m_value - 1) } StripChangeColor
      w hl hm).1
  · exact ((swapped_derived { self with m_value := strip_.m_value }
      { strip_ with m_value := self.m_value } w hm).1 hl).1
  · exact ((swapped_derived { self with m_value := strip_.m_value }
      { strip_ with m_value := self.m_value } w hm).1 hl).2
  · exact ((swapped_derived { strip_ with m_value := self.m_value }
      { self with m_value := strip_.m_value } w hm).2 hl).1
  · exact (swappedInt_derived { self with m_value := value_ } w hl hm).1
  · exact (swappedInt_derived { self with m_value := value_ } w hl hm).1
  · exact ((swapped_top { self with m_value := strip_.m_value }
      { strip_ with m_value := self.m_value } w hm).1 hl).1
  · exact ((swapped_top { self with m_value := strip_.m_value }
      { strip_ with m_value := self.m_value } w hm).1 hl).2.1
  · exact ((swapped_top { self with m_value := strip_.m_value }
      { strip_ with m_value := self.m_value } w hm).1 hl).2.2
  · exact ((swapped_top { strip_ with m_value := self.m_value }
      { self with m_value := strip_.m_value } w hm).2 hl).1
  · exact ((swapped_top { strip_ with m_value := self.m_value }
      { self with m_value := strip_.m_value } w hm).2 hl).2.2
  · exact copied_top { self with m_value := strip_.m_value } strip_ w hl hm
  · exact copied_top { self with m_value := strip_.m_value, m_color := strip_.m_color } strip_ w
      hl hm

theorem value_change_rescales_witness :
    (Strip.assignInt ⟨3, 0, 400, 133, 16777215, true⟩ 1 { s_maxValue := 3 }).2.1.Derived
        { s_maxValue := 3 } ∧
    (Strip.assignInt ⟨3, 0, 400, 133, 16777215, true⟩ 1 { s_maxValue := 3 }).2.1.m_value = 1 :=
  (value_change_rescales ⟨3, 0, 400, 133, 16777215, true⟩ ⟨1, -1, -1, 0, 0, false⟩ 1 .add
    { s_maxValue := 3 } rfl (by decide)).1

/-- C31, as stated, fails for `CopyWithoutSetColor`: the white strip of value 3, on the
scale of maximum 3, that copies the value 1 keeps its colour `0xFFFFFF`, while
`SetColorAuto` derives `0xAFAFAF` from the value 1. -/
theorem CopyWithoutSetColor_keeps_the_colour :
    ∃ s' d : Strip,
      (Strip.CopyWithoutSetColor ⟨3, 0, 400, 133, 16777215, true⟩ ⟨1, -1, -1, 0, 0, false⟩
        { s_maxValue := 3 }).2.1 = s' ∧
      s'.m_value = 1 ∧ s'.m_color = 16777215 ∧
      s'.SetColorAuto { s_maxValue := 3 } = .ok d ∧ d.m_color = 11513775 ∧
      ¬ s'.Derived { s_maxValue := 3 } := by
  obtain ⟨h1, h2, h3⟩ := copied_top
    { (⟨3, 0, 400, 133, 16777215, true⟩ : Strip) with m_value := 1 } ⟨1, -1, -1, 0, 0, false⟩
    { s_maxValue := 3 } rfl (by decide)
  have hc : Strip.SetColorAuto ⟨1, 0, 0, 0, 0, true⟩ { s_maxValue := 3 } =
      .ok ⟨1, 0, 0, 0, 11513775, true⟩ := by
    rfl
  obtain ⟨_, _, c3⟩ := color_shape _ _ _ hc
  unfold Strip.CopyWithoutSetColor
  simp only at h1 h2 h3 ⊢
  generalize (Strip.copied (⟨1, 0, 400, 133, 16777215, true⟩ : Strip) ⟨1, -1, -1, 0, 0, false⟩
    { s_maxValue := 3 }).2.1 = s' at h1 h2 h3
  have hd := c3 s' h2
  refine ⟨s', _, rfl, h2, h3, hd, rfl, ?_⟩
  intro hder
  obtain ⟨_, _, hcol, _⟩ := rescale_fixed s' s' _ hder
  unfold Strip.ColorDerived at hcol
  rw [hd] at hcol
  have := congrArg Strip.m_color (Except.ok.inj hcol)
  simp only at this
  rw [h3] at this
  exact absurd this (by decide)

/-- C33. The telemetry callback, with `t ≥ 1` threads in the registry (and `10 * t`
below `2 ^ 64`): every invocation adds 1 to the invocation counter (a 64-bit
number) whatever else happens; when the new value of the counter is not a
multiple of `10 * t` the invocation returns and changes nothing else; when it is
a multiple, the invocation does what `UpdateLastMessage` does: it computes the two
texts and shows them, or fails where that computation is undefined. With one
registered thread the texts are recomputed exactly on the invocations that make
the counter a multiple of 10. With an empty registry the test itself divides by
zero. -/
theorem telemetry_every_tenth_per_thread (self : VisualSort) (w : World)
    (ht : 0 < w.s_threads.length) (hsmall : 10 * w.s_threads.length < 18446744073709551616) :
    ((self.GetUpdateMessageFunc w).2.m_updateMessageTime =
      (self.m_updateMessageTime + 1) % 18446744073709551616) ∧
    ((self.m_updateMessageTime + 1) % 18446744073709551616 % (10 * w.s_threads.length) ≠ 0 →
      self.GetUpdateMessageFunc w = (.ok (),
        { self with m_updateMessageTime :=
            (self.m_updateMessageTime + 1) % 18446744073709551616 })) ∧
    ((self.m_updateMessageTime + 1) % 18446744073709551616 % (10 * w.s_threads.length) = 0 →
      self.GetUpdateMessageFunc w =
        VisualSort.UpdateLastMessage
          { self with m_updateMessageTime :=
              (self.m_updateMessageTime + 1) % 18446744073709551616 } w ∧
      ((self.GetUpdateMessageFunc w).1 = .ok () →
        ∃ text1 text2, (self.GetUpdateMessageFunc w).2.calls =
          self.calls ++ [.messages text1 text2])) ∧
    ((self.GetUpdateMessageFunc w).2.calls ≠ self.calls →
      (self.m_updateMessageTime + 1) % 18446744073709551616 % (10 * w.s_threads.length) = 0) ∧
    (w.s_threads.length = 1 →
      ((self.GetUpdateMessageFunc w).2.calls ≠ self.calls →
        (self.m_updateMessageTime + 1) % 18446744073709551616 % 10 = 0) ∧
      ((self.m_updateMessageTime + 1) % 18446744073709551616 % 10 = 0 →
        self.GetUpdateMessageFunc w =
          VisualSort.UpdateLastMessage
            { self with m_updateMessageTime :=
                (self.m_updateMessageTime + 1) % 18446744073709551616 } w)) ∧
    (∀ w0 : World, w0.s_threads = [] → (self.GetUpdateMessageFunc w0).1 = .error .intDivide) := by
  have hmod : 10 * w.s_threads.length % 18446744073709551616 = 10 * w.s_threads.length :=
    Nat.mod_eq_of_lt hsmall
  have hne : ¬ (10 * w.s_threads.length % 18446744073709551616 = 0) := by
    rw [hmod]
    omega
  have hskip : (self.m_updateMessageTime + 1) % 18446744073709551616 %
      (10 * w.s_threads.length) ≠ 0 →
      self.GetUpdateMessageFunc w = (.ok (),
        { self with m_updateMessageTime :=
            (self.m_updateMessageTime + 1) % 18446744073709551616 }) := by
    intro h
    unfold VisualSort.GetUpdateMessageFunc
    rw [if_neg hne, hmod, if_pos h]
  have hshow : (self.m_updateMessageTime + 1) % 18446744073709551616 %
      (10 * w.s_threads.length) = 0 →
      self.GetUpdateMessageFunc w =
        VisualSort.UpdateLastMessage
          { self with m_updateMessageTime :=
              (self.m_updateMessageTime + 1) % 18446744073709551616 } w := by
    intro h
    unfold VisualSort.GetUpdateMessageFunc
    rw [if_neg hne, hmod, if_neg (not_not.mpr h)]
  have hcalls : (self.GetUpdateMessageFunc w).2.calls ≠ self.calls →
      (self.m_updateMessageTime + 1) % 18446744073709551616 % (10 * w.s_threads.length) = 0 := by
    intro h
    by_contra hcon
    rw [hskip hcon] at h
    exact h rfl
  refine ⟨?_, hskip, ?_, hcalls, ?_, ?_⟩
  · by_cases h : (self.m_updateMessageTime + 1) % 18446744073709551616 %
        (10 * w.s_threads.length) = 0
    · rw [hshow h]
      exact (UpdateLastMessage_frame _ w).1
    · rw [hskip h]
  · intro h
    refine ⟨hshow h, ?_⟩
    rw [hshow h]
    intro hok
    obtain ⟨text1, text2, e⟩ := (UpdateLastMessage_frame _ w).2.1 hok
    exact ⟨text1, text2, by rw [e]; rfl⟩
  · intro h1
    rw [h1] at hcalls hshow
    exact ⟨hcalls, hshow⟩
  · intro w0 h0
    unfold VisualSort.GetUpdateMessageFunc
    rw [h0]
    rfl

theorem telemetry_every_tenth_per_thread_witness :
    (telemetryController.GetUpdateMessageFunc telemetryWorld).2.m_updateMessageTime =
      (telemetryController.m_updateMessageTime + 1) % 18446744073709551616 ∧
    ((telemetryController.m_updateMessageTime + 1) % 18446744073709551616 %
        (10 * telemetryWorld.s_threads.length) = 0 →
      telemetryController.GetUpdateMessageFunc telemetryWorld =
        VisualSort.UpdateLastMessage
          { telemetryController with m_updateMessageTime :=
              (telemetryController.m_updateMessageTime + 1) % 18446744073709551616 }
          telemetryWorld ∧
      ((telemetryController.GetUpdateMessageFunc telemetryWorld).1 = .ok () →
        ∃ text1 text2, (telemetryController.GetUpdateMessageFunc telemetryWorld).2.calls =
          telemetryController.calls ++ [.messages text1 text2])) :=
  ⟨(telemetry_every_tenth_per_thread telemetryController telemetryWorld (by decide)
      (by decide)).1,
    (telemetry_every_tenth_per_thread telemetryController telemetryWorld (by decide)
      (by decide)).2.2.1⟩

/-- C37. `HeapSort` stays inside `data_`. The model checks every element access
against the size of the vector, and `HeapSort` returns on every input. In a round
of the sift-down loop with `index ≥ 0`, `leftIndex = 2 * index + 1`,
`rightIndex = leftIndex + 1` and `leftIndex < heap_size_ < data_.size()`, the reads
of `data_[leftIndex]`, of `data_[rightIndex]` (made before `rightIndex` is compared
with `heap_size_`) and of `data_[index]` are in range, the round does not fail,
and the state it leaves has the same shape with `index < heap_size_`; the loop
starts at `(1, 2, 0)` and the lambda is only called with `heap_size_ = heapSize - 1`,
after `heapSize` has been decremented, so `heap_size_ < data_.size()`. Were it
called with `heap_size_ = data_.size()`, the early read of `data_[rightIndex]` would
be out of range. In the sift-up loop the parent index `(currentIndex - 1) / 2` of
an index in `[0, n)` is in `[0, n)` and not above the index, it is 0 for the index
0, and a round from such a state does not fail and leaves such a state. -/
theorem HeapSort_indices_in_range :
    (∀ data_ : List Int,
      ∃ d, NSortAlgorithms.HeapSort data_ = .ok d ∧ d.length = data_.length) ∧
    (∀ (heap_size_ index : Int) (d : List Int),
      0 ≤ index → 2 * index + 1 < heap_size_ → heap_size_ < d.length →
      (∃ l r x, vecGet d (2 * index + 1) = .ok l ∧ vecGet d (2 * index + 1 + 1) = .ok r ∧
        vecGet d index = .ok x) ∧
      ∃ next, HeapSort.siftDown heap_size_ (2 * index + 1, 2 * index + 1 + 1, index, d) =
          .ok next ∧
        ∀ l' r' i' d', next = .inl (l', r', i', d') →
          0 ≤ i' ∧ i' < heap_size_ ∧ l' = 2 * i' + 1 ∧ r' = l' + 1 ∧ d'.length = d.length) ∧
    (∀ (heapSize : Int) (d : List Int), heapSize > 1 → heapSize ≤ d.length →
      HeapSort.extract (heapSize, d) =
        (match HeapSort.sortFunc (swapAt d 0 (heapSize - 1)) (heapSize - 1) with
          | .error e => .error e
          | .ok d' => .ok (.inl (heapSize - 1, d'))) ∧
      heapSize - 1 < (swapAt d 0 (heapSize - 1)).length) ∧
    (∀ (d : List Int) (heap_size_ : Int),
      HeapSort.sortFunc d heap_size_ =
        loop (HeapSort.siftDown heap_size_) (d.length + 1) (2 * 0 + 1, 2 * 0 + 1 + 1, 0, d)) ∧
    HeapSort.siftDown 2 (1, 2, 0, [1, 2]) = .error .outOfRange ∧
    (∀ (currentIndex : Int) (d : List Int), 0 ≤ currentIndex → currentIndex < d.length →
      0 ≤ (currentIndex - 1).tdiv 2 ∧ (currentIndex - 1).tdiv 2 ≤ currentIndex ∧
      (currentIndex - 1).tdiv 2 < d.length ∧
      ∃ next, HeapSort.siftUp (currentIndex, (currentIndex - 1).tdiv 2, d) = .ok next ∧
        ∀ c' f' d', next = .inl (c', f', d') →
          0 ≤ c' ∧ c' < d'.length ∧ f' = (c' - 1).tdiv 2 ∧ d'.length = d.length) ∧
    ((0 : Int) - 1).tdiv 2 = 0 := by
  refine ⟨HeapSort_returns, ?_, ?_, fun d m => rfl, rfl, ?_, rfl⟩
  · intro m idx d h0 hl hm
    refine ⟨⟨_, _, _, vecGet_ok d (2 * idx + 1) (by omega) (by omega),
      vecGet_ok d (2 * idx + 1 + 1) (by omega) (by omega), vecGet_ok d idx h0 (by omega)⟩, ?_⟩
    have he := siftDown_eval m d idx h0 hl hm
    rw [show 2 * idx + 1 + 1 = 2 * idx + 2 by ring, he]
    have hmx : ∀ b : Bool, (b = true → 2 * idx + 2 < m) →
        0 ≤ (if b = true then 2 * idx + 2 else 2 * idx + 1) ∧
        (if b = true then 2 * idx + 2 else 2 * idx + 1) < m := by
      intro b hb
      cases b
      · simp only [Bool.false_eq_true, if_false]
        omega
      · have := hb rfl
        simp only [if_true]
        omega
    have hb := hmx (decide (nth d (2 * idx + 1) < nth d (2 * idx + 2)) &&
        decide (2 * idx + 2 < m)) (fun h => by
      simp only [Bool.and_eq_true, decide_eq_true_eq] at h
      exact h.2)
    generalize (if (decide (nth d (2 * idx + 1) < nth d (2 * idx + 2)) &&
        decide (2 * idx + 2 < m)) = true then 2 * idx + 2 else 2 * idx + 1) = mx at hb ⊢
    by_cases hc : idx = (if nth d idx > nth d mx then idx else mx)
    · rw [if_pos hc]
      exact ⟨_, rfl, fun l' r' i' d' h => by cases h⟩
    · rw [if_neg hc]
      refine ⟨_, rfl, ?_⟩
      intro l' r' i' d' h
      have p := Sum.inl.inj h
      have e1 := (Prod.mk.inj p).1
      have e2 := (Prod.mk.inj (Prod.mk.inj p).2).1
      have e3 := (Prod.mk.inj (Prod.mk.inj (Prod.mk.inj p).2).2).1
      have e4 := (Prod.mk.inj (Prod.mk.inj (Prod.mk.inj p).2).2).2
      subst e1 e2 e3 e4
      exact ⟨hb.1, hb.2, rfl, rfl, length_swapAt _ _ _⟩
  · intro hs d h hs1
    refine ⟨?_, by rw [length_swapAt]; omega⟩
    simp only [HeapSort.extract, h, if_true,
      vecSwap_ok d 0 (hs - 1) (le_refl 0) (by omega) (by omega) (by omega), bind, Except.bind,
      pure, Except.pure]
    cases HeapSort.sortFunc (swapAt d 0 (hs - 1)) (hs - 1) <;> rfl
  · intro c d hc0 hc1
    have hp := parent_tdiv c hc0
    have hf0 : 0 ≤ (c - 1).tdiv 2 := by
      rw [hp]
      split <;> omega
    have hfc : (c - 1).tdiv 2 ≤ c := by
      rw [hp]
      split <;> omega
    refine ⟨hf0, hfc, by omega, ?_⟩
    by_cases hgt : nth d c > nth d ((c - 1).tdiv 2)
    · rw [siftUp_swap d c _ hc0 hc1 hf0 (by omega) hgt]
      refine ⟨_, rfl, ?_⟩
      intro c' f' d' h
      have p := Sum.inl.inj h
      have e1 := (Prod.mk.inj p).1
      have e2 := (Prod.mk.inj (Prod.mk.inj p).2).1
      have e3 := (Prod.mk.inj (Prod.mk.inj p).2).2
      subst e1 e2 e3
      rw [length_swapAt]
      exact ⟨hf0, by omega, rfl, rfl⟩
    · rw [siftUp_stop d c _ hc0 hc1 hf0 (by omega) hgt]
      exact ⟨_, rfl, fun c' f' d' h => by cases h⟩

/-- C21, as stated, fails on a worker thread. `SleepSort` is not flagged
multi-threaded, yet each of its workers stores its value into a live strip
(`data_[workerOKNum++] = ...`). On such a thread, after exit has been requested,
`StopSort` returns without raising, and so does the assignment of an `int` to a
live strip, which changes the value and counts a step. -/
theorem worker_thread_is_not_cancelled :
    workerCancelWorld.s_exitStripSort = true ∧ workerCancelWorld.s_isMulThreadSort = false ∧
    workerCancelWorld.thisThread ≠ workerCancelWorld.s_mainThreadId ∧
    Strip.StopSort workerCancelWorld = (.ok (), workerCancelWorld) ∧
    (Strip.assignInt ⟨3, 0, 400, 133, 16777215, true⟩ 1 workerCancelWorld).1 = .ok () ∧
    (Strip.assignInt ⟨3, 0, 400, 133, 16777215, true⟩ 1 workerCancelWorld).2.1.m_value = 1 ∧
    (Strip.assignInt ⟨3, 0, 400, 133, 16777215, true⟩ 1 workerCancelWorld).2.2.AnimationStepNum
      = 1 := by
  refine ⟨rfl, rfl, by decide, rfl, rfl, rfl, rfl⟩

end NVisualSort
